import Mathlib

/-!
# BrainrotLang: a verification development

A shallow embedding of the compiler pipeline of `matlire/BrainrotLang`
(name table, symbol table, AST, S-expression I/O, optimizer, code generator,
unparser) together with theorems about the embedded code.

Conventions of the embedding.

* `size_t` is 64 bits wide; wrapping arithmetic is written with an explicit
  `% 2 ^ 64`.  `i64_t` values are `Int`s reduced into the signed 64-bit range
  by `wrap64`.
* Heap allocation (`malloc`, `calloc`, `realloc`) is taken to succeed; the
  `ERR_ALLOC` paths of the source are therefore not represented.
* The arrays of the symbol table are maps from indices to elements together
  with the count, so that slots beyond the count keep their stale contents
  exactly as the C buffers do; the name table, the token array and the tables
  of the code generator are lists of their live elements.
* Recursive-descent functions take a bound on the depth of the descent as
  their first argument; loops over the input take a bound derived from its
  length.
* An output file is the text written to it so far.
* The calls that an emitter of the code generator makes to `be_emit_vdecl_`
  are listed by `be_vdecl_calls_`, a second walk with the control flow of
  `be_emit_stmt_` that records the state on entry of each call.
* IEEE doubles are not interpreted: every definition that touches a `double`
  is parameterised by a record of the floating-point operations it uses.
-/

namespace Brainrot

/-! ## Basic types (`libs/types.h`, `lexer/lexer.h`, `ast/ast.h`) -/

/-- Result codes of the toolchain (`err_t`). -/
inductive err_t where
  | OK
  | ERR_BAD_ARG
  | ERR_ALLOC
  | ERR_CORRUPT
  | ERR_SYNTAX
  deriving DecidableEq, Repr, Inhabited

/-- The modulus of `size_t` arithmetic. -/
def SIZE_MOD : Nat := 2 ^ 64

/-- The sentinel `SIZE_MAX` ("no id"). -/
def SIZE_MAX : Nat := 2 ^ 64 - 1

/-- Semantic types of AST nodes and symbols (`ast_type_t`). -/
inductive ast_type_t where
  | AST_TYPE_UNKNOWN
  | AST_TYPE_INT
  | AST_TYPE_FLOAT
  | AST_TYPE_PTR
  | AST_TYPE_VOID
  deriving DecidableEq, Repr, Inhabited

/-- Source positions (`token_pos_t`). -/
structure token_pos_t where
  line : Nat
  column : Nat
  offset : Nat
  deriving DecidableEq, Repr, Inhabited

/-! ## Name table (`libs/hash/hash.c`, `lexer/lexer.c`) -/

/-- One round of `sdbm_n`:
`hash = (unsigned char)str[i] + (hash << 6) + (hash << 16) - hash` in `size_t`. -/
def sdbm_step (hash : Nat) (c : Char) : Nat :=
  (((c.toNat % 256 + (hash * 2 ^ 6) % SIZE_MOD) % SIZE_MOD + (hash * 2 ^ 16) % SIZE_MOD) % SIZE_MOD
      + (SIZE_MOD - hash % SIZE_MOD)) % SIZE_MOD

/-- The function `sdbm_n(str, len)`: the text is given as the list of its `len`
characters (bytes). -/
def sdbm_n (str : List Char) : Nat :=
  str.foldl sdbm_step 0

/-- An entry of the name table (`nametable_entry_t`): owned copy of the text,
its byte length and its precomputed hash. -/
structure nametable_entry_t where
  name : List Char
  length : Nat
  hash : Nat
  deriving DecidableEq, Repr, Inhabited

/-- The name table (`nametable_t`): `data` holds the `amount` stored entries in
insertion order (`amount = data.length`). -/
structure nametable_t where
  data : List nametable_entry_t
  capacity : Nat
  deriving DecidableEq, Repr, Inhabited

/-- The entry count `nametable->amount`. -/
def nametable_t.amount (nt : nametable_t) : Nat := nt.data.length

/-- The function `nametable_ctor`. -/
def nametable_ctor : nametable_t := { data := [], capacity := 0 }

/-- The function `nametable_ensure_capacity` (allocation succeeds). -/
def nametable_ensure_capacity (nt : nametable_t) (min_capacity : Nat) : nametable_t :=
  if nt.capacity ≥ min_capacity then nt
  else
    let new_cap := if nt.capacity > 0 then nt.capacity * 2 else 8
    let new_cap := if new_cap < min_capacity then min_capacity else new_cap
    { nt with capacity := new_cap }

/-- The search loop of `nametable_insert`: the first index `i`, counted from
`base`, whose entry has hash `h` and length `length`. -/
def nametable_scan (h length : Nat) : List nametable_entry_t → Nat → Option Nat
  | [], _ => none
  | e :: es, i =>
    if e.hash = h ∧ e.length = length then some i
    else nametable_scan h length es (i + 1)

/-- The function `nametable_insert(nametable, buffer, length)` with
`length = buffer.length`: the returned id and the table afterwards. -/
def nametable_insert (nt : nametable_t) (buffer : List Char) : Nat × nametable_t :=
  let h := sdbm_n buffer
  match nametable_scan h buffer.length nt.data 0 with
  | some i => (i, nt)
  | none =>
    let nt1 := nametable_ensure_capacity nt (nt.amount + 1)
    (nt.amount,
      { nt1 with data := nt1.data ++ [{ name := buffer, length := buffer.length, hash := h }] })

/-- The lookup `nametable.data[id].name` behind `ast_name_cstr`: `none` stands
for the `NULL` returned for `SIZE_MAX` and for ids beyond the entry count. -/
def nametable_get (nt : nametable_t) (id : Nat) : Option (List Char) :=
  if id = SIZE_MAX then none
  else if id ≥ nt.amount then none
  else (nt.data.get? id).map (fun e => e.name)

/-- The characters of a text given as a string literal. -/
def bytes_of (s : String) : List Char := s.toList

/-- First of two distinct identifiers with the same `sdbm_n` hash and length. -/
def collide_a : List Char := bytes_of "knhukipsdokq"

/-- Second of two distinct identifiers with the same `sdbm_n` hash and length. -/
def collide_b : List Char := bytes_of "nlqfopjgukoj"

/-! ## Symbol table (`ast/ast.c`) -/

/-- Symbol kinds (`sym_kind_t`). -/
inductive sym_kind_t where
  | SYM_FUNC
  | SYM_PARAM
  | SYM_VAR
  deriving DecidableEq, Repr, Inhabited

/-- A symbol (`symbol_t`); `decl` stands for the address of the declaring node. -/
structure symbol_t where
  kind : sym_kind_t
  name_id : Nat
  type : ast_type_t
  decl : Nat
  deriving DecidableEq, Repr, Inhabited

/-- The symbol table (`symtable_t`).  `symbols` and `scopes` are the two
buffers, indexed from `0`; only the first `amount` symbols and the first
`scopes_amount` scopes are live, the slots beyond keep whatever was last
written there.  A scope is its `first_symbol` index. -/
structure symtable_t where
  symbols : Nat → symbol_t
  amount : Nat
  cap : Nat
  scopes : Nat → Nat
  scopes_amount : Nat
  scopes_cap : Nat

/-- The function `ensure_cap_` on the capacity alone (allocation succeeds). -/
def ensure_cap_ (cap need : Nat) : Nat :=
  if cap ≥ need then cap
  else
    let new_cap := if cap ≠ 0 then cap * 2 else 8
    if new_cap < need then need else new_cap

/-- The function `symtable_ctor`: `memset` to zero. -/
def symtable_ctor : symtable_t :=
  { symbols := fun _ => { kind := .SYM_FUNC, name_id := 0, type := .AST_TYPE_UNKNOWN, decl := 0 },
    amount := 0, cap := 0, scopes := fun _ => 0, scopes_amount := 0, scopes_cap := 0 }

/-- The function `symtable_push_scope`. -/
def symtable_push_scope (st : symtable_t) : symtable_t :=
  { st with
    scopes_cap := ensure_cap_ st.scopes_cap (st.scopes_amount + 1)
    scopes := Function.update st.scopes st.scopes_amount st.amount
    scopes_amount := st.scopes_amount + 1 }

/-- The function `symtable_pop_scope`. -/
def symtable_pop_scope (st : symtable_t) : symtable_t :=
  if st.scopes_amount = 0 then st
  else
    { st with
      amount := st.scopes (st.scopes_amount - 1)
      scopes_amount := st.scopes_amount - 1 }

/-- The function `lookup_range_(st, name_id, from, to_excl)`, by recursion on
`to_excl`: the loop `for (i = to_excl; i-- > from; )`. -/
def lookup_range_ (st : symtable_t) (name_id from_ : Nat) : Nat → Int
  | 0 => -1
  | i + 1 =>
    if i + 1 > from_ then
      if (st.symbols i).name_id = name_id then (i : Int)
      else lookup_range_ st name_id from_ i
    else -1

/-- The function `symtable_lookup_current`. -/
def symtable_lookup_current (st : symtable_t) (name_id : Nat) : Int :=
  if st.scopes_amount = 0 then -1
  else lookup_range_ st name_id (st.scopes (st.scopes_amount - 1)) st.amount

/-- The loop of `symtable_lookup`: `for (s = scopes_amount; s-- > 0; )` with
the running upper bound `to_` (the variable `to`). -/
def symtable_lookup_loop (st : symtable_t) (name_id : Nat) : Nat → Nat → Int
  | 0, _ => -1
  | s + 1, to_ =>
    let from_ := st.scopes s
    let idx := lookup_range_ st name_id from_ to_
    if idx ≥ 0 then idx else symtable_lookup_loop st name_id s from_

/-- The function `symtable_lookup`. -/
def symtable_lookup (st : symtable_t) (name_id : Nat) : Int :=
  if st.scopes_amount = 0 then -1
  else symtable_lookup_loop st name_id st.scopes_amount st.amount

/-- The function `symtable_declare`: the result code and the table afterwards. -/
def symtable_declare (st : symtable_t) (kind : sym_kind_t) (name_id : Nat) (type : ast_type_t)
    (decl : Nat) : err_t × symtable_t :=
  if symtable_lookup_current st name_id ≥ 0 then (.ERR_SYNTAX, st)
  else
    (.OK,
      { st with
        cap := ensure_cap_ st.cap (st.amount + 1)
        symbols := Function.update st.symbols st.amount
          { kind := kind, name_id := name_id, type := type, decl := decl }
        amount := st.amount + 1 })

/-- The live symbols of a table, in index order. -/
def live_symbols (st : symtable_t) : List symbol_t :=
  (List.range st.amount).map st.symbols

/-- The open scopes of a table (their `first_symbol` indices), outermost first. -/
def open_scopes (st : symtable_t) : List Nat :=
  (List.range st.scopes_amount).map st.scopes

/-- The arguments of one `symtable_declare` call. -/
structure declare_args where
  kind : sym_kind_t
  name_id : Nat
  type : ast_type_t
  decl : Nat
  deriving DecidableEq, Repr, Inhabited

/-- A sequence of `symtable_declare` calls, successful or not; result codes
are dropped. -/
def symtable_declare_all (st : symtable_t) (ds : List declare_args) : symtable_t :=
  ds.foldl (fun s d => (symtable_declare s d.kind d.name_id d.type d.decl).2) st

/-- Tables reachable from `symtable_ctor` by `symtable_push_scope`,
`symtable_pop_scope` and `symtable_declare`. -/
inductive Reachable : symtable_t → Prop where
  | ctor : Reachable symtable_ctor
  | push (st : symtable_t) : Reachable st → Reachable (symtable_push_scope st)
  | pop (st : symtable_t) : Reachable st → Reachable (symtable_pop_scope st)
  | declare (st : symtable_t) (kind : sym_kind_t) (name_id : Nat) (type : ast_type_t)
      (decl : Nat) : Reachable st → Reachable (symtable_declare st kind name_id type decl).2

/-- Tables reachable from `symtable_ctor` when `symtable_declare` is only
called while a scope is open (as the parser does: `ast_tree_ctor` opens the
global scope right after `symtable_ctor`). -/
inductive ReachableScoped : symtable_t → Prop where
  | ctor : ReachableScoped symtable_ctor
  | push (st : symtable_t) : ReachableScoped st → ReachableScoped (symtable_push_scope st)
  | pop (st : symtable_t) : ReachableScoped st → ReachableScoped (symtable_pop_scope st)
  | declare (st : symtable_t) (kind : sym_kind_t) (name_id : Nat) (type : ast_type_t)
      (decl : Nat) : ReachableScoped st → 0 < st.scopes_amount →
      ReachableScoped (symtable_declare st kind name_id type decl).2

/-- The statement "`symtable_lookup st name_id` is the nearest binding": it is
the greatest live index carrying `name_id`, and `-1` exactly when no live
symbol carries `name_id`. -/
def lookup_is_nearest (st : symtable_t) (name_id : Nat) : Prop :=
  (∀ i : Nat, i < st.amount → (st.symbols i).name_id = name_id →
      (∀ j : Nat, j < st.amount → (st.symbols j).name_id = name_id → j ≤ i) →
      symtable_lookup st name_id = (i : Int)) ∧
  (symtable_lookup st name_id = -1 ↔
      ∀ i : Nat, i < st.amount → (st.symbols i).name_id ≠ name_id)

/-- A table with one symbol `7` declared before any scope was opened, then one
scope opened. -/
def st_unscoped : symtable_t :=
  symtable_push_scope (symtable_declare symtable_ctor .SYM_VAR 7 .AST_TYPE_INT 0).2

/-- A table with a global scope holding `x = 7`, and an inner scope holding a
shadowing `x = 7` and `y = 9`. -/
def st_shadow : symtable_t :=
  (symtable_declare
    (symtable_declare
      (symtable_push_scope
        (symtable_declare (symtable_push_scope symtable_ctor) .SYM_VAR 7 .AST_TYPE_INT 1).2)
      .SYM_VAR 7 .AST_TYPE_FLOAT 2).2
    .SYM_VAR 9 .AST_TYPE_INT 3).2

/-- The scope stack is ordered: each of the first `s` scopes starts at or below
the start of the next one, the last of them at or below `to_`. -/
def scope_chain (scopes : Nat → Nat) : Nat → Nat → Prop
  | 0, _ => True
  | s + 1, to_ => scopes s ≤ to_ ∧ scope_chain scopes s (scopes s)

/-- The invariant of tables built while a scope is open: the scope stack is
ordered below `amount`, the outermost scope starts at `0`, and without a
scope there is no live symbol. -/
def scoped_inv (st : symtable_t) : Prop :=
  scope_chain st.scopes st.scopes_amount st.amount ∧
  (0 < st.scopes_amount → st.scopes 0 = 0) ∧
  (st.scopes_amount = 0 → st.amount = 0)

/-! ## Tokens and the AST (`lexer/token_list.h`, `lexer/lexer.h`, `ast/ast.h`) -/

/-- Token kinds (`token_kind_t`), in the order of `TOKEN_LIST`. -/
inductive token_kind_t where
  | TOK_EOF | TOK_ERROR | TOK_IDENTIFIER | TOK_NUMERIC_LITERAL | TOK_STRING_LITERAL
  | TOK_LPAREN | TOK_RPAREN | TOK_COMMA | TOK_SEMICOLON
  | TOK_OP_OR | TOK_OP_AND | TOK_OP_EQ | TOK_OP_NEQ | TOK_OP_GT | TOK_OP_LT
  | TOK_OP_GTE | TOK_OP_LTE | TOK_OP_PLUS | TOK_OP_MINUS | TOK_OP_MUL | TOK_OP_DIV
  | TOK_OP_POW | TOK_OP_NOT
  | TOK_KW_NPC | TOK_KW_HOMIE | TOK_KW_SUS | TOK_KW_SIMP
  | TOK_KW_YAP | TOK_KW_YAPITY | TOK_KW_LOWKEY | TOK_KW_HIGHKEY
  | TOK_KW_ALPHA | TOK_KW_OMEGA | TOK_KW_SIGMA | TOK_KW_GG | TOK_KW_MICDROP | TOK_KW_BRUH
  | TOK_KW_GASLIGHT | TOK_KW_BASED | TOK_KW_MID | TOK_KW_PEAK
  | TOK_KW_STAN | TOK_KW_AURA | TOK_KW_DELULU | TOK_KW_GOOBER | TOK_KW_BOZO
  deriving DecidableEq, Repr, Inhabited

/-- Modelled from the spec: `ast/ast_kinds.h` (the list `AST_KIND_LIST`) is not
among the sources; the node kinds are those the code names (`ASTK_...`) and
section 3 of the specification lists. -/
inductive ast_kind_t where
  | ASTK_EMPTY | ASTK_PROGRAM | ASTK_FUNC | ASTK_PARAM_LIST | ASTK_PARAM | ASTK_BLOCK
  | ASTK_VAR_DECL | ASTK_ASSIGN | ASTK_WHILE | ASTK_IF | ASTK_BRANCH | ASTK_ELSE
  | ASTK_RETURN | ASTK_BREAK | ASTK_CALL_STMT | ASTK_EXPR_STMT
  | ASTK_COUT | ASTK_ICOUT | ASTK_FCOUT
  | ASTK_IDENT | ASTK_CALL | ASTK_ARG_LIST | ASTK_NUM_LIT | ASTK_STR_LIT
  | ASTK_UNARY | ASTK_BINARY | ASTK_BUILTIN_UNARY
  deriving DecidableEq, Repr, Inhabited

/-- The builtin-unary ids (`ast_builtin_unary_t`); the field is an `int`-sized
enum that the S-expression reader fills from any decimal number. -/
def AST_BUILTIN_FLOOR : Int := 0
/-- The id of `aura`. -/
def AST_BUILTIN_CEIL : Int := 1
/-- The id of `delulu`. -/
def AST_BUILTIN_ROUND : Int := 2
/-- The id of `goober`. -/
def AST_BUILTIN_ITOF : Int := 3
/-- The id of `bozo`. -/
def AST_BUILTIN_FTOI : Int := 4

/-- Reduction of an integer into the range of `i64_t` (two's complement). -/
def wrap64 (x : Int) : Int :=
  (x + 2 ^ 63) % 2 ^ 64 - 2 ^ 63

/-- The operations on `double` the toolchain uses, over a carrier `F` of
double values: conversions from and to `i64_t`, the comparisons `==`, `<`,
`<=` (`!=`, `>` and `>=` are derived from them), arithmetic, the libm
functions `pow`, `floor`, `ceil`, `round`, the `printf` conversions `%lf` and
`%g`, and `strtod`. -/
structure f64_ops (F : Type) where
  of_i64 : Int → F
  to_i64 : F → Int
  eq : F → F → Bool
  lt : F → F → Bool
  le : F → F → Bool
  neg : F → F
  add : F → F → F
  sub : F → F → F
  mul : F → F → F
  div : F → F → F
  pow : F → F → F
  floor : F → F
  ceil : F → F
  round : F → F
  fmt_lf : F → List Char
  fmt_g : F → List Char
  strtod : List Char → F

/-- A numeric literal: the pair `lit_type`, `lit` (`literal_type_t` with the
`cell64_t` member it selects).  `LIT_NONE` comes with the all-zero cell. -/
inductive literal_t (F : Type) where
  | LIT_NONE
  | LIT_INT (i64 : Int)
  | LIT_FLOAT (f64 : F)
  deriving DecidableEq, Repr, Inhabited

/-- The kind-specific payload of a node (the union `u` of `ast_node_s`), tagged
by the member in use.  In `str`, `ptr` is the text the pointer designates, or
`none` for `NULL`. -/
inductive ast_payload (F : Type) where
  | zero
  | func (name_id : Nat) (ret_type : ast_type_t)
  | param (name_id : Nat) (type : ast_type_t)
  | vdecl (name_id : Nat) (type : ast_type_t)
  | assign (name_id : Nat)
  | ident (name_id : Nat)
  | call (name_id : Nat)
  | num (lit : literal_t F)
  | str (ptr : Option (List Char)) (len : Nat)
  | unary (op : token_kind_t)
  | binary (op : token_kind_t)
  | builtin_unary (id : Int)
  deriving DecidableEq, Repr, Inhabited

/-- An AST node with its sub-trees (`ast_node_t`): `left` is the first child,
`right` the next sibling, `nil` the `NULL` pointer.  The `parent` pointer is
not represented. -/
inductive ast_node (F : Type) where
  | nil : ast_node F
  | node (kind : ast_kind_t) (pos : token_pos_t) (type : ast_type_t) (u : ast_payload F)
      (left right : ast_node F) : ast_node F
  deriving DecidableEq, Repr, Inhabited

section ast
variable {F : Type}

/-- The member `u.unary.op` / `u.binary.op`; a zeroed union reads `TOK_EOF`. -/
def ast_payload.op : ast_payload F → token_kind_t
  | .unary op => op
  | .binary op => op
  | _ => .TOK_EOF

/-- The member `u.num`; a zeroed union reads `LIT_NONE`. -/
def ast_payload.lit : ast_payload F → literal_t F
  | .num lit => lit
  | _ => .LIT_NONE

/-- The member `u.builtin_unary.id`; a zeroed union reads `0`. -/
def ast_payload.builtin_id : ast_payload F → Int
  | .builtin_unary id => id
  | _ => 0

/-- The member `name_id` of the identifier-bearing payloads; a zeroed union reads `0`. -/
def ast_payload.name_id : ast_payload F → Nat
  | .func n _ => n
  | .param n _ => n
  | .vdecl n _ => n
  | .assign n => n
  | .ident n => n
  | .call n => n
  | _ => 0

/-- The member `ret_type` / `type` of `func`, `param`, `vdecl`. -/
def ast_payload.decl_type : ast_payload F → ast_type_t
  | .func _ t => t
  | .param _ t => t
  | .vdecl _ t => t
  | _ => .AST_TYPE_UNKNOWN

/-- The field `n->left`. -/
def ast_node.left : ast_node F → ast_node F
  | .nil => .nil
  | .node _ _ _ _ l _ => l

/-- The field `n->right`. -/
def ast_node.right : ast_node F → ast_node F
  | .nil => .nil
  | .node _ _ _ _ _ r => r

/-- The assignment `n->right = r`. -/
def ast_node.set_right : ast_node F → ast_node F → ast_node F
  | .nil, _ => .nil
  | .node k p t u l _, r => .node k p t u l r

/-- The test `n != NULL`. -/
def ast_node.is_some : ast_node F → Bool
  | .nil => false
  | .node _ _ _ _ _ _ => true

/-- The walk `while (c && idx--) c = c->right` of `ast_child`. -/
def sibling_at : ast_node F → Nat → ast_node F
  | .nil, _ => .nil
  | c, 0 => c
  | .node _ _ _ _ _ r, idx + 1 => sibling_at r idx

/-- The function `ast_child(node, idx)`. -/
def ast_child (node : ast_node F) (idx : Nat) : ast_node F :=
  sibling_at node.left idx

/-- The function `ast_add_child(parent, child)`: the walk to the last sibling
of the chain `c`, where `child` is linked with `child->right = NULL`. -/
def append_sibling : ast_node F → ast_node F → ast_node F
  | .nil, child => child.set_right .nil
  | .node k p t u l r, child => .node k p t u l (append_sibling r child)

/-- The function `ast_add_child(parent, child)`. -/
def ast_add_child (parent child : ast_node F) : ast_node F :=
  match parent, child with
  | .nil, _ => .nil
  | p, .nil => p
  | .node k p t u l r, c => .node k p t u (append_sibling l c) r

/-- The node created by `ast_new(tree, kind, pos)`: `calloc`ed, so with a
zeroed payload, unknown type and no links. -/
def ast_new (kind : ast_kind_t) (pos : token_pos_t) : ast_node F :=
  .node kind pos .AST_TYPE_UNKNOWN .zero .nil .nil

end ast

/-! ## A reference instance of the floating-point operations -/

/-- Decimal digits of a natural number (`%zu`, `%llu`). -/
def fmt_nat (n : Nat) : List Char := (Nat.repr n).toList

/-- Decimal text of an integer (`%lld`, `%d`). -/
def fmt_int (i : Int) : List Char :=
  match i with
  | Int.ofNat n => fmt_nat n
  | Int.negSucc n => '-' :: fmt_nat (n + 1)

/-- A reference instance of `f64_ops`, used to run the definitions on concrete
inputs: a double is read as the rational it denotes and arithmetic is exact;
`pow` is defined for integer exponents, text output is `num/den`, and `strtod`
is not interpreted.  No theorem depends on it except through such runs. -/
def exact_ops : f64_ops ℚ where
  of_i64 := fun i => (i : ℚ)
  to_i64 := fun q => wrap64 (Int.tdiv q.num q.den)
  eq := fun a b => decide (a = b)
  lt := fun a b => decide (a < b)
  le := fun a b => decide (a ≤ b)
  neg := fun a => -a
  add := fun a b => a + b
  sub := fun a b => a - b
  mul := fun a b => a * b
  div := fun a b => a / b
  pow := fun a b => if b.den = 1 then a ^ b.num else 0
  floor := fun a => ((Rat.floor a : Int) : ℚ)
  ceil := fun a => ((-(Rat.floor (-a)) : Int) : ℚ)
  round := fun a => if 0 ≤ a then ((Rat.floor (a + 1 / 2) : Int) : ℚ)
    else ((-(Rat.floor (-a + 1 / 2)) : Int) : ℚ)
  fmt_lf := fun a => fmt_int a.num ++ '/' :: fmt_nat a.den
  fmt_g := fun a => fmt_int a.num ++ '/' :: fmt_nat a.den
  strtod := fun _ => 0

/-! ## Optimizer (`middleend/middleend.c`) -/

section optimizer
variable {F : Type}

/-- The literal of a node, `n->u.num` (with `LIT_NONE` for `NULL`). -/
def ast_node.lit : ast_node F → literal_t F
  | .nil => .LIT_NONE
  | .node _ _ _ u _ _ => u.lit

/-- The function `is_num_lit_`. -/
def is_num_lit_ : ast_node F → Bool
  | .node .ASTK_NUM_LIT _ _ u _ _ =>
    match u.lit with
    | .LIT_INT _ => true
    | .LIT_FLOAT _ => true
    | .LIT_NONE => false
  | _ => false

/-- The test `n->u.num.lit_type == LIT_FLOAT`. -/
def lit_is_float : ast_node F → Bool
  | .node _ _ _ u _ _ =>
    match u.lit with
    | .LIT_FLOAT _ => true
    | _ => false
  | .nil => false

/-- The test `n->u.num.lit_type == LIT_INT`. -/
def lit_is_int : ast_node F → Bool
  | .node _ _ _ u _ _ =>
    match u.lit with
    | .LIT_INT _ => true
    | _ => false
  | .nil => false

/-- The function `as_f64_`. -/
def as_f64_ (ops : f64_ops F) (n : ast_node F) : F :=
  match n.lit with
  | .LIT_FLOAT f => f
  | .LIT_INT i => ops.of_i64 i
  | .LIT_NONE => ops.of_i64 0

/-- The function `as_i64_`. -/
def as_i64_ (ops : f64_ops F) (n : ast_node F) : Int :=
  match n.lit with
  | .LIT_FLOAT f => ops.to_i64 f
  | .LIT_INT i => i
  | .LIT_NONE => 0

/-- The function `is_zero_`. -/
def is_zero_ (ops : f64_ops F) (n : ast_node F) : Bool :=
  if !is_num_lit_ n then false
  else
    match n.lit with
    | .LIT_FLOAT f => ops.eq f (ops.of_i64 0)
    | .LIT_INT i => decide (i = 0)
    | .LIT_NONE => false

/-- The function `is_one_`. -/
def is_one_ (ops : f64_ops F) (n : ast_node F) : Bool :=
  if !is_num_lit_ n then false
  else
    match n.lit with
    | .LIT_FLOAT f => ops.eq f (ops.of_i64 1)
    | .LIT_INT i => decide (i = 1)
    | .LIT_NONE => false

/-- The function `truthy_`. -/
def truthy_ (ops : f64_ops F) (n : ast_node F) : Bool :=
  if !is_num_lit_ n then false
  else
    match n.lit with
    | .LIT_FLOAT f => !ops.eq f (ops.of_i64 0)
    | .LIT_INT i => decide (i ≠ 0)
    | .LIT_NONE => false

/-- The function `make_num_int_(n, v)`. -/
def make_num_int_ (n : ast_node F) (v : Int) : ast_node F :=
  match n with
  | .nil => .nil
  | .node _ p _ _ _ r => .node .ASTK_NUM_LIT p .AST_TYPE_INT (.num (.LIT_INT v)) .nil r

/-- The function `make_num_float_(n, v)`. -/
def make_num_float_ (n : ast_node F) (v : F) : ast_node F :=
  match n with
  | .nil => .nil
  | .node _ p _ _ _ r => .node .ASTK_NUM_LIT p .AST_TYPE_FLOAT (.num (.LIT_FLOAT v)) .nil r

/-- The loop of `ipow_ok_`, `while (e > 0) { if (e & 1) res *= b; e >>= 1; if (e) b *= b; }`,
in wrapping 64-bit arithmetic; `fuel` bounds the number of rounds. -/
def ipow_loop : Nat → Int → Int → Int → Int
  | 0, res, _, _ => res
  | fuel + 1, res, b, e =>
    if e > 0 then
      let res1 := if e % 2 = 1 then wrap64 (res * b) else res
      let e1 := e / 2
      let b1 := if e1 ≠ 0 then wrap64 (b * b) else b
      ipow_loop fuel res1 b1 e1
    else res

/-- The function `ipow_ok_(base, exp, &out)`: `none` is the return value `0`,
`some out` the return value `1`.  An exponent below `2 ^ 63` is exhausted by
64 halvings. -/
def ipow_ok_ (base exp : Int) : Option Int :=
  if exp < 0 then none
  else some (ipow_loop 64 1 base exp)

/-- The function `child_`. -/
def child_ (n : ast_node F) (idx : Nat) : ast_node F :=
  ast_child n idx

/-- The function `replace_with_(node, repl)`. -/
def replace_with_ (node repl : ast_node F) : ast_node F :=
  match node, repl with
  | .nil, _ => node
  | _, .nil => node
  | .node _ _ _ _ _ sib, .node k p t u l _ => .node k p t u l sib

/-- The `ASTK_UNARY` branch of `optimize_one_` (macros `OPT_UNARY_COPY_`,
`OPT_UNARY_NEG_`, `OPT_UNARY_NOT_`). -/
def optimize_unary_ (ops : f64_ops F) (n : ast_node F) (op : token_kind_t) : ast_node F :=
  let a := child_ n 0
  if is_num_lit_ a then
    match op with
    | .TOK_OP_PLUS =>
      if lit_is_float a then make_num_float_ n (as_f64_ ops a)
      else make_num_int_ n (as_i64_ ops a)
    | .TOK_OP_MINUS =>
      if lit_is_float a then make_num_float_ n (ops.neg (as_f64_ ops a))
      else make_num_int_ n (wrap64 (-(as_i64_ ops a)))
    | .TOK_OP_NOT => make_num_int_ n (if truthy_ ops a then 0 else 1)
    | _ => n
  else n

/-- The `ASTK_BUILTIN_UNARY` branch of `optimize_one_`. -/
def optimize_builtin_ (ops : f64_ops F) (n : ast_node F) (id : Int) : ast_node F :=
  let a := child_ n 0
  if is_num_lit_ a then
    let x := as_f64_ ops a
    if id = AST_BUILTIN_FLOOR then make_num_float_ n (ops.floor x)
    else if id = AST_BUILTIN_CEIL then make_num_float_ n (ops.ceil x)
    else if id = AST_BUILTIN_ROUND then make_num_float_ n (ops.round x)
    else if id = AST_BUILTIN_ITOF then make_num_float_ n (ops.of_i64 (as_i64_ ops a))
    else if id = AST_BUILTIN_FTOI then make_num_int_ n (ops.to_i64 (as_f64_ ops a))
    else n
  else n

/-- The value `(x) ? 1 : 0`. -/
def bool_i64 (b : Bool) : Int := if b then 1 else 0

/-- The constant-folding switch of `optimize_one_` for two numeric literals
`l`, `r` (macros `OPT_BIN_TO_INT_`, `OPT_BIN_ARITH_`, `OPT_BIN_DIV_`,
`OPT_BIN_POW_`).  Integer division is C's truncating division. -/
def optimize_fold_ (ops : f64_ops F) (n l r : ast_node F) (op : token_kind_t) : ast_node F :=
  let any_float := lit_is_float l || lit_is_float r
  match op with
  | .TOK_OP_OR => make_num_int_ n (bool_i64 (truthy_ ops l || truthy_ ops r))
  | .TOK_OP_AND => make_num_int_ n (bool_i64 (truthy_ ops l && truthy_ ops r))
  | .TOK_OP_EQ => make_num_int_ n (bool_i64 (ops.eq (as_f64_ ops l) (as_f64_ ops r)))
  | .TOK_OP_NEQ => make_num_int_ n (bool_i64 (!ops.eq (as_f64_ ops l) (as_f64_ ops r)))
  | .TOK_OP_GT => make_num_int_ n (bool_i64 (ops.lt (as_f64_ ops r) (as_f64_ ops l)))
  | .TOK_OP_LT => make_num_int_ n (bool_i64 (ops.lt (as_f64_ ops l) (as_f64_ ops r)))
  | .TOK_OP_GTE => make_num_int_ n (bool_i64 (ops.le (as_f64_ ops r) (as_f64_ ops l)))
  | .TOK_OP_LTE => make_num_int_ n (bool_i64 (ops.le (as_f64_ ops l) (as_f64_ ops r)))
  | .TOK_OP_PLUS =>
    if any_float then make_num_float_ n (ops.add (as_f64_ ops l) (as_f64_ ops r))
    else make_num_int_ n (wrap64 (as_i64_ ops l + as_i64_ ops r))
  | .TOK_OP_MINUS =>
    if any_float then make_num_float_ n (ops.sub (as_f64_ ops l) (as_f64_ ops r))
    else make_num_int_ n (wrap64 (as_i64_ ops l - as_i64_ ops r))
  | .TOK_OP_MUL =>
    if any_float then make_num_float_ n (ops.mul (as_f64_ ops l) (as_f64_ ops r))
    else make_num_int_ n (wrap64 (as_i64_ ops l * as_i64_ ops r))
  | .TOK_OP_DIV =>
    if any_float then
      let rv := as_f64_ ops r
      if ops.eq rv (ops.of_i64 0) then n
      else make_num_float_ n (ops.div (as_f64_ ops l) rv)
    else
      let rv := as_i64_ ops r
      if rv = 0 then n
      else make_num_int_ n (wrap64 (Int.tdiv (as_i64_ ops l) rv))
  | .TOK_OP_POW =>
    if !any_float && lit_is_int r then
      match ipow_ok_ (as_i64_ ops l) (as_i64_ ops r) with
      | some out => make_num_int_ n out
      | none => make_num_float_ n (ops.pow (as_f64_ ops l) (as_f64_ ops r))
    else make_num_float_ n (ops.pow (as_f64_ ops l) (as_f64_ ops r))
  | _ => n

/-- The `ASTK_BINARY` branch of `optimize_one_`: the algebraic rules, then
constant folding. -/
def optimize_binary_ (ops : f64_ops F) (n : ast_node F) (op : token_kind_t) : ast_node F :=
  let l := child_ n 0
  let r := child_ n 1
  if !l.is_some || !r.is_some then n
  else
    let want_float := (is_num_lit_ l && lit_is_float l) || (is_num_lit_ r && lit_is_float r)
    let fold := if is_num_lit_ l && is_num_lit_ r then optimize_fold_ ops n l r op else n
    match op with
    | .TOK_OP_PLUS =>
      if is_zero_ ops r then replace_with_ n l
      else if is_zero_ ops l then replace_with_ n r
      else fold
    | .TOK_OP_MUL =>
      if is_zero_ ops l || is_zero_ ops r then
        if want_float then make_num_float_ n (ops.of_i64 0) else make_num_int_ n 0
      else if is_one_ ops r then replace_with_ n l
      else if is_one_ ops l then replace_with_ n r
      else fold
    | .TOK_OP_POW =>
      if is_zero_ ops r then
        if want_float then make_num_float_ n (ops.of_i64 1) else make_num_int_ n 1
      else if is_one_ ops r then replace_with_ n l
      else if is_one_ ops l then
        if want_float then make_num_float_ n (ops.of_i64 1) else make_num_int_ n 1
      else fold
    | _ => fold

/-- The part of `optimize_one_` that follows the optimization of the children:
`n` is the node with its child list already optimized. -/
def optimize_node_ (ops : f64_ops F) (n : ast_node F) : ast_node F :=
  match n with
  | .nil => .nil
  | .node .ASTK_UNARY _ _ u _ _ => optimize_unary_ ops n u.op
  | .node .ASTK_BUILTIN_UNARY _ _ u _ _ => optimize_builtin_ ops n u.builtin_id
  | .node .ASTK_BINARY _ _ u _ _ => optimize_binary_ ops n u.op
  | .node _ _ _ _ _ _ => n

/-- The function `optimize_chain_(head, parent, changed)`: `optimize_one_` on
the head, then the chain behind it.  On every return path of `optimize_one_`
the node returned has the `right` link of `head` (`make_num_*` keeps it,
`replace_with_` copies it), so `cur->right` is the `right` of `head`. -/
def optimize_chain_ (ops : f64_ops F) : ast_node F → ast_node F
  | .nil => .nil
  | .node k p t u l r =>
    (optimize_node_ ops (.node k p t u (optimize_chain_ ops l) r)).set_right
      (optimize_chain_ ops r)

/-- The function `optimize_one_(n, parent, changed)`. -/
def optimize_one_ (ops : f64_ops F) : ast_node F → ast_node F
  | .nil => .nil
  | .node k p t u l r => optimize_node_ ops (.node k p t u (optimize_chain_ ops l) r)

/-- The function `ast_optimize` on the root of the tree. -/
def ast_optimize (ops : f64_ops F) (root : ast_node F) : ast_node F :=
  optimize_chain_ ops root

end optimizer

/-- The possible results `m` of one rewriting step of `optimize_one_` on `n`:
`n` itself, `n` turned into a literal, or one of the first two children of `n`
put in its place. -/
def opt_shape {F : Type} (n m : ast_node F) : Prop :=
  m = n ∨ (∃ v, m = make_num_int_ n v) ∨ (∃ v, m = make_num_float_ n v) ∨
    m = replace_with_ n (child_ n 0) ∨ m = replace_with_ n (child_ n 1)

/-- A chain on which `optimize_chain_` changes nothing. -/
def opt_stable {F : Type} (ops : f64_ops F) (n : ast_node F) : Prop :=
  optimize_chain_ ops n = n

section optimizer_literals
variable {F : Type}

/-- A zero literal: the int literal `0`, or a float literal that compares
equal to `0.0` (`0.0` and `-0.0`). -/
def zero_literal (ops : f64_ops F) : literal_t F → Bool
  | .LIT_INT i => decide (i = 0)
  | .LIT_FLOAT f => ops.eq f (ops.of_i64 0)
  | .LIT_NONE => false

/-- The node `BINARY(/, l, z)` of two numeric literal leaves, with the
positions and semantic types given, followed by the sibling chain `sib`. -/
def div_node (pn pl pz : token_pos_t) (tn tl tz : ast_type_t) (l z : literal_t F)
    (sib : ast_node F) : ast_node F :=
  .node .ASTK_BINARY pn tn (.binary .TOK_OP_DIV)
    (.node .ASTK_NUM_LIT pl tl (.num l) .nil
      (.node .ASTK_NUM_LIT pz tz (.num z) .nil .nil)) sib

end optimizer_literals

/-! ## Literal nodes and call sequences -/

section literal_nodes
variable {F : Type}

/-- The numeric literal leaf with literal `l`, followed by the sibling chain `sib`. -/
def lit_node (p : token_pos_t) (t : ast_type_t) (l : literal_t F) (sib : ast_node F) :
    ast_node F :=
  .node .ASTK_NUM_LIT p t (.num l) .nil sib

/-- The node `BINARY(op, l, r)` of two numeric literal leaves, with the
positions and semantic types given, followed by the sibling chain `sib`. -/
def lit_bin_node (op : token_kind_t) (pn pl pr : token_pos_t) (tn tl tr : ast_type_t)
    (l r : literal_t F) (sib : ast_node F) : ast_node F :=
  .node .ASTK_BINARY pn tn (.binary op) (lit_node pl tl l (lit_node pr tr r .nil)) sib

/-- The callees of the `CALL` nodes of a tree, in pre-order (a node, its
children, then its later siblings), by name id. -/
def calls_of : ast_node F → List Nat
  | .nil => []
  | .node k _ _ u l r =>
    (if k = .ASTK_CALL then [u.name_id] else []) ++ calls_of l ++ calls_of r

end literal_nodes

/-- The number of low bits that `n` has beyond 53 significant bits (`fuel`
bounds it). -/
def excess_bits : Nat → Nat → Nat
  | 0, _ => 0
  | fuel + 1, n => if n < 2 ^ 53 then 0 else 1 + excess_bits fuel (n / 2)

/-- The integer nearest to `i` among those with at most 53 significant bits,
ties going to the even one: the value of the conversion `(double)i` of an
`i64_t`. -/
def round53 (i : Int) : Int :=
  let n := i.natAbs
  let sh := excess_bits 64 n
  if sh = 0 then i
  else
    let q := n / 2 ^ sh
    let rem := n % 2 ^ sh
    let half := 2 ^ (sh - 1)
    let q1 := if rem > half ∨ (rem = half ∧ q % 2 = 1) then q + 1 else q
    if i < 0 then -((q1 * 2 ^ sh : Nat) : Int) else ((q1 * 2 ^ sh : Nat) : Int)

/-- The reference instance with the conversion from `i64_t` rounded as the
conversion to `double` rounds it; the other operations are those of
`exact_ops`. -/
def rounding_ops : f64_ops ℚ :=
  { exact_ops with of_i64 := fun i => (round53 i : ℚ) }

/-! ## Code generator (`backend/backend.c`, `backend/backend.h`) -/

/-- Modelled from the spec: `ast/ast_kinds.h` is not among the sources; the
text of a kind (`ast_kind_to_cstr`) is taken to be its name as the
specification writes it (`PROGRAM`, `FUNC`, `NUM_LIT`, ...). -/
def ast_kind_to_cstr : ast_kind_t → String
  | .ASTK_EMPTY => "EMPTY"
  | .ASTK_PROGRAM => "PROGRAM"
  | .ASTK_FUNC => "FUNC"
  | .ASTK_PARAM_LIST => "PARAM_LIST"
  | .ASTK_PARAM => "PARAM"
  | .ASTK_BLOCK => "BLOCK"
  | .ASTK_VAR_DECL => "VAR_DECL"
  | .ASTK_ASSIGN => "ASSIGN"
  | .ASTK_WHILE => "WHILE"
  | .ASTK_IF => "IF"
  | .ASTK_BRANCH => "BRANCH"
  | .ASTK_ELSE => "ELSE"
  | .ASTK_RETURN => "RETURN"
  | .ASTK_BREAK => "BREAK"
  | .ASTK_CALL_STMT => "CALL_STMT"
  | .ASTK_EXPR_STMT => "EXPR_STMT"
  | .ASTK_COUT => "COUT"
  | .ASTK_ICOUT => "ICOUT"
  | .ASTK_FCOUT => "FCOUT"
  | .ASTK_IDENT => "IDENT"
  | .ASTK_CALL => "CALL"
  | .ASTK_ARG_LIST => "ARG_LIST"
  | .ASTK_NUM_LIT => "NUM_LIT"
  | .ASTK_STR_LIT => "STR_LIT"
  | .ASTK_UNARY => "UNARY"
  | .ASTK_BINARY => "BINARY"
  | .ASTK_BUILTIN_UNARY => "BUILTIN_UNARY"

/-- The text of a character list. -/
def str_of_bytes (bs : List Char) : String := String.mk bs

/-- What `%s` prints for the result of `ast_name_cstr`. -/
def name_str (nt : nametable_t) (id : Nat) : String :=
  match nametable_get nt id with
  | some bs => str_of_bytes bs
  | none => "(null)"

/-- Function metadata (`func_meta_t`). -/
structure func_meta_t where
  name_id : Nat
  label : String
  ret_type : ast_type_t
  param_count : Nat
  param_types : List ast_type_t
  local_count : Nat
  deriving DecidableEq, Repr, Inhabited

/-- A variable binding (`binding_t`). -/
structure binding_t where
  name_id : Nat
  type : ast_type_t
  offset : Nat
  depth : Nat
  deriving DecidableEq, Repr, Inhabited

/-- The code generator state (`backend_t`) together with what it reads and
writes outside itself: the name table of the tree, the error slot of the
operational buffer (`error_pos`, `error_msg`), and the lines written to the
output file.  `funcs`, `binds`, `loops` hold the live elements of the
three vectors; a loop context is its end label. -/
structure backend_t where
  nametable : nametable_t
  error_pos : Nat
  error_msg : String
  out : List String
  funcs : List func_meta_t
  binds : List binding_t
  loops : List String
  scope_depth : Nat
  label_counter : Nat
  cur_fn : Option func_meta_t
  next_local_offset : Nat
  fn_end_label : String
  deriving DecidableEq, Repr, Inhabited

/-- The function `be_set_error_`. -/
def be_set_error_ (be : backend_t) (pos : token_pos_t) (fallback_offset : Nat) (msg : String) :
    backend_t :=
  let error_pos := if pos.offset ≠ 0 then pos.offset else fallback_offset
  { be with
    error_pos := error_pos
    error_msg := msg ++ " at " ++ toString pos.line ++ ":" ++ toString pos.column
      ++ " (offset: " ++ toString error_pos ++ ")" }

/-- The position `__be_node ? __be_node->pos : (token_pos_t){0}` of `BE_FAIL_NODE`. -/
def node_pos {F : Type} : ast_node F → token_pos_t
  | .nil => { line := 0, column := 0, offset := 0 }
  | .node _ p _ _ _ _ => p

/-- The macro `BE_FAIL_NODE`: record the error, return `ERR_SYNTAX`. -/
def be_fail_node {F : Type} (be : backend_t) (node : ast_node F) (msg : String) :
    err_t × backend_t :=
  (.ERR_SYNTAX, be_set_error_ be (node_pos node) (node_pos node).offset msg)

/-- The function `be_emitf_` for a format that yields whole lines. -/
def be_emitf_ (be : backend_t) (lines : List String) : backend_t :=
  { be with out := be.out ++ lines }

/-- The function `be_new_label_`: the label and the state with the counter advanced. -/
def be_new_label_ (be : backend_t) (pfx : String) : String × backend_t :=
  (":L_" ++ pfx ++ "_" ++ toString be.label_counter,
    { be with label_counter := be.label_counter + 1 })

/-- The search of `be_bind_lookup_` from the last binding down: the list is
given innermost first, `i` is the index of its head. -/
def be_bind_scan (name_id : Nat) : List binding_t → Nat → Int
  | [], _ => -1
  | b :: bs, i => if b.name_id = name_id then (i : Int) else be_bind_scan name_id bs (i - 1)

/-- The function `be_bind_lookup_`. -/
def be_bind_lookup_ (be : backend_t) (name_id : Nat) : Int :=
  be_bind_scan name_id be.binds.reverse (be.binds.length - 1)

/-- The access `be->binds[(size_t)bi]`. -/
def be_bind_at (be : backend_t) (bi : Int) : binding_t :=
  (be.binds.get? bi.toNat).getD default

/-- The function `be_bind_push_`. -/
def be_bind_push_ (be : backend_t) (name_id : Nat) (type : ast_type_t) (offset depth : Nat) :
    backend_t :=
  { be with binds := be.binds ++ [{ name_id := name_id, type := type, offset := offset,
                                    depth := depth }] }

/-- The loop of `be_bind_pop_depth_` on the bindings, innermost first. -/
def bind_pop_rev (depth : Nat) : List binding_t → List binding_t
  | [] => []
  | b :: bs => if b.depth = depth then bind_pop_rev depth bs else b :: bs

/-- The function `be_bind_pop_depth_`. -/
def be_bind_pop_depth_ (be : backend_t) (depth : Nat) : backend_t :=
  { be with binds := (bind_pop_rev depth be.binds.reverse).reverse }

/-- The function `be_emit_addr_bp_off_`. -/
def be_emit_addr_bp_off_ (be : backend_t) (offset : Nat) : backend_t :=
  be_emitf_ be ["PUSHR x15", "POPR  x13", "PUSHR x13", "PUSH  " ++ toString offset, "ADD",
    "POPR  x13"]

/-- The function `be_emit_load_bp_off_`. -/
def be_emit_load_bp_off_ (be : backend_t) (offset : Nat) : backend_t :=
  be_emitf_ (be_emit_addr_bp_off_ be offset) ["PUSHM x13"]

/-- The function `be_emit_store_bp_off_`. -/
def be_emit_store_bp_off_ (be : backend_t) (offset : Nat) : backend_t :=
  be_emitf_ (be_emit_addr_bp_off_ be offset) ["POPM x13"]

/-- The function `be_emit_addr_sp_plus_`. -/
def be_emit_addr_sp_plus_ (be : backend_t) (imm : Nat) : backend_t :=
  let be1 := be_emitf_ be ["PUSHR x14", "POPR  x13"]
  if imm ≠ 0 then be_emitf_ be1 ["PUSHR x13", "PUSH  " ++ toString imm, "ADD", "POPR  x13"]
  else be1

/-- The function `be_find_func_`. -/
def be_find_func_ (be : backend_t) (name_id : Nat) : Option func_meta_t :=
  be.funcs.find? (fun f => f.name_id = name_id)

/-- The function `is_bool_op_`. -/
def is_bool_op_ (k : token_kind_t) : Bool :=
  k = .TOK_OP_EQ || k = .TOK_OP_NEQ || k = .TOK_OP_LT || k = .TOK_OP_GT ||
    k = .TOK_OP_LTE || k = .TOK_OP_GTE

/-- The function `streq_` against a string constant, for the result of `ast_name_cstr`. -/
def streq_ (name : Option (List Char)) (s : String) : Bool :=
  match name with
  | some bs => bs = bytes_of s
  | none => false

section backend
variable {F : Type}

/-- The number of nodes of a sibling chain (`arg_count_`, and the `pcount` loop). -/
def chain_length : ast_node F → Nat
  | .nil => 0
  | .node _ _ _ _ _ r => chain_length r + 1

/-- The function `arg_count_`. -/
def arg_count_ (args : ast_node F) : Nat :=
  chain_length args.left

/-- The function `be_count_locals_rec_`: the number of `VAR_DECL` nodes in the
nodes of a sibling chain and below them. -/
def count_locals_chain : ast_node F → Nat
  | .nil => 0
  | .node k _ _ _ l r =>
    (if k = .ASTK_VAR_DECL then 1 else 0) + count_locals_chain l + count_locals_chain r

/-- The function `be_count_locals_rec_(n, &out)`: the amount added to `out`. -/
def be_count_locals_rec_ : ast_node F → Nat
  | .nil => 0
  | .node k _ _ _ l _ => (if k = .ASTK_VAR_DECL then 1 else 0) + count_locals_chain l

/-- The function `be_infer_expr_type_`.  For a `BINARY` node the operand types
are read from `e->left` and `e->right`, as the source does. -/
def be_infer_expr_type_ (be : backend_t) : ast_node F → ast_type_t
  | .nil => .AST_TYPE_UNKNOWN
  | .node k _ t u l r =>
    if t ≠ .AST_TYPE_UNKNOWN then t
    else
      match k with
      | .ASTK_NUM_LIT =>
        match u.lit with
        | .LIT_FLOAT _ => .AST_TYPE_FLOAT
        | _ => .AST_TYPE_INT
      | .ASTK_IDENT =>
        let idx := be_bind_lookup_ be u.name_id
        if idx ≥ 0 then (be_bind_at be idx).type else .AST_TYPE_UNKNOWN
      | .ASTK_CALL =>
        let name := nametable_get be.nametable u.name_id
        if name.isNone then .AST_TYPE_UNKNOWN
        else if streq_ name "in" || streq_ name "cap" || streq_ name "cin" ||
            streq_ name "stinky" then .AST_TYPE_INT
        else if streq_ name "fin" || streq_ name "nocap" then .AST_TYPE_FLOAT
        else
          match be_find_func_ be u.name_id with
          | some fm => fm.ret_type
          | none => .AST_TYPE_UNKNOWN
      | .ASTK_BUILTIN_UNARY => .AST_TYPE_FLOAT
      | .ASTK_UNARY =>
        if u.op = .TOK_OP_NOT then .AST_TYPE_INT else be_infer_expr_type_ be l
      | .ASTK_BINARY =>
        let op := u.op
        if is_bool_op_ op || op = .TOK_OP_AND || op = .TOK_OP_OR then .AST_TYPE_INT
        else
          let lt := be_infer_expr_type_ be l
          let rt := be_infer_expr_type_ be r
          if op = .TOK_OP_POW then
            if lt = .AST_TYPE_INT ∧ rt = .AST_TYPE_INT then .AST_TYPE_INT else .AST_TYPE_FLOAT
          else if lt = .AST_TYPE_FLOAT ∨ rt = .AST_TYPE_FLOAT then .AST_TYPE_FLOAT
          else if lt = .AST_TYPE_UNKNOWN ∨ rt = .AST_TYPE_UNKNOWN then .AST_TYPE_UNKNOWN
          else .AST_TYPE_INT
      | _ => .AST_TYPE_UNKNOWN

/-- The jump and the lines of `be_emit_cmp_to_bool_` once the two labels exist. -/
def cmp_jump (opk : token_kind_t) : Option String :=
  match opk with
  | .TOK_OP_EQ => some "JE"
  | .TOK_OP_NEQ => some "JNE"
  | .TOK_OP_LT => some "JB"
  | .TOK_OP_LTE => some "JBE"
  | .TOK_OP_GT => some "JA"
  | .TOK_OP_GTE => some "JAE"
  | _ => none

/-- The function `be_emit_cmp_to_bool_`. -/
def be_emit_cmp_to_bool_ (be : backend_t) (op_node : ast_node F) (opk : token_kind_t) :
    err_t × backend_t :=
  let (L_true, be1) := be_new_label_ be "cmp_true"
  let (L_end, be2) := be_new_label_ be1 "cmp_end"
  match cmp_jump opk with
  | none => be_fail_node be2 op_node "Unsupported compare operator"
  | some jmp =>
    (.OK, be_emitf_ be2 [jmp ++ " " ++ L_true, "PUSH 0", "JMP " ++ L_end, L_true, "PUSH 1", L_end])

/-- The jump and the constant `k` chosen by `be_emit_fcmp_res_to_bool_`. -/
def fcmp_jump (opk : token_kind_t) : Option (String × Int) :=
  match opk with
  | .TOK_OP_EQ => some ("JE", 0)
  | .TOK_OP_NEQ => some ("JNE", 0)
  | .TOK_OP_LT => some ("JE", -1)
  | .TOK_OP_LTE => some ("JNE", 1)
  | .TOK_OP_GT => some ("JE", 1)
  | .TOK_OP_GTE => some ("JNE", -1)
  | _ => none

/-- The function `be_emit_fcmp_res_to_bool_`. -/
def be_emit_fcmp_res_to_bool_ (be : backend_t) (op_node : ast_node F) (opk : token_kind_t) :
    err_t × backend_t :=
  let (L_true, be1) := be_new_label_ be "fcmp_true"
  let (L_end, be2) := be_new_label_ be1 "fcmp_end"
  match fcmp_jump opk with
  | none => be_fail_node be2 op_node "Unsupported float-compare operator"
  | some (jmp, k) =>
    (.OK, be_emitf_ be2 ["PUSH " ++ toString k, jmp ++ " " ++ L_true, "PUSH 0", "JMP " ++ L_end,
      L_true, "PUSH 1", L_end])

/-- The result of an expression emitter: the return code, the value stored
through `out_type` (meaningful when the code is `OK`), and the state. -/
structure expr_result where
  rc : err_t
  out_type : ast_type_t
  be : backend_t
  deriving DecidableEq, Repr, Inhabited

/-- A failing result. -/
def expr_fail (r : err_t × backend_t) : expr_result :=
  { rc := r.1, out_type := .AST_TYPE_UNKNOWN, be := r.2 }

/-- The nullary builtins of `be_emit_builtin_call_` (`BE_BUILTIN0_RET`,
`BE_BUILTIN0_VOID`), in source order: name, instruction, result type. -/
def builtin0_table : List (String × String × ast_type_t) :=
  [("in", "IN", .AST_TYPE_INT), ("fin", "FIN", .AST_TYPE_FLOAT), ("cin", "CIN", .AST_TYPE_INT),
   ("draw", "DRAW", .AST_TYPE_VOID), ("clean_vm", "CLEANVM", .AST_TYPE_VOID),
   ("cap", "IN", .AST_TYPE_INT), ("nocap", "FIN", .AST_TYPE_FLOAT),
   ("stinky", "CIN", .AST_TYPE_INT),
   ("gyat", "DRAW", .AST_TYPE_VOID), ("skibidi", "CLEANVM", .AST_TYPE_VOID)]

/-- The first row of `builtin0_table` whose name is `name`. -/
def builtin0_find (name : Option (List Char)) : Option (String × String × ast_type_t) :=
  builtin0_table.find? (fun row => streq_ name row.1)

end backend

section backend_expr
variable {F : Type}

/-- The line `ITOF` when `c` holds, nothing otherwise. -/
def line_if (c : Bool) (line : String) : List String :=
  if c then [line] else []

/-- The conversion emitted to bring a value of type `at_` to the type `pt`
(call arguments, variable stores): `ITOF` into a float slot, `FTOI` out of a
float value. -/
def coerce_lines (pt at_ : ast_type_t) : List String :=
  line_if (pt = .AST_TYPE_FLOAT && at_ ≠ .AST_TYPE_FLOAT) "ITOF" ++
    line_if (pt ≠ .AST_TYPE_FLOAT && at_ = .AST_TYPE_FLOAT) "FTOI"

/-- The second node of a chain, `a ? a->right : NULL`. -/
def second_of : ast_node F → ast_node F
  | .nil => .nil
  | .node _ _ _ _ _ b => b

/-- The body of the argument loop of a call after the argument has been
emitted with result `ra`: conversion to the type of parameter `i` (when there
is one), then the store to `RAM[SP + i]`. -/
def call_arg_store (fm : func_meta_t) (i : Nat) (ra : expr_result) : backend_t :=
  let be1 :=
    if i - 1 < fm.param_count then
      be_emitf_ ra.be (coerce_lines ((fm.param_types.get? (i - 1)).getD default) ra.out_type)
    else ra.be
  be_emitf_ (be_emit_addr_sp_plus_ be1 i) ["POPM x13"]

/-- The body of `be_emit_builtin_call_`, with `argc = arg_count_(args)` and
with `emit_arg idx be` standing for `be_emit_expr_(be, arg_at_(args, idx), ...)`. -/
def be_builtin_call_body (be : backend_t) (pos : token_pos_t) (name_id : Nat) (argc : Nat)
    (emit_arg : Nat → backend_t → expr_result) : expr_result :=
  let name := nametable_get be.nametable name_id
  let fail := fun (b : backend_t) (msg : String) =>
    expr_fail (.ERR_SYNTAX, be_set_error_ b pos pos.offset msg)
  match builtin0_find name with
  | some (bname, instr, rt) =>
    if argc = 0 then { rc := .OK, out_type := rt, be := be_emitf_ be [instr] }
    else fail be (bname ++ "() takes 0 args")
  | none =>
    if streq_ name "out" || streq_ name "fout" || streq_ name "cout" ||
        streq_ name "pookie" || streq_ name "rizz" || streq_ name "menace" then
      if argc ≠ 1 then fail be (name_str be.nametable name_id ++ "() takes 1 arg")
      else
        let ra := emit_arg 0 be
        if ra.rc ≠ .OK then fail ra.be "bad arg"
        else
          let is_fout := streq_ name "fout" || streq_ name "rizz"
          let is_cout := streq_ name "cout" || streq_ name "menace"
          if is_fout then
            { rc := .OK, out_type := .AST_TYPE_FLOAT,
              be := be_emitf_ ra.be
                (line_if (ra.out_type ≠ .AST_TYPE_FLOAT) "ITOF" ++ ["FTOPOUT"]) }
          else
            { rc := .OK, out_type := .AST_TYPE_INT,
              be := be_emitf_ ra.be
                (line_if (ra.out_type = .AST_TYPE_FLOAT) "FTOI" ++
                  [if is_cout then "CTOPOUT" else "TOPOUT"]) }
    else if streq_ name "set_pixel" then
      if argc ≠ 3 then fail be "set_pixel(x,y,ch) takes 3 args"
      else
        let ry := emit_arg 1 be
        if ry.rc ≠ .OK then fail ry.be "bad y"
        else
          let be1 := be_emitf_ ry.be
            (line_if (ry.out_type = .AST_TYPE_FLOAT) "FTOI" ++ ["PUSH 128", "MUL"])
          let rx := emit_arg 0 be1
          if rx.rc ≠ .OK then fail rx.be "bad x"
          else
            let be2 := be_emitf_ rx.be
              (line_if (rx.out_type = .AST_TYPE_FLOAT) "FTOI" ++ ["ADD", "POPR x13"])
            let rch := emit_arg 2 be2
            if rch.rc ≠ .OK then fail rch.be "bad ch"
            else
              { rc := .OK, out_type := .AST_TYPE_VOID,
                be := be_emitf_ rch.be
                  (line_if (rch.out_type = .AST_TYPE_FLOAT) "FTOI" ++ ["POPVM x13"]) }
    else { rc := .ERR_BAD_ARG, out_type := .AST_TYPE_UNKNOWN, be := be }

mutual

/-- The function `be_emit_expr_`. -/
def be_emit_expr_ (ops : f64_ops F) (be : backend_t) : ast_node F → expr_result
  | .nil => { rc := .ERR_BAD_ARG, out_type := .AST_TYPE_UNKNOWN, be := be }
  | .node k p t u l r =>
    let e : ast_node F := .node k p t u l r
    match k with
    | .ASTK_NUM_LIT =>
      match u.lit with
      | .LIT_FLOAT f =>
        { rc := .OK, out_type := t, be := be_emitf_ be ["PUSH " ++ String.mk (ops.fmt_lf f)] }
      | .LIT_INT i => { rc := .OK, out_type := t, be := be_emitf_ be ["PUSH " ++ toString i] }
      | .LIT_NONE => { rc := .OK, out_type := t, be := be_emitf_ be ["PUSH 0"] }
    | .ASTK_IDENT =>
      let bi := be_bind_lookup_ be u.name_id
      if bi ≥ 0 then
        let b := be_bind_at be bi
        { rc := .OK, out_type := b.type, be := be_emit_load_bp_off_ be b.offset }
      else
        expr_fail (be_fail_node be e
          ("Unknown identifier '" ++ name_str be.nametable u.name_id ++ "'"))
    | .ASTK_CALL =>
      let brc := be_emit_builtin_call_ ops be p u.name_id l
      if brc.rc = .OK then brc
      else if brc.rc ≠ .ERR_BAD_ARG then brc
      else
        match be_find_func_ brc.be u.name_id with
        | none =>
          expr_fail (be_fail_node brc.be e
            ("Call to unknown function '" ++ name_str be.nametable u.name_id ++ "'"))
        | some fm =>
          match l with
          | .nil => expr_fail (be_fail_node brc.be e "Internal: CALL missing ARG_LIST")
          | .node ka _ _ _ _ _ =>
            if ka ≠ .ASTK_ARG_LIST then
              expr_fail (be_fail_node brc.be e "Internal: CALL missing ARG_LIST")
            else
              let rargs := be_emit_call_args_ ops brc.be fm l
              if rargs.1 ≠ .OK then expr_fail rargs
              else
                let be1 := be_emitf_ rargs.2 ["CALL " ++ fm.label]
                let be2 :=
                  if fm.ret_type = .AST_TYPE_FLOAT then be_emitf_ be1 ["FPUSHR fx0"]
                  else if fm.ret_type = .AST_TYPE_INT then be_emitf_ be1 ["PUSHR x0"]
                  else be1
                { rc := .OK, out_type := fm.ret_type, be := be2 }
    | .ASTK_UNARY =>
      let opk := u.op
      if !l.is_some then expr_fail (be_fail_node be e "Unary missing operand")
      else
        let rs := be_emit_expr_ ops be l
        if rs.rc ≠ .OK then expr_fail (rs.rc, rs.be)
        else
          let st := rs.out_type
          if opk = .TOK_OP_PLUS then { rc := .OK, out_type := st, be := rs.be }
          else if opk = .TOK_OP_MINUS then
            { rc := .OK, out_type := st,
              be := be_emitf_ rs.be
                (["POPR  x13", "PUSH 0"] ++ line_if (st = .AST_TYPE_FLOAT) "ITOF" ++
                  ["PUSHR x13", if st = .AST_TYPE_FLOAT then "FSUB" else "SUB"]) }
          else if opk = .TOK_OP_NOT then
            let be1 := be_emitf_ rs.be (line_if (st = .AST_TYPE_FLOAT) "FTOI" ++ ["PUSH 0"])
            let (L_true, be2) := be_new_label_ be1 "not_true"
            let (L_end, be3) := be_new_label_ be2 "not_end"
            { rc := .OK, out_type := .AST_TYPE_INT,
              be := be_emitf_ be3
                ["JE " ++ L_true, "PUSH 0", "JMP " ++ L_end, L_true, "PUSH 1", L_end] }
          else expr_fail (be_fail_node rs.be e "Unsupported unary operator")
    | .ASTK_BUILTIN_UNARY =>
      if !l.is_some then expr_fail (be_fail_node be e "builtin-unary missing operand")
      else
        let rs := be_emit_expr_ ops be l
        if rs.rc ≠ .OK then expr_fail (rs.rc, rs.be)
        else
          let st := rs.out_type
          let id := u.builtin_id
          if id = AST_BUILTIN_FLOOR then
            { rc := .OK, out_type := .AST_TYPE_FLOAT,
              be := be_emitf_ rs.be (line_if (st ≠ .AST_TYPE_FLOAT) "ITOF" ++ ["FLOOR"]) }
          else if id = AST_BUILTIN_CEIL then
            { rc := .OK, out_type := .AST_TYPE_FLOAT,
              be := be_emitf_ rs.be (line_if (st ≠ .AST_TYPE_FLOAT) "ITOF" ++ ["CEIL"]) }
          else if id = AST_BUILTIN_ROUND then
            { rc := .OK, out_type := .AST_TYPE_FLOAT,
              be := be_emitf_ rs.be (line_if (st ≠ .AST_TYPE_FLOAT) "ITOF" ++ ["ROUND"]) }
          else if id = AST_BUILTIN_ITOF then
            { rc := .OK, out_type := .AST_TYPE_FLOAT,
              be := be_emitf_ rs.be (line_if (st ≠ .AST_TYPE_FLOAT) "ITOF") }
          else if id = AST_BUILTIN_FTOI then
            { rc := .OK, out_type := .AST_TYPE_INT,
              be := be_emitf_ rs.be (line_if (st = .AST_TYPE_FLOAT) "FTOI") }
          else expr_fail (be_fail_node rs.be e "Unknown builtin-unary id")
    | .ASTK_BINARY =>
      let opk := u.op
      if !l.is_some || !(second_of l).is_some then
        expr_fail (be_fail_node be e "Binary missing operands")
      else if opk = .TOK_OP_AND || opk = .TOK_OP_OR then
        let ra := be_emit_expr_ ops be l
        if ra.rc ≠ .OK then expr_fail (ra.rc, ra.be)
        else
          let be1 := be_emitf_ ra.be (line_if (ra.out_type = .AST_TYPE_FLOAT) "FTOI")
          let rb := be_emit_sibling_ ops be1 l 0
          if rb.rc ≠ .OK then expr_fail (rb.rc, rb.be)
          else
            { rc := .OK, out_type := .AST_TYPE_INT,
              be := be_emitf_ rb.be (line_if (rb.out_type = .AST_TYPE_FLOAT) "FTOI" ++
                [if opk = .TOK_OP_AND then "AND" else "OR"]) }
      else if is_bool_op_ opk then
        let ra := be_emit_expr_ ops be l
        if ra.rc ≠ .OK then expr_fail (ra.rc, ra.be)
        else
          let rb := be_emit_sibling_ ops ra.be l 0
          if rb.rc ≠ .OK then expr_fail (rb.rc, rb.be)
          else
            let at_ := ra.out_type
            let bt := rb.out_type
            let rr :=
              if at_ = .AST_TYPE_FLOAT ∨ bt = .AST_TYPE_FLOAT then
                be_emit_fcmp_res_to_bool_
                  (be_emitf_ rb.be
                    (line_if (bt ≠ .AST_TYPE_FLOAT) "ITOF" ++
                      (if at_ ≠ .AST_TYPE_FLOAT then ["FPOPR fx1", "ITOF", "FPUSHR fx1"] else [])
                      ++ ["FCMP"]))
                  e opk
              else be_emit_cmp_to_bool_ rb.be e opk
            if rr.1 ≠ .OK then expr_fail rr
            else { rc := .OK, out_type := .AST_TYPE_INT, be := rr.2 }
      else if opk = .TOK_OP_POW then
        let ra := be_emit_expr_ ops be l
        if ra.rc ≠ .OK then expr_fail (ra.rc, ra.be)
        else
          let rb := be_emit_sibling_ ops ra.be l 0
          if rb.rc ≠ .OK then expr_fail (rb.rc, rb.be)
          else
            let at_ := ra.out_type
            let bt := rb.out_type
            let out : ast_type_t :=
              if at_ = .AST_TYPE_INT ∧ bt = .AST_TYPE_INT then .AST_TYPE_INT else .AST_TYPE_FLOAT
            if at_ = .AST_TYPE_INT ∧ bt = .AST_TYPE_INT then
              { rc := .OK, out_type := out, be := be_emitf_ rb.be ["POW"] }
            else if at_ = .AST_TYPE_FLOAT ∧ bt = .AST_TYPE_INT then
              { rc := .OK, out_type := out, be := be_emitf_ rb.be ["FPOW"] }
            else if at_ = .AST_TYPE_INT ∧ bt = .AST_TYPE_FLOAT then
              { rc := .OK, out_type := out, be := be_emitf_ rb.be ["POWF"] }
            else if at_ = .AST_TYPE_FLOAT ∧ bt = .AST_TYPE_FLOAT then
              { rc := .OK, out_type := out, be := be_emitf_ rb.be ["FPOWF"] }
            else
              expr_fail (be_fail_node rb.be e
                "Unsupported types for ^ (need int/float operands)")
      else
        let ta := be_infer_expr_type_ be l
        let tb := be_infer_expr_type_ be (second_of l)
        let want_float : Bool := ta = .AST_TYPE_FLOAT || tb = .AST_TYPE_FLOAT
        let ra := be_emit_expr_ ops be l
        if ra.rc ≠ .OK then expr_fail (ra.rc, ra.be)
        else
          let be1 :=
            if want_float then be_emitf_ ra.be (line_if (ra.out_type ≠ .AST_TYPE_FLOAT) "ITOF")
            else be_emitf_ ra.be (line_if (ra.out_type = .AST_TYPE_FLOAT) "FTOI")
          let rb := be_emit_sibling_ ops be1 l 0
          if rb.rc ≠ .OK then expr_fail (rb.rc, rb.be)
          else
            let be2 :=
              if want_float then be_emitf_ rb.be (line_if (rb.out_type ≠ .AST_TYPE_FLOAT) "ITOF")
              else be_emitf_ rb.be (line_if (rb.out_type = .AST_TYPE_FLOAT) "FTOI")
            let out : ast_type_t := if want_float then .AST_TYPE_FLOAT else .AST_TYPE_INT
            if opk = .TOK_OP_PLUS then
              { rc := .OK, out_type := out,
                be := be_emitf_ be2 [if want_float then "FADD" else "ADD"] }
            else if opk = .TOK_OP_MINUS then
              { rc := .OK, out_type := out,
                be := be_emitf_ be2 [if want_float then "FSUB" else "SUB"] }
            else if opk = .TOK_OP_MUL then
              { rc := .OK, out_type := out,
                be := be_emitf_ be2 [if want_float then "FMUL" else "MUL"] }
            else if opk = .TOK_OP_DIV then
              { rc := .OK, out_type := out,
                be := be_emitf_ be2 [if want_float then "FDIV" else "DIV"] }
            else expr_fail (be_fail_node be2 e "Unsupported binary operator")
    | _ =>
      expr_fail (be_fail_node be e
        ("Backend: unsupported expr kind " ++ ast_kind_to_cstr k))

/-- The call `be_emit_expr_(be, x, ...)` for the node `x` reached from `a` by
`idx + 1` steps along `right`: with `idx = 0` the second operand
`a->right` of a binary node, and `arg_at_(args, idx + 1)` for the first
argument `a` of `args`. -/
def be_emit_sibling_ (ops : f64_ops F) (be : backend_t) : ast_node F → Nat → expr_result
  | .nil, _ => { rc := .ERR_BAD_ARG, out_type := .AST_TYPE_UNKNOWN, be := be }
  | .node _ _ _ _ _ b, 0 => be_emit_expr_ ops be b
  | .node _ _ _ _ _ b, idx + 1 => be_emit_sibling_ ops be b idx

/-- The argument loop of a call to a declared function, `for (a = args->left;
a; a = a->right, ++i)`, entered at `args`: each argument is emitted,
converted to the parameter type and stored at `RAM[SP + i]`. -/
def be_emit_call_args_ (ops : f64_ops F) (be : backend_t) (fm : func_meta_t) :
    ast_node F → err_t × backend_t
  | .nil => (.OK, be)
  | .node _ _ _ _ a _ =>
    if !a.is_some then (.OK, be)
    else
      let ra := be_emit_expr_ ops be a
      if ra.rc ≠ .OK then (ra.rc, ra.be)
      else be_emit_call_args_after_ ops (call_arg_store fm 1 ra) fm a 2

/-- The rest of the argument loop: the arguments behind `prev`, the first of
them being argument number `i`. -/
def be_emit_call_args_after_ (ops : f64_ops F) (be : backend_t) (fm : func_meta_t) :
    ast_node F → Nat → err_t × backend_t
  | .nil, _ => (.OK, be)
  | .node _ _ _ _ _ a, i =>
    if !a.is_some then (.OK, be)
    else
      let ra := be_emit_expr_ ops be a
      if ra.rc ≠ .OK then (ra.rc, ra.be)
      else be_emit_call_args_after_ ops (call_arg_store fm i ra) fm a (i + 1)

/-- The function `be_emit_builtin_call_` for a call at position `pos` naming
`name_id`, entered at the node `args` (`call->left`); `emit_arg idx` of the
body is `be_emit_expr_(be, arg_at_(args, idx), ...)`. -/
def be_emit_builtin_call_ (ops : f64_ops F) (be : backend_t) (pos : token_pos_t)
    (name_id : Nat) : ast_node F → expr_result
  | .nil =>
    be_builtin_call_body be pos name_id 0
      (fun _ b => { rc := .ERR_BAD_ARG, out_type := .AST_TYPE_UNKNOWN, be := b })
  | .node _ _ _ _ al _ =>
    be_builtin_call_body be pos name_id (chain_length al)
      (fun idx b =>
        match idx with
        | 0 => be_emit_expr_ ops b al
        | j + 1 => be_emit_sibling_ ops b al j)

end

end backend_expr

section backend_stmt
variable {F : Type}

/-- The function `be_promote_pair_to_float_`: the lines it emits. -/
def promote_pair_lines (at_ bt : ast_type_t) : List String :=
  line_if (bt ≠ .AST_TYPE_FLOAT) "ITOF" ++
    (if at_ ≠ .AST_TYPE_FLOAT then ["FPOPR fx1", "ITOF", "FPUSHR fx1"] else [])

/-- The float branch of `be_emit_cond_jfalse_`: the constant pushed and the jump. -/
def cond_fjump (opk : token_kind_t) : Option (String × String) :=
  match opk with
  | .TOK_OP_EQ => some ("PUSH 0", "JNE ")
  | .TOK_OP_NEQ => some ("PUSH 0", "JE  ")
  | .TOK_OP_LT => some ("PUSH -1", "JNE ")
  | .TOK_OP_LTE => some ("PUSH 1", "JE  ")
  | .TOK_OP_GT => some ("PUSH 1", "JNE ")
  | .TOK_OP_GTE => some ("PUSH -1", "JE  ")
  | _ => none

/-- The integer branch of `be_emit_cond_jfalse_`: the jump taken when the
comparison is false. -/
def cond_ijump (opk : token_kind_t) : Option String :=
  match opk with
  | .TOK_OP_EQ => some "JNE"
  | .TOK_OP_NEQ => some "JE"
  | .TOK_OP_LT => some "JAE"
  | .TOK_OP_LTE => some "JA"
  | .TOK_OP_GT => some "JBE"
  | .TOK_OP_GTE => some "JB"
  | _ => none

/-- The function `be_emit_cond_jfalse_`. -/
def be_emit_cond_jfalse_ (ops : f64_ops F) (be : backend_t) (cond : ast_node F)
    (L_false : String) : err_t × backend_t :=
  match cond with
  | .nil => (.OK, be)
  | .node k _ _ u a _ =>
    if k = .ASTK_BINARY && is_bool_op_ u.op then
      let opk := u.op
      let b := second_of a
      if !a.is_some || !b.is_some then be_fail_node be cond "Bad condition: missing operands"
      else
        let ra := be_emit_expr_ ops be a
        if ra.rc ≠ .OK then (ra.rc, ra.be)
        else
          let rb := be_emit_expr_ ops ra.be b
          if rb.rc ≠ .OK then (rb.rc, rb.be)
          else if ra.out_type = .AST_TYPE_FLOAT ∨ rb.out_type = .AST_TYPE_FLOAT then
            let be1 := be_emitf_ rb.be (promote_pair_lines ra.out_type rb.out_type ++ ["FCMP"])
            match cond_fjump opk with
            | some (push, jmp) => (.OK, be_emitf_ be1 [push, jmp ++ L_false])
            | none => be_fail_node be1 cond "Unsupported float compare op"
          else
            match cond_ijump opk with
            | some jfalse => (.OK, be_emitf_ rb.be [jfalse ++ " " ++ L_false])
            | none => be_fail_node rb.be cond "Unsupported int compare op"
    else
      let rc := be_emit_expr_ ops be cond
      if rc.rc ≠ .OK then (rc.rc, rc.be)
      else if rc.out_type = .AST_TYPE_FLOAT then
        (.OK, be_emitf_ rc.be ["PUSH 0", "ITOF", "FCMP", "PUSH 0", "JE " ++ L_false])
      else (.OK, be_emitf_ rc.be ["PUSH 0", "JE " ++ L_false])

/-- The function `be_emit_break_`. -/
def be_emit_break_ (be : backend_t) (brk : ast_node F) : err_t × backend_t :=
  match be.loops.getLast? with
  | none => be_fail_node be brk "gg used outside of a loop"
  | some end_label => (.OK, be_emitf_ be ["JMP " ++ end_label])

/-- The test `be->cur_fn && be->cur_fn->ret_type == t`. -/
def cur_fn_returns (be : backend_t) (t : ast_type_t) : Bool :=
  match be.cur_fn with
  | some fm => fm.ret_type = t
  | none => false

/-- The function `be_emit_return_`. -/
def be_emit_return_ (ops : f64_ops F) (be : backend_t) (r : ast_node F) : err_t × backend_t :=
  let expr := r.left
  if cur_fn_returns be .AST_TYPE_VOID then (.OK, be_emitf_ be ["JMP " ++ be.fn_end_label])
  else if expr.is_some then
    let re := be_emit_expr_ ops be expr
    if re.rc ≠ .OK then (re.rc, re.be)
    else
      let be1 :=
        if cur_fn_returns re.be .AST_TYPE_FLOAT then be_emitf_ re.be ["FPOPR fx0"]
        else be_emitf_ re.be ["POPR x0"]
      (.OK, be_emitf_ be1 ["JMP " ++ be1.fn_end_label])
  else
    let be1 := be_emitf_ be ["PUSH 0", "POPR x0"]
    (.OK, be_emitf_ be1 ["JMP " ++ be1.fn_end_label])

/-- The payload of a node, `n->u`. -/
def ast_node.u : ast_node F → ast_payload F
  | .nil => .zero
  | .node _ _ _ u _ _ => u

/-- The kind of a node, `n->kind`. -/
def ast_node.kind : ast_node F → ast_kind_t
  | .nil => .ASTK_EMPTY
  | .node k _ _ _ _ _ => k

/-- The function `be_emit_vdecl_`. -/
def be_emit_vdecl_ (ops : f64_ops F) (be : backend_t) (vd : ast_node F) : err_t × backend_t :=
  let name_id := vd.u.name_id
  let t := vd.u.decl_type
  let off := be.next_local_offset
  let be1 := be_bind_push_ { be with next_local_offset := be.next_local_offset + 1 }
    name_id t off be.scope_depth
  let init := vd.left
  if init.is_some then
    let ri := be_emit_expr_ ops be1 init
    if ri.rc ≠ .OK then (ri.rc, ri.be)
    else (.OK, be_emit_store_bp_off_ (be_emitf_ ri.be (coerce_lines t ri.out_type)) off)
  else (.OK, be_emit_store_bp_off_ (be_emitf_ be1 ["PUSH 0"]) off)

/-- The function `be_emit_assign_`. -/
def be_emit_assign_ (ops : f64_ops F) (be : backend_t) (asn : ast_node F) : err_t × backend_t :=
  let name_id := asn.u.name_id
  let rhs := asn.left
  if !rhs.is_some then be_fail_node be asn "Assignment missing RHS"
  else
    let bi := be_bind_lookup_ be name_id
    if ¬ bi ≥ 0 then
      be_fail_node be asn ("Assignment to unknown '" ++ name_str be.nametable name_id ++ "'")
    else
      let rr := be_emit_expr_ ops be rhs
      if rr.rc ≠ .OK then (rr.rc, rr.be)
      else
        let b := be_bind_at rr.be bi
        (.OK, be_emit_store_bp_off_ (be_emitf_ rr.be (coerce_lines b.type rr.out_type)) b.offset)

/-- The function `be_emit_call_stmt_`. -/
def be_emit_call_stmt_ (ops : f64_ops F) (be : backend_t) (cs : ast_node F) :
    err_t × backend_t :=
  let call := cs.left
  if !(call.is_some && call.kind = .ASTK_CALL) then
    be_fail_node be cs "call-stmt missing call node"
  else
    let rc := be_emit_expr_ ops be call
    if rc.rc ≠ .OK then (rc.rc, rc.be)
    else if rc.out_type ≠ .AST_TYPE_VOID then (.OK, be_emitf_ rc.be ["POP"])
    else (.OK, rc.be)

/-- The function `be_emit_expr_stmt_`. -/
def be_emit_expr_stmt_ (ops : f64_ops F) (be : backend_t) (es : ast_node F) :
    err_t × backend_t :=
  let e := es.left
  if !e.is_some then be_fail_node be es "expr-stmt missing expression"
  else
    let rc := be_emit_expr_ ops be e
    if rc.rc ≠ .OK then (rc.rc, rc.be)
    else if rc.out_type ≠ .AST_TYPE_VOID then (.OK, be_emitf_ rc.be ["POP"])
    else (.OK, rc.be)

/-- The function `be_emit_print_`. -/
def be_emit_print_ (ops : f64_ops F) (be : backend_t) (pr : ast_node F) : err_t × backend_t :=
  let e := pr.left
  if !e.is_some then be_fail_node be pr "print missing expression"
  else
    let rc := be_emit_expr_ ops be e
    if rc.rc ≠ .OK then (rc.rc, rc.be)
    else if pr.kind = .ASTK_FCOUT then
      (.OK, be_emitf_ rc.be (line_if (rc.out_type ≠ .AST_TYPE_FLOAT) "ITOF" ++ ["FTOPOUT", "POP"]))
    else
      (.OK, be_emitf_ rc.be (line_if (rc.out_type = .AST_TYPE_FLOAT) "FTOI" ++ ["TOPOUT", "POP"]))

/-- The end of `be_emit_while_` (label `done`): the loop context is popped. -/
def be_pop_loop (be : backend_t) : backend_t :=
  { be with loops := be.loops.dropLast }

mutual

/-- The function `be_emit_stmt_`, with `be_emit_block_`, `be_emit_while_` and
the entry of `be_emit_if_chain_` in their cases. -/
def be_emit_stmt_ (ops : f64_ops F) (be : backend_t) : ast_node F → err_t × backend_t
  | .nil => (.OK, be)
  | .node k p t u l r =>
    let st : ast_node F := .node k p t u l r
    match k with
    | .ASTK_BLOCK =>
      let be1 := { be with scope_depth := be.scope_depth + 1 }
      let depth := be1.scope_depth
      let rs :=
        if !l.is_some then (err_t.OK, be1)
        else
          let r1 := be_emit_stmt_ ops be1 l
          if r1.1 ≠ .OK then r1 else be_emit_stmts_after_ ops r1.2 l
      if rs.1 ≠ .OK then rs
      else
        let be2 := be_bind_pop_depth_ rs.2 depth
        (.OK, { be2 with scope_depth := be2.scope_depth - 1 })
    | .ASTK_WHILE =>
      if !l.is_some || !(second_of l).is_some then
        be_fail_node be st "Internal: WHILE must have (cond, body)"
      else
        let (L_begin, be1) := be_new_label_ be "while_begin"
        let (L_end, be2) := be_new_label_ be1 "while_end"
        let be3 := be_emitf_ { be2 with loops := be2.loops ++ [L_end] } [L_begin]
        let rc := be_emit_cond_jfalse_ ops be3 l L_end
        if rc.1 ≠ .OK then (rc.1, be_pop_loop rc.2)
        else
          let rb := be_emit_stmt_second_ ops rc.2 l
          if rb.1 ≠ .OK then (rb.1, be_pop_loop rb.2)
          else (.OK, be_pop_loop (be_emitf_ rb.2 ["JMP " ++ L_begin, L_end]))
    | .ASTK_IF =>
      if !l.is_some || !(second_of l).is_some then
        be_fail_node be st "Internal: IF missing children"
      else
        let (L_end, be1) := be_new_label_ be "if_end"
        let rl := be_emit_if_loop_ ops be1 L_end l
        if rl.1 ≠ .OK then rl else (.OK, be_emitf_ rl.2 [L_end])
    | .ASTK_VAR_DECL => be_emit_vdecl_ ops be st
    | .ASTK_ASSIGN => be_emit_assign_ ops be st
    | .ASTK_RETURN => be_emit_return_ ops be st
    | .ASTK_BREAK => be_emit_break_ be st
    | .ASTK_EXPR_STMT => be_emit_expr_stmt_ ops be st
    | .ASTK_CALL_STMT => be_emit_call_stmt_ ops be st
    | .ASTK_COUT => be_emit_print_ ops be st
    | .ASTK_ICOUT => be_emit_print_ ops be st
    | .ASTK_FCOUT => be_emit_print_ ops be st
    | _ =>
      be_fail_node be st ("Backend: unsupported statement kind " ++ ast_kind_to_cstr k)

/-- The call `be_emit_stmt_(be, c->right)` for a node `c`. -/
def be_emit_stmt_second_ (ops : f64_ops F) (be : backend_t) : ast_node F → err_t × backend_t
  | .nil => (.OK, be)
  | .node _ _ _ _ _ b => be_emit_stmt_ ops be b

/-- The rest of the loop of `be_emit_block_`: the statements behind `prev`. -/
def be_emit_stmts_after_ (ops : f64_ops F) (be : backend_t) : ast_node F → err_t × backend_t
  | .nil => (.OK, be)
  | .node _ _ _ _ _ c =>
    if !c.is_some then (.OK, be)
    else
      let r1 := be_emit_stmt_ ops be c
      if r1.1 ≠ .OK then r1 else be_emit_stmts_after_ ops r1.2 c

/-- The loop `while (1)` of `be_emit_if_chain_`, entered with `cur_if_cond = c`,
`cur_then = c->right` and `cur_tail = c->right->right` (the caller has checked
that the first two exist); the label `L_end` is emitted by the caller. -/
def be_emit_if_loop_ (ops : f64_ops F) (be : backend_t) (L_end : String) :
    ast_node F → err_t × backend_t
  | .nil => (.OK, be)
  | .node kc pc tc uc lc th =>
    let (L_next, be1) := be_new_label_ be "if_next"
    let rc := be_emit_cond_jfalse_ ops be1 (.node kc pc tc uc lc th) L_next
    if rc.1 ≠ .OK then rc
    else
      let rt := be_emit_stmt_ ops rc.2 th
      if rt.1 ≠ .OK then rt
      else
        let be2 := be_emitf_ rt.2 ["JMP " ++ L_end, L_next]
        match th with
        | .nil => (.OK, be2)
        | .node _ _ _ _ _ tail =>
          match tail with
          | .nil => (.OK, be2)
          | .node tk tp tt tu tl tr =>
            if tk = .ASTK_ELSE then
              if !tl.is_some then
                be_fail_node be2 (ast_node.node tk tp tt tu tl tr) "Internal: ELSE missing body"
              else be_emit_stmt_ ops be2 tl
            else if tk ≠ .ASTK_BRANCH then
              be_fail_node be2 (ast_node.node tk tp tt tu tl tr)
                "Internal: IF tail is not BRANCH/ELSE"
            else if !tl.is_some || !(second_of tl).is_some then
              be_fail_node be2 (ast_node.node tk tp tt tu tl tr)
                "Internal: BRANCH missing (cond, stmt)"
            else be_emit_if_loop_ ops be2 L_end tl

end

/-- The parameter loop of `be_emit_func_`: each `PARAM` of the chain is bound
at offset `1 + i`. -/
def be_bind_params_ (be : backend_t) : ast_node F → Nat → backend_t
  | .nil, _ => be
  | .node _ _ _ u _ r, i =>
    be_bind_params_ (be_bind_push_ be u.name_id u.decl_type (1 + i) be.scope_depth) r (i + 1)

/-- The function `be_emit_func_`. -/
def be_emit_func_ (ops : f64_ops F) (be : backend_t) (fn : ast_node F) : err_t × backend_t :=
  if !(fn.is_some && fn.kind = .ASTK_FUNC) then be_fail_node be fn "Internal: expected FUNC"
  else
    match be_find_func_ be fn.u.name_id with
    | none =>
      be_fail_node be fn
        ("Internal: no metadata for function '" ++ name_str be.nametable fn.u.name_id ++ "'")
    | some meta =>
      let (fn_end, be1) := be_new_label_ { be with cur_fn := some meta } "fn_end"
      let be2 : backend_t :=
        { be1 with fn_end_label := fn_end, binds := [], scope_depth := 1,
                   next_local_offset := 1 + meta.param_count }
      let plist := fn.left
      let be3 := be_bind_params_ be2 plist.left 0
      let frame := 1 + meta.param_count + meta.local_count
      let be4 := be_emitf_ be3
        ["; --- function " ++ name_str be.nametable meta.name_id ++ " ---", meta.label,
         "PUSHR x15", "PUSHR x14", "POPR  x13", "POPM  x13",
         "PUSHR x14", "POPR x15",
         "PUSHR x14", "PUSH " ++ toString frame, "ADD", "POPR x14"]
      let body := second_of plist
      if !body.is_some then be_fail_node be4 fn "Function has no body"
      else
        let rb := be_emit_stmt_ ops be4 body
        if rb.1 ≠ .OK then rb
        else
          let be5 :=
            if meta.ret_type ≠ .AST_TYPE_VOID then
              be_emitf_ rb.2 ["; implicit return 0 (defensive)", "PUSH 0", "POPR x0"]
            else rb.2
          (.OK, be_emitf_ be5
            [be5.fn_end_label, "PUSHR x15", "POPR x14", "PUSHR x15", "POPR x13", "PUSHM x13",
             "POPR  x15", "RET"])

/-- The loop of `be_collect_funcs_` that fills `ptypes`: the parameter types of
the chain, or the first node that is not a `PARAM`. -/
def collect_ptypes : ast_node F → Except (ast_node F) (List ast_type_t)
  | .nil => .ok []
  | .node k p t u l r =>
    if k ≠ .ASTK_PARAM then .error (.node k p t u l r)
    else
      match collect_ptypes r with
      | .ok ts => .ok (u.decl_type :: ts)
      | .error n => .error n

/-- The loop of `be_collect_funcs_` over the chain of the children of `PROGRAM`. -/
def be_collect_funcs_loop (be : backend_t) : ast_node F → err_t × backend_t
  | .nil => (.OK, be)
  | .node k p t u l r =>
    let fn : ast_node F := .node k p t u l r
    if k ≠ .ASTK_FUNC then be_fail_node be fn "Internal: PROGRAM child is not FUNC"
    else
      let name_id := u.name_id
      if (be_find_func_ be name_id).isSome then
        be_fail_node be fn ("Duplicate function '" ++ name_str be.nametable name_id ++ "'")
      else
        let plist := l
        if !(plist.is_some && plist.kind = .ASTK_PARAM_LIST) then
          be_fail_node be fn "Internal: FUNC missing PARAM_LIST"
        else
          let pcount := chain_length plist.left
          match collect_ptypes plist.left with
          | .error bad => be_fail_node be bad "Internal: PARAM_LIST child not PARAM"
          | .ok ptypes =>
            let body := second_of plist
            let locals := be_count_locals_rec_ body
            let label := ":fn_" ++ name_str be.nametable name_id
            be_collect_funcs_loop
              { be with funcs := be.funcs ++
                  [{ name_id := name_id, label := label, ret_type := u.decl_type,
                     param_count := pcount, param_types := ptypes, local_count := locals }] }
              r

/-- The function `be_collect_funcs_`. -/
def be_collect_funcs_ (be : backend_t) (program : ast_node F) : err_t × backend_t :=
  if !program.is_some then (.ERR_BAD_ARG, be) else be_collect_funcs_loop be program.left

/-- The search for the id of `main` in the name table: the first entry whose
text is `main`, or `SIZE_MAX`. -/
def find_main_id (entries : List nametable_entry_t) (i : Nat) : Nat :=
  match entries with
  | [] => SIZE_MAX
  | e :: es => if e.name = bytes_of "main" then i else find_main_id es (i + 1)

/-- The loop of `be_emit_program_` over the functions. -/
def be_emit_funcs_loop (ops : f64_ops F) (be : backend_t) : ast_node F → err_t × backend_t
  | .nil => (.OK, be)
  | .node k p t u l r =>
    let rf := be_emit_func_ ops be (.node k p t u l r)
    if rf.1 ≠ .OK then rf else be_emit_funcs_loop ops (be_emitf_ rf.2 [""]) r

/-- The function `be_emit_program_`. -/
def be_emit_program_ (ops : f64_ops F) (be : backend_t) (program : ast_node F) :
    err_t × backend_t :=
  let be1 := be_emitf_ be ["; --- program entry ---", "PUSH 0", "POPR x14", "PUSH 0", "POPR x15"]
  let main_id := find_main_id be.nametable.data 0
  match be_find_func_ be1 main_id with
  | none => be_fail_node be1 program "No main() metadata"
  | some fm =>
    be_emit_funcs_loop ops (be_emitf_ be1 ["CALL " ++ fm.label, "HLT", ""]) program.left

/-- The initial state `backend_t be = { 0 }` over a tree's name table, with
the error slot and the output file as they are on entry. -/
def backend_init (nt : nametable_t) : backend_t :=
  { nametable := nt, error_pos := 0, error_msg := "", out := [], funcs := [], binds := [],
    loops := [], scope_depth := 0, label_counter := 0, cur_fn := none, next_local_offset := 0,
    fn_end_label := "" }

/-- The function `backend_emit_asm` on a tree given by its name table and its
root: the return code and the final state, which holds the emitted lines and
the error slot. -/
def backend_emit_asm (ops : f64_ops F) (nt : nametable_t) (root : ast_node F) :
    err_t × backend_t :=
  if !root.is_some then (.ERR_BAD_ARG, backend_init nt)
  else
    let be0 := backend_init nt
    let be1 :=
      if root.kind ≠ .ASTK_PROGRAM then
        be_set_error_ be0 (node_pos root) (node_pos root).offset "Root is not PROGRAM"
      else be0
    let rc := be_collect_funcs_ be1 root
    if rc.1 ≠ .OK then rc
    else
      let main_id := find_main_id nt.data 0
      if main_id = SIZE_MAX ∨ (be_find_func_ rc.2 main_id).isNone then
        (.ERR_SYNTAX,
          be_set_error_ rc.2 { line := 1, column := 1, offset := 0 } 0 "No function 'main' found")
      else be_emit_program_ ops rc.2 root

end backend_stmt

/-! ## The frame of a function in the code generator -/

/-- The part of the code generator state that concerns names and frames: all
of it except the emitted lines, the error slot and the label counter. -/
def be_frame (be : backend_t) :
    nametable_t × List func_meta_t × List binding_t × List String × Nat ×
      Option func_meta_t × Nat × String :=
  (be.nametable, be.funcs, be.binds, be.loops, be.scope_depth, be.cur_fn,
    be.next_local_offset, be.fn_end_label)

/-- The name table, the function metadata and the next offset for a local. -/
def be_static (be : backend_t) : nametable_t × List func_meta_t × Nat :=
  (be.nametable, be.funcs, be.next_local_offset)

section backend_trace
variable {F : Type}

/-- The number of nodes of a chain and below it. -/
def tree_size : ast_node F → Nat
  | .nil => 0
  | .node _ _ _ _ l r => tree_size l + tree_size r + 1

/-- A piece of emission that goes from `s` to `t` and makes the calls `calls`
of `be_emit_vdecl_`: name table and metadata are kept, the calls are made on
`VAR_DECL` nodes at the offsets `o`, `o + 1`, ... from the offset `o` of `s`,
the offset of `t` is the next one, and there are at most `bound` calls. -/
def layout_step (s t : nametable_t × List func_meta_t × Nat)
    (calls : List (backend_t × ast_node F)) (bound : Nat) : Prop :=
  t.1 = s.1 ∧ t.2.1 = s.2.1 ∧ t.2.2 = s.2.2 + calls.length ∧
  calls.map (fun c => be_static c.1) =
    (List.range' s.2.2 calls.length).map (fun o => (s.1, s.2.1, o)) ∧
  (∀ c ∈ calls, c.2.kind = .ASTK_VAR_DECL) ∧ calls.length ≤ bound

mutual

/-- The calls of `be_emit_vdecl_` made by `be_emit_stmt_(be, st)`, in the order
in which they are made: the state on entry of each call and the `VAR_DECL`
node.  The walk is that of `be_emit_stmt_`. -/
def be_vdecl_calls_ (ops : f64_ops F) (be : backend_t) :
    ast_node F → List (backend_t × ast_node F)
  | .nil => []
  | .node k p t u l r =>
    match k with
    | .ASTK_BLOCK =>
      let be1 := { be with scope_depth := be.scope_depth + 1 }
      if !l.is_some then []
      else
        let r1 := be_emit_stmt_ ops be1 l
        be_vdecl_calls_ ops be1 l ++
          (if r1.1 ≠ .OK then [] else be_vdecl_calls_after_ ops r1.2 l)
    | .ASTK_WHILE =>
      if !l.is_some || !(second_of l).is_some then []
      else
        let (L_begin, be1) := be_new_label_ be "while_begin"
        let (L_end, be2) := be_new_label_ be1 "while_end"
        let be3 := be_emitf_ { be2 with loops := be2.loops ++ [L_end] } [L_begin]
        let rc := be_emit_cond_jfalse_ ops be3 l L_end
        if rc.1 ≠ .OK then [] else be_vdecl_calls_second_ ops rc.2 l
    | .ASTK_IF =>
      if !l.is_some || !(second_of l).is_some then []
      else
        let (L_end, be1) := be_new_label_ be "if_end"
        be_vdecl_calls_if_loop_ ops be1 L_end l
    | .ASTK_VAR_DECL => [(be, .node k p t u l r)]
    | _ => []

/-- The calls of `be_emit_vdecl_` made by `be_emit_stmt_(be, c->right)`. -/
def be_vdecl_calls_second_ (ops : f64_ops F) (be : backend_t) :
    ast_node F → List (backend_t × ast_node F)
  | .nil => []
  | .node _ _ _ _ _ b => be_vdecl_calls_ ops be b

/-- The calls of `be_emit_vdecl_` made by the rest of the loop of
`be_emit_block_`, for the statements behind `prev`. -/
def be_vdecl_calls_after_ (ops : f64_ops F) (be : backend_t) :
    ast_node F → List (backend_t × ast_node F)
  | .nil => []
  | .node _ _ _ _ _ c =>
    if !c.is_some then []
    else
      let r1 := be_emit_stmt_ ops be c
      be_vdecl_calls_ ops be c ++
        (if r1.1 ≠ .OK then [] else be_vdecl_calls_after_ ops r1.2 c)

/-- The calls of `be_emit_vdecl_` made by the loop of `be_emit_if_chain_`. -/
def be_vdecl_calls_if_loop_ (ops : f64_ops F) (be : backend_t) (L_end : String) :
    ast_node F → List (backend_t × ast_node F)
  | .nil => []
  | .node kc pc tc uc lc th =>
    let (L_next, be1) := be_new_label_ be "if_next"
    let rc := be_emit_cond_jfalse_ ops be1 (.node kc pc tc uc lc th) L_next
    if rc.1 ≠ .OK then []
    else
      let rt := be_emit_stmt_ ops rc.2 th
      be_vdecl_calls_ ops rc.2 th ++
        (if rt.1 ≠ .OK then []
        else
          let be2 := be_emitf_ rt.2 ["JMP " ++ L_end, L_next]
          match th with
          | .nil => []
          | .node _ _ _ _ _ tail =>
            match tail with
            | .nil => []
            | .node tk _ _ _ tl _ =>
              if tk = .ASTK_ELSE then
                if !tl.is_some then [] else be_vdecl_calls_ ops be2 tl
              else if tk ≠ .ASTK_BRANCH then []
              else if !tl.is_some || !(second_of tl).is_some then []
              else be_vdecl_calls_if_loop_ ops be2 L_end tl)

end

/-- The state of `be_emit_func_` after the parameter loop, for a function `fn`
with metadata `meta`: the label of the exit, no binding but the parameters,
scope depth 1, and the first offset for a local. -/
def be_func_params_ (be : backend_t) (fn : ast_node F) (meta : func_meta_t) : backend_t :=
  let (fn_end, be1) := be_new_label_ { be with cur_fn := some meta } "fn_end"
  let be2 : backend_t :=
    { be1 with fn_end_label := fn_end, binds := [], scope_depth := 1,
               next_local_offset := 1 + meta.param_count }
  be_bind_params_ be2 fn.left.left 0

/-- The state in which `be_emit_func_` emits the body of `fn`: after the
parameter loop and the prologue. -/
def be_func_entry_ (be : backend_t) (fn : ast_node F) (meta : func_meta_t) : backend_t :=
  be_emitf_ (be_func_params_ be fn meta)
    ["; --- function " ++ name_str be.nametable meta.name_id ++ " ---", meta.label,
     "PUSHR x15", "PUSHR x14", "POPR  x13", "POPM  x13",
     "PUSHR x14", "POPR x15",
     "PUSHR x14", "PUSH " ++ toString (1 + meta.param_count + meta.local_count), "ADD",
     "POPR x14"]

/-- The offsets bound by `be_emit_func_` for `fn`, in the order in which they
are bound: those of the parameters, then for each call of `be_emit_vdecl_` made
for the body the offset `be->next_local_offset` at which it binds. -/
def be_func_offsets_ (ops : f64_ops F) (be : backend_t) (fn : ast_node F)
    (meta : func_meta_t) : List Nat :=
  (be_func_entry_ be fn meta).binds.map (fun b => b.offset) ++
    (be_vdecl_calls_ ops (be_func_entry_ be fn meta) (second_of fn.left)).map
      (fun c => c.1.next_local_offset)

end backend_trace

/-! ## Jumps and logical instructions of the target machine -/

/-- Modelled from the spec: the instruction `AND` is the bitwise conjunction
of two integers. -/
def vm_and (a b : Int) : Int := Int.land a b

/-- Modelled from the spec: the instruction `OR` is the bitwise disjunction of
two integers. -/
def vm_or (a b : Int) : Int := Int.lor a b

/-! ## The value of an integer expression -/

section int_eval
variable {F : Type}

/-- The range of `i64_t`. -/
def in_i64 (x : Int) : Bool := decide (-2 ^ 63 ≤ x) && decide (x < 2 ^ 63)

mutual
/-- The expressions of the pure integer fragment: `int` literals with a value
of `i64_t`, identifiers, unary `+` and `-`, binary `+`, `-` and `*`, over
operands of the fragment. -/
def pure_int : ast_node F → Bool
  | .nil => false
  | .node k _ _ u l _ =>
    match k with
    | .ASTK_NUM_LIT =>
      match u.lit with
      | .LIT_INT i => in_i64 i
      | _ => false
    | .ASTK_IDENT => true
    | .ASTK_UNARY =>
      (decide (u.op = .TOK_OP_PLUS) || decide (u.op = .TOK_OP_MINUS)) && pure_int l
    | .ASTK_BINARY =>
      (decide (u.op = .TOK_OP_PLUS) || decide (u.op = .TOK_OP_MINUS) ||
        decide (u.op = .TOK_OP_MUL)) && pure_int l && pure_int_next l
    | _ => false
/-- The predicate `pure_int` on the node behind the head of a chain. -/
def pure_int_next : ast_node F → Bool
  | .nil => false
  | .node _ _ _ _ _ r => pure_int r
end

mutual
/-- The value of an expression of the pure integer fragment in 64-bit two's
complement arithmetic, the variables having the values `env` (by name id).
Outside the fragment the value is `0`. -/
def eval_int (env : Nat → Int) : ast_node F → Int
  | .nil => 0
  | .node k _ _ u l _ =>
    match k with
    | .ASTK_NUM_LIT =>
      match u.lit with
      | .LIT_INT i => i
      | _ => 0
    | .ASTK_IDENT => env u.name_id
    | .ASTK_UNARY =>
      if u.op = .TOK_OP_PLUS then eval_int env l
      else if u.op = .TOK_OP_MINUS then wrap64 (-(eval_int env l))
      else 0
    | .ASTK_BINARY =>
      if u.op = .TOK_OP_PLUS then wrap64 (eval_int env l + eval_int_next env l)
      else if u.op = .TOK_OP_MINUS then wrap64 (eval_int env l - eval_int_next env l)
      else if u.op = .TOK_OP_MUL then wrap64 (eval_int env l * eval_int_next env l)
      else 0
    | _ => 0
/-- The value of the node behind the head of a chain. -/
def eval_int_next (env : Nat → Int) : ast_node F → Int
  | .nil => 0
  | .node _ _ _ _ _ r => eval_int env r
end

end int_eval

/-! ## Loop contexts and labels in the code generator -/

section emit_rel
variable {F : Type}

/-- The label `L_begin` that `be_emit_while_` creates in state `be`. -/
def while_begin_label (be : backend_t) : String :=
  (be_new_label_ be "while_begin").1

/-- The label `L_end` that `be_emit_while_` creates in state `be`. -/
def while_end_label (be : backend_t) : String :=
  (be_new_label_ (be_new_label_ be "while_begin").2 "while_end").1

/-- The state in which `be_emit_while_`, entered in state `be`, emits the
condition: both labels created, the loop context pushed, `L_begin` emitted. -/
def while_entry (be : backend_t) : backend_t :=
  let be2 := (be_new_label_ (be_new_label_ be "while_begin").2 "while_end").2
  be_emitf_ { be2 with loops := be2.loops ++ [while_end_label be] } [while_begin_label be]

/-- A relation `R` between a state of the code generator and a later one that
is kept by the pieces of the statement emitters: the failure exit, the
condition, the statements without a statement below them, the entry and exit
of a block, and the frames that `be_emit_while_` and `be_emit_if_chain_` put
around what they emit. -/
structure stmt_rel_ok (ops : f64_ops F) (R : backend_t → backend_t → Prop) : Prop where
  refl : ∀ be, R be be
  trans : ∀ a b c, R a b → R b c → R a c
  fail : ∀ (be : backend_t) (n : ast_node F) (msg : String), R be (be_fail_node be n msg).2
  cond : ∀ (be : backend_t) (c : ast_node F) (L : String),
    R be (be_emit_cond_jfalse_ ops be c L).2
  vdecl : ∀ (be : backend_t) (n : ast_node F), R be (be_emit_vdecl_ ops be n).2
  assign : ∀ (be : backend_t) (n : ast_node F), R be (be_emit_assign_ ops be n).2
  ret : ∀ (be : backend_t) (n : ast_node F), R be (be_emit_return_ ops be n).2
  brk : ∀ (be : backend_t) (n : ast_node F), R be (be_emit_break_ be n).2
  expr_stmt : ∀ (be : backend_t) (n : ast_node F), R be (be_emit_expr_stmt_ ops be n).2
  call_stmt : ∀ (be : backend_t) (n : ast_node F), R be (be_emit_call_stmt_ ops be n).2
  print : ∀ (be : backend_t) (n : ast_node F), R be (be_emit_print_ ops be n).2
  block_in : ∀ be : backend_t, R be { be with scope_depth := be.scope_depth + 1 }
  block_out : ∀ (be : backend_t) (d : Nat),
    R be { be_bind_pop_depth_ be d with
      scope_depth := (be_bind_pop_depth_ be d).scope_depth - 1 }
  while_loop : ∀ be x : backend_t, R (while_entry be) x →
    R be (be_pop_loop x) ∧
    R be (be_pop_loop (be_emitf_ x ["JMP " ++ while_begin_label be, while_end_label be]))
  if_end : ∀ be x : backend_t, R (be_new_label_ be "if_end").2 x →
    R be x ∧ R be (be_emitf_ x [(be_new_label_ be "if_end").1])
  if_next : ∀ (be x : backend_t) (L : String), R (be_new_label_ be "if_next").2 x →
    R be x ∧ R be (be_emitf_ x ["JMP " ++ L, (be_new_label_ be "if_next").1])

mutual

/-- The calls of `be_emit_break_` made by `be_emit_stmt_(be, st)`, in the order
in which they are made: the state on entry of each call, and with it the end
label of the innermost `WHILE` node of `st` around the `BREAK` node, or `cur`
when there is none in `st`.  The walk is that of `be_emit_stmt_`. -/
def be_break_calls_ (ops : f64_ops F) (be : backend_t) (cur : Option String) :
    ast_node F → List (backend_t × Option String)
  | .nil => []
  | .node k _ _ _ l _ =>
    match k with
    | .ASTK_BLOCK =>
      let be1 := { be with scope_depth := be.scope_depth + 1 }
      if !l.is_some then []
      else
        let r1 := be_emit_stmt_ ops be1 l
        be_break_calls_ ops be1 cur l ++
          (if r1.1 ≠ .OK then [] else be_break_calls_after_ ops r1.2 cur l)
    | .ASTK_WHILE =>
      if !l.is_some || !(second_of l).is_some then []
      else
        let rc := be_emit_cond_jfalse_ ops (while_entry be) l (while_end_label be)
        if rc.1 ≠ .OK then []
        else be_break_calls_second_ ops rc.2 (some (while_end_label be)) l
    | .ASTK_IF =>
      if !l.is_some || !(second_of l).is_some then []
      else
        be_break_calls_if_loop_ ops (be_new_label_ be "if_end").2 cur
          (be_new_label_ be "if_end").1 l
    | .ASTK_BREAK => [(be, cur)]
    | _ => []

/-- The calls of `be_emit_break_` made by `be_emit_stmt_(be, c->right)`. -/
def be_break_calls_second_ (ops : f64_ops F) (be : backend_t) (cur : Option String) :
    ast_node F → List (backend_t × Option String)
  | .nil => []
  | .node _ _ _ _ _ b => be_break_calls_ ops be cur b

/-- The calls of `be_emit_break_` made by the rest of the loop of
`be_emit_block_`, for the statements behind `prev`. -/
def be_break_calls_after_ (ops : f64_ops F) (be : backend_t) (cur : Option String) :
    ast_node F → List (backend_t × Option String)
  | .nil => []
  | .node _ _ _ _ _ c =>
    if !c.is_some then []
    else
      let r1 := be_emit_stmt_ ops be c
      be_break_calls_ ops be cur c ++
        (if r1.1 ≠ .OK then [] else be_break_calls_after_ ops r1.2 cur c)

/-- The calls of `be_emit_break_` made by the loop of `be_emit_if_chain_`. -/
def be_break_calls_if_loop_ (ops : f64_ops F) (be : backend_t) (cur : Option String)
    (L_end : String) : ast_node F → List (backend_t × Option String)
  | .nil => []
  | .node kc pc tc uc lc th =>
    let (L_next, be1) := be_new_label_ be "if_next"
    let rc := be_emit_cond_jfalse_ ops be1 (.node kc pc tc uc lc th) L_next
    if rc.1 ≠ .OK then []
    else
      let rt := be_emit_stmt_ ops rc.2 th
      be_break_calls_ ops rc.2 cur th ++
        (if rt.1 ≠ .OK then []
        else
          let be2 := be_emitf_ rt.2 ["JMP " ++ L_end, L_next]
          match th with
          | .nil => []
          | .node _ _ _ _ _ tail =>
            match tail with
            | .nil => []
            | .node tk _ _ _ tl _ =>
              if tk = .ASTK_ELSE then
                if !tl.is_some then [] else be_break_calls_ ops be2 cur tl
              else if tk ≠ .ASTK_BRANCH then []
              else if !tl.is_some || !(second_of tl).is_some then []
              else be_break_calls_if_loop_ ops be2 cur L_end tl)

end

/-- Each recorded call of `be_emit_break_` is made with the recorded label on
top of the stack of loop contexts. -/
def break_calls_ok (calls : List (backend_t × Option String)) : Prop :=
  ∀ c ∈ calls, c.1.loops.getLast? = c.2

/-- The relation between two states with the same stack of loop contexts. -/
def same_loops (a b : backend_t) : Prop := b.loops = a.loops

end emit_rel

/-! ## Label definitions in the emitted code -/

/-- A line that defines a label: its first character is `:`. -/
def is_label_line (s : String) : Bool := s.data.head? == some ':'

/-- The lines of `out` that define a label, in order. -/
def label_lines (out : List String) : List String := out.filter is_label_line

/-- The label that `be_new_label_` makes for the prefix `pfx` when the label
counter is `n`. -/
def gen_label (pfx : String) (n : Nat) : String := ":L_" ++ pfx ++ "_" ++ toString n

/-- The text `s` is a label made by `be_new_label_` for a counter value from
`c` up to `c' - 1`. -/
def gen_in (c c' : Nat) (s : String) : Prop :=
  ∃ (p : String) (n : Nat), s = gen_label p n ∧ c ≤ n ∧ n < c'

/-- The label definitions among the lines `new` are pairwise distinct labels
made by `be_new_label_` for counter values from `c` up to `c' - 1`. -/
def lab_step (c c' : Nat) (new : List String) : Prop :=
  (label_lines new).Nodup ∧ ∀ s ∈ label_lines new, gen_in c c' s

/-- The state `b` is reached from `a` by emitting lines and making labels: the
counter has not gone down, the output has grown by lines whose label
definitions are pairwise distinct labels made in between. -/
def emit_labels (a b : backend_t) : Prop :=
  a.label_counter ≤ b.label_counter ∧
  ∃ new, b.out = a.out ++ new ∧ lab_step a.label_counter b.label_counter new

/-- The label definitions among the lines `new` are pairwise distinct; each is
one of the texts `fl` or a label made by `be_new_label_` for a counter value
from `c` up to `c' - 1`. -/
def lab_step_fn (c c' : Nat) (fl : List String) (new : List String) : Prop :=
  (label_lines new).Nodup ∧ ∀ s ∈ label_lines new, s ∈ fl ∨ gen_in c c' s

/-- The label that `be_collect_funcs_` makes for the function named `id`. -/
def fn_label (nt : nametable_t) (id : Nat) : String := ":fn_" ++ name_str nt id

/-- The relation between two states with the same label of the function
exit. -/
def same_fn_end (a b : backend_t) : Prop := b.fn_end_label = a.fn_end_label

/-- The value of a decimal numeral. -/
def decimal_value (ds : List Char) : Nat :=
  ds.foldl (fun acc c => acc * 10 + (c.toNat - 48)) 0

/-! ## Lexer (`lexer/lexer.c`) -/

/-- The C function `isdigit` (C locale). -/
def c_isdigit (c : Char) : Bool := 48 ≤ c.toNat && c.toNat ≤ 57

/-- The C function `isalpha` (C locale). -/
def c_isalpha (c : Char) : Bool :=
  (65 ≤ c.toNat && c.toNat ≤ 90) || (97 ≤ c.toNat && c.toNat ≤ 122)

/-- The C function `isalnum` (C locale). -/
def c_isalnum (c : Char) : Bool := c_isalpha c || c_isdigit c

/-- The C function `isspace` (C locale): space, `\t`, `\n`, `\v`, `\f`, `\r`. -/
def c_isspace (c : Char) : Bool := c.toNat = 32 || (9 ≤ c.toNat && c.toNat ≤ 13)

/-- The function `is_ident_start`. -/
def is_ident_start (c : Char) : Bool := c_isalpha c || c = '_'

/-- The function `is_ident_char`. -/
def is_ident_char (c : Char) : Bool := c_isalnum c || c = '_'

/-- The character `'\0'`. -/
def NUL : Char := Char.ofNat 0

/-- A token (`token_t`): `buffer` is the lexeme, the `length` characters the
pointer designates; `lit` is the pair `lit_type`, `lit`. -/
structure token_t (F : Type) where
  kind : token_kind_t
  pos : token_pos_t
  buffer : List Char
  length : Nat
  lit : literal_t F
  name_id : Nat
  deriving DecidableEq, Repr, Inhabited

/-- The lexer state (`lexer_t`) with the parts of the operational buffer it
uses: the source `buffer` (`buffer_size` is its length) and the error slot. -/
structure lexer_t where
  buffer : List Char
  pos : Nat
  line : Nat
  column : Nat
  nametable : nametable_t
  error_pos : Nat
  error_msg : String
  deriving DecidableEq, Repr, Inhabited

/-- The function `lexer_peek_char`. -/
def lexer_peek_char (lx : lexer_t) : Char :=
  (lx.buffer.get? lx.pos).getD NUL

/-- The function `lexer_peek_next_char`. -/
def lexer_peek_next_char (lx : lexer_t) : Char :=
  (lx.buffer.get? (lx.pos + 1)).getD NUL

/-- The function `lexer_advance` (its result code is dropped by every caller). -/
def lexer_advance (lx : lexer_t) : lexer_t :=
  match lx.buffer.get? lx.pos with
  | none => lx
  | some c =>
    if c = '\n' then { lx with pos := lx.pos + 1, line := lx.line + 1, column := 1 }
    else { lx with pos := lx.pos + 1, column := lx.column + 1 }

/-- The inner loop of `lexer_skip` that consumes a comment up to the end of the line. -/
def skip_comment_loop : Nat → lexer_t → lexer_t
  | 0, lx => lx
  | fuel + 1, lx =>
    let d := lexer_peek_char lx
    if d = NUL ∨ d = '\n' then lx else skip_comment_loop fuel (lexer_advance lx)

/-- The loop of `lexer_skip`; `fuel` bounds the number of rounds, each of which
consumes at least one character. -/
def lexer_skip_loop : Nat → lexer_t → lexer_t
  | 0, lx => lx
  | fuel + 1, lx =>
    let c := lexer_peek_char lx
    if c_isspace c then lexer_skip_loop fuel (lexer_advance lx)
    else if c = '/' ∧ lexer_peek_next_char lx = '/' then
      let lx1 := skip_comment_loop (lx.buffer.length + 1) (lexer_advance (lexer_advance lx))
      let lx2 := if lexer_peek_char lx1 = '\n' then lexer_advance lx1 else lx1
      lexer_skip_loop fuel lx2
    else lx

/-- The function `lexer_skip`. -/
def lexer_skip (lx : lexer_t) : lexer_t :=
  lexer_skip_loop (lx.buffer.length + 1) lx

/-- The lexeme `src + start_pos` of `length` characters. -/
def lexeme (lx : lexer_t) (start_pos length : Nat) : List Char :=
  (lx.buffer.drop start_pos).take length

section lexer
variable {F : Type}

/-- The function `token_ctor`. -/
def token_ctor (kind : token_kind_t) (lx : lexer_t) (start_pos start_line start_col : Nat) :
    token_t F :=
  { kind := kind
    pos := { line := start_line, column := start_col, offset := start_pos }
    buffer := lexeme lx start_pos (lx.pos - start_pos)
    length := lx.pos - start_pos
    lit := .LIT_NONE
    name_id := SIZE_MAX }

/-- The table `KEYWORDS`, in the order of `KEYWORD_LIST`. -/
def KEYWORDS : List (token_kind_t × String) :=
  [(.TOK_KW_NPC, "npc"), (.TOK_KW_HOMIE, "homie"), (.TOK_KW_SUS, "sus"), (.TOK_KW_SIMP, "simp"),
   (.TOK_KW_YAP, "yap"), (.TOK_KW_YAPITY, "yapity"), (.TOK_KW_LOWKEY, "lowkey"),
   (.TOK_KW_HIGHKEY, "highkey"), (.TOK_KW_ALPHA, "alpha"), (.TOK_KW_OMEGA, "omega"),
   (.TOK_KW_SIGMA, "sigma"), (.TOK_KW_GG, "gg"), (.TOK_KW_MICDROP, "micdrop"),
   (.TOK_KW_BRUH, "bruh"), (.TOK_KW_GASLIGHT, "gaslight"), (.TOK_KW_BASED, "based"),
   (.TOK_KW_MID, "mid"), (.TOK_KW_PEAK, "peak"), (.TOK_KW_STAN, "stan"), (.TOK_KW_AURA, "aura"),
   (.TOK_KW_DELULU, "delulu"), (.TOK_KW_GOOBER, "goober"), (.TOK_KW_BOZO, "bozo")]

/-- The function `lookup_keyword`: the kind of the first keyword whose `sdbm_n`
hash is the hash of the lexeme. -/
def lookup_keyword (buffer : List Char) : token_kind_t :=
  match KEYWORDS.find? (fun e => sdbm_n (bytes_of e.2) = sdbm_n buffer) with
  | some e => e.1
  | none => .TOK_IDENTIFIER

/-- A loop `while (p(peek)) advance`, bounded by `fuel`. -/
def advance_while (p : Char → Bool) : Nat → lexer_t → lexer_t
  | 0, lx => lx
  | fuel + 1, lx =>
    if p (lexer_peek_char lx) then advance_while p fuel (lexer_advance lx) else lx

/-- The function `scan_identifier`. -/
def scan_identifier (lx : lexer_t) (start_pos start_line start_col : Nat) :
    token_t F × lexer_t :=
  let lx1 := advance_while is_ident_char (lx.buffer.length + 1) lx
  let tok : token_t F := token_ctor .TOK_IDENTIFIER lx1 start_pos start_line start_col
  let kw := lookup_keyword tok.buffer
  if kw = .TOK_IDENTIFIER then
    let ins := nametable_insert lx1.nametable tok.buffer
    ({ tok with kind := kw, name_id := ins.1 }, { lx1 with nametable := ins.2 })
  else ({ tok with kind := kw }, lx1)

/-- The macro `LEXER_SET_ERROR`. -/
def lexer_set_error (lx : lexer_t) (pos : Nat) (msg : String) : lexer_t :=
  { lx with error_pos := pos, error_msg := msg }

/-- The validation loop of `scan_number` over the characters after the first:
the number of dots seen and whether the run is still `ok`. -/
def number_check : List Char → Nat → Nat × Bool
  | [], dots => (dots, true)
  | ch :: rest, dots =>
    if c_isdigit ch then number_check rest dots
    else if ch = '.' then
      if dots + 1 > 1 then (dots + 1, false) else number_check rest (dots + 1)
    else (dots, false)

/-- The value of a run of decimal digits. -/
def digits_value : List Char → Nat → Nat
  | [], acc => acc
  | c :: cs, acc => digits_value cs (acc * 10 + (c.toNat - 48))

/-- The C function `strtoll(buf, NULL, 10)` on a run of decimal digits: the
value, or `LLONG_MAX` when it is out of range. -/
def strtoll_digits (buf : List Char) : Int :=
  let v := digits_value buf 0
  if v ≥ 2 ^ 63 then 2 ^ 63 - 1 else (v : Int)

/-- The character after the first dot, `dot_pos[1]` (`'\0'` at the end). -/
def after_dot : List Char → Char
  | [] => NUL
  | c :: cs => if c = '.' then cs.headD NUL else after_dot cs

/-- The test of the first loop of `scan_number`: a digit, a letter, `_` or `.`. -/
def number_run_char (c : Char) : Bool :=
  c_isdigit c || c_isalpha c || c = '_' || c = '.'

/-- The function `scan_number`. -/
def scan_number (ops : f64_ops F) (lx : lexer_t) (start_pos start_line start_col : Nat) :
    token_t F × lexer_t :=
  let lx1 := advance_while number_run_char (lx.buffer.length + 1) lx
  let tok : token_t F := token_ctor .TOK_NUMERIC_LITERAL lx1 start_pos start_line start_col
  let buf := tok.buffer
  let chk := number_check buf.tail 0
  let dots := chk.1
  let ok0 : Bool := !(tok.length = 0 || !c_isdigit (buf.headD NUL)) && chk.2
  let ok : Bool := if ok0 && dots = 1 then c_isdigit (after_dot buf) else ok0
  if !ok then
    ({ tok with kind := .TOK_ERROR },
      lexer_set_error lx1 start_pos
        ("Invalid numeric literal at line " ++ toString start_line ++ ", column " ++
          toString start_col ++ ": \"" ++ String.mk buf ++ "\""))
  else if dots = 0 then ({ tok with lit := .LIT_INT (strtoll_digits buf) }, lx1)
  else ({ tok with lit := .LIT_FLOAT (ops.strtod buf) }, lx1)

/-- The function `is_valid_escape_char`. -/
def is_valid_escape_char (e : Char) : Bool :=
  e = 'n' || e = 't' || e = 'r' || e = '0' || e = '"' || e = '\\'

/-- The scanning loop of `scan_string` after the opening quote: `none` when the
closing quote is reached (with the lexer at it), otherwise the position to
report and the message. -/
def scan_string_loop (start_pos start_line start_col : Nat) :
    Nat → lexer_t → lexer_t × Option (Nat × String)
  | 0, lx => (lx, none)
  | fuel + 1, lx =>
    let c := lexer_peek_char lx
    let unterminated := "Unterminated string literal starting at line " ++ toString start_line ++
      ", column " ++ toString start_col
    if c = NUL then (lx, some (start_pos, unterminated))
    else if c = '\\' then
      let lx1 := lexer_advance lx
      let e := lexer_peek_char lx1
      if e = NUL then (lx1, some (start_pos, unterminated))
      else if !is_valid_escape_char e then
        (lexer_advance lx1,
          some (lx.pos, "Invalid escape sequence \"\\" ++ String.mk [e] ++ "\" at line " ++
            toString lx.line ++ ", column " ++ toString lx.column))
      else scan_string_loop start_pos start_line start_col fuel (lexer_advance lx1)
    else if c = '"' then (lx, none)
    else scan_string_loop start_pos start_line start_col fuel (lexer_advance lx)

/-- The function `scan_string`. -/
def scan_string (lx : lexer_t) (start_pos start_line start_col : Nat) : token_t F × lexer_t :=
  let lx0 := lexer_advance lx
  let content_start := lx0.pos
  let r := scan_string_loop start_pos start_line start_col (lx.buffer.length + 1) lx0
  match r.2 with
  | some (epos, msg) =>
    (token_ctor .TOK_ERROR r.1 start_pos start_line start_col, lexer_set_error r.1 epos msg)
  | none =>
    let lx1 := lexer_advance r.1
    ({ kind := .TOK_STRING_LITERAL
       pos := { line := start_line, column := start_col, offset := start_pos }
       buffer := lexeme lx1 content_start (lx1.pos - 1 - content_start)
       length := lx1.pos - 1 - content_start
       lit := .LIT_NONE
       name_id := SIZE_MAX }, lx1)

/-- The two-character operators of `lexer_next` (`LEXER_TRY_TWO_CHAR_OP`), in source order. -/
def two_char_op (c next : Char) : Option token_kind_t :=
  if c = '|' ∧ next = '|' then some .TOK_OP_OR
  else if c = '&' ∧ next = '&' then some .TOK_OP_AND
  else if c = '=' ∧ next = '=' then some .TOK_OP_EQ
  else if c = '!' ∧ next = '=' then some .TOK_OP_NEQ
  else if c = '<' ∧ next = '=' then some .TOK_OP_LTE
  else if c = '>' ∧ next = '=' then some .TOK_OP_GTE
  else none

/-- The `switch (c)` of `lexer_next` over the one-character tokens. -/
def one_char_tok (c : Char) : token_kind_t :=
  if c = '(' then .TOK_LPAREN
  else if c = ')' then .TOK_RPAREN
  else if c = ',' then .TOK_COMMA
  else if c = ';' then .TOK_SEMICOLON
  else if c = '+' then .TOK_OP_PLUS
  else if c = '-' then .TOK_OP_MINUS
  else if c = '*' then .TOK_OP_MUL
  else if c = '/' then .TOK_OP_DIV
  else if c = '^' then .TOK_OP_POW
  else if c = '!' then .TOK_OP_NOT
  else if c = '<' then .TOK_OP_LT
  else if c = '>' then .TOK_OP_GT
  else .TOK_ERROR

/-- The function `make_eof_token`. -/
def make_eof_token (lx : lexer_t) : token_t F :=
  { kind := .TOK_EOF
    pos := { line := lx.line, column := lx.column, offset := lx.pos }
    buffer := []
    length := 0
    lit := .LIT_NONE
    name_id := SIZE_MAX }

/-- The function `lexer_next`: the token and the lexer afterwards (the result
code is always `OK`). -/
def lexer_next (ops : f64_ops F) (lx0 : lexer_t) : token_t F × lexer_t :=
  let lx := lexer_skip lx0
  let start_pos := lx.pos
  let start_line := lx.line
  let start_col := lx.column
  let c := lexer_peek_char lx
  if c = NUL then (make_eof_token lx, lx)
  else if is_ident_start c then scan_identifier (lexer_advance lx) start_pos start_line start_col
  else if c_isdigit c then scan_number ops (lexer_advance lx) start_pos start_line start_col
  else if c = '"' then scan_string lx start_pos start_line start_col
  else
    match two_char_op c (lexer_peek_next_char lx) with
    | some k =>
      let lx2 := lexer_advance (lexer_advance lx)
      (token_ctor k lx2 start_pos start_line start_col, lx2)
    | none =>
      let lx1 := lexer_advance lx
      let k := one_char_tok c
      let tok : token_t F := token_ctor k lx1 start_pos start_line start_col
      if k = .TOK_ERROR ∧ lx1.error_msg = "" then
        let display := if 32 ≤ c.toNat ∧ c.toNat < 127 then String.mk [c] else "?"
        (tok, lexer_set_error lx1 start_pos
          ("Invalid character '" ++ display ++ "' at line " ++ toString start_line ++
            ", column " ++ toString start_col))
      else (tok, lx1)

/-- The loop of `lexer_stream`: the result code, the tokens collected so far
and the lexer; `fuel` bounds the number of tokens. -/
def lexer_stream_loop (ops : f64_ops F) :
    Nat → lexer_t → List (token_t F) → err_t × List (token_t F) × lexer_t
  | 0, lx, toks => (.ERR_CORRUPT, toks, lx)
  | fuel + 1, lx, toks =>
    let r := lexer_next ops lx
    let tok := r.1
    let lx1 := r.2
    if tok.kind = .TOK_ERROR then
      let lx2 :=
        if lx1.error_msg = "" then
          lexer_set_error lx1 tok.pos.offset
            ("Lexical error at line " ++ toString tok.pos.line ++ ", column " ++
              toString tok.pos.column ++ " near \"" ++
              (if tok.buffer = [] then "?" else String.mk tok.buffer) ++ "\"")
        else lx1
      (.ERR_SYNTAX, [], lx2)
    else if tok.kind = .TOK_EOF then (.OK, toks ++ [tok], lx1)
    else lexer_stream_loop ops fuel lx1 (toks ++ [tok])

/-- The function `lexer_stream` on a source buffer: the result code, the
tokens (ending with `EOF`), and the lexer state, which holds the name table
and the error slot.  Every token but `EOF` consumes a character, so
`length + 1` rounds exhaust the buffer. -/
def lexer_stream (ops : f64_ops F) (source : List Char) :
    err_t × List (token_t F) × lexer_t :=
  lexer_stream_loop ops (source.length + 1)
    { buffer := source, pos := 0, line := 1, column := 1, nametable := nametable_ctor,
      error_pos := 0, error_msg := "" } []

end lexer

/-! ## The literal grammar of the specification -/

/-- The form `digits` or `digits '.' digits` of a numeric literal, with at
least one digit on each side of the single dot. -/
def number_form (run : List Char) : Prop :=
  (run ≠ [] ∧ ∀ c ∈ run, c_isdigit c = true) ∨
  ∃ a b : List Char, a ≠ [] ∧ b ≠ [] ∧ (∀ c ∈ a, c_isdigit c = true) ∧
    (∀ c ∈ b, c_isdigit c = true) ∧ run = a ++ '.' :: b

/-! ## Parser (`ast/syntax_analyzer.c`) -/

/-- The function `token_kind_to_cstr` (the texts of `TOKEN_LIST`). -/
def token_kind_to_cstr : token_kind_t → String
  | .TOK_EOF => "EOF" | .TOK_ERROR => "ERROR" | .TOK_IDENTIFIER => "IDENTIFIER"
  | .TOK_NUMERIC_LITERAL => "NUMERIC_LITERAL" | .TOK_STRING_LITERAL => "STRING_LITERAL"
  | .TOK_LPAREN => "(" | .TOK_RPAREN => ")" | .TOK_COMMA => "," | .TOK_SEMICOLON => ";"
  | .TOK_OP_OR => "||" | .TOK_OP_AND => "&&" | .TOK_OP_EQ => "==" | .TOK_OP_NEQ => "!="
  | .TOK_OP_GT => ">" | .TOK_OP_LT => "<" | .TOK_OP_GTE => ">=" | .TOK_OP_LTE => "<="
  | .TOK_OP_PLUS => "+" | .TOK_OP_MINUS => "-" | .TOK_OP_MUL => "*" | .TOK_OP_DIV => "/"
  | .TOK_OP_POW => "^" | .TOK_OP_NOT => "!"
  | .TOK_KW_NPC => "npc" | .TOK_KW_HOMIE => "homie" | .TOK_KW_SUS => "sus"
  | .TOK_KW_SIMP => "simp" | .TOK_KW_YAP => "yap" | .TOK_KW_YAPITY => "yapity"
  | .TOK_KW_LOWKEY => "lowkey" | .TOK_KW_HIGHKEY => "highkey" | .TOK_KW_ALPHA => "alpha"
  | .TOK_KW_OMEGA => "omega" | .TOK_KW_SIGMA => "sigma" | .TOK_KW_GG => "gg"
  | .TOK_KW_MICDROP => "micdrop" | .TOK_KW_BRUH => "bruh" | .TOK_KW_GASLIGHT => "gaslight"
  | .TOK_KW_BASED => "based" | .TOK_KW_MID => "mid" | .TOK_KW_PEAK => "peak"
  | .TOK_KW_STAN => "stan" | .TOK_KW_AURA => "aura" | .TOK_KW_DELULU => "delulu"
  | .TOK_KW_GOOBER => "goober" | .TOK_KW_BOZO => "bozo"

/-- The function `pos_from_offset_` (and `sxr_linecol_`): line and column of an
offset in a buffer, the offset clamped to the buffer size. -/
def linecol_loop : List Char → Nat → Nat → Nat → Nat × Nat
  | _, 0, line, col => (line, col)
  | [], _ + 1, line, col => (line, col)
  | c :: cs, k + 1, line, col =>
    if c = '\n' then linecol_loop cs k (line + 1) 1 else linecol_loop cs k line (col + 1)

/-- The function `pos_from_offset_`. -/
def pos_from_offset_ (buffer : List Char) (offset : Nat) : token_pos_t :=
  let off := if offset > buffer.length then buffer.length else offset
  let lc := linecol_loop buffer off 1 1
  { line := lc.1, column := lc.2, offset := off }

/-- The parser state (`syntax_analyzer_t`) together with what it reaches
through its pointers: the source buffer and the error slot of the operational
buffer, and the name table, symbol table and node count of the tree.  A node's
handle in the symbol table is its allocation index. -/
structure syntax_analyzer_t (F : Type) where
  buffer : List Char
  error_pos : Nat
  error_msg : String
  tokens : List (token_t F)
  pos : Nat
  nametable : nametable_t
  symtable : symtable_t
  nodes_amount : Nat
  cur_func_ret_type : ast_type_t
  loop_depth : Int
  unresolved : List (Nat × token_pos_t)

section parser
variable {F : Type}

/-- The function `cur_`. -/
def cur_ (sa : syntax_analyzer_t F) : Option (token_t F) :=
  sa.tokens.get? sa.pos

/-- The function `peek_`. -/
def peek_ (sa : syntax_analyzer_t F) (ahead : Nat) : Option (token_t F) :=
  sa.tokens.get? (sa.pos + ahead)

/-- The kind of the current token, when there is one. -/
def cur_kind (sa : syntax_analyzer_t F) : Option token_kind_t :=
  (cur_ sa).map (fun t => t.kind)

/-- The text ` at L:C (offset: O)` appended to every message. -/
def at_suffix (pos : token_pos_t) : String :=
  " at " ++ toString pos.line ++ ":" ++ toString pos.column ++ " (offset: " ++
    toString pos.offset ++ ")"

/-- The function `set_err_pos_`. -/
def set_err_pos_ (sa : syntax_analyzer_t F) (pos : token_pos_t) (msg : String) :
    syntax_analyzer_t F :=
  if sa.error_msg ≠ "" then sa
  else { sa with error_pos := pos.offset, error_msg := msg ++ at_suffix pos }

/-- The function `set_err_`. -/
def set_err_ (sa : syntax_analyzer_t F) (at_ : Option (token_t F)) (msg : String) :
    syntax_analyzer_t F :=
  if sa.error_msg ≠ "" then sa
  else
    let pos := match at_ with
      | some t => t.pos
      | none => pos_from_offset_ sa.buffer sa.buffer.length
    { sa with error_pos := pos.offset, error_msg := msg ++ at_suffix pos }

/-- The step `sa->pos++`. -/
def sa_advance (sa : syntax_analyzer_t F) : syntax_analyzer_t F :=
  { sa with pos := sa.pos + 1 }

/-- The function `match_`. -/
def match_ (sa : syntax_analyzer_t F) (kind : token_kind_t) : Bool × syntax_analyzer_t F :=
  match cur_ sa with
  | some tok => if tok.kind = kind then (true, sa_advance sa) else (false, sa)
  | none => (false, sa)

/-- The function `expect_`. -/
def expect_ (sa : syntax_analyzer_t F) (kind : token_kind_t) (what : String) :
    Bool × syntax_analyzer_t F :=
  match cur_ sa with
  | some tok =>
    if tok.kind = kind then (true, sa_advance sa)
    else
      (false, set_err_ sa (some tok)
        ("Syntax error: expected " ++ what ++ ", got " ++ token_kind_to_cstr tok.kind))
  | none => (false, set_err_ sa none ("Syntax error: expected " ++ what ++ ", got <eof>"))

/-- The function `is_type_tok_`. -/
def is_type_tok_ (kind : token_kind_t) : Bool :=
  kind = .TOK_KW_NPC || kind = .TOK_KW_HOMIE || kind = .TOK_KW_SUS

/-- The function `type_from_tok_`. -/
def type_from_tok_ (kind : token_kind_t) : ast_type_t :=
  match kind with
  | .TOK_KW_NPC => .AST_TYPE_INT
  | .TOK_KW_HOMIE => .AST_TYPE_FLOAT
  | .TOK_KW_SUS => .AST_TYPE_PTR
  | _ => .AST_TYPE_UNKNOWN

/-- The function `builtin_from_tok_`. -/
def builtin_from_tok_ (kind : token_kind_t) : Int :=
  match kind with
  | .TOK_KW_STAN => AST_BUILTIN_FLOOR
  | .TOK_KW_AURA => AST_BUILTIN_CEIL
  | .TOK_KW_DELULU => AST_BUILTIN_ROUND
  | .TOK_KW_GOOBER => AST_BUILTIN_ITOF
  | .TOK_KW_BOZO => AST_BUILTIN_FTOI
  | _ => AST_BUILTIN_FLOOR

/-- The function `require_name_id_`: the id (or `SIZE_MAX`) and the state. -/
def require_name_id_ (sa : syntax_analyzer_t F) (id_tok : Option (token_t F)) (ctx : String) :
    Nat × syntax_analyzer_t F :=
  match id_tok with
  | none => (SIZE_MAX, sa)
  | some tok =>
    if tok.kind ≠ .TOK_IDENTIFIER then (SIZE_MAX, sa)
    else if tok.name_id = SIZE_MAX then
      (SIZE_MAX, set_err_ sa (some tok)
        ("Internal: identifier '" ++ String.mk tok.buffer ++ "' has no name_id in " ++ ctx))
    else (tok.name_id, sa)

/-- The function `push_unresolved_`. -/
def push_unresolved_ (sa : syntax_analyzer_t F) (name_id : Nat) (pos : token_pos_t) :
    syntax_analyzer_t F :=
  { sa with unresolved := sa.unresolved ++ [(name_id, pos)] }

/-- The macro `SA_POS`. -/
def SA_POS (tok : Option (token_t F)) : token_pos_t :=
  match tok with
  | some t => t.pos
  | none => { line := 0, column := 0, offset := 0 }

/-- The macros `SA_NEW_NODE` and `SA_NEW_AT`: `ast_new` on the tree of the parser. -/
def sa_new (sa : syntax_analyzer_t F) (kind : ast_kind_t) (pos : token_pos_t) :
    ast_node F × syntax_analyzer_t F :=
  (ast_new kind pos, { sa with nodes_amount := sa.nodes_amount + 1 })

/-- The macro `SA_FAIL`. -/
def sa_fail (sa : syntax_analyzer_t F) (tok : Option (token_t F)) (msg : String) :
    ast_node F × syntax_analyzer_t F :=
  (.nil, set_err_ sa tok msg)

/-- The macro `SA_PUSH_SCOPE`. -/
def sa_push_scope (sa : syntax_analyzer_t F) : syntax_analyzer_t F :=
  { sa with symtable := symtable_push_scope sa.symtable }

/-- The macro `SA_POP_SCOPE`. -/
def sa_pop_scope (sa : syntax_analyzer_t F) : syntax_analyzer_t F :=
  { sa with symtable := symtable_pop_scope sa.symtable }

/-- The macro `SA_DECLARE_OR_FAIL`: `true` and the table with the symbol, or
`false` and the error recorded.  The declaring node is the node allocated
last. -/
def sa_declare (sa : syntax_analyzer_t F) (kind : sym_kind_t) (name_id : Nat)
    (type : ast_type_t) (decl_tok : Option (token_t F)) : Bool × syntax_analyzer_t F :=
  let r := symtable_declare sa.symtable kind name_id type (sa.nodes_amount - 1)
  if r.1 ≠ .OK then
    (false, set_err_ sa decl_tok ("Redeclaration of '" ++ name_str sa.nametable name_id ++ "'"))
  else (true, { sa with symtable := r.2 })

/-- The assignments that fill a fresh node: kind-specific payload and type. -/
def ast_node.with_u (n : ast_node F) (u : ast_payload F) : ast_node F :=
  match n with
  | .nil => .nil
  | .node k p t _ l r => .node k p t u l r

/-- The assignment `n->type = t`. -/
def ast_node.with_type (n : ast_node F) (t : ast_type_t) : ast_node F :=
  match n with
  | .nil => .nil
  | .node k p _ u l r => .node k p t u l r

/-- The macro `SA_MAKE_BIN`. -/
def sa_make_bin (sa : syntax_analyzer_t F) (op_tok : token_t F) (a b : ast_node F) :
    ast_node F × syntax_analyzer_t F :=
  let r := sa_new sa .ASTK_BINARY op_tok.pos
  (ast_add_child (ast_add_child (r.1.with_u (.binary op_tok.kind)) a) b, r.2)

/-- The loop of the macro `BINOP_LAYER` after the first operand `n`: while the
current token satisfies `cond`, it is consumed, `next` parses the right
operand and a `BINARY` node replaces `n`; `fuel` bounds the number of rounds. -/
def binop_loop (next : syntax_analyzer_t F → ast_node F × syntax_analyzer_t F)
    (cond : token_kind_t → Bool) :
    Nat → ast_node F → syntax_analyzer_t F → ast_node F × syntax_analyzer_t F
  | 0, _, sa => (.nil, sa)
  | fuel + 1, n, sa =>
    match cur_ sa with
    | none => (n, sa)
    | some op =>
      if !cond op.kind then (n, sa)
      else
        let r := next (sa_advance sa)
        if !r.1.is_some then (.nil, r.2)
        else
          let bin := sa_make_bin r.2 op n r.1
          binop_loop next cond fuel bin.1 bin.2

/-- The macro `BINOP_LAYER(FNAME, NEXT, COND)`.  Every round of the loop
consumes a token, so one round per token suffices. -/
def binop_layer (next : syntax_analyzer_t F → ast_node F × syntax_analyzer_t F)
    (cond : token_kind_t → Bool) (sa : syntax_analyzer_t F) :
    ast_node F × syntax_analyzer_t F :=
  let n := next sa
  if !n.1.is_some then (.nil, n.2)
  else binop_loop next cond (sa.tokens.length + 1) n.1 n.2

/-- The function `last_child_`. -/
def last_of_chain : ast_node F → ast_node F
  | .nil => .nil
  | .node k p t u l .nil => .node k p t u l .nil
  | .node _ _ _ _ _ r => last_of_chain r

/-- The function `last_child_`. -/
def last_child_ (parent : ast_node F) : ast_node F :=
  last_of_chain parent.left

/-- The function `ident_is_`. -/
def ident_is_ (tid : token_t F) (s : String) : Bool :=
  tid.length = s.length && tid.buffer = bytes_of s

/-- The function `is_builtin_call_name_`. -/
def is_builtin_call_name_ (tid : token_t F) : Bool :=
  if tid.kind ≠ .TOK_IDENTIFIER then false
  else
    ["in", "fin", "cin", "draw", "clean_vm", "out", "fout", "cout", "set_pixel",
     "cap", "nocap", "stinky", "gyat", "skibidi", "pookie", "rizz", "menace"].any
      (fun s => ident_is_ tid s)

/-- The function `make_true_lit_`. -/
def make_true_lit_ (sa : syntax_analyzer_t F) (pos : token_pos_t) :
    ast_node F × syntax_analyzer_t F :=
  let r := sa_new sa .ASTK_NUM_LIT pos
  ((r.1.with_u (.num (.LIT_INT 1))).with_type .AST_TYPE_INT, r.2)

/-- The function `wrap_expr_stmt_`. -/
def wrap_expr_stmt_ (sa : syntax_analyzer_t F) (e : ast_node F) :
    ast_node F × syntax_analyzer_t F :=
  if !e.is_some then (.nil, sa)
  else
    let r := sa_new sa .ASTK_EXPR_STMT (node_pos e)
    (ast_add_child r.1 e, r.2)

end parser

section parser_expr
variable {F : Type}

/-- The result of a parsing function: the node (`nil` for `NULL`) and the state. -/
abbrev pres (F : Type) := ast_node F × syntax_analyzer_t F

/-- The test for the builtin-unary keywords in `parse_primary_`. -/
def is_builtin_kw (k : token_kind_t) : Bool :=
  k = .TOK_KW_STAN || k = .TOK_KW_AURA || k = .TOK_KW_DELULU || k = .TOK_KW_GOOBER ||
    k = .TOK_KW_BOZO

/-- The end of `parse_call_expr_` and `parse_call_stmt_`: the `CALL` node over
`args`, and the deferral of a name that is neither builtin nor declared. -/
def sa_make_call (sa : syntax_analyzer_t F) (tid : token_t F) (name_id : Nat)
    (args : ast_node F) : pres F :=
  let r := sa_new sa .ASTK_CALL tid.pos
  let call := ast_add_child (r.1.with_u (.call name_id)) args
  if !is_builtin_call_name_ tid && decide (symtable_lookup r.2.symtable name_id < 0) then
    (call, push_unresolved_ r.2 name_id tid.pos)
  else (call, r.2)

/-- The loop `while (SA_MATCH(TOK_COMMA))` of `parse_arg_list_`, with `next`
for `parse_expr_`. -/
def arg_list_loop (next : syntax_analyzer_t F → pres F) :
    Nat → ast_node F → syntax_analyzer_t F → pres F
  | 0, _, sa => (.nil, sa)
  | fuel + 1, al, sa =>
    let m := match_ sa .TOK_COMMA
    if !m.1 then (al, m.2)
    else
      let e2 := next m.2
      if !e2.1.is_some then (.nil, e2.2)
      else arg_list_loop next fuel (ast_add_child al e2.1) e2.2

mutual

/-- The function `parse_expr_`; the first argument bounds the depth of the
recursive descent, `nil` being returned when it is used up. -/
def parse_expr_ : Nat → syntax_analyzer_t F → pres F
  | 0, sa => (.nil, sa)
  | fuel + 1, sa => parse_or_ fuel sa

/-- The function `parse_or_`. -/
def parse_or_ : Nat → syntax_analyzer_t F → pres F
  | 0, sa => (.nil, sa)
  | fuel + 1, sa => binop_layer (parse_and_ fuel) (fun k => k = .TOK_OP_OR) sa

/-- The function `parse_and_`. -/
def parse_and_ : Nat → syntax_analyzer_t F → pres F
  | 0, sa => (.nil, sa)
  | fuel + 1, sa => binop_layer (parse_eq_ fuel) (fun k => k = .TOK_OP_AND) sa

/-- The function `parse_eq_`. -/
def parse_eq_ : Nat → syntax_analyzer_t F → pres F
  | 0, sa => (.nil, sa)
  | fuel + 1, sa =>
    binop_layer (parse_rel_ fuel) (fun k => k = .TOK_OP_EQ || k = .TOK_OP_NEQ) sa

/-- The function `parse_rel_`. -/
def parse_rel_ : Nat → syntax_analyzer_t F → pres F
  | 0, sa => (.nil, sa)
  | fuel + 1, sa =>
    binop_layer (parse_add_ fuel)
      (fun k => k = .TOK_OP_GT || k = .TOK_OP_LT || k = .TOK_OP_GTE || k = .TOK_OP_LTE) sa

/-- The function `parse_add_`. -/
def parse_add_ : Nat → syntax_analyzer_t F → pres F
  | 0, sa => (.nil, sa)
  | fuel + 1, sa =>
    binop_layer (parse_mul_ fuel) (fun k => k = .TOK_OP_PLUS || k = .TOK_OP_MINUS) sa

/-- The function `parse_mul_`. -/
def parse_mul_ : Nat → syntax_analyzer_t F → pres F
  | 0, sa => (.nil, sa)
  | fuel + 1, sa =>
    binop_layer (parse_pow_ fuel) (fun k => k = .TOK_OP_MUL || k = .TOK_OP_DIV) sa

/-- The function `parse_pow_`. -/
def parse_pow_ : Nat → syntax_analyzer_t F → pres F
  | 0, sa => (.nil, sa)
  | fuel + 1, sa =>
    let left := parse_unary_ fuel sa
    if !left.1.is_some then (.nil, left.2)
    else
      match cur_ left.2 with
      | none => left
      | some op =>
        if op.kind = .TOK_OP_POW then
          let right := parse_pow_ fuel (sa_advance left.2)
          if !right.1.is_some then (.nil, right.2)
          else sa_make_bin right.2 op left.1 right.1
        else left

/-- The function `parse_unary_`. -/
def parse_unary_ : Nat → syntax_analyzer_t F → pres F
  | 0, sa => (.nil, sa)
  | fuel + 1, sa =>
    match cur_ sa with
    | none => (.nil, sa)
    | some t =>
      if t.kind = .TOK_OP_NOT || t.kind = .TOK_OP_MINUS || t.kind = .TOK_OP_PLUS then
        let rhs := parse_unary_ fuel (sa_advance sa)
        if !rhs.1.is_some then (.nil, rhs.2)
        else
          let r := sa_new rhs.2 .ASTK_UNARY t.pos
          (ast_add_child (r.1.with_u (.unary t.kind)) rhs.1, r.2)
      else parse_primary_ fuel sa

/-- The function `parse_primary_`. -/
def parse_primary_ : Nat → syntax_analyzer_t F → pres F
  | 0, sa => (.nil, sa)
  | fuel + 1, sa =>
    match cur_ sa with
    | none => (.nil, sa)
    | some t =>
      if t.kind = .TOK_LPAREN then
        let e := parse_expr_ fuel (sa_advance sa)
        if !e.1.is_some then (.nil, e.2)
        else
          let x := expect_ e.2 .TOK_RPAREN ")"
          if !x.1 then (.nil, x.2) else (e.1, x.2)
      else if is_builtin_kw t.kind &&
          ((peek_ sa 1).map (fun t1 => decide (t1.kind = .TOK_LPAREN))).getD false then
        let x1 := expect_ (sa_advance sa) .TOK_LPAREN "("
        if !x1.1 then (.nil, x1.2)
        else
          let e := parse_expr_ fuel x1.2
          if !e.1.is_some then (.nil, e.2)
          else
            let x2 := expect_ e.2 .TOK_RPAREN ")"
            if !x2.1 then (.nil, x2.2)
            else
              let r := sa_new x2.2 .ASTK_BUILTIN_UNARY t.pos
              (ast_add_child (r.1.with_u (.builtin_unary (builtin_from_tok_ t.kind))) e.1, r.2)
      else if t.kind = .TOK_IDENTIFIER &&
          ((peek_ sa 1).map (fun t1 => decide (t1.kind = .TOK_LPAREN))).getD false then
        parse_call_expr_ fuel sa
      else if t.kind = .TOK_IDENTIFIER then
        let rn := require_name_id_ sa (some t) "identifier"
        if rn.1 = SIZE_MAX then (.nil, rn.2)
        else if symtable_lookup rn.2.symtable rn.1 < 0 then
          sa_fail rn.2 (some t)
            ("Use of undeclared identifier '" ++ name_str rn.2.nametable rn.1 ++ "'")
        else
          let r := sa_new rn.2 .ASTK_IDENT t.pos
          (r.1.with_u (.ident rn.1), sa_advance r.2)
      else if t.kind = .TOK_NUMERIC_LITERAL then
        let r := sa_new sa .ASTK_NUM_LIT t.pos
        let ty : ast_type_t :=
          match t.lit with
          | .LIT_FLOAT _ => .AST_TYPE_FLOAT
          | _ => .AST_TYPE_INT
        ((r.1.with_u (.num t.lit)).with_type ty, sa_advance r.2)
      else if t.kind = .TOK_STRING_LITERAL then
        let r := sa_new sa .ASTK_STR_LIT t.pos
        ((r.1.with_u (.str (some t.buffer) t.length)).with_type .AST_TYPE_PTR, sa_advance r.2)
      else
        sa_fail sa (some t) ("Unexpected token in expression: " ++ token_kind_to_cstr t.kind)

/-- The function `parse_call_expr_`. -/
def parse_call_expr_ : Nat → syntax_analyzer_t F → pres F
  | 0, sa => (.nil, sa)
  | fuel + 1, sa =>
    match cur_ sa with
    | none => (.nil, sa)
    | some tid =>
      if tid.kind ≠ .TOK_IDENTIFIER then (.nil, sa)
      else
        let rn := require_name_id_ sa (some tid) "call expr"
        if rn.1 = SIZE_MAX then (.nil, rn.2)
        else
          let x1 := expect_ (sa_advance rn.2) .TOK_LPAREN "("
          if !x1.1 then (.nil, x1.2)
          else
            let args := parse_arg_list_ fuel x1.2
            if !args.1.is_some then (.nil, args.2)
            else
              let x2 := expect_ args.2 .TOK_RPAREN ")"
              if !x2.1 then (.nil, x2.2)
              else sa_make_call x2.2 tid rn.1 args.1

/-- The function `parse_arg_list_`. -/
def parse_arg_list_ : Nat → syntax_analyzer_t F → pres F
  | 0, sa => (.nil, sa)
  | fuel + 1, sa =>
    let al := sa_new sa .ASTK_ARG_LIST (SA_POS (cur_ sa))
    if cur_kind al.2 = some .TOK_RPAREN then al
    else
      let e := parse_expr_ fuel al.2
      if !e.1.is_some then (.nil, e.2)
      else
        arg_list_loop (parse_expr_ fuel) (sa.tokens.length + 1) (ast_add_child al.1 e.1) e.2

end

end parser_expr

section parser_stmt
variable {F : Type}

/-- The function `parse_var_decl_`; `fuel` bounds the descent of `parse_expr_`. -/
def parse_var_decl_ (fuel : Nat) (sa : syntax_analyzer_t F) : pres F :=
  match cur_ sa with
  | none => (.nil, sa)
  | some ttype =>
    if !is_type_tok_ ttype.kind then (.nil, sa)
    else
      let vtype := type_from_tok_ ttype.kind
      let sa1 := sa_advance sa
      match cur_ sa1 with
      | none => sa_fail sa1 none "Expected identifier in variable declaration"
      | some tid =>
        if tid.kind ≠ .TOK_IDENTIFIER then
          sa_fail sa1 (some tid) "Expected identifier in variable declaration"
        else
          let rn := require_name_id_ sa1 (some tid) "var decl"
          if rn.1 = SIZE_MAX then (.nil, rn.2)
          else
            let r := sa_new rn.2 .ASTK_VAR_DECL tid.pos
            let vd := (r.1.with_u (.vdecl rn.1 vtype)).with_type vtype
            let d := sa_declare r.2 .SYM_VAR rn.1 vtype (some tid)
            if !d.1 then (.nil, d.2)
            else
              let m := match_ (sa_advance d.2) .TOK_KW_GASLIGHT
              if m.1 then
                let init := parse_expr_ fuel m.2
                if !init.1.is_some then (.nil, init.2)
                else (ast_add_child vd init.1, init.2)
              else (vd, m.2)

/-- The function `parse_assignment_`. -/
def parse_assignment_ (fuel : Nat) (sa : syntax_analyzer_t F) : pres F :=
  match cur_ sa with
  | none => (.nil, sa)
  | some tid =>
    if tid.kind ≠ .TOK_IDENTIFIER then (.nil, sa)
    else
      let rn := require_name_id_ sa (some tid) "assignment"
      if rn.1 = SIZE_MAX then (.nil, rn.2)
      else if symtable_lookup rn.2.symtable rn.1 < 0 then
        sa_fail rn.2 (some tid)
          ("Assignment to undeclared identifier '" ++ name_str rn.2.nametable rn.1 ++ "'")
      else
        let x := expect_ (sa_advance rn.2) .TOK_KW_GASLIGHT "gaslight"
        if !x.1 then (.nil, x.2)
        else
          let rhs := parse_expr_ fuel x.2
          if !rhs.1.is_some then (.nil, rhs.2)
          else
            let r := sa_new rhs.2 .ASTK_ASSIGN tid.pos
            (ast_add_child (r.1.with_u (.assign rn.1)) rhs.1, r.2)

/-- The function `parse_break_`. -/
def parse_break_ (sa : syntax_analyzer_t F) : pres F :=
  match cur_ sa with
  | none => (.nil, sa)
  | some t =>
    if t.kind ≠ .TOK_KW_GG then (.nil, sa)
    else if sa.loop_depth ≤ 0 then sa_fail sa (some t) "gg (break) outside of loop"
    else sa_new (sa_advance sa) .ASTK_BREAK t.pos

/-- The function `parse_return_`. -/
def parse_return_ (fuel : Nat) (sa : syntax_analyzer_t F) : pres F :=
  match cur_ sa with
  | none => (.nil, sa)
  | some t =>
    if t.kind ≠ .TOK_KW_MICDROP then (.nil, sa)
    else if sa.cur_func_ret_type = .AST_TYPE_UNKNOWN then
      sa_fail sa (some t) "Internal: micdrop used outside of a function"
    else
      let rn := sa_new (sa_advance sa) .ASTK_RETURN t.pos
      let c := cur_ rn.2
      let has_expr : Bool :=
        match c with
        | some ct => ct.kind ≠ .TOK_SEMICOLON
        | none => false
      if rn.2.cur_func_ret_type = .AST_TYPE_VOID then
        if has_expr then sa_fail rn.2 c "Void function can't return a value" else rn
      else if !has_expr then
        sa_fail rn.2 (if c.isSome then c else some t) "Non-void function must return a value"
      else
        let e := parse_expr_ fuel rn.2
        if !e.1.is_some then (.nil, e.2) else (ast_add_child rn.1 e.1, e.2)

/-- The function `parse_call_stmt_`. -/
def parse_call_stmt_ (fuel : Nat) (sa : syntax_analyzer_t F) : pres F :=
  match cur_ sa with
  | none => (.nil, sa)
  | some t =>
    if t.kind ≠ .TOK_KW_BRUH then (.nil, sa)
    else
      let sa1 := sa_advance sa
      match cur_ sa1 with
      | none => sa_fail sa1 none "Expected function name after bruh"
      | some tid =>
        if tid.kind ≠ .TOK_IDENTIFIER then
          sa_fail sa1 (some tid) "Expected function name after bruh"
        else
          let rn := require_name_id_ sa1 (some tid) "call stmt"
          if rn.1 = SIZE_MAX then (.nil, rn.2)
          else
            let x1 := expect_ (sa_advance rn.2) .TOK_LPAREN "("
            if !x1.1 then (.nil, x1.2)
            else
              let args := parse_arg_list_ fuel x1.2
              if !args.1.is_some then (.nil, args.2)
              else
                let x2 := expect_ args.2 .TOK_RPAREN ")"
                if !x2.1 then (.nil, x2.2)
                else
                  let call := sa_make_call x2.2 tid rn.1 args.1
                  let st := sa_new call.2 .ASTK_CALL_STMT t.pos
                  (ast_add_child st.1 call.1, st.2)

/-- The function `parse_cout_stmt_`. -/
def parse_cout_stmt_ (fuel : Nat) (sa : syntax_analyzer_t F) (kind : ast_kind_t) : pres F :=
  match cur_ sa with
  | none => (.nil, sa)
  | some t =>
    let x1 := expect_ (sa_advance sa) .TOK_LPAREN "("
    if !x1.1 then (.nil, x1.2)
    else
      let e := parse_expr_ fuel x1.2
      if !e.1.is_some then (.nil, e.2)
      else
        let x2 := expect_ e.2 .TOK_RPAREN ")"
        if !x2.1 then (.nil, x2.2)
        else
          let n := sa_new x2.2 kind t.pos
          (ast_add_child n.1 e.1, n.2)

/-- The macro `SA_EXPECT(TOK_SEMICOLON, ";")` after a statement `n` was parsed. -/
def then_semicolon (n : pres F) : pres F :=
  if !n.1.is_some then (.nil, n.2)
  else
    let x := expect_ n.2 .TOK_SEMICOLON ";"
    if !x.1 then (.nil, x.2) else (n.1, x.2)

/-- The last loop of `parse_if_`: the collected `omega` branches (condition,
statement, position), taken from the last to the first, are chained in front
of `tail`. -/
def build_branches : List (ast_node F × ast_node F × token_pos_t) → ast_node F →
    syntax_analyzer_t F → pres F
  | [], tail, sa => (tail, sa)
  | (c, s, pos) :: rest, tail, sa =>
    let br := sa_new sa .ASTK_BRANCH pos
    let b1 := ast_add_child (ast_add_child br.1 c) s
    let b2 := if tail.is_some then ast_add_child b1 tail else b1
    build_branches rest b2 br.2

/-- The test `SA_CUR() && SA_CUR()->kind == k`. -/
def cur_is (sa : syntax_analyzer_t F) (k : token_kind_t) : Bool :=
  cur_kind sa = some k

/-- The test `SA_PEEK(1) && SA_PEEK(1)->kind == k`. -/
def peek1_is (sa : syntax_analyzer_t F) (k : token_kind_t) : Bool :=
  (peek_ sa 1).map (fun t => t.kind) = some k

/-- What the header of a `highkey` statement yields: whether it parsed, the
init statement, the condition, the step statement (`nil` when absent), and
the state after the closing parenthesis. -/
structure for_head (F : Type) where
  ok : Bool
  init : ast_node F
  cond : ast_node F
  step_stmt : ast_node F
  sa : syntax_analyzer_t F

/-- A header that failed to parse. -/
def for_head_fail (sa : syntax_analyzer_t F) : for_head F :=
  { ok := false, init := .nil, cond := .nil, step_stmt := .nil, sa := sa }

/-- The test `c && c->kind != k` on the current token. -/
def cur_is_not (sa : syntax_analyzer_t F) (k : token_kind_t) : Bool :=
  match cur_ sa with
  | some c => c.kind ≠ k
  | none => false

/-- The init part of the header of `parse_for_desugared_` (`var_decl`,
assignment or empty): whether a statement is present, and its parse. -/
def for_init_ (fuel : Nat) (sa : syntax_analyzer_t F) : Bool × pres F :=
  let init_present := cur_is_not sa .TOK_SEMICOLON
  let init : pres F :=
    if !init_present then (.nil, sa)
    else if ((cur_kind sa).map is_type_tok_).getD false then parse_var_decl_ fuel sa
    else if cur_is sa .TOK_IDENTIFIER && peek1_is sa .TOK_KW_GASLIGHT then
      parse_assignment_ fuel sa
    else sa_fail sa (cur_ sa) "Invalid for-init (expected var decl, assignment or empty)"
  (init_present, init)

/-- The condition part of the header of `parse_for_desugared_`: an expression,
or the literal made by `make_true_lit_` when it is omitted. -/
def for_cond_ (fuel : Nat) (sa : syntax_analyzer_t F) : pres F :=
  if cur_is_not sa .TOK_SEMICOLON then parse_expr_ fuel sa
  else make_true_lit_ sa (SA_POS (cur_ sa))

/-- The step part of the header of `parse_for_desugared_` (assignment,
expression or empty): whether a step is present, and its parse `step`. -/
def for_step_ (fuel : Nat) (sa : syntax_analyzer_t F) : Bool × pres F :=
  let step_present := cur_is_not sa .TOK_RPAREN
  let step : pres F :=
    if !step_present then (.nil, sa)
    else if cur_is sa .TOK_IDENTIFIER && peek1_is sa .TOK_KW_GASLIGHT then
      parse_assignment_ fuel sa
    else parse_expr_ fuel sa
  (step_present, step)

/-- The statement `step_stmt` made of the parsed `step`: the step itself when
it is an `ASSIGN` or `VAR_DECL` node, `wrap_expr_stmt_` of it otherwise. -/
def for_step_stmt_ (step : pres F) : pres F :=
  if !step.1.is_some then (.nil, step.2)
  else if step.1.kind = .ASTK_ASSIGN || step.1.kind = .ASTK_VAR_DECL then step
  else wrap_expr_stmt_ step.2 step.1

/-- The part of `parse_for_desugared_` from `(` to `)`: init, condition, step. -/
def parse_for_head_ (fuel : Nat) (sa : syntax_analyzer_t F) : for_head F :=
  let x1 := expect_ sa .TOK_LPAREN "("
  if !x1.1 then for_head_fail x1.2
  else
    let init := for_init_ fuel x1.2
    if init.1 && !init.2.1.is_some then for_head_fail init.2.2
    else
      let x2 := expect_ init.2.2 .TOK_SEMICOLON ";"
      if !x2.1 then for_head_fail x2.2
      else
        let cond := for_cond_ fuel x2.2
        if !cond.1.is_some then for_head_fail cond.2
        else
          let x3 := expect_ cond.2 .TOK_SEMICOLON ";"
          if !x3.1 then for_head_fail x3.2
          else
            let step := for_step_ fuel x3.2
            let step_stmt := for_step_stmt_ step.2
            if step.1 && !step_stmt.1.is_some then for_head_fail step_stmt.2
            else
              let x4 := expect_ step_stmt.2 .TOK_RPAREN ")"
              if !x4.1 then for_head_fail x4.2
              else
                { ok := true, init := init.2.1, cond := cond.1, step_stmt := step_stmt.1,
                  sa := x4.2 }

/-- The end of `parse_for_desugared_`, once the body statement is parsed: the
step is appended to the body (wrapped in a `BLOCK` when it is not one), the
`WHILE` is built, and an init statement is put with it in an outer `BLOCK`. -/
def for_assemble_ (t : token_t F) (h : for_head F) (body_stmt : ast_node F)
    (sa : syntax_analyzer_t F) : pres F :=
  let while_body : pres F :=
    if h.step_stmt.is_some then
      if body_stmt.kind ≠ .ASTK_BLOCK then
        let b := sa_new sa .ASTK_BLOCK (node_pos body_stmt)
        (ast_add_child (ast_add_child b.1 body_stmt) h.step_stmt, b.2)
      else (ast_add_child body_stmt h.step_stmt, sa)
    else (body_stmt, sa)
  let w := sa_new while_body.2 .ASTK_WHILE t.pos
  let wn := ast_add_child (ast_add_child w.1 h.cond) while_body.1
  if !h.init.is_some then (wn, w.2)
  else
    let outer := sa_new w.2 .ASTK_BLOCK t.pos
    (ast_add_child (ast_add_child outer.1 h.init) wn, outer.2)

/-- The optional `sigma` part of `parse_if_`, with `stmt` for
`parse_statement_`: the flag tells whether parsing went on (it is `false` when
the else statement failed to parse), the node is the `ELSE` node or `nil`. -/
def if_tail_ (stmt : syntax_analyzer_t F → pres F) (sa : syntax_analyzer_t F) :
    Bool × pres F :=
  match cur_ sa with
  | none => (true, (.nil, sa))
  | some ts =>
    if ts.kind ≠ .TOK_KW_SIGMA then (true, (.nil, sa))
    else
      let else_body := stmt (sa_advance sa)
      if !else_body.1.is_some then (false, (.nil, else_body.2))
      else
        let els := sa_new else_body.2 .ASTK_ELSE ts.pos
        (true, (ast_add_child els.1 else_body.1, els.2))

/-- The end of `parse_if_`: the branches are chained in front of the tail
(`build_branches`), and the `IF` node gets the condition, the then-statement
and the chain, if there is one. -/
def if_assemble_ (t : token_t F) (cond then_st : ast_node F)
    (branches : List (ast_node F × ast_node F × token_pos_t)) (tail : pres F) : pres F :=
  let chain := build_branches branches.reverse tail.1 tail.2
  let ifn := sa_new chain.2 .ASTK_IF t.pos
  let i1 := ast_add_child (ast_add_child ifn.1 cond) then_st
  (if chain.1.is_some then ast_add_child i1 chain.1 else i1, ifn.2)

mutual

/-- The function `parse_statement_`; the first argument bounds the depth of
the recursive descent. -/
def parse_statement_ : Nat → syntax_analyzer_t F → pres F
  | 0, sa => (.nil, sa)
  | fuel + 1, sa =>
    match cur_ sa with
    | none => (.nil, sa)
    | some t =>
      if t.kind = .TOK_KW_YAP then parse_block_ fuel sa
      else if t.kind = .TOK_KW_LOWKEY then parse_while_ fuel sa
      else if t.kind = .TOK_KW_HIGHKEY then parse_for_desugared_ fuel sa
      else if t.kind = .TOK_KW_ALPHA then parse_if_ fuel sa
      else if is_type_tok_ t.kind then then_semicolon (parse_var_decl_ fuel sa)
      else if t.kind = .TOK_IDENTIFIER && peek1_is sa .TOK_KW_GASLIGHT then
        then_semicolon (parse_assignment_ fuel sa)
      else if t.kind = .TOK_KW_GG then then_semicolon (parse_break_ sa)
      else if t.kind = .TOK_KW_MICDROP then then_semicolon (parse_return_ fuel sa)
      else if t.kind = .TOK_KW_BRUH then then_semicolon (parse_call_stmt_ fuel sa)
      else if t.kind = .TOK_KW_BASED then then_semicolon (parse_cout_stmt_ fuel sa .ASTK_COUT)
      else if t.kind = .TOK_KW_MID then then_semicolon (parse_cout_stmt_ fuel sa .ASTK_ICOUT)
      else if t.kind = .TOK_KW_PEAK then then_semicolon (parse_cout_stmt_ fuel sa .ASTK_FCOUT)
      else
        let e := parse_expr_ fuel sa
        if !e.1.is_some then (.nil, e.2)
        else
          let st := sa_new e.2 .ASTK_EXPR_STMT (node_pos e.1)
          let x := expect_ st.2 .TOK_SEMICOLON ";"
          if !x.1 then (.nil, x.2) else (ast_add_child st.1 e.1, x.2)

/-- The function `parse_block_`. -/
def parse_block_ : Nat → syntax_analyzer_t F → pres F
  | 0, sa => (.nil, sa)
  | fuel + 1, sa =>
    match cur_ sa with
    | none => (.nil, sa)
    | some t =>
      if t.kind ≠ .TOK_KW_YAP then (.nil, sa)
      else
        let b := sa_new (sa_advance sa) .ASTK_BLOCK t.pos
        let body := parse_block_loop_ fuel b.1 (sa_push_scope b.2)
        if !body.1.is_some then (.nil, body.2)
        else
          let x := expect_ body.2 .TOK_KW_YAPITY "yapity"
          if !x.1 then (.nil, x.2) else (body.1, sa_pop_scope x.2)

/-- The loop `for (;;)` of `parse_block_`: statements are appended to `block`
up to `yapity`; each round uses one unit of the bound. -/
def parse_block_loop_ : Nat → ast_node F → syntax_analyzer_t F → pres F
  | 0, _, sa => (.nil, sa)
  | fuel + 1, block, sa =>
    match cur_ sa with
    | none => sa_fail sa none "Unexpected end of input inside block"
    | some c =>
      if c.kind = .TOK_KW_YAPITY then (block, sa)
      else
        let st := parse_statement_ fuel sa
        if !st.1.is_some then (.nil, st.2)
        else parse_block_loop_ fuel (ast_add_child block st.1) st.2

/-- The function `parse_while_`. -/
def parse_while_ : Nat → syntax_analyzer_t F → pres F
  | 0, sa => (.nil, sa)
  | fuel + 1, sa =>
    match cur_ sa with
    | none => (.nil, sa)
    | some t =>
      if t.kind ≠ .TOK_KW_LOWKEY then (.nil, sa)
      else
        let x1 := expect_ (sa_advance sa) .TOK_LPAREN "("
        if !x1.1 then (.nil, x1.2)
        else
          let cond := parse_expr_ fuel x1.2
          if !cond.1.is_some then (.nil, cond.2)
          else
            let x2 := expect_ cond.2 .TOK_RPAREN ")"
            if !x2.1 then (.nil, x2.2)
            else
              let body := parse_statement_ fuel { x2.2 with loop_depth := x2.2.loop_depth + 1 }
              let sa3 := { body.2 with loop_depth := body.2.loop_depth - 1 }
              if !body.1.is_some then (.nil, sa3)
              else
                let w := sa_new sa3 .ASTK_WHILE t.pos
                (ast_add_child (ast_add_child w.1 cond.1) body.1, w.2)

/-- The function `parse_for_desugared_`: the header (`parse_for_head_`), the
body statement, the assembly (`for_assemble_`). -/
def parse_for_desugared_ : Nat → syntax_analyzer_t F → pres F
  | 0, sa => (.nil, sa)
  | fuel + 1, sa =>
    match cur_ sa with
    | none => (.nil, sa)
    | some t =>
      if t.kind ≠ .TOK_KW_HIGHKEY then (.nil, sa)
      else
        let h := parse_for_head_ fuel (sa_advance sa)
        if !h.ok then (.nil, h.sa)
        else
          let body := parse_statement_ fuel { h.sa with loop_depth := h.sa.loop_depth + 1 }
          let sa5 := { body.2 with loop_depth := body.2.loop_depth - 1 }
          if !body.1.is_some then (.nil, sa5)
          else for_assemble_ t h body.1 sa5

/-- The function `parse_if_`. -/
def parse_if_ : Nat → syntax_analyzer_t F → pres F
  | 0, sa => (.nil, sa)
  | fuel + 1, sa =>
    match cur_ sa with
    | none => (.nil, sa)
    | some t =>
      if t.kind ≠ .TOK_KW_ALPHA then (.nil, sa)
      else
        let x1 := expect_ (sa_advance sa) .TOK_LPAREN "("
        if !x1.1 then (.nil, x1.2)
        else
          let cond := parse_expr_ fuel x1.2
          if !cond.1.is_some then (.nil, cond.2)
          else
            let x2 := expect_ cond.2 .TOK_RPAREN ")"
            if !x2.1 then (.nil, x2.2)
            else
              let then_st := parse_statement_ fuel x2.2
              if !then_st.1.is_some then (.nil, then_st.2)
              else
                let brs := parse_omega_loop_ fuel [] then_st.2
                match brs.1 with
                | none => (.nil, brs.2)
                | some branches =>
                  let tail := if_tail_ (parse_statement_ fuel) brs.2
                  if !tail.1 then tail.2
                  else if_assemble_ t cond.1 then_st.1 branches tail.2

/-- The loop of `parse_if_` that collects the `omega` branches, in source
order; `none` when a branch fails to parse.  Each round uses one unit of the
bound. -/
def parse_omega_loop_ : Nat → List (ast_node F × ast_node F × token_pos_t) →
    syntax_analyzer_t F →
    Option (List (ast_node F × ast_node F × token_pos_t)) × syntax_analyzer_t F
  | 0, _, sa => (none, sa)
  | fuel + 1, brs, sa =>
    match cur_ sa with
    | none => (some brs, sa)
    | some tok_o =>
      if tok_o.kind ≠ .TOK_KW_OMEGA then (some brs, sa)
      else
        let x1 := expect_ (sa_advance sa) .TOK_LPAREN "("
        if !x1.1 then (none, x1.2)
        else
          let cnd := parse_expr_ fuel x1.2
          if !cnd.1.is_some then (none, cnd.2)
          else
            let x2 := expect_ cnd.2 .TOK_RPAREN ")"
            if !x2.1 then (none, x2.2)
            else
              let st := parse_statement_ fuel x2.2
              if !st.1.is_some then (none, st.2)
              else parse_omega_loop_ fuel (brs ++ [(cnd.1, st.1, tok_o.pos)]) st.2

end

end parser_stmt

section parser_top
variable {F : Type}

/-- The loop `for (;;)` of `parse_param_list_`. -/
def parse_param_loop_ : Nat → ast_node F → syntax_analyzer_t F → pres F
  | 0, _, sa => (.nil, sa)
  | rounds + 1, pl, sa =>
    match cur_ sa with
    | none => sa_fail sa none "Expected parameter type (npc/homie/sus)"
    | some ttype =>
      if !is_type_tok_ ttype.kind then
        sa_fail sa (some ttype) "Expected parameter type (npc/homie/sus)"
      else
        let ptype := type_from_tok_ ttype.kind
        let sa1 := sa_advance sa
        match cur_ sa1 with
        | none => sa_fail sa1 none "Expected parameter name"
        | some tid =>
          if tid.kind ≠ .TOK_IDENTIFIER then sa_fail sa1 (some tid) "Expected parameter name"
          else
            let rn := require_name_id_ sa1 (some tid) "param name"
            if rn.1 = SIZE_MAX then (.nil, rn.2)
            else
              let r := sa_new rn.2 .ASTK_PARAM tid.pos
              let pn := (r.1.with_u (.param rn.1 ptype)).with_type ptype
              let d := sa_declare r.2 .SYM_PARAM rn.1 ptype (some tid)
              if !d.1 then (.nil, d.2)
              else
                let m := match_ (sa_advance d.2) .TOK_COMMA
                if !m.1 then (ast_add_child pl pn, m.2)
                else parse_param_loop_ rounds (ast_add_child pl pn) m.2

/-- The function `parse_param_list_`. -/
def parse_param_list_ (sa : syntax_analyzer_t F) : pres F :=
  let pl := sa_new sa .ASTK_PARAM_LIST (SA_POS (cur_ sa))
  match cur_ pl.2 with
  | none => (.nil, pl.2)
  | some t =>
    if t.kind = .TOK_RPAREN then pl
    else parse_param_loop_ (sa.tokens.length + 1) pl.1 pl.2

/-- The end of `parse_function_decl_`, once the body is parsed: the body must
be there, a function that is not void must end with a `RETURN`, and the `FUNC`
node gets the parameter list and the body. -/
def func_finish_ (fn plist body : ast_node F) (ret_type : ast_type_t) (fname : Nat)
    (sa3 : syntax_analyzer_t F) : pres F :=
  if !body.is_some then
    sa_fail sa3 (cur_ sa3) "Expected function body (yap ... yapity)"
  else
    let last := last_child_ body
    if ret_type ≠ .AST_TYPE_VOID && !(last.is_some && last.kind = .ASTK_RETURN) then
      (.nil, set_err_pos_ sa3
        (if last.is_some then node_pos last else node_pos body)
        ("Non-void function '" ++ name_str sa3.nametable fname ++
          "' must end with 'micdrop <expr>;'."))
    else
      (ast_add_child (ast_add_child fn plist) body, sa_pop_scope sa3)

/-- The part of `parse_function_decl_` after the declaration of the function
name: the parameter list in its own scope, then the body, parsed with
`cur_func_ret_type` set to the return type and restored afterwards. -/
def func_body_ (fuel : Nat) (fn : ast_node F) (ret_type : ast_type_t) (fname : Nat)
    (sa : syntax_analyzer_t F) : pres F :=
  let x1 := expect_ sa .TOK_LPAREN "("
  if !x1.1 then (.nil, x1.2)
  else
    let plist := parse_param_list_ (sa_push_scope x1.2)
    if !plist.1.is_some then (.nil, plist.2)
    else
      let x2 := expect_ plist.2 .TOK_RPAREN ")"
      if !x2.1 then (.nil, x2.2)
      else
        let prev_ret := x2.2.cur_func_ret_type
        let body := parse_block_ fuel { x2.2 with cur_func_ret_type := ret_type }
        let sa3 := { body.2 with cur_func_ret_type := prev_ret }
        func_finish_ fn plist.1 body.1 ret_type fname sa3

/-- The function `parse_function_decl_`; `fuel` bounds the descent of `parse_block_`. -/
def parse_function_decl_ (fuel : Nat) (sa : syntax_analyzer_t F) : pres F :=
  match cur_ sa with
  | none => (.nil, sa)
  | some tret =>
    if !(tret.kind = .TOK_KW_SIMP || is_type_tok_ tret.kind) then
      sa_fail sa (some tret) "Expected return type (simp/npc/homie/sus)"
    else
      let ret_type : ast_type_t :=
        if tret.kind = .TOK_KW_SIMP then .AST_TYPE_VOID else type_from_tok_ tret.kind
      let sa1 := sa_advance sa
      match cur_ sa1 with
      | none => sa_fail sa1 none "Expected function name identifier"
      | some tid =>
        if tid.kind ≠ .TOK_IDENTIFIER then
          sa_fail sa1 (some tid) "Expected function name identifier"
        else
          let rn := require_name_id_ sa1 (some tid) "function name"
          if rn.1 = SIZE_MAX then (.nil, rn.2)
          else
            let fname := rn.1
            let r := sa_new (sa_advance rn.2) .ASTK_FUNC tid.pos
            let fn := (r.1.with_u (.func fname ret_type)).with_type ret_type
            let d := sa_declare r.2 .SYM_FUNC fname ret_type (some tid)
            if !d.1 then (.nil, d.2)
            else func_body_ fuel fn ret_type fname d.2

/-- The loop `for (;;)` of `parse_program_`: the flag is `any`. -/
def parse_program_loop_ (fuel : Nat) :
    Nat → ast_node F → Bool → syntax_analyzer_t F → ast_node F × Bool × syntax_analyzer_t F
  | 0, _, any, sa => (.nil, any, sa)
  | rounds + 1, program, any, sa =>
    match cur_ sa with
    | none => (.nil, any, set_err_ sa none "Unexpected end of input")
    | some t =>
      if t.kind = .TOK_EOF then (program, any, sa)
      else
        let fn := parse_function_decl_ fuel sa
        if !fn.1.is_some then (.nil, any, fn.2)
        else parse_program_loop_ fuel rounds (ast_add_child program fn.1) true fn.2

/-- The function `parse_program_`. -/
def parse_program_ (fuel : Nat) (sa : syntax_analyzer_t F) : pres F :=
  let program := sa_new sa .ASTK_PROGRAM (SA_POS (cur_ sa))
  let r := parse_program_loop_ fuel (sa.tokens.length + 1) program.1 false program.2
  if !r.1.is_some then (.nil, r.2.2)
  else if !r.2.1 then
    sa_fail r.2.2 (cur_ r.2.2) "Expected at least one function declaration"
  else
    let x := expect_ r.2.2 .TOK_EOF "EOF"
    if !x.1 then (.nil, x.2) else (r.1, x.2)

/-- The loop of `syntax_analyze` that resolves the deferred calls: the first
name without a symbol is reported at its call site. -/
def resolve_forward_calls (sa : syntax_analyzer_t F) :
    List (Nat × token_pos_t) → err_t × syntax_analyzer_t F
  | [] => (.OK, sa)
  | (name_id, pos) :: rest =>
    if symtable_lookup sa.symtable name_id < 0 then
      (.ERR_SYNTAX,
        set_err_pos_ sa pos ("Undefined function '" ++ name_str sa.nametable name_id ++ "'"))
    else resolve_forward_calls sa rest

/-- The function `syntax_analyze`: the result code, the root stored in the
tree (`nil` when parsing failed) and the final state.  `fuel` bounds the depth
of the recursive descent. -/
def syntax_analyze (fuel : Nat) (sa0 : syntax_analyzer_t F) :
    err_t × ast_node F × syntax_analyzer_t F :=
  let sa : syntax_analyzer_t F := { sa0 with error_pos := 0, error_msg := "" }
  let prog := parse_program_ fuel sa
  if !prog.1.is_some then (.ERR_SYNTAX, .nil, prog.2)
  else
    let r := resolve_forward_calls prog.2 prog.2.unresolved
    (r.1, prog.1, r.2)

/-- The state set up by `ast_tree_ctor` (symbol table with the global scope
open, name table moved in from the lexer) and `syntax_analyzer_ctor`. -/
def syntax_analyzer_ctor (source : List Char) (tokens : List (token_t F)) (nt : nametable_t) :
    syntax_analyzer_t F :=
  { buffer := source, error_pos := 0, error_msg := "", tokens := tokens, pos := 0,
    nametable := nt, symtable := symtable_push_scope symtable_ctor, nodes_amount := 0,
    cur_func_ret_type := .AST_TYPE_UNKNOWN, loop_depth := 0, unresolved := [] }

/-- The front end (`frontend-main.c`): `lexer_stream`, `ast_tree_ctor`,
`syntax_analyzer_ctor`, `syntax_analyze`.  The result code, the root of the
tree and its name table. -/
def frontend (ops : f64_ops F) (fuel : Nat) (source : List Char) :
    err_t × ast_node F × nametable_t :=
  let lx := lexer_stream ops source
  if lx.1 ≠ .OK then (lx.1, .nil, lx.2.2.nametable)
  else
    let r := syntax_analyze fuel (syntax_analyzer_ctor source lx.2.1 lx.2.2.nametable)
    (r.1, r.2.1, r.2.2.nametable)

end parser_top

/-! ## The precedence ladder of the specification -/

section parser_aux
variable {F : Type}

/-- The level of a binary operator on the precedence ladder, from the loosest
(`0`, `||`) to the tightest (`6`, `^`); `none` for every other token. -/
def binop_level : token_kind_t → Option Nat
  | .TOK_OP_OR => some 0
  | .TOK_OP_AND => some 1
  | .TOK_OP_EQ => some 2
  | .TOK_OP_NEQ => some 2
  | .TOK_OP_GT => some 3
  | .TOK_OP_LT => some 3
  | .TOK_OP_GTE => some 3
  | .TOK_OP_LTE => some 3
  | .TOK_OP_PLUS => some 4
  | .TOK_OP_MINUS => some 4
  | .TOK_OP_MUL => some 5
  | .TOK_OP_DIV => some 5
  | .TOK_OP_POW => some 6
  | _ => none

/-- The tree `BINARY(op, a, b)`: a `BINARY` node at the operator token with
the two children `a`, `b`. -/
def bin_node (op : token_t F) (a b : ast_node F) : ast_node F :=
  .node .ASTK_BINARY op.pos .AST_TYPE_UNKNOWN (.binary op.kind)
    (a.set_right (b.set_right .nil)) .nil

/-- The tree `UNARY(op, a)`: a `UNARY` node at the operator token with the one
child `a`. -/
def un_node (op : token_t F) (a : ast_node F) : ast_node F :=
  .node .ASTK_UNARY op.pos .AST_TYPE_UNKNOWN (.unary op.kind) (a.set_right .nil) .nil

/-- The leaf `NUM_LIT` of a numeric literal token. -/
def num_node (t : token_t F) : ast_node F :=
  .node .ASTK_NUM_LIT t.pos
    (match t.lit with
      | .LIT_FLOAT _ => .AST_TYPE_FLOAT
      | _ => .AST_TYPE_INT)
    (.num t.lit) .nil .nil

/-- The parser state `s` stands at position `q` of the token list `toks`, with
symbol table `st` and name table `nt`. -/
def sa_at (toks : List (token_t F)) (st : symtable_t) (nt : nametable_t) (q : Nat)
    (s : syntax_analyzer_t F) : Prop :=
  s.tokens = toks ∧ s.symtable = st ∧ s.nametable = nt ∧ s.pos = q

/-- The parsing function `f` reads the tokens of `toks` from position `p` up
to position `q` as the tree `x`: with any bound `g0` or more on the descent,
from every parser state over `toks` at `p` with symbol table `st` and name
table `nt`, it returns `x` and a state over the same tokens and tables at `q`. -/
def yields (f : Nat → syntax_analyzer_t F → pres F) (toks : List (token_t F))
    (st : symtable_t) (nt : nametable_t) (g0 p : Nat) (x : ast_node F) (q : Nat) : Prop :=
  x.is_some = true ∧ p < q ∧
  ∀ (g : Nat) (s : syntax_analyzer_t F), g0 ≤ g → sa_at toks st nt p s →
    (f g s).1 = x ∧ sa_at toks st nt q (f g s).2

/-- The tokens from `p` to `q` are an operand `x`: what `parse_unary_` reads
there (a primary expression, or a prefix operator and its operand). -/
def operand_at (toks : List (token_t F)) (st : symtable_t) (nt : nametable_t)
    (g0 p : Nat) (x : ast_node F) (q : Nat) : Prop :=
  yields parse_unary_ toks st nt g0 p x q

/-- The parsing function of a level of the ladder: `0` is `parse_or_`, `6` is
`parse_pow_`, and below the ladder stands `parse_unary_`. -/
def layer_fn : Nat → Nat → syntax_analyzer_t F → pres F
  | 0 => parse_or_
  | 1 => parse_and_
  | 2 => parse_eq_
  | 3 => parse_rel_
  | 4 => parse_add_
  | 5 => parse_mul_
  | 6 => parse_pow_
  | _ => parse_unary_

end parser_aux

/-! ## Predicates on trees -/

section tree_preds
variable {F : Type}

/-- The kinds of the nodes of an expression. -/
def is_expr_kind (k : ast_kind_t) : Bool :=
  k = .ASTK_IDENT || k = .ASTK_CALL || k = .ASTK_ARG_LIST || k = .ASTK_NUM_LIT ||
    k = .ASTK_STR_LIT || k = .ASTK_UNARY || k = .ASTK_BINARY || k = .ASTK_BUILTIN_UNARY

/-- Every node reached from `n` through `left` and `right` links has a kind
satisfying `p`. -/
def all_kinds (p : ast_kind_t → Bool) : ast_node F → Bool
  | .nil => true
  | .node k _ _ _ l r => p k && all_kinds p l && all_kinds p r

/-- The nodes reached from `n` through `left` and `right` links, in preorder:
`n`, its descendants, then its later siblings and theirs. -/
def nodes : ast_node F → List (ast_node F)
  | .nil => []
  | .node k p t u l r => .node k p t u l r :: (nodes l ++ nodes r)

/-- The nodes of the subtree of `n`: `n` and its descendants. -/
def subtree (n : ast_node F) : List (ast_node F) :=
  nodes (n.set_right .nil)

/-- The children of a node, in order. -/
def chain_list : ast_node F → List (ast_node F)
  | .nil => []
  | .node k p t u l r => .node k p t u l r :: chain_list r

/-- The children of a node, in order, each taken on its own (without the link
to its next sibling). -/
def kids (n : ast_node F) : List (ast_node F) :=
  (chain_list n.left).map (fun c => c.set_right .nil)

/-- The result `r` of a parsing function started in state `s`: the tree (if
any) has expression nodes only, and the state has kept the return type of the
current function and the loop depth. -/
def expr_res (s : syntax_analyzer_t F) (r : pres F) : Prop :=
  all_kinds is_expr_kind r.1 = true ∧ r.2.cur_func_ret_type = s.cur_func_ret_type ∧
    r.2.loop_depth = s.loop_depth

/-- Every result of the parsing function `f` satisfies `expr_res`. -/
def expr_inv (f : syntax_analyzer_t F → pres F) : Prop :=
  ∀ s, expr_res s (f s)

/-- The children `l` of a `RETURN` node in a function of return type `ty`:
none in a void function, exactly one expression otherwise. -/
def ret_children_ok (ty : ast_type_t) (l : ast_node F) : Bool :=
  if ty = .AST_TYPE_VOID then !l.is_some
  else l.is_some && !l.right.is_some && all_kinds is_expr_kind l

/-- The statement chain `n` is well formed inside a function of return type
`ty`, `d` telling whether it stands inside a loop body: every `RETURN` has the
children `ret_children_ok` asks for, a `BREAK` is a leaf and needs `d`, every `WHILE` has
exactly two children, an expression and a statement that is well formed
inside a loop, and no `FUNC` or `PROGRAM` node occurs. -/
def stmt_ok (ty : ast_type_t) : Bool → ast_node F → Bool
  | _, .nil => true
  | d, .node k _ _ _ l r =>
    (if k = .ASTK_RETURN then ret_children_ok ty l
     else if k = .ASTK_BREAK then d && !l.is_some
     else if k = .ASTK_WHILE then
       (match l with
        | .nil => false
        | .node kc _ _ _ lc rc =>
          is_expr_kind kc && all_kinds is_expr_kind lc && rc.is_some && !rc.right.is_some &&
            stmt_ok ty true rc)
     else k ≠ .ASTK_FUNC && k ≠ .ASTK_PROGRAM && stmt_ok ty d l) && stmt_ok ty d r

/-- The result `r` of a statement-parsing function started in state `s`: the
tree (if any) is well formed for the return type and loop depth of `s`, and
the state has kept both. -/
def stmt_res (s : syntax_analyzer_t F) (r : pres F) : Prop :=
  stmt_ok s.cur_func_ret_type (decide (0 < s.loop_depth)) r.1 = true ∧
    r.2.cur_func_ret_type = s.cur_func_ret_type ∧ r.2.loop_depth = s.loop_depth

/-- Every result of the parsing function `f` satisfies `stmt_res`. -/
def stmt_inv (f : syntax_analyzer_t F → pres F) : Prop :=
  ∀ s, stmt_res s (f s)

/-- The header `h` of a `highkey` statement parsed from state `s`: its init
and step statements are well formed, its condition is an expression (present
when the header parsed), and the state has kept return type and loop depth. -/
def for_head_res (s : syntax_analyzer_t F) (h : for_head F) : Prop :=
  stmt_ok s.cur_func_ret_type (decide (0 < s.loop_depth)) h.init = true ∧
  all_kinds is_expr_kind h.cond = true ∧ (h.ok = true → h.cond.is_some = true) ∧
  stmt_ok s.cur_func_ret_type (decide (0 < s.loop_depth)) h.step_stmt = true ∧
  h.sa.cur_func_ret_type = s.cur_func_ret_type ∧ h.sa.loop_depth = s.loop_depth

/-- The collected `omega` branches are well formed: each condition is an
expression and each statement is well formed in the context `ty`, `d`. -/
def branches_ok (ty : ast_type_t) (d : Bool) (brs : List (ast_node F × ast_node F × token_pos_t)) :
    Prop :=
  ∀ b ∈ brs, all_kinds is_expr_kind b.1 = true ∧ stmt_ok ty d b.2.1 = true

/-- What `parse_block_loop_` keeps: a well-formed block stays well formed. -/
def block_loop_inv (f : ast_node F → syntax_analyzer_t F → pres F) : Prop :=
  ∀ (block : ast_node F) (s : syntax_analyzer_t F),
    stmt_ok s.cur_func_ret_type (decide (0 < s.loop_depth)) block = true →
    (block.kind ≠ .ASTK_RETURN ∧ block.kind ≠ .ASTK_BREAK ∧ block.kind ≠ .ASTK_WHILE) →
    stmt_res s (f block s)

/-- What `parse_omega_loop_` keeps: well-formed branches stay well formed, and
the state keeps return type and loop depth. -/
def omega_loop_inv (f : List (ast_node F × ast_node F × token_pos_t) → syntax_analyzer_t F →
    Option (List (ast_node F × ast_node F × token_pos_t)) × syntax_analyzer_t F) : Prop :=
  ∀ (brs : List (ast_node F × ast_node F × token_pos_t)) (s : syntax_analyzer_t F),
    branches_ok s.cur_func_ret_type (decide (0 < s.loop_depth)) brs →
    (∀ l, (f brs s).1 = some l →
      branches_ok s.cur_func_ret_type (decide (0 < s.loop_depth)) l) ∧
    (f brs s).2.cur_func_ret_type = s.cur_func_ret_type ∧
    (f brs s).2.loop_depth = s.loop_depth

/-- A parameter list: a `PARAM_LIST` node whose descendants are `PARAM` nodes. -/
def plist_ok : ast_node F → Bool
  | .node k _ _ _ l _ => k = .ASTK_PARAM_LIST && all_kinds (fun c => c = .ASTK_PARAM) l
  | .nil => false

/-- The children `l` of a `FUNC` node of return type `rt`: a parameter list and
one body, a `BLOCK` that is well formed for `rt` (`d` telling whether the
function itself stands inside a loop) and, when `rt` is not void, has a
`RETURN` as its last child. -/
def func_body_ok (d : Bool) (rt : ast_type_t) : ast_node F → Bool
  | .node kpl _ _ _ params body =>
    kpl = .ASTK_PARAM_LIST && all_kinds (fun c => c = .ASTK_PARAM) params &&
      body.is_some && !body.right.is_some && stmt_ok rt d body && body.kind = .ASTK_BLOCK &&
      (rt = .AST_TYPE_VOID || (last_child_ body).kind = .ASTK_RETURN)
  | .nil => false

/-- A chain of well-formed `FUNC` nodes. -/
def funcs_ok (d : Bool) : ast_node F → Bool
  | .nil => true
  | .node k _ _ u l r => k = .ASTK_FUNC && func_body_ok d u.decl_type l && funcs_ok d r

/-- A well-formed program: a `PROGRAM` node without siblings whose children
are well-formed `FUNC` nodes. -/
def program_ok (d : Bool) : ast_node F → Bool
  | .node k _ _ _ l r => k = .ASTK_PROGRAM && funcs_ok d l && !r.is_some
  | .nil => false

/-- The node `m` has exactly one child, an expression. -/
def has_one_expr_child (m : ast_node F) : Prop :=
  m.left.is_some = true ∧ m.left.right = .nil ∧ all_kinds is_expr_kind m.left = true

/-- The node `m` has no child. -/
def has_no_child (m : ast_node F) : Prop :=
  m.left = .nil

end tree_preds

/-! ## The parts of a `highkey` statement and of an `alpha` statement -/

section shapes
variable {F : Type}

/-- The node `n` taken on its own, without the link to its next sibling. -/
def alone (n : ast_node F) : ast_node F :=
  n.set_right .nil

/-- The node of the integer literal 1 that `make_true_lit_` creates at `pos`. -/
def int_one_at (pos : token_pos_t) : ast_node F :=
  .node .ASTK_NUM_LIT pos .AST_TYPE_INT (.num (.LIT_INT 1)) .nil .nil

/-- The state in which the init part of the `highkey` statement starting at
`sa` is parsed: after `highkey` and `(`. -/
def for_init_state (sa : syntax_analyzer_t F) : syntax_analyzer_t F :=
  (expect_ (sa_advance sa) .TOK_LPAREN "(").2

/-- The state in which the condition of the `highkey` statement starting at
`sa` is parsed: after the init part and its `;`. -/
def for_cond_state (fuel : Nat) (sa : syntax_analyzer_t F) : syntax_analyzer_t F :=
  (expect_ (for_init_ fuel (for_init_state sa)).2.2 .TOK_SEMICOLON ";").2

/-- The state in which the step of the `highkey` statement starting at `sa` is
parsed: after the condition and its `;`. -/
def for_step_state (fuel : Nat) (sa : syntax_analyzer_t F) : syntax_analyzer_t F :=
  (expect_ (for_cond_ fuel (for_cond_state fuel sa)).2 .TOK_SEMICOLON ";").2

/-- The state in which the body of the `highkey` statement starting at `sa` is
parsed: after the header, one loop deeper. -/
def for_body_state (fuel : Nat) (sa : syntax_analyzer_t F) : syntax_analyzer_t F :=
  { (parse_for_head_ fuel (sa_advance sa)).sa with
    loop_depth := (parse_for_head_ fuel (sa_advance sa)).sa.loop_depth + 1 }

/-- The parsed init statement of the `highkey` statement starting at `sa`
(`nil` when there is none). -/
def for_init_at (fuel : Nat) (sa : syntax_analyzer_t F) : ast_node F :=
  (for_init_ fuel (for_init_state sa)).2.1

/-- The condition of the `highkey` statement starting at `sa`. -/
def for_cond_at (fuel : Nat) (sa : syntax_analyzer_t F) : ast_node F :=
  (for_cond_ fuel (for_cond_state fuel sa)).1

/-- The parsed step (an assignment or an expression) of the `highkey`
statement starting at `sa` (`nil` when there is none). -/
def for_step_at (fuel : Nat) (sa : syntax_analyzer_t F) : ast_node F :=
  (for_step_ fuel (for_step_state fuel sa)).2.1

/-- The parsed body statement of the `highkey` statement starting at `sa`. -/
def for_body_at (fuel : Nat) (sa : syntax_analyzer_t F) : ast_node F :=
  (parse_statement_ fuel (for_body_state fuel sa)).1

/-- The state in which the condition of the `alpha` statement starting at `sa`
is parsed: after `alpha` and `(`. -/
def if_cond_state (sa : syntax_analyzer_t F) : syntax_analyzer_t F :=
  (expect_ (sa_advance sa) .TOK_LPAREN "(").2

/-- The condition of the `alpha` statement starting at `sa`. -/
def if_cond_at (fuel : Nat) (sa : syntax_analyzer_t F) : ast_node F :=
  (parse_expr_ fuel (if_cond_state sa)).1

/-- The state in which the then-statement of the `alpha` statement starting at
`sa` is parsed: after the condition and `)`. -/
def if_then_state (fuel : Nat) (sa : syntax_analyzer_t F) : syntax_analyzer_t F :=
  (expect_ (parse_expr_ fuel (if_cond_state sa)).2 .TOK_RPAREN ")").2

/-- The then-statement of the `alpha` statement starting at `sa`. -/
def if_then_at (fuel : Nat) (sa : syntax_analyzer_t F) : ast_node F :=
  (parse_statement_ fuel (if_then_state fuel sa)).1

/-- The state after the then-statement, where the `omega` branches start. -/
def if_omega_state (fuel : Nat) (sa : syntax_analyzer_t F) : syntax_analyzer_t F :=
  (parse_statement_ fuel (if_then_state fuel sa)).2

/-- The state after the `omega` branches, where a `sigma` may stand. -/
def if_sigma_state (fuel : Nat) (sa : syntax_analyzer_t F) : syntax_analyzer_t F :=
  (parse_omega_loop_ fuel [] (if_omega_state fuel sa)).2

/-- The statement after `sigma` of the `alpha` statement starting at `sa`. -/
def if_else_at (fuel : Nat) (sa : syntax_analyzer_t F) : ast_node F :=
  (parse_statement_ fuel (sa_advance (if_sigma_state fuel sa))).1

/-- The `omega` branches that stand at `sa`, in source order: the condition,
the statement and the position of the first one, parsed at `sa`, in front of
those that follow it; `none` when a branch fails to parse. -/
def omega_branches : Nat → syntax_analyzer_t F →
    Option (List (ast_node F × ast_node F × token_pos_t))
  | 0, _ => none
  | fuel + 1, sa =>
    match cur_ sa with
    | none => some []
    | some tok_o =>
      if tok_o.kind ≠ .TOK_KW_OMEGA then some []
      else
        let x1 := expect_ (sa_advance sa) .TOK_LPAREN "("
        if !x1.1 then none
        else
          let cnd := parse_expr_ fuel x1.2
          if !cnd.1.is_some then none
          else
            let x2 := expect_ cnd.2 .TOK_RPAREN ")"
            if !x2.1 then none
            else
              let st := parse_statement_ fuel x2.2
              if !st.1.is_some then none
              else (omega_branches fuel st.2).map (fun rest => (cnd.1, st.1, tok_o.pos) :: rest)

/-- The node `n` is the chain of the branches `brs` (in source order) that
ends in `els`: without branches it is `els` itself; otherwise it is a `BRANCH`
whose children are the condition and the statement of the first branch and,
if there is one, the chain of the other branches. -/
def chain_shape : List (ast_node F × ast_node F × token_pos_t) → ast_node F → ast_node F → Prop
  | [], els, n => n = els
  | b :: rest, els, n =>
    n.kind = .ASTK_BRANCH ∧
      ∃ tl : ast_node F, chain_shape rest els tl ∧
        kids n = [alone b.1, alone b.2.1] ++ (if tl.is_some then [tl] else [])

end shapes

/-! ## The unparser (`reverse-frontend.c`) -/

/-- The part of `operational_data_t` the unparser works on: the text written
to `out_file` so far and the error fields; with it the name table of the tree
(`ast_tree->nametable`).  `out_file` is taken to be open. -/
structure rf_t where
  out : String
  nametable : nametable_t
  error_pos : Nat
  error_msg : String
  deriving DecidableEq, Repr

section unparser
variable {F : Type}

/-- The function `rf_fail_`. -/
def rf_fail_ (op : rf_t) (pos : Nat) (rc : err_t) (msg : String) : err_t × rf_t :=
  (rc, { op with error_pos := pos,
                 error_msg := if op.error_msg = "" then msg else op.error_msg })

/-- A call `fprintf(out, ...)` that prints the text `s`. -/
def rf_put (op : rf_t) (s : String) : rf_t :=
  { op with out := op.out ++ s }

/-- The function `rf_type_kw_`. -/
def rf_type_kw_ : ast_type_t → String
  | .AST_TYPE_INT => "npc"
  | .AST_TYPE_FLOAT => "homie"
  | .AST_TYPE_PTR => "sus"
  | .AST_TYPE_VOID => "simp"
  | _ => "<type?>"

/-- The function `rf_builtin_kw_`. -/
def rf_builtin_kw_ (id : Int) : String :=
  if id = AST_BUILTIN_FLOOR then "stan"
  else if id = AST_BUILTIN_CEIL then "aura"
  else if id = AST_BUILTIN_ROUND then "delulu"
  else if id = AST_BUILTIN_ITOF then "goober"
  else if id = AST_BUILTIN_FTOI then "bozo"
  else "stan"

/-- The function `rf_indent_`. -/
def rf_indent_ (op : rf_t) (indent : Nat) : rf_t :=
  rf_put op (String.mk (List.replicate indent '\t'))

/-- The function `rf_expr_prec_`. -/
def rf_expr_prec_ : ast_node F → Int
  | .nil => 100
  | .node k _ _ u _ _ =>
    match k with
    | .ASTK_BINARY =>
      match u.op with
      | .TOK_OP_OR => 10
      | .TOK_OP_AND => 20
      | .TOK_OP_EQ => 30
      | .TOK_OP_NEQ => 30
      | .TOK_OP_GT => 40
      | .TOK_OP_LT => 40
      | .TOK_OP_GTE => 40
      | .TOK_OP_LTE => 40
      | .TOK_OP_PLUS => 50
      | .TOK_OP_MINUS => 50
      | .TOK_OP_MUL => 60
      | .TOK_OP_DIV => 60
      | .TOK_OP_POW => 70
      | _ => 55
    | .ASTK_UNARY => 80
    | .ASTK_BUILTIN_UNARY => 80
    | _ => 90

/-- An upper-case hexadecimal digit. -/
def hex_digit (n : Nat) : Char :=
  if n < 10 then Char.ofNat (48 + n) else Char.ofNat (55 + n)

/-- What `%02X` prints for a byte. -/
def fmt_02X (n : Nat) : String :=
  String.mk [hex_digit (n / 16), hex_digit (n % 16)]

/-- The `switch (c)` of `rf_emit_str_lit_`: what is printed for one byte of
the string. -/
def rf_str_char_ (c : Char) : String :=
  if c = '\\' then "\\\\"
  else if c = '"' then "\\\""
  else if c = '\n' then "\\n"
  else if c = '\t' then "\\t"
  else if c = '\r' then "\\r"
  else if c = NUL then "\\0"
  else if 32 ≤ c.toNat ∧ c.toNat < 127 then toString c.toNat
  else "\\x" ++ fmt_02X c.toNat

/-- The function `rf_emit_str_lit_` on the payload of the node; a payload that
is not a string reads as a `NULL` pointer. -/
def rf_emit_str_lit_ (op : rf_t) (u : ast_payload F) : rf_t :=
  let op1 := rf_put op "\""
  let op2 :=
    match u with
    | .str (some bytes) len => (bytes.take len).foldl (fun o c => rf_put o (rf_str_char_ c)) op1
    | _ => op1
  rf_put op2 "\""

/-- The text `name` of the emitters: `ast_name_cstr`, or the given default
when it is `NULL`. -/
def rf_name (nt : nametable_t) (id : Nat) (dflt : String) : String :=
  match nametable_get nt id with
  | some bs => str_of_bytes bs
  | none => dflt

mutual

/-- The function `rf_emit_expr_`, with the body of `rf_emit_call_` in the case
of a call.  No operator text holds a `%`, so `fprintf(out, opstr)` prints it
as it is. -/
def rf_emit_expr_ (ops : f64_ops F) (op : rf_t) : ast_node F → Int → Bool → err_t × rf_t
  | .nil, _, _ => rf_fail_ op 0 .ERR_SYNTAX "Expression node is NULL"
  | .node k p t u l r, parent_prec, is_right_child =>
    let my_prec := rf_expr_prec_ (.node k p t u l r)
    let need_parens :=
      decide (my_prec < parent_prec) || (is_right_child && decide (my_prec = parent_prec))
    let op1 := if need_parens then rf_put op "(" else op
    let body : err_t × rf_t :=
      match k with
      | .ASTK_IDENT => (.OK, rf_put op1 (rf_name op1.nametable u.name_id "<id?>"))
      | .ASTK_NUM_LIT =>
        match u.lit with
        | .LIT_INT i => (.OK, rf_put op1 (toString i))
        | .LIT_FLOAT f => (.OK, rf_put op1 (String.mk (ops.fmt_g f)))
        | .LIT_NONE => (.OK, rf_put op1 "0")
      | .ASTK_STR_LIT => (.OK, rf_emit_str_lit_ op1 u)
      | .ASTK_CALL =>
        let op2 := rf_put op1 (rf_name op1.nametable u.name_id "<fn?>" ++ "(")
        let ra := rf_emit_arg_list_ ops op2 l
        if ra.1 ≠ .OK then ra else (.OK, rf_put ra.2 ")")
      | .ASTK_BUILTIN_UNARY =>
        let op2 := rf_put op1 (rf_builtin_kw_ u.builtin_id ++ "(")
        if !l.is_some then rf_fail_ op2 p.offset .ERR_CORRUPT "BUILTIN_UNARY has no argument"
        else
          let ra := rf_emit_expr_ ops op2 l 0 false
          if ra.1 ≠ .OK then ra else (.OK, rf_put ra.2 ")")
      | .ASTK_UNARY =>
        let op2 := rf_put op1 (token_kind_to_cstr u.op)
        if !l.is_some then rf_fail_ op2 p.offset .ERR_CORRUPT "UNARY has no operand"
        else
          let rhs_parens := decide (l.kind = .ASTK_BINARY) || decide (rf_expr_prec_ l < 80)
          let op3 := if rhs_parens then rf_put op2 "(" else op2
          let ra := rf_emit_expr_ ops op3 l 80 false
          if ra.1 ≠ .OK then ra
          else (.OK, if rhs_parens then rf_put ra.2 ")" else ra.2)
      | .ASTK_BINARY =>
        if !l.is_some || !(second_of l).is_some then
          rf_fail_ op1 p.offset .ERR_CORRUPT "BINARY must have two operands"
        else
          let ra := rf_emit_expr_ ops op1 l my_prec false
          if ra.1 ≠ .OK then ra
          else
            rf_emit_second_ ops (rf_put ra.2 (" " ++ token_kind_to_cstr u.op ++ " ")) l
              my_prec true
      | _ => rf_fail_ op1 p.offset .ERR_CORRUPT "Unexpected node kind in expression"
    if body.1 ≠ .OK then body
    else (.OK, if need_parens then rf_put body.2 ")" else body.2)

/-- The call `rf_emit_expr_(op, t, a->right, ...)` for a node `a`. -/
def rf_emit_second_ (ops : f64_ops F) (op : rf_t) : ast_node F → Int → Bool → err_t × rf_t
  | .nil, _, _ => rf_fail_ op 0 .ERR_SYNTAX "Expression node is NULL"
  | .node _ _ _ _ _ b, parent_prec, is_right_child =>
    rf_emit_expr_ ops op b parent_prec is_right_child

/-- The function `rf_emit_arg_list_`, entered at the node `args`. -/
def rf_emit_arg_list_ (ops : f64_ops F) (op : rf_t) : ast_node F → err_t × rf_t
  | .nil => (.OK, op)
  | .node _ _ _ _ c _ =>
    if !c.is_some then (.OK, op)
    else
      let r := rf_emit_expr_ ops op c 0 false
      if r.1 ≠ .OK then r else rf_emit_args_after_ ops r.2 c

/-- The rest of the loop of `rf_emit_arg_list_`: the arguments behind `prev`,
each after a comma. -/
def rf_emit_args_after_ (ops : f64_ops F) (op : rf_t) : ast_node F → err_t × rf_t
  | .nil => (.OK, op)
  | .node _ _ _ _ _ c =>
    if !c.is_some then (.OK, op)
    else
      let r := rf_emit_expr_ ops (rf_put op ", ") c 0 false
      if r.1 ≠ .OK then r else rf_emit_args_after_ ops r.2 c

end

/-- The function `rf_emit_call_`. -/
def rf_emit_call_ (ops : f64_ops F) (op : rf_t) (call : ast_node F) : err_t × rf_t :=
  if !call.is_some then (.ERR_BAD_ARG, op)
  else
    let op1 := rf_put op (rf_name op.nametable call.u.name_id "<fn?>" ++ "(")
    let ra := rf_emit_arg_list_ ops op1 call.left
    if ra.1 ≠ .OK then ra else (.OK, rf_put ra.2 ")")

/-- The statements of `rf_emit_stmt_` that hold no statement: declarations,
assignments, `gg`, `micdrop`, calls, prints, expression statements. -/
def rf_emit_simple_ (ops : f64_ops F) (op : rf_t) (st : ast_node F) (indent : Nat) :
    err_t × rf_t :=
  let e := st.left
  match st.kind with
  | .ASTK_VAR_DECL =>
    let op1 := rf_put (rf_indent_ op indent)
      (rf_type_kw_ st.u.decl_type ++ " " ++ rf_name op.nametable st.u.name_id "<var?>")
    if e.is_some then
      let rc := rf_emit_expr_ ops (rf_put op1 " gaslight ") e 0 false
      if rc.1 ≠ .OK then rc else (.OK, rf_put rc.2 ";\n")
    else (.OK, rf_put op1 ";\n")
  | .ASTK_ASSIGN =>
    if !e.is_some then rf_fail_ op (node_pos st).offset .ERR_CORRUPT "ASSIGN must have rhs"
    else
      let op1 := rf_put (rf_indent_ op indent)
        (rf_name op.nametable st.u.name_id "<id?>" ++ " gaslight ")
      let rc := rf_emit_expr_ ops op1 e 0 false
      if rc.1 ≠ .OK then rc else (.OK, rf_put rc.2 ";\n")
  | .ASTK_BREAK => (.OK, rf_put (rf_indent_ op indent) "gg;\n")
  | .ASTK_RETURN =>
    let op1 := rf_put (rf_indent_ op indent) "micdrop"
    if e.is_some then
      let rc := rf_emit_expr_ ops (rf_put op1 " ") e 0 false
      if rc.1 ≠ .OK then rc else (.OK, rf_put rc.2 ";\n")
    else (.OK, rf_put op1 ";\n")
  | .ASTK_CALL_STMT =>
    if !e.is_some || e.kind ≠ .ASTK_CALL then
      rf_fail_ op (node_pos st).offset .ERR_CORRUPT "CALL_STMT must contain CALL"
    else
      let rc := rf_emit_call_ ops (rf_put (rf_indent_ op indent) "bruh ") e
      if rc.1 ≠ .OK then rc else (.OK, rf_put rc.2 ";\n")
  | .ASTK_EXPR_STMT =>
    if !e.is_some then rf_fail_ op (node_pos st).offset .ERR_CORRUPT "EXPR_STMT must have expr"
    else
      let rc := rf_emit_expr_ ops (rf_indent_ op indent) e 0 false
      if rc.1 ≠ .OK then rc else (.OK, rf_put rc.2 ";\n")
  | .ASTK_EMPTY => (.OK, op)
  | k =>
    if k = .ASTK_COUT ∨ k = .ASTK_ICOUT ∨ k = .ASTK_FCOUT then
      if !e.is_some then
        rf_fail_ op (node_pos st).offset .ERR_CORRUPT "COUT/ICOUT/FCOUT must have expr"
      else
        let kw := if k = .ASTK_COUT then "based" else if k = .ASTK_ICOUT then "mid" else "peak"
        let rc := rf_emit_expr_ ops (rf_put (rf_indent_ op indent) (kw ++ "(")) e 0 false
        if rc.1 ≠ .OK then rc else (.OK, rf_put rc.2 ");\n")
    else
      rf_fail_ op (node_pos st).offset .ERR_CORRUPT "Unknown/unsupported statement node"

mutual

/-- The function `rf_emit_stmt_`, with `rf_emit_block_` and the entry of
`rf_emit_if_chain_` in their cases. -/
def rf_emit_stmt_ (ops : f64_ops F) (op : rf_t) : ast_node F → Nat → err_t × rf_t
  | .nil, _ => (.ERR_BAD_ARG, op)
  | .node k p t u l r, indent =>
    match k with
    | .ASTK_BLOCK =>
      let op1 := rf_put (rf_indent_ op indent) "yap\n"
      let rs :=
        if !l.is_some then (err_t.OK, op1)
        else
          let r1 := rf_emit_stmt_ ops op1 l (indent + 1)
          if r1.1 ≠ .OK then r1 else rf_emit_stmts_after_ ops r1.2 l (indent + 1)
      if rs.1 ≠ .OK then rs else (.OK, rf_put (rf_indent_ rs.2 indent) "yapity\n")
    | .ASTK_WHILE =>
      if !l.is_some || !(second_of l).is_some then
        rf_fail_ op p.offset .ERR_CORRUPT "WHILE must have (cond, body)"
      else
        let rc := rf_emit_expr_ ops (rf_put (rf_indent_ op indent) "lowkey (") l 0 false
        if rc.1 ≠ .OK then rc
        else rf_emit_stmt_second_ ops (rf_put rc.2 ")\n") l (indent + 1)
    | .ASTK_IF =>
      if !l.is_some || !(second_of l).is_some then
        rf_fail_ op p.offset .ERR_CORRUPT "IF must have (cond, then)"
      else
        let rc := rf_emit_expr_ ops (rf_put (rf_indent_ op indent) "alpha (") l 0 false
        if rc.1 ≠ .OK then rc
        else
          let rt := rf_emit_stmt_second_ ops (rf_put rc.2 ")\n") l (indent + 1)
          if rt.1 ≠ .OK then rt else rf_emit_if_tail_ ops rt.2 l indent
    | _ => rf_emit_simple_ ops op (.node k p t u l r) indent

/-- The call `rf_emit_stmt_(op, t, c->right, indent)` for a node `c`. -/
def rf_emit_stmt_second_ (ops : f64_ops F) (op : rf_t) : ast_node F → Nat → err_t × rf_t
  | .nil, _ => (.ERR_BAD_ARG, op)
  | .node _ _ _ _ _ b, indent => rf_emit_stmt_ ops op b indent

/-- The rest of the loop of `rf_emit_block_`: the statements behind `prev`. -/
def rf_emit_stmts_after_ (ops : f64_ops F) (op : rf_t) : ast_node F → Nat → err_t × rf_t
  | .nil, _ => (.OK, op)
  | .node _ _ _ _ _ c, indent =>
    if !c.is_some then (.OK, op)
    else
      let r1 := rf_emit_stmt_ ops op c indent
      if r1.1 ≠ .OK then r1 else rf_emit_stmts_after_ ops r1.2 c indent

/-- The loop `while (cur)` of `rf_emit_if_chain_`, entered at a condition `c`
whose statement `c->right` has been emitted: `cur` is `c->right->right`. -/
def rf_emit_if_tail_ (ops : f64_ops F) (op : rf_t) : ast_node F → Nat → err_t × rf_t
  | .nil, _ => (.OK, op)
  | .node _ _ _ _ _ th, indent =>
    match th with
    | .nil => (.OK, op)
    | .node _ _ _ _ _ cur =>
      match cur with
      | .nil => (.OK, op)
      | .node ck cp _ _ cl _ =>
        if ck = .ASTK_BRANCH then
          if !cl.is_some || !(second_of cl).is_some then
            rf_fail_ op cp.offset .ERR_CORRUPT "BRANCH must have (cond, stmt)"
          else
            let rc := rf_emit_expr_ ops (rf_put (rf_indent_ op indent) "omega (") cl 0 false
            if rc.1 ≠ .OK then rc
            else
              let rs := rf_emit_stmt_second_ ops (rf_put rc.2 ")\n") cl (indent + 1)
              if rs.1 ≠ .OK then rs else rf_emit_if_tail_ ops rs.2 cl indent
        else if ck = .ASTK_ELSE then
          if !cl.is_some then rf_fail_ op cp.offset .ERR_CORRUPT "ELSE must have body"
          else rf_emit_stmt_ ops (rf_put (rf_indent_ op indent) "sigma\n") cl (indent + 1)
        else rf_fail_ op cp.offset .ERR_CORRUPT "IF tail is neither BRANCH nor ELSE"

end

/-- The loop of `rf_emit_param_list_` over the parameters from `p` on. -/
def rf_emit_params_ (op : rf_t) (first : Bool) : ast_node F → err_t × rf_t
  | .nil => (.OK, op)
  | .node k p _ u _ r =>
    if k ≠ .ASTK_PARAM then rf_fail_ op p.offset .ERR_CORRUPT "PARAM_LIST contains non-PARAM"
    else
      let op1 := if !first then rf_put op ", " else op
      rf_emit_params_
        (rf_put op1 (rf_type_kw_ u.decl_type ++ " " ++ rf_name op.nametable u.name_id "<param?>"))
        false r

/-- The function `rf_emit_param_list_`. -/
def rf_emit_param_list_ (op : rf_t) (plist : ast_node F) : err_t × rf_t :=
  if !plist.is_some || plist.kind ≠ .ASTK_PARAM_LIST then
    rf_fail_ op (node_pos plist).offset .ERR_CORRUPT "Expected PARAM_LIST"
  else rf_emit_params_ op true plist.left

/-- The function `rf_emit_func_`. -/
def rf_emit_func_ (ops : f64_ops F) (op : rf_t) (fn : ast_node F) : err_t × rf_t :=
  if !fn.is_some || fn.kind ≠ .ASTK_FUNC then
    rf_fail_ op (node_pos fn).offset .ERR_CORRUPT "Expected FUNC"
  else if !fn.left.is_some || !(second_of fn.left).is_some then
    rf_fail_ op (node_pos fn).offset .ERR_CORRUPT "FUNC must have (PARAM_LIST, BLOCK)"
  else
    let op1 := rf_put op
      (rf_type_kw_ fn.u.decl_type ++ " " ++ rf_name op.nametable fn.u.name_id "<fn?>" ++ "(")
    let rp := rf_emit_param_list_ op1 fn.left
    if rp.1 ≠ .OK then rp
    else
      let rb := rf_emit_stmt_ ops (rf_put rp.2 ")\n") (second_of fn.left) 0
      if rb.1 ≠ .OK then rb else (.OK, rf_put rb.2 "\n")

/-- The loop of `rf_emit_program_` over the functions from `fn` on; the flag
tells whether a function has been emitted. -/
def rf_emit_funcs_ (ops : f64_ops F) (op : rf_t) (any : Bool) :
    ast_node F → err_t × rf_t × Bool
  | .nil => (.OK, op, any)
  | .node k p t u l r =>
    if k ≠ .ASTK_FUNC then
      let f := rf_fail_ op p.offset .ERR_CORRUPT "PROGRAM contains non-FUNC"
      (f.1, f.2, any)
    else
      let rc := rf_emit_func_ ops op (.node k p t u l r)
      if rc.1 ≠ .OK then (rc.1, rc.2, any) else rf_emit_funcs_ ops rc.2 true r

/-- The function `rf_emit_program_`. -/
def rf_emit_program_ (ops : f64_ops F) (op : rf_t) (root : ast_node F) : err_t × rf_t :=
  if !root.is_some || root.kind ≠ .ASTK_PROGRAM then
    rf_fail_ op (node_pos root).offset .ERR_CORRUPT "AST root must be PROGRAM"
  else
    let r := rf_emit_funcs_ ops op false root.left
    if r.1 ≠ .OK then (r.1, r.2.1)
    else if !r.2.2 then rf_fail_ r.2.1 (node_pos root).offset .ERR_SYNTAX "PROGRAM has no functions"
    else (.OK, r.2.1)

/-- The function `reverse_frontend_write_rot` on the tree with root `root` and
name table `nt`, writing to an empty file. -/
def reverse_frontend_write_rot (ops : f64_ops F) (nt : nametable_t) (root : ast_node F) :
    err_t × rf_t :=
  let op : rf_t := { out := "", nametable := nt, error_pos := 0, error_msg := "" }
  if !root.is_some then rf_fail_ op 0 .ERR_SYNTAX "AST root is NULL"
  else rf_emit_program_ ops op root

end unparser

/-! ## Structural equivalence of trees -/

section equiv
variable {F : Type} [DecidableEq F]

/-- The member `u.str` (pointer and length); a payload that is not a string
reads as the `NULL` pointer with length 0. -/
def ast_payload.str_val : ast_payload F → Option (List Char) × Nat
  | .str ptr len => (ptr, len)
  | _ => (none, 0)

/-- The field `n->type`. -/
def ast_node.type : ast_node F → ast_type_t
  | .nil => .AST_TYPE_UNKNOWN
  | .node _ _ t _ _ _ => t

/-- The names `a` of the table `nt1` and `b` of the table `nt2` have the same text. -/
def same_name (nt1 nt2 : nametable_t) (a b : Nat) : Bool :=
  nametable_get nt1 a = nametable_get nt2 b

/-- The payloads of two nodes of kind `k` agree: names by text, declared
types, operators, literal values, builtin ids, strings by content and length,
each for the kinds that carry it. -/
def payload_equiv (nt1 nt2 : nametable_t) (k : ast_kind_t) (u v : ast_payload F) : Bool :=
  match k with
  | .ASTK_FUNC => same_name nt1 nt2 u.name_id v.name_id && u.decl_type = v.decl_type
  | .ASTK_PARAM => same_name nt1 nt2 u.name_id v.name_id && u.decl_type = v.decl_type
  | .ASTK_VAR_DECL => same_name nt1 nt2 u.name_id v.name_id && u.decl_type = v.decl_type
  | .ASTK_ASSIGN => same_name nt1 nt2 u.name_id v.name_id
  | .ASTK_IDENT => same_name nt1 nt2 u.name_id v.name_id
  | .ASTK_CALL => same_name nt1 nt2 u.name_id v.name_id
  | .ASTK_NUM_LIT => u.lit = v.lit
  | .ASTK_STR_LIT => u.str_val = v.str_val
  | .ASTK_UNARY => u.op = v.op
  | .ASTK_BINARY => u.op = v.op
  | .ASTK_BUILTIN_UNARY => u.builtin_id = v.builtin_id
  | _ => true

/-- Structural equivalence of two trees with their name tables: the same
kinds, equivalent payloads and the same first-child/next-sibling shape; with
`types` also the same semantic type on every node.  Positions are not
compared. -/
def ast_equiv (nt1 nt2 : nametable_t) (types : Bool) : ast_node F → ast_node F → Bool
  | .nil, .nil => true
  | .node k _ t u l r, .node k2 _ t2 u2 l2 r2 =>
    k = k2 && (!types || t = t2) && payload_equiv nt1 nt2 k u u2 &&
      ast_equiv nt1 nt2 types l l2 && ast_equiv nt1 nt2 types r r2
  | _, _ => false

end equiv

/-! ## The S-expression writer and reader (`ast.c`) -/

section sexpr_writer
variable {F : Type}

/-- The function `ast_type_to_cstr`. -/
def ast_type_to_cstr : ast_type_t → String
  | .AST_TYPE_UNKNOWN => "unknown"
  | .AST_TYPE_INT => "int"
  | .AST_TYPE_FLOAT => "float"
  | .AST_TYPE_PTR => "ptr"
  | .AST_TYPE_VOID => "void"

/-- The function `dump_payload_`: what is printed for the payload of a node of
kind `k`. -/
def dump_payload_ (ops : f64_ops F) (nt : nametable_t) (k : ast_kind_t) (u : ast_payload F) :
    String :=
  match k with
  | .ASTK_FUNC => " name=" ++ name_str nt u.name_id ++ " ret=" ++ ast_type_to_cstr u.decl_type
  | .ASTK_PARAM => " name=" ++ name_str nt u.name_id ++ " type=" ++ ast_type_to_cstr u.decl_type
  | .ASTK_VAR_DECL =>
    " name=" ++ name_str nt u.name_id ++ " type=" ++ ast_type_to_cstr u.decl_type
  | .ASTK_ASSIGN => " name=" ++ name_str nt u.name_id
  | .ASTK_IDENT => " name=" ++ name_str nt u.name_id
  | .ASTK_CALL => " name=" ++ name_str nt u.name_id
  | .ASTK_NUM_LIT =>
    match u.lit with
    | .LIT_INT i => " int=" ++ toString i
    | .LIT_FLOAT f => " float=" ++ String.mk (ops.fmt_g f)
    | .LIT_NONE => ""
  | .ASTK_STR_LIT => " str_len=" ++ toString u.str_val.2
  | .ASTK_UNARY => " op=" ++ token_kind_to_cstr u.op
  | .ASTK_BINARY => " op=" ++ token_kind_to_cstr u.op
  | .ASTK_BUILTIN_UNARY => " builtin=" ++ toString u.builtin_id
  | _ => ""

/-- The function `ast_dump_sexpr`: the text printed for `node`. -/
def ast_dump_sexpr (ops : f64_ops F) (nt : nametable_t) : ast_node F → String
  | .nil => "nil"
  | .node k _ _ u l r =>
    "( " ++ ast_kind_to_cstr k ++ dump_payload_ ops nt k u ++ " " ++
      ast_dump_sexpr ops nt l ++ " " ++ ast_dump_sexpr ops nt r ++ " )"

/-- The file written by the front end (`frontend-main.c`): the dump of the
root and a newline. -/
def east_text (ops : f64_ops F) (nt : nametable_t) (root : ast_node F) : String :=
  ast_dump_sexpr ops nt root ++ "\n"

end sexpr_writer

/-- The reader (`sxr_t`) with what it reaches through its pointers: the text,
the offset, the error slot of the operational buffer and the name table of the
tree that is being built. -/
structure sxr_t where
  buffer : List Char
  offset : Nat
  error_pos : Nat
  error_msg : String
  nametable : nametable_t
  deriving DecidableEq, Repr

/-- The node kinds in the order of the enumeration. -/
def all_ast_kinds : List ast_kind_t :=
  [.ASTK_EMPTY, .ASTK_PROGRAM, .ASTK_FUNC, .ASTK_PARAM_LIST, .ASTK_PARAM, .ASTK_BLOCK,
   .ASTK_VAR_DECL, .ASTK_ASSIGN, .ASTK_WHILE, .ASTK_IF, .ASTK_BRANCH, .ASTK_ELSE,
   .ASTK_RETURN, .ASTK_BREAK, .ASTK_CALL_STMT, .ASTK_EXPR_STMT,
   .ASTK_COUT, .ASTK_ICOUT, .ASTK_FCOUT,
   .ASTK_IDENT, .ASTK_CALL, .ASTK_ARG_LIST, .ASTK_NUM_LIT, .ASTK_STR_LIT,
   .ASTK_UNARY, .ASTK_BINARY, .ASTK_BUILTIN_UNARY]

/-- The token kinds in the order of the enumeration. -/
def all_token_kinds : List token_kind_t :=
  [.TOK_EOF, .TOK_ERROR, .TOK_IDENTIFIER, .TOK_NUMERIC_LITERAL, .TOK_STRING_LITERAL,
   .TOK_LPAREN, .TOK_RPAREN, .TOK_COMMA, .TOK_SEMICOLON,
   .TOK_OP_OR, .TOK_OP_AND, .TOK_OP_EQ, .TOK_OP_NEQ, .TOK_OP_GT, .TOK_OP_LT,
   .TOK_OP_GTE, .TOK_OP_LTE, .TOK_OP_PLUS, .TOK_OP_MINUS, .TOK_OP_MUL, .TOK_OP_DIV,
   .TOK_OP_POW, .TOK_OP_NOT,
   .TOK_KW_NPC, .TOK_KW_HOMIE, .TOK_KW_SUS, .TOK_KW_SIMP,
   .TOK_KW_YAP, .TOK_KW_YAPITY, .TOK_KW_LOWKEY, .TOK_KW_HIGHKEY,
   .TOK_KW_ALPHA, .TOK_KW_OMEGA, .TOK_KW_SIGMA, .TOK_KW_GG, .TOK_KW_MICDROP, .TOK_KW_BRUH,
   .TOK_KW_GASLIGHT, .TOK_KW_BASED, .TOK_KW_MID, .TOK_KW_PEAK,
   .TOK_KW_STAN, .TOK_KW_AURA, .TOK_KW_DELULU, .TOK_KW_GOOBER, .TOK_KW_BOZO]

/-- The function `sxr_fail_`: the first error is kept. -/
def sxr_fail_ (r : sxr_t) (msg : String) : sxr_t :=
  if r.error_msg ≠ "" then r
  else
    { r with error_pos := r.offset,
             error_msg := msg ++ at_suffix (pos_from_offset_ r.buffer r.offset) }

/-- The function `sxr_skip_ws_`. -/
def sxr_skip_ws_ (r : sxr_t) : sxr_t :=
  { r with offset := r.offset + ((r.buffer.drop r.offset).takeWhile c_isspace).length }

/-- The function `sxr_consume_`. -/
def sxr_consume_ (r : sxr_t) (ch : Char) : Bool × sxr_t :=
  let r1 := sxr_skip_ws_ r
  if r1.buffer.get? r1.offset = some ch then (true, { r1 with offset := r1.offset + 1 })
  else (false, r1)

/-- The function `sxr_is_delim_`. -/
def sxr_is_delim_ (c : Char) : Bool :=
  c_isspace c || c = '(' || c = ')' || c = NUL

/-- The run of characters up to the next delimiter at the offset of `r`. -/
def sxr_run (r : sxr_t) : List Char :=
  (r.buffer.drop r.offset).takeWhile (fun c => !sxr_is_delim_ c)

/-- The function `sxr_atom_` with a destination of `cap` bytes: the atom
copied to it (`none` when the function returns 0), and the reader afterwards. -/
def sxr_atom_ (r : sxr_t) (cap : Nat) : Option (List Char) × sxr_t :=
  let r1 := sxr_skip_ws_ r
  match r1.buffer.get? r1.offset with
  | none => (none, r1)
  | some c =>
    if c = '(' ∨ c = ')' then (none, r1)
    else
      let run := sxr_run r1
      let r2 := { r1 with offset := r1.offset + run.length }
      if run.length = 0 then (none, r2)
      else (some (run.take (if run.length ≥ cap then cap - 1 else run.length)), r2)

/-- The function `sxr_next_is_payload_`. -/
def sxr_next_is_payload_ (r : sxr_t) : Bool × sxr_t :=
  let r1 := sxr_skip_ws_ r
  match r1.buffer.get? r1.offset with
  | none => (false, r1)
  | some c =>
    if c = '(' ∨ c = ')' then (false, r1)
    else ((sxr_run r1).contains '=', r1)

/-- The function `ast_kind_from_text_`. -/
def ast_kind_from_text_ (s : List Char) : Option ast_kind_t :=
  all_ast_kinds.find? (fun k => (ast_kind_to_cstr k).toList = s)

/-- The function `ast_type_from_text_`. -/
def ast_type_from_text_ (s : List Char) : ast_type_t :=
  if s = "int".toList then .AST_TYPE_INT
  else if s = "float".toList then .AST_TYPE_FLOAT
  else if s = "ptr".toList then .AST_TYPE_PTR
  else if s = "void".toList then .AST_TYPE_VOID
  else .AST_TYPE_UNKNOWN

/-- The function `token_kind_from_text_`. -/
def token_kind_from_text_ (s : List Char) : token_kind_t :=
  (all_token_kinds.find? (fun k => (token_kind_to_cstr k).toList = s)).getD .TOK_ERROR

/-- The magnitude that `strtoll`, `strtol` and `strtoull` read in base 10:
leading white space, an optional sign (`true` for `-`), the run of digits. -/
def c_strto_parts (s : List Char) : Bool × Nat :=
  let s1 := s.dropWhile c_isspace
  let neg := s1.head? = some '-'
  let s2 := if s1.head? = some '-' ∨ s1.head? = some '+' then s1.drop 1 else s1
  (neg, digits_value (s2.takeWhile c_isdigit) 0)

/-- The C function `strtoll(s, NULL, 10)` (and `strtol`, `long` having 64
bits): the value, and whether `errno` was set for a value out of range. -/
def c_strtoll (s : List Char) : Int × Bool :=
  let p := c_strto_parts s
  if p.1 then
    if p.2 > 2 ^ 63 then (-(2 ^ 63), true) else (-(p.2 : Int), false)
  else
    if p.2 ≥ 2 ^ 63 then (2 ^ 63 - 1, true) else ((p.2 : Int), false)

/-- The C function `strtoull(s, NULL, 10)`. -/
def c_strtoull (s : List Char) : Nat :=
  let p := c_strto_parts s
  if p.2 ≥ 2 ^ 64 then 2 ^ 64 - 1
  else if p.1 then (2 ^ 64 - p.2) % 2 ^ 64 else p.2

/-- The conversion of a `long` to the `int`-sized enumeration
`ast_builtin_unary_t`. -/
def to_int32 (v : Int) : Int :=
  (v + 2 ^ 31) % 2 ^ 32 - 2 ^ 31

section sexpr_reader
variable {F : Type}

/-- The assignment `n->u.<member>.name_id = id` of `sxr_apply_payload_`, for a
node of kind `k`. -/
def set_name_id (k : ast_kind_t) (u : ast_payload F) (id : Nat) : ast_payload F :=
  match k with
  | .ASTK_FUNC => .func id u.decl_type
  | .ASTK_PARAM => .param id u.decl_type
  | .ASTK_VAR_DECL => .vdecl id u.decl_type
  | .ASTK_ASSIGN => .assign id
  | .ASTK_IDENT => .ident id
  | .ASTK_CALL => .call id
  | _ => u

/-- The function `sxr_apply_payload_` on the node of kind `k`, type `ty` and
payload `u`: the result code, the type and payload afterwards, and the name
table.  `strtod` is taken to leave `errno` at 0. -/
def sxr_apply_payload_ (ops : f64_ops F) (nt : nametable_t) (k : ast_kind_t) (ty : ast_type_t)
    (u : ast_payload F) (atom : List Char) : err_t × ast_type_t × ast_payload F × nametable_t :=
  if !atom.contains '=' then (.OK, ty, u, nt)
  else
    let key := atom.takeWhile (fun c => c ≠ '=')
    let val := (atom.dropWhile (fun c => c ≠ '=')).drop 1
    if key = "name".toList then
      let ins := nametable_insert nt val
      if ins.1 = SIZE_MAX then (.ERR_ALLOC, ty, u, ins.2)
      else (.OK, ty, set_name_id k u ins.1, ins.2)
    else if key = "ret".toList ∧ k = .ASTK_FUNC then
      (.OK, ty, .func u.name_id (ast_type_from_text_ val), nt)
    else if key = "type".toList then
      if k = .ASTK_PARAM then (.OK, ty, .param u.name_id (ast_type_from_text_ val), nt)
      else if k = .ASTK_VAR_DECL then (.OK, ty, .vdecl u.name_id (ast_type_from_text_ val), nt)
      else (.OK, ty, u, nt)
    else if key = "int".toList ∧ k = .ASTK_NUM_LIT then
      let v := c_strtoll val
      if v.2 then (.ERR_SYNTAX, ty, u, nt)
      else (.OK, .AST_TYPE_INT, .num (.LIT_INT v.1), nt)
    else if key = "float".toList ∧ k = .ASTK_NUM_LIT then
      (.OK, .AST_TYPE_FLOAT, .num (.LIT_FLOAT (ops.strtod val)), nt)
    else if key = "op".toList then
      let opk := token_kind_from_text_ val
      if opk = .TOK_ERROR then (.ERR_SYNTAX, ty, u, nt)
      else if k = .ASTK_UNARY then (.OK, ty, .unary opk, nt)
      else if k = .ASTK_BINARY then (.OK, ty, .binary opk, nt)
      else (.OK, ty, u, nt)
    else if key = "builtin".toList ∧ k = .ASTK_BUILTIN_UNARY then
      (.OK, ty, .builtin_unary (to_int32 (c_strtoll val).1), nt)
    else if key = "str_len".toList ∧ k = .ASTK_STR_LIT then
      (.OK, ty, .str none (c_strtoull val), nt)
    else (.OK, ty, u, nt)

/-- The loop `while (sxr_next_is_payload_(r))` of `sxr_parse_node_` on the node
of kind `k`: whether it ended without error, the type and payload of the node,
and the reader.  Each round consumes an atom; the first argument bounds the
number of rounds. -/
def sxr_payload_loop (ops : f64_ops F) (k : ast_kind_t) :
    Nat → ast_type_t → ast_payload F → sxr_t → Bool × ast_type_t × ast_payload F × sxr_t
  | 0, ty, u, r => (true, ty, u, r)
  | fuel + 1, ty, u, r =>
    let np := sxr_next_is_payload_ r
    if !np.1 then (true, ty, u, np.2)
    else
      let a := sxr_atom_ np.2 256
      match a.1 with
      | none => (true, ty, u, a.2)
      | some kv =>
        let ap := sxr_apply_payload_ ops a.2.nametable k ty u kv
        let r1 := { a.2 with nametable := ap.2.2.2 }
        if ap.1 ≠ .OK then (false, ap.2.1, ap.2.2.1, sxr_fail_ r1 "Bad payload atom")
        else sxr_payload_loop ops k fuel ap.2.1 ap.2.2.1 r1

mutual

/-- The function `sxr_parse_node_`; `nil` stands for `NULL`, and the first
argument bounds the nesting depth. -/
def sxr_parse_node_ (ops : f64_ops F) : Nat → sxr_t → ast_node F × sxr_t
  | 0, r => (.nil, r)
  | fuel + 1, r =>
    let c1 := sxr_consume_ r '('
    if !c1.1 then (.nil, sxr_fail_ c1.2 "Expected '('")
    else
      let a := sxr_atom_ c1.2 64
      match a.1 with
      | none => (.nil, sxr_fail_ a.2 "Expected AST kind")
      | some kind_txt =>
        match ast_kind_from_text_ kind_txt with
        | none => (.nil, sxr_fail_ a.2 "Unknown AST kind")
        | some kind =>
          let pos := pos_from_offset_ a.2.buffer a.2.offset
          let pl := sxr_payload_loop ops kind (a.2.buffer.length + 1) .AST_TYPE_UNKNOWN .zero a.2
          if !pl.1 then (.nil, pl.2.2.2)
          else
            let left := sxr_parse_node_or_nil_ ops fuel pl.2.2.2
            if left.2.error_msg ≠ "" then (.nil, left.2)
            else
              let right := sxr_parse_node_or_nil_ ops fuel left.2
              if right.2.error_msg ≠ "" then (.nil, right.2)
              else
                let c2 := sxr_consume_ right.2 ')'
                if !c2.1 then (.nil, sxr_fail_ c2.2 "Expected ')'")
                else (.node kind pos pl.2.1 pl.2.2.1 left.1 right.1, c2.2)

/-- The function `sxr_parse_node_or_nil_`. -/
def sxr_parse_node_or_nil_ (ops : f64_ops F) : Nat → sxr_t → ast_node F × sxr_t
  | 0, r => (.nil, r)
  | fuel + 1, r =>
    let r1 := sxr_skip_ws_ r
    let a := sxr_atom_ r1 32
    match a.1 with
    | some txt =>
      if txt = "nil".toList then (.nil, a.2)
      else sxr_parse_node_ ops fuel { a.2 with offset := r1.offset }
    | none => sxr_parse_node_ ops fuel a.2

end

/-- The function `ast_read_sexpr_from_op` on a tree fresh from
`ast_tree_ctor(&ast_tree, NULL)` and the text `text` of the input file: the
result code, the root of the tree and the reader (with the name table of the
tree) afterwards. -/
def ast_read_sexpr_from_op (ops : f64_ops F) (text : List Char) : err_t × ast_node F × sxr_t :=
  let r0 : sxr_t :=
    { buffer := text, offset := 0, error_pos := 0, error_msg := "", nametable := nametable_ctor }
  let root := sxr_parse_node_or_nil_ ops (2 * text.length + 2) r0
  if !root.1.is_some then
    if root.2.error_msg ≠ "" then (.ERR_SYNTAX, .nil, root.2)
    else (.ERR_SYNTAX, .nil, sxr_fail_ root.2 "Failed to parse AST root")
  else
    let r1 := sxr_skip_ws_ root.2
    if r1.offset < r1.buffer.length then
      (.ERR_SYNTAX, .nil, sxr_fail_ r1 "Trailing garbage after AST")
    else (.OK, root.1, r1)

end sexpr_reader

/-! ## Concrete programs -/

/-- A program whose return expression multiplies a read from the input by zero. -/
def src_in_times_zero : List Char :=
  "npc main() yap micdrop in() * 0; yapity".toList

/-- The intrinsic instructions of the target machine that read input or write
output; the lines of an emitted program that carry one of them are the
observable events of a run that executes them. -/
def is_io_instr (line : String) : Bool :=
  ["IN", "FIN", "CIN", "TOPOUT", "FTOPOUT", "CTOPOUT", "DRAW", "CLEANVM", "POPVM x13"].contains line

/-- The input/output instructions of an emitted program, in order. -/
def io_instrs (lines : List String) : List String :=
  lines.filter is_io_instr

/-- A program whose `main` holds the expression statement `"a";`. -/
def src_str_stmt : List Char := "npc main() yap \"a\"; micdrop 0; yapity".toList

/-- A program that calls its local variable `x` as a function. -/
def src_call_var : List Char :=
  "npc main() yap npc x gaslight 1; x(); micdrop 0; yapity".toList

/-- A function `f` whose parameter is named `f` too. -/
def src_param_shadow : List Char := "npc f(npc f) yap micdrop f; yapity".toList

/-- An identifier that is no keyword and has the `sdbm_n` hash of the keyword `gg`. -/
def src_kw_collide : List Char := "_nvauwElkTUI".toList

/-- The lexer over the buffer `a 3.14;`, standing after the `3` (offset 3). -/
def lx_number : lexer_t :=
  { buffer := "a 3.14;".toList, pos := 3, line := 1, column := 4, nametable := nametable_ctor,
    error_pos := 0, error_msg := "" }

/-- A token on line 1 at the given offset, with its text and literal. -/
def tok_at (kind : token_kind_t) (offset : Nat) (text : String) (lit : literal_t ℚ) :
    token_t ℚ :=
  { kind := kind, pos := { line := 1, column := offset + 1, offset := offset },
    buffer := text.toList, length := text.length, lit := lit, name_id := SIZE_MAX }

/-- The source text of `toks_prec`. -/
def src_prec : List Char := "1 + 2 * 3; -4 ^ 5;".toList

/-- The tokens of `1 + 2 * 3; -4 ^ 5;`. -/
def toks_prec : List (token_t ℚ) :=
  [tok_at .TOK_NUMERIC_LITERAL 0 "1" (.LIT_INT 1), tok_at .TOK_OP_PLUS 2 "+" .LIT_NONE,
   tok_at .TOK_NUMERIC_LITERAL 4 "2" (.LIT_INT 2), tok_at .TOK_OP_MUL 6 "*" .LIT_NONE,
   tok_at .TOK_NUMERIC_LITERAL 8 "3" (.LIT_INT 3), tok_at .TOK_SEMICOLON 9 ";" .LIT_NONE,
   tok_at .TOK_OP_MINUS 11 "-" .LIT_NONE, tok_at .TOK_NUMERIC_LITERAL 12 "4" (.LIT_INT 4),
   tok_at .TOK_OP_POW 14 "^" .LIT_NONE, tok_at .TOK_NUMERIC_LITERAL 16 "5" (.LIT_INT 5),
   tok_at .TOK_SEMICOLON 17 ";" .LIT_NONE, tok_at .TOK_EOF 18 "" .LIT_NONE]

/-- The parser state over `toks_prec` at token `pos`. -/
def sa_prec (pos : Nat) : syntax_analyzer_t ℚ :=
  { syntax_analyzer_ctor src_prec toks_prec nametable_ctor with pos := pos }

/-- The parser state the front end sets up for a source text. -/
def sa_of_source (source : List Char) : syntax_analyzer_t ℚ :=
  let lx := lexer_stream exact_ops source
  syntax_analyzer_ctor source lx.2.1 lx.2.2.nametable

/-- A program with a `gg` in the body of a `lowkey` loop. -/
def src_break_lowkey : List Char := "npc main() yap lowkey (1) gg; micdrop 0; yapity".toList

/-- A program with a `gg` in the body of a `highkey` loop. -/
def src_break_highkey : List Char := "npc main() yap highkey (;;) gg; micdrop 0; yapity".toList

/-- A program with a `gg` outside of every loop. -/
def src_break_top : List Char := "npc main() yap gg; micdrop 0; yapity".toList

/-- A program with a void function that returns early and a function with a value. -/
def src_returns : List Char :=
  "simp f() yap alpha (1) micdrop; yapity npc main() yap alpha (1) micdrop 1; micdrop 0; yapity".toList

/-- A `highkey` statement with init, condition and an assignment as step. -/
def src_for : List Char := "highkey (npc i gaslight 0; i < 3; i gaslight i + 1) yap yapity".toList

/-- An `alpha` statement with two `omega` branches and a `sigma` branch. -/
def src_if : List Char := "alpha (1) gg; omega (2) gg; omega (3) gg; sigma gg;".toList

/-- The parser state of `src_if` inside a loop. -/
def sa_if : syntax_analyzer_t ℚ :=
  { sa_of_source src_if with loop_depth := 1 }

/-- A program that returns `(2 ^ 3) ^ 2`. -/
def src_pow_left : List Char := "npc main() yap micdrop (2 ^ 3) ^ 2; yapity".toList

/-- A program that returns `2 ^ (3 ^ 2)`. -/
def src_pow_right : List Char := "npc main() yap micdrop 2 ^ (3 ^ 2); yapity".toList

/-- The source text that `reverse_frontend_write_rot` writes for the tree of
the program `source`, with its result code. -/
def rot_of (source : List Char) : err_t × String :=
  let r := frontend exact_ops 64 source
  let w := reverse_frontend_write_rot exact_ops r.2.2 r.2.1
  (w.1, w.2.out)

/-- The front end on the text `rot_of source`. -/
def reparsed (source : List Char) : err_t × ast_node ℚ × nametable_t :=
  frontend exact_ops 64 (rot_of source).2.toList

/-- Whether the tree of `source` and the tree of its unparsed text are
structurally equivalent (types left aside). -/
def rot_roundtrip (source : List Char) : Bool :=
  ast_equiv (frontend exact_ops 64 source).2.2 (reparsed source).2.2 false
    (frontend exact_ops 64 source).2.1 (reparsed source).2.1

/-- The `.east` text the front end writes for the program `source`. -/
def east_of (source : List Char) : String :=
  east_text exact_ops (frontend exact_ops 64 source).2.2 (frontend exact_ops 64 source).2.1

/-- The S-expression reader on the text `east_of source`. -/
def reread (source : List Char) : err_t × ast_node ℚ × sxr_t :=
  ast_read_sexpr_from_op exact_ops (east_of source).toList

/-- Whether the tree of `source` and the tree read back from its `.east` text
are structurally equivalent, semantic types included or not. -/
def east_roundtrip (types : Bool) (source : List Char) : Bool :=
  ast_equiv (frontend exact_ops 64 source).2.2 (reread source).2.2.nametable types
    (frontend exact_ops 64 source).2.1 (reread source).2.1

/-- A program whose `main` returns 0. -/
def src_return_zero : List Char := "npc main() yap micdrop 0; yapity".toList

/-- The names of the callees of the `CALL` nodes of a tree, in pre-order. -/
def call_names (nt : nametable_t) (root : ast_node ℚ) : List String :=
  (calls_of root).map (name_str nt)

/-- The code generator on the tree of the program `source`. -/
def asm_of (source : List Char) : err_t × backend_t :=
  backend_emit_asm exact_ops (frontend exact_ops 64 source).2.2 (frontend exact_ops 64 source).2.1

/-- A float function that returns the integer quotient `1 / 0`. -/
def src_ret_div : List Char := "homie main() yap micdrop 1 / 0; yapity".toList

/-- A program that passes a string to the intrinsic `out`. -/
def src_out_str : List Char := "npc main() yap out(\"a\"); micdrop 0; yapity".toList

/-- The `STR_LIT` node of the argument of `out` in `src_out_str`. -/
def str_arg_node : ast_node ℚ :=
  .node .ASTK_STR_LIT { line := 1, column := 20, offset := 19 } .AST_TYPE_PTR
    (.str (some ['a']) 1) .nil .nil

/-- The tree of `(1 + 5/2) + 1` as the parser types it: literals typed, the
`BINARY` nodes of unknown type. -/
def sum_int_float_int : ast_node ℚ :=
  .node .ASTK_BINARY { line := 1, column := 1, offset := 0 } .AST_TYPE_UNKNOWN
    (.binary .TOK_OP_PLUS)
    (lit_bin_node .TOK_OP_PLUS { line := 1, column := 2, offset := 1 }
      { line := 1, column := 2, offset := 1 } { line := 1, column := 6, offset := 5 }
      .AST_TYPE_UNKNOWN .AST_TYPE_INT .AST_TYPE_FLOAT (.LIT_INT 1) (.LIT_FLOAT (5 / 2))
      (lit_node { line := 1, column := 13, offset := 12 } .AST_TYPE_INT (.LIT_INT 1) .nil))
    .nil

/-- The tree of `0 * 1.0`, followed by the sibling `8`. -/
def zero_times_one : ast_node ℚ :=
  lit_bin_node .TOK_OP_MUL { line := 1, column := 3, offset := 2 }
    { line := 1, column := 1, offset := 0 } { line := 1, column := 5, offset := 4 }
    .AST_TYPE_UNKNOWN .AST_TYPE_INT .AST_TYPE_FLOAT (.LIT_INT 0) (.LIT_FLOAT 1)
    (lit_node { line := 1, column := 10, offset := 9 } .AST_TYPE_INT (.LIT_INT 8) .nil)

/-- The chain of `9`, `7 + 0` and `8`. -/
def seven_plus_zero_chain : ast_node ℚ :=
  lit_node { line := 1, column := 1, offset := 0 } .AST_TYPE_INT (.LIT_INT 9)
    (lit_bin_node .TOK_OP_PLUS { line := 1, column := 6, offset := 5 }
      { line := 1, column := 4, offset := 3 } { line := 1, column := 8, offset := 7 }
      .AST_TYPE_UNKNOWN .AST_TYPE_INT .AST_TYPE_INT (.LIT_INT 7) (.LIT_INT 0)
      (lit_node { line := 1, column := 11, offset := 10 } .AST_TYPE_INT (.LIT_INT 8) .nil))

/-- A program without `main`. -/
def src_no_main : List Char := "npc f() yap micdrop 0; yapity".toList

/-- A function with two parameters and two locals, one of them in a loop. -/
def src_locals : List Char :=
  ("npc f(npc a, npc b) yap npc x gaslight a; lowkey (x < b) yap npc y gaslight 2; " ++
    "x gaslight x + y; yapity micdrop x; yapity npc main() yap micdrop f(1, 2); yapity").toList

/-- The state of the code generator after `be_collect_funcs_` on `src_locals`. -/
def be_locals : backend_t :=
  (be_collect_funcs_ (backend_init (frontend exact_ops 64 src_locals).2.2)
    (frontend exact_ops 64 src_locals).2.1).2

/-- The `FUNC` node of `f` in `src_locals`. -/
def fn_locals : ast_node ℚ := ast_child (frontend exact_ops 64 src_locals).2.1 0

/-- The metadata of `f` in `src_locals`. -/
def meta_locals : func_meta_t :=
  { name_id := 0, label := ":fn_f", ret_type := .AST_TYPE_INT, param_count := 2,
    param_types := [.AST_TYPE_INT, .AST_TYPE_INT], local_count := 2 }

/-- The first child of the first statement of the body of the first function
of a program: the expression of the `micdrop` with which the body starts. -/
def first_ret_expr (root : ast_node ℚ) : ast_node ℚ :=
  ast_child (ast_child (ast_child (ast_child root 0) 1) 0) 0

/-- The expression returned by the program `source`. -/
def ret_expr_of (source : List Char) : ast_node ℚ :=
  first_ret_expr (frontend exact_ops 64 source).2.1

/-- The expression returned by the program `source` after optimization. -/
def opt_ret_expr_of (source : List Char) : ast_node ℚ :=
  first_ret_expr (ast_optimize exact_ops (frontend exact_ops 64 source).2.1)

/-- The code generator on the expression returned by the program `source`,
with no binding. -/
def emit_ret_expr (source : List Char) : expr_result :=
  be_emit_expr_ exact_ops (backend_init (frontend exact_ops 64 source).2.2) (ret_expr_of source)

/-- The type inferred for the expression returned by the program `source`. -/
def infer_ret_expr (source : List Char) : ast_type_t :=
  be_infer_expr_type_ (backend_init (frontend exact_ops 64 source).2.2) (ret_expr_of source)

/-- A program that returns `2 ^ 3 ^ 2`, which is parsed as `2 ^ (3 ^ 2)`. -/
def src_pow_chain : List Char := "npc main() yap micdrop 2 ^ 3 ^ 2; yapity".toList

/-- A program that returns the sum of an int and a float literal. -/
def src_int_plus_float : List Char := "homie main() yap micdrop 1 + 2.5; yapity".toList

/-- A program that returns the conversion `bozo` (float to int) of a float
literal. -/
def src_ftoi : List Char := "npc main() yap micdrop bozo(2.5); yapity".toList

/-- A program that returns `1 && 2`. -/
def src_and : List Char := "npc main() yap micdrop 1 && 2; yapity".toList

/-- A program that returns the quotient of the least `i64_t` value by `-1`. -/
def src_div_min : List Char :=
  "npc main() yap micdrop (-9223372036854775807 - 1) / -1; yapity".toList

/-- A `highkey` loop whose body declares a variable with the name of the loop
variable. -/
def src_for_shadow : List Char :=
  "highkey (npc i gaslight 0; i < 3; i gaslight i + 1) yap npc i gaslight 5; yapity".toList

/-- The loop of `src_for_shadow` in a program. -/
def src_for_shadow_main : List Char :=
  "npc main() yap ".toList ++ src_for_shadow ++ " micdrop 0; yapity".toList

/-- A program whose first function returns an expression of the pure integer
fragment over its parameter. -/
def src_int_expr : List Char :=
  ("npc f(npc x) yap micdrop (x + 0) * 1 - -3 + 2 * 3; yapity " ++
    "npc main() yap micdrop f(1); yapity").toList

/-- A program with a loop in a loop: a `gg` in the inner loop, and a `gg` in
the outer loop behind the inner loop. -/
def src_nested_break : List Char :=
  ("npc main() yap lowkey (1) yap lowkey (2) yap gg; yapity alpha (3) gg; yapity " ++
    "micdrop 0; yapity").toList

/-- The body of `main` in `src_nested_break`. -/
def body_nested_break : ast_node ℚ :=
  ast_child (ast_child (frontend exact_ops 64 src_nested_break).2.1 0) 1

/-- The initial state of the code generator for `src_nested_break`. -/
def be_nested_break : backend_t :=
  backend_init (frontend exact_ops 64 src_nested_break).2.2

/-- A program with two functions, a comparison, an `alpha` statement and a
loop. -/
def src_two_funcs : List Char :=
  ("npc f(npc x) yap alpha (x < 1) micdrop 1; micdrop x; yapity " ++
    "npc main() yap lowkey (f(2) == 2 && !0) gg; micdrop 0; yapity").toList

/-- A program whose functions use a parameter and a local variable, in
expressions and as the target of an assignment. -/
def src_uses_ok : List Char :=
  ("npc f(npc x) yap npc a gaslight x; a gaslight a + 1; micdrop a + f(x); yapity " ++
    "npc main() yap micdrop f(1); yapity").toList

/-- A program that uses a name that is declared nowhere. -/
def src_use_undeclared : List Char := "npc main() yap micdrop y; yapity".toList

/-- A program that assigns to a name that is declared nowhere. -/
def src_assign_undeclared : List Char :=
  "npc main() yap z gaslight 1; micdrop 0; yapity".toList

/-- A program that uses the variable of a `highkey` header after the loop. -/
def src_for_leak : List Char :=
  ("npc main() yap highkey (npc i gaslight 0; i < 3; i gaslight i + 1) yap yapity " ++
    "micdrop i; yapity").toList

/-- A program that uses a variable after the block that declares it. -/
def src_block_scope : List Char :=
  "npc main() yap yap npc b gaslight 1; yapity micdrop b; yapity".toList

/-! ## Uses and declarations of names -/

section uses
variable {F : Type}

/-- The symbol table resolves the name: `symtable_lookup` finds a symbol, so
the test `symtable_lookup(...) < 0` of the parser fails. -/
def declared (st : symtable_t) (name_id : Nat) : Bool :=
  decide (0 ≤ symtable_lookup st name_id)

/-- The kinds of the nodes that use a name: `IDENT` and `ASSIGN`. -/
def is_use_kind (k : ast_kind_t) : Bool :=
  k = .ASTK_IDENT || k = .ASTK_ASSIGN

/-- The kinds of the nodes that declare a name: `FUNC`, `PARAM`, `VAR_DECL`. -/
def is_decl_kind (k : ast_kind_t) : Bool :=
  k = .ASTK_FUNC || k = .ASTK_PARAM || k = .ASTK_VAR_DECL

/-- Every `IDENT` and `ASSIGN` node reached from `n` through `left` and
`right` links names a name accepted by `p`. -/
def uses_in (p : Nat → Bool) : ast_node F → Bool
  | .nil => true
  | .node k _ _ u l r => (!is_use_kind k || p u.name_id) && uses_in p l && uses_in p r

/-- The kind and the name of the nodes reached from `n`, in preorder (the
order of `nodes`). -/
def name_events : ast_node F → List (ast_kind_t × Nat)
  | .nil => []
  | .node k _ _ u l r => (k, u.name_id) :: (name_events l ++ name_events r)

/-- The names declared in a sequence of nodes. -/
def decl_names (evs : List (ast_kind_t × Nat)) : List Nat :=
  (evs.filter (fun e => is_decl_kind e.1)).map (fun e => e.2)

/-- Every use in the sequence names a name of `env` or a name declared by a
node earlier in the sequence. -/
def declared_before : List Nat → List (ast_kind_t × Nat) → Bool
  | _, [] => true
  | env, (k, n) :: rest =>
    (!is_use_kind k || decide (n ∈ env)) &&
      declared_before (if is_decl_kind k then n :: env else env) rest

/-- The kind and the name of the nodes of the subtree of `n`, in preorder. -/
def own_events (n : ast_node F) : List (ast_kind_t × Nat) :=
  name_events (n.set_right .nil)

/-- Every use in the sequence names a name that `symtable_lookup` finds in
`st`, or a name declared by a node earlier in the sequence. -/
def uses_ok (st : symtable_t) (evs : List (ast_kind_t × Nat)) : Prop :=
  ∀ env : List Nat, (∀ n, declared st n = true → n ∈ env) → declared_before env evs = true

/-- Every name that `symtable_lookup` finds in `st2` is declared by a node of
the sequence or found in `st`. -/
def visible_from (st : symtable_t) (evs : List (ast_kind_t × Nat)) (st2 : symtable_t) : Prop :=
  ∀ n, declared st2 n = true → n ∈ decl_names evs ∨ declared st n = true

/-- The nodes `evs` were made while the symbol table went from `st` to `st2`. -/
def seg_ok (st : symtable_t) (evs : List (ast_kind_t × Nat)) (st2 : symtable_t) : Prop :=
  uses_ok st evs ∧ visible_from st evs st2

/-- The result `r` of a statement parser started in state `s`: when a tree is
returned, its uses are declared (`uses_ok`), and the names visible afterwards
were visible before or are declared in the tree. -/
def decl_res (s : syntax_analyzer_t F) (r : pres F) : Prop :=
  r.1.is_some = true → seg_ok s.symtable (own_events r.1) r.2.symtable

/-- Every result of the parsing function `f` satisfies `decl_res`. -/
def decl_inv (f : syntax_analyzer_t F → pres F) : Prop :=
  ∀ s, decl_res s (f s)

/-- The result `r` of an expression parser started in state `s`: the symbol
table is the one of `s`, and every `IDENT` node of the tree names a name that
`symtable_lookup` finds in it. -/
def use_res (s : syntax_analyzer_t F) (r : pres F) : Prop :=
  uses_in (declared s.symtable) r.1 = true ∧ r.2.symtable = s.symtable

/-- Every result of the parsing function `f` satisfies `use_res`. -/
def use_inv (f : syntax_analyzer_t F → pres F) : Prop :=
  ∀ s, use_res s (f s)

/-- The nodes of the `omega` branches collected by `parse_omega_loop_`, in
source order: for each branch its `BRANCH` node, its condition, its
statement. -/
def branch_events : List (ast_node F × ast_node F × token_pos_t) → List (ast_kind_t × Nat)
  | [] => []
  | (c, s, _) :: rest =>
    (.ASTK_BRANCH, 0) :: (own_events c ++ own_events s) ++ branch_events rest

/-- What `parse_block_loop_` keeps: the nodes of the block so far were made
while the table went from `st0` to the current one. -/
def block_decl_inv (f : ast_node F → syntax_analyzer_t F → pres F) : Prop :=
  ∀ (st0 : symtable_t) (block : ast_node F) (s : syntax_analyzer_t F),
    block.is_some = true → seg_ok st0 (own_events block) s.symtable →
    (f block s).1.is_some = true →
    seg_ok st0 (own_events (f block s).1) (f block s).2.symtable

/-- What `parse_omega_loop_` keeps: the nodes of the branches so far were made
while the table went from `st0` to the current one. -/
def omega_decl_inv (f : List (ast_node F × ast_node F × token_pos_t) → syntax_analyzer_t F →
    Option (List (ast_node F × ast_node F × token_pos_t)) × syntax_analyzer_t F) : Prop :=
  ∀ (st0 : symtable_t) (brs : List (ast_node F × ast_node F × token_pos_t))
    (s : syntax_analyzer_t F),
    seg_ok st0 (branch_events brs) s.symtable →
    ∀ l, (f brs s).1 = some l → seg_ok st0 (branch_events l) (f brs s).2.symtable

/-- The header `h` of a `highkey` statement parsed from state `s`: the init
statement takes the table of `s` to the table after the header, in which the
condition and the step were parsed. -/
def for_head_seg (s : syntax_analyzer_t F) (h : for_head F) : Prop :=
  h.ok = true →
    seg_ok s.symtable (own_events h.init) h.sa.symtable ∧
    seg_ok h.sa.symtable (own_events h.cond) h.sa.symtable ∧
    seg_ok h.sa.symtable (own_events h.step_stmt) h.sa.symtable

end uses

/-! ## Names of the functions of a program -/

section names
variable {F : Type}

/-- Name tables built by the code: `nametable_ctor` followed by calls of
`nametable_insert`, the only function that stores entries. -/
inductive NtBuilt : nametable_t → Prop where
  | ctor : NtBuilt nametable_ctor
  | insert (nt : nametable_t) (text : List Char) : NtBuilt nt →
      NtBuilt (nametable_insert nt text).2

/-- What `nametable_insert` compares: the hash and the length of an entry. -/
def nt_key (e : nametable_entry_t) : Nat × Nat := (e.hash, e.length)

/-- The invariant of the tables built by `nametable_insert`: every entry
stores the hash and the length of its text, and no two entries have the same
hash and length. -/
def nt_inv (nt : nametable_t) : Prop :=
  (∀ e ∈ nt.data, e.hash = sdbm_n e.name ∧ e.length = e.name.length) ∧
    (nt.data.map nt_key).Nodup

/-- The id designates an entry of the table: `ast_name_cstr` is not `NULL`. -/
def named (nt : nametable_t) (id : Nat) : Bool :=
  (nametable_get nt id).isSome

/-- The name id of the token is `SIZE_MAX` or designates an entry of `nt`. -/
def tok_named (nt : nametable_t) (t : token_t F) : Prop :=
  t.name_id = SIZE_MAX ∨ t.name_id < nt.amount

/-- What the parser reads and never writes: the tokens and the name table. -/
def parser_input (s : syntax_analyzer_t F) : List (token_t F) × nametable_t :=
  (s.tokens, s.nametable)

/-- The parsing function `f` keeps the tokens and the name table. -/
def input_inv (f : syntax_analyzer_t F → pres F) : Prop :=
  ∀ s, parser_input (f s).2 = parser_input s

/-- One step of the lexer on the name table: built tables stay built, the
entries stay, and the id of the token designates an entry. -/
def nt_step (nt nt2 : nametable_t) (t : token_t F) : Prop :=
  (NtBuilt nt → NtBuilt nt2) ∧ nt.amount ≤ nt2.amount ∧ tok_named nt2 t

/-- What `parse_block_loop_` keeps of the input. -/
def block_input_inv (f : ast_node F → syntax_analyzer_t F → pres F) : Prop :=
  ∀ (b : ast_node F) (s : syntax_analyzer_t F), parser_input (f b s).2 = parser_input s

/-- What `parse_omega_loop_` keeps of the input. -/
def omega_input_inv (f : List (ast_node F × ast_node F × token_pos_t) → syntax_analyzer_t F →
    Option (List (ast_node F × ast_node F × token_pos_t)) × syntax_analyzer_t F) : Prop :=
  ∀ (brs : List (ast_node F × ast_node F × token_pos_t)) (s : syntax_analyzer_t F),
    parser_input (f brs s).2 = parser_input s

/-- The name id is the one of a token of the list, and it is not `SIZE_MAX`. -/
def id_of_token (toks : List (token_t F)) (id : Nat) : Prop :=
  id ≠ SIZE_MAX ∧ ∃ t ∈ toks, t.name_id = id

end names

/-! ## Theorems: name table -/

theorem nametable_scan_append (h len : Nat) (xs ys : List nametable_entry_t) (i : Nat) :
    nametable_scan h len (xs ++ ys) i =
      match nametable_scan h len xs i with
      | some k => some k
      | none => nametable_scan h len ys (i + xs.length) := by
  induction xs generalizing i with
  | nil => simp [nametable_scan]
  | cons x xs ih =>
    show nametable_scan h len (x :: (xs ++ ys)) i = _
    simp only [nametable_scan, List.length_cons]
    split
    · rfl
    · rw [ih, Nat.add_assoc, Nat.add_comm 1]

theorem nametable_ensure_capacity_data (nt : nametable_t) (n : Nat) :
    (nametable_ensure_capacity nt n).data = nt.data := by
  unfold nametable_ensure_capacity; split <;> rfl

/-- C6. Interning uniqueness: for every name table `nt` and every text `s`, a
second `nametable_insert` of `s` returns the id returned by the first one and
leaves the table (entry count, every stored entry, capacity) unchanged. -/
theorem nametable_insert_twice (nt : nametable_t) (s : List Char) :
    nametable_insert (nametable_insert nt s).2 s
      = ((nametable_insert nt s).1, (nametable_insert nt s).2) := by
  unfold nametable_insert
  cases hscan : nametable_scan (sdbm_n s) s.length nt.data 0 with
  | some i => simp [hscan]
  | none =>
    simp only [nametable_ensure_capacity_data, nametable_scan_append, hscan, nametable_scan,
      Nat.zero_add, and_self, if_true, nametable_t.amount]

/-- C7 (failing input). The distinct identifiers `knhukipsdokq` and
`nlqfopjgukoj` have the same length and the same `sdbm_n` hash, so after
interning the first the second receives the same id, and the entry that id
designates holds the bytes of the first text, not of the second. -/
theorem nametable_insert_conflates :
    collide_a ≠ collide_b ∧
    (nametable_insert (nametable_insert nametable_ctor collide_a).2 collide_b).1
      = (nametable_insert nametable_ctor collide_a).1 ∧
    nametable_get (nametable_insert (nametable_insert nametable_ctor collide_a).2 collide_b).2
      (nametable_insert (nametable_insert nametable_ctor collide_a).2 collide_b).1
      = some collide_a := by
  decide

/-! ## Theorems: symbol table -/

theorem symtable_declare_frame (st : symtable_t) (kind : sym_kind_t) (name_id : Nat)
    (type : ast_type_t) (decl : Nat) :
    (symtable_declare st kind name_id type decl).2.scopes = st.scopes ∧
    (symtable_declare st kind name_id type decl).2.scopes_amount = st.scopes_amount ∧
    st.amount ≤ (symtable_declare st kind name_id type decl).2.amount ∧
    ∀ i, i < st.amount →
      (symtable_declare st kind name_id type decl).2.symbols i = st.symbols i := by
  unfold symtable_declare
  split
  · simp
  · refine ⟨rfl, rfl, Nat.le_succ _, ?_⟩
    intro i hi
    simp [Function.update, Nat.ne_of_lt hi]

theorem symtable_declare_all_frame (ds : List declare_args) (st : symtable_t) :
    (symtable_declare_all st ds).scopes = st.scopes ∧
    (symtable_declare_all st ds).scopes_amount = st.scopes_amount ∧
    st.amount ≤ (symtable_declare_all st ds).amount ∧
    ∀ i, i < st.amount → (symtable_declare_all st ds).symbols i = st.symbols i := by
  induction ds generalizing st with
  | nil => simp [symtable_declare_all]
  | cons d ds ih =>
    have h1 := symtable_declare_frame st d.kind d.name_id d.type d.decl
    have h2 := ih (symtable_declare st d.kind d.name_id d.type d.decl).2
    have e : symtable_declare_all st (d :: ds)
        = symtable_declare_all (symtable_declare st d.kind d.name_id d.type d.decl).2 ds := rfl
    rw [e]
    refine ⟨h2.1.trans h1.1, h2.2.1.trans h1.2.1, Nat.le_trans h1.2.2.1 h2.2.2.1, ?_⟩
    intro i hi
    rw [h2.2.2.2 i (Nat.lt_of_lt_of_le hi h1.2.2.1), h1.2.2.2 i hi]

/-- C8. Scope purity: for every symbol table `st` and every sequence `ds` of
`symtable_declare` calls (successful or not), `symtable_push_scope`, then the
calls, then `symtable_pop_scope` leaves the logical state of the table as it
was before the push: the same live symbols in the same order, the same scope
stack, the same two counts. -/
theorem scope_purity (st : symtable_t) (ds : List declare_args) :
    live_symbols (symtable_pop_scope (symtable_declare_all (symtable_push_scope st) ds))
      = live_symbols st ∧
    open_scopes (symtable_pop_scope (symtable_declare_all (symtable_push_scope st) ds))
      = open_scopes st ∧
    (symtable_pop_scope (symtable_declare_all (symtable_push_scope st) ds)).amount
      = st.amount ∧
    (symtable_pop_scope (symtable_declare_all (symtable_push_scope st) ds)).scopes_amount
      = st.scopes_amount := by
  obtain ⟨hsc, hsa, _, hsym⟩ := symtable_declare_all_frame ds (symtable_push_scope st)
  have hsa' : (symtable_declare_all (symtable_push_scope st) ds).scopes_amount
      = st.scopes_amount + 1 := by rw [hsa]; rfl
  have hsc' : (symtable_declare_all (symtable_push_scope st) ds).scopes
      = Function.update st.scopes st.scopes_amount st.amount := by rw [hsc]; rfl
  have hpop : symtable_pop_scope (symtable_declare_all (symtable_push_scope st) ds)
      = { symtable_declare_all (symtable_push_scope st) ds with
          amount := st.amount, scopes_amount := st.scopes_amount } := by
    unfold symtable_pop_scope
    rw [if_neg (by rw [hsa']; exact Nat.succ_ne_zero _)]
    simp [hsa', hsc']
  rw [hpop]
  refine ⟨?_, ?_, rfl, rfl⟩
  · unfold live_symbols
    apply List.map_congr_left
    intro i hi
    exact hsym i (List.mem_range.mp hi)
  · unfold open_scopes
    apply List.map_congr_left
    intro i hi
    show (symtable_declare_all (symtable_push_scope st) ds).scopes i = st.scopes i
    rw [hsc']
    simp [Function.update, Nat.ne_of_lt (List.mem_range.mp hi)]

theorem lookup_range_cases (st : symtable_t) (n f : Nat) (t : Nat) :
    (lookup_range_ st n f t = -1 ∧ ∀ i, f ≤ i → i < t → (st.symbols i).name_id ≠ n) ∨
    (∃ i : Nat, lookup_range_ st n f t = (i : Int) ∧ f ≤ i ∧ i < t ∧
      (st.symbols i).name_id = n ∧ ∀ j, i < j → j < t → (st.symbols j).name_id ≠ n) := by
  induction t with
  | zero => left; exact ⟨rfl, fun i _ h => absurd h (Nat.not_lt_zero _)⟩
  | succ t ih =>
    unfold lookup_range_
    by_cases h1 : t + 1 > f
    · rw [if_pos h1]
      by_cases h2 : (st.symbols t).name_id = n
      · rw [if_pos h2]
        right
        exact ⟨t, rfl, by omega, by omega, h2, fun j hj hj' => by omega⟩
      · rw [if_neg h2]
        rcases ih with ⟨e, hnone⟩ | ⟨i, e, hfi, hit, hn, hmax⟩
        · left
          refine ⟨e, ?_⟩
          intro i hfi hit
          by_cases hi : i = t
          · subst hi; exact h2
          · exact hnone i hfi (by omega)
        · right
          refine ⟨i, e, hfi, by omega, hn, ?_⟩
          intro j hij hjt
          by_cases hj : j = t
          · subst hj; exact h2
          · exact hmax j hij (by omega)
    · rw [if_neg h1]
      left
      exact ⟨rfl, fun i hfi hit => by omega⟩

/-- C9. With at least one scope open, `symtable_declare` fails with
`ERR_SYNTAX` if and only if a symbol with that `name_id` already exists in the
current (innermost) scope, that is at an index from the scope's
`first_symbol` up to `amount`; on failure the table is unchanged; otherwise
the call returns `OK`, exactly one symbol (the declared one) is appended after
the live symbols and the scope stack is unchanged; a symbol with the same
`name_id` below the current scope's `first_symbol` does not make it fail. -/
theorem symtable_declare_spec (st : symtable_t) (kind : sym_kind_t) (name_id : Nat)
    (type : ast_type_t) (decl : Nat) (hopen : 0 < st.scopes_amount) :
    ((symtable_declare st kind name_id type decl).1 = err_t.ERR_SYNTAX ↔
      ∃ i, st.scopes (st.scopes_amount - 1) ≤ i ∧ i < st.amount ∧
        (st.symbols i).name_id = name_id) ∧
    ((symtable_declare st kind name_id type decl).1 = err_t.ERR_SYNTAX →
      (symtable_declare st kind name_id type decl).2 = st) ∧
    ((symtable_declare st kind name_id type decl).1 ≠ err_t.ERR_SYNTAX →
      (symtable_declare st kind name_id type decl).1 = err_t.OK ∧
      live_symbols (symtable_declare st kind name_id type decl).2
        = live_symbols st ++ [{ kind := kind, name_id := name_id, type := type, decl := decl }] ∧
      open_scopes (symtable_declare st kind name_id type decl).2 = open_scopes st) ∧
    ((∀ i, st.scopes (st.scopes_amount - 1) ≤ i → i < st.amount →
        (st.symbols i).name_id ≠ name_id) →
      (symtable_declare st kind name_id type decl).1 = err_t.OK) := by
  have hcur : symtable_lookup_current st name_id
      = lookup_range_ st name_id (st.scopes (st.scopes_amount - 1)) st.amount := by
    unfold symtable_lookup_current
    rw [if_neg (Nat.pos_iff_ne_zero.mp hopen)]
  have hfail : symtable_lookup_current st name_id ≥ 0 ↔
      ∃ i, st.scopes (st.scopes_amount - 1) ≤ i ∧ i < st.amount ∧
        (st.symbols i).name_id = name_id := by
    rw [hcur]
    rcases lookup_range_cases st name_id (st.scopes (st.scopes_amount - 1)) st.amount with
      ⟨e, hnone⟩ | ⟨i, e, hfi, hit, hn, _⟩
    · rw [e]
      constructor
      · intro h; exact absurd h (by decide)
      · rintro ⟨i, h1, h2, h3⟩; exact absurd h3 (hnone i h1 h2)
    · rw [e]
      exact ⟨fun _ => ⟨i, hfi, hit, hn⟩, fun _ => Int.ofNat_nonneg i⟩
  by_cases hc : symtable_lookup_current st name_id ≥ 0
  · have e : symtable_declare st kind name_id type decl = (err_t.ERR_SYNTAX, st) := by
      unfold symtable_declare; rw [if_pos hc]
    rw [e]
    refine ⟨⟨fun _ => hfail.mp hc, fun _ => rfl⟩, fun _ => rfl, fun h => absurd rfl h, ?_⟩
    intro hnone
    obtain ⟨i, h1, h2, h3⟩ := hfail.mp hc
    exact absurd h3 (hnone i h1 h2)
  · have e : symtable_declare st kind name_id type decl
        = (err_t.OK,
            { st with
              cap := ensure_cap_ st.cap (st.amount + 1)
              symbols := Function.update st.symbols st.amount
                { kind := kind, name_id := name_id, type := type, decl := decl }
              amount := st.amount + 1 }) := by
      unfold symtable_declare; rw [if_neg hc]
    rw [e]
    refine ⟨⟨fun h => absurd h (by simp), fun h => absurd (hfail.mpr h) hc⟩,
      fun h => absurd h (by simp), fun _ => ⟨rfl, ?_, rfl⟩, fun _ => rfl⟩
    unfold live_symbols
    simp only [List.range_succ, List.map_append, List.map_cons, List.map_nil,
      Function.update_same]
    congr 1
    apply List.map_congr_left
    intro i hi
    simp [Function.update, Nat.ne_of_lt (List.mem_range.mp hi)]

/-- C9 (witness). In `st_shadow` the inner scope holds `7` and `9` and the
global scope holds `7` only: redeclaring `9` fails. -/
theorem symtable_declare_spec_witness :
    0 < st_shadow.scopes_amount ∧
    ((symtable_declare st_shadow sym_kind_t.SYM_VAR 9 ast_type_t.AST_TYPE_INT 4).1
        = err_t.ERR_SYNTAX ↔
      ∃ i, st_shadow.scopes (st_shadow.scopes_amount - 1) ≤ i ∧ i < st_shadow.amount ∧
        (st_shadow.symbols i).name_id = 9) :=
  ⟨by decide,
    (symtable_declare_spec st_shadow sym_kind_t.SYM_VAR 9 ast_type_t.AST_TYPE_INT 4
      (by decide)).1⟩

theorem scope_chain_congr (f g : Nat → Nat) (s t : Nat) (h : ∀ k, k < s → f k = g k) :
    scope_chain f s t → scope_chain g s t := by
  induction s generalizing t with
  | zero => intro _; trivial
  | succ s ih =>
    intro hc
    have hs : f s = g s := h s (Nat.lt_succ_self s)
    refine ⟨hs ▸ hc.1, ?_⟩
    rw [← hs]
    exact ih (f s) (fun k hk => h k (Nat.lt_succ_of_lt hk)) hc.2

theorem scope_chain_mono (f : Nat → Nat) (s t t' : Nat) (h : t ≤ t') (hs : 0 < s) :
    scope_chain f s t → scope_chain f s t' := by
  cases s with
  | zero => exact absurd hs (Nat.lt_irrefl 0)
  | succ s => intro hc; exact ⟨Nat.le_trans hc.1 h, hc.2⟩

theorem scope_chain_bottom (f : Nat → Nat) (s t : Nat) (hs : 0 < s) :
    scope_chain f s t → f 0 ≤ t := by
  induction s generalizing t with
  | zero => exact absurd hs (Nat.lt_irrefl 0)
  | succ s ih =>
    intro hc
    cases s with
    | zero => exact hc.1
    | succ s => exact Nat.le_trans (ih (f (s + 1)) (Nat.succ_pos s) hc.2) hc.1

theorem symtable_lookup_loop_cases (st : symtable_t) (n : Nat) (s t : Nat) (hs : 0 < s)
    (hc : scope_chain st.scopes s t) :
    (symtable_lookup_loop st n s t = -1 ∧
      ∀ i, st.scopes 0 ≤ i → i < t → (st.symbols i).name_id ≠ n) ∨
    (∃ i : Nat, symtable_lookup_loop st n s t = (i : Int) ∧ st.scopes 0 ≤ i ∧ i < t ∧
      (st.symbols i).name_id = n ∧ ∀ j, i < j → j < t → (st.symbols j).name_id ≠ n) := by
  induction s generalizing t with
  | zero => exact absurd hs (Nat.lt_irrefl 0)
  | succ s ih =>
    unfold symtable_lookup_loop
    simp only
    rcases lookup_range_cases st n (st.scopes s) t with ⟨e, hnone⟩ | ⟨i, e, hfi, hit, hn, hmax⟩
    · rw [e, if_neg (by decide)]
      cases s with
      | zero =>
        left
        exact ⟨rfl, hnone⟩
      | succ s =>
        rcases ih (st.scopes (s + 1)) (Nat.succ_pos s) hc.2 with
          ⟨e', hnone'⟩ | ⟨i, e', hfi, hit, hn, hmax⟩
        · left
          refine ⟨e', ?_⟩
          intro i h0 hit
          by_cases hi : i < st.scopes (s + 1)
          · exact hnone' i h0 hi
          · exact hnone i (Nat.le_of_not_lt hi) hit
        · right
          refine ⟨i, e', hfi, Nat.lt_of_lt_of_le hit hc.1, hn, ?_⟩
          intro j hij hjt
          by_cases hj : j < st.scopes (s + 1)
          · exact hmax j hij hj
          · exact hnone j (Nat.le_of_not_lt hj) hjt
    · rw [e, if_pos (Int.ofNat_nonneg i)]
      right
      refine ⟨i, rfl, ?_, hit, hn, hmax⟩
      cases s with
      | zero => exact hfi
      | succ s =>
        exact Nat.le_trans (scope_chain_bottom st.scopes (s + 1) (st.scopes (s + 1))
          (Nat.succ_pos s) hc.2) hfi

theorem scoped_inv_of_reachable (st : symtable_t) (h : ReachableScoped st) : scoped_inv st := by
  induction h with
  | ctor => exact ⟨trivial, fun h => absurd h (Nat.lt_irrefl 0), fun _ => rfl⟩
  | push st _ ih =>
    obtain ⟨hc, h0, hz⟩ := ih
    refine ⟨⟨?_, ?_⟩, ?_, fun h => absurd h (Nat.succ_ne_zero _)⟩
    · show Function.update st.scopes st.scopes_amount st.amount st.scopes_amount ≤ st.amount
      simp
    · show scope_chain (Function.update st.scopes st.scopes_amount st.amount) st.scopes_amount
        (Function.update st.scopes st.scopes_amount st.amount st.scopes_amount)
      rw [Function.update_same]
      apply scope_chain_congr st.scopes _ _ _ _ hc
      intro k hk
      simp [Function.update, Nat.ne_of_lt hk]
    · intro _
      show Function.update st.scopes st.scopes_amount st.amount 0 = 0
      by_cases hs : st.scopes_amount = 0
      · rw [hs, Function.update_same]; exact hz hs
      · rw [Function.update_noteq (Ne.symm hs)]; exact h0 (Nat.pos_of_ne_zero hs)
  | pop st _ ih =>
    obtain ⟨hc, h0, hz⟩ := ih
    unfold symtable_pop_scope
    by_cases hs : st.scopes_amount = 0
    · rw [if_pos hs]; exact ⟨hc, h0, hz⟩
    · rw [if_neg hs]
      obtain ⟨k, hk⟩ := Nat.exists_eq_succ_of_ne_zero hs
      rw [hk] at hc
      refine ⟨?_, fun _ => h0 (Nat.pos_of_ne_zero hs), ?_⟩
      · show scope_chain st.scopes (st.scopes_amount - 1) (st.scopes (st.scopes_amount - 1))
        rw [hk]; exact hc.2
      · intro hz'
        show st.scopes (st.scopes_amount - 1) = 0
        have : st.scopes_amount - 1 = 0 := hz'
        rw [this]; exact h0 (Nat.pos_of_ne_zero hs)
  | declare st kind name_id type decl _ hopen ih =>
    obtain ⟨hc, h0, hz⟩ := ih
    unfold symtable_declare
    split
    · exact ⟨hc, h0, hz⟩
    · exact ⟨scope_chain_mono st.scopes _ _ _ (Nat.le_succ _) hopen hc, h0,
        fun h => absurd hopen (by rw [show st.scopes_amount = 0 from h]; exact Nat.lt_irrefl 0)⟩

/-- C10 (counterexample). The table `st_unscoped` is reachable from
`symtable_ctor` (declare `7`, then push a scope) and has a scope open, yet
`symtable_lookup` of `7` is `-1` although symbol `0` is live and carries `7`:
a symbol declared before any scope was opened is never looked up. -/
theorem symtable_lookup_not_nearest :
    Reachable st_unscoped ∧ 0 < st_unscoped.scopes_amount ∧
    ¬ lookup_is_nearest st_unscoped 7 := by
  refine ⟨Reachable.push _ (Reachable.declare _ _ _ _ _ Reachable.ctor), by decide, ?_⟩
  intro h
  have h0 := h.1 0 (by decide) (by decide) (fun j hj _ => Nat.le_of_lt_succ hj)
  exact absurd h0 (by decide)

/-- C10 (amended). For every table reachable from `symtable_ctor` by
`symtable_push_scope`, `symtable_pop_scope` and `symtable_declare`, where
`symtable_declare` is only called while a scope is open, and with at least
one scope open, `symtable_lookup name_id` is the greatest index among the
live symbols carrying `name_id` (the most recently declared, innermost
binding), and it is `-1` if and only if no live symbol carries `name_id`. -/
theorem symtable_lookup_nearest (st : symtable_t) (name_id : Nat)
    (hreach : ReachableScoped st) (hopen : 0 < st.scopes_amount) :
    lookup_is_nearest st name_id := by
  obtain ⟨hc, h0, _⟩ := scoped_inv_of_reachable st hreach
  have hl : symtable_lookup st name_id
      = symtable_lookup_loop st name_id st.scopes_amount st.amount := by
    unfold symtable_lookup
    rw [if_neg (Nat.pos_iff_ne_zero.mp hopen)]
  unfold lookup_is_nearest
  rw [hl]
  rcases symtable_lookup_loop_cases st name_id st.scopes_amount st.amount hopen hc with
    ⟨e, hnone⟩ | ⟨i, e, _, hit, hn, hmax⟩
  · rw [h0 hopen] at hnone
    refine ⟨?_, ?_⟩
    · intro i hi hn _
      exact absurd hn (hnone i (Nat.zero_le i) hi)
    · exact ⟨fun _ i hi => hnone i (Nat.zero_le i) hi, fun _ => e⟩
  · refine ⟨?_, ?_⟩
    · intro k hk hkn hkmax
      have h1 : i ≤ k := hkmax i hit hn
      have h2 : k ≤ i := by
        by_contra hlt
        exact hmax k (Nat.lt_of_not_le hlt) hk hkn
      rw [e, Nat.le_antisymm h1 h2]
    · rw [e]
      constructor
      · intro h; exact absurd h (by omega)
      · intro h; exact absurd hn (h i hit)

/-- C10 (witness). In `st_shadow` the inner `7` (index `1`) shadows the outer
`7` (index `0`): `symtable_lookup` of `7` is the nearest binding. -/
theorem symtable_lookup_nearest_witness :
    ReachableScoped st_shadow ∧ 0 < st_shadow.scopes_amount ∧ lookup_is_nearest st_shadow 7 ∧
    symtable_lookup st_shadow 7 = 1 :=
  have hr : ReachableScoped st_shadow :=
    ReachableScoped.declare _ _ _ _ _
      (ReachableScoped.declare _ _ _ _ _
        (ReachableScoped.push _
          (ReachableScoped.declare _ _ _ _ _ (ReachableScoped.push _ ReachableScoped.ctor)
            (by decide)))
        (by decide))
      (by decide)
  ⟨hr, by decide, symtable_lookup_nearest st_shadow 7 hr (by decide), by decide⟩

/-! ## Theorems: optimizer -/

section optimizer_thms
variable {F : Type}

theorem set_right_set_right (a b c : ast_node F) :
    (a.set_right b).set_right c = a.set_right c := by
  cases a <;> rfl

theorem set_right_right (a : ast_node F) : a.set_right a.right = a := by
  cases a <;> rfl

theorem right_set_right (a b : ast_node F) (h : a ≠ .nil) : (a.set_right b).right = b := by
  cases a with
  | nil => exact absurd rfl h
  | node => rfl

theorem child_set_right (n r : ast_node F) (i : Nat) : child_ (n.set_right r) i = child_ n i := by
  cases n <;> rfl

theorem make_num_int_set_right (n r : ast_node F) (v : Int) :
    make_num_int_ (n.set_right r) v = (make_num_int_ n v).set_right r := by
  cases n <;> rfl

theorem make_num_float_set_right (n r : ast_node F) (v : F) :
    make_num_float_ (n.set_right r) v = (make_num_float_ n v).set_right r := by
  cases n <;> rfl

theorem replace_with_set_right (n x r : ast_node F) :
    replace_with_ (n.set_right r) x = (replace_with_ n x).set_right r := by
  cases n <;> cases x <;> rfl

theorem optimize_unary_set_right (ops : f64_ops F) (n r : ast_node F) (op : token_kind_t) :
    optimize_unary_ ops (n.set_right r) op = (optimize_unary_ ops n op).set_right r := by
  unfold optimize_unary_
  simp only [child_set_right]
  cases op <;> simp only [] <;> (try split_ifs) <;>
    first
    | rfl
    | simp only [make_num_int_set_right, make_num_float_set_right]

theorem optimize_builtin_set_right (ops : f64_ops F) (n r : ast_node F) (id : Int) :
    optimize_builtin_ ops (n.set_right r) id = (optimize_builtin_ ops n id).set_right r := by
  unfold optimize_builtin_
  simp only [child_set_right]
  split_ifs <;>
    first
    | rfl
    | simp only [make_num_int_set_right, make_num_float_set_right]

theorem optimize_fold_set_right (ops : f64_ops F) (n l x r : ast_node F) (op : token_kind_t) :
    optimize_fold_ ops (n.set_right r) l x op = (optimize_fold_ ops n l x op).set_right r := by
  unfold optimize_fold_
  cases op <;> simp only [] <;> (try split_ifs) <;> (try split) <;>
    first
    | rfl
    | simp only [make_num_int_set_right, make_num_float_set_right]

theorem optimize_binary_set_right (ops : f64_ops F) (n r : ast_node F) (op : token_kind_t) :
    optimize_binary_ ops (n.set_right r) op = (optimize_binary_ ops n op).set_right r := by
  unfold optimize_binary_
  simp only [child_set_right, optimize_fold_set_right]
  cases op <;> simp only [] <;> (try split_ifs) <;>
    first
    | rfl
    | simp only [make_num_int_set_right, make_num_float_set_right, replace_with_set_right]

theorem optimize_node_set_right (ops : f64_ops F) (n r : ast_node F) :
    optimize_node_ ops (n.set_right r) = (optimize_node_ ops n).set_right r := by
  cases n with
  | nil => rfl
  | node k p t u l r0 =>
    have hn : ast_node.node k p t u l r = (ast_node.node k p t u l r0).set_right r := rfl
    show optimize_node_ ops (ast_node.node k p t u l r) = _
    cases k <;> try rfl
    · show optimize_unary_ ops (ast_node.node _ p t u l r) u.op = _
      rw [hn, optimize_unary_set_right]; rfl
    · show optimize_binary_ ops (ast_node.node _ p t u l r) u.op = _
      rw [hn, optimize_binary_set_right]; rfl
    · show optimize_builtin_ ops (ast_node.node _ p t u l r) u.builtin_id = _
      rw [hn, optimize_builtin_set_right]; rfl

theorem opt_shape_unary (ops : f64_ops F) (n : ast_node F) (op : token_kind_t) :
    opt_shape n (optimize_unary_ ops n op) := by
  unfold optimize_unary_ opt_shape
  cases op <;> simp only [] <;> (try split_ifs) <;>
    first
    | exact Or.inl rfl
    | exact Or.inl trivial
    | exact Or.inr (Or.inl ⟨_, rfl⟩)
    | exact Or.inr (Or.inr (Or.inl ⟨_, rfl⟩))

theorem opt_shape_builtin (ops : f64_ops F) (n : ast_node F) (id : Int) :
    opt_shape n (optimize_builtin_ ops n id) := by
  unfold optimize_builtin_ opt_shape
  dsimp only
  split_ifs <;>
    first
    | exact Or.inl rfl
    | exact Or.inl trivial
    | exact Or.inr (Or.inl ⟨_, rfl⟩)
    | exact Or.inr (Or.inr (Or.inl ⟨_, rfl⟩))

theorem opt_shape_fold (ops : f64_ops F) (n l x : ast_node F) (op : token_kind_t) :
    opt_shape n (optimize_fold_ ops n l x op) := by
  unfold optimize_fold_ opt_shape
  cases op <;> simp only [] <;> (try split_ifs) <;> (try split) <;>
    first
    | exact Or.inl rfl
    | exact Or.inl trivial
    | exact Or.inr (Or.inl ⟨_, rfl⟩)
    | exact Or.inr (Or.inr (Or.inl ⟨_, rfl⟩))

theorem opt_shape_binary (ops : f64_ops F) (n : ast_node F) (op : token_kind_t) :
    opt_shape n (optimize_binary_ ops n op) := by
  have hf := opt_shape_fold ops n (child_ n 0) (child_ n 1) op
  unfold optimize_binary_
  unfold opt_shape at hf ⊢
  cases op <;> simp only [] <;> (try split_ifs) <;>
    first
    | exact hf
    | exact Or.inl rfl
    | exact Or.inl trivial
    | exact Or.inr (Or.inl ⟨_, rfl⟩)
    | exact Or.inr (Or.inr (Or.inl ⟨_, rfl⟩))
    | exact Or.inr (Or.inr (Or.inr (Or.inl rfl)))
    | exact Or.inr (Or.inr (Or.inr (Or.inr rfl)))

theorem opt_shape_node (ops : f64_ops F) (n : ast_node F) :
    opt_shape n (optimize_node_ ops n) := by
  cases n with
  | nil => exact Or.inl rfl
  | node k p t u l r =>
    cases k <;> first
      | exact Or.inl rfl
      | exact opt_shape_unary ops _ _
      | exact opt_shape_binary ops _ _
      | exact opt_shape_builtin ops _ _

theorem optimize_node_num_lit (ops : f64_ops F) (p : token_pos_t) (t : ast_type_t)
    (u : ast_payload F) (l r : ast_node F) :
    optimize_node_ ops (.node .ASTK_NUM_LIT p t u l r) = .node .ASTK_NUM_LIT p t u l r := rfl

theorem optimize_chain_node (ops : f64_ops F) (k : ast_kind_t) (p : token_pos_t) (t : ast_type_t)
    (u : ast_payload F) (l r : ast_node F) :
    optimize_chain_ ops (.node k p t u l r)
      = optimize_node_ ops (.node k p t u (optimize_chain_ ops l) (optimize_chain_ ops r)) := by
  have h := optimize_node_set_right ops (.node k p t u (optimize_chain_ ops l) r)
    (optimize_chain_ ops r)
  exact h.symm

theorem opt_stable_nil (ops : f64_ops F) : opt_stable ops (ast_node.nil : ast_node F) := rfl

theorem optimize_node_ne_nil (ops : f64_ops F) (k : ast_kind_t) (p : token_pos_t)
    (t : ast_type_t) (u : ast_payload F) (l r : ast_node F) :
    optimize_node_ ops (.node k p t u l r) ≠ .nil := by
  rcases opt_shape_node ops (.node k p t u l r) with h | ⟨v, h⟩ | ⟨v, h⟩ | h | h
  · rw [h]; exact fun e => by cases e
  · rw [h]; exact fun e => by cases e
  · rw [h]; exact fun e => by cases e
  · rw [h]; cases (child_ (ast_node.node k p t u l r) 0) <;> exact fun e => by cases e
  · rw [h]; cases (child_ (ast_node.node k p t u l r) 1) <;> exact fun e => by cases e

theorem optimize_node_right (ops : f64_ops F) (n : ast_node F) :
    (optimize_node_ ops n).right = n.right := by
  cases n with
  | nil => rfl
  | node k p t u l r =>
    rcases opt_shape_node ops (.node k p t u l r) with h | ⟨v, h⟩ | ⟨v, h⟩ | h | h
    · rw [h]
    · rw [h]; rfl
    · rw [h]; rfl
    · rw [h]; cases (child_ (ast_node.node k p t u l r) 0) <;> rfl
    · rw [h]; cases (child_ (ast_node.node k p t u l r) 1) <;> rfl

/-- The equation of the source for `optimize_chain_`: the head is rewritten by
`optimize_one_`, and the chain behind the returned node is optimized. -/
theorem optimize_chain_eq (ops : f64_ops F) (n : ast_node F) :
    optimize_chain_ ops n
      = (optimize_one_ ops n).set_right (optimize_chain_ ops (optimize_one_ ops n).right) := by
  cases n with
  | nil => rfl
  | node k p t u l r =>
    show (optimize_node_ ops _).set_right (optimize_chain_ ops r) = _
    rw [show optimize_one_ ops (.node k p t u l r)
      = optimize_node_ ops (.node k p t u (optimize_chain_ ops l) r) from rfl,
      optimize_node_right]
    rfl

/-- A stable chain stays stable when the sibling chain behind its head is
replaced by a stable chain. -/
theorem opt_stable_set_right (ops : f64_ops F) (x r : ast_node F)
    (hx : opt_stable ops x) (hr : opt_stable ops r) : opt_stable ops (x.set_right r) := by
  cases x with
  | nil => exact rfl
  | node k p t u l r0 =>
    unfold opt_stable at hx hr ⊢
    show optimize_chain_ ops (.node k p t u l r) = .node k p t u l r
    have e0 : (optimize_node_ ops (.node k p t u (optimize_chain_ ops l) r0)).set_right
        (optimize_chain_ ops r0) = .node k p t u l r0 := hx
    have e1 := congrArg (fun m => ast_node.set_right m r) e0
    simp only [set_right_set_right] at e1
    show (optimize_node_ ops (.node k p t u (optimize_chain_ ops l) r)).set_right
        (optimize_chain_ ops r) = .node k p t u l r
    rw [hr]
    have e2 := optimize_node_set_right ops (.node k p t u (optimize_chain_ ops l) r0) r
    have e3 : (ast_node.node k p t u (optimize_chain_ ops l) r0).set_right r
        = .node k p t u (optimize_chain_ ops l) r := rfl
    rw [e3] at e2
    rw [e2, set_right_set_right, e1]
    rfl

/-- The sibling chain behind the head of a stable chain is stable. -/
theorem opt_stable_right (ops : f64_ops F) (x : ast_node F) (hx : opt_stable ops x) :
    opt_stable ops x.right := by
  cases x with
  | nil => exact rfl
  | node k p t u l r0 =>
    unfold opt_stable at hx ⊢
    have e0 : (optimize_node_ ops (.node k p t u (optimize_chain_ ops l) r0)).set_right
        (optimize_chain_ ops r0) = .node k p t u l r0 := hx
    have e1 := congrArg ast_node.right e0
    rw [right_set_right _ _ (optimize_node_ne_nil ops _ _ _ _ _ _)] at e1
    exact e1

theorem optimize_chain_stable (ops : f64_ops F) (n : ast_node F) :
    opt_stable ops (optimize_chain_ ops n) := by
  induction n with
  | nil => exact rfl
  | node k p t u l r ihl ihr =>
    rw [optimize_chain_node]
    generalize hL : optimize_chain_ ops l = L at ihl
    generalize hR : optimize_chain_ ops r = R at ihr
    have hstep : optimize_chain_ ops (.node k p t u L R) = optimize_node_ ops (.node k p t u L R) := by
      rw [optimize_chain_node, show optimize_chain_ ops L = L from ihl,
        show optimize_chain_ ops R = R from ihr]
    rcases opt_shape_node ops (.node k p t u L R) with h | ⟨v, h⟩ | ⟨v, h⟩ | h | h
    · rw [h]; unfold opt_stable; rw [hstep, h]
    · rw [h]
      show optimize_chain_ ops (.node .ASTK_NUM_LIT p _ _ .nil R) = _
      rw [optimize_chain_node, show optimize_chain_ ops R = R from ihr]
      rfl
    · rw [h]
      show optimize_chain_ ops (.node .ASTK_NUM_LIT p _ _ .nil R) = _
      rw [optimize_chain_node, show optimize_chain_ ops R = R from ihr]
      rfl
    · rw [h]
      have hc : child_ (ast_node.node k p t u L R) 0 = L := by cases L <;> rfl
      rw [hc]
      cases hLc : L with
      | nil => show opt_stable ops (.node k p t u .nil R); rw [← hLc]; unfold opt_stable;
               rw [hstep, h, hc, hLc]; rfl
      | node k' p' t' u' l' r' =>
        have := opt_stable_set_right ops L R ihl ihr
        rw [hLc] at this
        exact this
    · rw [h]
      have hc : child_ (ast_node.node k p t u L R) 1 = L.right := by
        cases L with
        | nil => rfl
        | node k' p' t' u' l' r' => cases r' <;> rfl
      rw [hc]
      cases hLc : L.right with
      | nil => show opt_stable ops (.node k p t u L R); unfold opt_stable;
               rw [hstep, h, hc, hLc]; rfl
      | node k' p' t' u' l' r' =>
        have := opt_stable_set_right ops L.right R (opt_stable_right ops L ihl) ihr
        rw [hLc] at this
        exact this

/-- C2. Optimizer idempotence: for every AST `T` (and every implementation of
the floating-point operations), `ast_optimize` applied to `ast_optimize T`
returns `ast_optimize T` itself: one bottom-up pass reaches a fixed point of
all rewriting and folding rules. -/
theorem ast_optimize_idempotent (ops : f64_ops F) (T : ast_node F) :
    ast_optimize ops (ast_optimize ops T) = ast_optimize ops T :=
  optimize_chain_stable ops T

end optimizer_thms

/-! ## Theorems: division by zero is left alone -/

section div_zero
variable {F : Type}

/-- C20. Division by zero is preserved: for every numeric literal `l` (int or
float) and every zero literal `z` (int `0`, or a float comparing equal to
`0.0`), `ast_optimize` returns the node `BINARY(/, l, z)` with both operands
unchanged; only the sibling chain behind the node is optimized on its own.
The double `0.0` is assumed to compare equal to itself. -/
theorem div_by_zero_preserved (ops : f64_ops F)
    (h00 : ops.eq (ops.of_i64 0) (ops.of_i64 0) = true)
    (pn pl pz : token_pos_t) (tn tl tz : ast_type_t) (l z : literal_t F) (sib : ast_node F)
    (hl : l ≠ .LIT_NONE) (hz : zero_literal ops z = true) :
    ast_optimize ops (div_node pn pl pz tn tl tz l z sib)
      = div_node pn pl pz tn tl tz l z (ast_optimize ops sib) := by
  cases l with
  | LIT_NONE => exact absurd rfl hl
  | LIT_INT a =>
    cases z with
    | LIT_NONE => simp [zero_literal] at hz
    | LIT_INT b =>
      have hb : b = 0 := by simpa [zero_literal] using hz
      subst hb
      simp [ast_optimize, div_node, optimize_chain_, optimize_node_, optimize_binary_,
        optimize_fold_, child_, ast_child, sibling_at, ast_node.left, ast_node.is_some,
        is_num_lit_, lit_is_float, ast_payload.lit, ast_payload.op, as_i64_, ast_node.lit,
        ast_node.set_right]
    | LIT_FLOAT g =>
      have hg : ops.eq g (ops.of_i64 0) = true := by simpa [zero_literal] using hz
      simp [ast_optimize, div_node, optimize_chain_, optimize_node_, optimize_binary_,
        optimize_fold_, child_, ast_child, sibling_at, ast_node.left, ast_node.is_some,
        is_num_lit_, lit_is_float, ast_payload.lit, ast_payload.op, as_f64_, ast_node.lit,
        ast_node.set_right, hg]
  | LIT_FLOAT a =>
    cases z with
    | LIT_NONE => simp [zero_literal] at hz
    | LIT_INT b =>
      have hb : b = 0 := by simpa [zero_literal] using hz
      subst hb
      simp [ast_optimize, div_node, optimize_chain_, optimize_node_, optimize_binary_,
        optimize_fold_, child_, ast_child, sibling_at, ast_node.left, ast_node.is_some,
        is_num_lit_, lit_is_float, ast_payload.lit, ast_payload.op, as_f64_, ast_node.lit,
        ast_node.set_right, h00]
    | LIT_FLOAT g =>
      have hg : ops.eq g (ops.of_i64 0) = true := by simpa [zero_literal] using hz
      simp [ast_optimize, div_node, optimize_chain_, optimize_node_, optimize_binary_,
        optimize_fold_, child_, ast_child, sibling_at, ast_node.left, ast_node.is_some,
        is_num_lit_, lit_is_float, ast_payload.lit, ast_payload.op, as_f64_, ast_node.lit,
        ast_node.set_right, hg]

/-- C20 (witness): `1 / 0` over the reference arithmetic. -/
theorem div_by_zero_preserved_witness :
    ast_optimize exact_ops (div_node ⟨0, 1, 1⟩ ⟨0, 1, 1⟩ ⟨4, 1, 5⟩ .AST_TYPE_INT .AST_TYPE_INT
        .AST_TYPE_INT (.LIT_INT 1) (.LIT_INT 0) .nil)
      = div_node ⟨0, 1, 1⟩ ⟨0, 1, 1⟩ ⟨4, 1, 5⟩ .AST_TYPE_INT .AST_TYPE_INT
        .AST_TYPE_INT (.LIT_INT 1) (.LIT_INT 0) (ast_optimize exact_ops .nil) :=
  div_by_zero_preserved exact_ops (by decide) _ _ _ _ _ _ _ _ _ (by decide) (by decide)

end div_zero

/-! ## Theorems: optimizer against the code generator -/

/-- C1 (failing input). The program `npc main() yap micdrop in() * 0; yapity`
is accepted by the front end and compiled without error both before and after
`ast_optimize`; the code emitted for the original tree is straight-line and
executes the input instruction `IN` once, the code emitted for the optimized
tree executes no input or output instruction at all: the rule `x * 0 => 0`
has removed the call of the intrinsic `in`. -/
theorem optimizer_drops_intrinsic_call :
    (frontend exact_ops 64 src_in_times_zero).1 = err_t.OK ∧
    (backend_emit_asm exact_ops (frontend exact_ops 64 src_in_times_zero).2.2
      (frontend exact_ops 64 src_in_times_zero).2.1).1 = err_t.OK ∧
    io_instrs (backend_emit_asm exact_ops (frontend exact_ops 64 src_in_times_zero).2.2
      (frontend exact_ops 64 src_in_times_zero).2.1).2.out = ["IN"] ∧
    (backend_emit_asm exact_ops (frontend exact_ops 64 src_in_times_zero).2.2
      (ast_optimize exact_ops (frontend exact_ops 64 src_in_times_zero).2.1)).1 = err_t.OK ∧
    io_instrs (backend_emit_asm exact_ops (frontend exact_ops 64 src_in_times_zero).2.2
      (ast_optimize exact_ops (frontend exact_ops 64 src_in_times_zero).2.1)).2.out = [] := by
  decide!

/-! ## Theorems: parser-accepted programs and the code generator -/

/-- C4 (failing input). The program `npc main() yap "a"; micdrop 0; yapity`
declares `main` and is accepted by the lexer and `syntax_analyze`, yet
`backend_emit_asm` on its AST returns `ERR_SYNTAX` with the message
`Backend: unsupported expr kind STR_LIT`: `be_emit_expr_` has no case for the
string literal the parser builds. -/
theorem backend_rejects_accepted_program :
    (frontend exact_ops 64 src_str_stmt).1 = err_t.OK ∧
    (backend_emit_asm exact_ops (frontend exact_ops 64 src_str_stmt).2.2
      (frontend exact_ops 64 src_str_stmt).2.1).1 = err_t.ERR_SYNTAX ∧
    (backend_emit_asm exact_ops (frontend exact_ops 64 src_str_stmt).2.2
      (frontend exact_ops 64 src_str_stmt).2.1).2.error_msg
      = "Backend: unsupported expr kind STR_LIT at 1:16 (offset: 15)" := by
  decide!

/-! ## Theorems: lexer -/

/-- C11 (failing input). The lexeme `_nvauwElkTUI` matches
`[A-Za-z_][A-Za-z0-9_]*` and is none of the keywords, yet the lexer yields the
keyword token `gg` for it: `lookup_keyword` compares the `sdbm_n` hashes only,
and the hash of this lexeme is that of `gg` (6756800). -/
theorem keyword_hash_collision :
    src_kw_collide ≠ bytes_of "gg" ∧
    sdbm_n src_kw_collide = sdbm_n (bytes_of "gg") ∧
    lookup_keyword src_kw_collide = token_kind_t.TOK_KW_GG ∧
    (lexer_stream exact_ops src_kw_collide).1 = err_t.OK ∧
    (lexer_stream exact_ops src_kw_collide).2.1.map (fun t => (t.kind, t.buffer))
      = [(token_kind_t.TOK_KW_GG, src_kw_collide), (token_kind_t.TOK_EOF, [])] := by
  decide!
theorem isdigit_ne_dot {c : Char} (h : c_isdigit c = true) : c ≠ '.' := by
  rintro rfl
  revert h
  decide

theorem number_check_spec : ∀ (l : List Char) (dots : Nat), dots ≤ 1 →
    ((number_check l dots).2 = true ↔
      (∀ c ∈ l, c_isdigit c = true ∨ c = '.') ∧ dots + l.count '.' ≤ 1) ∧
    ((number_check l dots).2 = true → (number_check l dots).1 = dots + l.count '.')
  | [], dots, h => by simp [number_check, h]
  | ch :: rest, dots, h => by
    unfold number_check
    by_cases hd : c_isdigit ch = true
    · have hne := isdigit_ne_dot hd
      have ih := number_check_spec rest dots h
      simp only [hd, if_true]
      rw [List.count_cons_of_ne (Ne.symm hne)]
      constructor
      · rw [ih.1]
        simp [hd]
      · exact ih.2
    · by_cases hdot : ch = '.'
      · subst hdot
        simp only [hd, if_true, Bool.false_eq_true, if_false]
        by_cases h1 : dots + 1 > 1
        · simp only [h1, if_true]
          simp
          intro _
          omega
        · have hz : dots = 0 := by omega
          subst hz
          have ih := number_check_spec rest 1 (le_refl 1)
          simp only [h1, if_false]
          constructor
          · rw [ih.1]
            simp
          · intro hh
            rw [ih.2 hh]
            simp
            omega
      · simp only [hd, hdot, Bool.false_eq_true, if_false]
        simp [hd, hdot]

theorem after_dot_append : ∀ (a b : List Char), (∀ c ∈ a, c ≠ '.') →
    after_dot (a ++ '.' :: b) = b.headD NUL
  | [], b, _ => by simp [after_dot]
  | x :: a, b, h => by
    have hx : x ≠ '.' := h x (List.mem_cons_self _ _)
    have ih := after_dot_append a b (fun c hc => h c (List.mem_cons_of_mem _ hc))
    simp [after_dot, hx, ih]

theorem get?_append_cons {α : Type} (pre : List α) (c : α) (t : List α) :
    (pre ++ c :: t).get? pre.length = some c := by
  induction pre with
  | nil => rfl
  | cons x xs ih => simpa using ih

theorem get?_append_nil {α : Type} (pre : List α) :
    (pre ++ []).get? pre.length = none := by
  simp

theorem lexer_peek_char_at (lx : lexer_t) (pre post : List Char)
    (hbuf : lx.buffer = pre ++ post) (hpos : lx.pos = pre.length) :
    lexer_peek_char lx = post.headD NUL := by
  unfold lexer_peek_char
  rw [hbuf, hpos]
  cases post with
  | nil => rw [get?_append_nil]; rfl
  | cons c t => rw [get?_append_cons]; rfl

theorem advance_while_run (p : Char → Bool) : ∀ (mid : List Char) (fuel : Nat) (lx : lexer_t)
    (pre post : List Char), lx.buffer = pre ++ (mid ++ post) → lx.pos = pre.length →
    (∀ c ∈ mid, p c = true) → p (post.headD NUL) = false → mid.length < fuel →
    (advance_while p fuel lx).buffer = lx.buffer ∧
    (advance_while p fuel lx).pos = pre.length + mid.length
  | [], fuel, lx, pre, post, hbuf, hpos, _, hpost, hf => by
    cases fuel with
    | zero => simp at hf
    | succ f =>
      unfold advance_while
      rw [lexer_peek_char_at lx pre post (by simpa using hbuf) hpos, hpost]
      simp [hpos]
  | c :: mid, fuel, lx, pre, post, hbuf, hpos, hmid, hpost, hf => by
    cases fuel with
    | zero => simp at hf
    | succ f =>
      have hpk : lexer_peek_char lx = c := by
        rw [lexer_peek_char_at lx pre (c :: mid ++ post) hbuf hpos]
        rfl
      have hget : lx.buffer.get? lx.pos = some c := by
        rw [hbuf, hpos]
        exact get?_append_cons pre c (mid ++ post)
      have hadv : (lexer_advance lx).buffer = lx.buffer ∧
          (lexer_advance lx).pos = lx.pos + 1 := by
        unfold lexer_advance
        rw [hget]
        dsimp only
        split_ifs <;> exact ⟨rfl, rfl⟩
      have ih := advance_while_run p mid f (lexer_advance lx) (pre ++ [c]) post
        (by rw [hadv.1, hbuf]; simp) (by rw [hadv.2, hpos]; simp)
        (fun x hx => hmid x (List.mem_cons_of_mem _ hx)) hpost
        (by simp at hf; omega)
      unfold advance_while
      rw [hpk, if_pos (hmid c (List.mem_cons_self _ _)), ih.1, ih.2, hadv.1]
      simp
      omega

theorem number_form_chars {run : List Char} (h : number_form run) :
    (∀ c ∈ run, c_isdigit c = true ∨ c = '.') ∧ run.count '.' ≤ 1 := by
  rcases h with ⟨_, hall⟩ | ⟨a, b, _, _, ha, hb, rfl⟩
  · refine ⟨fun c hc => Or.inl (hall c hc), ?_⟩
    have : run.count '.' = 0 :=
      List.count_eq_zero.mpr (fun hm => isdigit_ne_dot (hall _ hm) rfl)
    omega
  · refine ⟨?_, ?_⟩
    · intro c hc
      rcases List.mem_append.mp hc with h1 | h1
      · exact Or.inl (ha c h1)
      · rcases List.mem_cons.mp h1 with h2 | h2
        · exact Or.inr h2
        · exact Or.inl (hb c h2)
    · have h1 : a.count '.' = 0 :=
        List.count_eq_zero.mpr (fun hm => isdigit_ne_dot (ha _ hm) rfl)
      have h2 : b.count '.' = 0 :=
        List.count_eq_zero.mpr (fun hm => isdigit_ne_dot (hb _ hm) rfl)
      simp [List.count_append, h1, h2]

theorem number_ok_iff (d : Char) (rest : List Char) (hd : c_isdigit d = true) :
    ((if ((number_check rest 0).2 && decide ((number_check rest 0).1 = 1)) = true
        then c_isdigit (after_dot (d :: rest)) else (number_check rest 0).2) = true
      ↔ number_form (d :: rest)) ∧
    ((number_check rest 0).2 = true → ((number_check rest 0).1 = 0 ↔ '.' ∉ rest)) ∧
    (number_form (d :: rest) → (number_check rest 0).2 = true) := by
  have hspec := number_check_spec rest 0 (by omega)
  have hdne : d ≠ '.' := isdigit_ne_dot hd
  by_cases hok : (number_check rest 0).2 = true
  · have hcs := hspec.1.mp hok
    have hdots := hspec.2 hok
    simp only [Nat.zero_add] at hcs hdots
    have hcnt : rest.count '.' = 0 ∨ rest.count '.' = 1 := by omega
    refine ⟨?_, fun _ => ?_, fun _ => hok⟩
    · rcases hcnt with h0 | h1
      · have hnot : '.' ∉ rest := List.count_eq_zero.mp h0
        have hall : ∀ c ∈ d :: rest, c_isdigit c = true := by
          intro c hc
          rcases List.mem_cons.mp hc with h | h
          · rw [h]; exact hd
          · rcases hcs.1 c h with h' | h'
            · exact h'
            · exact absurd (h' ▸ h) hnot
        simp only [hok, hdots, h0, Bool.true_and]
        simp
        exact Or.inl ⟨by simp, hall⟩
      · have hmem : '.' ∈ rest := by
          by_contra hn
          rw [List.count_eq_zero.mpr hn] at h1
          omega
        obtain ⟨a, b, hab⟩ := List.append_of_mem hmem
        have hca : a.count '.' = 0 ∧ b.count '.' = 0 := by
          rw [hab] at h1
          simp [List.count_append] at h1
          omega
        have hna : ∀ c ∈ d :: a, c ≠ '.' := by
          intro c hc
          rcases List.mem_cons.mp hc with h | h
          · rw [h]; exact hdne
          · intro hcd
            exact List.count_eq_zero.mp hca.1 (hcd ▸ h)
        have hda : ∀ c ∈ d :: a, c_isdigit c = true := by
          intro c hc
          rcases List.mem_cons.mp hc with h | h
          · rw [h]; exact hd
          · rcases hcs.1 c (by rw [hab]; exact List.mem_append_left _ h) with h' | h'
            · exact h'
            · exact absurd h' (hna c hc)
        have hdb : ∀ c ∈ b, c_isdigit c = true := by
          intro c hc
          rcases hcs.1 c (by rw [hab]; exact List.mem_append_right _ (List.mem_cons_of_mem _ hc))
            with h' | h'
          · exact h'
          · exact absurd (h' ▸ hc) (List.count_eq_zero.mp hca.2)
        have haft : after_dot (d :: rest) = b.headD NUL := by
          rw [hab]
          exact after_dot_append (d :: a) b hna
        simp only [hok, hdots, h1, Bool.true_and, decide_True, if_true, haft]
        constructor
        · intro hh
          refine Or.inr ⟨d :: a, b, by simp, ?_, hda, hdb, by rw [hab]; rfl⟩
          rintro rfl
          revert hh
          decide
        · intro hf
          rcases hf with ⟨_, hall⟩ | ⟨a2, b2, _, hb2, ha2, hb2d, heq⟩
          · exact absurd rfl (isdigit_ne_dot (hall '.' (List.mem_cons_of_mem _ hmem)))
          · have h2 : after_dot (a2 ++ '.' :: b2) = b2.headD NUL :=
              after_dot_append a2 b2 (fun c hc => isdigit_ne_dot (ha2 c hc))
            rw [← haft, heq, h2]
            cases b2 with
            | nil => exact absurd rfl hb2
            | cons x xs => exact hb2d x (List.mem_cons_self _ _)
    · rw [hdots]
      exact List.count_eq_zero
  · have hokf : (number_check rest 0).2 = false := by simpa using hok
    have hnf : ¬ number_form (d :: rest) := by
      intro hf
      have hc := number_form_chars hf
      apply hok
      apply hspec.1.mpr
      refine ⟨fun c hc' => hc.1 c (List.mem_cons_of_mem _ hc'), ?_⟩
      have := hc.2
      rw [List.count_cons_of_ne hdne.symm] at this
      omega
    refine ⟨?_, fun h => absurd h hok, fun h => absurd h hnf⟩
    simp only [hokf, Bool.false_and, Bool.false_eq_true, if_false, false_iff]
    intro hf
    have hc := number_form_chars hf
    apply hok
    apply hspec.1.mpr
    refine ⟨fun c hc' => hc.1 c (List.mem_cons_of_mem _ hc'), ?_⟩
    have := hc.2
    rw [List.count_cons_of_ne hdne.symm] at this
    omega

section scan_number_thm
variable {F : Type}

theorem scan_number_lexeme (lx lx1 : lexer_t) (pre rest post : List Char) (d : Char)
    (hbuf : lx.buffer = pre ++ (d :: rest) ++ post)
    (h1 : lx1.buffer = lx.buffer) (h2 : lx1.pos = pre.length + 1 + rest.length) :
    lexeme lx1 pre.length (lx1.pos - pre.length) = d :: rest ∧
    lx1.pos - pre.length = rest.length + 1 := by
  have hlen : lx1.pos - pre.length = rest.length + 1 := by omega
  refine ⟨?_, hlen⟩
  unfold lexeme
  rw [hlen, h1, hbuf, List.append_assoc, List.drop_left]
  simp [List.take_append_eq_append_take]

/-- C12. Numeric literal acceptance.  Let the buffer hold, from offset
`pre.length` on, a run `d :: rest` of characters of `[0-9A-Za-z_.]` that
starts with a digit `d` and is maximal (the character after it, or the end of
the buffer, is not of that class), and let `scan_number` be called as
`lexer_next` calls it, with the first character consumed.  Then the token
spans the run and starts at its offset; if the run has the form `digits` or
`digits '.' digits` the token is a `NUMERIC_LITERAL`, typed int (value by
`strtoll`) when the run has no dot and float (value by `strtod`) when it has
one; for every other run the token is an `ERROR` token and the recorded
error position is the offset of the first character of the run. -/
theorem scan_number_spec (ops : f64_ops F) (lx : lexer_t) (pre rest post : List Char)
    (d : Char) (line col : Nat)
    (hbuf : lx.buffer = pre ++ (d :: rest) ++ post) (hpos : lx.pos = pre.length + 1)
    (hd : c_isdigit d = true) (hrest : ∀ c ∈ rest, number_run_char c = true)
    (hpost : number_run_char (post.headD NUL) = false) :
    (scan_number ops lx pre.length line col).1.buffer = d :: rest ∧
    (scan_number ops lx pre.length line col).1.pos
      = { line := line, column := col, offset := pre.length } ∧
    (number_form (d :: rest) →
      (scan_number ops lx pre.length line col).1.kind = token_kind_t.TOK_NUMERIC_LITERAL ∧
      (scan_number ops lx pre.length line col).1.lit
        = (if '.' ∈ rest then literal_t.LIT_FLOAT (ops.strtod (d :: rest))
           else literal_t.LIT_INT (strtoll_digits (d :: rest)))) ∧
    (¬ number_form (d :: rest) →
      (scan_number ops lx pre.length line col).1.kind = token_kind_t.TOK_ERROR ∧
      (scan_number ops lx pre.length line col).2.error_pos = pre.length) := by
  have hadv := advance_while_run number_run_char rest (lx.buffer.length + 1) lx (pre ++ [d]) post
    (by rw [hbuf]; simp) (by rw [hpos]; simp) hrest hpost (by rw [hbuf]; simp; omega)
  have hlx := scan_number_lexeme lx (advance_while number_run_char (lx.buffer.length + 1) lx)
    pre rest post d hbuf hadv.1 (by rw [hadv.2]; simp)
  obtain ⟨hiff, hdot, hchk⟩ := number_ok_iff d rest hd
  unfold scan_number
  generalize advance_while number_run_char (lx.buffer.length + 1) lx = lx1 at hadv hlx ⊢
  obtain ⟨hl1, hl2⟩ := hlx
  rw [hl2] at hl1
  have hlen : ¬ (rest.length + 1 = 0) := Nat.succ_ne_zero _
  simp only [token_ctor, hl2, hl1, List.tail_cons, List.headD_cons, hd, hlen, decide_False,
    Bool.not_true, Bool.or_false, Bool.not_false, Bool.true_and]
  by_cases hf : number_form (d :: rest)
  · have hd0 := hdot (hchk hf)
    rw [hiff.mpr hf]
    simp only [Bool.not_true, Bool.false_eq_true, if_false]
    by_cases hm : '.' ∈ rest
    · rw [if_neg (fun h => (hd0.mp h) hm)]
      simp [hm, hf]
    · rw [if_pos (hd0.mpr hm)]
      simp [hm, hf]
  · have hin : (if ((number_check rest 0).2 && decide ((number_check rest 0).1 = 1)) = true
        then c_isdigit (after_dot (d :: rest)) else (number_check rest 0).2) = false := by
      simpa using fun h => hf (hiff.mp h)
    rw [hin]
    simp [hf, lexer_set_error]

end scan_number_thm

/-- C12 (witness): the run `3.14` of the buffer `a 3.14;`. -/
theorem scan_number_spec_witness :
    c_isdigit '3' = true ∧
    (scan_number exact_ops lx_number 2 1 3).1.buffer = "3.14".toList ∧
    (scan_number exact_ops lx_number 2 1 3).1.pos = { line := 1, column := 3, offset := 2 } ∧
    (number_form "3.14".toList →
      (scan_number exact_ops lx_number 2 1 3).1.kind = token_kind_t.TOK_NUMERIC_LITERAL ∧
      (scan_number exact_ops lx_number 2 1 3).1.lit
        = (if '.' ∈ ".14".toList then literal_t.LIT_FLOAT (exact_ops.strtod "3.14".toList)
           else literal_t.LIT_INT (strtoll_digits "3.14".toList))) ∧
    (¬ number_form "3.14".toList →
      (scan_number exact_ops lx_number 2 1 3).1.kind = token_kind_t.TOK_ERROR ∧
      (scan_number exact_ops lx_number 2 1 3).2.error_pos = 2) :=
  ⟨by decide,
    scan_number_spec exact_ops lx_number "a ".toList ".14".toList ";".toList '3' 1 3
      rfl rfl (by decide) (by decide) (by decide)⟩

/-! ## Theorems: precedence and associativity -/

section precedence
variable {F : Type}

theorem sa_make_bin_eq (s : syntax_analyzer_t F) (o : token_t F) (a b : ast_node F)
    (ha : a.is_some = true) (hb : b.is_some = true) :
    sa_make_bin s o a b = (bin_node o a b, { s with nodes_amount := s.nodes_amount + 1 }) := by
  cases a with
  | nil => simp [ast_node.is_some] at ha
  | node ka pa ta ua la ra =>
    cases b with
    | nil => simp [ast_node.is_some] at hb
    | node kb pb tb ub lb rb =>
      simp [sa_make_bin, sa_new, ast_new, ast_node.with_u, ast_add_child, append_sibling,
        bin_node, ast_node.set_right]

theorem bin_node_is_some (o : token_t F) (a b : ast_node F) : (bin_node o a b).is_some = true :=
  rfl

theorem yields_mono {f : Nat → syntax_analyzer_t F → pres F} {toks : List (token_t F)}
    {st : symtable_t} {nt : nametable_t} {g0 g1 p q : Nat} {x : ast_node F}
    (h : yields f toks st nt g0 p x q) (hg : g0 ≤ g1) : yields f toks st nt g1 p x q :=
  ⟨h.1, h.2.1, fun g s hg' h1 => h.2.2 g s (Nat.le_trans hg hg') h1⟩

theorem binop_loop_stop (next : syntax_analyzer_t F → pres F) (cond : token_kind_t → Bool)
    (fuel : Nat) (n : ast_node F) (s : syntax_analyzer_t F)
    (hend : ∀ t, s.tokens.get? s.pos = some t → cond t.kind = false) :
    binop_loop next cond (fuel + 1) n s = (n, s) := by
  unfold binop_loop
  cases hc : cur_ s with
  | none => rfl
  | some op =>
    have := hend op hc
    simp [this]

theorem binop_loop_step (next : syntax_analyzer_t F → pres F) (cond : token_kind_t → Bool)
    (fuel : Nat) (n y : ast_node F) (s s2 : syntax_analyzer_t F) (o : token_t F)
    (ho : s.tokens.get? s.pos = some o) (hc : cond o.kind = true)
    (hn : n.is_some = true) (hy : y.is_some = true)
    (hnext : next (sa_advance s) = (y, s2)) :
    binop_loop next cond (fuel + 1) n s
      = binop_loop next cond fuel (bin_node o n y)
          { s2 with nodes_amount := s2.nodes_amount + 1 } := by
  have hcur : cur_ s = some o := ho
  conv => lhs; unfold binop_loop
  simp only [hcur, hc, hnext, hy, sa_make_bin_eq s2 o n y hn hy]
  simp


theorem sa_at_advance {toks : List (token_t F)} {st : symtable_t} {nt : nametable_t} {q : Nat}
    {s : syntax_analyzer_t F} (h : sa_at toks st nt q s) : sa_at toks st nt (q + 1) (sa_advance s) := by
  obtain ⟨h1, h2, h3, h4⟩ := h
  exact ⟨h1, h2, h3, by simp [sa_advance, h4]⟩

theorem sa_at_nodes {toks : List (token_t F)} {st : symtable_t} {nt : nametable_t} {q : Nat}
    {s : syntax_analyzer_t F} (h : sa_at toks st nt q s) (k : Nat) :
    sa_at toks st nt q { s with nodes_amount := k } := h

theorem layer_lift (nx f : Nat → syntax_analyzer_t F → pres F) (cond : token_kind_t → Bool)
    (hf : ∀ g s, f (g + 1) s = binop_layer (nx g) cond s)
    {toks : List (token_t F)} {st : symtable_t} {nt : nametable_t} {G p q : Nat}
    {x : ast_node F} (h : yields nx toks st nt G p x q)
    (hend : ∀ t, toks.get? q = some t → cond t.kind = false) :
    yields f toks st nt (G + 1) p x q := by
  refine ⟨h.1, h.2.1, ?_⟩
  intro g s hg hs
  obtain ⟨g', rfl⟩ : ∃ g', g = g' + 1 := ⟨g - 1, by omega⟩
  obtain ⟨e1, e2⟩ := h.2.2 g' s (by omega) hs
  rw [hf]
  unfold binop_layer
  have hsome : (nx g' s).1.is_some = true := by rw [e1]; exact h.1
  simp only [hsome, Bool.not_true, Bool.false_eq_true, if_false]
  rw [binop_loop_stop]
  · exact ⟨e1, e2⟩
  · intro t ht
    rw [e2.1, e2.2.2.2] at ht
    exact hend t ht

theorem layer_combine (nx f : Nat → syntax_analyzer_t F → pres F) (cond : token_kind_t → Bool)
    (hf : ∀ g s, f (g + 1) s = binop_layer (nx g) cond s)
    {toks : List (token_t F)} {st : symtable_t} {nt : nametable_t} {G p q1 q2 : Nat}
    {x y : ast_node F} {o : token_t F} (hx : yields nx toks st nt G p x q1)
    (ho : toks.get? q1 = some o) (hc : cond o.kind = true)
    (hy : yields nx toks st nt G (q1 + 1) y q2)
    (hend : ∀ t, toks.get? q2 = some t → cond t.kind = false) :
    yields f toks st nt (G + 1) p (bin_node o x y) q2 := by
  refine ⟨rfl, by have := hx.2.1; have := hy.2.1; omega, ?_⟩
  intro g s hg hs
  obtain ⟨g', rfl⟩ : ∃ g', g = g' + 1 := ⟨g - 1, by omega⟩
  obtain ⟨e1, e2⟩ := hx.2.2 g' s (by omega) hs
  obtain ⟨d1, d2⟩ := hy.2.2 g' (sa_advance (nx g' s).2) (by omega) (sa_at_advance e2)
  have hlen : ∃ n, s.tokens.length = n + 1 := by
    have h1 : q1 < toks.length := by
      by_contra hn
      rw [List.get?_eq_none.mpr (by omega)] at ho
      exact Option.noConfusion ho
    exact ⟨s.tokens.length - 1, by rw [hs.1]; omega⟩
  obtain ⟨n, hn⟩ := hlen
  rw [hf]
  unfold binop_layer
  have hsome : (nx g' s).1.is_some = true := by rw [e1]; exact hx.1
  simp only [hsome, Bool.not_true, Bool.false_eq_true, if_false]
  rw [binop_loop_step (nx g') cond _ (nx g' s).1 y (nx g' s).2
    ((nx g') (sa_advance (nx g' s).2)).2 o (by rw [e2.1, e2.2.2.2]; exact ho) hc hsome hy.1
    (by rw [← d1])]
  rw [hn, binop_loop_stop]
  · rw [e1]
    exact ⟨rfl, d2⟩
  · intro t ht
    have : toks.get? q2 = some t := by
      rw [← d2.1, ← d2.2.2.2]
      exact ht
    exact hend t this


theorem layer_combine2 (nx f : Nat → syntax_analyzer_t F → pres F) (cond : token_kind_t → Bool)
    (hf : ∀ g s, f (g + 1) s = binop_layer (nx g) cond s)
    {toks : List (token_t F)} {st : symtable_t} {nt : nametable_t} {G p q1 q2 q3 : Nat}
    {x y z : ast_node F} {o1 o2 : token_t F} (hx : yields nx toks st nt G p x q1)
    (ho1 : toks.get? q1 = some o1) (hc1 : cond o1.kind = true)
    (hy : yields nx toks st nt G (q1 + 1) y q2)
    (ho2 : toks.get? q2 = some o2) (hc2 : cond o2.kind = true)
    (hz : yields nx toks st nt G (q2 + 1) z q3)
    (hend : ∀ t, toks.get? q3 = some t → cond t.kind = false) :
    yields f toks st nt (G + 1) p (bin_node o2 (bin_node o1 x y) z) q3 := by
  refine ⟨rfl, by have := hx.2.1; have := hy.2.1; have := hz.2.1; omega, ?_⟩
  intro g s hg hs
  obtain ⟨g', rfl⟩ : ∃ g', g = g' + 1 := ⟨g - 1, by omega⟩
  obtain ⟨e1, e2⟩ := hx.2.2 g' s (by omega) hs
  obtain ⟨d1, d2⟩ := hy.2.2 g' (sa_advance (nx g' s).2) (by omega) (sa_at_advance e2)
  have d2' := sa_at_nodes d2 (((nx g') (sa_advance (nx g' s).2)).2.nodes_amount + 1)
  obtain ⟨c1, c2⟩ := hz.2.2 g' (sa_advance _) (by omega) (sa_at_advance d2')
  have hlen : ∃ n, s.tokens.length = n + 2 := by
    have h2 : q2 < toks.length := by
      by_contra hn
      rw [List.get?_eq_none.mpr (by omega)] at ho2
      exact Option.noConfusion ho2
    have := hy.2.1
    exact ⟨s.tokens.length - 2, by rw [hs.1]; omega⟩
  obtain ⟨n, hn⟩ := hlen
  rw [hf]
  unfold binop_layer
  have hsome : (nx g' s).1.is_some = true := by rw [e1]; exact hx.1
  simp only [hsome, Bool.not_true, Bool.false_eq_true, if_false]
  rw [binop_loop_step (nx g') cond _ (nx g' s).1 y (nx g' s).2
    ((nx g') (sa_advance (nx g' s).2)).2 o1 (by rw [e2.1, e2.2.2.2]; exact ho1) hc1 hsome hy.1
    (by rw [← d1])]
  rw [hn]
  rw [binop_loop_step (nx g') cond _ (bin_node o1 (nx g' s).1 y) z _ _ o2
    (by rw [d2'.1, d2'.2.2.2]; exact ho2) hc2 (bin_node_is_some _ _ _) hz.1 (by rw [← c1])]
  rw [binop_loop_stop]
  · rw [e1]
    exact ⟨rfl, c2⟩
  · intro t ht
    have : toks.get? q3 = some t := by
      rw [← c2.1, ← c2.2.2.2]
      exact ht
    exact hend t this

theorem pow_lift {toks : List (token_t F)} {st : symtable_t} {nt : nametable_t} {G p q : Nat}
    {x : ast_node F} (h : yields parse_unary_ toks st nt G p x q)
    (hend : ∀ t, toks.get? q = some t → t.kind ≠ .TOK_OP_POW) :
    yields parse_pow_ toks st nt (G + 1) p x q := by
  refine ⟨h.1, h.2.1, ?_⟩
  intro g s hg hs
  obtain ⟨g', rfl⟩ : ∃ g', g = g' + 1 := ⟨g - 1, by omega⟩
  obtain ⟨e1, e2⟩ := h.2.2 g' s (by omega) hs
  have hsome : (parse_unary_ g' s).1.is_some = true := by rw [e1]; exact h.1
  rw [parse_pow_]
  simp only [hsome, Bool.not_true, Bool.false_eq_true, if_false]
  cases hc : cur_ (parse_unary_ g' s).2 with
  | none => exact ⟨e1, e2⟩
  | some op =>
    have hne : op.kind ≠ .TOK_OP_POW := by
      apply hend op
      rw [← e2.1, ← e2.2.2.2]
      exact hc
    simp only [hne, if_false]
    exact ⟨e1, e2⟩

theorem pow_combine {toks : List (token_t F)} {st : symtable_t} {nt : nametable_t}
    {G p q1 q2 : Nat} {x y : ast_node F} {o : token_t F}
    (hx : yields parse_unary_ toks st nt G p x q1)
    (ho : toks.get? q1 = some o) (hk : o.kind = .TOK_OP_POW)
    (hy : yields parse_pow_ toks st nt G (q1 + 1) y q2) :
    yields parse_pow_ toks st nt (G + 1) p (bin_node o x y) q2 := by
  refine ⟨rfl, by have := hx.2.1; have := hy.2.1; omega, ?_⟩
  intro g s hg hs
  obtain ⟨g', rfl⟩ : ∃ g', g = g' + 1 := ⟨g - 1, by omega⟩
  obtain ⟨e1, e2⟩ := hx.2.2 g' s (by omega) hs
  obtain ⟨d1, d2⟩ := hy.2.2 g' (sa_advance (parse_unary_ g' s).2) (by omega) (sa_at_advance e2)
  have hsome : (parse_unary_ g' s).1.is_some = true := by rw [e1]; exact hx.1
  have hsome2 : (parse_pow_ g' (sa_advance (parse_unary_ g' s).2)).1.is_some = true := by
    rw [d1]; exact hy.1
  have hc : cur_ (parse_unary_ g' s).2 = some o := by
    show (parse_unary_ g' s).2.tokens.get? (parse_unary_ g' s).2.pos = some o
    rw [e2.1, e2.2.2.2]
    exact ho
  rw [parse_pow_]
  simp only [hsome, hsome2, hc, hk, Bool.not_true, Bool.false_eq_true, if_false, if_true]
  rw [sa_make_bin_eq _ _ _ _ hsome hsome2, e1, d1]
  exact ⟨rfl, d2⟩


theorem layer_fn_step (k : Nat) (hk : k ≤ 5) :
    ∃ cond : token_kind_t → Bool,
      (∀ (g : Nat) (s : syntax_analyzer_t F),
        layer_fn k (g + 1) s = binop_layer (layer_fn (k + 1) g) cond s) ∧
      ∀ tk, cond tk = true ↔ binop_level tk = some k := by
  interval_cases k
  · exact ⟨_, fun g s => by simp only [layer_fn]; rw [parse_or_],
      fun tk => by cases tk <;> simp [binop_level]⟩
  · exact ⟨_, fun g s => by simp only [layer_fn]; rw [parse_and_],
      fun tk => by cases tk <;> simp [binop_level]⟩
  · exact ⟨_, fun g s => by simp only [layer_fn]; rw [parse_eq_],
      fun tk => by cases tk <;> simp [binop_level]⟩
  · exact ⟨_, fun g s => by simp only [layer_fn]; rw [parse_rel_],
      fun tk => by cases tk <;> simp [binop_level]⟩
  · exact ⟨_, fun g s => by simp only [layer_fn]; rw [parse_add_],
      fun tk => by cases tk <;> simp [binop_level]⟩
  · exact ⟨_, fun g s => by simp only [layer_fn]; rw [parse_mul_],
      fun tk => by cases tk <;> simp [binop_level]⟩

theorem lift_one {toks : List (token_t F)} {st : symtable_t} {nt : nametable_t}
    {G p q : Nat} {x : ast_node F} (k : Nat) (hk : k ≤ 6)
    (h : yields (layer_fn (k + 1)) toks st nt G p x q)
    (hend : ∀ t, toks.get? q = some t → binop_level t.kind ≠ some k) :
    yields (layer_fn k) toks st nt (G + 1) p x q := by
  rcases Nat.lt_or_ge k 6 with h6 | h6
  · obtain ⟨cond, hf, hc⟩ := layer_fn_step (F := F) k (by omega)
    refine layer_lift (layer_fn (k + 1)) (layer_fn k) cond hf h ?_
    intro t ht
    have := hend t ht
    cases hct : cond t.kind with
    | false => rfl
    | true => exact absurd ((hc _).mp hct) this
  · have hk6 : k = 6 := by omega
    subst hk6
    refine pow_lift h ?_
    intro t ht hpow
    exact hend t ht (by rw [hpow]; rfl)

theorem lift_to {toks : List (token_t F)} {st : symtable_t} {nt : nametable_t}
    {p q : Nat} {x : ast_node F} (i : Nat) :
    ∀ (d G : Nat), i + d ≤ 7 → yields (layer_fn (i + d)) toks st nt G p x q →
      (∀ t, toks.get? q = some t → ∀ k, i ≤ k → k < i + d → binop_level t.kind ≠ some k) →
      yields (layer_fn i) toks st nt (G + d) p x q
  | 0, G, _, h, _ => h
  | d + 1, G, hd, h, hend => by
    have h1 := lift_one (i + d) (by omega) h (fun t ht => hend t ht (i + d) (by omega) (by omega))
    have h2 := lift_to i d (G + 1) (by omega) h1
      (fun t ht k hk1 hk2 => hend t ht k hk1 (by omega))
    exact yields_mono h2 (by omega)

theorem lift_from {toks : List (token_t F)} {st : symtable_t} {nt : nametable_t}
    {p q G : Nat} {x : ast_node F} (i j G1 : Nat) (hij : i ≤ j) (hj : j ≤ 7)
    (h : yields (layer_fn j) toks st nt G p x q)
    (hend : ∀ t, toks.get? q = some t → ∀ k, i ≤ k → k < j → binop_level t.kind ≠ some k)
    (hG : G + 7 ≤ G1) :
    yields (layer_fn i) toks st nt G1 p x q := by
  obtain ⟨d, rfl⟩ : ∃ d, j = i + d := ⟨j - i, by omega⟩
  exact yields_mono (lift_to i d G hj h hend) (by omega)

theorem combine_at {toks : List (token_t F)} {st : symtable_t} {nt : nametable_t}
    {G p q1 q2 : Nat} {x y : ast_node F} {o : token_t F} (k : Nat) (hk : k ≤ 6)
    (hx : yields (layer_fn (k + 1)) toks st nt G p x q1)
    (ho : toks.get? q1 = some o) (hl : binop_level o.kind = some k)
    (hy : yields (layer_fn (k + 1)) toks st nt G (q1 + 1) y q2)
    (hend : ∀ t, toks.get? q2 = some t → binop_level t.kind ≠ some k) :
    yields (layer_fn k) toks st nt (G + 2) p (bin_node o x y) q2 := by
  rcases Nat.lt_or_ge k 6 with h6 | h6
  · obtain ⟨cond, hf, hc⟩ := layer_fn_step (F := F) k (by omega)
    refine yields_mono (layer_combine (layer_fn (k + 1)) (layer_fn k) cond hf hx ho
      ((hc _).mpr hl) hy ?_) (by omega)
    intro t ht
    have := hend t ht
    cases hct : cond t.kind with
    | false => rfl
    | true => exact absurd ((hc _).mp hct) this
  · have hk6 : k = 6 := by omega
    subst hk6
    have hpow : o.kind = .TOK_OP_POW := by
      revert hl
      cases o.kind <;> simp [binop_level]
    have hy' := pow_lift hy (fun t ht hp => hend t ht (by rw [hp]; rfl))
    exact pow_combine (yields_mono hx (Nat.le_succ G)) ho hpow hy'


theorem binop_level_le {tk : token_kind_t} {l : Nat} (h : binop_level tk = some l) : l ≤ 6 := by
  revert h
  cases tk <;> simp [binop_level] <;> omega

theorem combine2_at {toks : List (token_t F)} {st : symtable_t} {nt : nametable_t}
    {G p q1 q2 q3 : Nat} {x y z : ast_node F} {o1 o2 : token_t F} (k : Nat) (hk : k ≤ 5)
    (hx : yields (layer_fn (k + 1)) toks st nt G p x q1)
    (ho1 : toks.get? q1 = some o1) (hl1 : binop_level o1.kind = some k)
    (hy : yields (layer_fn (k + 1)) toks st nt G (q1 + 1) y q2)
    (ho2 : toks.get? q2 = some o2) (hl2 : binop_level o2.kind = some k)
    (hz : yields (layer_fn (k + 1)) toks st nt G (q2 + 1) z q3)
    (hend : ∀ t, toks.get? q3 = some t → binop_level t.kind ≠ some k) :
    yields (layer_fn k) toks st nt (G + 2) p (bin_node o2 (bin_node o1 x y) z) q3 := by
  obtain ⟨cond, hf, hc⟩ := layer_fn_step (F := F) k hk
  refine yields_mono (layer_combine2 (layer_fn (k + 1)) (layer_fn k) cond hf hx ho1
    ((hc _).mpr hl1) hy ho2 ((hc _).mpr hl2) hz ?_) (by omega)
  intro t ht
  have := hend t ht
  cases hct : cond t.kind with
  | false => rfl
  | true => exact absurd ((hc _).mp hct) this

theorem two_operands {toks : List (token_t F)} {st : symtable_t} {nt : nametable_t}
    {g0 p q1 q2 l : Nat} {x y : ast_node F} {o : token_t F}
    (hx : yields (layer_fn 7) toks st nt g0 p x q1)
    (ho : toks.get? q1 = some o) (hl : binop_level o.kind = some l)
    (hy : yields (layer_fn 7) toks st nt g0 (q1 + 1) y q2)
    (hend : ∀ t, toks.get? q2 = some t → binop_level t.kind = none) :
    yields (layer_fn 0) toks st nt (g0 + 25) p (bin_node o x y) q2 := by
  have hl6 := binop_level_le hl
  have hnone : ∀ t, toks.get? q2 = some t → ∀ k : Nat, binop_level t.kind ≠ some k :=
    fun t ht k hk => by rw [hend t ht] at hk; exact Option.noConfusion hk
  have x1 := lift_from (l + 1) 7 (g0 + 7) (by omega) (le_refl 7) hx
    (fun t ht k hk1 _ hk => by
      rw [ho] at ht
      cases ht
      rw [hl] at hk
      cases hk
      omega) (le_refl _)
  have y1 := lift_from (l + 1) 7 (g0 + 7) (by omega) (le_refl 7) hy
    (fun t ht k _ _ => hnone t ht k) (le_refl _)
  have xy := combine_at l hl6 x1 ho hl y1 (fun t ht => hnone t ht l)
  exact lift_from 0 l (g0 + 25) (Nat.zero_le _) (by omega) xy
    (fun t ht k _ _ => hnone t ht k) (by omega)

theorem three_operands {toks : List (token_t F)} {st : symtable_t} {nt : nametable_t}
    {g0 p p1 p2 p3 l1 l2 : Nat} {a b c : ast_node F} {o1 o2 : token_t F}
    (ha : yields (layer_fn 7) toks st nt g0 p a p1)
    (ho1 : toks.get? p1 = some o1) (hl1 : binop_level o1.kind = some l1)
    (hb : yields (layer_fn 7) toks st nt g0 (p1 + 1) b p2)
    (ho2 : toks.get? p2 = some o2) (hl2 : binop_level o2.kind = some l2)
    (hc : yields (layer_fn 7) toks st nt g0 (p2 + 1) c p3)
    (hend : ∀ t, toks.get? p3 = some t → binop_level t.kind = none) :
    yields (layer_fn 0) toks st nt (g0 + 25) p
      (if l2 < l1 ∨ (l1 = l2 ∧ l1 ≠ 6) then bin_node o2 (bin_node o1 a b) c
       else bin_node o1 a (bin_node o2 b c)) p3 := by
  have h16 := binop_level_le hl1
  have h26 := binop_level_le hl2
  have hnone : ∀ t, toks.get? p3 = some t → ∀ k : Nat, binop_level t.kind ≠ some k :=
    fun t ht k hk => by rw [hend t ht] at hk; exact Option.noConfusion hk
  have hat1 : ∀ t, toks.get? p1 = some t → ∀ k : Nat, k ≠ l1 → binop_level t.kind ≠ some k :=
    fun t ht k hk hh => by
      rw [ho1] at ht
      cases ht
      rw [hl1] at hh
      cases hh
      exact hk rfl
  have hat2 : ∀ t, toks.get? p2 = some t → ∀ k : Nat, k ≠ l2 → binop_level t.kind ≠ some k :=
    fun t ht k hk hh => by
      rw [ho2] at ht
      cases ht
      rw [hl2] at hh
      cases hh
      exact hk rfl
  rcases Nat.lt_trichotomy l1 l2 with hlt | heq | hgt
  · -- the second operator binds tighter
    rw [if_neg (by omega)]
    have b1 := lift_from (l2 + 1) 7 (g0 + 7) (by omega) (le_refl 7) hb
      (fun t ht k hk1 _ => hat2 t ht k (by omega)) (le_refl _)
    have c1 := lift_from (l2 + 1) 7 (g0 + 7) (by omega) (le_refl 7) hc
      (fun t ht k _ _ => hnone t ht k) (le_refl _)
    have bc := combine_at l2 h26 b1 ho2 hl2 c1 (fun t ht => hnone t ht l2)
    have bc1 := lift_from (l1 + 1) l2 (g0 + 16) (by omega) (by omega) bc
      (fun t ht k _ _ => hnone t ht k) (by omega)
    have a1 := lift_from (l1 + 1) 7 (g0 + 16) (by omega) (le_refl 7) ha
      (fun t ht k hk1 _ => hat1 t ht k (by omega)) (by omega)
    have abc := combine_at l1 h16 a1 ho1 hl1 bc1 (fun t ht => hnone t ht l1)
    exact lift_from 0 l1 (g0 + 25) (Nat.zero_le _) (by omega) abc
      (fun t ht k _ _ => hnone t ht k) (by omega)
  · subst heq
    rcases Nat.lt_or_ge l1 6 with h6 | h6
    · -- one level below the power: left to right
      rw [if_pos (Or.inr ⟨rfl, by omega⟩)]
      have a1 := lift_from (l1 + 1) 7 (g0 + 7) (by omega) (le_refl 7) ha
        (fun t ht k hk1 _ => hat1 t ht k (by omega)) (le_refl _)
      have b1 := lift_from (l1 + 1) 7 (g0 + 7) (by omega) (le_refl 7) hb
        (fun t ht k hk1 _ => hat2 t ht k (by omega)) (le_refl _)
      have c1 := lift_from (l1 + 1) 7 (g0 + 7) (by omega) (le_refl 7) hc
        (fun t ht k _ _ => hnone t ht k) (le_refl _)
      have abc := combine2_at l1 (by omega) a1 ho1 hl1 b1 ho2 hl2 c1
        (fun t ht => hnone t ht l1)
      exact lift_from 0 l1 (g0 + 25) (Nat.zero_le _) (by omega) abc
        (fun t ht k _ _ => hnone t ht k) (by omega)
    · -- two powers: right to left
      have hl : l1 = 6 := by omega
      subst hl
      rw [if_neg (by omega)]
      have hp1 : o1.kind = .TOK_OP_POW := by
        revert hl1
        cases o1.kind <;> simp [binop_level]
      have hp2 : o2.kind = .TOK_OP_POW := by
        revert hl2
        cases o2.kind <;> simp [binop_level]
      have c1 := lift_from 6 7 (g0 + 7) (by omega) (le_refl 7) hc
        (fun t ht k _ _ => hnone t ht k) (le_refl _)
      have bc := pow_combine (yields_mono hb (by omega)) ho2 hp2 c1
      have abc := pow_combine (yields_mono ha (by omega)) ho1 hp1 bc
      exact lift_from 0 6 (g0 + 25) (Nat.zero_le _) (by omega) abc
        (fun t ht k _ _ => hnone t ht k) (by omega)
  · -- the first operator binds tighter
    rw [if_pos (Or.inl hgt)]
    have a1 := lift_from (l1 + 1) 7 (g0 + 7) (by omega) (le_refl 7) ha
      (fun t ht k hk1 _ => hat1 t ht k (by omega)) (le_refl _)
    have b1 := lift_from (l1 + 1) 7 (g0 + 7) (by omega) (le_refl 7) hb
      (fun t ht k hk1 _ => hat2 t ht k (by omega)) (le_refl _)
    have ab := combine_at l1 h16 a1 ho1 hl1 b1 (fun t ht => hat2 t ht l1 (by omega))
    have ab1 := lift_from (l2 + 1) l1 (g0 + 16) (by omega) (by omega) ab
      (fun t ht k hk1 _ => hat2 t ht k (by omega)) (by omega)
    have c1 := lift_from (l2 + 1) 7 (g0 + 16) (by omega) (le_refl 7) hc
      (fun t ht k _ _ => hnone t ht k) (by omega)
    have abc := combine_at l2 h26 ab1 ho2 hl2 c1 (fun t ht => hnone t ht l2)
    exact lift_from 0 l2 (g0 + 25) (Nat.zero_le _) (by omega) abc
      (fun t ht k _ _ => hnone t ht k) (by omega)


theorem unary_operand {toks : List (token_t F)} {st : symtable_t} {nt : nametable_t}
    {g0 p q : Nat} {a : ast_node F} {u : token_t F}
    (hu : toks.get? p = some u)
    (hk : u.kind = .TOK_OP_NOT ∨ u.kind = .TOK_OP_PLUS ∨ u.kind = .TOK_OP_MINUS)
    (ha : operand_at toks st nt g0 (p + 1) a q) :
    operand_at toks st nt (g0 + 1) p (un_node u a) q := by
  refine ⟨rfl, by have := ha.2.1; omega, ?_⟩
  intro g s hg hs
  obtain ⟨g', rfl⟩ : ∃ g', g = g' + 1 := ⟨g - 1, by omega⟩
  obtain ⟨e1, e2⟩ := ha.2.2 g' (sa_advance s) (by omega) (sa_at_advance hs)
  have hc : cur_ s = some u := by
    show s.tokens.get? s.pos = some u
    rw [hs.1, hs.2.2.2]
    exact hu
  have hcond : (decide (u.kind = .TOK_OP_NOT) || decide (u.kind = .TOK_OP_MINUS) ||
      decide (u.kind = .TOK_OP_PLUS)) = true := by
    rcases hk with h | h | h <;> simp [h]
  have hsome : (parse_unary_ g' (sa_advance s)).1.is_some = true := by rw [e1]; exact ha.1
  rw [parse_unary_]
  simp only [hc, hcond, hsome, if_true, Bool.not_true, Bool.false_eq_true, if_false]
  rw [e1]
  refine ⟨?_, e2⟩
  have hane := ha.1
  cases a with
  | nil => simp [ast_node.is_some] at hane
  | node ka pa ta ua la ra =>
    simp [sa_new, ast_new, ast_node.with_u, ast_add_child, append_sibling, un_node,
      ast_node.set_right]

theorem operand_at_num {toks : List (token_t F)} (st : symtable_t) (nt : nametable_t)
    {p : Nat} {t : token_t F} (ht : toks.get? p = some t)
    (hk : t.kind = .TOK_NUMERIC_LITERAL) :
    operand_at toks st nt 2 p (num_node t) (p + 1) := by
  refine ⟨rfl, Nat.lt_succ_self p, ?_⟩
  intro g s hg hs
  obtain ⟨g', rfl⟩ : ∃ g', g = g' + 2 := ⟨g - 2, by omega⟩
  have hc : cur_ s = some t := by
    show s.tokens.get? s.pos = some t
    rw [hs.1, hs.2.2.2]
    exact ht
  rw [parse_unary_]
  simp only [hc, hk]
  rw [parse_primary_]
  simp only [hc, hk]
  obtain ⟨h1, h2, h3, h4⟩ := hs
  refine ⟨?_, ?_⟩
  · cases hl : t.lit <;>
      simp [is_builtin_kw, sa_new, ast_new, ast_node.with_u, ast_node.with_type, num_node, hl]
  · simp [is_builtin_kw, sa_new, sa_advance, sa_at, h1, h2, h3, h4]

/-- C13. Precedence and associativity of the expression parser.  Over any token
list, symbol table and name table, let `a`, `b`, `c` be operands (what
`parse_unary_` reads: a primary expression, possibly under prefix operators),
separated by the binary operators `o1` (of level `l1`) and `o2` (of level
`l2`) and followed by a token that is no binary operator.  The levels run from
the loosest `||` (0) over `&&`, `== !=`, `< > <= >=`, `+ -`, `* /` to the
tightest `^` (6).  With enough fuel, `parse_expr_` returns
`BINARY(o2, BINARY(o1, a, b), c)` when `o1` binds tighter or both operators
are on one level other than that of `^`, and `BINARY(o1, a, BINARY(o2, b, c))`
when `o2` binds tighter or both are `^`.  A prefix `!`, `+` or `-` binds
tighter than every binary operator: `u a o b` is read as
`BINARY(o, UNARY(u, a), b)`. -/
theorem expr_precedence (toks : List (token_t F)) (st : symtable_t) (nt : nametable_t)
    (g0 : Nat) :
    (∀ (p p1 p2 p3 l1 l2 : Nat) (a b c : ast_node F) (o1 o2 : token_t F)
        (s : syntax_analyzer_t F) (fuel : Nat),
      operand_at toks st nt g0 p a p1 →
      toks.get? p1 = some o1 → binop_level o1.kind = some l1 →
      operand_at toks st nt g0 (p1 + 1) b p2 →
      toks.get? p2 = some o2 → binop_level o2.kind = some l2 →
      operand_at toks st nt g0 (p2 + 1) c p3 →
      (∀ t, toks.get? p3 = some t → binop_level t.kind = none) →
      sa_at toks st nt p s → g0 + 27 ≤ fuel →
      (parse_expr_ fuel s).1 =
        if l2 < l1 ∨ (l1 = l2 ∧ l1 ≠ 6) then bin_node o2 (bin_node o1 a b) c
        else bin_node o1 a (bin_node o2 b c)) ∧
    (∀ (p p1 p2 l : Nat) (a b : ast_node F) (u o : token_t F)
        (s : syntax_analyzer_t F) (fuel : Nat),
      toks.get? p = some u →
      (u.kind = .TOK_OP_NOT ∨ u.kind = .TOK_OP_PLUS ∨ u.kind = .TOK_OP_MINUS) →
      operand_at toks st nt g0 (p + 1) a p1 →
      toks.get? p1 = some o → binop_level o.kind = some l →
      operand_at toks st nt g0 (p1 + 1) b p2 →
      (∀ t, toks.get? p2 = some t → binop_level t.kind = none) →
      sa_at toks st nt p s → g0 + 27 ≤ fuel →
      (parse_expr_ fuel s).1 = bin_node o (un_node u a) b) := by
  constructor
  · intro p p1 p2 p3 l1 l2 a b c o1 o2 s fuel ha ho1 hl1 hb ho2 hl2 hc hend hs hfuel
    obtain ⟨f, rfl⟩ : ∃ f, fuel = f + 1 := ⟨fuel - 1, by omega⟩
    have h := three_operands ha ho1 hl1 hb ho2 hl2 hc hend
    rw [parse_expr_]
    exact (h.2.2 f s (by omega) hs).1
  · intro p p1 p2 l a b u o s fuel hu hk ha ho hl hb hend hs hfuel
    obtain ⟨f, rfl⟩ : ∃ f, fuel = f + 1 := ⟨fuel - 1, by omega⟩
    have hua := unary_operand hu hk ha
    have h := two_operands hua ho hl (yields_mono hb (Nat.le_succ g0)) hend
    rw [parse_expr_]
    exact (h.2.2 f s (by omega) hs).1

end precedence

theorem toks_prec_lexed : (lexer_stream exact_ops src_prec).2.1 = toks_prec := by
  decide!

/-- C13 (witness): `1 + 2 * 3` is read as `1 + (2 * 3)` and `-4 ^ 5` as `(-4) ^ 5`. -/
theorem expr_precedence_witness :
    (parse_expr_ 29 (sa_prec 0)).1
      = bin_node (tok_at .TOK_OP_PLUS 2 "+" .LIT_NONE)
          (num_node (tok_at .TOK_NUMERIC_LITERAL 0 "1" (.LIT_INT 1)))
          (bin_node (tok_at .TOK_OP_MUL 6 "*" .LIT_NONE)
            (num_node (tok_at .TOK_NUMERIC_LITERAL 4 "2" (.LIT_INT 2)))
            (num_node (tok_at .TOK_NUMERIC_LITERAL 8 "3" (.LIT_INT 3)))) ∧
    (parse_expr_ 29 (sa_prec 6)).1
      = bin_node (tok_at .TOK_OP_POW 14 "^" .LIT_NONE)
          (un_node (tok_at .TOK_OP_MINUS 11 "-" .LIT_NONE)
            (num_node (tok_at .TOK_NUMERIC_LITERAL 12 "4" (.LIT_INT 4))))
          (num_node (tok_at .TOK_NUMERIC_LITERAL 16 "5" (.LIT_INT 5))) :=
  ⟨(expr_precedence toks_prec (symtable_push_scope symtable_ctor) nametable_ctor 2).1
      0 1 3 5 4 5 _ _ _ _ _ (sa_prec 0) 29
      (operand_at_num _ _ rfl rfl) rfl rfl (operand_at_num _ _ rfl rfl) rfl rfl
      (operand_at_num _ _ rfl rfl) (fun t ht => by cases ht; rfl) ⟨rfl, rfl, rfl, rfl⟩
      (by decide),
    (expr_precedence toks_prec (symtable_push_scope symtable_ctor) nametable_ctor 2).2
      6 8 10 6 _ _ _ _ (sa_prec 6) 29
      rfl (Or.inr (Or.inr rfl)) (operand_at_num _ _ rfl rfl) rfl rfl
      (operand_at_num _ _ rfl rfl) (fun t ht => by cases ht; rfl) ⟨rfl, rfl, rfl, rfl⟩
      (by decide)⟩

/-! ## Theorems: what the parser keeps invariant -/

section parser_inv
variable {F : Type}

/-- The parser state `s1` has the function return type and loop depth of `s`. -/
theorem set_err_ctx (s : syntax_analyzer_t F) (t : Option (token_t F)) (msg : String) :
    (set_err_ s t msg).cur_func_ret_type = s.cur_func_ret_type ∧
    (set_err_ s t msg).loop_depth = s.loop_depth := by
  unfold set_err_
  split_ifs <;> exact ⟨rfl, rfl⟩

theorem set_err_pos_ctx (s : syntax_analyzer_t F) (p : token_pos_t) (msg : String) :
    (set_err_pos_ s p msg).cur_func_ret_type = s.cur_func_ret_type ∧
    (set_err_pos_ s p msg).loop_depth = s.loop_depth := by
  unfold set_err_pos_
  split_ifs <;> exact ⟨rfl, rfl⟩

theorem expect_ctx (s : syntax_analyzer_t F) (k : token_kind_t) (w : String) :
    (expect_ s k w).2.cur_func_ret_type = s.cur_func_ret_type ∧
    (expect_ s k w).2.loop_depth = s.loop_depth := by
  unfold expect_
  split
  · split_ifs
    · exact ⟨rfl, rfl⟩
    · exact set_err_ctx _ _ _
  · exact set_err_ctx _ _ _

theorem match_ctx (s : syntax_analyzer_t F) (k : token_kind_t) :
    (match_ s k).2.cur_func_ret_type = s.cur_func_ret_type ∧
    (match_ s k).2.loop_depth = s.loop_depth := by
  unfold match_
  split
  · split_ifs <;> exact ⟨rfl, rfl⟩
  · exact ⟨rfl, rfl⟩

theorem require_name_id_ctx (s : syntax_analyzer_t F) (t : Option (token_t F)) (c : String) :
    (require_name_id_ s t c).2.cur_func_ret_type = s.cur_func_ret_type ∧
    (require_name_id_ s t c).2.loop_depth = s.loop_depth := by
  unfold require_name_id_
  split
  · exact ⟨rfl, rfl⟩
  · split_ifs
    · exact ⟨rfl, rfl⟩
    · exact set_err_ctx _ _ _
    · exact ⟨rfl, rfl⟩

theorem sa_declare_ctx (s : syntax_analyzer_t F) (k : sym_kind_t) (n : Nat) (ty : ast_type_t)
    (t : Option (token_t F)) :
    (sa_declare s k n ty t).2.cur_func_ret_type = s.cur_func_ret_type ∧
    (sa_declare s k n ty t).2.loop_depth = s.loop_depth := by
  unfold sa_declare
  dsimp only
  split_ifs
  · exact set_err_ctx _ _ _
  · exact ⟨rfl, rfl⟩

theorem all_kinds_set_right_nil (p : ast_kind_t → Bool) (n : ast_node F)
    (h : all_kinds p n = true) : all_kinds p (n.set_right .nil) = true := by
  cases n with
  | nil => rfl
  | node k q t u l r =>
    simp only [all_kinds, Bool.and_eq_true] at h
    simp [ast_node.set_right, all_kinds, h.1.1, h.1.2]

theorem all_kinds_append_sibling (p : ast_kind_t → Bool) :
    ∀ (l c : ast_node F), all_kinds p l = true → all_kinds p c = true →
      all_kinds p (append_sibling l c) = true
  | .nil, c, _, hc => all_kinds_set_right_nil p c hc
  | .node k q t u l r, c, hl, hc => by
    simp only [all_kinds, Bool.and_eq_true] at hl
    simp [append_sibling, all_kinds, hl.1.1, hl.1.2, all_kinds_append_sibling p r c hl.2 hc]

theorem all_kinds_add_child (p : ast_kind_t → Bool) (a b : ast_node F)
    (ha : all_kinds p a = true) (hb : all_kinds p b = true) :
    all_kinds p (ast_add_child a b) = true := by
  cases a with
  | nil => simp [ast_add_child, all_kinds]
  | node k q t u l r =>
    cases b with
    | nil => exact ha
    | node k2 q2 t2 u2 l2 r2 =>
      simp only [all_kinds, Bool.and_eq_true] at ha
      simp only [ast_add_child, all_kinds, Bool.and_eq_true]
      exact ⟨⟨ha.1.1, all_kinds_append_sibling p l _ ha.1.2 hb⟩, ha.2⟩

theorem all_kinds_nil (p : ast_kind_t → Bool) : all_kinds p (ast_node.nil : ast_node F) = true :=
  rfl


theorem expr_inv_fail (s0 s : syntax_analyzer_t F)
    (h : s.cur_func_ret_type = s0.cur_func_ret_type ∧ s.loop_depth = s0.loop_depth) :
    expr_res s0 ((ast_node.nil : ast_node F), s) :=
  ⟨rfl, h.1, h.2⟩

theorem expr_res_trans {s0 s1 : syntax_analyzer_t F} {r : pres F}
    (h01 : s1.cur_func_ret_type = s0.cur_func_ret_type ∧ s1.loop_depth = s0.loop_depth)
    (h : expr_res s1 r) : expr_res s0 r :=
  ⟨h.1, h.2.1.trans h01.1, h.2.2.trans h01.2⟩

theorem sa_make_bin_res (s0 s : syntax_analyzer_t F) (o : token_t F) (a b : ast_node F)
    (hs : s.cur_func_ret_type = s0.cur_func_ret_type ∧ s.loop_depth = s0.loop_depth)
    (ha : all_kinds is_expr_kind a = true) (hb : all_kinds is_expr_kind b = true) :
    expr_res s0 (sa_make_bin s o a b) := by
  refine ⟨?_, hs.1, hs.2⟩
  unfold sa_make_bin sa_new
  apply all_kinds_add_child _ _ _ _ hb
  apply all_kinds_add_child _ _ _ _ ha
  rfl

theorem binop_loop_inv (next : syntax_analyzer_t F → pres F) (cond : token_kind_t → Bool)
    (hnext : expr_inv next) (s0 : syntax_analyzer_t F) :
    ∀ (fuel : Nat) (n : ast_node F) (s : syntax_analyzer_t F),
      all_kinds is_expr_kind n = true →
      (s.cur_func_ret_type = s0.cur_func_ret_type ∧ s.loop_depth = s0.loop_depth) →
      expr_res s0 (binop_loop next cond fuel n s)
  | 0, n, s, _, hs => expr_inv_fail s0 s hs
  | fuel + 1, n, s, hn, hs => by
    unfold binop_loop
    split
    · exact ⟨hn, hs.1, hs.2⟩
    · rename_i op _
      dsimp only
      split_ifs
      · exact ⟨hn, hs.1, hs.2⟩
      · have h := hnext (sa_advance s)
        exact expr_inv_fail s0 _ ⟨h.2.1.trans hs.1, h.2.2.trans hs.2⟩
      · have h := hnext (sa_advance s)
        have hb := sa_make_bin_res s0 (next (sa_advance s)).2 op n (next (sa_advance s)).1
          ⟨h.2.1.trans hs.1, h.2.2.trans hs.2⟩ hn h.1
        exact binop_loop_inv next cond hnext s0 fuel _ _ hb.1 ⟨hb.2.1, hb.2.2⟩

theorem binop_layer_inv (next : syntax_analyzer_t F → pres F) (cond : token_kind_t → Bool)
    (hnext : expr_inv next) : expr_inv (binop_layer next cond) := by
  intro s
  unfold binop_layer
  have h := hnext s
  dsimp only
  split_ifs
  · exact expr_inv_fail s _ ⟨h.2.1, h.2.2⟩
  · exact binop_loop_inv next cond hnext s _ _ _ h.1 ⟨h.2.1, h.2.2⟩


theorem parse_pow_inv (f : Nat) (hu : expr_inv (parse_unary_ (F := F) f))
    (hp : expr_inv (parse_pow_ (F := F) f)) : expr_inv (parse_pow_ (F := F) (f + 1)) := by
  intro s
  rw [parse_pow_]
  have h := hu s
  have h2 := hp (sa_advance (parse_unary_ f s).2)
  have c2 : (parse_pow_ f (sa_advance (parse_unary_ f s).2)).2.cur_func_ret_type
        = s.cur_func_ret_type ∧
      (parse_pow_ f (sa_advance (parse_unary_ f s).2)).2.loop_depth = s.loop_depth :=
    ⟨h2.2.1.trans h.2.1, h2.2.2.trans h.2.2⟩
  dsimp only
  split_ifs <;> (try split) <;> (try split_ifs) <;>
    first
    | exact expr_inv_fail s _ ⟨h.2.1, h.2.2⟩
    | exact expr_inv_fail s _ c2
    | exact h
    | exact sa_make_bin_res s _ _ _ _ c2 h.1 h2.1

theorem parse_unary_inv (f : Nat) (hu : expr_inv (parse_unary_ (F := F) f))
    (hp : expr_inv (parse_primary_ (F := F) f)) : expr_inv (parse_unary_ (F := F) (f + 1)) := by
  intro s
  rw [parse_unary_]
  split
  · exact ⟨rfl, rfl, rfl⟩
  · rename_i t _
    dsimp only
    split_ifs
    · have h := hu (sa_advance s)
      exact expr_inv_fail s _ ⟨h.2.1, h.2.2⟩
    · have h := hu (sa_advance s)
      refine ⟨?_, h.2.1, h.2.2⟩
      exact all_kinds_add_child _ _ _ rfl h.1
    · exact hp s

theorem sa_make_call_res (s0 s : syntax_analyzer_t F) (tid : token_t F) (name_id : Nat)
    (args : ast_node F)
    (hs : s.cur_func_ret_type = s0.cur_func_ret_type ∧ s.loop_depth = s0.loop_depth)
    (ha : all_kinds is_expr_kind args = true) :
    expr_res s0 (sa_make_call s tid name_id args) := by
  unfold sa_make_call
  dsimp only
  split_ifs
  · exact ⟨all_kinds_add_child _ _ _ rfl ha, hs.1, hs.2⟩
  · exact ⟨all_kinds_add_child _ _ _ rfl ha, hs.1, hs.2⟩

theorem ctx_trans {s0 s1 s2 : syntax_analyzer_t F}
    (h12 : s2.cur_func_ret_type = s1.cur_func_ret_type ∧ s2.loop_depth = s1.loop_depth)
    (h01 : s1.cur_func_ret_type = s0.cur_func_ret_type ∧ s1.loop_depth = s0.loop_depth) :
    s2.cur_func_ret_type = s0.cur_func_ret_type ∧ s2.loop_depth = s0.loop_depth :=
  ⟨h12.1.trans h01.1, h12.2.trans h01.2⟩

theorem parse_call_expr_inv (f : Nat) (ha : expr_inv (parse_arg_list_ (F := F) f)) :
    expr_inv (parse_call_expr_ (F := F) (f + 1)) := by
  intro s
  rw [parse_call_expr_]
  split
  · exact ⟨rfl, rfl, rfl⟩
  · rename_i tid _
    dsimp only
    have c1 := require_name_id_ctx s (some tid) "call expr"
    have c2 := ctx_trans (expect_ctx (sa_advance (require_name_id_ s (some tid) "call expr").2)
      .TOK_LPAREN "(") c1
    have h3 := ha (expect_ (sa_advance (require_name_id_ s (some tid) "call expr").2)
      .TOK_LPAREN "(").2
    have c3 := ctx_trans ⟨h3.2.1, h3.2.2⟩ c2
    have c4 := ctx_trans (expect_ctx (parse_arg_list_ f (expect_ (sa_advance
      (require_name_id_ s (some tid) "call expr").2) .TOK_LPAREN "(").2).2 .TOK_RPAREN ")") c3
    split_ifs
    · exact ⟨rfl, rfl, rfl⟩
    · exact expr_inv_fail s _ c1
    · exact expr_inv_fail s _ c2
    · exact expr_inv_fail s _ c3
    · exact expr_inv_fail s _ c4
    · exact sa_make_call_res s _ tid _ _ c4 h3.1

theorem arg_list_loop_inv (next : syntax_analyzer_t F → pres F) (hnext : expr_inv next)
    (s0 : syntax_analyzer_t F) :
    ∀ (fuel : Nat) (al : ast_node F) (s : syntax_analyzer_t F),
      all_kinds is_expr_kind al = true →
      (s.cur_func_ret_type = s0.cur_func_ret_type ∧ s.loop_depth = s0.loop_depth) →
      expr_res s0 (arg_list_loop next fuel al s)
  | 0, al, s, _, hs => expr_inv_fail s0 s hs
  | fuel + 1, al, s, hal, hs => by
    unfold arg_list_loop
    dsimp only
    have c1 := ctx_trans (match_ctx s .TOK_COMMA) hs
    have h2 := hnext (match_ s .TOK_COMMA).2
    have c2 := ctx_trans ⟨h2.2.1, h2.2.2⟩ c1
    split_ifs
    · exact ⟨hal, c1.1, c1.2⟩
    · exact expr_inv_fail s0 _ c2
    · exact arg_list_loop_inv next hnext s0 fuel _ _ (all_kinds_add_child _ _ _ hal h2.1) c2

theorem parse_arg_list_inv (f : Nat) (he : expr_inv (parse_expr_ (F := F) f)) :
    expr_inv (parse_arg_list_ (F := F) (f + 1)) := by
  intro s
  rw [parse_arg_list_]
  dsimp only
  have h := he (sa_new s .ASTK_ARG_LIST (SA_POS (cur_ s))).2
  split_ifs
  · exact ⟨rfl, rfl, rfl⟩
  · exact expr_inv_fail s _ ⟨h.2.1, h.2.2⟩
  · exact arg_list_loop_inv _ he s _ _ _ (all_kinds_add_child _ _ _ rfl h.1) ⟨h.2.1, h.2.2⟩


theorem sa_fail_res (s0 s : syntax_analyzer_t F) (t : Option (token_t F)) (msg : String)
    (hs : s.cur_func_ret_type = s0.cur_func_ret_type ∧ s.loop_depth = s0.loop_depth) :
    expr_res s0 (sa_fail s t msg) :=
  expr_inv_fail s0 _ (ctx_trans (set_err_ctx s t msg) hs)

theorem parse_primary_inv (f : Nat) (he : expr_inv (parse_expr_ (F := F) f))
    (hc : expr_inv (parse_call_expr_ (F := F) f)) :
    expr_inv (parse_primary_ (F := F) (f + 1)) := by
  intro s
  rw [parse_primary_]
  split
  · exact ⟨rfl, rfl, rfl⟩
  · rename_i t _
    have h1 := he (sa_advance s)
    have c1 : (parse_expr_ f (sa_advance s)).2.cur_func_ret_type = s.cur_func_ret_type ∧
        (parse_expr_ f (sa_advance s)).2.loop_depth = s.loop_depth := ⟨h1.2.1, h1.2.2⟩
    have c2 := ctx_trans (expect_ctx (parse_expr_ f (sa_advance s)).2 .TOK_RPAREN ")") c1
    have b1 : (expect_ (sa_advance s) .TOK_LPAREN "(").2.cur_func_ret_type
          = s.cur_func_ret_type ∧
        (expect_ (sa_advance s) .TOK_LPAREN "(").2.loop_depth = s.loop_depth :=
      expect_ctx (sa_advance s) .TOK_LPAREN "("
    have h2 := he (expect_ (sa_advance s) .TOK_LPAREN "(").2
    have b2 := ctx_trans ⟨h2.2.1, h2.2.2⟩ b1
    have b3 := ctx_trans (expect_ctx (parse_expr_ f (expect_ (sa_advance s)
      .TOK_LPAREN "(").2).2 .TOK_RPAREN ")") b2
    have r1 := require_name_id_ctx s (some t) "identifier"
    dsimp only
    split_ifs <;>
      first
      | exact expr_inv_fail s _ c1
      | exact expr_inv_fail s _ c2
      | exact ⟨h1.1, c2.1, c2.2⟩
      | exact expr_inv_fail s _ b1
      | exact expr_inv_fail s _ b2
      | exact expr_inv_fail s _ b3
      | exact ⟨all_kinds_add_child _ _ _ rfl h2.1, b3.1, b3.2⟩
      | exact hc s
      | exact expr_inv_fail s _ r1
      | exact sa_fail_res s _ _ _ r1
      | exact ⟨rfl, r1.1, r1.2⟩
      | exact ⟨rfl, rfl, rfl⟩
      | exact sa_fail_res s _ _ _ ⟨rfl, rfl⟩

theorem expr_parser_inv : ∀ fuel : Nat,
    expr_inv (parse_expr_ (F := F) fuel) ∧ expr_inv (parse_or_ (F := F) fuel) ∧
    expr_inv (parse_and_ (F := F) fuel) ∧ expr_inv (parse_eq_ (F := F) fuel) ∧
    expr_inv (parse_rel_ (F := F) fuel) ∧ expr_inv (parse_add_ (F := F) fuel) ∧
    expr_inv (parse_mul_ (F := F) fuel) ∧ expr_inv (parse_pow_ (F := F) fuel) ∧
    expr_inv (parse_unary_ (F := F) fuel) ∧ expr_inv (parse_primary_ (F := F) fuel) ∧
    expr_inv (parse_call_expr_ (F := F) fuel) ∧ expr_inv (parse_arg_list_ (F := F) fuel)
  | 0 => by
    refine ⟨?_, ?_, ?_, ?_, ?_, ?_, ?_, ?_, ?_, ?_, ?_, ?_⟩ <;> intro s
    · rw [parse_expr_]; exact ⟨rfl, rfl, rfl⟩
    · rw [parse_or_]; exact ⟨rfl, rfl, rfl⟩
    · rw [parse_and_]; exact ⟨rfl, rfl, rfl⟩
    · rw [parse_eq_]; exact ⟨rfl, rfl, rfl⟩
    · rw [parse_rel_]; exact ⟨rfl, rfl, rfl⟩
    · rw [parse_add_]; exact ⟨rfl, rfl, rfl⟩
    · rw [parse_mul_]; exact ⟨rfl, rfl, rfl⟩
    · rw [parse_pow_]; exact ⟨rfl, rfl, rfl⟩
    · rw [parse_unary_]; exact ⟨rfl, rfl, rfl⟩
    · rw [parse_primary_]; exact ⟨rfl, rfl, rfl⟩
    · rw [parse_call_expr_]; exact ⟨rfl, rfl, rfl⟩
    · rw [parse_arg_list_]; exact ⟨rfl, rfl, rfl⟩
  | f + 1 => by
    obtain ⟨h1, h2, h3, h4, h5, h6, h7, h8, h9, h10, h11, h12⟩ := expr_parser_inv f
    refine ⟨?_, ?_, ?_, ?_, ?_, ?_, ?_, ?_, ?_, ?_, ?_, ?_⟩
    · intro s; rw [parse_expr_]; exact h2 s
    · intro s; rw [parse_or_]; exact binop_layer_inv _ _ h3 s
    · intro s; rw [parse_and_]; exact binop_layer_inv _ _ h4 s
    · intro s; rw [parse_eq_]; exact binop_layer_inv _ _ h5 s
    · intro s; rw [parse_rel_]; exact binop_layer_inv _ _ h6 s
    · intro s; rw [parse_add_]; exact binop_layer_inv _ _ h7 s
    · intro s; rw [parse_mul_]; exact binop_layer_inv _ _ h8 s
    · exact parse_pow_inv f h9 h8
    · exact parse_unary_inv f h9 h10
    · exact parse_primary_inv f h1 h11
    · exact parse_call_expr_inv f h12
    · exact parse_arg_list_inv f h1

theorem parse_expr_inv (fuel : Nat) : expr_inv (parse_expr_ (F := F) fuel) :=
  (expr_parser_inv fuel).1

end parser_inv

section stmt_inv_thms
variable {F : Type}

theorem stmt_ok_mono (ty : ast_type_t) : ∀ (n : ast_node F) (d : Bool),
    stmt_ok ty d n = true → stmt_ok ty true n = true
  | .nil, _, _ => rfl
  | .node k p t u l r, d, h => by
    unfold stmt_ok at h ⊢
    simp only [Bool.and_eq_true] at h ⊢
    refine ⟨?_, stmt_ok_mono ty r d h.2⟩
    have h1 := h.1
    split_ifs at h1 ⊢
    · exact h1
    · simp only [Bool.and_eq_true] at h1 ⊢
      exact ⟨trivial, h1.2⟩
    · exact h1
    · simp only [Bool.and_eq_true] at h1 ⊢
      exact ⟨h1.1, stmt_ok_mono ty l d h1.2⟩

theorem stmt_ok_of_expr (ty : ast_type_t) (d : Bool) : ∀ (n : ast_node F),
    all_kinds is_expr_kind n = true → stmt_ok ty d n = true
  | .nil, _ => rfl
  | .node k p t u l r, h => by
    simp only [all_kinds, Bool.and_eq_true] at h
    unfold stmt_ok
    have hk := h.1.1
    have h1 : k ≠ .ASTK_RETURN := by rintro rfl; simp [is_expr_kind] at hk
    have h2 : k ≠ .ASTK_BREAK := by rintro rfl; simp [is_expr_kind] at hk
    have h3 : k ≠ .ASTK_WHILE := by rintro rfl; simp [is_expr_kind] at hk
    have h4 : k ≠ .ASTK_FUNC := by rintro rfl; simp [is_expr_kind] at hk
    have h5 : k ≠ .ASTK_PROGRAM := by rintro rfl; simp [is_expr_kind] at hk
    simp [h1, h2, h3, h4, h5, stmt_ok_of_expr ty d l h.1.2, stmt_ok_of_expr ty d r h.2]

theorem stmt_ok_set_right_nil (ty : ast_type_t) (d : Bool) (n : ast_node F)
    (h : stmt_ok ty d n = true) : stmt_ok ty d (n.set_right .nil) = true := by
  cases n with
  | nil => rfl
  | node k p t u l r =>
    unfold stmt_ok at h
    simp only [Bool.and_eq_true] at h
    simp only [ast_node.set_right]
    unfold stmt_ok
    simp only [Bool.and_eq_true]
    exact ⟨h.1, rfl⟩

theorem stmt_ok_append_sibling (ty : ast_type_t) (d : Bool) :
    ∀ (l c : ast_node F), stmt_ok ty d l = true → stmt_ok ty d c = true →
      stmt_ok ty d (append_sibling l c) = true
  | .nil, c, _, hc => stmt_ok_set_right_nil ty d c hc
  | .node k p t u l r, c, hl, hc => by
    unfold stmt_ok at hl
    simp only [Bool.and_eq_true] at hl
    simp only [append_sibling]
    unfold stmt_ok
    simp only [Bool.and_eq_true]
    exact ⟨hl.1, stmt_ok_append_sibling ty d r c hl.2 hc⟩

/-- A node of a kind whose children stand in the context of the node. -/
theorem stmt_ok_add_child (ty : ast_type_t) (d : Bool) (a b : ast_node F)
    (hk : a.kind ≠ .ASTK_RETURN ∧ a.kind ≠ .ASTK_BREAK ∧ a.kind ≠ .ASTK_WHILE)
    (ha : stmt_ok ty d a = true) (hb : stmt_ok ty d b = true) :
    stmt_ok ty d (ast_add_child a b) = true := by
  cases a with
  | nil => simp [ast_add_child, stmt_ok]
  | node k p t u l r =>
    cases b with
    | nil => exact ha
    | node k2 p2 t2 u2 l2 r2 =>
      simp only [ast_node.kind] at hk
      unfold stmt_ok at ha
      simp only [hk.1, hk.2.1, hk.2.2, if_false, Bool.and_eq_true] at ha
      simp only [ast_add_child]
      unfold stmt_ok
      simp only [hk.1, hk.2.1, hk.2.2, if_false, Bool.and_eq_true]
      exact ⟨⟨ha.1.1, stmt_ok_append_sibling ty d l _ ha.1.2 hb⟩, ha.2⟩


@[simp] theorem set_err_rt (s : syntax_analyzer_t F) (t : Option (token_t F)) (msg : String) :
    (set_err_ s t msg).cur_func_ret_type = s.cur_func_ret_type := (set_err_ctx s t msg).1

@[simp] theorem set_err_ld (s : syntax_analyzer_t F) (t : Option (token_t F)) (msg : String) :
    (set_err_ s t msg).loop_depth = s.loop_depth := (set_err_ctx s t msg).2

@[simp] theorem set_err_pos_rt (s : syntax_analyzer_t F) (p : token_pos_t) (msg : String) :
    (set_err_pos_ s p msg).cur_func_ret_type = s.cur_func_ret_type := (set_err_pos_ctx s p msg).1

@[simp] theorem set_err_pos_ld (s : syntax_analyzer_t F) (p : token_pos_t) (msg : String) :
    (set_err_pos_ s p msg).loop_depth = s.loop_depth := (set_err_pos_ctx s p msg).2

@[simp] theorem sa_fail_rt (s : syntax_analyzer_t F) (t : Option (token_t F)) (msg : String) :
    (sa_fail s t msg).2.cur_func_ret_type = s.cur_func_ret_type := (set_err_ctx s t msg).1

@[simp] theorem sa_fail_ld (s : syntax_analyzer_t F) (t : Option (token_t F)) (msg : String) :
    (sa_fail s t msg).2.loop_depth = s.loop_depth := (set_err_ctx s t msg).2

@[simp] theorem sa_fail_fst (s : syntax_analyzer_t F) (t : Option (token_t F)) (msg : String) :
    (sa_fail s t msg).1 = .nil := rfl

@[simp] theorem expect_rt (s : syntax_analyzer_t F) (k : token_kind_t) (w : String) :
    (expect_ s k w).2.cur_func_ret_type = s.cur_func_ret_type := (expect_ctx s k w).1

@[simp] theorem expect_ld (s : syntax_analyzer_t F) (k : token_kind_t) (w : String) :
    (expect_ s k w).2.loop_depth = s.loop_depth := (expect_ctx s k w).2

@[simp] theorem match_rt (s : syntax_analyzer_t F) (k : token_kind_t) :
    (match_ s k).2.cur_func_ret_type = s.cur_func_ret_type := (match_ctx s k).1

@[simp] theorem match_ld (s : syntax_analyzer_t F) (k : token_kind_t) :
    (match_ s k).2.loop_depth = s.loop_depth := (match_ctx s k).2

@[simp] theorem require_name_id_rt (s : syntax_analyzer_t F) (t : Option (token_t F))
    (c : String) : (require_name_id_ s t c).2.cur_func_ret_type = s.cur_func_ret_type :=
  (require_name_id_ctx s t c).1

@[simp] theorem require_name_id_ld (s : syntax_analyzer_t F) (t : Option (token_t F))
    (c : String) : (require_name_id_ s t c).2.loop_depth = s.loop_depth :=
  (require_name_id_ctx s t c).2

@[simp] theorem sa_declare_rt (s : syntax_analyzer_t F) (k : sym_kind_t) (n : Nat)
    (ty : ast_type_t) (t : Option (token_t F)) :
    (sa_declare s k n ty t).2.cur_func_ret_type = s.cur_func_ret_type :=
  (sa_declare_ctx s k n ty t).1

@[simp] theorem sa_declare_ld (s : syntax_analyzer_t F) (k : sym_kind_t) (n : Nat)
    (ty : ast_type_t) (t : Option (token_t F)) :
    (sa_declare s k n ty t).2.loop_depth = s.loop_depth :=
  (sa_declare_ctx s k n ty t).2

@[simp] theorem sa_new_rt (s : syntax_analyzer_t F) (k : ast_kind_t) (p : token_pos_t) :
    (sa_new s k p).2.cur_func_ret_type = s.cur_func_ret_type := rfl

@[simp] theorem sa_new_ld (s : syntax_analyzer_t F) (k : ast_kind_t) (p : token_pos_t) :
    (sa_new s k p).2.loop_depth = s.loop_depth := rfl

@[simp] theorem sa_advance_rt (s : syntax_analyzer_t F) :
    (sa_advance s).cur_func_ret_type = s.cur_func_ret_type := rfl

@[simp] theorem sa_advance_ld (s : syntax_analyzer_t F) :
    (sa_advance s).loop_depth = s.loop_depth := rfl

@[simp] theorem sa_push_scope_rt (s : syntax_analyzer_t F) :
    (sa_push_scope s).cur_func_ret_type = s.cur_func_ret_type := rfl

@[simp] theorem sa_push_scope_ld (s : syntax_analyzer_t F) :
    (sa_push_scope s).loop_depth = s.loop_depth := rfl

@[simp] theorem sa_pop_scope_rt (s : syntax_analyzer_t F) :
    (sa_pop_scope s).cur_func_ret_type = s.cur_func_ret_type := rfl

@[simp] theorem sa_pop_scope_ld (s : syntax_analyzer_t F) :
    (sa_pop_scope s).loop_depth = s.loop_depth := rfl

@[simp] theorem parse_expr_rt (fuel : Nat) (s : syntax_analyzer_t F) :
    (parse_expr_ fuel s).2.cur_func_ret_type = s.cur_func_ret_type :=
  (parse_expr_inv fuel s).2.1

@[simp] theorem parse_expr_ld (fuel : Nat) (s : syntax_analyzer_t F) :
    (parse_expr_ fuel s).2.loop_depth = s.loop_depth :=
  (parse_expr_inv fuel s).2.2

@[simp] theorem parse_arg_list_rt (fuel : Nat) (s : syntax_analyzer_t F) :
    (parse_arg_list_ fuel s).2.cur_func_ret_type = s.cur_func_ret_type :=
  ((expr_parser_inv fuel).2.2.2.2.2.2.2.2.2.2.2 s).2.1

@[simp] theorem parse_arg_list_ld (fuel : Nat) (s : syntax_analyzer_t F) :
    (parse_arg_list_ fuel s).2.loop_depth = s.loop_depth :=
  ((expr_parser_inv fuel).2.2.2.2.2.2.2.2.2.2.2 s).2.2

theorem parse_expr_kinds (fuel : Nat) (s : syntax_analyzer_t F) :
    all_kinds is_expr_kind (parse_expr_ fuel s).1 = true :=
  (parse_expr_inv fuel s).1

theorem parse_arg_list_kinds (fuel : Nat) (s : syntax_analyzer_t F) :
    all_kinds is_expr_kind (parse_arg_list_ fuel s).1 = true :=
  ((expr_parser_inv fuel).2.2.2.2.2.2.2.2.2.2.2 s).1

@[simp] theorem sa_make_call_rt (s : syntax_analyzer_t F) (tid : token_t F) (n : Nat)
    (args : ast_node F) :
    (sa_make_call s tid n args).2.cur_func_ret_type = s.cur_func_ret_type := by
  unfold sa_make_call
  dsimp only
  split_ifs <;> rfl

@[simp] theorem sa_make_call_ld (s : syntax_analyzer_t F) (tid : token_t F) (n : Nat)
    (args : ast_node F) : (sa_make_call s tid n args).2.loop_depth = s.loop_depth := by
  unfold sa_make_call
  dsimp only
  split_ifs <;> rfl

theorem sa_make_call_kinds (s : syntax_analyzer_t F) (tid : token_t F) (n : Nat)
    (args : ast_node F) (ha : all_kinds is_expr_kind args = true) :
    all_kinds is_expr_kind (sa_make_call s tid n args).1 = true :=
  (sa_make_call_res s s tid n args ⟨rfl, rfl⟩ ha).1

@[simp] theorem sa_new_fst (s : syntax_analyzer_t F) (k : ast_kind_t) (p : token_pos_t) :
    (sa_new s k p).1 = ast_new k p := rfl

@[simp] theorem ast_new_kind (k : ast_kind_t) (p : token_pos_t) :
    (ast_new k p : ast_node F).kind = k := rfl

@[simp] theorem with_u_kind (n : ast_node F) (u : ast_payload F) : (n.with_u u).kind = n.kind := by
  cases n <;> rfl

@[simp] theorem with_type_kind (n : ast_node F) (t : ast_type_t) :
    (n.with_type t).kind = n.kind := by
  cases n <;> rfl

@[simp] theorem add_child_kind (a b : ast_node F) : (ast_add_child a b).kind = a.kind := by
  cases a <;> cases b <;> rfl

theorem stmt_ok_new (ty : ast_type_t) (d : Bool) (k : ast_kind_t) (p : token_pos_t)
    (hk : k ≠ .ASTK_RETURN ∧ k ≠ .ASTK_BREAK ∧ k ≠ .ASTK_WHILE ∧ k ≠ .ASTK_FUNC ∧
      k ≠ .ASTK_PROGRAM) :
    stmt_ok ty d (ast_new k p : ast_node F) = true := by
  unfold ast_new stmt_ok
  simp [hk.1, hk.2.1, hk.2.2.1, hk.2.2.2.1, hk.2.2.2.2, stmt_ok]

theorem stmt_ok_with_u (ty : ast_type_t) (d : Bool) (n : ast_node F) (u : ast_payload F)
    (h : stmt_ok ty d n = true) : stmt_ok ty d (n.with_u u) = true := by
  cases n with
  | nil => rfl
  | node k p t u0 l r =>
    simp only [ast_node.with_u]
    unfold stmt_ok at h ⊢
    exact h

theorem stmt_ok_with_type (ty : ast_type_t) (d : Bool) (n : ast_node F) (t : ast_type_t)
    (h : stmt_ok ty d n = true) : stmt_ok ty d (n.with_type t) = true := by
  cases n with
  | nil => rfl
  | node k p t0 u0 l r =>
    simp only [ast_node.with_type]
    unfold stmt_ok at h ⊢
    exact h

theorem parse_var_decl_inv (fuel : Nat) : stmt_inv (parse_var_decl_ (F := F) fuel) := by
  intro s
  unfold parse_var_decl_
  split
  · exact ⟨rfl, rfl, rfl⟩
  · rename_i ttype _
    dsimp only
    split_ifs
    · exact ⟨rfl, rfl, rfl⟩
    · split
      · exact ⟨rfl, by simp, by simp⟩
      · rename_i tid _
        split_ifs <;>
          first
          | exact ⟨rfl, by simp, by simp⟩
          | exact ⟨stmt_ok_add_child _ _ _ _ (by simp)
              (stmt_ok_with_type _ _ _ _ (stmt_ok_with_u _ _ _ _
                (stmt_ok_new _ _ _ _ (by decide))))
              (stmt_ok_of_expr _ _ _ (parse_expr_kinds _ _)), by simp, by simp⟩


theorem parse_assignment_inv (fuel : Nat) : stmt_inv (parse_assignment_ (F := F) fuel) := by
  intro s
  unfold parse_assignment_
  split
  · exact ⟨rfl, rfl, rfl⟩
  · rename_i tid _
    dsimp only
    split_ifs <;>
      first
      | exact ⟨rfl, by simp, by simp⟩
      | exact ⟨stmt_ok_add_child _ _ _ _ (by simp) rfl
          (stmt_ok_of_expr _ _ _ (parse_expr_kinds _ _)), by simp, by simp⟩

theorem parse_break_inv : stmt_inv (parse_break_ (F := F)) := by
  intro s
  unfold parse_break_
  split
  · exact ⟨rfl, rfl, rfl⟩
  · rename_i t _
    split_ifs with h1 h2
    · exact ⟨rfl, rfl, rfl⟩
    · exact ⟨rfl, by simp, by simp⟩
    · refine ⟨?_, rfl, rfl⟩
      have : 0 < s.loop_depth := by omega
      simp [sa_new, ast_new, stmt_ok, this, ast_node.is_some]

theorem stmt_ok_return_expr (ty : ast_type_t) (d : Bool) (p : token_pos_t) (e : ast_node F)
    (hv : ty ≠ .AST_TYPE_VOID) (hs : e.is_some = true)
    (hk : all_kinds is_expr_kind e = true) :
    stmt_ok ty d (ast_add_child (ast_new .ASTK_RETURN p) e) = true := by
  cases e with
  | nil => simp [ast_node.is_some] at hs
  | node k q t u l r =>
    simp only [all_kinds, Bool.and_eq_true] at hk
    simp [ast_new, ast_add_child, append_sibling, ast_node.set_right, stmt_ok,
      ret_children_ok, hv, ast_node.is_some, ast_node.right, all_kinds, hk.1.1, hk.1.2]

theorem parse_return_inv (fuel : Nat) : stmt_inv (parse_return_ (F := F) fuel) := by
  intro s
  unfold parse_return_
  split
  · exact ⟨rfl, rfl, rfl⟩
  · rename_i t _
    dsimp only
    split_ifs <;>
      first
      | exact ⟨rfl, by simp, by simp⟩
      | (refine ⟨?_, rfl, rfl⟩
         have hv : s.cur_func_ret_type = .AST_TYPE_VOID := by assumption
         simp [ast_new, stmt_ok, ret_children_ok, hv, ast_node.is_some])
      | (rename_i hv _ hs
         exact ⟨stmt_ok_return_expr _ _ _ _ hv (by simpa using hs) (parse_expr_kinds _ _),
           by simp, by simp⟩)

theorem parse_call_stmt_inv (fuel : Nat) : stmt_inv (parse_call_stmt_ (F := F) fuel) := by
  intro s
  unfold parse_call_stmt_
  split
  · exact ⟨rfl, rfl, rfl⟩
  · rename_i t _
    dsimp only
    split_ifs
    · exact ⟨rfl, rfl, rfl⟩
    · split
      · exact ⟨rfl, by simp, by simp⟩
      · rename_i tid _
        split_ifs <;>
          first
          | exact ⟨rfl, by simp, by simp⟩
          | exact ⟨stmt_ok_add_child _ _ _ _ (by simp) rfl
              (stmt_ok_of_expr _ _ _ (sa_make_call_kinds _ _ _ _ (parse_arg_list_kinds _ _))),
              by simp, by simp⟩

theorem parse_cout_stmt_inv (fuel : Nat) (kind : ast_kind_t)
    (hk : kind ≠ .ASTK_RETURN ∧ kind ≠ .ASTK_BREAK ∧ kind ≠ .ASTK_WHILE ∧ kind ≠ .ASTK_FUNC ∧
      kind ≠ .ASTK_PROGRAM) :
    stmt_inv (fun s => parse_cout_stmt_ (F := F) fuel s kind) := by
  intro s
  show stmt_res s (parse_cout_stmt_ fuel s kind)
  unfold parse_cout_stmt_
  split
  · exact ⟨rfl, rfl, rfl⟩
  · rename_i t _
    dsimp only
    split_ifs <;>
      first
      | exact ⟨rfl, by simp, by simp⟩
      | exact ⟨stmt_ok_add_child _ _ _ _ (by simp [hk.1, hk.2.1, hk.2.2.1])
          (stmt_ok_new _ _ _ _ hk)
          (stmt_ok_of_expr _ _ _ (parse_expr_kinds _ _)), by simp, by simp⟩

theorem then_semicolon_inv (s : syntax_analyzer_t F) (n : pres F) (h : stmt_res s n) :
    stmt_res s (then_semicolon n) := by
  unfold then_semicolon
  dsimp only
  split_ifs
  · exact ⟨rfl, h.2.1, h.2.2⟩
  · exact ⟨rfl, by simp [h.2.1], by simp [h.2.2]⟩
  · exact ⟨h.1, by simp [h.2.1], by simp [h.2.2]⟩


theorem stmt_res_congr {s0 s1 : syntax_analyzer_t F} {r : pres F}
    (h1 : s1.cur_func_ret_type = s0.cur_func_ret_type) (h2 : s1.loop_depth = s0.loop_depth)
    (h : stmt_res s1 r) : stmt_res s0 r := by
  unfold stmt_res at h ⊢
  rw [h1, h2] at h
  exact h

theorem stmt_ok_while (ty : ast_type_t) (d : Bool) (p : token_pos_t) (cond body : ast_node F)
    (hc : cond.is_some = true) (hk : all_kinds is_expr_kind cond = true)
    (hb : body.is_some = true) (hs : stmt_ok ty true body = true) :
    stmt_ok ty d (ast_add_child (ast_add_child (ast_new .ASTK_WHILE p) cond) body) = true := by
  cases cond with
  | nil => simp [ast_node.is_some] at hc
  | node kc pc tc uc lc rc =>
    cases body with
    | nil => simp [ast_node.is_some] at hb
    | node kb pb tb ub lb rb =>
      simp only [all_kinds, Bool.and_eq_true] at hk
      have hs2 := stmt_ok_set_right_nil ty true _ hs
      simp only [ast_node.set_right] at hs2
      simp only [ast_new, ast_add_child, append_sibling, ast_node.set_right]
      unfold stmt_ok
      simp only [if_neg (by decide : ast_kind_t.ASTK_WHILE ≠ ast_kind_t.ASTK_RETURN),
        if_neg (by decide : ast_kind_t.ASTK_WHILE ≠ ast_kind_t.ASTK_BREAK), if_true,
        hk.1.1, hk.1.2, ast_node.is_some, ast_node.right, hs2, Bool.not_false, Bool.and_self]
      rfl

theorem make_true_lit_kinds (s : syntax_analyzer_t F) (p : token_pos_t) :
    all_kinds is_expr_kind (make_true_lit_ s p).1 = true ∧
    (make_true_lit_ s p).1.is_some = true ∧
    (make_true_lit_ s p).2.cur_func_ret_type = s.cur_func_ret_type ∧
    (make_true_lit_ s p).2.loop_depth = s.loop_depth :=
  ⟨rfl, rfl, rfl, rfl⟩

theorem wrap_expr_stmt_res (s0 s : syntax_analyzer_t F) (e : ast_node F)
    (h1 : s.cur_func_ret_type = s0.cur_func_ret_type) (h2 : s.loop_depth = s0.loop_depth)
    (he : all_kinds is_expr_kind e = true) : stmt_res s0 (wrap_expr_stmt_ s e) := by
  unfold wrap_expr_stmt_
  dsimp only
  split_ifs
  · exact ⟨rfl, h1, h2⟩
  · exact ⟨stmt_ok_add_child _ _ _ _ (by simp) rfl (stmt_ok_of_expr _ _ _ he), h1, h2⟩

theorem for_init_inv (fuel : Nat) (s : syntax_analyzer_t F) :
    stmt_res s (for_init_ fuel s).2 := by
  unfold for_init_
  dsimp only
  split_ifs
  · exact ⟨rfl, rfl, rfl⟩
  · exact parse_var_decl_inv fuel s
  · exact parse_assignment_inv fuel s
  · exact ⟨rfl, by simp, by simp⟩

theorem for_cond_inv (fuel : Nat) (s : syntax_analyzer_t F) :
    expr_res s (for_cond_ fuel s) := by
  unfold for_cond_
  split_ifs
  · exact parse_expr_inv fuel s
  · exact ⟨rfl, rfl, rfl⟩

theorem parse_assignment_kind (fuel : Nat) (s : syntax_analyzer_t F)
    (h : (parse_assignment_ fuel s).1.is_some = true) :
    (parse_assignment_ fuel s).1.kind = .ASTK_ASSIGN := by
  revert h
  unfold parse_assignment_
  split
  · intro h; simp [ast_node.is_some] at h
  · dsimp only
    split_ifs <;> intro h <;> first
      | (simp [ast_node.is_some] at h; done)
      | simp

theorem for_step_stmt_inv (fuel : Nat) (s : syntax_analyzer_t F) :
    stmt_res s (for_step_stmt_ (for_step_ fuel s).2) := by
  unfold for_step_stmt_ for_step_
  dsimp only
  split_ifs <;>
    first
    | exact ⟨rfl, rfl, rfl⟩
    | exact ⟨rfl, (parse_assignment_inv fuel s).2.1, (parse_assignment_inv fuel s).2.2⟩
    | exact ⟨rfl, by simp, by simp⟩
    | exact parse_assignment_inv fuel s
    | exact ⟨stmt_ok_of_expr _ _ _ (parse_expr_kinds _ _), by simp, by simp⟩
    | exact wrap_expr_stmt_res s _ _ (by simp) (by simp) (parse_expr_kinds _ _)
    | exact wrap_expr_stmt_res s _ _ rfl rfl rfl
    | (rename_i h1 h2
       have := parse_assignment_kind fuel s (by simpa using h1)
       simp [this] at h2)

theorem for_head_fail_res (s0 s : syntax_analyzer_t F)
    (h1 : s.cur_func_ret_type = s0.cur_func_ret_type) (h2 : s.loop_depth = s0.loop_depth) :
    for_head_res s0 (for_head_fail s) :=
  ⟨rfl, rfl, fun h => by simp [for_head_fail] at h, rfl, h1, h2⟩

theorem parse_for_head_inv (fuel : Nat) (s : syntax_analyzer_t F) :
    for_head_res s (parse_for_head_ fuel s) := by
  have i1 := for_init_inv fuel (expect_ s .TOK_LPAREN "(").2
  have c1 : (for_init_ fuel (expect_ s .TOK_LPAREN "(").2).2.2.cur_func_ret_type
      = s.cur_func_ret_type := by rw [i1.2.1]; simp
  have c2 : (for_init_ fuel (expect_ s .TOK_LPAREN "(").2).2.2.loop_depth
      = s.loop_depth := by rw [i1.2.2]; simp
  have i1' := stmt_res_congr (expect_rt s _ _) (expect_ld s _ _) i1
  unfold parse_for_head_
  dsimp only
  generalize for_init_ fuel (expect_ s .TOK_LPAREN "(").2 = init at i1 c1 c2 i1' ⊢
  have i2 := for_cond_inv fuel (expect_ init.2.2 .TOK_SEMICOLON ";").2
  have d1 : (for_cond_ fuel (expect_ init.2.2 .TOK_SEMICOLON ";").2).2.cur_func_ret_type
      = s.cur_func_ret_type := by rw [i2.2.1]; simp [c1]
  have d2 : (for_cond_ fuel (expect_ init.2.2 .TOK_SEMICOLON ";").2).2.loop_depth
      = s.loop_depth := by rw [i2.2.2]; simp [c2]
  generalize for_cond_ fuel (expect_ init.2.2 .TOK_SEMICOLON ";").2 = cond at i2 d1 d2 ⊢
  have i3 := for_step_stmt_inv fuel (expect_ cond.2 .TOK_SEMICOLON ";").2
  have i3' : stmt_res s (for_step_stmt_ (for_step_ fuel (expect_ cond.2
      .TOK_SEMICOLON ";").2).2) :=
    stmt_res_congr (by simp [d1]) (by simp [d2]) i3
  generalize for_step_stmt_ (for_step_ fuel (expect_ cond.2 .TOK_SEMICOLON ";").2).2 = stp
    at i3 i3' ⊢
  split_ifs <;>
    first
    | exact for_head_fail_res s _ (by simp [c1, d1, i3'.2.1]) (by simp [c2, d2, i3'.2.2])
    | (rename_i hc _ _ _
       exact ⟨i1'.1, i2.1, fun _ => by simpa using hc, i3'.1, by simp [i3'.2.1],
         by simp [i3'.2.2]⟩)


@[simp] theorem add_child_is_some (a b : ast_node F) :
    (ast_add_child a b).is_some = a.is_some := by
  cases a <;> cases b <;> rfl

@[simp] theorem ast_new_is_some (k : ast_kind_t) (p : token_pos_t) :
    (ast_new k p : ast_node F).is_some = true := rfl

theorem for_assemble_inv (s0 s : syntax_analyzer_t F) (t : token_t F) (h : for_head F)
    (body : ast_node F) (hh : for_head_res s0 h) (hok : h.ok = true)
    (hb : body.is_some = true)
    (hbody : stmt_ok s0.cur_func_ret_type true body = true)
    (h1 : s.cur_func_ret_type = s0.cur_func_ret_type) (h2 : s.loop_depth = s0.loop_depth) :
    stmt_res s0 (for_assemble_ t h body s) := by
  obtain ⟨hi, hc, hcs, hst, _, _⟩ := hh
  have hcs' := hcs hok
  have hst' := stmt_ok_mono _ _ _ hst
  have hwb : ∀ (wb : ast_node F) (s1 : syntax_analyzer_t F), wb.is_some = true →
      stmt_ok s0.cur_func_ret_type true wb = true →
      s1.cur_func_ret_type = s0.cur_func_ret_type → s1.loop_depth = s0.loop_depth →
      stmt_res s0
        (ast_add_child (ast_add_child (sa_new s1 .ASTK_WHILE t.pos).1 h.cond) wb,
          (sa_new s1 .ASTK_WHILE t.pos).2) ∧
      stmt_res s0
        (ast_add_child (ast_add_child
            (sa_new (sa_new s1 .ASTK_WHILE t.pos).2 .ASTK_BLOCK t.pos).1 h.init)
            (ast_add_child (ast_add_child (sa_new s1 .ASTK_WHILE t.pos).1 h.cond) wb),
          (sa_new (sa_new s1 .ASTK_WHILE t.pos).2 .ASTK_BLOCK t.pos).2) := by
    intro wb s1 w1 w2 w3 w4
    have hw := stmt_ok_while s0.cur_func_ret_type (decide (0 < s0.loop_depth)) t.pos h.cond
      wb hcs' hc w1 w2
    exact ⟨⟨hw, w3, w4⟩, ⟨stmt_ok_add_child _ _ _ _ (by simp)
        (stmt_ok_add_child _ _ _ _ (by simp) rfl hi) hw, w3, w4⟩⟩
  have hA := hwb (ast_add_child (ast_add_child (sa_new s .ASTK_BLOCK (node_pos body)).1 body)
      h.step_stmt) (sa_new s .ASTK_BLOCK (node_pos body)).2
    (by simp)
    (stmt_ok_add_child _ _ _ _ (by simp) (stmt_ok_add_child _ _ _ _ (by simp) rfl hbody) hst')
    h1 h2
  have hB : body.kind = .ASTK_BLOCK → _ := fun hk => hwb (ast_add_child body h.step_stmt) s
    (by simp [hb])
    (stmt_ok_add_child _ _ _ _ (by simp [hk]) hbody hst') h1 h2
  have hC := hwb body s hb hbody h1 h2
  unfold for_assemble_
  dsimp only
  split_ifs <;>
    first
    | exact hA.1
    | exact hA.2
    | exact hC.1
    | exact hC.2
    | exact (hB (not_not.mp (by assumption))).1
    | exact (hB (not_not.mp (by assumption))).2

theorem build_branches_inv (s0 : syntax_analyzer_t F) :
    ∀ (brs : List (ast_node F × ast_node F × token_pos_t)) (tail : ast_node F)
      (s : syntax_analyzer_t F),
      branches_ok s0.cur_func_ret_type (decide (0 < s0.loop_depth)) brs →
      stmt_ok s0.cur_func_ret_type (decide (0 < s0.loop_depth)) tail = true →
      s.cur_func_ret_type = s0.cur_func_ret_type → s.loop_depth = s0.loop_depth →
      stmt_res s0 (build_branches brs tail s)
  | [], tail, s, _, ht, h1, h2 => ⟨ht, h1, h2⟩
  | (c, st, pos) :: rest, tail, s, hb, ht, h1, h2 => by
    unfold build_branches
    dsimp only
    have hcs := hb (c, st, pos) (List.mem_cons_self _ _)
    have hb1 : stmt_ok s0.cur_func_ret_type (decide (0 < s0.loop_depth))
        (ast_add_child (ast_add_child (sa_new s .ASTK_BRANCH pos).1 c) st) = true :=
      stmt_ok_add_child _ _ _ _ (by simp)
        (stmt_ok_add_child _ _ _ _ (by simp) rfl (stmt_ok_of_expr _ _ _ hcs.1)) hcs.2
    refine build_branches_inv s0 rest _ _ (fun b hb' => hb b (List.mem_cons_of_mem _ hb'))
      ?_ h1 h2
    split_ifs
    · exact stmt_ok_add_child _ _ _ _ (by simp) hb1 ht
    · exact hb1


theorem parse_statement_step (f : Nat) (hB : stmt_inv (parse_block_ (F := F) f))
    (hD : stmt_inv (parse_while_ (F := F) f)) (hE : stmt_inv (parse_for_desugared_ (F := F) f))
    (hF : stmt_inv (parse_if_ (F := F) f)) : stmt_inv (parse_statement_ (F := F) (f + 1)) := by
  intro s
  rw [parse_statement_]
  split
  · exact ⟨rfl, rfl, rfl⟩
  · rename_i t _
    by_cases h0 : t.kind = .TOK_KW_YAP
    · rw [if_pos h0]
      exact hB s
    rw [if_neg h0]
    by_cases h1 : t.kind = .TOK_KW_LOWKEY
    · rw [if_pos h1]
      exact hD s
    rw [if_neg h1]
    by_cases h2 : t.kind = .TOK_KW_HIGHKEY
    · rw [if_pos h2]
      exact hE s
    rw [if_neg h2]
    by_cases h3 : t.kind = .TOK_KW_ALPHA
    · rw [if_pos h3]
      exact hF s
    rw [if_neg h3]
    by_cases h4 : is_type_tok_ t.kind = true
    · rw [if_pos h4]
      exact then_semicolon_inv s _ (parse_var_decl_inv f s)
    rw [if_neg h4]
    by_cases h5 : (decide (t.kind = .TOK_IDENTIFIER) && peek1_is s .TOK_KW_GASLIGHT) = true
    · rw [if_pos h5]
      exact then_semicolon_inv s _ (parse_assignment_inv f s)
    rw [if_neg h5]
    by_cases h6 : t.kind = .TOK_KW_GG
    · rw [if_pos h6]
      exact then_semicolon_inv s _ (parse_break_inv s)
    rw [if_neg h6]
    by_cases h7 : t.kind = .TOK_KW_MICDROP
    · rw [if_pos h7]
      exact then_semicolon_inv s _ (parse_return_inv f s)
    rw [if_neg h7]
    by_cases h8 : t.kind = .TOK_KW_BRUH
    · rw [if_pos h8]
      exact then_semicolon_inv s _ (parse_call_stmt_inv f s)
    rw [if_neg h8]
    by_cases h9 : t.kind = .TOK_KW_BASED
    · rw [if_pos h9]
      exact then_semicolon_inv s _ (parse_cout_stmt_inv f .ASTK_COUT (by decide) s)
    rw [if_neg h9]
    by_cases h10 : t.kind = .TOK_KW_MID
    · rw [if_pos h10]
      exact then_semicolon_inv s _ (parse_cout_stmt_inv f .ASTK_ICOUT (by decide) s)
    rw [if_neg h10]
    by_cases h11 : t.kind = .TOK_KW_PEAK
    · rw [if_pos h11]
      exact then_semicolon_inv s _ (parse_cout_stmt_inv f .ASTK_FCOUT (by decide) s)
    rw [if_neg h11]
    dsimp only
    split_ifs <;>
      first
      | exact ⟨rfl, by simp, by simp⟩
      | exact ⟨stmt_ok_add_child _ _ _ _ (by simp) rfl
          (stmt_ok_of_expr _ _ _ (parse_expr_kinds _ _)), by simp, by simp⟩

theorem parse_block_step (f : Nat) (hC : block_loop_inv (parse_block_loop_ (F := F) f)) :
    stmt_inv (parse_block_ (F := F) (f + 1)) := by
  intro s
  rw [parse_block_]
  split
  · exact ⟨rfl, rfl, rfl⟩
  · rename_i t _
    have h := hC (sa_new (sa_advance s) .ASTK_BLOCK t.pos).1
      (sa_push_scope (sa_new (sa_advance s) .ASTK_BLOCK t.pos).2) rfl (by simp)
    have h' : stmt_res s (parse_block_loop_ f (sa_new (sa_advance s) .ASTK_BLOCK t.pos).1
        (sa_push_scope (sa_new (sa_advance s) .ASTK_BLOCK t.pos).2)) :=
      stmt_res_congr rfl rfl h
    dsimp only
    split_ifs <;>
      first
      | exact ⟨rfl, rfl, rfl⟩
      | exact ⟨rfl, h'.2.1, h'.2.2⟩
      | exact ⟨rfl, (expect_rt _ _ _).trans h'.2.1, (expect_ld _ _ _).trans h'.2.2⟩
      | exact ⟨h'.1, (expect_rt _ _ _).trans h'.2.1, (expect_ld _ _ _).trans h'.2.2⟩

theorem parse_block_loop_step (f : Nat) (hA : stmt_inv (parse_statement_ (F := F) f))
    (hC : block_loop_inv (parse_block_loop_ (F := F) f)) :
    block_loop_inv (parse_block_loop_ (F := F) (f + 1)) := by
  intro block s hb hk
  rw [parse_block_loop_]
  split
  · exact ⟨rfl, by simp, by simp⟩
  · rename_i c _
    have h := hA s
    dsimp only
    split_ifs
    · exact ⟨hb, rfl, rfl⟩
    · exact ⟨rfl, h.2.1, h.2.2⟩
    · refine stmt_res_congr h.2.1 h.2.2 (hC _ _ ?_ (by simpa using hk))
      rw [h.2.1, h.2.2]
      exact stmt_ok_add_child _ _ _ _ hk hb h.1

theorem parse_while_step (f : Nat) (hA : stmt_inv (parse_statement_ (F := F) f)) :
    stmt_inv (parse_while_ (F := F) (f + 1)) := by
  intro s
  rw [parse_while_]
  split
  · exact ⟨rfl, rfl, rfl⟩
  · rename_i t _
    dsimp only
    generalize hx2 : (expect_ (parse_expr_ f (expect_ (sa_advance s) .TOK_LPAREN "(").2).2
      .TOK_RPAREN ")") = x2
    have c1 : x2.2.cur_func_ret_type = s.cur_func_ret_type := by rw [← hx2]; simp
    have c2 : x2.2.loop_depth = s.loop_depth := by rw [← hx2]; simp
    obtain ⟨b1, b2, b3⟩ := hA { x2.2 with loop_depth := x2.2.loop_depth + 1 }
    have b1' : stmt_ok s.cur_func_ret_type true
        (parse_statement_ f { x2.2 with loop_depth := x2.2.loop_depth + 1 }).1 = true := by
      rw [← c1]
      exact stmt_ok_mono _ _ _ b1
    have b2' : (parse_statement_ f { x2.2 with loop_depth := x2.2.loop_depth + 1 }).2.cur_func_ret_type
        = s.cur_func_ret_type := b2.trans c1
    have b3' : (parse_statement_ f { x2.2 with loop_depth := x2.2.loop_depth + 1 }).2.loop_depth - 1
        = s.loop_depth := by
      rw [b3]
      show x2.2.loop_depth + 1 - 1 = s.loop_depth
      rw [c2]
      omega
    split_ifs <;>
      first
      | exact ⟨rfl, rfl, rfl⟩
      | exact ⟨rfl, c1, c2⟩
      | exact ⟨rfl, b2', b3'⟩
      | exact ⟨rfl, expect_rt _ _ _, expect_ld _ _ _⟩
      | exact ⟨rfl, (parse_expr_rt _ _).trans (expect_rt _ _ _),
          (parse_expr_ld _ _).trans (expect_ld _ _ _)⟩
      | (rename_i hc _ hs
         exact ⟨stmt_ok_while _ _ _ _ _ (by simpa using hc) (parse_expr_kinds _ _)
           (by simpa using hs) b1', b2', b3'⟩)


theorem parse_for_step (f : Nat) (hA : stmt_inv (parse_statement_ (F := F) f)) :
    stmt_inv (parse_for_desugared_ (F := F) (f + 1)) := by
  intro s
  rw [parse_for_desugared_]
  split
  · exact ⟨rfl, rfl, rfl⟩
  · rename_i t _
    dsimp only
    have hh : for_head_res s (parse_for_head_ f (sa_advance s)) :=
      parse_for_head_inv f (sa_advance s)
    generalize parse_for_head_ f (sa_advance s) = h at hh ⊢
    obtain ⟨b1, b2, b3⟩ := hA { h.sa with loop_depth := h.sa.loop_depth + 1 }
    have c1 : h.sa.cur_func_ret_type = s.cur_func_ret_type := hh.2.2.2.2.1
    have c2 : h.sa.loop_depth = s.loop_depth := hh.2.2.2.2.2
    have b1' : stmt_ok s.cur_func_ret_type true
        (parse_statement_ f { h.sa with loop_depth := h.sa.loop_depth + 1 }).1 = true := by
      rw [← c1]
      exact stmt_ok_mono _ _ _ b1
    have b2' : (parse_statement_ f { h.sa with loop_depth := h.sa.loop_depth + 1 }).2.cur_func_ret_type
        = s.cur_func_ret_type := b2.trans c1
    have b3' : (parse_statement_ f { h.sa with loop_depth := h.sa.loop_depth + 1 }).2.loop_depth - 1
        = s.loop_depth := by
      rw [b3]
      show h.sa.loop_depth + 1 - 1 = s.loop_depth
      rw [c2]
      omega
    split_ifs <;>
      first
      | exact ⟨rfl, rfl, rfl⟩
      | exact ⟨rfl, c1, c2⟩
      | exact ⟨rfl, b2', b3'⟩
      | (rename_i hok hs
         exact for_assemble_inv s _ t h _ hh (by simpa using hok) (by simpa using hs) b1'
           b2' b3')

theorem parse_omega_step (f : Nat) (hA : stmt_inv (parse_statement_ (F := F) f))
    (hG : omega_loop_inv (parse_omega_loop_ (F := F) f)) :
    omega_loop_inv (parse_omega_loop_ (F := F) (f + 1)) := by
  intro brs s hb
  rw [parse_omega_loop_]
  split
  · exact ⟨fun l hl => by cases hl; exact hb, rfl, rfl⟩
  · rename_i tok_o _
    dsimp only
    generalize hx2 : (expect_ (parse_expr_ f (expect_ (sa_advance s) .TOK_LPAREN "(").2).2
      .TOK_RPAREN ")") = x2
    have c1 : x2.2.cur_func_ret_type = s.cur_func_ret_type := by rw [← hx2]; simp
    have c2 : x2.2.loop_depth = s.loop_depth := by rw [← hx2]; simp
    obtain ⟨b1, b2, b3⟩ := hA x2.2
    rw [c1] at b1 b2
    rw [c2] at b1 b3
    have hk := parse_expr_kinds f (expect_ (sa_advance s) .TOK_LPAREN "(").2
    have hrec := hG (brs ++ [((parse_expr_ f (expect_ (sa_advance s) .TOK_LPAREN "(").2).1,
      (parse_statement_ f x2.2).1, tok_o.pos)]) (parse_statement_ f x2.2).2
      (by
        rw [b2, b3]
        intro b hbm
        rcases List.mem_append.mp hbm with h | h
        · exact hb b h
        · simp only [List.mem_singleton] at h
          rw [h]
          exact ⟨hk, b1⟩)
    rw [b2, b3] at hrec
    split_ifs <;>
      first
      | exact ⟨fun l hl => by cases hl; exact hb, rfl, rfl⟩
      | exact hrec
      | exact ⟨fun l hl => by simp at hl, c1, c2⟩
      | exact ⟨fun l hl => by simp at hl, b2, b3⟩
      | exact ⟨fun l hl => by simp at hl, by simp, by simp⟩


theorem if_tail_inv (stmt : syntax_analyzer_t F → pres F) (hA : stmt_inv stmt)
    (s : syntax_analyzer_t F) : stmt_res s (if_tail_ stmt s).2 := by
  unfold if_tail_
  split
  · exact ⟨rfl, rfl, rfl⟩
  · rename_i ts _
    have h := hA (sa_advance s)
    dsimp only
    split_ifs
    · exact ⟨rfl, rfl, rfl⟩
    · exact ⟨rfl, h.2.1, h.2.2⟩
    · exact ⟨stmt_ok_add_child _ _ _ _ (by simp) rfl h.1, h.2.1, h.2.2⟩

theorem if_assemble_inv (s0 : syntax_analyzer_t F) (t : token_t F) (cond then_st : ast_node F)
    (branches : List (ast_node F × ast_node F × token_pos_t)) (tail : pres F)
    (hc : all_kinds is_expr_kind cond = true)
    (ht : stmt_ok s0.cur_func_ret_type (decide (0 < s0.loop_depth)) then_st = true)
    (hb : branches_ok s0.cur_func_ret_type (decide (0 < s0.loop_depth)) branches)
    (htl : stmt_res s0 tail) :
    stmt_res s0 (if_assemble_ t cond then_st branches tail) := by
  have hch := build_branches_inv s0 branches.reverse tail.1 tail.2
    (fun b hb' => hb b (List.mem_reverse.mp hb')) htl.1 htl.2.1 htl.2.2
  unfold if_assemble_
  dsimp only
  have hi1 : stmt_ok s0.cur_func_ret_type (decide (0 < s0.loop_depth))
      (ast_add_child (ast_add_child
        (sa_new (build_branches branches.reverse tail.1 tail.2).2 .ASTK_IF t.pos).1 cond)
        then_st) = true :=
    stmt_ok_add_child _ _ _ _ (by simp)
      (stmt_ok_add_child _ _ _ _ (by simp) rfl (stmt_ok_of_expr _ _ _ hc)) ht
  split_ifs
  · exact ⟨stmt_ok_add_child _ _ _ _ (by simp) hi1 hch.1, hch.2.1, hch.2.2⟩
  · exact ⟨hi1, hch.2.1, hch.2.2⟩

theorem parse_if_step (f : Nat) (hA : stmt_inv (parse_statement_ (F := F) f))
    (hG : omega_loop_inv (parse_omega_loop_ (F := F) f)) :
    stmt_inv (parse_if_ (F := F) (f + 1)) := by
  intro s
  rw [parse_if_]
  split
  · exact ⟨rfl, rfl, rfl⟩
  · rename_i t _
    dsimp only
    have hk := parse_expr_kinds f (expect_ (sa_advance s) .TOK_LPAREN "(").2
    generalize hx2 : (expect_ (parse_expr_ f (expect_ (sa_advance s) .TOK_LPAREN "(").2).2
      .TOK_RPAREN ")") = x2
    have c1 : x2.2.cur_func_ret_type = s.cur_func_ret_type := by rw [← hx2]; simp
    have c2 : x2.2.loop_depth = s.loop_depth := by rw [← hx2]; simp
    obtain ⟨b1, b2, b3⟩ := hA x2.2
    rw [c1] at b1 b2
    rw [c2] at b1 b3
    obtain ⟨g1, g2, g3⟩ := hG [] (parse_statement_ f x2.2).2
      (fun b hb => absurd hb (List.not_mem_nil b))
    rw [b2] at g1 g2
    rw [b3] at g1 g3
    have ht := stmt_res_congr g2 g3
      (if_tail_inv (parse_statement_ f) hA (parse_omega_loop_ f [] (parse_statement_ f x2.2).2).2)
    split_ifs <;>
      first
      | exact ⟨rfl, rfl, rfl⟩
      | exact ⟨rfl, c1, c2⟩
      | exact ⟨rfl, b2, b3⟩
      | exact ⟨rfl, expect_rt _ _ _, expect_ld _ _ _⟩
      | exact ⟨rfl, (parse_expr_rt _ _).trans (expect_rt _ _ _),
          (parse_expr_ld _ _).trans (expect_ld _ _ _)⟩
      | (split
         · exact ⟨rfl, g2, g3⟩
         · rename_i branches hbr
           first
           | exact ht
           | exact if_assemble_inv s t _ _ branches _ hk b1 (g1 branches hbr) ht)


theorem stmt_parser_inv : ∀ fuel : Nat,
    stmt_inv (parse_statement_ (F := F) fuel) ∧ stmt_inv (parse_block_ (F := F) fuel) ∧
    block_loop_inv (parse_block_loop_ (F := F) fuel) ∧ stmt_inv (parse_while_ (F := F) fuel) ∧
    stmt_inv (parse_for_desugared_ (F := F) fuel) ∧ stmt_inv (parse_if_ (F := F) fuel) ∧
    omega_loop_inv (parse_omega_loop_ (F := F) fuel)
  | 0 => by
    refine ⟨?_, ?_, ?_, ?_, ?_, ?_, ?_⟩
    · intro s; rw [parse_statement_]; exact ⟨rfl, rfl, rfl⟩
    · intro s; rw [parse_block_]; exact ⟨rfl, rfl, rfl⟩
    · intro b s _ _; rw [parse_block_loop_]; exact ⟨rfl, rfl, rfl⟩
    · intro s; rw [parse_while_]; exact ⟨rfl, rfl, rfl⟩
    · intro s; rw [parse_for_desugared_]; exact ⟨rfl, rfl, rfl⟩
    · intro s; rw [parse_if_]; exact ⟨rfl, rfl, rfl⟩
    · intro brs s _; rw [parse_omega_loop_]; exact ⟨fun l hl => Option.noConfusion hl, rfl, rfl⟩
  | f + 1 => by
    obtain ⟨hA, hB, hC, hD, hE, hF, hG⟩ := stmt_parser_inv f
    exact ⟨parse_statement_step f hB hD hE hF, parse_block_step f hC,
      parse_block_loop_step f hA hC, parse_while_step f hA, parse_for_step f hA,
      parse_if_step f hA hG, parse_omega_step f hA hG⟩

theorem parse_block_inv (fuel : Nat) : stmt_inv (parse_block_ (F := F) fuel) :=
  (stmt_parser_inv fuel).2.1

theorem parse_statement_inv (fuel : Nat) : stmt_inv (parse_statement_ (F := F) fuel) :=
  (stmt_parser_inv fuel).1

end stmt_inv_thms

/-! ## Theorems: calls and parameters in the parser -/

/-- C18 (failing input). In `npc main() yap npc x gaslight 1; x(); micdrop 0; yapity`
the call `x()` names the local variable `x`, which is neither a builtin
intrinsic nor a function declared anywhere in the program; `syntax_analyze`
accepts the program all the same (any symbol found by `symtable_lookup`
settles a call), and the error only shows in the code generator. -/
theorem call_of_variable_accepted :
    (frontend exact_ops 64 src_call_var).1 = err_t.OK ∧
    (backend_emit_asm exact_ops (frontend exact_ops 64 src_call_var).2.2
      (frontend exact_ops 64 src_call_var).2.1).1 = err_t.ERR_SYNTAX ∧
    (backend_emit_asm exact_ops (frontend exact_ops 64 src_call_var).2.2
      (frontend exact_ops 64 src_call_var).2.1).2.error_msg
      = "Call to unknown function 'x' at 1:34 (offset: 33)" := by
  decide!

theorem lookup_range_empty (st : symtable_t) (name_id from_ to_ : Nat) (h : to_ ≤ from_) :
    lookup_range_ st name_id from_ to_ = -1 := by
  cases to_ with
  | zero => rfl
  | succ i =>
    unfold lookup_range_
    rw [if_neg (by omega)]

/-- C19 (counterexample). The declaration `npc f(npc f) yap micdrop f; yapity`,
whose parameter has the name of the function, is accepted by the parser: the
tree holds `FUNC f` with the parameter list `[PARAM f]`. -/
theorem param_named_as_function_accepted :
    (frontend exact_ops 64 src_param_shadow).1 = err_t.OK ∧
    (ast_child (frontend exact_ops 64 src_param_shadow).2.1 0).kind = ast_kind_t.ASTK_FUNC ∧
    (ast_child (frontend exact_ops 64 src_param_shadow).2.1 0).u
      = ast_payload.func 0 ast_type_t.AST_TYPE_INT ∧
    (ast_child (ast_child (ast_child (frontend exact_ops 64 src_param_shadow).2.1 0) 0) 0).u
      = ast_payload.param 0 ast_type_t.AST_TYPE_INT := by
  decide!

/-- C19 (amended). The function name is declared in the enclosing scope before
the parameter scope is opened, and a redeclaration is only looked for in the
innermost scope: for every table `st`, after `symtable_declare` of the
function `fname` and `symtable_push_scope`, the declaration of a parameter
with the same name `fname` returns `OK`, appends the parameter as the newest
symbol, and `symtable_lookup` of `fname` then finds the parameter, which
shadows the function. -/
theorem param_may_shadow_function (st : symtable_t) (fname : Nat) (rt pt : ast_type_t)
    (d1 d2 : Nat) :
    (symtable_declare
      (symtable_push_scope (symtable_declare st .SYM_FUNC fname rt d1).2)
      .SYM_PARAM fname pt d2).1 = err_t.OK ∧
    symtable_lookup (symtable_declare
      (symtable_push_scope (symtable_declare st .SYM_FUNC fname rt d1).2)
      .SYM_PARAM fname pt d2).2 fname
      = ((symtable_declare st .SYM_FUNC fname rt d1).2.amount : Int) ∧
    (symtable_declare
      (symtable_push_scope (symtable_declare st .SYM_FUNC fname rt d1).2)
      .SYM_PARAM fname pt d2).2.symbols (symtable_declare st .SYM_FUNC fname rt d1).2.amount
      = { kind := .SYM_PARAM, name_id := fname, type := pt, decl := d2 } := by
  generalize (symtable_declare st .SYM_FUNC fname rt d1).2 = s1
  have hcur : symtable_lookup_current (symtable_push_scope s1) fname = -1 := by
    simp [symtable_lookup_current, symtable_push_scope, lookup_range_empty]
  have hd : symtable_declare (symtable_push_scope s1) .SYM_PARAM fname pt d2
      = (.OK, { symtable_push_scope s1 with
          cap := ensure_cap_ (symtable_push_scope s1).cap ((symtable_push_scope s1).amount + 1)
          symbols := Function.update (symtable_push_scope s1).symbols
            (symtable_push_scope s1).amount
            { kind := .SYM_PARAM, name_id := fname, type := pt, decl := d2 }
          amount := (symtable_push_scope s1).amount + 1 }) := by
    unfold symtable_declare
    rw [if_neg (by rw [hcur]; decide)]
  rw [hd]
  refine ⟨rfl, ?_, ?_⟩
  · simp [symtable_lookup, symtable_lookup_loop, symtable_push_scope, lookup_range_]
  · simp [symtable_push_scope]



section top_inv
variable {F : Type}

theorem plist_ok_add_param (pl pn : ast_node F) (hpl : plist_ok pl = true)
    (hpn : all_kinds (fun c => c = .ASTK_PARAM) pn = true) :
    plist_ok (ast_add_child pl pn) = true := by
  cases pl with
  | nil => simp [plist_ok] at hpl
  | node k p t u l r =>
    cases pn with
    | nil => exact hpl
    | node k2 p2 t2 u2 l2 r2 =>
      simp only [plist_ok, Bool.and_eq_true] at hpl
      simp only [ast_add_child, plist_ok, Bool.and_eq_true]
      exact ⟨hpl.1, all_kinds_append_sibling _ l _ hpl.2 hpn⟩

theorem parse_param_loop_inv : ∀ (rounds : Nat) (pl : ast_node F) (s : syntax_analyzer_t F),
    plist_ok pl = true →
    ((parse_param_loop_ rounds pl s).1.is_some = true →
      plist_ok (parse_param_loop_ rounds pl s).1 = true) ∧
    (parse_param_loop_ rounds pl s).2.loop_depth = s.loop_depth
  | 0, pl, s, _ => ⟨fun h => by simp [parse_param_loop_, ast_node.is_some] at h, rfl⟩
  | rounds + 1, pl, s, hpl => by
    unfold parse_param_loop_
    split
    · exact ⟨fun h => by simp [ast_node.is_some] at h, by simp⟩
    · rename_i ttype _
      dsimp only
      split_ifs
      · exact ⟨fun h => by simp [ast_node.is_some] at h, by simp⟩
      · split
        · exact ⟨fun h => by simp [ast_node.is_some] at h, by simp⟩
        · rename_i tid _
          split_ifs <;>
            first
            | (refine ⟨fun h => ?_, ?_⟩
               · simp [ast_node.is_some] at h
               · simp)
            | (refine ⟨fun _ => plist_ok_add_param _ _ hpl rfl, ?_⟩
               simp)
            | (have ih := parse_param_loop_inv rounds
                (ast_add_child pl (((sa_new (require_name_id_ (sa_advance s) (some tid)
                  "param name").2 .ASTK_PARAM tid.pos).1.with_u
                  (.param (require_name_id_ (sa_advance s) (some tid) "param name").1
                    (type_from_tok_ ttype.kind))).with_type (type_from_tok_ ttype.kind)))
                (match_ (sa_advance (sa_declare (sa_new (require_name_id_ (sa_advance s)
                  (some tid) "param name").2 .ASTK_PARAM tid.pos).2 .SYM_PARAM
                  (require_name_id_ (sa_advance s) (some tid) "param name").1
                  (type_from_tok_ ttype.kind) (some tid)).2) .TOK_COMMA).2
                (plist_ok_add_param _ _ hpl rfl)
               exact ⟨ih.1, by rw [ih.2]; simp⟩)

theorem parse_param_list_inv (s : syntax_analyzer_t F) :
    ((parse_param_list_ s).1.is_some = true → plist_ok (parse_param_list_ s).1 = true) ∧
    (parse_param_list_ s).2.loop_depth = s.loop_depth := by
  unfold parse_param_list_
  dsimp only
  split
  · exact ⟨fun h => by simp [ast_node.is_some] at h, rfl⟩
  · split_ifs
    · exact ⟨fun _ => rfl, rfl⟩
    · exact parse_param_loop_inv _ _ _ rfl


theorem parse_block_loop_kind : ∀ (fuel : Nat) (block : ast_node F) (s : syntax_analyzer_t F),
    (parse_block_loop_ fuel block s).1.is_some = true →
    (parse_block_loop_ fuel block s).1.kind = block.kind
  | 0, block, s, h => by
    rw [parse_block_loop_] at h
    simp [ast_node.is_some] at h
  | fuel + 1, block, s, h => by
    rw [parse_block_loop_] at h ⊢
    revert h
    split
    · intro h
      simp [ast_node.is_some] at h
    · dsimp only
      split_ifs
      · intro _
        rfl
      · intro h
        simp [ast_node.is_some] at h
      · intro h
        rw [parse_block_loop_kind fuel _ _ h]
        simp

theorem parse_block_kind (fuel : Nat) (s : syntax_analyzer_t F)
    (h : (parse_block_ fuel s).1.is_some = true) :
    (parse_block_ fuel s).1.kind = .ASTK_BLOCK := by
  cases fuel with
  | zero =>
    rw [parse_block_] at h
    simp [ast_node.is_some] at h
  | succ f =>
    rw [parse_block_] at h ⊢
    revert h
    split
    · intro h
      simp [ast_node.is_some] at h
    · dsimp only
      split_ifs <;> intro h <;>
        first
        | (simp [ast_node.is_some] at h; done)
        | (rw [parse_block_loop_kind f _ _ h]
           simp)

theorem func_node_ok (d : Bool) (p : token_pos_t) (name : Nat) (rt : ast_type_t)
    (plist body : ast_node F) (hp : plist_ok plist = true) (hb : body.is_some = true)
    (hs : stmt_ok rt d body = true) (hk : body.kind = .ASTK_BLOCK)
    (hl : rt = .AST_TYPE_VOID ∨ (last_child_ body).kind = .ASTK_RETURN) :
    funcs_ok d (ast_add_child (ast_add_child
      (((ast_new .ASTK_FUNC p).with_u (.func name rt)).with_type rt) plist) body) = true := by
  cases plist with
  | nil => simp [plist_ok] at hp
  | node kp pp tp up lp rp =>
    cases body with
    | nil => simp [ast_node.is_some] at hb
    | node kb pb tb ub lb rb =>
      simp only [plist_ok, Bool.and_eq_true, decide_eq_true_eq] at hp
      simp only [ast_node.kind] at hk
      subst hk
      have hs2 := stmt_ok_set_right_nil rt d _ hs
      simp only [ast_node.set_right] at hs2
      simp only [ast_new, ast_node.with_u, ast_node.with_type, ast_add_child, append_sibling,
        ast_node.set_right, funcs_ok, func_body_ok, ast_payload.decl_type, hp.1, hp.2, hs2,
        ast_node.is_some, ast_node.right, ast_node.kind, last_child_, ast_node.left,
        Bool.and_eq_true, Bool.or_eq_true, decide_eq_true_eq, Bool.not_false, and_true,
        true_and, decide_True]
      simpa [ast_node.kind, last_child_, ast_node.left] using hl

theorem func_finish_inv (d : Bool) (p : token_pos_t) (name : Nat) (rt : ast_type_t)
    (plist body : ast_node F) (s0 s : syntax_analyzer_t F) (hp : plist_ok plist = true)
    (hs : stmt_ok rt d body = true) (hk : body.is_some = true → body.kind = .ASTK_BLOCK)
    (hld : s.loop_depth = s0.loop_depth) :
    ((func_finish_ (((ast_new .ASTK_FUNC p).with_u (.func name rt)).with_type rt) plist body
        rt name s).1.is_some = true →
      funcs_ok d (func_finish_ (((ast_new .ASTK_FUNC p).with_u (.func name rt)).with_type rt)
        plist body rt name s).1 = true) ∧
    (func_finish_ (((ast_new .ASTK_FUNC p).with_u (.func name rt)).with_type rt) plist body
        rt name s).2.loop_depth = s0.loop_depth := by
  unfold func_finish_
  dsimp only
  split_ifs <;>
    first
    | (refine ⟨fun h => ?_, ?_⟩
       · simp [ast_node.is_some] at h
       · simp [hld])
    | (rename_i hb1 hlast
       have hb2 : body.is_some = true := by simpa using hb1
       refine ⟨fun _ => func_node_ok _ _ _ _ _ _ hp hb2 hs (hk hb2) ?_, hld⟩
       by_cases hv : rt = .AST_TYPE_VOID
       · exact Or.inl hv
       · right
         have := hlast
         simp [hv] at this
         exact this.2)

theorem func_body_inv (fuel : Nat) (p : token_pos_t) (name : Nat) (rt : ast_type_t)
    (s : syntax_analyzer_t F) :
    ((func_body_ fuel (((ast_new .ASTK_FUNC p).with_u (.func name rt)).with_type rt) rt name
        s).1.is_some = true →
      funcs_ok (decide (0 < s.loop_depth))
        (func_body_ fuel (((ast_new .ASTK_FUNC p).with_u (.func name rt)).with_type rt) rt name
          s).1 = true) ∧
    (func_body_ fuel (((ast_new .ASTK_FUNC p).with_u (.func name rt)).with_type rt) rt name
      s).2.loop_depth = s.loop_depth := by
  unfold func_body_
  dsimp only
  have hpl := parse_param_list_inv (sa_push_scope (expect_ s .TOK_LPAREN "(").2)
  have c1 : (parse_param_list_ (sa_push_scope (expect_ s .TOK_LPAREN "(").2)).2.loop_depth
      = s.loop_depth := by rw [hpl.2]; simp
  generalize hx2 : expect_ (parse_param_list_ (sa_push_scope (expect_ s .TOK_LPAREN "(").2)).2
    .TOK_RPAREN ")" = x2
  have c2 : x2.2.loop_depth = s.loop_depth := by
    rw [← hx2]
    simp [c1]
  obtain ⟨b1, _, b3⟩ := parse_block_inv fuel { x2.2 with cur_func_ret_type := rt }
  have b1' : stmt_ok rt (decide (0 < s.loop_depth))
      (parse_block_ fuel { x2.2 with cur_func_ret_type := rt }).1 = true := by
    rw [← c2]
    exact b1
  have b3' : (parse_block_ fuel { x2.2 with cur_func_ret_type := rt }).2.loop_depth
      = s.loop_depth := b3.trans c2
  split_ifs <;>
    first
    | (refine ⟨fun h => ?_, ?_⟩
       · simp [ast_node.is_some] at h
       · first
         | exact c1
         | exact c2
         | simp)
    | (rename_i hpl1 _
       exact func_finish_inv _ _ _ _ _ _ s _ (hpl.1 (by simpa using hpl1)) b1'
         (parse_block_kind fuel _) b3')

theorem parse_function_decl_inv (fuel : Nat) (s : syntax_analyzer_t F) :
    ((parse_function_decl_ fuel s).1.is_some = true →
      funcs_ok (decide (0 < s.loop_depth)) (parse_function_decl_ fuel s).1 = true) ∧
    (parse_function_decl_ fuel s).2.loop_depth = s.loop_depth := by
  unfold parse_function_decl_
  split
  · exact ⟨fun h => by simp [ast_node.is_some] at h, rfl⟩
  · rename_i tret _
    dsimp only
    generalize (if tret.kind = .TOK_KW_SIMP then ast_type_t.AST_TYPE_VOID
      else type_from_tok_ tret.kind) = rt
    split_ifs
    · refine ⟨fun h => ?_, ?_⟩
      · simp [ast_node.is_some] at h
      · simp
    · split
      · refine ⟨fun h => ?_, ?_⟩
        · simp [ast_node.is_some] at h
        · simp
      · rename_i tid _
        split_ifs <;>
          first
          | (refine ⟨fun h => ?_, ?_⟩
             · simp [ast_node.is_some] at h
             · simp)
          | (have h := func_body_inv fuel tid.pos
               (require_name_id_ (sa_advance s) (some tid) "function name").1 rt
               (sa_declare (sa_new (sa_advance (require_name_id_ (sa_advance s) (some tid)
                 "function name").2) .ASTK_FUNC tid.pos).2 .SYM_FUNC
                 (require_name_id_ (sa_advance s) (some tid) "function name").1 rt
                 (some tid)).2
             have hld : (sa_declare (sa_new (sa_advance (require_name_id_ (sa_advance s)
                 (some tid) "function name").2) .ASTK_FUNC tid.pos).2 .SYM_FUNC
                 (require_name_id_ (sa_advance s) (some tid) "function name").1 rt
                 (some tid)).2.loop_depth = s.loop_depth := by simp
             rw [hld] at h
             exact h)


theorem funcs_ok_set_right_nil (d : Bool) (n : ast_node F) (h : funcs_ok d n = true) :
    funcs_ok d (n.set_right .nil) = true := by
  cases n with
  | nil => rfl
  | node k p t u l r =>
    simp only [funcs_ok, Bool.and_eq_true] at h
    simp only [ast_node.set_right, funcs_ok, Bool.and_eq_true]
    exact ⟨h.1, trivial⟩

theorem funcs_ok_append_sibling (d : Bool) : ∀ (l c : ast_node F),
    funcs_ok d l = true → funcs_ok d c = true → funcs_ok d (append_sibling l c) = true
  | .nil, c, _, hc => funcs_ok_set_right_nil d c hc
  | .node k p t u l r, c, hl, hc => by
    simp only [funcs_ok, Bool.and_eq_true] at hl
    simp only [append_sibling, funcs_ok, Bool.and_eq_true]
    exact ⟨hl.1, funcs_ok_append_sibling d r c hl.2 hc⟩

theorem program_ok_add_func (d : Bool) (program fn : ast_node F)
    (hp : program_ok d program = true) (hf : funcs_ok d fn = true) :
    program_ok d (ast_add_child program fn) = true := by
  cases program with
  | nil => simp [program_ok] at hp
  | node k p t u l r =>
    cases fn with
    | nil => exact hp
    | node k2 p2 t2 u2 l2 r2 =>
      simp only [program_ok, Bool.and_eq_true] at hp
      simp only [ast_add_child, program_ok, Bool.and_eq_true]
      exact ⟨⟨hp.1.1, funcs_ok_append_sibling d l _ hp.1.2 hf⟩, hp.2⟩

theorem parse_program_loop_inv (fuel : Nat) (d : Bool) :
    ∀ (rounds : Nat) (program : ast_node F) (any : Bool) (s : syntax_analyzer_t F),
      program_ok d program = true → decide (0 < s.loop_depth) = d →
      (parse_program_loop_ fuel rounds program any s).1.is_some = true →
      program_ok d (parse_program_loop_ fuel rounds program any s).1 = true
  | 0, program, any, s, _, _, h => by
    simp [parse_program_loop_, ast_node.is_some] at h
  | rounds + 1, program, any, s, hp, hd, h => by
    unfold parse_program_loop_ at h ⊢
    revert h
    split
    · intro h
      simp [ast_node.is_some] at h
    · dsimp only
      have hf := parse_function_decl_inv fuel s
      rw [hd] at hf
      split_ifs
      · intro _
        exact hp
      · intro h
        simp [ast_node.is_some] at h
      · rename_i hs
        intro h
        exact parse_program_loop_inv fuel d rounds _ _ _
          (program_ok_add_func d _ _ hp (hf.1 (by simpa using hs)))
          (by rw [hf.2]; exact hd) h

theorem parse_program_inv (fuel : Nat) (s : syntax_analyzer_t F)
    (h : (parse_program_ fuel s).1.is_some = true) :
    program_ok (decide (0 < s.loop_depth)) (parse_program_ fuel s).1 = true := by
  unfold parse_program_ at h ⊢
  revert h
  dsimp only
  have hl := parse_program_loop_inv fuel (decide (0 < s.loop_depth)) (s.tokens.length + 1)
    (sa_new s .ASTK_PROGRAM (SA_POS (cur_ s))).1 false
    (sa_new s .ASTK_PROGRAM (SA_POS (cur_ s))).2 rfl rfl
  split_ifs <;> intro h <;>
    first
    | (simp [ast_node.is_some] at h; done)
    | exact hl h

theorem syntax_analyze_program_ok (fuel : Nat) (sa0 : syntax_analyzer_t F)
    (h : (syntax_analyze fuel sa0).1 = err_t.OK) :
    program_ok (decide (0 < sa0.loop_depth)) (syntax_analyze fuel sa0).2.1 = true := by
  unfold syntax_analyze at h ⊢
  revert h
  dsimp only
  split_ifs <;> intro h
  · exact absurd h (by decide)
  · rename_i hs
    exact parse_program_inv fuel { sa0 with error_pos := 0, error_msg := "" } (by simpa using hs)

end top_inv


section tree_thms
variable {F : Type}

theorem all_kinds_mem (p : ast_kind_t → Bool) : ∀ (n : ast_node F),
    all_kinds p n = true → ∀ m ∈ nodes n, p m.kind = true
  | .nil, _, m, hm => by simp [nodes] at hm
  | .node k q t u l r, h, m, hm => by
    simp only [all_kinds, Bool.and_eq_true] at h
    simp only [nodes, List.mem_cons, List.mem_append] at hm
    rcases hm with rfl | hm | hm
    · exact h.1.1
    · exact all_kinds_mem p l h.1.2 m hm
    · exact all_kinds_mem p r h.2 m hm

theorem expr_kind_not_stmt {k : ast_kind_t} (h : is_expr_kind k = true) :
    k ≠ .ASTK_RETURN ∧ k ≠ .ASTK_BREAK ∧ k ≠ .ASTK_WHILE ∧ k ≠ .ASTK_FUNC ∧
      k ≠ .ASTK_PROGRAM := by
  refine ⟨?_, ?_, ?_, ?_, ?_⟩ <;> rintro rfl <;> simp [is_expr_kind] at h

theorem set_right_nil_of_right {n : ast_node F} (h : n.right.is_some = false) :
    n.set_right .nil = n := by
  cases n with
  | nil => rfl
  | node k p t u l r =>
    cases r with
    | nil => rfl
    | node _ _ _ _ _ _ => simp [ast_node.right, ast_node.is_some] at h

theorem is_some_false_iff {n : ast_node F} : n.is_some = false ↔ n = .nil := by
  cases n <;> simp [ast_node.is_some]

theorem stmt_ok_head (ty : ast_type_t) (d : Bool) (k : ast_kind_t) (q : token_pos_t)
    (t : ast_type_t) (u : ast_payload F) (l r : ast_node F)
    (h : stmt_ok ty d (.node k q t u l r) = true) :
    (k = .ASTK_RETURN → ret_children_ok ty l = true) ∧ k ≠ .ASTK_FUNC ∧ k ≠ .ASTK_PROGRAM ∧
      (k = .ASTK_BREAK → d = true) := by
  unfold stmt_ok at h
  simp only [Bool.and_eq_true] at h
  have h1 := h.1
  by_cases hk1 : k = .ASTK_RETURN
  · subst hk1
    rw [if_pos rfl] at h1
    exact ⟨fun _ => h1, by decide, by decide, fun hb => nomatch hb⟩
  · rw [if_neg hk1] at h1
    by_cases hk2 : k = .ASTK_BREAK
    · subst hk2
      rw [if_pos rfl] at h1
      simp only [Bool.and_eq_true] at h1
      exact ⟨(fun hb => nomatch hb), by decide, by decide, fun _ => h1.1⟩
    · rw [if_neg hk2] at h1
      by_cases hk3 : k = .ASTK_WHILE
      · subst hk3
        exact ⟨(fun hb => nomatch hb), by decide, by decide, fun hb => nomatch hb⟩
      · rw [if_neg hk3] at h1
        simp only [Bool.and_eq_true, decide_eq_true_eq] at h1
        exact ⟨fun hb => absurd hb hk1, h1.1.1, h1.1.2, fun hb => absurd hb hk2⟩

/-- What `stmt_ok` says about the nodes of a statement chain: the children of
every `RETURN`, no `FUNC` or `PROGRAM`, and every `BREAK` outside a loop body
of the chain needs `d`. -/
theorem stmt_ok_nodes (ty : ast_type_t) : ∀ (n : ast_node F) (d : Bool),
    stmt_ok ty d n = true → ∀ m ∈ nodes n,
      (m.kind = .ASTK_RETURN → ret_children_ok ty m.left = true) ∧
      m.kind ≠ .ASTK_FUNC ∧ m.kind ≠ .ASTK_PROGRAM ∧
      (m.kind = .ASTK_BREAK → d = true ∨
        ∃ w ∈ nodes n, w.kind = .ASTK_WHILE ∧ m ∈ subtree (ast_child w 1))
  | .nil, _, _, m, hm => by simp [nodes] at hm
  | .node k q t u .nil r, d, h, m, hm => by
    have hfull := h
    unfold stmt_ok at h
    simp only [Bool.and_eq_true] at h
    have ihr := stmt_ok_nodes ty r d h.2
    simp only [nodes, List.mem_cons, List.mem_append, List.nil_append] at hm
    rcases hm with rfl | hm
    · obtain ⟨e1, e2, e3, e4⟩ := stmt_ok_head ty d k q t u .nil r hfull
      exact ⟨e1, e2, e3, fun hb => Or.inl (e4 hb)⟩
    · obtain ⟨a1, a2, a3, a4⟩ := ihr m hm
      refine ⟨a1, a2, a3, fun hb => ?_⟩
      rcases a4 hb with h' | ⟨w, hw, hw2⟩
      · exact Or.inl h'
      · exact Or.inr ⟨w, by simp [nodes, hw], hw2⟩
  | .node k q t u (.node kc qc tc uc lc rc) r, d, h, m, hm => by
    have hfull := h
    unfold stmt_ok at h
    simp only [Bool.and_eq_true] at h
    have ihr := stmt_ok_nodes ty r d h.2
    simp only [nodes, List.mem_cons, List.mem_append] at hm
    have hexpr : ∀ x : ast_node F, is_expr_kind x.kind = true →
        (x.kind = .ASTK_RETURN → ret_children_ok ty x.left = true) ∧
        x.kind ≠ .ASTK_FUNC ∧ x.kind ≠ .ASTK_PROGRAM ∧
        (x.kind = .ASTK_BREAK → d = true ∨
          ∃ w ∈ nodes (ast_node.node k q t u (.node kc qc tc uc lc rc) r),
            w.kind = .ASTK_WHILE ∧ x ∈ subtree (ast_child w 1)) := by
      intro x hx
      have := expr_kind_not_stmt hx
      exact ⟨fun hh => absurd hh this.1, this.2.2.2.1, this.2.2.2.2,
        fun hh => absurd hh this.2.1⟩
    rcases hm with rfl | hm | hm
    · obtain ⟨e1, e2, e3, e4⟩ := stmt_ok_head ty d k q t u _ r hfull
      exact ⟨e1, e2, e3, fun hb => Or.inl (e4 hb)⟩
    · -- a descendant
      have h1 := h.1
      split_ifs at h1 with hk1 hk2 hk3
      · -- below a RETURN: an expression
        unfold ret_children_ok at h1
        split_ifs at h1
        · simp [ast_node.is_some] at h1
        · simp only [Bool.and_eq_true] at h1
          have := all_kinds_mem is_expr_kind _ h1.2 m (by
            simp only [nodes, List.mem_cons, List.mem_append]
            exact hm)
          exact hexpr m this
      · simp [ast_node.is_some] at h1
      · -- below a WHILE
        simp only [Bool.and_eq_true] at h1
        obtain ⟨⟨⟨⟨c1, c2⟩, c3⟩, c4⟩, c5⟩ := h1
        rcases hm with rfl | hm | hm
        · exact hexpr _ c1
        · exact hexpr m (all_kinds_mem is_expr_kind lc c2 m hm)
        · obtain ⟨a1, a2, a3, _⟩ := stmt_ok_nodes ty rc true c5 m hm
          refine ⟨a1, a2, a3, fun _ => Or.inr ⟨_, List.mem_cons_self _ _, hk3, ?_⟩⟩
          have hr : rc.right.is_some = false := by simpa using c4
          have : ast_child (ast_node.node k q t u (.node kc qc tc uc lc rc) r) 1 = rc := by
            cases rc <;> rfl
          rw [this]
          unfold subtree
          rw [set_right_nil_of_right hr]
          exact hm
      · simp only [Bool.and_eq_true, decide_eq_true_eq] at h1
        obtain ⟨a1, a2, a3, a4⟩ := stmt_ok_nodes ty (.node kc qc tc uc lc rc) d h1.2 m (by
          simp only [nodes, List.mem_cons, List.mem_append]
          exact hm)
        refine ⟨a1, a2, a3, fun hb => ?_⟩
        rcases a4 hb with h' | ⟨w, hw, hw2⟩
        · exact Or.inl h'
        · refine Or.inr ⟨w, ?_, hw2⟩
          simp only [nodes, List.mem_cons, List.mem_append] at hw ⊢
          exact Or.inr (Or.inl hw)
    · obtain ⟨a1, a2, a3, a4⟩ := ihr m hm
      refine ⟨a1, a2, a3, fun hb => ?_⟩
      rcases a4 hb with h' | ⟨w, hw, hw2⟩
      · exact Or.inl h'
      · refine Or.inr ⟨w, ?_, hw2⟩
        simp only [nodes, List.mem_cons, List.mem_append]
        exact Or.inr (Or.inr hw)


theorem last_of_chain_mem : ∀ (n : ast_node F), (last_of_chain n).is_some = true →
    last_of_chain n ∈ nodes n
  | .nil, h => by simp [last_of_chain, ast_node.is_some] at h
  | .node k p t u l .nil, _ => by simp [last_of_chain, nodes]
  | .node k p t u l (.node k2 p2 t2 u2 l2 r2), h => by
    have e : last_of_chain (.node k p t u l (.node k2 p2 t2 u2 l2 r2))
        = last_of_chain (.node k2 p2 t2 u2 l2 r2) := by
      simp [last_of_chain]
    rw [e] at h ⊢
    have ih := last_of_chain_mem (.node k2 p2 t2 u2 l2 r2) h
    simp only [nodes, List.mem_cons, List.mem_append] at ih ⊢
    exact Or.inr (Or.inr ih)

theorem ret_children_ok_iff (ty : ast_type_t) (m : ast_node F)
    (h : ret_children_ok ty m.left = true) :
    (ty = .AST_TYPE_VOID → has_no_child m) ∧ (ty ≠ .AST_TYPE_VOID → has_one_expr_child m) := by
  unfold ret_children_ok at h
  split_ifs at h with hv
  · refine ⟨fun _ => ?_, fun hn => absurd hv hn⟩
    exact is_some_false_iff.mp (by simpa using h)
  · refine ⟨fun hn => absurd hn hv, fun _ => ?_⟩
    simp only [Bool.and_eq_true] at h
    exact ⟨h.1.1, is_some_false_iff.mp (by simpa using h.1.2), h.2⟩

theorem mem_nodes_left {n m : ast_node F} (h : m ∈ nodes n.left) : m ∈ nodes n := by
  cases n with
  | nil => simp [ast_node.left, nodes] at h
  | node k p t u l r =>
    simp only [ast_node.left] at h
    simp only [nodes, List.mem_cons, List.mem_append]
    exact Or.inr (Or.inl h)

/-- What `funcs_ok` says about the nodes of a chain of functions. -/
theorem funcs_ok_nodes (d : Bool) : ∀ (n : ast_node F), funcs_ok d n = true →
    ∀ m ∈ nodes n,
      (m.kind = .ASTK_FUNC → func_body_ok d m.u.decl_type m.left = true) ∧
      (m.kind = .ASTK_BREAK → d = true ∨
        ∃ w ∈ nodes n, w.kind = .ASTK_WHILE ∧ m ∈ subtree (ast_child w 1))
  | .nil, _, m, hm => by simp [nodes] at hm
  | .node k q t u l r, h, m, hm => by
    simp only [funcs_ok, Bool.and_eq_true, decide_eq_true_eq] at h
    obtain ⟨⟨hk, hb⟩, hr⟩ := h
    subst hk
    have ihr := funcs_ok_nodes d r hr
    simp only [nodes, List.mem_cons, List.mem_append] at hm
    rcases hm with rfl | hm | hm
    · exact ⟨(fun _ => hb), (fun hh => nomatch hh)⟩
    · cases l with
      | nil => simp [func_body_ok] at hb
      | node kpl qpl tpl upl params body =>
        simp only [func_body_ok, Bool.and_eq_true, decide_eq_true_eq] at hb
        obtain ⟨⟨⟨⟨⟨⟨p1, p2⟩, p3⟩, p4⟩, p5⟩, p6⟩, p7⟩ := hb
        simp only [nodes, List.mem_cons, List.mem_append] at hm
        rcases hm with rfl | hm | hm
        · simp only [ast_node.kind, p1]
          exact ⟨(fun hh => nomatch hh), (fun hh => nomatch hh)⟩
        · have := all_kinds_mem _ params p2 m hm
          simp only [decide_eq_true_eq] at this
          rw [this]
          exact ⟨(fun hh => nomatch hh), (fun hh => nomatch hh)⟩
        · obtain ⟨_, a2, _, a4⟩ := stmt_ok_nodes _ body d p5 m hm
          refine ⟨fun hh => absurd hh a2, fun hh => ?_⟩
          rcases a4 hh with h' | ⟨w, hw, hw2⟩
          · exact Or.inl h'
          · refine Or.inr ⟨w, ?_, hw2⟩
            simp only [nodes, List.mem_cons, List.mem_append]
            exact Or.inr (Or.inl (Or.inr (Or.inr hw)))
    · obtain ⟨a1, a2⟩ := ihr m hm
      refine ⟨a1, fun hh => ?_⟩
      rcases a2 hh with h' | ⟨w, hw, hw2⟩
      · exact Or.inl h'
      · refine Or.inr ⟨w, ?_, hw2⟩
        simp only [nodes, List.mem_cons, List.mem_append]
        exact Or.inr (Or.inr hw)

theorem program_ok_nodes (d : Bool) (root : ast_node F) (h : program_ok d root = true) :
    ∀ m ∈ nodes root,
      (m.kind = .ASTK_FUNC → func_body_ok d m.u.decl_type m.left = true) ∧
      (m.kind = .ASTK_BREAK → d = true ∨
        ∃ w ∈ nodes root, w.kind = .ASTK_WHILE ∧ m ∈ subtree (ast_child w 1)) := by
  cases root with
  | nil => simp [program_ok] at h
  | node k q t u l r =>
    simp only [program_ok, Bool.and_eq_true, decide_eq_true_eq] at h
    obtain ⟨⟨hk, hf⟩, hrn⟩ := h
    subst hk
    intro m hm
    simp only [nodes, List.mem_cons, List.mem_append] at hm
    have hr : ∀ x ∈ nodes r, False := by
      intro x hx
      have : r = .nil := is_some_false_iff.mp (by simpa using hrn)
      rw [this] at hx
      simp [nodes] at hx
    rcases hm with rfl | hm | hm
    · exact ⟨(fun hh => nomatch hh), (fun hh => nomatch hh)⟩
    · obtain ⟨a1, a2⟩ := funcs_ok_nodes d l hf m hm
      refine ⟨a1, fun hh => ?_⟩
      rcases a2 hh with h' | ⟨w, hw, hw2⟩
      · exact Or.inl h'
      · refine Or.inr ⟨w, ?_, hw2⟩
        simp only [nodes, List.mem_cons, List.mem_append]
        exact Or.inr (Or.inl hw)
    · exact (hr m hm).elim

theorem func_body_ok_spec (d : Bool) (fn : ast_node F)
    (h : func_body_ok d fn.u.decl_type fn.left = true) :
    (ast_child fn 1).kind = .ASTK_BLOCK ∧
    (fn.u.decl_type ≠ .AST_TYPE_VOID →
      (last_child_ (ast_child fn 1)).kind = .ASTK_RETURN ∧
      has_one_expr_child (last_child_ (ast_child fn 1))) ∧
    (∀ m ∈ nodes fn.left, m.kind = .ASTK_RETURN →
      (fn.u.decl_type = .AST_TYPE_VOID → has_no_child m) ∧
      (fn.u.decl_type ≠ .AST_TYPE_VOID → has_one_expr_child m)) := by
  have hch : ast_child fn 1 = sibling_at fn.left 1 := rfl
  revert h hch
  generalize fn.left = l
  generalize fn.u.decl_type = rt
  intro h hch
  cases l with
  | nil => simp [func_body_ok] at h
  | node kpl qpl tpl upl params body =>
    simp only [func_body_ok, Bool.and_eq_true, decide_eq_true_eq, Bool.or_eq_true] at h
    obtain ⟨⟨⟨⟨⟨⟨p1, p2⟩, p3⟩, p4⟩, p5⟩, p6⟩, p7⟩ := h
    have hbody : ast_child fn 1 = body := by
      rw [hch]
      cases body <;> rfl
    rw [hbody]
    have hret : ∀ m ∈ nodes (ast_node.node kpl qpl tpl upl params body),
        m.kind = .ASTK_RETURN → ret_children_ok rt m.left = true := by
      intro m hm hk
      simp only [nodes, List.mem_cons, List.mem_append] at hm
      rcases hm with rfl | hm | hm
      · simp only [ast_node.kind, p1] at hk
        exact nomatch hk
      · have := all_kinds_mem _ params p2 m hm
        simp only [decide_eq_true_eq] at this
        rw [this] at hk
        exact nomatch hk
      · exact (stmt_ok_nodes _ body d p5 m hm).1 hk
    refine ⟨p6, fun hv => ?_, fun m hm hk => ret_children_ok_iff rt m (hret m hm hk)⟩
    have hl : (last_child_ body).kind = .ASTK_RETURN := by
      rcases p7 with h1 | h1
      · exact absurd h1 hv
      · exact h1
    refine ⟨hl, ?_⟩
    have hsome : (last_of_chain body.left).is_some = true := by
      have : (last_child_ body).kind = .ASTK_RETURN := hl
      unfold last_child_ at this
      cases hlc : last_of_chain body.left with
      | nil => rw [hlc] at this; exact nomatch this
      | node _ _ _ _ _ _ => rfl
    have hmem : last_child_ body ∈ nodes (ast_node.node kpl qpl tpl upl params body) := by
      simp only [nodes, List.mem_cons, List.mem_append]
      exact Or.inr (Or.inr (mem_nodes_left (last_of_chain_mem body.left hsome)))
    exact (ret_children_ok_iff rt _ (hret _ hmem hl)).2 hv

end tree_thms

section claims_ret_break
variable {F : Type}

theorem parse_statement_gg (fuel : Nat) (sa : syntax_analyzer_t F) (t : token_t F)
    (hc : cur_ sa = some t) (hk : t.kind = .TOK_KW_GG) :
    parse_statement_ (fuel + 1) sa = then_semicolon (parse_break_ sa) := by
  rw [parse_statement_]
  simp [hc, hk, is_type_tok_]

/-- C16. In a program accepted by `syntax_analyze`, the body of every FUNC node
is a BLOCK; when the return type of the function is not void, the last child of
that block is a RETURN node with exactly one child, an expression; every RETURN
node inside a function carries exactly one expression when the function is not
void and no child when it is void. -/
theorem returns_match_function_type (fuel : Nat) (sa0 : syntax_analyzer_t F)
    (h : (syntax_analyze fuel sa0).1 = err_t.OK) :
    ∀ fn ∈ nodes (syntax_analyze fuel sa0).2.1, fn.kind = .ASTK_FUNC →
      (ast_child fn 1).kind = .ASTK_BLOCK ∧
      (fn.u.decl_type ≠ .AST_TYPE_VOID →
        (last_child_ (ast_child fn 1)).kind = .ASTK_RETURN ∧
        has_one_expr_child (last_child_ (ast_child fn 1))) ∧
      (∀ m ∈ nodes fn.left, m.kind = .ASTK_RETURN →
        (fn.u.decl_type = .AST_TYPE_VOID → has_no_child m) ∧
        (fn.u.decl_type ≠ .AST_TYPE_VOID → has_one_expr_child m)) := by
  intro fn hfn hk
  exact func_body_ok_spec _ fn
    ((program_ok_nodes _ _ (syntax_analyze_program_ok fuel sa0 h) fn hfn).1 hk)

theorem returns_match_function_type_witness :
    (syntax_analyze 64 (sa_of_source src_returns)).1 = err_t.OK ∧
    ∀ fn ∈ nodes (syntax_analyze 64 (sa_of_source src_returns)).2.1, fn.kind = .ASTK_FUNC →
      (ast_child fn 1).kind = .ASTK_BLOCK ∧
      (fn.u.decl_type ≠ .AST_TYPE_VOID →
        (last_child_ (ast_child fn 1)).kind = .ASTK_RETURN ∧
        has_one_expr_child (last_child_ (ast_child fn 1))) ∧
      (∀ m ∈ nodes fn.left, m.kind = .ASTK_RETURN →
        (fn.u.decl_type = .AST_TYPE_VOID → has_no_child m) ∧
        (fn.u.decl_type ≠ .AST_TYPE_VOID → has_one_expr_child m)) :=
  ⟨by decide!, returns_match_function_type 64 (sa_of_source src_returns) (by decide!)⟩

/-- C17. In a program accepted by `syntax_analyze` from the state of
`syntax_analyzer_ctor`, every BREAK node lies in the subtree of the second
child of a WHILE node of the tree.  A statement that starts with `gg` at loop
depth 0 fails with the error `gg (break) outside of loop`; at loop depth 1,
followed by `;`, it is accepted as a BREAK node and sets no error. -/
theorem break_only_in_loop (fuel : Nat) (source : List Char) (tokens : List (token_t F))
    (nt : nametable_t) :
    ((syntax_analyze fuel (syntax_analyzer_ctor source tokens nt)).1 = err_t.OK →
      ∀ m ∈ nodes (syntax_analyze fuel (syntax_analyzer_ctor source tokens nt)).2.1,
        m.kind = .ASTK_BREAK →
        ∃ w ∈ nodes (syntax_analyze fuel (syntax_analyzer_ctor source tokens nt)).2.1,
          w.kind = .ASTK_WHILE ∧ m ∈ subtree (ast_child w 1)) ∧
    (∀ (sa : syntax_analyzer_t F) (t : token_t F), cur_ sa = some t → t.kind = .TOK_KW_GG →
      sa.loop_depth = 0 →
      (parse_statement_ (fuel + 1) sa).1 = .nil ∧
      (sa.error_msg = "" →
        (parse_statement_ (fuel + 1) sa).2.error_msg
          = "gg (break) outside of loop" ++ at_suffix t.pos ∧
        (parse_statement_ (fuel + 1) sa).2.error_pos = t.pos.offset)) ∧
    (∀ (sa : syntax_analyzer_t F) (t t2 : token_t F), cur_ sa = some t →
      t.kind = .TOK_KW_GG → peek_ sa 1 = some t2 → t2.kind = .TOK_SEMICOLON →
      sa.loop_depth = 1 →
      (parse_statement_ (fuel + 1) sa).1 = ast_new .ASTK_BREAK t.pos ∧
      (parse_statement_ (fuel + 1) sa).2.error_msg = sa.error_msg ∧
      (parse_statement_ (fuel + 1) sa).2.pos = sa.pos + 2) := by
  refine ⟨fun h m hm hk => ?_, fun sa t hc hk hd => ?_, fun sa t t2 hc hk hp hk2 hd => ?_⟩
  · have := (program_ok_nodes _ _ (syntax_analyze_program_ok fuel _ h) m hm).2 hk
    rcases this with h' | h'
    · simp [syntax_analyzer_ctor] at h'
    · exact h'
  · rw [parse_statement_gg fuel sa t hc hk]
    have hb : parse_break_ sa = sa_fail sa (some t) "gg (break) outside of loop" := by
      simp [parse_break_, hc, hk, hd]
    rw [hb]
    refine ⟨by simp [then_semicolon, sa_fail, ast_node.is_some], fun he => ?_⟩
    simp [then_semicolon, sa_fail, ast_node.is_some, set_err_, he]
  · rw [parse_statement_gg fuel sa t hc hk]
    have hb : parse_break_ sa = sa_new (sa_advance sa) .ASTK_BREAK t.pos := by
      simp [parse_break_, hc, hk, hd]
    rw [hb]
    have hc2 : cur_ (sa_new (sa_advance sa) .ASTK_BREAK t.pos).2 = some t2 := by
      simpa [cur_, peek_, sa_new, sa_advance] using hp
    have he : expect_ (sa_new (sa_advance sa) .ASTK_BREAK t.pos).2 .TOK_SEMICOLON ";"
        = (true, sa_advance (sa_new (sa_advance sa) .ASTK_BREAK t.pos).2) := by
      simp only [expect_, hc2, hk2, if_true]
    simp only [then_semicolon, he]
    simp [sa_new, sa_advance, ast_new, ast_node.is_some]

theorem break_only_in_loop_witness :
    (syntax_analyze 64 (sa_of_source src_break_lowkey)).1 = err_t.OK ∧
    ∀ m ∈ nodes (syntax_analyze 64 (sa_of_source src_break_lowkey)).2.1,
      m.kind = .ASTK_BREAK →
      ∃ w ∈ nodes (syntax_analyze 64 (sa_of_source src_break_lowkey)).2.1,
        w.kind = .ASTK_WHILE ∧ m ∈ subtree (ast_child w 1) :=
  ⟨by decide!,
   (break_only_in_loop 64 src_break_lowkey (lexer_stream exact_ops src_break_lowkey).2.1
      (lexer_stream exact_ops src_break_lowkey).2.2.nametable).1 (by decide!)⟩

/-- The front end rejects `gg` outside of a loop and accepts it in the body of
a `lowkey` loop and of a `highkey` loop. -/
theorem break_examples :
    (frontend exact_ops 64 src_break_top).1 = err_t.ERR_SYNTAX ∧
    (frontend exact_ops 64 src_break_lowkey).1 = err_t.OK ∧
    (frontend exact_ops 64 src_break_highkey).1 = err_t.OK := by
  decide!

end claims_ret_break

section shape_thms
variable {F : Type}

@[simp] theorem alone_alone (n : ast_node F) : alone (alone n) = alone n := by
  cases n <;> rfl

@[simp] theorem alone_is_some (n : ast_node F) : (alone n).is_some = n.is_some := by
  cases n <;> rfl

@[simp] theorem alone_kind (n : ast_node F) : (alone n).kind = n.kind := by
  cases n <;> rfl

theorem alone_of_right_nil (n : ast_node F) (h : n.right = .nil) : alone n = n := by
  cases n with
  | nil => rfl
  | node k p t u l r =>
    simp only [ast_node.right] at h
    subst h
    rfl

@[simp] theorem add_child_right (a b : ast_node F) : (ast_add_child a b).right = a.right := by
  cases a <;> cases b <;> rfl

@[simp] theorem ast_new_right (k : ast_kind_t) (p : token_pos_t) :
    (ast_new k p : ast_node F).right = .nil := rfl

theorem kids_chain_append (c : ast_node F) (hc : c.is_some = true) : ∀ (l : ast_node F),
    (chain_list (append_sibling l c)).map (fun x => x.set_right .nil)
      = (chain_list l).map (fun x => x.set_right .nil) ++ [alone c]
  | .nil => by
    cases c with
    | nil => simp [ast_node.is_some] at hc
    | node k p t u l r => simp [append_sibling, chain_list, ast_node.set_right, alone]
  | .node k p t u l r => by
    have ih := kids_chain_append c hc r
    simp only [append_sibling, chain_list, List.map_cons, List.cons_append]
    rw [ih]
    rfl

theorem kids_add_child (p c : ast_node F) (hp : p.is_some = true) (hc : c.is_some = true) :
    kids (ast_add_child p c) = kids p ++ [alone c] := by
  cases p with
  | nil => simp [ast_node.is_some] at hp
  | node k q t u l r =>
    cases c with
    | nil => simp [ast_node.is_some] at hc
    | node k2 q2 t2 u2 l2 r2 =>
      simp only [ast_add_child, kids, ast_node.left]
      exact kids_chain_append (.node k2 q2 t2 u2 l2 r2) rfl l

@[simp] theorem kids_ast_new (k : ast_kind_t) (p : token_pos_t) :
    kids (ast_new k p : ast_node F) = [] := rfl

theorem kids_new_two (k : ast_kind_t) (p : token_pos_t) (a b : ast_node F)
    (ha : a.is_some = true) (hb : b.is_some = true) :
    kids (ast_add_child (ast_add_child (ast_new k p) a) b) = [alone a, alone b] := by
  rw [kids_add_child _ _ (by simp) hb, kids_add_child _ _ (by simp) ha]
  simp

@[simp] theorem alone_new_two (k : ast_kind_t) (p : token_pos_t) (a b : ast_node F) :
    alone (ast_add_child (ast_add_child (ast_new k p) a) b)
      = ast_add_child (ast_add_child (ast_new k p) a) b :=
  alone_of_right_nil _ (by simp)

theorem kids_new_one (k : ast_kind_t) (p : token_pos_t) (a : ast_node F)
    (ha : a.is_some = true) :
    kids (ast_add_child (ast_new k p) a) = [alone a] := by
  rw [kids_add_child _ _ (by simp) ha]
  simp

theorem make_true_lit_node (s : syntax_analyzer_t F) (p : token_pos_t) :
    (make_true_lit_ s p).1 = int_one_at p := rfl

theorem for_init_present (fuel : Nat) (s : syntax_analyzer_t F) :
    (for_init_ fuel s).1 = cur_is_not s .TOK_SEMICOLON := rfl

theorem for_step_present (fuel : Nat) (s : syntax_analyzer_t F) :
    (for_step_ fuel s).1 = cur_is_not s .TOK_RPAREN := rfl

theorem for_init_absent (fuel : Nat) (s : syntax_analyzer_t F)
    (h : cur_is_not s .TOK_SEMICOLON = false) : (for_init_ fuel s).2.1 = .nil := by
  simp [for_init_, h]

theorem for_step_absent (fuel : Nat) (s : syntax_analyzer_t F)
    (h : cur_is_not s .TOK_RPAREN = false) : (for_step_ fuel s).2.1 = .nil := by
  simp [for_step_, h]

theorem for_cond_omitted (fuel : Nat) (s : syntax_analyzer_t F)
    (h : cur_is_not s .TOK_SEMICOLON = false) :
    (for_cond_ fuel s).1 = int_one_at (SA_POS (cur_ s)) := by
  simp [for_cond_, h, make_true_lit_node]

theorem for_cond_given (fuel : Nat) (s : syntax_analyzer_t F)
    (h : cur_is_not s .TOK_SEMICOLON = true) :
    for_cond_ fuel s = parse_expr_ fuel s := by
  simp [for_cond_, h]

/-- The parsed step is an assignment node or an expression. -/
theorem for_step_kind (fuel : Nat) (s : syntax_analyzer_t F)
    (h : (for_step_ fuel s).2.1.is_some = true) :
    (for_step_ fuel s).2.1.kind = .ASTK_ASSIGN ∨
      is_expr_kind (for_step_ fuel s).2.1.kind = true := by
  revert h
  unfold for_step_
  dsimp only
  split_ifs
  · intro h
    simp [ast_node.is_some] at h
  · intro h
    exact Or.inl (parse_assignment_kind fuel s h)
  · intro h
    right
    have hk := parse_expr_kinds fuel s
    cases hp : (parse_expr_ fuel s).1 with
    | nil => rw [hp] at h; simp [ast_node.is_some] at h
    | node k p t u l r =>
      rw [hp] at hk
      simp only [all_kinds, Bool.and_eq_true] at hk
      exact hk.1.1

/-- The statement made of a parsed step: the step itself when it is an
assignment, an `EXPR_STMT` around it otherwise. -/
theorem for_step_stmt_shape (fuel : Nat) (s : syntax_analyzer_t F)
    (h : (for_step_ fuel s).2.1.is_some = true) :
    (for_step_stmt_ (for_step_ fuel s).2).1.is_some = true ∧
    ((for_step_ fuel s).2.1.kind = .ASTK_ASSIGN →
      (for_step_stmt_ (for_step_ fuel s).2).1 = (for_step_ fuel s).2.1) ∧
    ((for_step_ fuel s).2.1.kind ≠ .ASTK_ASSIGN →
      (for_step_stmt_ (for_step_ fuel s).2).1.kind = .ASTK_EXPR_STMT ∧
      kids (for_step_stmt_ (for_step_ fuel s).2).1 = [alone (for_step_ fuel s).2.1]) := by
  have hk := for_step_kind fuel s h
  generalize (for_step_ fuel s).2 = st at h hk ⊢
  unfold for_step_stmt_
  by_cases ha : st.1.kind = .ASTK_ASSIGN
  · simp [h, ha]
  · have he : is_expr_kind st.1.kind = true := hk.resolve_left ha
    have hv : st.1.kind ≠ .ASTK_VAR_DECL := by
      intro hv
      rw [hv] at he
      exact absurd he (by decide)
    have e : (if (!st.1.is_some) = true then ((.nil : ast_node F), st.2)
        else if (st.1.kind = .ASTK_ASSIGN || st.1.kind = .ASTK_VAR_DECL) = true then st
        else wrap_expr_stmt_ st.2 st.1)
        = (ast_add_child (ast_new .ASTK_EXPR_STMT (node_pos st.1)) st.1,
            (sa_new st.2 .ASTK_EXPR_STMT (node_pos st.1)).2) := by
      simp [h, ha, hv, wrap_expr_stmt_]
    rw [e]
    exact ⟨by simp, fun hh => absurd hh ha, fun _ => ⟨by simp, kids_new_one _ _ _ h⟩⟩

/-- What a header that parsed is made of. -/
theorem parse_for_head_ok (fuel : Nat) (sa : syntax_analyzer_t F)
    (hok : (parse_for_head_ fuel (sa_advance sa)).ok = true) :
    (parse_for_head_ fuel (sa_advance sa)).init = for_init_at fuel sa ∧
    (parse_for_head_ fuel (sa_advance sa)).cond = for_cond_at fuel sa ∧
    (parse_for_head_ fuel (sa_advance sa)).step_stmt
      = (for_step_stmt_ (for_step_ fuel (for_step_state fuel sa)).2).1 ∧
    (for_init_at fuel sa).is_some = cur_is_not (for_init_state sa) .TOK_SEMICOLON ∧
    (for_cond_at fuel sa).is_some = true ∧
    (for_step_at fuel sa).is_some = cur_is_not (for_step_state fuel sa) .TOK_RPAREN := by
  revert hok
  unfold for_init_at for_cond_at for_step_at for_step_state for_cond_state for_init_state
  unfold parse_for_head_
  dsimp only
  generalize hi : for_init_ fuel (expect_ (sa_advance sa) .TOK_LPAREN "(").2 = init
  generalize hcd : for_cond_ fuel (expect_ init.2.2 .TOK_SEMICOLON ";").2 = cond
  generalize hst : for_step_ fuel (expect_ cond.2 .TOK_SEMICOLON ";").2 = step
  have hip : init.1 = cur_is_not (expect_ (sa_advance sa) .TOK_LPAREN "(").2 .TOK_SEMICOLON := by
    rw [← hi]; rfl
  have hia : init.1 = false → init.2.1 = .nil := by
    intro h
    rw [← hi] at h ⊢
    exact for_init_absent _ _ h
  have hsp : step.1 = cur_is_not (expect_ cond.2 .TOK_SEMICOLON ";").2 .TOK_RPAREN := by
    rw [← hst]; rfl
  have hsa : step.1 = false → step.2.1 = .nil := by
    intro h
    rw [← hst] at h ⊢
    exact for_step_absent _ _ h
  have hss : step.2.1.is_some = false → (for_step_stmt_ step.2).1.is_some = false := by
    intro h
    simp [for_step_stmt_, h]
    rfl
  rw [← hip, ← hsp]
  split_ifs with h1 h2 h3 h4 h5 h6 h7 <;> intro hok
  all_goals first
    | (simp [for_head_fail] at hok; done)
    | skip
  refine ⟨rfl, rfl, rfl, ?_, by simpa using h4, ?_⟩
  · cases hb : init.1
    · rw [hia hb]; rfl
    · simpa [hb] using h2
  · cases hb : step.1
    · rw [hsa hb]; rfl
    · cases hq : step.2.1.is_some
      · have := hss hq
        simp [hb, this] at h6
      · rfl

/-- The tree that `for_assemble_` builds. -/
theorem for_assemble_shape (t : token_t F) (h : for_head F) (body : ast_node F)
    (sa : syntax_analyzer_t F) (hb : body.is_some = true) (hc : h.cond.is_some = true) :
    ∃ w b : ast_node F,
      (h.init.is_some = true →
        (for_assemble_ t h body sa).1.kind = .ASTK_BLOCK ∧
        kids (for_assemble_ t h body sa).1 = [alone h.init, w]) ∧
      (h.init.is_some = false → (for_assemble_ t h body sa).1 = w) ∧
      w.kind = .ASTK_WHILE ∧ kids w = [alone h.cond, b] ∧
      (h.step_stmt.is_some = false → b = alone body) ∧
      (h.step_stmt.is_some = true →
        b.kind = .ASTK_BLOCK ∧
        (body.kind = .ASTK_BLOCK → kids b = kids body ++ [alone h.step_stmt]) ∧
        (body.kind ≠ .ASTK_BLOCK → kids b = [alone body, alone h.step_stmt])) := by
  by_cases hs : h.step_stmt.is_some = true
  · by_cases hk : body.kind = .ASTK_BLOCK
    · refine ⟨ast_add_child (ast_add_child (ast_new .ASTK_WHILE t.pos) h.cond)
          (ast_add_child body h.step_stmt), alone (ast_add_child body h.step_stmt), ?_⟩
      refine ⟨fun hi => ?_, fun hi => ?_, by simp, ?_, fun hh => ?_, fun _ => ?_⟩
      · simp only [for_assemble_, hs, hk, hi, sa_new_fst, if_true, ne_eq, not_true_eq_false,
          if_false, Bool.not_true, Bool.false_eq_true]
        refine ⟨by simp, ?_⟩
        rw [kids_new_two _ _ _ _ hi (by simp), alone_new_two]
      · simp only [for_assemble_, hs, hk, hi, sa_new_fst, if_true, ne_eq, not_true_eq_false,
          if_false, Bool.not_false]
      · exact kids_new_two _ _ _ _ hc (by simpa using hb)
      · rw [hs] at hh; exact Bool.noConfusion hh
      · refine ⟨by simpa using hk, fun _ => ?_, fun hn => absurd hk hn⟩
        have : kids (alone (ast_add_child body h.step_stmt))
            = kids (ast_add_child body h.step_stmt) := by
          cases body <;> cases h.step_stmt <;> rfl
        rw [this, kids_add_child _ _ hb hs]
    · refine ⟨ast_add_child (ast_add_child (ast_new .ASTK_WHILE t.pos) h.cond)
          (ast_add_child (ast_add_child (ast_new .ASTK_BLOCK (node_pos body)) body) h.step_stmt),
          ast_add_child (ast_add_child (ast_new .ASTK_BLOCK (node_pos body)) body) h.step_stmt,
          ?_⟩
      refine ⟨fun hi => ?_, fun hi => ?_, by simp, ?_, fun hh => ?_, fun _ => ?_⟩
      · simp only [for_assemble_, hs, hk, hi, sa_new_fst, if_true, ne_eq, not_false_eq_true,
          if_false, Bool.not_true, Bool.false_eq_true]
        refine ⟨by simp, ?_⟩
        rw [kids_new_two _ _ _ _ hi (by simp), alone_new_two]
      · simp only [for_assemble_, hs, hk, hi, sa_new_fst, if_true, ne_eq, not_false_eq_true,
          if_false, Bool.not_false]
      · rw [kids_new_two _ _ _ _ hc (by simp), alone_new_two]
      · rw [hs] at hh; exact Bool.noConfusion hh
      · exact ⟨by simp, fun hn => absurd hn hk, fun _ => kids_new_two _ _ _ _ hb hs⟩
  · have hs' : h.step_stmt.is_some = false := by simpa using hs
    refine ⟨ast_add_child (ast_add_child (ast_new .ASTK_WHILE t.pos) h.cond) body,
      alone body, ?_⟩
    refine ⟨fun hi => ?_, fun hi => ?_, by simp, ?_, fun _ => rfl, fun hh => absurd hh hs⟩
    · simp only [for_assemble_, hs', hi, sa_new_fst, if_true, if_false, Bool.not_true,
        Bool.false_eq_true]
      refine ⟨by simp, ?_⟩
      rw [kids_new_two _ _ _ _ hi (by simp), alone_new_two]
    · simp only [for_assemble_, hs', hi, sa_new_fst, if_true, if_false, Bool.not_false,
        Bool.false_eq_true]
    · exact kids_new_two _ _ _ _ hc hb

theorem kids_alone (n : ast_node F) : kids (alone n) = kids n := by
  cases n <;> rfl

theorem for_step_stmt_absent (st : pres F) (h : st.1.is_some = false) :
    (for_step_stmt_ st).1.is_some = false := by
  simp [for_step_stmt_, h]
  rfl

/-- C14. For an accepted `highkey (init; cond; step) body` statement:
`parse_for_desugared_` returns, when an init statement is present, a BLOCK
with exactly the two children init and WHILE, and the WHILE itself otherwise.
The WHILE has exactly two children: the condition (the parsed expression, or
the integer literal 1 when it is omitted) and the loop body.  Without a step
the loop body is the parsed body statement; with a step it is a BLOCK: the body
BLOCK with the step statement appended as last child when the body is a BLOCK,
a new BLOCK with the two children body and step statement otherwise.  The step
statement is the step itself when it is an assignment and an EXPR_STMT with
the step as only child otherwise. -/
theorem for_desugaring (fuel : Nat) (sa : syntax_analyzer_t F)
    (hk : cur_kind sa = some .TOK_KW_HIGHKEY)
    (hacc : (parse_for_desugared_ (fuel + 1) sa).1.is_some = true) :
    (for_cond_at fuel sa).is_some = true ∧ (for_body_at fuel sa).is_some = true ∧
    (for_init_at fuel sa).is_some = cur_is_not (for_init_state sa) .TOK_SEMICOLON ∧
    (cur_is_not (for_cond_state fuel sa) .TOK_SEMICOLON = true →
      for_cond_at fuel sa = (parse_expr_ fuel (for_cond_state fuel sa)).1) ∧
    (cur_is_not (for_cond_state fuel sa) .TOK_SEMICOLON = false →
      for_cond_at fuel sa = int_one_at (SA_POS (cur_ (for_cond_state fuel sa)))) ∧
    (for_step_at fuel sa).is_some = cur_is_not (for_step_state fuel sa) .TOK_RPAREN ∧
    ∃ w b s : ast_node F,
      ((for_init_at fuel sa).is_some = true →
        (parse_for_desugared_ (fuel + 1) sa).1.kind = .ASTK_BLOCK ∧
        kids (parse_for_desugared_ (fuel + 1) sa).1 = [alone (for_init_at fuel sa), w]) ∧
      ((for_init_at fuel sa).is_some = false → (parse_for_desugared_ (fuel + 1) sa).1 = w) ∧
      w.kind = .ASTK_WHILE ∧ kids w = [alone (for_cond_at fuel sa), b] ∧
      ((for_step_at fuel sa).is_some = false → b = alone (for_body_at fuel sa)) ∧
      ((for_step_at fuel sa).is_some = true →
        b.kind = .ASTK_BLOCK ∧
        ((for_body_at fuel sa).kind = .ASTK_BLOCK → kids b = kids (for_body_at fuel sa) ++ [s]) ∧
        ((for_body_at fuel sa).kind ≠ .ASTK_BLOCK → kids b = [alone (for_body_at fuel sa), s]) ∧
        ((for_step_at fuel sa).kind = .ASTK_ASSIGN → s = alone (for_step_at fuel sa)) ∧
        ((for_step_at fuel sa).kind ≠ .ASTK_ASSIGN →
          s.kind = .ASTK_EXPR_STMT ∧ kids s = [alone (for_step_at fuel sa)])) := by
  obtain ⟨t, hc, hkt⟩ : ∃ t, cur_ sa = some t ∧ t.kind = .TOK_KW_HIGHKEY := by
    simp only [cur_kind, Option.map_eq_some'] at hk
    exact hk
  have hres : (parse_for_desugared_ (fuel + 1) sa).1.is_some = true →
      (parse_for_head_ fuel (sa_advance sa)).ok = true ∧
      (for_body_at fuel sa).is_some = true ∧
      (parse_for_desugared_ (fuel + 1) sa).1
        = (for_assemble_ t (parse_for_head_ fuel (sa_advance sa)) (for_body_at fuel sa)
            { (parse_statement_ fuel (for_body_state fuel sa)).2 with
              loop_depth := (parse_statement_ fuel (for_body_state fuel sa)).2.loop_depth - 1 }).1 := by
    rw [parse_for_desugared_]
    simp only [hc, hkt, ne_eq, not_true_eq_false, if_false]
    unfold for_body_at for_body_state
    by_cases hok : (parse_for_head_ fuel (sa_advance sa)).ok = true
    · by_cases hb : (parse_statement_ fuel
          { (parse_for_head_ fuel (sa_advance sa)).sa with
            loop_depth := (parse_for_head_ fuel (sa_advance sa)).sa.loop_depth + 1 }).1.is_some
          = true
      · simp only [hok, hb, Bool.not_true, Bool.false_eq_true, if_false]
        exact fun _ => ⟨trivial, trivial, trivial⟩
      · have hb' : (parse_statement_ fuel
            { (parse_for_head_ fuel (sa_advance sa)).sa with
              loop_depth := (parse_for_head_ fuel (sa_advance sa)).sa.loop_depth + 1 }).1.is_some
            = false := by simpa using hb
        simp only [hok, hb', Bool.not_true, Bool.false_eq_true, if_false, Bool.not_false,
          if_true]
        intro h
        simp [ast_node.is_some] at h
    · have hok' : (parse_for_head_ fuel (sa_advance sa)).ok = false := by simpa using hok
      simp only [hok', Bool.not_false, if_true]
      intro h
      simp [ast_node.is_some] at h
  obtain ⟨hok, hb, hr⟩ := hres hacc
  obtain ⟨e1, e2, e3, e4, e5, e6⟩ := parse_for_head_ok fuel sa hok
  have hstep : (parse_for_head_ fuel (sa_advance sa)).step_stmt.is_some
      = (for_step_at fuel sa).is_some := by
    rw [e3]
    cases hq : (for_step_at fuel sa).is_some
    · exact for_step_stmt_absent _ hq
    · exact (for_step_stmt_shape fuel _ hq).1
  obtain ⟨w, b, s1, s2, s3, s4, s5, s6⟩ := for_assemble_shape t
    (parse_for_head_ fuel (sa_advance sa)) (for_body_at fuel sa)
    { (parse_statement_ fuel (for_body_state fuel sa)).2 with
      loop_depth := (parse_statement_ fuel (for_body_state fuel sa)).2.loop_depth - 1 }
    hb (by rw [e2]; exact e5)
  rw [← hr, e1] at s1 s2
  rw [e2] at s4
  rw [hstep] at s5 s6
  refine ⟨e5, hb, e4, fun h => ?_, fun h => ?_, e6, w, b,
    alone (parse_for_head_ fuel (sa_advance sa)).step_stmt, s1, s2, s3, s4, s5, fun h => ?_⟩
  · unfold for_cond_at
    rw [for_cond_given _ _ h]
  · exact for_cond_omitted _ _ h
  · obtain ⟨q1, q2, q3⟩ := s6 h
    obtain ⟨_, r2, r3⟩ := for_step_stmt_shape fuel (for_step_state fuel sa) h
    refine ⟨q1, q2, q3, fun ha => ?_, fun ha => ?_⟩
    · rw [e3, r2 ha]
      rfl
    · rw [e3, alone_kind, kids_alone]
      exact r3 ha

theorem for_desugaring_witness :
    cur_kind (sa_of_source src_for) = some .TOK_KW_HIGHKEY ∧
    (parse_for_desugared_ 41 (sa_of_source src_for)).1.is_some = true ∧
    (for_init_at 40 (sa_of_source src_for)).is_some
      = cur_is_not (for_init_state (sa_of_source src_for)) .TOK_SEMICOLON :=
  ⟨by decide!, by decide!,
   (for_desugaring 40 (sa_of_source src_for) (by decide!) (by decide!)).2.2.1⟩

end shape_thms

section if_thms
variable {F : Type}

theorem omega_loop_eq : ∀ (fuel : Nat) (brs : List (ast_node F × ast_node F × token_pos_t))
    (sa : syntax_analyzer_t F),
    (parse_omega_loop_ fuel brs sa).1 = (omega_branches fuel sa).map (fun l => brs ++ l)
  | 0, brs, sa => by
    rw [parse_omega_loop_, omega_branches]
    rfl
  | fuel + 1, brs, sa => by
    rw [parse_omega_loop_, omega_branches]
    split
    · simp
    · rename_i t _
      dsimp only
      split_ifs <;>
        first
        | rfl
        | (simp; done)
        | (rw [omega_loop_eq fuel]
           cases omega_branches fuel _ <;> simp)

theorem omega_branches_some : ∀ (fuel : Nat) (sa : syntax_analyzer_t F)
    (l : List (ast_node F × ast_node F × token_pos_t)), omega_branches fuel sa = some l →
    ∀ b ∈ l, b.1.is_some = true ∧ b.2.1.is_some = true
  | 0, sa, l => by
    rw [omega_branches]
    intro h
    exact Option.noConfusion h
  | fuel + 1, sa, l => by
    rw [omega_branches]
    split
    · intro h b hb
      cases h
      exact absurd hb (List.not_mem_nil b)
    · rename_i t _
      dsimp only
      split_ifs with h1 h2 h3 h4 h5
      · intro h b hb
        cases h
        exact absurd hb (List.not_mem_nil b)
      · intro h; cases h
      · intro h; cases h
      · intro h; cases h
      · intro h; cases h
      · intro h b hb
        simp only [Option.map_eq_some'] at h
        obtain ⟨rest, hr, rfl⟩ := h
        rcases List.mem_cons.mp hb with rfl | hb'
        · exact ⟨by simpa using h3, by simpa using h5⟩
        · exact omega_branches_some fuel _ rest hr b hb'

/-- The chain that `build_branches` puts in front of a tail. -/
theorem build_branches_shape (els : ast_node F) :
    ∀ (l suffix : List (ast_node F × ast_node F × token_pos_t)) (tail : ast_node F)
      (sa : syntax_analyzer_t F),
      (∀ b ∈ l, b.1.is_some = true ∧ b.2.1.is_some = true) → tail.right = .nil →
      chain_shape suffix els tail →
      chain_shape (l.reverse ++ suffix) els (build_branches l tail sa).1 ∧
        (build_branches l tail sa).1.right = .nil
  | [], suffix, tail, sa, _, hr, hs => by
    simpa [build_branches] using ⟨hs, hr⟩
  | (c, s, pos) :: rest, suffix, tail, sa, hl, hr, hs => by
    rw [build_branches]
    have hc : c.is_some = true := (hl _ (List.mem_cons_self _ _)).1
    have hst : s.is_some = true := (hl _ (List.mem_cons_self _ _)).2
    have hrest : ∀ b ∈ rest, b.1.is_some = true ∧ b.2.1.is_some = true :=
      fun b hb => hl b (List.mem_cons_of_mem _ hb)
    have key : chain_shape ((c, s, pos) :: suffix) els
        (if tail.is_some = true
          then ast_add_child (ast_add_child (ast_add_child (ast_new .ASTK_BRANCH pos) c) s) tail
          else ast_add_child (ast_add_child (ast_new .ASTK_BRANCH pos) c) s) := by
      refine ⟨?_, tail, hs, ?_⟩
      · split_ifs <;> simp
      · by_cases ht : tail.is_some = true
        · simp only [ht, if_true]
          rw [kids_add_child _ _ (by simp) ht, kids_new_two _ _ _ _ hc hst,
            alone_of_right_nil _ hr]
        · have ht' : tail.is_some = false := by simpa using ht
          simp only [ht', Bool.false_eq_true, if_false]
          rw [kids_new_two _ _ _ _ hc hst]
          simp
    have hright : (if tail.is_some = true
          then ast_add_child (ast_add_child (ast_add_child (ast_new .ASTK_BRANCH pos) c) s) tail
          else ast_add_child (ast_add_child (ast_new .ASTK_BRANCH pos) c) s).right = .nil := by
      split_ifs <;> simp
    have ih := build_branches_shape els rest ((c, s, pos) :: suffix) _
      (sa_new sa .ASTK_BRANCH pos).2 hrest hright key
    simpa [List.reverse_cons, List.append_assoc] using ih

/-- What `if_tail_` yields when parsing goes on. -/
theorem if_tail_shape (stmt : syntax_analyzer_t F → pres F) (sa : syntax_analyzer_t F)
    (h : (if_tail_ stmt sa).1 = true) :
    (if_tail_ stmt sa).2.1.right = .nil ∧
    (cur_is sa .TOK_KW_SIGMA = true →
      (stmt (sa_advance sa)).1.is_some = true ∧
      (if_tail_ stmt sa).2.1.kind = .ASTK_ELSE ∧
      kids (if_tail_ stmt sa).2.1 = [alone (stmt (sa_advance sa)).1]) ∧
    (cur_is sa .TOK_KW_SIGMA = false → (if_tail_ stmt sa).2.1 = .nil) := by
  revert h
  unfold if_tail_ cur_is cur_kind
  cases hc : cur_ sa with
  | none => intro _; simp [ast_node.right]
  | some ts =>
    dsimp only
    by_cases hk : ts.kind = .TOK_KW_SIGMA
    · by_cases hb : (stmt (sa_advance sa)).1.is_some = true
      · simp only [hk, hb, ne_eq, not_true_eq_false, if_false, Bool.not_true,
          Bool.false_eq_true, Option.map_some', decide_True]
        intro _
        exact ⟨by simp, fun _ => ⟨trivial, by simp, kids_new_one _ _ _ hb⟩,
          (fun h => Bool.noConfusion h)⟩
      · have hb' : (stmt (sa_advance sa)).1.is_some = false := by simpa using hb
        simp only [hk, hb', ne_eq, not_true_eq_false, if_false, Bool.not_false, if_true]
        intro h
        exact Bool.noConfusion h
    · simp only [hk, ne_eq, not_false_eq_true, if_true, Option.map_some', Option.some.injEq,
        decide_False]
      intro _
      exact ⟨rfl, (fun h => Bool.noConfusion h), fun _ => trivial⟩

theorem if_tail_fail (stmt : syntax_analyzer_t F → pres F) (sa : syntax_analyzer_t F)
    (h : (if_tail_ stmt sa).1 = false) : (if_tail_ stmt sa).2.1 = .nil := by
  revert h
  unfold if_tail_
  split
  · intro _; rfl
  · dsimp only
    split_ifs <;> intro h <;> first
      | rfl
      | cases h

/-- The tree that `if_assemble_` builds. -/
theorem if_assemble_shape (t : token_t F) (cond then_st : ast_node F)
    (branches : List (ast_node F × ast_node F × token_pos_t)) (tail : pres F)
    (hc : cond.is_some = true) (ht : then_st.is_some = true)
    (hb : ∀ b ∈ branches, b.1.is_some = true ∧ b.2.1.is_some = true)
    (hr : tail.1.right = .nil) :
    ∃ ch : ast_node F, chain_shape branches tail.1 ch ∧
      (if_assemble_ t cond then_st branches tail).1.kind = .ASTK_IF ∧
      kids (if_assemble_ t cond then_st branches tail).1
        = [alone cond, alone then_st] ++ (if ch.is_some then [ch] else []) := by
  obtain ⟨s1, s2⟩ := build_branches_shape tail.1 branches.reverse [] tail.1 tail.2
    (fun b hb' => hb b (List.mem_reverse.mp hb')) hr rfl
  simp only [List.reverse_reverse, List.append_nil] at s1
  refine ⟨(build_branches branches.reverse tail.1 tail.2).1, s1, ?_, ?_⟩
  · unfold if_assemble_
    dsimp only
    split_ifs <;> simp
  · unfold if_assemble_
    dsimp only
    by_cases hch : (build_branches branches.reverse tail.1 tail.2).1.is_some = true
    · simp only [hch, if_true, sa_new_fst]
      rw [kids_add_child _ _ (by simp) hch, kids_new_two _ _ _ _ hc ht,
        alone_of_right_nil _ s2]
    · have hch' : (build_branches branches.reverse tail.1 tail.2).1.is_some = false := by
        simpa using hch
      simp only [hch', Bool.false_eq_true, if_false, sa_new_fst]
      rw [kids_new_two _ _ _ _ hc ht]
      simp

/-- C15. For an accepted `alpha` statement with its `omega` branches (in
source order) and an optional `sigma` branch: `parse_if_` returns an IF node
whose children are the condition, the then-statement and, if there is one, the
chain of the branches.  The chain of no branches is the ELSE node when `sigma`
is present, and absent otherwise; the chain of branches is the first BRANCH,
whose children are its condition, its statement and, if there is one, the
chain of the branches after it.  The ELSE node has the statement after `sigma`
as its only child. -/
theorem if_chain (fuel : Nat) (sa : syntax_analyzer_t F)
    (hk : cur_kind sa = some .TOK_KW_ALPHA)
    (hacc : (parse_if_ (fuel + 1) sa).1.is_some = true) :
    (if_cond_at fuel sa).is_some = true ∧ (if_then_at fuel sa).is_some = true ∧
    ∃ (brs : List (ast_node F × ast_node F × token_pos_t)) (els ch : ast_node F),
      omega_branches fuel (if_omega_state fuel sa) = some brs ∧
      (∀ b ∈ brs, b.1.is_some = true ∧ b.2.1.is_some = true) ∧
      (cur_is (if_sigma_state fuel sa) .TOK_KW_SIGMA = true →
        (if_else_at fuel sa).is_some = true ∧ els.kind = .ASTK_ELSE ∧
        kids els = [alone (if_else_at fuel sa)]) ∧
      (cur_is (if_sigma_state fuel sa) .TOK_KW_SIGMA = false → els = .nil) ∧
      chain_shape brs els ch ∧
      (parse_if_ (fuel + 1) sa).1.kind = .ASTK_IF ∧
      kids (parse_if_ (fuel + 1) sa).1
        = [alone (if_cond_at fuel sa), alone (if_then_at fuel sa)]
            ++ (if ch.is_some then [ch] else []) := by
  obtain ⟨t, hc, hkt⟩ : ∃ t, cur_ sa = some t ∧ t.kind = .TOK_KW_ALPHA := by
    simp only [cur_kind, Option.map_eq_some'] at hk
    exact hk
  unfold if_cond_at if_then_at if_else_at if_sigma_state if_omega_state if_then_state
    if_cond_state
  revert hacc
  rw [parse_if_]
  simp only [hc]
  split_ifs with h0 h1 h2 h3 h4 h5
  · exact absurd hkt h0
  · intro h; simp [ast_node.is_some] at h
  · intro h; simp [ast_node.is_some] at h
  · intro h; simp [ast_node.is_some] at h
  · intro h; simp [ast_node.is_some] at h
  · have htl' : (if_tail_ (parse_statement_ fuel) (parse_omega_loop_ fuel []
        (parse_statement_ fuel (expect_ (parse_expr_ fuel
          (expect_ (sa_advance sa) .TOK_LPAREN "(").2).2 .TOK_RPAREN ")").2).2).2).1 = false := by
      simpa using h5
    split
    · intro h; simp [ast_node.is_some] at h
    · intro h
      rw [if_tail_fail _ _ htl'] at h
      simp [ast_node.is_some] at h
  · have hcs : (parse_expr_ fuel (expect_ (sa_advance sa) .TOK_LPAREN "(").2).1.is_some = true := by
      simpa using h2
    have hts : (parse_statement_ fuel (expect_ (parse_expr_ fuel
        (expect_ (sa_advance sa) .TOK_LPAREN "(").2).2 .TOK_RPAREN ")").2).1.is_some = true := by
      simpa using h4
    have htl : (if_tail_ (parse_statement_ fuel) (parse_omega_loop_ fuel []
        (parse_statement_ fuel (expect_ (parse_expr_ fuel
          (expect_ (sa_advance sa) .TOK_LPAREN "(").2).2 .TOK_RPAREN ")").2).2).2).1 = true := by
      simpa using h5
    have hom := omega_loop_eq fuel [] (parse_statement_ fuel (expect_ (parse_expr_ fuel
        (expect_ (sa_advance sa) .TOK_LPAREN "(").2).2 .TOK_RPAREN ")").2).2
    split
    · intro h; simp [ast_node.is_some] at h
    · rename_i branches hbr
      rw [hbr] at hom
      have hob : omega_branches fuel (parse_statement_ fuel (expect_ (parse_expr_ fuel
          (expect_ (sa_advance sa) .TOK_LPAREN "(").2).2 .TOK_RPAREN ")").2).2
          = some branches := by
        cases hq : omega_branches fuel (parse_statement_ fuel (expect_ (parse_expr_ fuel
          (expect_ (sa_advance sa) .TOK_LPAREN "(").2).2 .TOK_RPAREN ")").2).2 with
        | none => rw [hq] at hom; simp at hom
        | some l => rw [hq] at hom; simp at hom; rw [hom]
      have hbs := omega_branches_some fuel _ branches hob
      intro _
      obtain ⟨t1, t2, t3⟩ := if_tail_shape _ _ htl
      obtain ⟨ch, c1, c2, c3⟩ := if_assemble_shape t _ _ branches
        (if_tail_ (parse_statement_ fuel) (parse_omega_loop_ fuel []
          (parse_statement_ fuel (expect_ (parse_expr_ fuel
            (expect_ (sa_advance sa) .TOK_LPAREN "(").2).2 .TOK_RPAREN ")").2).2).2).2
        hcs hts hbs t1
      exact ⟨hcs, hts, branches, _, ch, hob, hbs, t2, t3, c1, c2, c3⟩

theorem if_chain_witness :
    cur_kind sa_if = some .TOK_KW_ALPHA ∧ (parse_if_ 41 sa_if).1.is_some = true ∧
    (if_cond_at 40 sa_if).is_some = true :=
  ⟨by decide!, by decide!, (if_chain 40 sa_if (by decide!) (by decide!)).1⟩

end if_thms

/-- C5. The unparser does not round-trip: for the accepted program returning
`(2 ^ 3) ^ 2` it writes `2 ^ 3 ^ 2`, which parses to the tree of `2 ^ (3 ^ 2)`;
for the accepted program with the statement `"a";` it writes `"97";`, a string
of two characters.  In both cases the text parses, and the tree is not
structurally equivalent to the one that was written (whereas the program
returning `2 ^ (3 ^ 2)` does round-trip). -/
theorem unparse_not_roundtrip :
    ((frontend exact_ops 64 src_pow_left).1 = err_t.OK ∧
      rot_of src_pow_left = (err_t.OK, "npc main()\nyap\n\tmicdrop 2 ^ 3 ^ 2;\nyapity\n\n") ∧
      (reparsed src_pow_left).1 = err_t.OK ∧ rot_roundtrip src_pow_left = false) ∧
    ((frontend exact_ops 64 src_str_stmt).1 = err_t.OK ∧
      rot_of src_str_stmt
        = (err_t.OK, "npc main()\nyap\n\t\"97\";\n\tmicdrop 0;\nyapity\n\n") ∧
      (reparsed src_str_stmt).1 = err_t.OK ∧ rot_roundtrip src_str_stmt = false) ∧
    rot_roundtrip src_pow_right = true := by
  decide!

/-- C3. The S-expression round trip does not keep the tree: for the accepted
program `npc main() yap micdrop 0; yapity` the text is read back without
error, but the writer prints no semantic type and the tree read back has type
`unknown` on the FUNC node, which the parser typed `int`, so the two trees are
not equivalent once types are compared (they are when types are left aside);
for the accepted program with the statement `"a";` the writer prints only the
length of the string, and the tree read back differs from the written one
even with types left aside. -/
theorem sexpr_roundtrip_not_equivalent :
    ((frontend exact_ops 64 src_return_zero).1 = err_t.OK ∧
      (reread src_return_zero).1 = err_t.OK ∧
      (ast_child (frontend exact_ops 64 src_return_zero).2.1 0).type = .AST_TYPE_INT ∧
      (ast_child (reread src_return_zero).2.1 0).type = .AST_TYPE_UNKNOWN ∧
      east_roundtrip true src_return_zero = false ∧
      east_roundtrip false src_return_zero = true) ∧
    ((frontend exact_ops 64 src_str_stmt).1 = err_t.OK ∧
      (reread src_str_stmt).1 = err_t.OK ∧
      east_roundtrip false src_str_stmt = false) := by
  decide!

/-! ## Theorems: calls under optimization, types and errors in the code generator -/

/-- C26. The optimizer removes a call: in the tree of the accepted program
`npc main() yap micdrop in() * 0; yapity` the sequence of `CALL` nodes is the
single call of `in`; in the tree returned by `ast_optimize` it is empty. -/
theorem optimizer_removes_call :
    (frontend exact_ops 64 src_in_times_zero).1 = err_t.OK ∧
    call_names (frontend exact_ops 64 src_in_times_zero).2.2
      (frontend exact_ops 64 src_in_times_zero).2.1 = ["in"] ∧
    call_names (frontend exact_ops 64 src_in_times_zero).2.2
      (ast_optimize exact_ops (frontend exact_ops 64 src_in_times_zero).2.1) = [] := by
  decide!

/-- C27. The type inferred for an arithmetic `BINARY` node is read from its
first operand and from its next sibling, not from its second operand: `1 + x`
with a float literal `x` and no sibling is inferred `unknown`, and `1 + 2`
followed by a float sibling is inferred `float`. -/
theorem infer_type_reads_sibling {F : Type} (be : backend_t) (x : F) (pn pl pr ps : token_pos_t)
    (i j : Int) :
    be_infer_expr_type_ be
      (lit_bin_node .TOK_OP_PLUS pn pl pr .AST_TYPE_UNKNOWN .AST_TYPE_INT .AST_TYPE_FLOAT
        (.LIT_INT i) (.LIT_FLOAT x) .nil) = .AST_TYPE_UNKNOWN ∧
    be_infer_expr_type_ be
      (lit_bin_node .TOK_OP_PLUS pn pl pr .AST_TYPE_UNKNOWN .AST_TYPE_INT .AST_TYPE_INT
        (.LIT_INT i) (.LIT_INT j) (lit_node ps .AST_TYPE_FLOAT (.LIT_FLOAT x) .nil))
      = .AST_TYPE_FLOAT := by
  constructor <;> rfl

/-- The code emitted for `(1 + 5/2) + 1`: the float sum is truncated by `FTOI`
and the whole is an integer addition. -/
theorem sum_int_float_int_truncated :
    (be_emit_expr_ exact_ops (backend_init nametable_ctor) sum_int_float_int).rc = err_t.OK ∧
    (be_emit_expr_ exact_ops (backend_init nametable_ctor) sum_int_float_int).out_type
      = .AST_TYPE_INT ∧
    (be_emit_expr_ exact_ops (backend_init nametable_ctor) sum_int_float_int).be.out
      = ["PUSH 1", "ITOF", "PUSH 5/2", "FADD", "FTOI", "PUSH 1", "ADD"] := by
  decide!

/-- C22. A return does not coerce: for the accepted program
`homie main() yap micdrop 1 / 0; yapity` the code generator succeeds and the
value popped into `fx0` is produced by `PUSH 1`, `PUSH 0`, `DIV`; no `ITOF` and
no `FDIV` is emitted. -/
theorem return_emits_no_coercion :
    (frontend exact_ops 64 src_ret_div).1 = err_t.OK ∧
    (asm_of src_ret_div).1 = err_t.OK ∧
    ((asm_of src_ret_div).2.out.drop 20).take 5
      = ["PUSH 1", "PUSH 0", "DIV", "FPOPR fx0", "JMP :L_fn_end_0"] ∧
    "ITOF" ∉ (asm_of src_ret_div).2.out ∧ "FDIV" ∉ (asm_of src_ret_div).2.out := by
  decide!

/-- C25. The code generator does not keep the first error: for the accepted
program `npc main() yap out("a"); micdrop 0; yapity` the emission of the
argument records `Backend: unsupported expr kind STR_LIT` at offset 19, and
`backend_emit_asm` returns with the message `bad arg` at offset 15, recorded
after it. -/
theorem backend_error_overwritten :
    (frontend exact_ops 64 src_out_str).1 = err_t.OK ∧
    str_arg_node ∈ nodes (frontend exact_ops 64 src_out_str).2.1 ∧
    (be_emit_expr_ exact_ops (backend_init (frontend exact_ops 64 src_out_str).2.2)
        str_arg_node).be.error_msg
      = "Backend: unsupported expr kind STR_LIT at 1:20 (offset: 19)" ∧
    (asm_of src_out_str).1 = err_t.ERR_SYNTAX ∧
    (asm_of src_out_str).2.error_msg = "bad arg at 1:16 (offset: 15)" ∧
    (asm_of src_out_str).2.error_pos = 15 := by
  decide!

/-! ## Theorems: folding of literals -/

section fold_literals
variable {F : Type}

theorem wrap64_modeq (x : Int) : wrap64 x ≡ x [ZMOD 2 ^ 64] := by
  unfold wrap64
  have h : (x + 2 ^ 63) % 2 ^ 64 ≡ x + 2 ^ 63 [ZMOD 2 ^ 64] := Int.mod_modEq _ _
  have h2 := h.sub_right (2 ^ 63)
  simpa using h2

theorem wrap64_congr {x y : Int} (h : x ≡ y [ZMOD 2 ^ 64]) : wrap64 x = wrap64 y := by
  unfold wrap64
  have h2 : (x + 2 ^ 63) % 2 ^ 64 = (y + 2 ^ 63) % 2 ^ 64 := h.add_right (2 ^ 63)
  rw [h2]

theorem wrap64_wrap64 (x : Int) : wrap64 (wrap64 x) = wrap64 x :=
  wrap64_congr (wrap64_modeq x)

/-- The loop of `ipow_ok_` returns a value of `i64_t` when it starts from one. -/
theorem ipow_loop_wrapped (fuel : Nat) (res b e : Int) (h : wrap64 res = res) :
    wrap64 (ipow_loop fuel res b e) = ipow_loop fuel res b e := by
  induction fuel generalizing res b e with
  | zero => simpa [ipow_loop] using h
  | succ n ih =>
    unfold ipow_loop
    split
    · apply ih
      split
      · exact wrap64_wrap64 _
      · exact h
    · exact h

/-- The loop of `ipow_ok_` multiplies `res` by `b ^ e`, modulo `2 ^ 64`. -/
theorem ipow_loop_modeq (fuel : Nat) (res b e : Int) (h0 : 0 ≤ e) (hf : e < 2 ^ fuel) :
    ipow_loop fuel res b e ≡ res * b ^ e.toNat [ZMOD 2 ^ 64] := by
  induction fuel generalizing res b e with
  | zero =>
    have he : e = 0 := by
      have : e < 1 := by simpa using hf
      omega
    subst he
    simp [ipow_loop, Int.ModEq]
  | succ n ih =>
    unfold ipow_loop
    by_cases hpos : e > 0
    · simp only [hpos, if_true]
      have he1 : 0 ≤ e / 2 := by omega
      have he2 : e / 2 < 2 ^ n := by
        have : e < 2 ^ n * 2 := by simpa [pow_succ] using hf
        omega
      have hdecomp : e.toNat = 2 * (e / 2).toNat + (e % 2).toNat := by omega
      have hpow : b ^ e.toNat = (b * b) ^ (e / 2).toNat * b ^ (e % 2).toNat := by
        rw [hdecomp, pow_add, pow_mul, pow_two]
      have hb1 : (if e / 2 ≠ 0 then wrap64 (b * b) else b) ^ (e / 2).toNat
          ≡ (b * b) ^ (e / 2).toNat [ZMOD 2 ^ 64] := by
        by_cases hz : e / 2 = 0
        · simp [hz]
        · simp only [hz, ne_eq, not_false_eq_true, if_true]
          exact (wrap64_modeq _).pow _
      have hres : (if e % 2 = 1 then wrap64 (res * b) else res)
          ≡ res * b ^ (e % 2).toNat [ZMOD 2 ^ 64] := by
        by_cases ho : e % 2 = 1
        · simp only [ho, if_true]
          simpa using wrap64_modeq (res * b)
        · have hz : e % 2 = 0 := by omega
          simp [hz]
      refine (ih _ _ _ he1 he2).trans ?_
      rw [hpow]
      have := hres.mul hb1
      refine this.trans ?_
      rw [mul_assoc, mul_comm (b ^ (e % 2).toNat)]
    · have he : e = 0 := by omega
      subst he
      simp [ipow_loop, Int.ModEq]

/-- C29. Integer power by squaring: for every base `b` and every exponent `e`
of `i64_t`, `ipow_ok_` returns `b ^ e` reduced into `i64_t` when `e ≥ 0` and
fails when `e < 0`; and `ast_optimize` turns `BINARY(^, b, e)` of two int
literals with `e ≥ 2` and `b ≠ 1` into the int literal of that value, in the
place of the node. -/
theorem ipow_by_squaring (ops : f64_ops F) (b e : Int) (he : e < 2 ^ 63)
    (pn pl pr : token_pos_t) (tn tl tr : ast_type_t) (sib : ast_node F) :
    (0 ≤ e → ipow_ok_ b e = some (wrap64 (b ^ e.toNat))) ∧
    (e < 0 → ipow_ok_ b e = none) ∧
    (2 ≤ e → b ≠ 1 →
      ast_optimize ops (lit_bin_node .TOK_OP_POW pn pl pr tn tl tr (.LIT_INT b) (.LIT_INT e) sib)
        = lit_node pn .AST_TYPE_INT (.LIT_INT (wrap64 (b ^ e.toNat))) (ast_optimize ops sib)) := by
  have key : 0 ≤ e → ipow_ok_ b e = some (wrap64 (b ^ e.toNat)) := by
    intro h0
    have hf : e < 2 ^ 64 := by omega
    have h1 := ipow_loop_modeq 64 1 b e h0 hf
    have h2 := ipow_loop_wrapped 64 1 b e (by decide)
    have h3 := wrap64_congr h1
    rw [h2, one_mul] at h3
    simp [ipow_ok_, not_lt.mpr h0, h3]
  refine ⟨key, ?_, ?_⟩
  · intro hneg
    simp [ipow_ok_, hneg]
  · intro h2 hb
    have h0 : 0 ≤ e := by omega
    have hk := key h0
    have hne0 : e ≠ 0 := by omega
    have hne1 : e ≠ 1 := by omega
    simp [ast_optimize, lit_bin_node, lit_node, optimize_chain_, optimize_node_,
      optimize_binary_, optimize_fold_, child_, ast_child, sibling_at, ast_node.left,
      ast_node.is_some, is_num_lit_, lit_is_float, lit_is_int, ast_payload.lit, ast_payload.op,
      as_i64_, ast_node.lit, ast_node.set_right, is_zero_, is_one_, make_num_int_, hne0, hne1,
      hb, hk]

/-- C29 (witness): `3 ^ 5` and `3 ^ (-1)`. -/
theorem ipow_by_squaring_witness :
    ipow_ok_ 3 5 = some (wrap64 (3 ^ (5 : Int).toNat)) ∧ ipow_ok_ 3 (-1) = none ∧
    ast_optimize exact_ops (lit_bin_node .TOK_OP_POW ⟨1, 3, 2⟩ ⟨1, 1, 0⟩ ⟨1, 5, 4⟩
        .AST_TYPE_UNKNOWN .AST_TYPE_INT .AST_TYPE_INT (.LIT_INT 3) (.LIT_INT 5) .nil)
      = lit_node ⟨1, 3, 2⟩ .AST_TYPE_INT (.LIT_INT (wrap64 (3 ^ (5 : Int).toNat)))
        (ast_optimize exact_ops .nil) :=
  ⟨(ipow_by_squaring exact_ops 3 5 (by decide) ⟨1, 3, 2⟩ ⟨1, 1, 0⟩ ⟨1, 5, 4⟩
      .AST_TYPE_UNKNOWN .AST_TYPE_INT .AST_TYPE_INT .nil).1 (by decide),
   (ipow_by_squaring exact_ops 3 (-1) (by decide) ⟨1, 3, 2⟩ ⟨1, 1, 0⟩ ⟨1, 5, 4⟩
      .AST_TYPE_UNKNOWN .AST_TYPE_INT .AST_TYPE_INT .nil).2.1 (by decide),
   (ipow_by_squaring exact_ops 3 5 (by decide) ⟨1, 3, 2⟩ ⟨1, 1, 0⟩ ⟨1, 5, 4⟩
      .AST_TYPE_UNKNOWN .AST_TYPE_INT .AST_TYPE_INT .nil).2.2 (by decide) (by decide)⟩

/-- C21. Folding does not always promote: `ast_optimize` turns `a + z`, with
an int literal `a` and a float literal `z` that compares equal to `0.0`, into
the int literal `a` (the left operand put in the place of the node), not into
a float literal. -/
theorem add_float_zero_yields_int (ops : f64_ops F) (a : Int) (z : F)
    (hz : ops.eq z (ops.of_i64 0) = true)
    (pn pl pr : token_pos_t) (tn tl tr : ast_type_t) (sib : ast_node F) :
    ast_optimize ops (lit_bin_node .TOK_OP_PLUS pn pl pr tn tl tr (.LIT_INT a) (.LIT_FLOAT z) sib)
      = lit_node pl tl (.LIT_INT a) (ast_optimize ops sib) := by
  simp [ast_optimize, lit_bin_node, lit_node, optimize_chain_, optimize_node_,
    optimize_binary_, child_, ast_child, sibling_at, ast_node.left,
    ast_node.is_some, is_num_lit_, ast_payload.lit, ast_payload.op,
    ast_node.lit, ast_node.set_right, is_zero_, replace_with_, hz]

/-- C21 (witness): `5 + 0.0` over the reference arithmetic. -/
theorem add_float_zero_yields_int_witness :
    ast_optimize exact_ops (lit_bin_node .TOK_OP_PLUS ⟨1, 3, 2⟩ ⟨1, 1, 0⟩ ⟨1, 5, 4⟩
        .AST_TYPE_UNKNOWN .AST_TYPE_INT .AST_TYPE_FLOAT (.LIT_INT 5) (.LIT_FLOAT 0) .nil)
      = lit_node ⟨1, 1, 0⟩ .AST_TYPE_INT (.LIT_INT 5) (ast_optimize exact_ops .nil) :=
  add_float_zero_yields_int exact_ops 5 0 (by decide) _ _ _ _ _ _ _

/-- C28. Comparison folding goes through `double`: when two int literals `a`
and `b` convert to the same double, `ast_optimize` turns `a == b` into the int
literal `1`, also when `a ≠ b`.  The double is assumed to compare equal to
itself. -/
theorem eq_fold_through_double (ops : f64_ops F) (a b : Int)
    (hab : ops.of_i64 a = ops.of_i64 b)
    (hrefl : ops.eq (ops.of_i64 b) (ops.of_i64 b) = true)
    (pn pl pr : token_pos_t) (tn tl tr : ast_type_t) (sib : ast_node F) :
    ast_optimize ops (lit_bin_node .TOK_OP_EQ pn pl pr tn tl tr (.LIT_INT a) (.LIT_INT b) sib)
      = lit_node pn .AST_TYPE_INT (.LIT_INT 1) (ast_optimize ops sib) := by
  simp [ast_optimize, lit_bin_node, lit_node, optimize_chain_, optimize_node_,
    optimize_binary_, optimize_fold_, child_, ast_child, sibling_at, ast_node.left,
    ast_node.is_some, is_num_lit_, ast_payload.lit, ast_payload.op, as_f64_,
    ast_node.lit, ast_node.set_right, make_num_int_, bool_i64, hab, hrefl]

/-- The conversion of `2 ^ 53 + 1` to `double` is `2 ^ 53`. -/
theorem round53_example : round53 (2 ^ 53 + 1) = 2 ^ 53 ∧ round53 (2 ^ 53) = 2 ^ 53 := by
  decide

/-- C28 (witness): `9007199254740993 == 9007199254740992` folds to `1` when
the conversion to `double` rounds to 53 bits. -/
theorem eq_fold_through_double_witness :
    (2 ^ 53 + 1 : Int) ≠ 2 ^ 53 ∧
    ast_optimize rounding_ops (lit_bin_node .TOK_OP_EQ ⟨1, 18, 17⟩ ⟨1, 1, 0⟩ ⟨1, 21, 20⟩
        .AST_TYPE_UNKNOWN .AST_TYPE_INT .AST_TYPE_INT (.LIT_INT (2 ^ 53 + 1)) (.LIT_INT (2 ^ 53))
        .nil)
      = lit_node ⟨1, 18, 17⟩ .AST_TYPE_INT (.LIT_INT 1) (ast_optimize rounding_ops .nil) :=
  ⟨by decide, eq_fold_through_double rounding_ops (2 ^ 53 + 1) (2 ^ 53)
    (by
      show ((round53 (2 ^ 53 + 1) : Int) : ℚ) = ((round53 (2 ^ 53) : Int) : ℚ)
      rw [round53_example.1, round53_example.2])
    (by
      show decide (((round53 (2 ^ 53) : Int) : ℚ) = ((round53 (2 ^ 53) : Int) : ℚ)) = true
      simp) _ _ _ _ _ _ _⟩

end fold_literals

/-! ## Theorems: neutral-element rewrites and the child list -/

section neutral_rewrites
variable {F : Type}

theorem chain_list_set_right (x r : ast_node F) (h : x ≠ .nil) :
    chain_list (x.set_right r) = x.set_right r :: chain_list r := by
  cases x with
  | nil => exact absurd rfl h
  | node k p t u l r0 => rfl

theorem optimize_one_ne_nil (ops : f64_ops F) (n : ast_node F) (h : n ≠ .nil) :
    optimize_one_ ops n ≠ .nil := by
  cases n with
  | nil => exact absurd rfl h
  | node k p t u l r => exact optimize_node_ne_nil ops _ _ _ _ _ _

theorem optimize_one_right (ops : f64_ops F) (n : ast_node F) :
    (optimize_one_ ops n).right = n.right := by
  cases n with
  | nil => rfl
  | node k p t u l r => exact optimize_node_right ops _

/-- The chain returned by `optimize_chain_`, node by node: each node of the
chain rewritten by `optimize_one_`, linked to the optimized chain behind it. -/
theorem chain_list_optimize (ops : f64_ops F) (c : ast_node F) :
    chain_list (optimize_chain_ ops c)
      = (chain_list c).map
          (fun m => (optimize_one_ ops m).set_right (optimize_chain_ ops m.right)) := by
  induction c with
  | nil => rfl
  | node k p t u l r _ ihr =>
    rw [optimize_chain_eq, optimize_one_right,
      chain_list_set_right _ _ (optimize_one_ne_nil ops _ (fun e => by cases e))]
    show _ :: chain_list (optimize_chain_ ops r) = _ :: _
    rw [ihr]

theorem is_zero_set_right (ops : f64_ops F) (z r : ast_node F) :
    is_zero_ ops (z.set_right r) = is_zero_ ops z := by
  cases z with
  | nil => rfl
  | node k p t u l r0 =>
    cases k <;> simp [is_zero_, is_num_lit_, ast_node.set_right, ast_node.lit]

theorem is_one_set_right (ops : f64_ops F) (z r : ast_node F) :
    is_one_ ops (z.set_right r) = is_one_ ops z := by
  cases z with
  | nil => rfl
  | node k p t u l r0 =>
    cases k <;> simp [is_one_, is_num_lit_, ast_node.set_right, ast_node.lit]

theorem is_zero_ne_nil (ops : f64_ops F) (z : ast_node F) (h : is_zero_ ops z = true) :
    z ≠ .nil := by
  intro e
  subst e
  simp [is_zero_, is_num_lit_] at h

theorem is_one_ne_nil (ops : f64_ops F) (z : ast_node F) (h : is_one_ ops z = true) :
    z ≠ .nil := by
  intro e
  subst e
  simp [is_one_, is_num_lit_] at h

theorem is_some_of_ne_nil (z : ast_node F) (h : z ≠ .nil) : z.is_some = true := by
  cases z with
  | nil => exact absurd rfl h
  | node => rfl

theorem replace_with_some (n z : ast_node F) (hn : n ≠ .nil) (hz : z ≠ .nil) :
    replace_with_ n z = z.set_right n.right := by
  cases n with
  | nil => exact absurd rfl hn
  | node =>
    cases z with
    | nil => exact absurd rfl hz
    | node => rfl

/-- The operands that `optimize_one_` tests on a `BINARY` node: the optimized
first child and the optimized second child. -/
theorem optimized_operands (ops : f64_ops F) (k : ast_kind_t) (p : token_pos_t) (t : ast_type_t)
    (u : ast_payload F) (l sib : ast_node F) :
    child_ (.node k p t u (optimize_chain_ ops l) sib) 0
      = (optimize_one_ ops l).set_right (optimize_chain_ ops l.right) ∧
    child_ (.node k p t u (optimize_chain_ ops l) sib) 1
      = (optimize_one_ ops l.right).set_right (optimize_chain_ ops l.right.right) := by
  have e0 : optimize_chain_ ops l
      = (optimize_one_ ops l).set_right (optimize_chain_ ops l.right) := by
    rw [optimize_chain_eq, optimize_one_right]
  have e1 : optimize_chain_ ops l.right
      = (optimize_one_ ops l.right).set_right (optimize_chain_ ops l.right.right) := by
    rw [optimize_chain_eq, optimize_one_right]
  constructor
  · show sibling_at (optimize_chain_ ops l) 0 = _
    rw [← e0]
    cases optimize_chain_ ops l <;> rfl
  · show sibling_at (optimize_chain_ ops l) 1 = _
    rw [← e1]
    cases l with
    | nil => rfl
    | node k1 p1 t1 u1 l1 r1 =>
      have hne := optimize_one_ne_nil ops (.node k1 p1 t1 u1 l1 r1) (fun e => by cases e)
      rw [e0]
      show sibling_at ((optimize_one_ ops (.node k1 p1 t1 u1 l1 r1)).set_right
        (optimize_chain_ ops r1)) 1 = optimize_chain_ ops r1
      cases hx : optimize_one_ ops (.node k1 p1 t1 u1 l1 r1) with
      | nil => exact absurd hx hne
      | node k2 p2 t2 u2 l2 r2 =>
        show sibling_at (optimize_chain_ ops r1) 0 = _
        cases optimize_chain_ ops r1 <;> rfl

/-- The neutral-element rules of `optimize_one_` in which the first operand
survives. -/
theorem optimize_one_left_survives (ops : f64_ops F) (pn : token_pos_t) (tn : ast_type_t)
    (op : token_kind_t) (l sib : ast_node F)
    (h : (op = .TOK_OP_PLUS ∧ is_zero_ ops (optimize_one_ ops l.right) = true) ∨
      (op = .TOK_OP_MUL ∧ is_zero_ ops (optimize_one_ ops l) = false ∧
        is_zero_ ops (optimize_one_ ops l.right) = false ∧
        is_one_ ops (optimize_one_ ops l.right) = true) ∨
      (op = .TOK_OP_POW ∧ is_zero_ ops (optimize_one_ ops l.right) = false ∧
        is_one_ ops (optimize_one_ ops l.right) = true)) :
    optimize_one_ ops (.node .ASTK_BINARY pn tn (.binary op) l sib)
      = (optimize_one_ ops l).set_right sib := by
  obtain ⟨e0, e1⟩ := optimized_operands ops .ASTK_BINARY pn tn (.binary op) l sib
  have hy : optimize_one_ ops l.right ≠ .nil := by
    rcases h with ⟨_, h⟩ | ⟨_, _, _, h⟩ | ⟨_, _, h⟩
    · exact is_zero_ne_nil ops _ h
    · exact is_one_ne_nil ops _ h
    · exact is_one_ne_nil ops _ h
  have hl : l ≠ .nil := by
    intro e
    subst e
    exact hy rfl
  have hx : optimize_one_ ops l ≠ .nil := optimize_one_ne_nil ops l hl
  have hxs : ((optimize_one_ ops l).set_right (optimize_chain_ ops l.right)).is_some = true :=
    is_some_of_ne_nil _ (by cases hh : optimize_one_ ops l with
      | nil => exact absurd hh hx
      | node => exact fun e => by cases e)
  have hys : ((optimize_one_ ops l.right).set_right
      (optimize_chain_ ops l.right.right)).is_some = true :=
    is_some_of_ne_nil _ (by cases hh : optimize_one_ ops l.right with
      | nil => exact absurd hh hy
      | node => exact fun e => by cases e)
  have hrep : replace_with_ (.node .ASTK_BINARY pn tn (.binary op) (optimize_chain_ ops l) sib)
      ((optimize_one_ ops l).set_right (optimize_chain_ ops l.right))
      = (optimize_one_ ops l).set_right sib := by
    rw [replace_with_some _ _ (fun e => by cases e) (by
      cases hh : optimize_one_ ops l with
      | nil => exact absurd hh hx
      | node => exact fun e => by cases e), set_right_set_right]
    rfl
  show optimize_binary_ ops (.node .ASTK_BINARY pn tn (.binary op) (optimize_chain_ ops l) sib) op
    = _
  unfold optimize_binary_
  simp only [e0, e1, hxs, hys, is_zero_set_right, is_one_set_right, hrep]
  rcases h with ⟨rfl, h⟩ | ⟨rfl, h1, h2, h3⟩ | ⟨rfl, h1, h2⟩
  · simp [h]
  · simp [h1, h2, h3]
  · simp [h1, h2]

/-- The neutral-element rules of `optimize_one_` in which the second operand
survives. -/
theorem optimize_one_right_survives (ops : f64_ops F) (pn : token_pos_t) (tn : ast_type_t)
    (op : token_kind_t) (l sib : ast_node F) (hy : l.right ≠ .nil)
    (h : (op = .TOK_OP_PLUS ∧ is_zero_ ops (optimize_one_ ops l.right) = false ∧
        is_zero_ ops (optimize_one_ ops l) = true) ∨
      (op = .TOK_OP_MUL ∧ is_zero_ ops (optimize_one_ ops l) = false ∧
        is_zero_ ops (optimize_one_ ops l.right) = false ∧
        is_one_ ops (optimize_one_ ops l.right) = false ∧
        is_one_ ops (optimize_one_ ops l) = true)) :
    optimize_one_ ops (.node .ASTK_BINARY pn tn (.binary op) l sib)
      = (optimize_one_ ops l.right).set_right sib := by
  obtain ⟨e0, e1⟩ := optimized_operands ops .ASTK_BINARY pn tn (.binary op) l sib
  have hy : optimize_one_ ops l.right ≠ .nil := optimize_one_ne_nil ops _ hy
  have hl : l ≠ .nil := by
    intro e
    subst e
    exact hy rfl
  have hx : optimize_one_ ops l ≠ .nil := optimize_one_ne_nil ops l hl
  have hxs : ((optimize_one_ ops l).set_right (optimize_chain_ ops l.right)).is_some = true :=
    is_some_of_ne_nil _ (by cases hh : optimize_one_ ops l with
      | nil => exact absurd hh hx
      | node => exact fun e => by cases e)
  have hys : ((optimize_one_ ops l.right).set_right
      (optimize_chain_ ops l.right.right)).is_some = true :=
    is_some_of_ne_nil _ (by cases hh : optimize_one_ ops l.right with
      | nil => exact absurd hh hy
      | node => exact fun e => by cases e)
  have hrep : replace_with_ (.node .ASTK_BINARY pn tn (.binary op) (optimize_chain_ ops l) sib)
      ((optimize_one_ ops l.right).set_right (optimize_chain_ ops l.right.right))
      = (optimize_one_ ops l.right).set_right sib := by
    rw [replace_with_some _ _ (fun e => by cases e) (by
      cases hh : optimize_one_ ops l.right with
      | nil => exact absurd hh hy
      | node => exact fun e => by cases e), set_right_set_right]
    rfl
  show optimize_binary_ ops (.node .ASTK_BINARY pn tn (.binary op) (optimize_chain_ ops l) sib) op
    = _
  unfold optimize_binary_
  simp only [e0, e1, hxs, hys, is_zero_set_right, is_one_set_right, hrep]
  rcases h with ⟨rfl, h1, h2⟩ | ⟨rfl, h1, h2, h3, h4⟩
  · simp [h1, h2]
  · simp [h1, h2, h3, h4]

/-- C30 (the claim as stated fails): `0 * 1.0` has the form `x * 1`, and the
entry of the optimized chain in its place is the float literal `0.0` made at
the position of the node, not the operand `x`, the int literal `0`. -/
theorem mul_one_of_zero_not_operand :
    is_one_ exact_ops (child_ zero_times_one 1) = true ∧
    (chain_list (ast_optimize exact_ops zero_times_one))[0]?
      = some (lit_node ⟨1, 3, 2⟩ .AST_TYPE_FLOAT (.LIT_FLOAT 0)
          (lit_node ⟨1, 10, 9⟩ .AST_TYPE_INT (.LIT_INT 8) .nil)) ∧
    ((chain_list (ast_optimize exact_ops zero_times_one))[0]?).map alone
      ≠ some (alone (optimize_one_ exact_ops (child_ zero_times_one 0))) := by
  decide

/-- C30. Neutral-element rewrites keep the child list intact: the chain
returned by `optimize_chain_` has the length of the chain given, and each entry
is the node of the same position rewritten by `optimize_one_`, linked to the
optimized chain behind it.  When the node at position `i` is a `BINARY` node
whose operands optimize to `x` and `y`, and the rule applied is `x + 0`,
`x * 1` or `x ^ 1` (for `+`: `y` is a zero literal; for `*`: neither is a zero
literal and `y` is a one literal; for `^`: `y` is a one literal and no zero
literal), the entry at `i` is `x`, linked to the optimized former siblings of
the node; when it is `0 + x` or `1 * x` (for `+`: `x` is a zero literal and
`y` is not; for `*`: neither is a zero literal, `x` is a one literal and `y` is
not), the entry at `i` is `y`. -/
theorem neutral_rewrite_keeps_chain (ops : f64_ops F) (c l sib : ast_node F) (i : Nat)
    (pn : token_pos_t) (tn : ast_type_t) (op : token_kind_t)
    (hn : (chain_list c)[i]? = some (.node .ASTK_BINARY pn tn (.binary op) l sib))
    (h2 : l.right ≠ .nil) :
    (chain_list (optimize_chain_ ops c)).length = (chain_list c).length ∧
    (∀ (j : Nat) (m : ast_node F), (chain_list c)[j]? = some m →
      (chain_list (optimize_chain_ ops c))[j]?
        = some ((optimize_one_ ops m).set_right (optimize_chain_ ops m.right))) ∧
    ((op = .TOK_OP_PLUS ∧ is_zero_ ops (optimize_one_ ops l.right) = true) ∨
      (op = .TOK_OP_MUL ∧ is_zero_ ops (optimize_one_ ops l) = false ∧
        is_zero_ ops (optimize_one_ ops l.right) = false ∧
        is_one_ ops (optimize_one_ ops l.right) = true) ∨
      (op = .TOK_OP_POW ∧ is_zero_ ops (optimize_one_ ops l.right) = false ∧
        is_one_ ops (optimize_one_ ops l.right) = true) →
      (chain_list (optimize_chain_ ops c))[i]?
        = some ((optimize_one_ ops l).set_right (optimize_chain_ ops sib))) ∧
    ((op = .TOK_OP_PLUS ∧ is_zero_ ops (optimize_one_ ops l.right) = false ∧
        is_zero_ ops (optimize_one_ ops l) = true) ∨
      (op = .TOK_OP_MUL ∧ is_zero_ ops (optimize_one_ ops l) = false ∧
        is_zero_ ops (optimize_one_ ops l.right) = false ∧
        is_one_ ops (optimize_one_ ops l.right) = false ∧
        is_one_ ops (optimize_one_ ops l) = true) →
      (chain_list (optimize_chain_ ops c))[i]?
        = some ((optimize_one_ ops l.right).set_right (optimize_chain_ ops sib))) := by
  have hall : ∀ (j : Nat) (m : ast_node F), (chain_list c)[j]? = some m →
      (chain_list (optimize_chain_ ops c))[j]?
        = some ((optimize_one_ ops m).set_right (optimize_chain_ ops m.right)) := by
    intro j m hm
    rw [chain_list_optimize, List.getElem?_map, hm]
    rfl
  refine ⟨by rw [chain_list_optimize, List.length_map], hall, ?_, ?_⟩
  · intro h
    rw [hall i _ hn, optimize_one_left_survives ops pn tn op l sib h, set_right_set_right]
    rfl
  · intro h
    rw [hall i _ hn, optimize_one_right_survives ops pn tn op l sib h2 h, set_right_set_right]
    rfl

/-- C30 (witness): `7 + 0` between `9` and `8`. -/
theorem neutral_rewrite_keeps_chain_witness :
    (chain_list (optimize_chain_ exact_ops seven_plus_zero_chain))[1]?
      = some ((optimize_one_ exact_ops
            (lit_node ⟨1, 4, 3⟩ .AST_TYPE_INT (.LIT_INT 7)
              (lit_node ⟨1, 8, 7⟩ .AST_TYPE_INT (.LIT_INT 0) .nil))).set_right
          (optimize_chain_ exact_ops (lit_node ⟨1, 11, 10⟩ .AST_TYPE_INT (.LIT_INT 8) .nil))) :=
  (neutral_rewrite_keeps_chain exact_ops seven_plus_zero_chain
    (lit_node ⟨1, 4, 3⟩ .AST_TYPE_INT (.LIT_INT 7)
      (lit_node ⟨1, 8, 7⟩ .AST_TYPE_INT (.LIT_INT 0) .nil))
    (lit_node ⟨1, 11, 10⟩ .AST_TYPE_INT (.LIT_INT 8) .nil) 1 ⟨1, 6, 5⟩ .AST_TYPE_UNKNOWN
    .TOK_OP_PLUS rfl (by decide)).2.2.1 (Or.inl ⟨rfl, by decide⟩)

end neutral_rewrites

/-! ## Theorems: a program without `main` -/

section missing_main
variable {F : Type}

/-- A recorded error message is not empty. -/
theorem be_set_error_msg_ne (be : backend_t) (pos : token_pos_t) (fb : Nat) (msg : String) :
    (be_set_error_ be pos fb msg).error_msg ≠ "" := by
  intro h
  have h2 := congrArg String.length h
  simp only [be_set_error_, String.length_append] at h2
  have h3 : (")" : String).length = 1 := by decide
  have h4 : ("" : String).length = 0 := by decide
  omega

theorem be_set_error_out (be : backend_t) (pos : token_pos_t) (fb : Nat) (msg : String) :
    (be_set_error_ be pos fb msg).out = be.out := rfl

/-- The loop of `be_collect_funcs_` writes no line; it ends with `OK` and
metadata of `FUNC` nodes of the chain only, or with `ERR_SYNTAX` and a
message. -/
theorem be_collect_funcs_loop_spec (be : backend_t) (c : ast_node F) :
    (be_collect_funcs_loop be c).2.out = be.out ∧
    (((be_collect_funcs_loop be c).1 = .OK ∧
        ∀ f ∈ (be_collect_funcs_loop be c).2.funcs, f ∈ be.funcs ∨
          ∃ fn ∈ chain_list c, fn.kind = .ASTK_FUNC ∧ fn.u.name_id = f.name_id) ∨
      ((be_collect_funcs_loop be c).1 = .ERR_SYNTAX ∧
        (be_collect_funcs_loop be c).2.error_msg ≠ "")) := by
  induction c generalizing be with
  | nil => exact ⟨rfl, Or.inl ⟨rfl, fun f hf => Or.inl hf⟩⟩
  | node k p t u l r _ ihr =>
    unfold be_collect_funcs_loop
    by_cases hk : k = .ASTK_FUNC
    · subst hk
      simp only [ne_eq, not_true_eq_false, if_false]
      split
      · exact ⟨rfl, Or.inr ⟨rfl, be_set_error_msg_ne _ _ _ _⟩⟩
      · split
        · exact ⟨rfl, Or.inr ⟨rfl, be_set_error_msg_ne _ _ _ _⟩⟩
        · split
          · exact ⟨rfl, Or.inr ⟨rfl, be_set_error_msg_ne _ _ _ _⟩⟩
          · rename_i ptypes _
            obtain ⟨ho, hr⟩ := ihr { be with funcs := be.funcs ++
                  [{ name_id := u.name_id,
                     label := ":fn_" ++ name_str be.nametable u.name_id,
                     ret_type := u.decl_type,
                     param_count := chain_length l.left, param_types := ptypes,
                     local_count := be_count_locals_rec_ (second_of l) }] }
            refine ⟨ho, ?_⟩
            rcases hr with ⟨hok, hf⟩ | herr
            · refine Or.inl ⟨hok, fun f hfm => ?_⟩
              rcases hf f hfm with h1 | ⟨fn, hfn, hkf, hid⟩
              · rcases List.mem_append.mp h1 with h2 | h2
                · exact Or.inl h2
                · have h3 : f = _ := List.mem_singleton.mp h2
                  refine Or.inr ⟨.node .ASTK_FUNC p t u l r, List.mem_cons_self _ _, rfl, ?_⟩
                  rw [h3]
                  rfl
              · exact Or.inr ⟨fn, List.mem_cons_of_mem _ hfn, hkf, hid⟩
            · exact Or.inr herr
    · simp only [ne_eq, hk, not_false_eq_true, if_true]
      exact ⟨rfl, Or.inr ⟨rfl, be_set_error_msg_ne _ _ _ _⟩⟩

/-- The id found for `main` is `SIZE_MAX` or the index of an entry whose text
is `main`. -/
theorem find_main_id_spec (es : List nametable_entry_t) (i : Nat) :
    find_main_id es i = SIZE_MAX ∨
      ∃ j, find_main_id es i = i + j ∧ j < es.length ∧
        (es.get? j).map (fun e => e.name) = some (bytes_of "main") := by
  induction es generalizing i with
  | nil => exact Or.inl rfl
  | cons e es ih =>
    unfold find_main_id
    by_cases he : e.name = bytes_of "main"
    · simp only [he, if_true]
      exact Or.inr ⟨0, rfl, by simp, by simp [he]⟩
    · simp only [he, if_false]
      rcases ih (i + 1) with h | ⟨j, h1, h2, h3⟩
      · exact Or.inl h
      · exact Or.inr ⟨j + 1, by rw [h1]; omega, by simp; omega, by simpa using h3⟩

/-- C24. A missing main is a compile-time error: when the root is a `PROGRAM`
node and no `FUNC` child of it has the name `main`, `backend_emit_asm` returns
`ERR_SYNTAX`, the message recorded is not empty, and no line is emitted; when
the children are well formed (`be_collect_funcs_` succeeds), the message is
`No function 'main' found`, at line 1, column 1. -/
theorem missing_main_is_error (ops : f64_ops F) (nt : nametable_t) (root : ast_node F)
    (hroot : root.kind = .ASTK_PROGRAM)
    (hmain : ∀ fn ∈ chain_list root.left, fn.kind = .ASTK_FUNC →
      nametable_get nt fn.u.name_id ≠ some (bytes_of "main")) :
    (backend_emit_asm ops nt root).1 = .ERR_SYNTAX ∧
    (backend_emit_asm ops nt root).2.error_msg ≠ "" ∧
    (backend_emit_asm ops nt root).2.out = [] ∧
    ((be_collect_funcs_ (backend_init nt) root).1 = .OK →
      (backend_emit_asm ops nt root).2.error_msg
        = "No function 'main' found at 1:1 (offset: 0)" ∧
      (backend_emit_asm ops nt root).2.error_pos = 0) := by
  cases root with
  | nil => cases hroot
  | node k p t u l r =>
    have hk : k = .ASTK_PROGRAM := hroot
    subst hk
    obtain ⟨ho, hr⟩ := be_collect_funcs_loop_spec (backend_init nt) l
    have hnone : (be_collect_funcs_loop (backend_init nt) l).1 = .OK →
        find_main_id nt.data 0 = SIZE_MAX ∨
        (be_find_func_ (be_collect_funcs_loop (backend_init nt) l).2
          (find_main_id nt.data 0)).isNone = true := by
      intro hok
      by_cases hs : find_main_id nt.data 0 = SIZE_MAX
      · exact Or.inl hs
      · right
        rcases hr with ⟨_, hf⟩ | ⟨herr, _⟩
        · cases hfind : be_find_func_ (be_collect_funcs_loop (backend_init nt) l).2
              (find_main_id nt.data 0) with
          | none => rfl
          | some f =>
            exfalso
            have hmem := List.mem_of_find?_eq_some hfind
            have hid : f.name_id = find_main_id nt.data 0 := by
              have := List.find?_some hfind
              simpa using this
            rcases hf f hmem with h1 | ⟨fn, hfn, hkf, hfid⟩
            · cases h1
            · rcases find_main_id_spec nt.data 0 with h | ⟨j, h1, h2, h3⟩
              · exact hs h
              · apply hmain fn hfn hkf
                have hj : find_main_id nt.data 0 = j := by omega
                rw [hfid, hid, hj]
                rw [hj] at hs
                simp only [nametable_get, hs, if_false, nametable_t.amount, ge_iff_le,
                  not_le.mpr h2]
                exact h3
        · rw [hok] at herr
          cases herr
    have hcol : be_collect_funcs_ (backend_init nt) (.node .ASTK_PROGRAM p t u l r)
        = be_collect_funcs_loop (backend_init nt) l := rfl
    have hrun : backend_emit_asm ops nt (.node .ASTK_PROGRAM p t u l r)
        = if (be_collect_funcs_loop (backend_init nt) l).1 ≠ .OK then
            be_collect_funcs_loop (backend_init nt) l
          else (.ERR_SYNTAX, be_set_error_ (be_collect_funcs_loop (backend_init nt) l).2
            { line := 1, column := 1, offset := 0 } 0 "No function 'main' found") := by
      by_cases hok : (be_collect_funcs_loop (backend_init nt) l).1 = .OK
      · have hn := hnone hok
        simp only [backend_emit_asm, ast_node.is_some, ast_node.kind, hcol, hok, ne_eq,
          not_true_eq_false, if_false, Bool.not_true, Bool.false_eq_true, hn, if_true]
      · simp only [backend_emit_asm, ast_node.is_some, ast_node.kind, hcol, hok, ne_eq,
          not_true_eq_false, not_false_eq_true, if_false, if_true, Bool.not_true,
          Bool.false_eq_true]
    rw [hrun, hcol]
    by_cases hok : (be_collect_funcs_loop (backend_init nt) l).1 = .OK
    · rw [if_neg (not_not.mpr hok)]
      refine ⟨rfl, be_set_error_msg_ne _ _ _ _, ?_, fun _ => ⟨rfl, rfl⟩⟩
      rw [be_set_error_out, ho]
      rfl
    · rw [if_pos hok]
      rcases hr with ⟨h, _⟩ | ⟨herr, hmsg⟩
      · exact absurd h hok
      · exact ⟨herr, hmsg, by rw [ho]; rfl, fun h => absurd h hok⟩

/-- C24 (witness): the program `npc f() yap micdrop 0; yapity`. -/
theorem missing_main_is_error_witness :
    (frontend exact_ops 64 src_no_main).1 = err_t.OK ∧
    (asm_of src_no_main).1 = .ERR_SYNTAX ∧
    (asm_of src_no_main).2.error_msg ≠ "" ∧
    (asm_of src_no_main).2.out = [] ∧
    ((be_collect_funcs_ (backend_init (frontend exact_ops 64 src_no_main).2.2)
        (frontend exact_ops 64 src_no_main).2.1).1 = .OK →
      (asm_of src_no_main).2.error_msg = "No function 'main' found at 1:1 (offset: 0)" ∧
      (asm_of src_no_main).2.error_pos = 0) :=
  ⟨by decide!, missing_main_is_error exact_ops (frontend exact_ops 64 src_no_main).2.2
    (frontend exact_ops 64 src_no_main).2.1 (by decide!) (by decide!)⟩

end missing_main

/-! ## Theorems: the frame of a function -/

section frame_thms
variable {F : Type}

@[simp] theorem be_frame_emitf (be : backend_t) (ls : List String) :
    be_frame (be_emitf_ be ls) = be_frame be := rfl

@[simp] theorem be_frame_set_error (be : backend_t) (pos : token_pos_t) (fb : Nat)
    (msg : String) : be_frame (be_set_error_ be pos fb msg) = be_frame be := rfl

@[simp] theorem be_frame_fail_node (be : backend_t) (n : ast_node F) (msg : String) :
    be_frame (be_fail_node be n msg).2 = be_frame be := rfl

@[simp] theorem be_frame_new_label (be : backend_t) (pfx : String) :
    be_frame (be_new_label_ be pfx).2 = be_frame be := rfl

@[simp] theorem be_frame_label_counter (be : backend_t) (c : Nat) :
    be_frame { be with label_counter := c } = be_frame be := rfl

@[simp] theorem be_frame_load (be : backend_t) (off : Nat) :
    be_frame (be_emit_load_bp_off_ be off) = be_frame be := rfl

@[simp] theorem be_frame_store (be : backend_t) (off : Nat) :
    be_frame (be_emit_store_bp_off_ be off) = be_frame be := rfl

@[simp] theorem be_frame_addr_sp (be : backend_t) (imm : Nat) :
    be_frame (be_emit_addr_sp_plus_ be imm) = be_frame be := by
  unfold be_emit_addr_sp_plus_
  split <;> rfl

@[simp] theorem be_frame_call_arg_store (fm : func_meta_t) (i : Nat) (ra : expr_result) :
    be_frame (call_arg_store fm i ra) = be_frame ra.be := by
  unfold call_arg_store
  split <;> simp

@[simp] theorem be_frame_cmp (be : backend_t) (n : ast_node F) (opk : token_kind_t) :
    be_frame (be_emit_cmp_to_bool_ be n opk).2 = be_frame be := by
  unfold be_emit_cmp_to_bool_
  cases cmp_jump opk <;> rfl

@[simp] theorem be_frame_fcmp (be : backend_t) (n : ast_node F) (opk : token_kind_t) :
    be_frame (be_emit_fcmp_res_to_bool_ be n opk).2 = be_frame be := by
  unfold be_emit_fcmp_res_to_bool_
  cases fcmp_jump opk <;> rfl

@[simp] theorem expr_fail_be (r : err_t × backend_t) : (expr_fail r).be = r.2 := rfl

/-- The body of `be_emit_builtin_call_` keeps the frame when the emission of
its arguments does. -/
theorem be_frame_builtin_body (be : backend_t) (pos : token_pos_t) (name_id argc : Nat)
    (emit_arg : Nat → backend_t → expr_result)
    (h : ∀ idx b, be_frame (emit_arg idx b).be = be_frame b) :
    be_frame (be_builtin_call_body be pos name_id argc emit_arg).be = be_frame be := by
  unfold be_builtin_call_body
  cases hb : builtin0_find (nametable_get be.nametable name_id) with
  | some row =>
    obtain ⟨bname, instr, rt⟩ := row
    simp only [hb]
    split_ifs <;> simp
  | none =>
    simp only [hb]
    split_ifs <;> simp [h]

theorem frame_ite (c : Prop) [Decidable c] (a b : expr_result)
    (X : nametable_t × List func_meta_t × List binding_t × List String × Nat ×
      Option func_meta_t × Nat × String)
    (ha : be_frame a.be = X) (hb : be_frame b.be = X) :
    be_frame (if c then a else b).be = X := by
  split <;> assumption

theorem frame_ite_pair (c : Prop) [Decidable c] (a b : err_t × backend_t)
    (X : nametable_t × List func_meta_t × List binding_t × List String × Nat ×
      Option func_meta_t × Nat × String)
    (ha : be_frame a.2 = X) (hb : be_frame b.2 = X) :
    be_frame (if c then a else b).2 = X := by
  split <;> assumption

theorem frame_ite_be (c : Prop) [Decidable c] (a b : backend_t)
    (X : nametable_t × List func_meta_t × List binding_t × List String × Nat ×
      Option func_meta_t × Nat × String)
    (ha : be_frame a = X) (hb : be_frame b = X) :
    be_frame (if c then a else b) = X := by
  split <;> assumption

/-- The `BINARY` case of `be_emit_expr_`. -/
theorem be_emit_expr_frame_binary (ops : f64_ops F) (p : token_pos_t)
    (t : ast_type_t) (u : ast_payload F) (l r : ast_node F)
    (el : ∀ be, be_frame (be_emit_expr_ ops be l).be = be_frame be)
    (sl : ∀ be idx, be_frame (be_emit_sibling_ ops be l idx).be = be_frame be)
    (be : backend_t) :
    be_frame (be_emit_expr_ ops be (.node .ASTK_BINARY p t u l r)).be = be_frame be := by
  rw [be_emit_expr_]
  dsimp only
  refine frame_ite _ _ _ _ rfl ?_
  refine frame_ite _ _ _ _ ?_ ?_
  · refine frame_ite _ _ _ _ (el be) ?_
    refine frame_ite _ _ _ _ ((sl _ 0).trans (el be)) ((sl _ 0).trans (el be))
  refine frame_ite _ _ _ _ ?_ ?_
  · refine frame_ite _ _ _ _ (el be) ?_
    refine frame_ite _ _ _ _ ((sl _ 0).trans (el be)) ?_
    have hrr : ∀ (c : Prop) [Decidable c] (ls : List String) (e : ast_node F) (opk : token_kind_t),
        be_frame (if c then
            be_emit_fcmp_res_to_bool_
              (be_emitf_ (be_emit_sibling_ ops (be_emit_expr_ ops be l).be l 0).be ls) e opk
          else be_emit_cmp_to_bool_ (be_emit_sibling_ ops (be_emit_expr_ ops be l).be l 0).be
            e opk).2 = be_frame be := by
      intro c _ ls e opk
      refine frame_ite_pair _ _ _ _ ?_ ?_
      · rw [be_frame_fcmp]
        exact (sl _ 0).trans (el be)
      · rw [be_frame_cmp]
        exact (sl _ 0).trans (el be)
    refine frame_ite _ _ _ _ (hrr _ _ _ _) (hrr _ _ _ _)
  refine frame_ite _ _ _ _ ?_ ?_
  · refine frame_ite _ _ _ _ (el be) ?_
    refine frame_ite _ _ _ _ ((sl _ 0).trans (el be)) ?_
    refine frame_ite _ _ _ _ ((sl _ 0).trans (el be)) ?_
    refine frame_ite _ _ _ _ ((sl _ 0).trans (el be)) ?_
    refine frame_ite _ _ _ _ ((sl _ 0).trans (el be)) ?_
    refine frame_ite _ _ _ _ ((sl _ 0).trans (el be)) ((sl _ 0).trans (el be))
  · refine frame_ite _ _ _ _ (el be) ?_
    have h1 : ∀ (c : Prop) [Decidable c] (l1 l2 : List String),
        be_frame (if c then be_emitf_ (be_emit_expr_ ops be l).be l1
          else be_emitf_ (be_emit_expr_ ops be l).be l2) = be_frame be := by
      intro c _ l1 l2
      exact frame_ite_be _ _ _ _ (el be) (el be)
    have h2 : ∀ (c : Prop) [Decidable c] (x : backend_t) (l1 l2 : List String),
        be_frame x = be_frame be →
        be_frame (if c then be_emitf_ (be_emit_sibling_ ops x l 0).be l1
          else be_emitf_ (be_emit_sibling_ ops x l 0).be l2) = be_frame be := by
      intro c _ x l1 l2 hx
      exact frame_ite_be _ _ _ _ ((sl _ 0).trans hx) ((sl _ 0).trans hx)
    refine frame_ite _ _ _ _ ((sl _ 0).trans (h1 _ _ _)) ?_
    refine frame_ite _ _ _ _ (h2 _ _ _ _ (h1 _ _ _)) ?_
    refine frame_ite _ _ _ _ (h2 _ _ _ _ (h1 _ _ _)) ?_
    refine frame_ite _ _ _ _ (h2 _ _ _ _ (h1 _ _ _)) ?_
    refine frame_ite _ _ _ _ (h2 _ _ _ _ (h1 _ _ _)) ?_
    exact h2 _ _ _ _ (h1 _ _ _)

/-- The node case of `be_emit_expr_`, given that the emitters keep the frame
on the child chain. -/
theorem be_emit_expr_frame_node (ops : f64_ops F) (k : ast_kind_t) (p : token_pos_t)
    (t : ast_type_t) (u : ast_payload F) (l r : ast_node F)
    (el : ∀ be, be_frame (be_emit_expr_ ops be l).be = be_frame be)
    (sl : ∀ be idx, be_frame (be_emit_sibling_ ops be l idx).be = be_frame be)
    (al : ∀ be fm, be_frame (be_emit_call_args_ ops be fm l).2 = be_frame be)
    (bl : ∀ be pos id, be_frame (be_emit_builtin_call_ ops be pos id l).be = be_frame be)
    (be : backend_t) :
    be_frame (be_emit_expr_ ops be (.node k p t u l r)).be = be_frame be := by
  cases k
  case ASTK_NUM_LIT =>
    simp only [be_emit_expr_]
    cases u.lit <;> simp
  case ASTK_IDENT =>
    simp only [be_emit_expr_]
    split_ifs <;> simp
  case ASTK_CALL =>
    simp only [be_emit_expr_]
    split_ifs
    · exact bl _ _ _
    · exact bl _ _ _
    · split
      · simp [bl]
      · split
        · simp [bl]
        · split_ifs <;> simp [bl, al]
  case ASTK_UNARY =>
    simp only [be_emit_expr_]
    split_ifs <;> simp [el, be_new_label_]
  case ASTK_BUILTIN_UNARY =>
    simp only [be_emit_expr_]
    split_ifs <;> simp [el]
  case ASTK_BINARY => exact be_emit_expr_frame_binary ops p t u l r el sl be
  all_goals simp [be_emit_expr_]

/-- The emission of an expression keeps the frame: name table, function
metadata, bindings, loop contexts, scope depth and offsets are as before. -/
theorem be_emit_expr_frame_all (ops : f64_ops F) (n : ast_node F) :
    (∀ be, be_frame (be_emit_expr_ ops be n).be = be_frame be) ∧
    (∀ be idx, be_frame (be_emit_sibling_ ops be n idx).be = be_frame be) ∧
    (∀ be fm, be_frame (be_emit_call_args_ ops be fm n).2 = be_frame be) ∧
    (∀ be fm i, be_frame (be_emit_call_args_after_ ops be fm n i).2 = be_frame be) ∧
    (∀ be pos id, be_frame (be_emit_builtin_call_ ops be pos id n).be = be_frame be) := by
  induction n with
  | nil =>
    refine ⟨?_, ?_, ?_, ?_, ?_⟩
    · intro be
      simp [be_emit_expr_]
    · intro be idx
      simp [be_emit_sibling_]
    · intro be fm
      simp [be_emit_call_args_]
    · intro be fm i
      simp [be_emit_call_args_after_]
    · intro be pos id
      rw [be_emit_builtin_call_]
      exact be_frame_builtin_body _ _ _ _ _ (fun _ _ => rfl)
  | node k p t u l r ihl ihr =>
    obtain ⟨el, sl, al, aal, bl⟩ := ihl
    obtain ⟨er, sr, ar, aar, br⟩ := ihr
    refine ⟨?_, ?_, ?_, ?_, ?_⟩
    · exact be_emit_expr_frame_node ops k p t u l r el sl al bl
    · intro be idx
      cases idx with
      | zero => simpa [be_emit_sibling_] using er be
      | succ j => simpa [be_emit_sibling_] using sr be j
    · intro be fm
      rw [be_emit_call_args_]
      dsimp only
      refine frame_ite_pair _ _ _ _ rfl ?_
      exact frame_ite_pair _ _ _ _ (el be)
        ((aal _ _ _).trans ((be_frame_call_arg_store _ _ _).trans (el be)))
    · intro be fm i
      rw [be_emit_call_args_after_]
      dsimp only
      refine frame_ite_pair _ _ _ _ rfl ?_
      exact frame_ite_pair _ _ _ _ (er be)
        ((aar _ _ _).trans ((be_frame_call_arg_store _ _ _).trans (er be)))
    · intro be pos id
      rw [be_emit_builtin_call_]
      refine be_frame_builtin_body _ _ _ _ _ (fun idx b => ?_)
      cases idx with
      | zero => exact el b
      | succ j => exact sl b j

@[simp] theorem be_emit_expr_frame (ops : f64_ops F) (be : backend_t) (n : ast_node F) :
    be_frame (be_emit_expr_ ops be n).be = be_frame be :=
  (be_emit_expr_frame_all ops n).1 be

/-- The emission of a condition keeps the frame. -/
@[simp] theorem be_emit_cond_frame (ops : f64_ops F) (be : backend_t) (n : ast_node F)
    (L : String) : be_frame (be_emit_cond_jfalse_ ops be n L).2 = be_frame be := by
  cases n with
  | nil => rfl
  | node k p t u a r =>
    rw [be_emit_cond_jfalse_]
    dsimp only
    refine frame_ite_pair _ _ _ _ ?_ ?_
    · refine frame_ite_pair _ _ _ _ rfl ?_
      refine frame_ite_pair _ _ _ _ (be_emit_expr_frame ops _ _) ?_
      have hb : be_frame (be_emit_expr_ ops (be_emit_expr_ ops be a).be (second_of a)).be
          = be_frame be :=
        (be_emit_expr_frame ops _ _).trans (be_emit_expr_frame ops _ _)
      refine frame_ite_pair _ _ _ _ hb ?_
      refine frame_ite_pair _ _ _ _ ?_ ?_
      · cases cond_fjump u.op with
        | none => exact hb
        | some pj => exact hb
      · cases cond_ijump u.op with
        | none => exact hb
        | some pj => exact hb
    · refine frame_ite_pair _ _ _ _ (be_emit_expr_frame ops _ _) ?_
      exact frame_ite_pair _ _ _ _ (be_emit_expr_frame ops _ _) (be_emit_expr_frame ops _ _)

theorem be_static_of_frame {a b : backend_t} (h : be_frame a = be_frame b) :
    be_static a = be_static b := by
  simp only [be_frame, Prod.mk.injEq] at h
  obtain ⟨h1, h2, _, _, _, _, h3, _⟩ := h
  simp [be_static, h1, h2, h3]

@[simp] theorem be_emit_return_frame (ops : f64_ops F) (be : backend_t) (n : ast_node F) :
    be_frame (be_emit_return_ ops be n).2 = be_frame be := by
  unfold be_emit_return_
  dsimp only
  refine frame_ite_pair _ _ _ _ rfl ?_
  refine frame_ite_pair _ _ _ _ ?_ rfl
  refine frame_ite_pair _ _ _ _ (be_emit_expr_frame ops _ _) ?_
  exact frame_ite_be _ _ _ _ (be_emit_expr_frame ops _ _) (be_emit_expr_frame ops _ _)

@[simp] theorem be_emit_assign_frame (ops : f64_ops F) (be : backend_t) (n : ast_node F) :
    be_frame (be_emit_assign_ ops be n).2 = be_frame be := by
  unfold be_emit_assign_
  dsimp only
  refine frame_ite_pair _ _ _ _ rfl ?_
  refine frame_ite_pair _ _ _ _ rfl ?_
  exact frame_ite_pair _ _ _ _ (be_emit_expr_frame ops _ _) (be_emit_expr_frame ops _ _)

@[simp] theorem be_emit_call_stmt_frame (ops : f64_ops F) (be : backend_t) (n : ast_node F) :
    be_frame (be_emit_call_stmt_ ops be n).2 = be_frame be := by
  unfold be_emit_call_stmt_
  dsimp only
  refine frame_ite_pair _ _ _ _ rfl ?_
  refine frame_ite_pair _ _ _ _ (be_emit_expr_frame ops _ _) ?_
  exact frame_ite_pair _ _ _ _ (be_emit_expr_frame ops _ _) (be_emit_expr_frame ops _ _)

@[simp] theorem be_emit_expr_stmt_frame (ops : f64_ops F) (be : backend_t) (n : ast_node F) :
    be_frame (be_emit_expr_stmt_ ops be n).2 = be_frame be := by
  unfold be_emit_expr_stmt_
  dsimp only
  refine frame_ite_pair _ _ _ _ rfl ?_
  refine frame_ite_pair _ _ _ _ (be_emit_expr_frame ops _ _) ?_
  exact frame_ite_pair _ _ _ _ (be_emit_expr_frame ops _ _) (be_emit_expr_frame ops _ _)

@[simp] theorem be_emit_print_frame (ops : f64_ops F) (be : backend_t) (n : ast_node F) :
    be_frame (be_emit_print_ ops be n).2 = be_frame be := by
  unfold be_emit_print_
  dsimp only
  refine frame_ite_pair _ _ _ _ rfl ?_
  refine frame_ite_pair _ _ _ _ (be_emit_expr_frame ops _ _) ?_
  exact frame_ite_pair _ _ _ _ (be_emit_expr_frame ops _ _) (be_emit_expr_frame ops _ _)

@[simp] theorem be_emit_break_frame (be : backend_t) (n : ast_node F) :
    be_frame (be_emit_break_ be n).2 = be_frame be := by
  unfold be_emit_break_
  cases be.loops.getLast? <;> rfl

/-- The function `be_emit_vdecl_` binds the variable at the next offset for a
local and advances that offset by one; nothing else of the frame changes. -/
theorem be_emit_vdecl_frame (ops : f64_ops F) (be : backend_t) (vd : ast_node F) :
    be_frame (be_emit_vdecl_ ops be vd).2
      = be_frame (be_bind_push_ { be with next_local_offset := be.next_local_offset + 1 }
          vd.u.name_id vd.u.decl_type be.next_local_offset be.scope_depth) := by
  unfold be_emit_vdecl_
  dsimp only
  refine frame_ite_pair _ _ _ _ ?_ rfl
  exact frame_ite_pair _ _ _ _ (be_emit_expr_frame ops _ _) (be_emit_expr_frame ops _ _)

theorem layout_nil (s t : nametable_t × List func_meta_t × Nat) (b : Nat) (h : t = s) :
    layout_step s t ([] : List (backend_t × ast_node F)) b := by
  subst h
  simp [layout_step]

theorem layout_append {s t v : nametable_t × List func_meta_t × Nat}
    {c1 c2 : List (backend_t × ast_node F)} {b1 b2 : Nat}
    (h1 : layout_step s t c1 b1) (h2 : layout_step t v c2 b2) :
    layout_step s v (c1 ++ c2) (b1 + b2) := by
  obtain ⟨a1, a2, a3, a4, a5, a6⟩ := h1
  obtain ⟨d1, d2, d3, d4, d5, d6⟩ := h2
  refine ⟨d1.trans a1, d2.trans a2, ?_, ?_, ?_, ?_⟩
  · rw [d3, a3, List.length_append]
    omega
  · rw [List.map_append, a4, d4, List.length_append, a1, a2, a3, ← List.map_append,
      List.range'_append_1, Nat.add_comm]
  · intro c hc
    rcases List.mem_append.mp hc with h | h
    · exact a5 c h
    · exact d5 c h
  · rw [List.length_append]
    omega

theorem layout_mono {s t : nametable_t × List func_meta_t × Nat}
    {c : List (backend_t × ast_node F)} {b1 b2 : Nat}
    (h : layout_step s t c b1) (hb : b1 ≤ b2) : layout_step s t c b2 := by
  obtain ⟨a1, a2, a3, a4, a5, a6⟩ := h
  exact ⟨a1, a2, a3, a4, a5, a6.trans hb⟩

theorem be_count_locals_le_chain (n : ast_node F) :
    be_count_locals_rec_ n ≤ count_locals_chain n := by
  cases n with
  | nil => exact Nat.le_refl _
  | node k p t u l r =>
    simp only [be_count_locals_rec_, count_locals_chain]
    omega

theorem count_locals_chain_split (n : ast_node F) :
    count_locals_chain n = be_count_locals_rec_ n + count_locals_chain (second_of n) := by
  cases n with
  | nil => rfl
  | node k p t u l r => rfl

/-- The end of `be_emit_block_`: the bindings of the block are dropped, the
rest of the state is kept. -/
theorem be_static_block_end (rs : err_t × backend_t) (depth : Nat) :
    be_static (if rs.1 ≠ .OK then rs
      else (err_t.OK, { be_bind_pop_depth_ rs.2 depth with
        scope_depth := (be_bind_pop_depth_ rs.2 depth).scope_depth - 1 })).2
      = be_static rs.2 := by
  split <;> rfl

/-- The `BLOCK` case of the layout of the calls. -/
theorem layout_block (ops : f64_ops F) (p : token_pos_t) (t : ast_type_t) (u : ast_payload F)
    (l r : ast_node F)
    (l1 : ∀ be, layout_step (be_static be) (be_static (be_emit_stmt_ ops be l).2)
      (be_vdecl_calls_ ops be l) (be_count_locals_rec_ l))
    (l3 : ∀ be, layout_step (be_static be) (be_static (be_emit_stmts_after_ ops be l).2)
      (be_vdecl_calls_after_ ops be l) (count_locals_chain (second_of l)))
    (be : backend_t) :
    layout_step (be_static be)
      (be_static (be_emit_stmt_ ops be (.node .ASTK_BLOCK p t u l r)).2)
      (be_vdecl_calls_ ops be (.node .ASTK_BLOCK p t u l r))
      (be_count_locals_rec_ (.node .ASTK_BLOCK p t u l r)) := by
  have h1 := l1 { be with scope_depth := be.scope_depth + 1 }
  have h3 := l3 (be_emit_stmt_ ops { be with scope_depth := be.scope_depth + 1 } l).2
  have hb : be_count_locals_rec_ (.node .ASTK_BLOCK p t u l r)
      = be_count_locals_rec_ l + count_locals_chain (second_of l) := by
    rw [← count_locals_chain_split]
    simp [be_count_locals_rec_]
  rw [hb]
  simp only [be_emit_stmt_, be_vdecl_calls_]
  rw [be_static_block_end]
  generalize be_emit_stmts_after_ ops
    (be_emit_stmt_ ops { be with scope_depth := be.scope_depth + 1 } l).2 l = r3 at h3 ⊢
  generalize be_vdecl_calls_after_ ops
    (be_emit_stmt_ ops { be with scope_depth := be.scope_depth + 1 } l).2 l = c3 at h3 ⊢
  generalize be_emit_stmt_ ops { be with scope_depth := be.scope_depth + 1 } l = r1 at h1 h3 ⊢
  generalize be_vdecl_calls_ ops { be with scope_depth := be.scope_depth + 1 } l = c1 at h1 ⊢
  by_cases hl : (!l.is_some) = true
  · rw [if_pos hl, if_pos hl]
    exact layout_nil _ _ _ rfl
  · rw [if_neg hl, if_neg hl]
    by_cases hr : r1.1 ≠ .OK
    · rw [if_pos hr, if_pos hr, List.append_nil]
      exact layout_mono h1 (Nat.le_add_right _ _)
    · rw [if_neg hr, if_neg hr]
      exact layout_append h1 h3

theorem be_static_cond (ops : f64_ops F) (be : backend_t) (n : ast_node F) (L : String) :
    be_static (be_emit_cond_jfalse_ ops be n L).2 = be_static be :=
  be_static_of_frame (be_emit_cond_frame ops be n L)

/-- The `WHILE` case of the layout of the calls. -/
theorem layout_while (ops : f64_ops F) (p : token_pos_t) (t : ast_type_t) (u : ast_payload F)
    (l r : ast_node F)
    (l2 : ∀ be, layout_step (be_static be) (be_static (be_emit_stmt_second_ ops be l).2)
      (be_vdecl_calls_second_ ops be l) (count_locals_chain (second_of l)))
    (be : backend_t) :
    layout_step (be_static be)
      (be_static (be_emit_stmt_ ops be (.node .ASTK_WHILE p t u l r)).2)
      (be_vdecl_calls_ ops be (.node .ASTK_WHILE p t u l r))
      (be_count_locals_rec_ (.node .ASTK_WHILE p t u l r)) := by
  have hb : count_locals_chain (second_of l)
      ≤ be_count_locals_rec_ (.node .ASTK_WHILE p t u l r) := by
    have := count_locals_chain_split l
    simp [be_count_locals_rec_]
    omega
  refine layout_mono ?_ hb
  simp only [be_emit_stmt_, be_vdecl_calls_, be_new_label_]
  by_cases hm : (!l.is_some || !(second_of l).is_some) = true
  · rw [if_pos hm, if_pos hm]
    exact layout_nil _ _ _ rfl
  · rw [if_neg hm, if_neg hm]
    generalize hrc : be_emit_cond_jfalse_ ops _ l _ = rc
    have hs : be_static rc.2 = be_static be := by
      rw [← hrc]
      exact be_static_cond ops _ _ _
    have h2 := l2 rc.2
    rw [hs] at h2
    by_cases hr : rc.1 ≠ .OK
    · rw [if_pos hr, if_pos hr]
      exact layout_nil _ _ _ hs
    · rw [if_neg hr, if_neg hr]
      generalize be_emit_stmt_second_ ops rc.2 l = rb at h2 ⊢
      by_cases hr2 : rb.1 ≠ .OK
      · rw [if_pos hr2]
        exact h2
      · rw [if_neg hr2]
        exact h2

/-- The `IF` case of the layout of the calls. -/
theorem layout_if (ops : f64_ops F) (p : token_pos_t) (t : ast_type_t) (u : ast_payload F)
    (l r : ast_node F)
    (l4 : ∀ be L, layout_step (be_static be) (be_static (be_emit_if_loop_ ops be L l).2)
      (be_vdecl_calls_if_loop_ ops be L l) (count_locals_chain (second_of l)))
    (be : backend_t) :
    layout_step (be_static be)
      (be_static (be_emit_stmt_ ops be (.node .ASTK_IF p t u l r)).2)
      (be_vdecl_calls_ ops be (.node .ASTK_IF p t u l r))
      (be_count_locals_rec_ (.node .ASTK_IF p t u l r)) := by
  have hb : count_locals_chain (second_of l)
      ≤ be_count_locals_rec_ (.node .ASTK_IF p t u l r) := by
    have := count_locals_chain_split l
    simp [be_count_locals_rec_]
    omega
  refine layout_mono ?_ hb
  simp only [be_emit_stmt_, be_vdecl_calls_, be_new_label_]
  by_cases hm : (!l.is_some || !(second_of l).is_some) = true
  · rw [if_pos hm, if_pos hm]
    exact layout_nil _ _ _ rfl
  · rw [if_neg hm, if_neg hm]
    have h4 := l4 { be with label_counter := be.label_counter + 1 }
      (":L_" ++ "if_end" ++ "_" ++ toString be.label_counter)
    generalize be_emit_if_loop_ ops { be with label_counter := be.label_counter + 1 }
      (":L_" ++ "if_end" ++ "_" ++ toString be.label_counter) l = rl at h4 ⊢
    by_cases hr : rl.1 ≠ .OK
    · rw [if_pos hr]
      exact h4
    · rw [if_neg hr]
      exact h4

/-- The `VAR_DECL` case of the layout of the calls. -/
theorem layout_vdecl (ops : f64_ops F) (p : token_pos_t) (t : ast_type_t) (u : ast_payload F)
    (l r : ast_node F) (be : backend_t) :
    layout_step (be_static be)
      (be_static (be_emit_stmt_ ops be (.node .ASTK_VAR_DECL p t u l r)).2)
      (be_vdecl_calls_ ops be (.node .ASTK_VAR_DECL p t u l r))
      (be_count_locals_rec_ (.node .ASTK_VAR_DECL p t u l r)) := by
  simp only [be_emit_stmt_, be_vdecl_calls_]
  have hf := be_static_of_frame
    (be_emit_vdecl_frame ops be (.node .ASTK_VAR_DECL p t u l r))
  rw [hf]
  refine ⟨rfl, rfl, rfl, ?_, ?_, ?_⟩
  · simp [be_static, List.range']
  · intro c hc
    rw [List.mem_singleton.mp hc]
    rfl
  · simp [be_count_locals_rec_]

/-- The layout of the calls made by the rest of the loop of `be_emit_block_`. -/
theorem layout_after (ops : f64_ops F) (k : ast_kind_t) (p : token_pos_t) (t : ast_type_t)
    (u : ast_payload F) (l r : ast_node F)
    (r1 : ∀ be, layout_step (be_static be) (be_static (be_emit_stmt_ ops be r).2)
      (be_vdecl_calls_ ops be r) (be_count_locals_rec_ r))
    (r3 : ∀ be, layout_step (be_static be) (be_static (be_emit_stmts_after_ ops be r).2)
      (be_vdecl_calls_after_ ops be r) (count_locals_chain (second_of r)))
    (be : backend_t) :
    layout_step (be_static be)
      (be_static (be_emit_stmts_after_ ops be (.node k p t u l r)).2)
      (be_vdecl_calls_after_ ops be (.node k p t u l r))
      (count_locals_chain (second_of (.node k p t u l r))) := by
  have h1 := r1 be
  have h3 := r3 (be_emit_stmt_ ops be r).2
  simp only [be_emit_stmts_after_, be_vdecl_calls_after_, second_of]
  rw [count_locals_chain_split r]
  generalize be_emit_stmts_after_ ops (be_emit_stmt_ ops be r).2 r = r3 at h3 ⊢
  generalize be_vdecl_calls_after_ ops (be_emit_stmt_ ops be r).2 r = c3 at h3 ⊢
  generalize be_emit_stmt_ ops be r = r1 at h1 h3 ⊢
  generalize be_vdecl_calls_ ops be r = c1 at h1 ⊢
  by_cases hl : (!r.is_some) = true
  · rw [if_pos hl, if_pos hl]
    exact layout_nil _ _ _ rfl
  · rw [if_neg hl, if_neg hl]
    by_cases hr : r1.1 ≠ .OK
    · rw [if_pos hr, if_pos hr, List.append_nil]
      exact layout_mono h1 (Nat.le_add_right _ _)
    · rw [if_neg hr, if_neg hr]
      exact layout_append h1 h3

/-- The equation of `be_emit_if_loop_` when nothing follows the statement of
the branch. -/
theorem be_emit_if_loop_last (ops : f64_ops F) (be : backend_t) (L_end : String)
    (kc : ast_kind_t) (pc : token_pos_t) (tc : ast_type_t) (uc : ast_payload F)
    (lc th : ast_node F) (hth : second_of th = .nil) :
    be_emit_if_loop_ ops be L_end (.node kc pc tc uc lc th) =
      (let rc := be_emit_cond_jfalse_ ops (be_new_label_ be "if_next").2
        (.node kc pc tc uc lc th) (be_new_label_ be "if_next").1
      if rc.1 ≠ .OK then rc
      else
        let rt := be_emit_stmt_ ops rc.2 th
        if rt.1 ≠ .OK then rt
        else (.OK, be_emitf_ rt.2 ["JMP " ++ L_end, (be_new_label_ be "if_next").1])) := by
  cases th with
  | nil => rfl
  | node k2 p2 t2 u2 l2 tail =>
    have ht : tail = .nil := hth
    subst ht
    rfl

/-- The equation of `be_emit_if_loop_` when a node follows the statement of
the branch. -/
theorem be_emit_if_loop_tail (ops : f64_ops F) (be : backend_t) (L_end : String)
    (kc : ast_kind_t) (pc : token_pos_t) (tc : ast_type_t) (uc : ast_payload F)
    (lc : ast_node F) (k2 : ast_kind_t) (p2 : token_pos_t) (t2 : ast_type_t)
    (u2 : ast_payload F) (l2 : ast_node F) (tk : ast_kind_t) (tp : token_pos_t)
    (tt : ast_type_t) (tu : ast_payload F) (tl tr : ast_node F) :
    be_emit_if_loop_ ops be L_end
        (.node kc pc tc uc lc (.node k2 p2 t2 u2 l2 (.node tk tp tt tu tl tr))) =
      (let rc := be_emit_cond_jfalse_ ops (be_new_label_ be "if_next").2
        (.node kc pc tc uc lc (.node k2 p2 t2 u2 l2 (.node tk tp tt tu tl tr)))
        (be_new_label_ be "if_next").1
      if rc.1 ≠ .OK then rc
      else
        let rt := be_emit_stmt_ ops rc.2 (.node k2 p2 t2 u2 l2 (.node tk tp tt tu tl tr))
        if rt.1 ≠ .OK then rt
        else
          let be2 := be_emitf_ rt.2 ["JMP " ++ L_end, (be_new_label_ be "if_next").1]
          if tk = .ASTK_ELSE then
            if !tl.is_some then
              be_fail_node be2 (ast_node.node tk tp tt tu tl tr) "Internal: ELSE missing body"
            else be_emit_stmt_ ops be2 tl
          else if tk ≠ .ASTK_BRANCH then
            be_fail_node be2 (ast_node.node tk tp tt tu tl tr)
              "Internal: IF tail is not BRANCH/ELSE"
          else if !tl.is_some || !(second_of tl).is_some then
            be_fail_node be2 (ast_node.node tk tp tt tu tl tr)
              "Internal: BRANCH missing (cond, stmt)"
          else be_emit_if_loop_ ops be2 L_end tl) := by
  rfl

/-- The equation of `be_vdecl_calls_if_loop_` when nothing follows the
statement of the branch. -/
theorem be_vdecl_calls_if_loop_last (ops : f64_ops F) (be : backend_t) (L_end : String)
    (kc : ast_kind_t) (pc : token_pos_t) (tc : ast_type_t) (uc : ast_payload F)
    (lc th : ast_node F) (hth : second_of th = .nil) :
    be_vdecl_calls_if_loop_ ops be L_end (.node kc pc tc uc lc th) =
      (let rc := be_emit_cond_jfalse_ ops (be_new_label_ be "if_next").2
        (.node kc pc tc uc lc th) (be_new_label_ be "if_next").1
      if rc.1 ≠ .OK then []
      else
        let rt := be_emit_stmt_ ops rc.2 th
        be_vdecl_calls_ ops rc.2 th ++ (if rt.1 ≠ .OK then [] else [])) := by
  cases th with
  | nil => rfl
  | node k2 p2 t2 u2 l2 tail =>
    have ht : tail = .nil := hth
    subst ht
    rfl

/-- The equation of `be_vdecl_calls_if_loop_` when a node follows the
statement of the branch. -/
theorem be_vdecl_calls_if_loop_tail (ops : f64_ops F) (be : backend_t) (L_end : String)
    (kc : ast_kind_t) (pc : token_pos_t) (tc : ast_type_t) (uc : ast_payload F)
    (lc : ast_node F) (k2 : ast_kind_t) (p2 : token_pos_t) (t2 : ast_type_t)
    (u2 : ast_payload F) (l2 : ast_node F) (tk : ast_kind_t) (tp : token_pos_t)
    (tt : ast_type_t) (tu : ast_payload F) (tl tr : ast_node F) :
    be_vdecl_calls_if_loop_ ops be L_end
        (.node kc pc tc uc lc (.node k2 p2 t2 u2 l2 (.node tk tp tt tu tl tr))) =
      (let rc := be_emit_cond_jfalse_ ops (be_new_label_ be "if_next").2
        (.node kc pc tc uc lc (.node k2 p2 t2 u2 l2 (.node tk tp tt tu tl tr)))
        (be_new_label_ be "if_next").1
      if rc.1 ≠ .OK then []
      else
        let rt := be_emit_stmt_ ops rc.2 (.node k2 p2 t2 u2 l2 (.node tk tp tt tu tl tr))
        be_vdecl_calls_ ops rc.2 (.node k2 p2 t2 u2 l2 (.node tk tp tt tu tl tr)) ++
          (if rt.1 ≠ .OK then []
          else
            let be2 := be_emitf_ rt.2 ["JMP " ++ L_end, (be_new_label_ be "if_next").1]
            if tk = .ASTK_ELSE then
              if !tl.is_some then [] else be_vdecl_calls_ ops be2 tl
            else if tk ≠ .ASTK_BRANCH then []
            else if !tl.is_some || !(second_of tl).is_some then []
            else be_vdecl_calls_if_loop_ ops be2 L_end tl)) := by
  rfl

/-- The layout of the calls made by the loop of `be_emit_if_chain_`. -/
theorem layout_if_loop (ops : f64_ops F) (k : ast_kind_t) (p : token_pos_t) (t : ast_type_t)
    (u : ast_payload F) (l r : ast_node F)
    (hsub : ∀ x, tree_size x ≤ tree_size r →
      (∀ be, layout_step (be_static be) (be_static (be_emit_stmt_ ops be x).2)
        (be_vdecl_calls_ ops be x) (be_count_locals_rec_ x)) ∧
      (∀ be L, layout_step (be_static be) (be_static (be_emit_if_loop_ ops be L x).2)
        (be_vdecl_calls_if_loop_ ops be L x) (count_locals_chain (second_of x))))
    (be : backend_t) (L : String) :
    layout_step (be_static be)
      (be_static (be_emit_if_loop_ ops be L (.node k p t u l r)).2)
      (be_vdecl_calls_if_loop_ ops be L (.node k p t u l r))
      (count_locals_chain (second_of (.node k p t u l r))) := by
  have hstmt := (hsub r (Nat.le_refl _)).1
  have hle := be_count_locals_le_chain r
  by_cases hth : second_of r = .nil
  · rw [be_emit_if_loop_last ops be L k p t u l r hth,
      be_vdecl_calls_if_loop_last ops be L k p t u l r hth]
    rw [show count_locals_chain (second_of (ast_node.node k p t u l r))
      = count_locals_chain r from rfl]
    dsimp only
    generalize hrc : be_emit_cond_jfalse_ ops (be_new_label_ be "if_next").2
      (.node k p t u l r) (be_new_label_ be "if_next").1 = rc
    have hs : be_static rc.2 = be_static be := by
      rw [← hrc]
      exact be_static_cond ops _ _ _
    by_cases hr : rc.1 ≠ .OK
    · rw [if_pos hr, if_pos hr]
      exact layout_nil _ _ _ hs
    · rw [if_neg hr, if_neg hr]
      have h1 := hstmt rc.2
      rw [hs] at h1
      generalize be_emit_stmt_ ops rc.2 r = rt at h1 ⊢
      generalize be_vdecl_calls_ ops rc.2 r = ct at h1 ⊢
      rw [ite_self, List.append_nil]
      by_cases hr2 : rt.1 ≠ .OK
      · rw [if_pos hr2]
        exact layout_mono h1 hle
      · rw [if_neg hr2]
        exact layout_mono h1 hle
  · cases r with
    | nil => exact absurd rfl hth
    | node k2 p2 t2 u2 l2 tail =>
      cases tail with
      | nil => exact absurd rfl hth
      | node tk tp tt tu tl tr =>
        rw [be_emit_if_loop_tail, be_vdecl_calls_if_loop_tail]
        rw [show count_locals_chain (second_of (ast_node.node k p t u l
            (ast_node.node k2 p2 t2 u2 l2 (ast_node.node tk tp tt tu tl tr))))
          = count_locals_chain (ast_node.node k2 p2 t2 u2 l2 (ast_node.node tk tp tt tu tl tr))
          from rfl]
        dsimp only
        generalize hrc : be_emit_cond_jfalse_ ops (be_new_label_ be "if_next").2 _
          (be_new_label_ be "if_next").1 = rc
        have hs : be_static rc.2 = be_static be := by
          rw [← hrc]
          exact be_static_cond ops _ _ _
        generalize (be_new_label_ be "if_next").1 = L_next
        by_cases hr : rc.1 ≠ .OK
        · rw [if_pos hr, if_pos hr]
          exact layout_nil _ _ _ hs
        · rw [if_neg hr, if_neg hr]
          have h1 := hstmt rc.2
          rw [hs] at h1
          generalize be_emit_stmt_ ops rc.2
            (ast_node.node k2 p2 t2 u2 l2 (ast_node.node tk tp tt tu tl tr)) = rt at h1 ⊢
          generalize be_vdecl_calls_ ops rc.2
            (ast_node.node k2 p2 t2 u2 l2 (ast_node.node tk tp tt tu tl tr)) = ct at h1 ⊢
          by_cases hr2 : rt.1 ≠ .OK
          · rw [if_pos hr2, if_pos hr2, List.append_nil]
            exact layout_mono h1 hle
          · rw [if_neg hr2, if_neg hr2]
            have hsz : tree_size tl ≤ tree_size (ast_node.node k2 p2 t2 u2 l2
                (ast_node.node tk tp tt tu tl tr)) := by
              simp only [tree_size]
              omega
            obtain ⟨t1, t4⟩ := hsub tl hsz
            have hbound : be_count_locals_rec_ (ast_node.node k2 p2 t2 u2 l2
                  (ast_node.node tk tp tt tu tl tr)) + count_locals_chain tl
                ≤ count_locals_chain (ast_node.node k2 p2 t2 u2 l2
                  (ast_node.node tk tp tt tu tl tr)) := by
              simp only [be_count_locals_rec_, count_locals_chain]
              omega
            refine layout_mono ?_ hbound
            by_cases he : tk = .ASTK_ELSE
            · rw [if_pos he, if_pos he]
              by_cases htl : (!tl.is_some) = true
              · rw [if_pos htl, if_pos htl, List.append_nil]
                exact layout_mono h1 (Nat.le_add_right _ _)
              · rw [if_neg htl, if_neg htl]
                exact layout_append h1
                  (layout_mono (t1 _) (be_count_locals_le_chain tl))
            · rw [if_neg he, if_neg he]
              by_cases hb : tk ≠ .ASTK_BRANCH
              · rw [if_pos hb, if_pos hb, List.append_nil]
                exact layout_mono h1 (Nat.le_add_right _ _)
              · rw [if_neg hb, if_neg hb]
                by_cases hm : (!tl.is_some || !(second_of tl).is_some) = true
                · rw [if_pos hm, if_pos hm, List.append_nil]
                  exact layout_mono h1 (Nat.le_add_right _ _)
                · rw [if_neg hm, if_neg hm]
                  have hc := count_locals_chain_split tl
                  exact layout_append h1 (layout_mono (t4 _ _) (by omega))

/-- The layout of the calls of `be_emit_vdecl_` made by the statement
emitters, by induction on the size of the tree. -/
theorem be_emit_stmt_layout_all (ops : f64_ops F) : ∀ (m : Nat) (n : ast_node F),
    tree_size n ≤ m →
    (∀ be, layout_step (be_static be) (be_static (be_emit_stmt_ ops be n).2)
      (be_vdecl_calls_ ops be n) (be_count_locals_rec_ n)) ∧
    (∀ be, layout_step (be_static be) (be_static (be_emit_stmt_second_ ops be n).2)
      (be_vdecl_calls_second_ ops be n) (count_locals_chain (second_of n))) ∧
    (∀ be, layout_step (be_static be) (be_static (be_emit_stmts_after_ ops be n).2)
      (be_vdecl_calls_after_ ops be n) (count_locals_chain (second_of n))) ∧
    (∀ be L, layout_step (be_static be) (be_static (be_emit_if_loop_ ops be L n).2)
      (be_vdecl_calls_if_loop_ ops be L n) (count_locals_chain (second_of n))) := by
  intro m
  induction m with
  | zero =>
    intro n hn
    cases n with
    | nil =>
      refine ⟨?_, ?_, ?_, ?_⟩ <;> intros <;> exact layout_nil _ _ _ rfl
    | node k p t u l r => simp [tree_size] at hn
  | succ m ih =>
    intro n hn
    cases n with
    | nil =>
      refine ⟨?_, ?_, ?_, ?_⟩ <;> intros <;> exact layout_nil _ _ _ rfl
    | node k p t u l r =>
      have hsl : tree_size l ≤ m := by simp [tree_size] at hn; omega
      have hsr : tree_size r ≤ m := by simp [tree_size] at hn; omega
      obtain ⟨l1, l2, l3, l4⟩ := ih l hsl
      obtain ⟨r1, r2, r3, r4⟩ := ih r hsr
      refine ⟨?_, ?_, ?_, ?_⟩
      · intro be
        cases k
        case ASTK_BLOCK => exact layout_block ops p t u l r l1 l3 be
        case ASTK_WHILE => exact layout_while ops p t u l r l2 be
        case ASTK_IF => exact layout_if ops p t u l r l4 be
        case ASTK_VAR_DECL => exact layout_vdecl ops p t u l r be
        all_goals
          simp only [be_emit_stmt_, be_vdecl_calls_]
          exact layout_nil _ _ _ (be_static_of_frame (by simp))
      · intro be
        simp only [be_emit_stmt_second_, be_vdecl_calls_second_, second_of]
        exact layout_mono (r1 be) (be_count_locals_le_chain r)
      · exact layout_after ops k p t u l r r1 r3
      · exact layout_if_loop ops k p t u l r
          (fun x hx => ⟨(ih x (hx.trans hsr)).1, (ih x (hx.trans hsr)).2.2.2⟩)

theorem be_emit_stmt_layout (ops : f64_ops F) (be : backend_t) (n : ast_node F) :
    layout_step (be_static be) (be_static (be_emit_stmt_ ops be n).2)
      (be_vdecl_calls_ ops be n) (be_count_locals_rec_ n) :=
  (be_emit_stmt_layout_all ops (tree_size n) n (Nat.le_refl _)).1 be

/-- The parameter loop of `be_emit_func_` binds the parameters of the chain at
the offsets `1 + i`, `2 + i`, ... and changes nothing else. -/
theorem be_bind_params_spec (be : backend_t) (c : ast_node F) (i : Nat) :
    be_static (be_bind_params_ be c i) = be_static be ∧
    (be_bind_params_ be c i).scope_depth = be.scope_depth ∧
    (be_bind_params_ be c i).out = be.out ∧
    (be_bind_params_ be c i).binds.map (fun b => (b.name_id, b.offset))
      = be.binds.map (fun b => (b.name_id, b.offset)) ++
        ((chain_list c).map (fun p => p.u.name_id)).zip
          (List.range' (1 + i) (chain_length c)) := by
  induction c generalizing be i with
  | nil => simp [be_bind_params_, chain_list, chain_length]
  | node k p t u l r _ ihr =>
    obtain ⟨h1, h2, h3, h4⟩ := ihr (be_bind_push_ be u.name_id u.decl_type (1 + i)
      be.scope_depth) (i + 1)
    refine ⟨h1, h2, h3, ?_⟩
    show (be_bind_params_ (be_bind_push_ be u.name_id u.decl_type (1 + i) be.scope_depth) r
      (i + 1)).binds.map _ = _
    rw [h4]
    simp [be_bind_push_, chain_list, chain_length, List.range'_succ, ast_node.u,
      Nat.add_assoc]

theorem zip_range_offsets (names : List Nat) (o n : Nat) (h : names.length = n) :
    ((names.zip (List.range' o n)).map (fun q => q.2)) = List.range' o n := by
  rw [List.map_snd_zip]
  simp [h]

theorem chain_list_length (c : ast_node F) : (chain_list c).length = chain_length c := by
  induction c with
  | nil => rfl
  | node k p t u l r _ ihr => simp [chain_list, chain_length, ihr]

/-- The function `be_emit_func_` on a `FUNC` node with metadata `meta`: the
body is emitted from the state `be_func_entry_`. -/
theorem be_emit_func_eq (ops : f64_ops F) (be : backend_t) (fn : ast_node F)
    (meta : func_meta_t) (hf : (fn.is_some && fn.kind = .ASTK_FUNC) = true)
    (hmeta : be_find_func_ be fn.u.name_id = some meta) :
    be_emit_func_ ops be fn =
      if !(second_of fn.left).is_some then
        be_fail_node (be_func_entry_ be fn meta) fn "Function has no body"
      else
        if (be_emit_stmt_ ops (be_func_entry_ be fn meta) (second_of fn.left)).1 ≠ .OK then
          be_emit_stmt_ ops (be_func_entry_ be fn meta) (second_of fn.left)
        else
          (.OK, be_emitf_
            (if meta.ret_type ≠ .AST_TYPE_VOID then
              be_emitf_ (be_emit_stmt_ ops (be_func_entry_ be fn meta) (second_of fn.left)).2
                ["; implicit return 0 (defensive)", "PUSH 0", "POPR x0"]
            else (be_emit_stmt_ ops (be_func_entry_ be fn meta) (second_of fn.left)).2)
            [(if meta.ret_type ≠ .AST_TYPE_VOID then
              be_emitf_ (be_emit_stmt_ ops (be_func_entry_ be fn meta) (second_of fn.left)).2
                ["; implicit return 0 (defensive)", "PUSH 0", "POPR x0"]
              else (be_emit_stmt_ ops (be_func_entry_ be fn meta)
                (second_of fn.left)).2).fn_end_label,
             "PUSHR x15", "POPR x14", "PUSHR x15", "POPR x13", "PUSHM x13",
             "POPR  x15", "RET"]) := by
  unfold be_emit_func_
  rw [if_neg (by simp [hf])]
  simp only [hmeta]
  rfl

theorem be_func_entry_static (be : backend_t) (fn : ast_node F) (meta : func_meta_t) :
    be_static (be_func_entry_ be fn meta)
      = (be.nametable, be.funcs, 1 + meta.param_count) := by
  unfold be_func_entry_ be_func_params_
  exact (be_bind_params_spec _ _ _).1

theorem be_func_entry_binds (be : backend_t) (fn : ast_node F) (meta : func_meta_t) :
    (be_func_entry_ be fn meta).binds.map (fun b => (b.name_id, b.offset))
      = ((chain_list fn.left.left).map (fun p => p.u.name_id)).zip
          (List.range' 1 (chain_length fn.left.left)) := by
  unfold be_func_entry_ be_func_params_
  have h := (be_bind_params_spec
    ({ (be_new_label_ { be with cur_fn := some meta } "fn_end").2 with
        fn_end_label := (be_new_label_ { be with cur_fn := some meta } "fn_end").1,
        binds := [], scope_depth := 1,
        next_local_offset := 1 + meta.param_count } : backend_t) fn.left.left 0).2.2.2
  simpa using h

theorem be_func_params_out (be : backend_t) (fn : ast_node F) (meta : func_meta_t) :
    (be_func_params_ be fn meta).out = be.out := by
  unfold be_func_params_
  exact (be_bind_params_spec _ _ _).2.2.1

/-- The offsets at which the calls of a layout step bind. -/
theorem layout_step_offsets {s t : nametable_t × List func_meta_t × Nat}
    {calls : List (backend_t × ast_node F)} {b : Nat} (h : layout_step s t calls b) :
    calls.map (fun c => c.1.next_local_offset) = List.range' s.2.2 calls.length := by
  have h4 := congrArg (List.map (fun q : nametable_t × List func_meta_t × Nat => q.2.2)) h.2.2.2.1
  simpa [List.map_map, Function.comp_def, be_static] using h4

/-- The metadata that `be_collect_funcs_` records: when the loop succeeds,
every node of the chain has metadata under its name, with the number of its
`PARAM` nodes and the number of `VAR_DECL` nodes of its body, and metadata
found before is found afterwards. -/
theorem be_collect_funcs_meta (c : ast_node F) : ∀ (be : backend_t),
    (be_collect_funcs_loop be c).1 = .OK →
    (∀ id m, be_find_func_ be id = some m →
      be_find_func_ (be_collect_funcs_loop be c).2 id = some m) ∧
    (∀ fn ∈ chain_list c, ∃ meta,
      be_find_func_ (be_collect_funcs_loop be c).2 fn.u.name_id = some meta ∧
      meta.param_count = chain_length fn.left.left ∧
      meta.local_count = be_count_locals_rec_ (second_of fn.left)) := by
  induction c with
  | nil =>
    intro be _
    exact ⟨fun _ _ h => h, fun fn hfn => by cases hfn⟩
  | node k p t u l r _ ihr =>
    intro be hok
    unfold be_collect_funcs_loop at hok ⊢
    by_cases hk : k ≠ .ASTK_FUNC
    · rw [if_pos hk] at hok
      cases hok
    · rw [if_neg hk] at hok ⊢
      by_cases hd : (be_find_func_ be u.name_id).isSome = true
      · simp only [hd, if_true] at hok
        cases hok
      · simp only [hd, Bool.false_eq_true, if_false] at hok ⊢
        by_cases hp : (!(l.is_some && decide (l.kind = .ASTK_PARAM_LIST))) = true
        · simp only [hp, if_true] at hok
          cases hok
        · simp only [hp, Bool.false_eq_true, if_false] at hok ⊢
          cases hc : collect_ptypes l.left with
          | error bad =>
            simp only [hc] at hok
            cases hok
          | ok ptypes =>
            simp only [hc] at hok ⊢
            obtain ⟨hmono, hall⟩ := ihr _ hok
            have hnone : be_find_func_ be u.name_id = none := by
              cases hx : be_find_func_ be u.name_id with
              | none => rfl
              | some m => rw [hx] at hd; exact absurd rfl hd
            refine ⟨fun id m hm => hmono id m ?_, fun fn hfn => ?_⟩
            · unfold be_find_func_ at hm ⊢
              simp only [List.find?_append, hm, Option.or_some]
            · rcases List.mem_cons.mp hfn with hh | hh
              · subst hh
                refine ⟨func_meta_t.mk u.name_id (":fn_" ++ name_str be.nametable u.name_id)
                    u.decl_type (chain_length l.left) ptypes
                    (be_count_locals_rec_ (second_of l)),
                  hmono u.name_id _ ?_, rfl, rfl⟩
                unfold be_find_func_ at hnone ⊢
                simp only [List.find?_append, hnone, Option.none_or, List.find?_cons,
                  decide_True, List.find?_nil]
              · exact hall fn hh

/-- The function `be_emit_func_` keeps the name table and the function
metadata. -/
theorem be_emit_func_keeps_funcs (ops : f64_ops F) (be : backend_t) (fn : ast_node F) :
    (be_emit_func_ ops be fn).2.nametable = be.nametable ∧
    (be_emit_func_ ops be fn).2.funcs = be.funcs := by
  by_cases hf : (fn.is_some && decide (fn.kind = .ASTK_FUNC)) = true
  · cases hm : be_find_func_ be fn.u.name_id with
    | none =>
      unfold be_emit_func_
      rw [if_neg (by simp [hf])]
      simp only [hm]
      exact ⟨rfl, rfl⟩
    | some meta =>
      rw [be_emit_func_eq ops be fn meta hf hm]
      have hlay := be_emit_stmt_layout ops (be_func_entry_ be fn meta) (second_of fn.left)
      rw [be_func_entry_static] at hlay
      have hs := be_func_entry_static be fn meta
      have h1 : (be_func_entry_ be fn meta).nametable = be.nametable :=
        congrArg (fun q : nametable_t × List func_meta_t × Nat => q.1) hs
      have h2 : (be_func_entry_ be fn meta).funcs = be.funcs :=
        congrArg (fun q : nametable_t × List func_meta_t × Nat => q.2.1) hs
      have h3 : (be_emit_stmt_ ops (be_func_entry_ be fn meta) (second_of fn.left)).2.nametable
          = be.nametable := hlay.1
      have h4 : (be_emit_stmt_ ops (be_func_entry_ be fn meta) (second_of fn.left)).2.funcs
          = be.funcs := hlay.2.1
      split_ifs
      · exact ⟨h1, h2⟩
      · exact ⟨h3, h4⟩
      · exact ⟨h3, h4⟩
      · exact ⟨h3, h4⟩
  · unfold be_emit_func_
    rw [if_pos (by
      cases hfb : (fn.is_some && decide (fn.kind = .ASTK_FUNC)) with
      | true => exact absurd hfb hf
      | false => rfl)]
    exact ⟨rfl, rfl⟩

/-- C23. Frame layout of a function that `be_emit_func_` emits without error,
with the metadata `meta` that `be_collect_funcs_` records for it (the number of
`PARAM` nodes and the number of `VAR_DECL` nodes of the body): the body is
emitted from the state `be_func_entry_`, after a prologue that adds
`1 + param_count + local_count` to `x14`; in that state the i-th parameter is
bound at offset `i`; the j-th call of `be_emit_vdecl_` made for the body (both
counted from 1) is made on a `VAR_DECL` node and binds it at offset
`param_count + j`; the offsets bound are `1`, `2`, ... in this order, so they
are pairwise distinct, and each is less than `1 + param_count + local_count`. -/
theorem frame_layout (ops : f64_ops F) (be : backend_t) (fn : ast_node F) (meta : func_meta_t)
    (hmeta : be_find_func_ be fn.u.name_id = some meta)
    (hpc : meta.param_count = chain_length fn.left.left)
    (hlc : meta.local_count = be_count_locals_rec_ (second_of fn.left))
    (hok : (be_emit_func_ ops be fn).1 = .OK) :
    (be_emit_stmt_ ops (be_func_entry_ be fn meta) (second_of fn.left)).1 = .OK ∧
    (be_func_entry_ be fn meta).out = be.out ++
      ["; --- function " ++ name_str be.nametable meta.name_id ++ " ---", meta.label,
       "PUSHR x15", "PUSHR x14", "POPR  x13", "POPM  x13", "PUSHR x14", "POPR x15",
       "PUSHR x14", "PUSH " ++ toString (1 + meta.param_count + meta.local_count), "ADD",
       "POPR x14"] ∧
    (be_func_entry_ be fn meta).binds.map (fun b => (b.name_id, b.offset))
      = ((chain_list fn.left.left).map (fun p => p.u.name_id)).zip
          (List.range' 1 meta.param_count) ∧
    (∀ (j : Nat) (s : backend_t) (vd : ast_node F),
      (be_vdecl_calls_ ops (be_func_entry_ be fn meta) (second_of fn.left))[j]? = some (s, vd) →
      vd.kind = .ASTK_VAR_DECL ∧ s.next_local_offset = meta.param_count + (j + 1) ∧
      (be_emit_vdecl_ ops s vd).2.binds = s.binds ++
        [{ name_id := vd.u.name_id, type := vd.u.decl_type,
           offset := meta.param_count + (j + 1), depth := s.scope_depth }]) ∧
    be_func_offsets_ ops be fn meta
      = List.range' 1 (be_func_offsets_ ops be fn meta).length ∧
    (be_func_offsets_ ops be fn meta).Nodup ∧
    (∀ o ∈ be_func_offsets_ ops be fn meta,
      o < 1 + meta.param_count + meta.local_count) := by
  have hf : (fn.is_some && fn.kind = .ASTK_FUNC) = true := by
    cases hfb : (fn.is_some && decide (fn.kind = .ASTK_FUNC)) with
    | true => rfl
    | false =>
      unfold be_emit_func_ at hok
      rw [if_pos (by rw [hfb]; rfl)] at hok
      cases hok
  have hbody : (be_emit_stmt_ ops (be_func_entry_ be fn meta) (second_of fn.left)).1 = .OK := by
    rw [be_emit_func_eq ops be fn meta hf hmeta] at hok
    by_cases hb : (!(second_of fn.left).is_some) = true
    · rw [if_pos hb] at hok
      cases hok
    · rw [if_neg hb] at hok
      by_contra hne
      rw [if_pos hne] at hok
      exact hne hok
  have hlay := be_emit_stmt_layout ops (be_func_entry_ be fn meta) (second_of fn.left)
  rw [be_func_entry_static] at hlay
  have hcalls := layout_step_offsets hlay
  have hparams := be_func_entry_binds be fn meta
  have hpoff : (be_func_entry_ be fn meta).binds.map (fun b => b.offset)
      = List.range' 1 meta.param_count := by
    have h := congrArg (List.map (fun q : Nat × Nat => q.2)) hparams
    rw [List.map_map, zip_range_offsets _ _ _ (by
      rw [List.length_map, chain_list_length]), ← hpc] at h
    exact h
  have hoff : be_func_offsets_ ops be fn meta = List.range' 1 (meta.param_count +
      (be_vdecl_calls_ ops (be_func_entry_ be fn meta) (second_of fn.left)).length) := by
    unfold be_func_offsets_
    rw [hpoff, hcalls, List.range'_append_1, Nat.add_comm]
  have hlen : (be_func_offsets_ ops be fn meta).length = meta.param_count +
      (be_vdecl_calls_ ops (be_func_entry_ be fn meta) (second_of fn.left)).length := by
    rw [hoff, List.length_range']
  refine ⟨hbody, ?_, ?_, ?_, ?_, ?_, ?_⟩
  · show (be_func_params_ be fn meta).out ++ _ = _
    rw [be_func_params_out]
  · rw [hpc]
    exact hparams
  · intro j s vd hj
    have hmem : (s, vd) ∈ be_vdecl_calls_ ops (be_func_entry_ be fn meta) (second_of fn.left) :=
      List.getElem?_mem hj
    have hnlo : s.next_local_offset = meta.param_count + (j + 1) := by
      have h1 : ((be_vdecl_calls_ ops (be_func_entry_ be fn meta) (second_of fn.left)).map
          (fun c => c.1.next_local_offset))[j]? = some s.next_local_offset := by
        rw [List.getElem?_map, hj]
        rfl
      rw [hcalls] at h1
      have hjlt : j < (be_vdecl_calls_ ops (be_func_entry_ be fn meta)
          (second_of fn.left)).length := by
        rcases List.getElem?_eq_some_iff.mp hj with ⟨h, _⟩
        exact h
      rw [List.getElem?_range' _ _ hjlt] at h1
      have h2 := Option.some.inj h1
      simp only [Nat.one_mul] at h2
      omega
    refine ⟨hlay.2.2.2.2.1 _ hmem, hnlo, ?_⟩
    have hfr := congrArg (fun q : nametable_t × List func_meta_t × List binding_t ×
      List String × Nat × Option func_meta_t × Nat × String => q.2.2.1)
      (be_emit_vdecl_frame ops s vd)
    rw [← hnlo]
    exact hfr
  · rw [hlen]
    exact hoff
  · rw [hoff]
    exact List.nodup_range' _ _
  · intro o ho
    rw [hoff] at ho
    have h1 := (List.mem_range'_1.mp ho).2
    have h2 := hlay.2.2.2.2.2
    omega

/-- C23 (witness): the function `f` of `src_locals`, with two parameters and
two locals. -/
theorem frame_layout_witness :
    be_func_offsets_ exact_ops be_locals fn_locals meta_locals = [1, 2, 3, 4] ∧
    (be_func_offsets_ exact_ops be_locals fn_locals meta_locals).Nodup ∧
    (∀ o ∈ be_func_offsets_ exact_ops be_locals fn_locals meta_locals,
      o < 1 + meta_locals.param_count + meta_locals.local_count) :=
  ⟨by decide!,
   (frame_layout exact_ops be_locals fn_locals meta_locals (by decide!) (by decide!)
      (by decide!) (by decide!)).2.2.2.2.2⟩

end frame_thms

/-! ## Theorems: parentheses, typing, logical operators, division, names -/

/-- C31. The unparser wraps the right operand of `^`: for the accepted program
returning `2 ^ 3 ^ 2` (the tree of `2 ^ (3 ^ 2)`), the right operand `3 ^ 2`
has the precedence of its parent and is written in parentheses, although `^`
is right-associative. -/
theorem unparse_wraps_right_pow :
    (frontend exact_ops 64 src_pow_chain).1 = err_t.OK ∧
    (ret_expr_of src_pow_chain).kind = .ASTK_BINARY ∧
    (ret_expr_of src_pow_chain).u.op = .TOK_OP_POW ∧
    (ast_child (ret_expr_of src_pow_chain) 1).kind = .ASTK_BINARY ∧
    (ast_child (ret_expr_of src_pow_chain) 1).u.op = .TOK_OP_POW ∧
    rf_expr_prec_ (ast_child (ret_expr_of src_pow_chain) 1)
      = rf_expr_prec_ (ret_expr_of src_pow_chain) ∧
    rot_of src_pow_chain = (err_t.OK, "npc main()\nyap\n\tmicdrop 2 ^ (3 ^ 2);\nyapity\n\n") := by
  decide!

/-- C36. Type inference and emission disagree: for `1 + 2.5` the code
generator emits a float (`out_type` float) and `be_infer_expr_type_` answers
unknown; for `bozo(2.5)` (the conversion to int) it emits an int and
`be_infer_expr_type_` answers float. -/
theorem infer_disagrees_with_emission :
    ((frontend exact_ops 64 src_int_plus_float).1 = err_t.OK ∧
      (emit_ret_expr src_int_plus_float).rc = err_t.OK ∧
      (emit_ret_expr src_int_plus_float).out_type = .AST_TYPE_FLOAT ∧
      infer_ret_expr src_int_plus_float = .AST_TYPE_UNKNOWN) ∧
    ((frontend exact_ops 64 src_ftoi).1 = err_t.OK ∧
      (ret_expr_of src_ftoi).kind = .ASTK_BUILTIN_UNARY ∧
      (emit_ret_expr src_ftoi).rc = err_t.OK ∧
      (emit_ret_expr src_ftoi).out_type = .AST_TYPE_INT ∧
      infer_ret_expr src_ftoi = .AST_TYPE_FLOAT) := by
  decide!

/-- C37. Folding and lowering of `&&` disagree: the optimizer folds `1 && 2`
to the int literal `1`, and the code generated for the unfolded expression is
`PUSH 1`, `PUSH 2`, `AND`, whose bitwise conjunction is `0`. -/
theorem and_fold_differs_from_lowering :
    (frontend exact_ops 64 src_and).1 = err_t.OK ∧
    (opt_ret_expr_of src_and).kind = .ASTK_NUM_LIT ∧
    (opt_ret_expr_of src_and).lit = .LIT_INT 1 ∧
    (emit_ret_expr src_and).rc = err_t.OK ∧
    (emit_ret_expr src_and).be.out = ["PUSH 1", "PUSH 2", "AND"] ∧
    vm_and 1 2 = 0 := by
  decide!

/-- C38. The folding of an integer division can overflow: the optimizer folds
`(-9223372036854775807 - 1) / -1` to an int literal, while the truncated
quotient of `-2 ^ 63` by `-1` is `2 ^ 63`, which is not a value of `i64_t`; in
wrapping arithmetic the literal is `-2 ^ 63`. -/
theorem div_fold_overflows :
    (frontend exact_ops 64 src_div_min).1 = err_t.OK ∧
    (opt_ret_expr_of src_div_min).kind = .ASTK_NUM_LIT ∧
    (opt_ret_expr_of src_div_min).lit = .LIT_INT (-2 ^ 63) ∧
    Int.tdiv (-2 ^ 63) (-1) = 2 ^ 63 ∧ wrap64 (2 ^ 63) ≠ 2 ^ 63 := by
  decide!

/-- C39. The step of a `highkey` loop changes its binding: in the accepted
loop `highkey (npc i gaslight 0; i < 3; i gaslight i + 1) yap npc i gaslight 5;
yapity` the step is parsed when the loop variable is the only symbol (symbol 0
of the table), and it is appended to the body behind the declaration of the
second `i`; in the emitted code the condition reads offset 1, the loop
variable, and the step reads and writes offset 2, the variable of the body. -/
theorem for_step_resolved_differently :
    (frontend exact_ops 64 src_for_shadow_main).1 = err_t.OK ∧
    (for_step_state 64 (sa_of_source src_for_shadow)).symtable.amount = 1 ∧
    symtable_lookup (for_step_state 64 (sa_of_source src_for_shadow)).symtable 0 = 0 ∧
    ((kids (ast_child (ast_child (parse_statement_ 64 (sa_of_source src_for_shadow)).1 1) 1)).map
      (fun n => (n.kind, n.u.name_id))) = [(.ASTK_VAR_DECL, 0), (.ASTK_ASSIGN, 0)] ∧
    (asm_of src_for_shadow_main).1 = err_t.OK ∧
    ((asm_of src_for_shadow_main).2.out.drop 28).take 36 =
      [":L_while_begin_1",
       "PUSHR x15", "POPR  x13", "PUSHR x13", "PUSH  1", "ADD", "POPR  x13", "PUSHM x13",
       "PUSH 3", "JAE :L_while_end_2",
       "PUSH 5",
       "PUSHR x15", "POPR  x13", "PUSHR x13", "PUSH  2", "ADD", "POPR  x13", "POPM x13",
       "PUSHR x15", "POPR  x13", "PUSHR x13", "PUSH  2", "ADD", "POPR  x13", "PUSHM x13",
       "PUSH 1", "ADD",
       "PUSHR x15", "POPR  x13", "PUSHR x13", "PUSH  2", "ADD", "POPR  x13", "POPM x13",
       "JMP :L_while_begin_1", ":L_while_end_2"] := by
  decide!

/-! ## Theorems: comparison trampolines -/

section int_fragment
variable {F : Type}

theorem pure_int_next_eq (n : ast_node F) : pure_int_next n = pure_int n.right := by
  cases n <;> rfl

theorem eval_int_next_eq (env : Nat → Int) (n : ast_node F) :
    eval_int_next env n = eval_int env n.right := by
  cases n <;> rfl

theorem pure_int_set_right (n r : ast_node F) : pure_int (n.set_right r) = pure_int n := by
  cases n <;> rfl

theorem eval_int_set_right (env : Nat → Int) (n r : ast_node F) :
    eval_int env (n.set_right r) = eval_int env n := by
  cases n <;> rfl

theorem pure_int_ne_nil (n : ast_node F) (h : pure_int n = true) : n ≠ .nil := by
  intro e
  subst e
  cases h

theorem in_i64_wrap64 (x : Int) : in_i64 (wrap64 x) = true := by
  unfold in_i64 wrap64
  have h1 := Int.emod_nonneg (x + 2 ^ 63) (show (2 : Int) ^ 64 ≠ 0 by norm_num)
  have h2 := Int.emod_lt_of_pos (x + 2 ^ 63) (show (0 : Int) < 2 ^ 64 by norm_num)
  simp only [Bool.and_eq_true, decide_eq_true_eq]
  constructor <;> omega

theorem wrap64_of_in_i64 (x : Int) (h : in_i64 x = true) : wrap64 x = x := by
  unfold in_i64 at h
  simp only [Bool.and_eq_true, decide_eq_true_eq] at h
  unfold wrap64
  rw [Int.emod_eq_of_lt (by omega) (by omega)]
  omega

/-- The value of an expression of the fragment is a value of `i64_t`. -/
theorem eval_int_in_range (env : Nat → Int) (henv : ∀ id, in_i64 (env id) = true)
    (n : ast_node F) : pure_int n = true → in_i64 (eval_int env n) = true := by
  induction n with
  | nil => intro h; cases h
  | node k p t u l r ihl _ =>
    intro h
    cases k <;> try (exact absurd (show false = true from h) Bool.false_ne_true)
    case ASTK_NUM_LIT =>
      cases hl : u.lit with
      | LIT_INT i =>
        have e : eval_int env (.node .ASTK_NUM_LIT p t u l r) = i := by simp [eval_int, hl]
        rw [e]
        simpa [pure_int, hl] using h
      | LIT_FLOAT f => simp [pure_int, hl] at h
      | LIT_NONE => simp [pure_int, hl] at h
    case ASTK_IDENT => exact henv _
    case ASTK_UNARY =>
      have e : eval_int env (.node .ASTK_UNARY p t u l r)
          = if u.op = .TOK_OP_PLUS then eval_int env l
            else if u.op = .TOK_OP_MINUS then wrap64 (-(eval_int env l)) else 0 := rfl
      rw [e]
      have hl : pure_int l = true := by
        have : pure_int (.node .ASTK_UNARY p t u l r)
          = ((decide (u.op = .TOK_OP_PLUS) || decide (u.op = .TOK_OP_MINUS)) && pure_int l) := rfl
        rw [this] at h
        simp only [Bool.and_eq_true] at h
        exact h.2
      split_ifs
      · exact ihl hl
      · exact in_i64_wrap64 _
      · rfl
    case ASTK_BINARY =>
      have e : eval_int env (.node .ASTK_BINARY p t u l r)
          = if u.op = .TOK_OP_PLUS then wrap64 (eval_int env l + eval_int_next env l)
            else if u.op = .TOK_OP_MINUS then wrap64 (eval_int env l - eval_int_next env l)
            else if u.op = .TOK_OP_MUL then wrap64 (eval_int env l * eval_int_next env l)
            else 0 := rfl
      rw [e]
      split_ifs
      · exact in_i64_wrap64 _
      · exact in_i64_wrap64 _
      · exact in_i64_wrap64 _
      · rfl

/-- An operand of the fragment, as the optimizer sees it: not a numeric
literal, or an `int` literal with its value. -/
theorem pure_operand (ops : f64_ops F) (env : Nat → Int) (x : ast_node F)
    (h : pure_int x = true) :
    (is_num_lit_ x = false ∧ is_zero_ ops x = false ∧ is_one_ ops x = false) ∨
    (∃ i : Int, is_num_lit_ x = true ∧ lit_is_float x = false ∧ as_i64_ ops x = i ∧
      eval_int env x = i ∧ is_zero_ ops x = decide (i = 0) ∧ is_one_ ops x = decide (i = 1) ∧
      in_i64 i = true) := by
  cases x with
  | nil => cases h
  | node k p t u l r =>
    cases k <;> try (exact absurd (show false = true from h) Bool.false_ne_true)
    case ASTK_NUM_LIT =>
      cases hl : u.lit with
      | LIT_INT i =>
        right
        refine ⟨i, ?_, ?_, ?_, ?_, ?_, ?_, ?_⟩
        · simp [is_num_lit_, hl]
        · simp [lit_is_float, hl]
        · simp [as_i64_, ast_node.lit, hl]
        · simp [eval_int, hl]
        · simp [is_zero_, is_num_lit_, ast_node.lit, hl]
        · simp [is_one_, is_num_lit_, ast_node.lit, hl]
        · simpa [pure_int, hl] using h
      | LIT_FLOAT f => simp [pure_int, hl] at h
      | LIT_NONE => simp [pure_int, hl] at h
    all_goals exact Or.inl ⟨rfl, rfl, rfl⟩

theorem eval_make_num_int (env : Nat → Int) (k : ast_kind_t) (p : token_pos_t) (t : ast_type_t)
    (u : ast_payload F) (l r : ast_node F) (v : Int) :
    eval_int env (make_num_int_ (.node k p t u l r) v) = v := rfl

theorem pure_make_num_int (k : ast_kind_t) (p : token_pos_t) (t : ast_type_t)
    (u : ast_payload F) (l r : ast_node F) (v : Int) :
    pure_int (make_num_int_ (.node k p t u l r) v) = in_i64 v := rfl

/-- The `UNARY` branch of the optimizer keeps the value of a node of the
fragment whose operand has been optimized. -/
theorem optimize_unary_pure (ops : f64_ops F) (env : Nat → Int) (p : token_pos_t)
    (t : ast_type_t) (u : ast_payload F) (a r : ast_node F)
    (hn : pure_int (.node .ASTK_UNARY p t u a r) = true) :
    eval_int env (optimize_unary_ ops (.node .ASTK_UNARY p t u a r) u.op)
      = eval_int env (.node .ASTK_UNARY p t u a r) ∧
    pure_int (optimize_unary_ ops (.node .ASTK_UNARY p t u a r) u.op) = true := by
  have hn2 : ((decide (u.op = .TOK_OP_PLUS) || decide (u.op = .TOK_OP_MINUS)) && pure_int a)
      = true := hn
  simp only [Bool.and_eq_true, Bool.or_eq_true, decide_eq_true_eq] at hn2
  obtain ⟨hop, ha⟩ := hn2
  have hc : child_ (.node .ASTK_UNARY p t u a r) 0 = a := by
    cases a <;> rfl
  have he : eval_int env (.node .ASTK_UNARY p t u a r)
      = if u.op = .TOK_OP_PLUS then eval_int env a
        else if u.op = .TOK_OP_MINUS then wrap64 (-(eval_int env a)) else 0 := rfl
  unfold optimize_unary_
  simp only [hc]
  rcases pure_operand ops env a ha with ⟨h1, _, _⟩ | ⟨i, h1, h2, h3, h4, _, _, h7⟩
  · simp only [h1, Bool.false_eq_true, if_false]
    exact ⟨trivial, hn⟩
  · simp only [h1, if_true, h2, Bool.false_eq_true, if_false, h3]
    rcases hop with hop | hop
    · rw [hop] at he ⊢
      simp only [if_true] at he
      rw [he, h4]
      exact ⟨rfl, h7⟩
    · rw [hop] at he ⊢
      rw [if_neg (by decide), if_pos rfl] at he
      rw [he, h4]
      exact ⟨rfl, in_i64_wrap64 _⟩

/-- The `BINARY` branch of the optimizer keeps the value of a node of the
fragment whose operands have been optimized. -/
theorem optimize_binary_pure (ops : f64_ops F) (env : Nat → Int) (p : token_pos_t)
    (t : ast_type_t) (u : ast_payload F) (a r : ast_node F)
    (hra : in_i64 (eval_int env a) = true) (hrb : in_i64 (eval_int env a.right) = true)
    (hn : pure_int (.node .ASTK_BINARY p t u a r) = true) :
    eval_int env (optimize_binary_ ops (.node .ASTK_BINARY p t u a r) u.op)
      = eval_int env (.node .ASTK_BINARY p t u a r) ∧
    pure_int (optimize_binary_ ops (.node .ASTK_BINARY p t u a r) u.op) = true := by
  have hn2 : ((decide (u.op = .TOK_OP_PLUS) || decide (u.op = .TOK_OP_MINUS) ||
      decide (u.op = .TOK_OP_MUL)) && pure_int a && pure_int_next a) = true := hn
  rw [pure_int_next_eq] at hn2
  simp only [Bool.and_eq_true, Bool.or_eq_true, decide_eq_true_eq] at hn2
  obtain ⟨⟨hop, ha⟩, hb⟩ := hn2
  have hane := pure_int_ne_nil a ha
  have hbne := pure_int_ne_nil _ hb
  have hc0 : child_ (.node .ASTK_BINARY p t u a r) 0 = a := by
    cases a <;> rfl
  have hc1 : child_ (.node .ASTK_BINARY p t u a r) 1 = a.right := by
    cases a with
    | nil => rfl
    | node ka pa ta ua la ra => cases ra <;> rfl
  have he : eval_int env (.node .ASTK_BINARY p t u a r)
      = if u.op = .TOK_OP_PLUS then wrap64 (eval_int env a + eval_int env a.right)
        else if u.op = .TOK_OP_MINUS then wrap64 (eval_int env a - eval_int env a.right)
        else if u.op = .TOK_OP_MUL then wrap64 (eval_int env a * eval_int env a.right)
        else 0 := by
    rw [← eval_int_next_eq]; rfl
  have hwa := wrap64_of_in_i64 _ hra
  have hwb := wrap64_of_in_i64 _ hrb
  have hnn : (ast_node.node .ASTK_BINARY p t u a r) ≠ .nil := fun e => by cases e
  have rl := replace_with_some _ _ hnn hane
  have rr := replace_with_some _ _ hnn hbne
  unfold optimize_binary_
  simp only [hc0, hc1, is_some_of_ne_nil a hane, is_some_of_ne_nil _ hbne, Bool.not_true,
    Bool.or_self, Bool.false_eq_true, if_false]
  generalize hb0 : a.right = b at *
  rcases pure_operand ops env a ha with ⟨a1, a2, a3⟩ | ⟨i, a1, a2, a3, a4, a5, a6, a7⟩ <;>
  rcases pure_operand ops env b hb with ⟨b1, b2, b3⟩ | ⟨j, b1, b2, b3, b4, b5, b6, b7⟩ <;>
  rcases hop with (hop | hop) | hop <;> rw [hop] at he ⊢ <;>
  simp only [if_true, if_false, reduceCtorEq] at he <;>
  rw [he]
  all_goals
    simp only [*, optimize_fold_, Bool.false_eq_true, if_false, if_true, Bool.and_false,
      Bool.false_and, Bool.or_false, Bool.and_self, Bool.or_self, Bool.not_false, Bool.not_true,
      eval_make_num_int, pure_make_num_int, eval_int_set_right, pure_int_set_right,
      in_i64_wrap64, and_true, decide_eq_true_eq, Bool.or_eq_true, Bool.true_and]
  all_goals
    split_ifs <;>
    simp_all [eval_make_num_int, pure_make_num_int, eval_int_set_right, pure_int_set_right,
      in_i64_wrap64]
  rename_i h
  have h0 : wrap64 0 = 0 := by decide
  rcases h with h | h <;> subst h <;> simp [h0] <;> decide

theorem optimize_chain_head (ops : f64_ops F) (l : ast_node F) :
    optimize_chain_ ops l = (optimize_one_ ops l).set_right (optimize_chain_ ops l.right) := by
  rw [optimize_chain_eq, optimize_one_right]

theorem optimize_chain_right (ops : f64_ops F) (l : ast_node F) (h : l ≠ .nil) :
    (optimize_chain_ ops l).right = optimize_chain_ ops l.right := by
  rw [optimize_chain_head, right_set_right _ _ (optimize_one_ne_nil ops l h)]

theorem eval_int_unary_congr (env : Nat → Int) (p : token_pos_t) (t : ast_type_t)
    (u : ast_payload F) (a b r s : ast_node F) (h : eval_int env a = eval_int env b) :
    eval_int env (.node .ASTK_UNARY p t u a r) = eval_int env (.node .ASTK_UNARY p t u b s) := by
  show (if u.op = .TOK_OP_PLUS then eval_int env a
    else if u.op = .TOK_OP_MINUS then wrap64 (-(eval_int env a)) else 0)
    = (if u.op = .TOK_OP_PLUS then eval_int env b
    else if u.op = .TOK_OP_MINUS then wrap64 (-(eval_int env b)) else 0)
  rw [h]

theorem eval_int_binary_congr (env : Nat → Int) (p : token_pos_t) (t : ast_type_t)
    (u : ast_payload F) (a b r s : ast_node F) (h : eval_int env a = eval_int env b)
    (h2 : eval_int env a.right = eval_int env b.right) :
    eval_int env (.node .ASTK_BINARY p t u a r) = eval_int env (.node .ASTK_BINARY p t u b s) := by
  show (if u.op = .TOK_OP_PLUS then wrap64 (eval_int env a + eval_int_next env a)
    else if u.op = .TOK_OP_MINUS then wrap64 (eval_int env a - eval_int_next env a)
    else if u.op = .TOK_OP_MUL then wrap64 (eval_int env a * eval_int_next env a)
    else 0)
    = (if u.op = .TOK_OP_PLUS then wrap64 (eval_int env b + eval_int_next env b)
    else if u.op = .TOK_OP_MINUS then wrap64 (eval_int env b - eval_int_next env b)
    else if u.op = .TOK_OP_MUL then wrap64 (eval_int env b * eval_int_next env b)
    else 0)
  rw [eval_int_next_eq, eval_int_next_eq, h, h2]

/-- The optimizer keeps the value of every expression of the fragment, and of
the node behind it. -/
theorem optimize_one_pure_all (ops : f64_ops F) (env : Nat → Int)
    (henv : ∀ id, in_i64 (env id) = true) (n : ast_node F) :
    (pure_int n = true →
      eval_int env (optimize_one_ ops n) = eval_int env n ∧
      pure_int (optimize_one_ ops n) = true) ∧
    (pure_int n.right = true →
      eval_int env (optimize_one_ ops n.right) = eval_int env n.right ∧
      pure_int (optimize_one_ ops n.right) = true) := by
  induction n with
  | nil => exact ⟨fun h => (by cases h), fun h => (by cases h)⟩
  | node k p t u l r ihl ihr =>
    refine ⟨?_, ihr.1⟩
    intro h
    show eval_int env (optimize_node_ ops (.node k p t u (optimize_chain_ ops l) r)) = _ ∧
      pure_int (optimize_node_ ops (.node k p t u (optimize_chain_ ops l) r)) = true
    cases k <;> try (exact absurd (show false = true from h) Bool.false_ne_true)
    case ASTK_NUM_LIT => exact ⟨rfl, h⟩
    case ASTK_IDENT => exact ⟨rfl, h⟩
    case ASTK_UNARY =>
      have h2 : ((decide (u.op = .TOK_OP_PLUS) || decide (u.op = .TOK_OP_MINUS)) && pure_int l)
        = true := h
      have hl : pure_int l = true := by
        simp only [Bool.and_eq_true] at h2
        exact h2.2
      have hv : eval_int env (optimize_chain_ ops l) = eval_int env l := by
        rw [optimize_chain_head, eval_int_set_right]
        exact (ihl.1 hl).1
      have hp : pure_int (optimize_chain_ ops l) = true := by
        rw [optimize_chain_head, pure_int_set_right]
        exact (ihl.1 hl).2
      have hn : pure_int (.node .ASTK_UNARY p t u (optimize_chain_ ops l) r) = true := by
        show ((decide (u.op = .TOK_OP_PLUS) || decide (u.op = .TOK_OP_MINUS)) &&
          pure_int (optimize_chain_ ops l)) = true
        rw [hp]
        rw [hl] at h2
        exact h2
      have key := optimize_unary_pure ops env p t u (optimize_chain_ ops l) r hn
      exact ⟨key.1.trans (eval_int_unary_congr env p t u _ _ r r hv), key.2⟩
    case ASTK_BINARY =>
      have h2 : ((decide (u.op = .TOK_OP_PLUS) || decide (u.op = .TOK_OP_MINUS) ||
          decide (u.op = .TOK_OP_MUL)) && pure_int l && pure_int_next l) = true := h
      rw [pure_int_next_eq] at h2
      have hl : pure_int l = true := by
        simp only [Bool.and_eq_true] at h2
        exact h2.1.2
      have hr : pure_int l.right = true := by
        simp only [Bool.and_eq_true] at h2
        exact h2.2
      have hlne := pure_int_ne_nil l hl
      have hv : eval_int env (optimize_chain_ ops l) = eval_int env l := by
        rw [optimize_chain_head, eval_int_set_right]
        exact (ihl.1 hl).1
      have hp : pure_int (optimize_chain_ ops l) = true := by
        rw [optimize_chain_head, pure_int_set_right]
        exact (ihl.1 hl).2
      have hv2 : eval_int env (optimize_chain_ ops l).right = eval_int env l.right := by
        rw [optimize_chain_right ops l hlne, optimize_chain_head, eval_int_set_right]
        exact (ihl.2 hr).1
      have hp2 : pure_int (optimize_chain_ ops l).right = true := by
        rw [optimize_chain_right ops l hlne, optimize_chain_head, pure_int_set_right]
        exact (ihl.2 hr).2
      have hn : pure_int (.node .ASTK_BINARY p t u (optimize_chain_ ops l) r) = true := by
        show ((decide (u.op = .TOK_OP_PLUS) || decide (u.op = .TOK_OP_MINUS) ||
          decide (u.op = .TOK_OP_MUL)) && pure_int (optimize_chain_ ops l) &&
          pure_int_next (optimize_chain_ ops l)) = true
        rw [pure_int_next_eq, hp, hp2]
        rw [hl, hr] at h2
        exact h2
      have key := optimize_binary_pure ops env p t u (optimize_chain_ ops l) r
        (eval_int_in_range env henv _ hp) (eval_int_in_range env henv _ hp2) hn
      exact ⟨key.1.trans (eval_int_binary_congr env p t u _ _ r r hv hv2), key.2⟩

end int_fragment

/-- C35. Value preservation on the pure integer fragment: for an expression
built from `int` literals, identifiers, unary `+` and `-` and binary `+`, `-`
and `*`, and values of `i64_t` for the variables, the expression returned by
`optimize_one_` is again in the fragment and has the value of the original
expression in 64-bit two's complement arithmetic; so has the head of the chain
returned by `ast_optimize`. -/
theorem optimizer_keeps_int_value {F : Type} (ops : f64_ops F) (env : Nat → Int)
    (n : ast_node F) (henv : ∀ id, in_i64 (env id) = true) (h : pure_int n = true) :
    eval_int env (optimize_one_ ops n) = eval_int env n ∧
    pure_int (optimize_one_ ops n) = true ∧
    eval_int env (ast_optimize ops n) = eval_int env n := by
  have key := (optimize_one_pure_all ops env henv n).1 h
  refine ⟨key.1, key.2, ?_⟩
  show eval_int env (optimize_chain_ ops n) = _
  rw [optimize_chain_head, eval_int_set_right]
  exact key.1

/-- C35, an instance: the expression `(x + 0) * 1 - -3 + 2 * 3` of an accepted
program, with `x = 7`. -/
theorem optimizer_keeps_int_value_witness :
    pure_int (ret_expr_of src_int_expr) = true ∧
    eval_int (fun _ => 7) (ret_expr_of src_int_expr) = 16 ∧
    (eval_int (fun _ => 7) (optimize_one_ exact_ops (ret_expr_of src_int_expr))
        = eval_int (fun _ => 7) (ret_expr_of src_int_expr) ∧
      pure_int (optimize_one_ exact_ops (ret_expr_of src_int_expr)) = true ∧
      eval_int (fun _ => 7) (ast_optimize exact_ops (ret_expr_of src_int_expr))
        = eval_int (fun _ => 7) (ret_expr_of src_int_expr)) :=
  ⟨by decide!, by decide!,
    optimizer_keeps_int_value exact_ops (fun _ => 7) (ret_expr_of src_int_expr)
      (fun _ => (by decide : in_i64 7 = true)) (by decide!)⟩

/-! ## Theorems: relations kept by the statement emitters -/

section emit_rel_thms
variable {F : Type}

/-- The equation of `be_emit_stmt_` on a `WHILE` node. -/
theorem be_emit_stmt_while (ops : f64_ops F) (be : backend_t) (p : token_pos_t)
    (t : ast_type_t) (u : ast_payload F) (l r : ast_node F) :
    be_emit_stmt_ ops be (.node .ASTK_WHILE p t u l r) =
      (if !l.is_some || !(second_of l).is_some then
        be_fail_node be (ast_node.node .ASTK_WHILE p t u l r)
          "Internal: WHILE must have (cond, body)"
      else
        let rc := be_emit_cond_jfalse_ ops (while_entry be) l (while_end_label be)
        if rc.1 ≠ .OK then (rc.1, be_pop_loop rc.2)
        else
          let rb := be_emit_stmt_second_ ops rc.2 l
          if rb.1 ≠ .OK then (rb.1, be_pop_loop rb.2)
          else (.OK, be_pop_loop (be_emitf_ rb.2
            ["JMP " ++ while_begin_label be, while_end_label be]))) := by
  rfl

/-- The equation of `be_emit_stmt_` on an `IF` node. -/
theorem be_emit_stmt_if (ops : f64_ops F) (be : backend_t) (p : token_pos_t)
    (t : ast_type_t) (u : ast_payload F) (l r : ast_node F) :
    be_emit_stmt_ ops be (.node .ASTK_IF p t u l r) =
      (if !l.is_some || !(second_of l).is_some then
        be_fail_node be (ast_node.node .ASTK_IF p t u l r) "Internal: IF missing children"
      else
        let rl := be_emit_if_loop_ ops (be_new_label_ be "if_end").2
          (be_new_label_ be "if_end").1 l
        if rl.1 ≠ .OK then rl else (.OK, be_emitf_ rl.2 [(be_new_label_ be "if_end").1])) := by
  rfl

/-- The equation of `be_emit_stmt_` on a `BLOCK` node. -/
theorem be_emit_stmt_block (ops : f64_ops F) (be : backend_t) (p : token_pos_t)
    (t : ast_type_t) (u : ast_payload F) (l r : ast_node F) :
    be_emit_stmt_ ops be (.node .ASTK_BLOCK p t u l r) =
      (let be1 : backend_t := { be with scope_depth := be.scope_depth + 1 }
      let rs :=
        if !l.is_some then (err_t.OK, be1)
        else
          let r1 := be_emit_stmt_ ops be1 l
          if r1.1 ≠ .OK then r1 else be_emit_stmts_after_ ops r1.2 l
      if rs.1 ≠ .OK then rs
      else
        (.OK, { be_bind_pop_depth_ rs.2 (be.scope_depth + 1) with
          scope_depth := (be_bind_pop_depth_ rs.2 (be.scope_depth + 1)).scope_depth - 1 })) := by
  rfl

theorem rel_ite {R : backend_t → backend_t → Prop} (be : backend_t) (c : Prop) [Decidable c]
    (a b : err_t × backend_t) (ha : R be a.2) (hb : R be b.2) :
    R be (if c then a else b).2 := by
  split <;> assumption

/-- The `BLOCK` case. -/
theorem rel_block (ops : f64_ops F) (R : backend_t → backend_t → Prop)
    (h : stmt_rel_ok ops R) (p : token_pos_t) (t : ast_type_t) (u : ast_payload F)
    (l r : ast_node F)
    (l1 : ∀ be, R be (be_emit_stmt_ ops be l).2)
    (l3 : ∀ be, R be (be_emit_stmts_after_ ops be l).2) (be : backend_t) :
    R be (be_emit_stmt_ ops be (.node .ASTK_BLOCK p t u l r)).2 := by
  rw [be_emit_stmt_block]
  dsimp only
  have h0 := h.block_in be
  have hrs : R be (if !l.is_some then (err_t.OK, { be with scope_depth := be.scope_depth + 1 })
      else if (be_emit_stmt_ ops { be with scope_depth := be.scope_depth + 1 } l).1 ≠ .OK then
        be_emit_stmt_ ops { be with scope_depth := be.scope_depth + 1 } l
      else be_emit_stmts_after_ ops
        (be_emit_stmt_ ops { be with scope_depth := be.scope_depth + 1 } l).2 l).2 := by
    refine rel_ite be _ _ _ h0 ?_
    refine rel_ite be _ _ _ (h.trans _ _ _ h0 (l1 _)) ?_
    exact h.trans _ _ _ h0 (h.trans _ _ _ (l1 _) (l3 _))
  generalize (if !l.is_some then (err_t.OK, { be with scope_depth := be.scope_depth + 1 })
      else if (be_emit_stmt_ ops { be with scope_depth := be.scope_depth + 1 } l).1 ≠ .OK then
        be_emit_stmt_ ops { be with scope_depth := be.scope_depth + 1 } l
      else be_emit_stmts_after_ ops
        (be_emit_stmt_ ops { be with scope_depth := be.scope_depth + 1 } l).2 l) = rs at hrs ⊢
  refine rel_ite be _ _ _ hrs ?_
  exact h.trans _ _ _ hrs (h.block_out _ _)

/-- The `WHILE` case. -/
theorem rel_while (ops : f64_ops F) (R : backend_t → backend_t → Prop)
    (h : stmt_rel_ok ops R) (p : token_pos_t) (t : ast_type_t) (u : ast_payload F)
    (l r : ast_node F)
    (l2 : ∀ be, R be (be_emit_stmt_second_ ops be l).2) (be : backend_t) :
    R be (be_emit_stmt_ ops be (.node .ASTK_WHILE p t u l r)).2 := by
  rw [be_emit_stmt_while]
  dsimp only
  refine rel_ite be _ _ _ (h.fail _ _ _) ?_
  have hc := h.cond (while_entry be) l (while_end_label be)
  generalize be_emit_cond_jfalse_ ops (while_entry be) l (while_end_label be) = rc at hc ⊢
  refine rel_ite be _ _ _ (h.while_loop be _ hc).1 ?_
  have hb := h.trans _ _ _ hc (l2 rc.2)
  generalize be_emit_stmt_second_ ops rc.2 l = rb at hb ⊢
  exact rel_ite be _ _ _ (h.while_loop be _ hb).1 (h.while_loop be _ hb).2

/-- The `IF` case. -/
theorem rel_if (ops : f64_ops F) (R : backend_t → backend_t → Prop)
    (h : stmt_rel_ok ops R) (p : token_pos_t) (t : ast_type_t) (u : ast_payload F)
    (l r : ast_node F)
    (l4 : ∀ be L, R be (be_emit_if_loop_ ops be L l).2) (be : backend_t) :
    R be (be_emit_stmt_ ops be (.node .ASTK_IF p t u l r)).2 := by
  rw [be_emit_stmt_if]
  dsimp only
  refine rel_ite be _ _ _ (h.fail _ _ _) ?_
  have hl := l4 (be_new_label_ be "if_end").2 (be_new_label_ be "if_end").1
  generalize be_emit_if_loop_ ops (be_new_label_ be "if_end").2
    (be_new_label_ be "if_end").1 l = rl at hl ⊢
  exact rel_ite be _ _ _ (h.if_end be _ hl).1 (h.if_end be _ hl).2

/-- The rest of the loop of `be_emit_block_`. -/
theorem rel_after (ops : f64_ops F) (R : backend_t → backend_t → Prop)
    (h : stmt_rel_ok ops R) (k : ast_kind_t) (p : token_pos_t) (t : ast_type_t)
    (u : ast_payload F) (l r : ast_node F)
    (r1 : ∀ be, R be (be_emit_stmt_ ops be r).2)
    (r3 : ∀ be, R be (be_emit_stmts_after_ ops be r).2) (be : backend_t) :
    R be (be_emit_stmts_after_ ops be (.node k p t u l r)).2 := by
  rw [show be_emit_stmts_after_ ops be (.node k p t u l r) =
    (if !r.is_some then (err_t.OK, be)
    else if (be_emit_stmt_ ops be r).1 ≠ .OK then be_emit_stmt_ ops be r
    else be_emit_stmts_after_ ops (be_emit_stmt_ ops be r).2 r) from rfl]
  refine rel_ite be _ _ _ (h.refl be) ?_
  exact rel_ite be _ _ _ (r1 be) (h.trans _ _ _ (r1 be) (r3 _))

/-- The loop of `be_emit_if_chain_`. -/
theorem rel_if_loop (ops : f64_ops F) (R : backend_t → backend_t → Prop)
    (h : stmt_rel_ok ops R) (k : ast_kind_t) (p : token_pos_t) (t : ast_type_t)
    (u : ast_payload F) (l r : ast_node F)
    (hsub : ∀ x, tree_size x ≤ tree_size r →
      (∀ be, R be (be_emit_stmt_ ops be x).2) ∧
      (∀ be L, R be (be_emit_if_loop_ ops be L x).2))
    (be : backend_t) (L : String) :
    R be (be_emit_if_loop_ ops be L (.node k p t u l r)).2 := by
  have hstmt := (hsub r (Nat.le_refl _)).1
  by_cases hth : second_of r = .nil
  · rw [be_emit_if_loop_last ops be L k p t u l r hth]
    dsimp only
    have hc := h.cond (be_new_label_ be "if_next").2 (.node k p t u l r)
      (be_new_label_ be "if_next").1
    generalize be_emit_cond_jfalse_ ops (be_new_label_ be "if_next").2
      (.node k p t u l r) (be_new_label_ be "if_next").1 = rc at hc ⊢
    refine rel_ite be _ _ _ (h.if_next be _ L hc).1 ?_
    have ht := h.trans _ _ _ hc (hstmt rc.2)
    generalize be_emit_stmt_ ops rc.2 r = rt at ht ⊢
    exact rel_ite be _ _ _ (h.if_next be _ L ht).1 (h.if_next be _ L ht).2
  · cases r with
    | nil => exact absurd rfl hth
    | node k2 p2 t2 u2 l2 tail =>
      cases tail with
      | nil => exact absurd rfl hth
      | node tk tp tt tu tl tr =>
        rw [be_emit_if_loop_tail]
        dsimp only
        have hc := h.cond (be_new_label_ be "if_next").2
          (.node k p t u l (.node k2 p2 t2 u2 l2 (.node tk tp tt tu tl tr)))
          (be_new_label_ be "if_next").1
        generalize be_emit_cond_jfalse_ ops (be_new_label_ be "if_next").2 _
          (be_new_label_ be "if_next").1 = rc at hc ⊢
        refine rel_ite be _ _ _ (h.if_next be _ L hc).1 ?_
        have ht := h.trans _ _ _ hc (hstmt rc.2)
        generalize be_emit_stmt_ ops rc.2
          (ast_node.node k2 p2 t2 u2 l2 (ast_node.node tk tp tt tu tl tr)) = rt at ht ⊢
        refine rel_ite be _ _ _ (h.if_next be _ L ht).1 ?_
        have h2 := (h.if_next be _ L ht).2
        have hsz : tree_size tl ≤ tree_size (ast_node.node k2 p2 t2 u2 l2
            (ast_node.node tk tp tt tu tl tr)) := by
          simp only [tree_size]
          omega
        obtain ⟨t1, t4⟩ := hsub tl hsz
        refine rel_ite be _ _ _ ?_ ?_
        · exact rel_ite be _ _ _ (h.trans _ _ _ h2 (h.fail _ _ _)) (h.trans _ _ _ h2 (t1 _))
        · refine rel_ite be _ _ _ (h.trans _ _ _ h2 (h.fail _ _ _)) ?_
          exact rel_ite be _ _ _ (h.trans _ _ _ h2 (h.fail _ _ _)) (h.trans _ _ _ h2 (t4 _ _))

/-- A relation kept by the pieces of the statement emitters is kept by the
statement emitters, by induction on the size of the tree. -/
theorem be_emit_stmt_rel_all (ops : f64_ops F) (R : backend_t → backend_t → Prop)
    (h : stmt_rel_ok ops R) : ∀ (m : Nat) (n : ast_node F), tree_size n ≤ m →
    (∀ be, R be (be_emit_stmt_ ops be n).2) ∧
    (∀ be, R be (be_emit_stmt_second_ ops be n).2) ∧
    (∀ be, R be (be_emit_stmts_after_ ops be n).2) ∧
    (∀ be L, R be (be_emit_if_loop_ ops be L n).2) := by
  intro m
  induction m with
  | zero =>
    intro n hn
    cases n with
    | nil => exact ⟨fun be => h.refl be, fun be => h.refl be, fun be => h.refl be,
        fun be _ => h.refl be⟩
    | node k p t u l r => simp [tree_size] at hn
  | succ m ih =>
    intro n hn
    cases n with
    | nil => exact ⟨fun be => h.refl be, fun be => h.refl be, fun be => h.refl be,
        fun be _ => h.refl be⟩
    | node k p t u l r =>
      have hsl : tree_size l ≤ m := by simp [tree_size] at hn; omega
      have hsr : tree_size r ≤ m := by simp [tree_size] at hn; omega
      obtain ⟨l1, l2, l3, l4⟩ := ih l hsl
      obtain ⟨r1, r2, r3, r4⟩ := ih r hsr
      refine ⟨?_, ?_, ?_, ?_⟩
      · intro be
        cases k
        case ASTK_BLOCK => exact rel_block ops R h p t u l r l1 l3 be
        case ASTK_WHILE => exact rel_while ops R h p t u l r l2 be
        case ASTK_IF => exact rel_if ops R h p t u l r l4 be
        case ASTK_VAR_DECL => exact h.vdecl be _
        case ASTK_ASSIGN => exact h.assign be _
        case ASTK_RETURN => exact h.ret be _
        case ASTK_BREAK => exact h.brk be _
        case ASTK_EXPR_STMT => exact h.expr_stmt be _
        case ASTK_CALL_STMT => exact h.call_stmt be _
        case ASTK_COUT => exact h.print be _
        case ASTK_ICOUT => exact h.print be _
        case ASTK_FCOUT => exact h.print be _
        all_goals exact h.fail be _ _
      · intro be
        exact r1 be
      · exact rel_after ops R h k p t u l r r1 r3
      · exact rel_if_loop ops R h k p t u l r
          (fun x hx => ⟨(ih x (hx.trans hsr)).1, (ih x (hx.trans hsr)).2.2.2⟩)

/-- A relation kept by the pieces of the statement emitters is kept by
`be_emit_stmt_`. -/
theorem be_emit_stmt_rel (ops : f64_ops F) (R : backend_t → backend_t → Prop)
    (h : stmt_rel_ok ops R) (be : backend_t) (n : ast_node F) :
    R be (be_emit_stmt_ ops be n).2 :=
  (be_emit_stmt_rel_all ops R h (tree_size n) n (Nat.le_refl _)).1 be

end emit_rel_thms

/-! ## Theorems: loop contexts and `break` -/

section break_thms
variable {F : Type}

theorem loops_of_frame {a b : backend_t} (h : be_frame a = be_frame b) : a.loops = b.loops :=
  congrArg (fun x => x.2.2.2.1) h

/-- The pieces of the statement emitters keep the stack of loop contexts. -/
theorem same_loops_ok (ops : f64_ops F) : stmt_rel_ok ops same_loops := by
  refine ⟨?_, ?_, ?_, ?_, ?_, ?_, ?_, ?_, ?_, ?_, ?_, ?_, ?_, ?_, ?_, ?_⟩
  · intro be; rfl
  · intro a b c h1 h2; exact h2.trans h1
  · intro be n msg; rfl
  · intro be c L; exact loops_of_frame (be_emit_cond_frame ops be c L)
  · intro be n; exact (loops_of_frame (be_emit_vdecl_frame ops be n)).trans rfl
  · intro be n; exact loops_of_frame (be_emit_assign_frame ops be n)
  · intro be n; exact loops_of_frame (be_emit_return_frame ops be n)
  · intro be n; exact loops_of_frame (be_emit_break_frame be n)
  · intro be n; exact loops_of_frame (be_emit_expr_stmt_frame ops be n)
  · intro be n; exact loops_of_frame (be_emit_call_stmt_frame ops be n)
  · intro be n; exact loops_of_frame (be_emit_print_frame ops be n)
  · intro be; rfl
  · intro be d; rfl
  · intro be x hx
    have h1 : (be_pop_loop x).loops = be.loops := by
      show x.loops.dropLast = be.loops
      rw [show x.loops = be.loops ++ [while_end_label be] from hx]
      exact List.dropLast_concat
    exact ⟨h1, h1⟩
  · intro be x hx; exact ⟨hx, hx⟩
  · intro be x L hx; exact ⟨hx, hx⟩

/-- The statement emitters keep the stack of loop contexts. -/
theorem be_emit_stmt_loops (ops : f64_ops F) (be : backend_t) (n : ast_node F) :
    (be_emit_stmt_ ops be n).2.loops = be.loops :=
  be_emit_stmt_rel ops same_loops (same_loops_ok ops) be n

theorem break_calls_ok_nil : break_calls_ok ([] : List (backend_t × Option String)) :=
  fun _ h => nomatch h

theorem break_calls_ok_append {a b : List (backend_t × Option String)}
    (ha : break_calls_ok a) (hb : break_calls_ok b) : break_calls_ok (a ++ b) := by
  intro c hc
  rcases List.mem_append.mp hc with h | h
  · exact ha c h
  · exact hb c h

theorem break_calls_ok_ite (c : Prop) [Decidable c] (a b : List (backend_t × Option String))
    (ha : break_calls_ok a) (hb : break_calls_ok b) : break_calls_ok (if c then a else b) := by
  split <;> assumption

/-- The equation of `be_break_calls_if_loop_` when nothing follows the
statement of the branch. -/
theorem be_break_calls_if_loop_last (ops : f64_ops F) (be : backend_t) (cur : Option String)
    (L_end : String) (kc : ast_kind_t) (pc : token_pos_t) (tc : ast_type_t)
    (uc : ast_payload F) (lc th : ast_node F) (hth : second_of th = .nil) :
    be_break_calls_if_loop_ ops be cur L_end (.node kc pc tc uc lc th) =
      (let rc := be_emit_cond_jfalse_ ops (be_new_label_ be "if_next").2
        (.node kc pc tc uc lc th) (be_new_label_ be "if_next").1
      if rc.1 ≠ .OK then []
      else
        let rt := be_emit_stmt_ ops rc.2 th
        be_break_calls_ ops rc.2 cur th ++ (if rt.1 ≠ .OK then [] else [])) := by
  cases th with
  | nil => rfl
  | node k2 p2 t2 u2 l2 tail =>
    have ht : tail = .nil := hth
    subst ht
    rfl

/-- The equation of `be_break_calls_if_loop_` when a node follows the
statement of the branch. -/
theorem be_break_calls_if_loop_tail (ops : f64_ops F) (be : backend_t) (cur : Option String)
    (L_end : String) (kc : ast_kind_t) (pc : token_pos_t) (tc : ast_type_t)
    (uc : ast_payload F) (lc : ast_node F) (k2 : ast_kind_t) (p2 : token_pos_t)
    (t2 : ast_type_t) (u2 : ast_payload F) (l2 : ast_node F) (tk : ast_kind_t)
    (tp : token_pos_t) (tt : ast_type_t) (tu : ast_payload F) (tl tr : ast_node F) :
    be_break_calls_if_loop_ ops be cur L_end
        (.node kc pc tc uc lc (.node k2 p2 t2 u2 l2 (.node tk tp tt tu tl tr))) =
      (let rc := be_emit_cond_jfalse_ ops (be_new_label_ be "if_next").2
        (.node kc pc tc uc lc (.node k2 p2 t2 u2 l2 (.node tk tp tt tu tl tr)))
        (be_new_label_ be "if_next").1
      if rc.1 ≠ .OK then []
      else
        let rt := be_emit_stmt_ ops rc.2 (.node k2 p2 t2 u2 l2 (.node tk tp tt tu tl tr))
        be_break_calls_ ops rc.2 cur (.node k2 p2 t2 u2 l2 (.node tk tp tt tu tl tr)) ++
          (if rt.1 ≠ .OK then []
          else
            let be2 := be_emitf_ rt.2 ["JMP " ++ L_end, (be_new_label_ be "if_next").1]
            if tk = .ASTK_ELSE then
              if !tl.is_some then [] else be_break_calls_ ops be2 cur tl
            else if tk ≠ .ASTK_BRANCH then []
            else if !tl.is_some || !(second_of tl).is_some then []
            else be_break_calls_if_loop_ ops be2 cur L_end tl)) := by
  rfl

theorem cond_loops (ops : f64_ops F) (be : backend_t) (c : ast_node F) (L : String) :
    (be_emit_cond_jfalse_ ops be c L).2.loops = be.loops :=
  loops_of_frame (be_emit_cond_frame ops be c L)

/-- The calls recorded for the loop of `be_emit_if_chain_`. -/
theorem break_calls_if_loop (ops : f64_ops F) (k : ast_kind_t) (p : token_pos_t)
    (t : ast_type_t) (u : ast_payload F) (l r : ast_node F)
    (hsub : ∀ x, tree_size x ≤ tree_size r →
      (∀ be cur, be.loops.getLast? = cur → break_calls_ok (be_break_calls_ ops be cur x)) ∧
      (∀ be cur L, be.loops.getLast? = cur →
        break_calls_ok (be_break_calls_if_loop_ ops be cur L x)))
    (be : backend_t) (cur : Option String) (L : String) (hbe : be.loops.getLast? = cur) :
    break_calls_ok (be_break_calls_if_loop_ ops be cur L (.node k p t u l r)) := by
  have hstmt := (hsub r (Nat.le_refl _)).1
  by_cases hth : second_of r = .nil
  · rw [be_break_calls_if_loop_last ops be cur L k p t u l r hth]
    dsimp only
    have hc := cond_loops ops (be_new_label_ be "if_next").2 (.node k p t u l r)
      (be_new_label_ be "if_next").1
    generalize be_emit_cond_jfalse_ ops (be_new_label_ be "if_next").2
      (.node k p t u l r) (be_new_label_ be "if_next").1 = rc at hc ⊢
    refine break_calls_ok_ite _ _ _ break_calls_ok_nil ?_
    rw [ite_self, List.append_nil]
    exact hstmt rc.2 cur (by rw [hc]; exact hbe)
  · cases r with
    | nil => exact absurd rfl hth
    | node k2 p2 t2 u2 l2 tail =>
      cases tail with
      | nil => exact absurd rfl hth
      | node tk tp tt tu tl tr =>
        rw [be_break_calls_if_loop_tail]
        dsimp only
        have hc := cond_loops ops (be_new_label_ be "if_next").2
          (.node k p t u l (.node k2 p2 t2 u2 l2 (.node tk tp tt tu tl tr)))
          (be_new_label_ be "if_next").1
        generalize be_emit_cond_jfalse_ ops (be_new_label_ be "if_next").2 _
          (be_new_label_ be "if_next").1 = rc at hc ⊢
        refine break_calls_ok_ite _ _ _ break_calls_ok_nil ?_
        have hrc : rc.2.loops.getLast? = cur := by rw [hc]; exact hbe
        refine break_calls_ok_append (hstmt rc.2 cur hrc) ?_
        have ht := be_emit_stmt_loops ops rc.2
          (ast_node.node k2 p2 t2 u2 l2 (ast_node.node tk tp tt tu tl tr))
        generalize be_emit_stmt_ ops rc.2
          (ast_node.node k2 p2 t2 u2 l2 (ast_node.node tk tp tt tu tl tr)) = rt at ht ⊢
        refine break_calls_ok_ite _ _ _ break_calls_ok_nil ?_
        have h2 : (be_emitf_ rt.2 ["JMP " ++ L, (be_new_label_ be "if_next").1]).loops.getLast?
            = cur := by
          show rt.2.loops.getLast? = cur
          rw [ht]
          exact hrc
        have hsz : tree_size tl ≤ tree_size (ast_node.node k2 p2 t2 u2 l2
            (ast_node.node tk tp tt tu tl tr)) := by
          simp only [tree_size]
          omega
        obtain ⟨t1, t4⟩ := hsub tl hsz
        refine break_calls_ok_ite _ _ _ ?_ ?_
        · exact break_calls_ok_ite _ _ _ break_calls_ok_nil (t1 _ _ h2)
        · refine break_calls_ok_ite _ _ _ break_calls_ok_nil ?_
          exact break_calls_ok_ite _ _ _ break_calls_ok_nil (t4 _ _ _ h2)

/-- Every call of `be_emit_break_` made by the statement emitters is made with
the end label of the innermost loop around it on top of the stack of loop
contexts, by induction on the size of the tree. -/
theorem break_calls_all (ops : f64_ops F) : ∀ (m : Nat) (n : ast_node F), tree_size n ≤ m →
    (∀ be cur, be.loops.getLast? = cur → break_calls_ok (be_break_calls_ ops be cur n)) ∧
    (∀ be cur, be.loops.getLast? = cur →
      break_calls_ok (be_break_calls_second_ ops be cur n)) ∧
    (∀ be cur, be.loops.getLast? = cur →
      break_calls_ok (be_break_calls_after_ ops be cur n)) ∧
    (∀ be cur L, be.loops.getLast? = cur →
      break_calls_ok (be_break_calls_if_loop_ ops be cur L n)) := by
  intro m
  induction m with
  | zero =>
    intro n hn
    cases n with
    | nil =>
      exact ⟨fun _ _ _ => break_calls_ok_nil, fun _ _ _ => break_calls_ok_nil,
        fun _ _ _ => break_calls_ok_nil, fun _ _ _ _ => break_calls_ok_nil⟩
    | node k p t u l r => simp [tree_size] at hn
  | succ m ih =>
    intro n hn
    cases n with
    | nil =>
      exact ⟨fun _ _ _ => break_calls_ok_nil, fun _ _ _ => break_calls_ok_nil,
        fun _ _ _ => break_calls_ok_nil, fun _ _ _ _ => break_calls_ok_nil⟩
    | node k p t u l r =>
      have hsl : tree_size l ≤ m := by simp [tree_size] at hn; omega
      have hsr : tree_size r ≤ m := by simp [tree_size] at hn; omega
      obtain ⟨l1, l2, l3, l4⟩ := ih l hsl
      obtain ⟨r1, r2, r3, r4⟩ := ih r hsr
      refine ⟨?_, ?_, ?_, ?_⟩
      · intro be cur hbe
        cases k
        case ASTK_BLOCK =>
          rw [show be_break_calls_ ops be cur (.node .ASTK_BLOCK p t u l r) =
            (if !l.is_some then []
            else be_break_calls_ ops { be with scope_depth := be.scope_depth + 1 } cur l ++
              (if (be_emit_stmt_ ops { be with scope_depth := be.scope_depth + 1 } l).1 ≠ .OK
                then []
              else be_break_calls_after_ ops
                (be_emit_stmt_ ops { be with scope_depth := be.scope_depth + 1 } l).2 cur l))
            from rfl]
          refine break_calls_ok_ite _ _ _ break_calls_ok_nil ?_
          refine break_calls_ok_append (l1 _ _ hbe) ?_
          refine break_calls_ok_ite _ _ _ break_calls_ok_nil (l3 _ _ ?_)
          rw [be_emit_stmt_loops]
          exact hbe
        case ASTK_WHILE =>
          rw [show be_break_calls_ ops be cur (.node .ASTK_WHILE p t u l r) =
            (if !l.is_some || !(second_of l).is_some then []
            else if (be_emit_cond_jfalse_ ops (while_entry be) l (while_end_label be)).1 ≠ .OK
              then []
            else be_break_calls_second_ ops
              (be_emit_cond_jfalse_ ops (while_entry be) l (while_end_label be)).2
              (some (while_end_label be)) l) from rfl]
          refine break_calls_ok_ite _ _ _ break_calls_ok_nil ?_
          refine break_calls_ok_ite _ _ _ break_calls_ok_nil (l2 _ _ ?_)
          rw [cond_loops]
          show (be.loops ++ [while_end_label be]).getLast? = _
          exact List.getLast?_concat _
        case ASTK_IF =>
          rw [show be_break_calls_ ops be cur (.node .ASTK_IF p t u l r) =
            (if !l.is_some || !(second_of l).is_some then []
            else be_break_calls_if_loop_ ops (be_new_label_ be "if_end").2 cur
              (be_new_label_ be "if_end").1 l) from rfl]
          exact break_calls_ok_ite _ _ _ break_calls_ok_nil (l4 _ _ _ hbe)
        case ASTK_BREAK =>
          intro c hc
          rw [List.mem_singleton.mp hc]
          exact hbe
        all_goals exact break_calls_ok_nil
      · intro be cur hbe
        exact r1 be cur hbe
      · intro be cur hbe
        rw [show be_break_calls_after_ ops be cur (.node k p t u l r) =
          (if !r.is_some then []
          else be_break_calls_ ops be cur r ++
            (if (be_emit_stmt_ ops be r).1 ≠ .OK then []
            else be_break_calls_after_ ops (be_emit_stmt_ ops be r).2 cur r)) from rfl]
        refine break_calls_ok_ite _ _ _ break_calls_ok_nil ?_
        refine break_calls_ok_append (r1 _ _ hbe) ?_
        refine break_calls_ok_ite _ _ _ break_calls_ok_nil (r3 _ _ ?_)
        rw [be_emit_stmt_loops]
        exact hbe
      · intro be cur L hbe
        exact break_calls_if_loop ops k p t u l r
          (fun x hx => ⟨(ih x (hx.trans hsr)).1, (ih x (hx.trans hsr)).2.2.2⟩) be cur L hbe

end break_thms

/-- C32. A `gg` targets the innermost loop.  The statement emitters keep the
stack of loop contexts; every call of `be_emit_break_` made while a statement
`st` is emitted finds on top of the stack the end label of the innermost
`WHILE` node of `st` around the `BREAK` node (the top of the stack on entry
when there is none), also behind an inner loop, and emits `JMP` to that label;
a `WHILE` node with condition and body whose emission succeeds has its body
emitted with its end label `L_end` as the innermost loop, and the emission ends
with the one back-edge `JMP L_begin` followed by the line `L_end`. -/
theorem break_targets_innermost_loop {F : Type} (ops : f64_ops F) (be : backend_t)
    (st : ast_node F) :
    (be_emit_stmt_ ops be st).2.loops = be.loops ∧
    (∀ c ∈ be_break_calls_ ops be be.loops.getLast? st,
      c.1.loops.getLast? = c.2 ∧
      ∀ L, c.2 = some L → ∀ brk : ast_node F,
        be_emit_break_ c.1 brk = (.OK, be_emitf_ c.1 ["JMP " ++ L])) ∧
    (∀ (p : token_pos_t) (t : ast_type_t) (u : ast_payload F) (l r : ast_node F),
      st = .node .ASTK_WHILE p t u l r → l.is_some = true → (second_of l).is_some = true →
      (be_emit_stmt_ ops be st).1 = .OK →
      (while_entry be).out = be.out ++ [while_begin_label be] ∧
      (while_entry be).loops = be.loops ++ [while_end_label be] ∧
      be_break_calls_ ops be be.loops.getLast? st
        = be_break_calls_second_ ops
            (be_emit_cond_jfalse_ ops (while_entry be) l (while_end_label be)).2
            (some (while_end_label be)) l ∧
      (be_emit_stmt_ ops be st).2.out
        = (be_emit_stmt_second_ ops
            (be_emit_cond_jfalse_ ops (while_entry be) l (while_end_label be)).2 l).2.out
          ++ ["JMP " ++ while_begin_label be, while_end_label be]) := by
  refine ⟨be_emit_stmt_loops ops be st, ?_, ?_⟩
  · intro c hc
    have h1 := (break_calls_all ops (tree_size st) st (Nat.le_refl _)).1 be _ rfl c hc
    refine ⟨h1, ?_⟩
    intro L hL brk
    unfold be_emit_break_
    rw [h1, hL]
  · intro p t u l r hst hl hl2 hok
    subst hst
    have hm : (!l.is_some || !(second_of l).is_some) = false := by
      rw [hl, hl2]
      rfl
    refine ⟨rfl, rfl, ?_, ?_⟩
    · rw [show be_break_calls_ ops be be.loops.getLast? (.node .ASTK_WHILE p t u l r) =
        (if !l.is_some || !(second_of l).is_some then []
        else if (be_emit_cond_jfalse_ ops (while_entry be) l (while_end_label be)).1 ≠ .OK
          then []
        else be_break_calls_second_ ops
          (be_emit_cond_jfalse_ ops (while_entry be) l (while_end_label be)).2
          (some (while_end_label be)) l) from rfl]
      rw [be_emit_stmt_while] at hok
      dsimp only at hok
      rw [hm] at hok ⊢
      simp only [Bool.false_eq_true, if_false] at hok ⊢
      by_cases hc : (be_emit_cond_jfalse_ ops (while_entry be) l (while_end_label be)).1 ≠ .OK
      · rw [if_pos hc] at hok
        exact absurd hok hc
      · rw [if_neg hc]
    · rw [be_emit_stmt_while] at hok ⊢
      dsimp only at hok ⊢
      rw [hm] at hok ⊢
      simp only [Bool.false_eq_true, if_false] at hok ⊢
      by_cases hc : (be_emit_cond_jfalse_ ops (while_entry be) l (while_end_label be)).1 ≠ .OK
      · rw [if_pos hc] at hok
        exact absurd hok hc
      · rw [if_neg hc] at hok ⊢
        by_cases hb : (be_emit_stmt_second_ ops
            (be_emit_cond_jfalse_ ops (while_entry be) l (while_end_label be)).2 l).1 ≠ .OK
        · rw [if_pos hb] at hok
          exact absurd hok hb
        · rw [if_neg hb]
          rfl

/-- C32, an instance: in `lowkey (1) yap lowkey (2) yap gg; yapity alpha (3) gg;
yapity` the first `gg` is emitted with the end label of the inner loop on top
of the stack, the second one, behind the inner loop, with that of the outer
loop. -/
theorem break_targets_innermost_loop_witness :
    (be_break_calls_ exact_ops be_nested_break none body_nested_break).map
        (fun c => (c.1.loops, c.2))
      = [([":L_while_end_1", ":L_while_end_3"], some ":L_while_end_3"),
         ([":L_while_end_1"], some ":L_while_end_1")] ∧
    ((be_emit_stmt_ exact_ops be_nested_break body_nested_break).2.out.drop 8).take 12
      = ["JMP :L_while_end_3", "JMP :L_while_begin_2", ":L_while_end_3", "PUSH 3", "PUSH 0",
         "JE :L_if_next_5", "JMP :L_while_end_1", "JMP :L_if_end_4", ":L_if_next_5",
         ":L_if_end_4", "JMP :L_while_begin_0", ":L_while_end_1"] ∧
    (be_emit_stmt_ exact_ops be_nested_break body_nested_break).2.loops = [] ∧
    (∀ c ∈ be_break_calls_ exact_ops be_nested_break none body_nested_break,
      c.1.loops.getLast? = c.2 ∧
      ∀ L, c.2 = some L → ∀ brk : ast_node ℚ,
        be_emit_break_ c.1 brk = (.OK, be_emitf_ c.1 ["JMP " ++ L])) :=
  ⟨by decide!, by decide!,
    (break_targets_innermost_loop exact_ops be_nested_break body_nested_break).1,
    (break_targets_innermost_loop exact_ops be_nested_break body_nested_break).2.1⟩

/-! ## Theorems: labels are unique -/

theorem digit_char_value (d : Nat) (h : d < 10) :
    (Nat.digitChar d).toNat - 48 = d ∧ Nat.digitChar d ≠ '_' := by
  interval_cases d <;> exact ⟨by decide, by decide⟩

theorem to_digits_core_value (fuel : Nat) : ∀ (n : Nat) (ds : List Char), n < fuel →
    (Nat.toDigitsCore 10 fuel n ds).foldl (fun acc c => acc * 10 + (c.toNat - 48)) 0
      = ds.foldl (fun acc c => acc * 10 + (c.toNat - 48)) n := by
  induction fuel with
  | zero => intro n ds h; exact absurd h (Nat.not_lt_zero _)
  | succ f ih =>
    intro n ds h
    have hd := (digit_char_value (n % 10) (Nat.mod_lt _ (by decide))).1
    unfold Nat.toDigitsCore
    by_cases h0 : n / 10 = 0
    · simp only [h0, if_true, List.foldl_cons, Nat.zero_mul, Nat.zero_add, hd]
      have : n % 10 = n := Nat.mod_eq_of_lt (by omega)
      rw [this]
    · simp only [h0, if_false]
      rw [ih (n / 10) _ (by omega)]
      simp only [List.foldl_cons, hd]
      have : n / 10 * 10 + n % 10 = n := by omega
      rw [this]

theorem to_decimal_value (n : Nat) : decimal_value (Nat.toDigits 10 n) = n := by
  unfold decimal_value Nat.toDigits
  rw [to_digits_core_value (n + 1) n [] (Nat.lt_succ_self n)]
  rfl

theorem to_digits_core_no_sep (fuel : Nat) : ∀ (n : Nat) (ds : List Char),
    (∀ c ∈ ds, c ≠ '_') → ∀ c ∈ Nat.toDigitsCore 10 fuel n ds, c ≠ '_' := by
  induction fuel with
  | zero => intro n ds h; exact h
  | succ f ih =>
    intro n ds h
    have hd := (digit_char_value (n % 10) (Nat.mod_lt _ (by decide))).2
    have h2 : ∀ c ∈ Nat.digitChar (n % 10) :: ds, c ≠ '_' := by
      intro c hc
      rcases List.mem_cons.mp hc with e | e
      · rw [e]; exact hd
      · exact h c e
    unfold Nat.toDigitsCore
    by_cases h0 : n / 10 = 0
    · simp only [h0, if_true]
      exact h2
    · simp only [h0, if_false]
      exact ih _ _ h2

theorem to_digits_no_sep (n : Nat) : ∀ c ∈ Nat.toDigits 10 n, c ≠ '_' :=
  to_digits_core_no_sep _ _ _ (fun _ h => nomatch h)

theorem gen_label_data (p : String) (n : Nat) :
    (gen_label p n).data = [':', 'L', '_'] ++ p.data ++ ['_'] ++ Nat.toDigits 10 n := rfl

/-- The counter value can be read off a label. -/
theorem gen_label_inj (p q : String) (n m : Nat) (h : gen_label p n = gen_label q m) :
    n = m := by
  have hd := congrArg String.data h
  rw [gen_label_data, gen_label_data] at hd
  have key : ∀ (pre : List Char) (k : Nat),
      ((pre ++ ['_'] ++ Nat.toDigits 10 k).reverse.takeWhile (fun c => c != '_')).reverse
        = Nat.toDigits 10 k := by
    intro pre k
    rw [List.reverse_append, List.reverse_append]
    rw [List.takeWhile_append_of_pos]
    · simp [List.takeWhile]
    · intro c hc
      have := to_digits_no_sep k c (List.mem_reverse.mp hc)
      simpa using this
  have h1 := key ([':', 'L', '_'] ++ p.data) n
  have h2 := key ([':', 'L', '_'] ++ q.data) m
  rw [hd, h2] at h1
  have := congrArg decimal_value h1
  rw [to_decimal_value, to_decimal_value] at this
  exact this.symm

theorem is_label_line_gen (p : String) (n : Nat) : is_label_line (gen_label p n) = true := rfl

theorem new_label_eq (be : backend_t) (p : String) :
    (be_new_label_ be p).1 = gen_label p be.label_counter := rfl

theorem label_lines_append (a b : List String) :
    label_lines (a ++ b) = label_lines a ++ label_lines b :=
  List.filter_append _ _

theorem label_lines_line_if (c : Bool) (s : String) (h : is_label_line s = false) :
    label_lines (line_if c s) = [] := by
  cases c
  · rfl
  · simp [line_if, label_lines, h]

theorem gen_in_mono {a b a' b' : Nat} {s : String} (h : gen_in a b s) (h1 : a' ≤ a)
    (h2 : b ≤ b') : gen_in a' b' s := by
  obtain ⟨p, n, e, l1, l2⟩ := h
  exact ⟨p, n, e, h1.trans l1, Nat.lt_of_lt_of_le l2 h2⟩

theorem lab_step_plain (c c' : Nat) (ls : List String) (h : label_lines ls = []) :
    lab_step c c' ls := by
  unfold lab_step
  rw [h]
  exact ⟨List.nodup_nil, fun _ hs => nomatch hs⟩

theorem lab_step_mono {a b a' b' : Nat} {ls : List String} (h : lab_step a b ls) (h1 : a' ≤ a)
    (h2 : b ≤ b') : lab_step a' b' ls :=
  ⟨h.1, fun s hs => gen_in_mono (h.2 s hs) h1 h2⟩

/-- Lines with labels of two separate ranges of counter values. -/
theorem lab_step_append {a1 b1 a2 b2 lo hi : Nat} {n1 n2 : List String}
    (h1 : lab_step a1 b1 n1) (h2 : lab_step a2 b2 n2) (hd : b1 ≤ a2 ∨ b2 ≤ a1)
    (l1 : lo ≤ a1) (l2 : lo ≤ a2) (u1 : b1 ≤ hi) (u2 : b2 ≤ hi) :
    lab_step lo hi (n1 ++ n2) := by
  unfold lab_step
  rw [label_lines_append]
  refine ⟨List.nodup_append.mpr ⟨h1.1, h2.1, ?_⟩, ?_⟩
  · intro s hs1 hs2
    obtain ⟨p, n, e, x1, x2⟩ := h1.2 s hs1
    obtain ⟨q, m, e2, y1, y2⟩ := h2.2 s hs2
    have := gen_label_inj p q n m (e.symm.trans e2)
    omega
  · intro s hs
    rcases List.mem_append.mp hs with h | h
    · exact gen_in_mono (h1.2 s h) l1 u1
    · exact gen_in_mono (h2.2 s h) l2 u2

theorem lab_step_single (p : String) (n : Nat) : lab_step n (n + 1) [gen_label p n] := by
  unfold lab_step
  rw [show label_lines [gen_label p n] = [gen_label p n] from rfl]
  refine ⟨List.nodup_singleton _, ?_⟩
  intro s hs
  rw [List.mem_singleton.mp hs]
  exact ⟨p, n, rfl, Nat.le_refl _, Nat.lt_succ_self _⟩

theorem emit_labels_refl (be : backend_t) : emit_labels be be :=
  ⟨Nat.le_refl _, [], (List.append_nil _).symm, lab_step_plain _ _ _ rfl⟩

theorem emit_labels_trans (a b c : backend_t) (h1 : emit_labels a b) (h2 : emit_labels b c) :
    emit_labels a c := by
  obtain ⟨c1, n1, e1, s1⟩ := h1
  obtain ⟨c2, n2, e2, s2⟩ := h2
  refine ⟨c1.trans c2, n1 ++ n2, ?_, ?_⟩
  · rw [e2, e1, List.append_assoc]
  · exact lab_step_append s1 s2 (Or.inl (Nat.le_refl _)) (Nat.le_refl _) c1 c2 (Nat.le_refl _)

/-- Lines without a label definition. -/
theorem emit_labels_plain (be : backend_t) (ls : List String) (h : label_lines ls = []) :
    emit_labels be (be_emitf_ be ls) :=
  ⟨Nat.le_refl _, ls, rfl, lab_step_plain _ _ _ h⟩

theorem emit_labels_fail {F : Type} (be : backend_t) (n : ast_node F) (msg : String) :
    emit_labels be (be_fail_node be n msg).2 :=
  ⟨Nat.le_refl _, [], (List.append_nil _).symm, lab_step_plain _ _ _ rfl⟩

/-- A state with the lines of `b` and a counter that is not below that of `b`. -/
theorem emit_labels_congr {a b b' : backend_t} (h : emit_labels a b) (ho : b'.out = b.out)
    (hc : b.label_counter ≤ b'.label_counter) : emit_labels a b' := by
  obtain ⟨c1, n1, e1, s1⟩ := h
  exact ⟨c1.trans hc, n1, by rw [ho]; exact e1, lab_step_mono s1 (Nat.le_refl _) hc⟩

/-- Two labels are made, lines without a label definition are emitted around
them: the pattern of the comparisons and of `!`. -/
theorem emit_labels_two (be : backend_t) (p q : String) (pre mid post : List String)
    (h1 : label_lines pre = []) (h2 : label_lines mid = []) (h3 : label_lines post = []) :
    emit_labels be
      (be_emitf_ (be_new_label_ (be_new_label_ be p).2 q).2
        (pre ++ [(be_new_label_ be p).1] ++ mid ++
          [(be_new_label_ (be_new_label_ be p).2 q).1] ++ post)) := by
  refine ⟨?_, _, rfl, ?_⟩
  · show be.label_counter ≤ be.label_counter + 1 + 1
    omega
  · show lab_step be.label_counter (be.label_counter + 1 + 1) _
    have a1 := lab_step_single p be.label_counter
    have a2 := lab_step_single q (be.label_counter + 1)
    have b1 : lab_step be.label_counter (be.label_counter + 1)
        (pre ++ [gen_label p be.label_counter]) :=
      lab_step_append (lab_step_plain be.label_counter be.label_counter _ h1) a1
        (Or.inl (Nat.le_refl _)) (Nat.le_refl _) (Nat.le_refl _) (by omega) (Nat.le_refl _)
    have b2 : lab_step be.label_counter (be.label_counter + 1)
        (pre ++ [gen_label p be.label_counter] ++ mid) :=
      lab_step_append b1 (lab_step_plain (be.label_counter + 1) (be.label_counter + 1) _ h2)
        (Or.inl (Nat.le_refl _)) (Nat.le_refl _) (by omega) (Nat.le_refl _) (Nat.le_refl _)
    have b3 : lab_step be.label_counter (be.label_counter + 1 + 1)
        (pre ++ [gen_label p be.label_counter] ++ mid ++
          [gen_label q (be.label_counter + 1)]) :=
      lab_step_append b2 a2 (Or.inl (Nat.le_refl _)) (Nat.le_refl _) (by omega) (by omega)
        (Nat.le_refl _)
    exact lab_step_append b3
      (lab_step_plain (be.label_counter + 1 + 1) (be.label_counter + 1 + 1) _ h3)
      (Or.inl (Nat.le_refl _)) (Nat.le_refl _) (by omega) (Nat.le_refl _) (Nat.le_refl _)

section label_thms
variable {F : Type}

theorem el_plain {a b : backend_t} (h : emit_labels a b) (ls : List String)
    (hp : label_lines ls = []) : emit_labels a (be_emitf_ b ls) :=
  emit_labels_trans _ _ _ h (emit_labels_plain b ls hp)

theorem el_ite {a : backend_t} (c : Prop) [Decidable c] (x y : expr_result)
    (hx : emit_labels a x.be) (hy : emit_labels a y.be) :
    emit_labels a (if c then x else y).be := by
  split <;> assumption

theorem el_ite_pair {a : backend_t} (c : Prop) [Decidable c] (x y : err_t × backend_t)
    (hx : emit_labels a x.2) (hy : emit_labels a y.2) :
    emit_labels a (if c then x else y).2 := by
  split <;> assumption

theorem el_ite_be {a : backend_t} (c : Prop) [Decidable c] (x y : backend_t)
    (hx : emit_labels a x) (hy : emit_labels a y) :
    emit_labels a (if c then x else y) := by
  split <;> assumption

theorem plain_itof (c : Bool) : label_lines (line_if c "ITOF") = [] :=
  label_lines_line_if c _ rfl

theorem plain_ftoi (c : Bool) : label_lines (line_if c "FTOI") = [] :=
  label_lines_line_if c _ rfl

theorem plain_coerce (pt at_ : ast_type_t) : label_lines (coerce_lines pt at_) = [] := by
  unfold coerce_lines
  rw [label_lines_append, plain_itof, plain_ftoi]
  rfl

theorem plain_promote (at_ bt : ast_type_t) :
    label_lines (promote_pair_lines at_ bt) = [] := by
  unfold promote_pair_lines
  rw [label_lines_append, plain_itof]
  split <;> rfl

theorem el_addr_bp {a b : backend_t} (h : emit_labels a b) (off : Nat) :
    emit_labels a (be_emit_addr_bp_off_ b off) :=
  el_plain h _ rfl

theorem el_load {a b : backend_t} (h : emit_labels a b) (off : Nat) :
    emit_labels a (be_emit_load_bp_off_ b off) :=
  el_plain (el_addr_bp h off) _ rfl

theorem el_store {a b : backend_t} (h : emit_labels a b) (off : Nat) :
    emit_labels a (be_emit_store_bp_off_ b off) :=
  el_plain (el_addr_bp h off) _ rfl

theorem el_addr_sp {a b : backend_t} (h : emit_labels a b) (imm : Nat) :
    emit_labels a (be_emit_addr_sp_plus_ b imm) := by
  unfold be_emit_addr_sp_plus_
  dsimp only
  refine el_ite_be _ _ _ ?_ ?_
  · exact el_plain (el_plain h _ (by rfl)) _ (by rfl)
  · exact el_plain h _ (by rfl)

theorem el_call_arg_store {a : backend_t} (fm : func_meta_t) (i : Nat) (ra : expr_result)
    (h : emit_labels a ra.be) : emit_labels a (call_arg_store fm i ra) := by
  unfold call_arg_store
  dsimp only
  refine el_plain (el_addr_sp ?_ i) _ rfl
  exact el_ite_be _ _ _ (el_plain h _ (plain_coerce _ _)) h

theorem cmp_jump_plain (opk : token_kind_t) (jmp : String) (x : String)
    (h : cmp_jump opk = some jmp) : is_label_line (jmp ++ " " ++ x) = false := by
  cases opk <;> cases h <;> rfl

theorem fcmp_jump_plain (opk : token_kind_t) (jmp : String) (k : Int) (x : String)
    (h : fcmp_jump opk = some (jmp, k)) : is_label_line (jmp ++ " " ++ x) = false := by
  cases opk <;> cases h <;> rfl

theorem label_lines_cons_plain (s : String) (ls : List String) (h : is_label_line s = false) :
    label_lines (s :: ls) = label_lines ls := by
  simp [label_lines, h]

theorem el_cmp {a b : backend_t} (h : emit_labels a b) (n : ast_node F) (opk : token_kind_t) :
    emit_labels a (be_emit_cmp_to_bool_ b n opk).2 := by
  unfold be_emit_cmp_to_bool_
  dsimp only
  cases hj : cmp_jump opk with
  | none => exact emit_labels_congr h rfl (Nat.le_add_right _ 2)
  | some jmp =>
    refine emit_labels_trans _ _ _ h ?_
    exact emit_labels_two b "cmp_true" "cmp_end" [jmp ++ " " ++ _, "PUSH 0", "JMP " ++ _]
      ["PUSH 1"] []
      (by rw [label_lines_cons_plain _ _ (cmp_jump_plain opk jmp _ hj)]; rfl) rfl rfl

theorem el_fcmp {a b : backend_t} (h : emit_labels a b) (n : ast_node F) (opk : token_kind_t) :
    emit_labels a (be_emit_fcmp_res_to_bool_ b n opk).2 := by
  unfold be_emit_fcmp_res_to_bool_
  dsimp only
  cases hj : fcmp_jump opk with
  | none => exact emit_labels_congr h rfl (Nat.le_add_right _ 2)
  | some jk =>
    obtain ⟨jmp, k⟩ := jk
    refine emit_labels_trans _ _ _ h ?_
    exact emit_labels_two b "fcmp_true" "fcmp_end"
      ["PUSH " ++ toString k, jmp ++ " " ++ _, "PUSH 0", "JMP " ++ _] ["PUSH 1"] []
      (by
        rw [label_lines_cons_plain _ _ (by rfl),
          label_lines_cons_plain _ _ (fcmp_jump_plain opk jmp k _ hj)]
        rfl) rfl rfl

theorem el_err {a b : backend_t} (h : emit_labels a b) (pos : token_pos_t) (o : Nat)
    (msg : String) : emit_labels a (be_set_error_ b pos o msg) :=
  emit_labels_congr h rfl (Nat.le_refl _)

theorem el_fail {a b : backend_t} (h : emit_labels a b) (n : ast_node F) (msg : String) :
    emit_labels a (be_fail_node b n msg).2 :=
  emit_labels_congr h rfl (Nat.le_refl _)

theorem builtin0_plain (name : Option (List Char)) (row : String × String × ast_type_t)
    (h : builtin0_find name = some row) : is_label_line row.2.1 = false := by
  have hm : row ∈ builtin0_table := List.mem_of_find?_eq_some h
  have hall : ∀ r ∈ builtin0_table, is_label_line r.2.1 = false := by decide
  exact hall row hm

/-- The body of `be_emit_builtin_call_`. -/
theorem el_builtin_body (be : backend_t) (pos : token_pos_t) (name_id argc : Nat)
    (emit_arg : Nat → backend_t → expr_result)
    (h : ∀ idx b, emit_labels b (emit_arg idx b).be) :
    emit_labels be (be_builtin_call_body be pos name_id argc emit_arg).be := by
  have h0 := emit_labels_refl be
  unfold be_builtin_call_body
  cases hb : builtin0_find (nametable_get be.nametable name_id) with
  | some row =>
    obtain ⟨bname, instr, rt⟩ := row
    simp only [hb]
    refine el_ite _ _ _ ?_ (el_err h0 _ _ _)
    exact el_plain h0 _ (label_lines_cons_plain _ _ (builtin0_plain _ _ hb))
  | none =>
    simp only [hb]
    refine el_ite _ _ _ ?_ ?_
    · refine el_ite _ _ _ (el_err h0 _ _ _) ?_
      have ha := h 0 be
      refine el_ite _ _ _ (el_err ha _ _ _) ?_
      refine el_ite _ _ _ ?_ ?_
      · exact el_plain ha _ (by rw [label_lines_append, plain_itof]; rfl)
      · exact el_plain ha _ (by rw [label_lines_append, plain_ftoi]; split <;> rfl)
    · refine el_ite _ _ _ ?_ h0
      refine el_ite _ _ _ (el_err h0 _ _ _) ?_
      have hy := h 1 be
      refine el_ite _ _ _ (el_err hy _ _ _) ?_
      have hy1 := el_plain hy
        (line_if (decide ((emit_arg 1 be).out_type = .AST_TYPE_FLOAT)) "FTOI" ++
          ["PUSH 128", "MUL"])
        (by rw [label_lines_append, plain_ftoi]; rfl)
      have hx := emit_labels_trans _ _ _ hy1 (h 0 _)
      refine el_ite _ _ _ (el_err hx _ _ _) ?_
      have hx1 := el_plain hx
        (line_if (decide ((emit_arg 0 (be_emitf_ (emit_arg 1 be).be
          (line_if (decide ((emit_arg 1 be).out_type = .AST_TYPE_FLOAT)) "FTOI" ++
            ["PUSH 128", "MUL"]))).out_type = .AST_TYPE_FLOAT)) "FTOI" ++ ["ADD", "POPR x13"])
        (by rw [label_lines_append, plain_ftoi]; rfl)
      have hc := emit_labels_trans _ _ _ hx1 (h 2 _)
      refine el_ite _ _ _ (el_err hc _ _ _) ?_
      exact el_plain hc _ (by rw [label_lines_append, plain_ftoi]; rfl)

/-- The `BINARY` case of `be_emit_expr_`. -/
theorem el_expr_binary (ops : f64_ops F) (p : token_pos_t)
    (t : ast_type_t) (u : ast_payload F) (l r : ast_node F)
    (el : ∀ be, emit_labels be (be_emit_expr_ ops be l).be)
    (sl : ∀ be idx, emit_labels be (be_emit_sibling_ ops be l idx).be)
    (be : backend_t) :
    emit_labels be (be_emit_expr_ ops be (.node .ASTK_BINARY p t u l r)).be := by
  rw [be_emit_expr_]
  dsimp only
  have hra := el be
  have hrb := emit_labels_trans _ _ _ hra (sl (be_emit_expr_ ops be l).be 0)
  refine el_ite _ _ _ (emit_labels_fail _ _ _) ?_
  refine el_ite _ _ _ ?_ ?_
  · refine el_ite _ _ _ hra ?_
    have hb2 := emit_labels_trans _ _ _ (el_plain hra
      (line_if (decide ((be_emit_expr_ ops be l).out_type = .AST_TYPE_FLOAT)) "FTOI")
      (plain_ftoi _)) (sl _ 0)
    refine el_ite _ _ _ hb2 ?_
    exact el_plain hb2 _ (by rw [label_lines_append, plain_ftoi]; split <;> rfl)
  refine el_ite _ _ _ ?_ ?_
  · refine el_ite _ _ _ hra ?_
    refine el_ite _ _ _ hrb ?_
    have hrr : ∀ (c : Prop) [Decidable c] (ls : List String) (e : ast_node F)
        (opk : token_kind_t), label_lines ls = [] →
        emit_labels be (if c then
            be_emit_fcmp_res_to_bool_
              (be_emitf_ (be_emit_sibling_ ops (be_emit_expr_ ops be l).be l 0).be ls) e opk
          else be_emit_cmp_to_bool_ (be_emit_sibling_ ops (be_emit_expr_ ops be l).be l 0).be
            e opk).2 := by
      intro c _ ls e opk hls
      refine el_ite_pair _ _ _ ?_ ?_
      · exact el_fcmp (el_plain hrb _ hls) _ _
      · exact el_cmp hrb _ _
    have hpl : ∀ (c1 : Bool) (c2 : Prop) [Decidable c2],
        label_lines (line_if c1 "ITOF" ++
          (if c2 then ["FPOPR fx1", "ITOF", "FPUSHR fx1"] else []) ++ ["FCMP"]) = [] := by
      intro c1 c2 _
      rw [label_lines_append, label_lines_append, plain_itof]
      split <;> rfl
    refine el_ite _ _ _ (hrr _ _ _ _ (hpl _ _)) (hrr _ _ _ _ (hpl _ _))
  refine el_ite _ _ _ ?_ ?_
  · refine el_ite _ _ _ hra ?_
    refine el_ite _ _ _ hrb ?_
    refine el_ite _ _ _ (el_plain hrb _ (by rfl)) ?_
    refine el_ite _ _ _ (el_plain hrb _ (by rfl)) ?_
    refine el_ite _ _ _ (el_plain hrb _ (by rfl)) ?_
    refine el_ite _ _ _ (el_plain hrb _ (by rfl)) (el_fail hrb _ _)
  · refine el_ite _ _ _ hra ?_
    have h1 : ∀ (c : Prop) [Decidable c] (c1 c2 : Bool),
        emit_labels be (if c then be_emitf_ (be_emit_expr_ ops be l).be (line_if c1 "ITOF")
          else be_emitf_ (be_emit_expr_ ops be l).be (line_if c2 "FTOI")) := by
      intro c _ c1 c2
      exact el_ite_be _ _ _ (el_plain hra _ (plain_itof _)) (el_plain hra _ (plain_ftoi _))
    have h2 : ∀ (c : Prop) [Decidable c] (x : backend_t) (c1 c2 : Bool),
        emit_labels be x →
        emit_labels be (if c then be_emitf_ (be_emit_sibling_ ops x l 0).be (line_if c1 "ITOF")
          else be_emitf_ (be_emit_sibling_ ops x l 0).be (line_if c2 "FTOI")) := by
      intro c _ x c1 c2 hx
      have hs := emit_labels_trans _ _ _ hx (sl x 0)
      exact el_ite_be _ _ _ (el_plain hs _ (plain_itof _)) (el_plain hs _ (plain_ftoi _))
    have h3 : ∀ (c : Prop) [Decidable c] (a b : String), is_label_line a = false →
        is_label_line b = false → label_lines [if c then a else b] = [] := by
      intro c _ a b ha hb
      split
      · exact (label_lines_cons_plain _ _ ha).trans rfl
      · exact (label_lines_cons_plain _ _ hb).trans rfl
    refine el_ite _ _ _ (emit_labels_trans _ _ _ (h1 _ _ _) (sl _ 0)) ?_
    refine el_ite _ _ _ (el_plain (h2 _ _ _ _ (h1 _ _ _)) _ (h3 _ _ _ rfl rfl)) ?_
    refine el_ite _ _ _ (el_plain (h2 _ _ _ _ (h1 _ _ _)) _ (h3 _ _ _ rfl rfl)) ?_
    refine el_ite _ _ _ (el_plain (h2 _ _ _ _ (h1 _ _ _)) _ (h3 _ _ _ rfl rfl)) ?_
    refine el_ite _ _ _ (el_plain (h2 _ _ _ _ (h1 _ _ _)) _ (h3 _ _ _ rfl rfl)) ?_
    exact el_fail (h2 _ _ _ _ (h1 _ _ _)) _ _

/-- The node case of `be_emit_expr_`. -/
theorem el_expr_node (ops : f64_ops F) (k : ast_kind_t) (p : token_pos_t)
    (t : ast_type_t) (u : ast_payload F) (l r : ast_node F)
    (el : ∀ be, emit_labels be (be_emit_expr_ ops be l).be)
    (sl : ∀ be idx, emit_labels be (be_emit_sibling_ ops be l idx).be)
    (al : ∀ be fm, emit_labels be (be_emit_call_args_ ops be fm l).2)
    (bl : ∀ be pos id, emit_labels be (be_emit_builtin_call_ ops be pos id l).be)
    (be : backend_t) :
    emit_labels be (be_emit_expr_ ops be (.node k p t u l r)).be := by
  have h0 := emit_labels_refl be
  cases k
  case ASTK_NUM_LIT =>
    simp only [be_emit_expr_]
    cases u.lit
    · exact el_plain h0 _ (by rfl)
    · exact el_plain h0 _ (by rfl)
    · exact el_plain h0 _ (by rfl)
  case ASTK_IDENT =>
    simp only [be_emit_expr_]
    exact el_ite _ _ _ (el_load h0 _) (emit_labels_fail _ _ _)
  case ASTK_CALL =>
    rw [be_emit_expr_]
    dsimp only
    have hb := bl be p u.name_id
    refine el_ite _ _ _ hb ?_
    refine el_ite _ _ _ hb ?_
    cases be_find_func_ (be_emit_builtin_call_ ops be p u.name_id l).be u.name_id with
    | none => exact el_fail hb _ _
    | some fm =>
      cases l with
      | nil => exact el_fail hb _ _
      | node ka pa ta ua la ra =>
        dsimp only
        refine el_ite _ _ _ (el_fail hb _ _) ?_
        have ha := emit_labels_trans _ _ _ hb (al _ fm)
        refine el_ite _ _ _ ha ?_
        have hc := el_plain ha ["CALL " ++ fm.label] (by rfl)
        refine el_ite_be _ _ _ (el_plain hc _ (by rfl)) ?_
        exact el_ite_be _ _ _ (el_plain hc _ (by rfl)) hc
  case ASTK_UNARY =>
    rw [be_emit_expr_]
    dsimp only
    have hs := el be
    refine el_ite _ _ _ (emit_labels_fail _ _ _) ?_
    refine el_ite _ _ _ hs ?_
    refine el_ite _ _ _ hs ?_
    refine el_ite _ _ _ ?_ ?_
    · refine el_plain hs _ ?_
      rw [label_lines_append, label_lines_append, plain_itof]
      split <;> rfl
    refine el_ite _ _ _ ?_ (el_fail hs _ _)
    have h1 := el_plain hs
      (line_if (decide ((be_emit_expr_ ops be l).out_type = .AST_TYPE_FLOAT)) "FTOI" ++
        ["PUSH 0"]) (by rw [label_lines_append, plain_ftoi]; rfl)
    refine emit_labels_trans _ _ _ h1 ?_
    exact emit_labels_two _ "not_true" "not_end" ["JE " ++ _, "PUSH 0", "JMP " ++ _]
      ["PUSH 1"] [] (by rfl) (by rfl) (by rfl)
  case ASTK_BUILTIN_UNARY =>
    rw [be_emit_expr_]
    dsimp only
    have hs := el be
    refine el_ite _ _ _ (emit_labels_fail _ _ _) ?_
    refine el_ite _ _ _ hs ?_
    refine el_ite _ _ _ (el_plain hs _ (by rw [label_lines_append, plain_itof]; rfl)) ?_
    refine el_ite _ _ _ (el_plain hs _ (by rw [label_lines_append, plain_itof]; rfl)) ?_
    refine el_ite _ _ _ (el_plain hs _ (by rw [label_lines_append, plain_itof]; rfl)) ?_
    refine el_ite _ _ _ (el_plain hs _ (plain_itof _)) ?_
    exact el_ite _ _ _ (el_plain hs _ (plain_ftoi _)) (el_fail hs _ _)
  case ASTK_BINARY => exact el_expr_binary ops p t u l r el sl be
  all_goals
    simp only [be_emit_expr_]
    exact emit_labels_fail _ _ _

/-- The emission of an expression emits lines and makes labels. -/
theorem el_expr_all (ops : f64_ops F) (n : ast_node F) :
    (∀ be, emit_labels be (be_emit_expr_ ops be n).be) ∧
    (∀ be idx, emit_labels be (be_emit_sibling_ ops be n idx).be) ∧
    (∀ be fm, emit_labels be (be_emit_call_args_ ops be fm n).2) ∧
    (∀ be fm i, emit_labels be (be_emit_call_args_after_ ops be fm n i).2) ∧
    (∀ be pos id, emit_labels be (be_emit_builtin_call_ ops be pos id n).be) := by
  induction n with
  | nil =>
    refine ⟨?_, ?_, ?_, ?_, ?_⟩
    · intro be
      simp only [be_emit_expr_]
      exact emit_labels_refl be
    · intro be idx
      simp only [be_emit_sibling_]
      exact emit_labels_refl be
    · intro be fm
      simp only [be_emit_call_args_]
      exact emit_labels_refl be
    · intro be fm i
      simp only [be_emit_call_args_after_]
      exact emit_labels_refl be
    · intro be pos id
      rw [be_emit_builtin_call_]
      exact el_builtin_body _ _ _ _ _ (fun _ b => emit_labels_refl b)
  | node k p t u l r ihl ihr =>
    obtain ⟨el, sl, al, aal, bl⟩ := ihl
    obtain ⟨er, sr, ar, aar, br⟩ := ihr
    refine ⟨?_, ?_, ?_, ?_, ?_⟩
    · exact el_expr_node ops k p t u l r el sl al bl
    · intro be idx
      cases idx with
      | zero => simpa [be_emit_sibling_] using er be
      | succ j => simpa [be_emit_sibling_] using sr be j
    · intro be fm
      rw [be_emit_call_args_]
      dsimp only
      refine el_ite_pair _ _ _ (emit_labels_refl be) ?_
      exact el_ite_pair _ _ _ (el be)
        (emit_labels_trans _ _ _ (el_call_arg_store _ _ _ (el be)) (aal _ _ _))
    · intro be fm i
      rw [be_emit_call_args_after_]
      dsimp only
      refine el_ite_pair _ _ _ (emit_labels_refl be) ?_
      exact el_ite_pair _ _ _ (er be)
        (emit_labels_trans _ _ _ (el_call_arg_store _ _ _ (er be)) (aar _ _ _))
    · intro be pos id
      rw [be_emit_builtin_call_]
      refine el_builtin_body _ _ _ _ _ (fun idx b => ?_)
      cases idx with
      | zero => exact el b
      | succ j => exact sl b j

theorem el_expr (ops : f64_ops F) (be : backend_t) (n : ast_node F) :
    emit_labels be (be_emit_expr_ ops be n).be :=
  (el_expr_all ops n).1 be

theorem cond_fjump_plain (opk : token_kind_t) (push jmp x : String)
    (h : cond_fjump opk = some (push, jmp)) : label_lines [push, jmp ++ x] = [] := by
  cases opk <;> cases h <;> rfl

theorem cond_ijump_plain (opk : token_kind_t) (jmp x : String)
    (h : cond_ijump opk = some jmp) : label_lines [jmp ++ " " ++ x] = [] := by
  cases opk <;> cases h <;> rfl

/-- The emission of a condition emits lines and makes labels. -/
theorem el_cond (ops : f64_ops F) (be : backend_t) (n : ast_node F) (L : String) :
    emit_labels be (be_emit_cond_jfalse_ ops be n L).2 := by
  cases n with
  | nil => exact emit_labels_refl be
  | node k p t u a r =>
    rw [be_emit_cond_jfalse_]
    dsimp only
    refine el_ite_pair _ _ _ ?_ ?_
    · refine el_ite_pair _ _ _ (emit_labels_fail _ _ _) ?_
      have ha := el_expr ops be a
      refine el_ite_pair _ _ _ ha ?_
      have hb := emit_labels_trans _ _ _ ha (el_expr ops _ (second_of a))
      refine el_ite_pair _ _ _ hb ?_
      refine el_ite_pair _ _ _ ?_ ?_
      · have hf := el_plain hb
          (promote_pair_lines (be_emit_expr_ ops be a).out_type
            (be_emit_expr_ ops (be_emit_expr_ ops be a).be (second_of a)).out_type ++ ["FCMP"])
          (by rw [label_lines_append, plain_promote]; rfl)
        cases hj : cond_fjump u.op with
        | none => exact el_fail hf _ _
        | some pj =>
          obtain ⟨push, jmp⟩ := pj
          exact el_plain hf _ (cond_fjump_plain _ _ _ _ hj)
      · cases hj : cond_ijump u.op with
        | none => exact el_fail hb _ _
        | some jmp => exact el_plain hb _ (cond_ijump_plain _ _ _ hj)
    · have hc := el_expr ops be (.node k p t u a r)
      refine el_ite_pair _ _ _ hc ?_
      exact el_ite_pair _ _ _ (el_plain hc _ (by rfl)) (el_plain hc _ (by rfl))

theorem el_return (ops : f64_ops F) (be : backend_t) (n : ast_node F) :
    emit_labels be (be_emit_return_ ops be n).2 := by
  have h0 := emit_labels_refl be
  unfold be_emit_return_
  dsimp only
  refine el_ite_pair _ _ _ (el_plain h0 _ (by rfl)) ?_
  refine el_ite_pair _ _ _ ?_ (el_plain (el_plain h0 _ (by rfl)) _ (by rfl))
  have he := el_expr ops be n.left
  refine el_ite_pair _ _ _ he ?_
  refine el_plain ?_ _ (by rfl)
  exact el_ite_be _ _ _ (el_plain he _ (by rfl)) (el_plain he _ (by rfl))

theorem el_vdecl (ops : f64_ops F) (be : backend_t) (n : ast_node F) :
    emit_labels be (be_emit_vdecl_ ops be n).2 := by
  unfold be_emit_vdecl_
  dsimp only
  have h1 : emit_labels be (be_bind_push_
      { be with next_local_offset := be.next_local_offset + 1 }
      n.u.name_id n.u.decl_type be.next_local_offset be.scope_depth) :=
    emit_labels_congr (emit_labels_refl be) rfl (Nat.le_refl _)
  refine el_ite_pair _ _ _ ?_ (el_store (el_plain h1 _ (by rfl)) _)
  have he := emit_labels_trans _ _ _ h1 (el_expr ops _ n.left)
  exact el_ite_pair _ _ _ he (el_store (el_plain he _ (plain_coerce _ _)) _)

theorem el_assign (ops : f64_ops F) (be : backend_t) (n : ast_node F) :
    emit_labels be (be_emit_assign_ ops be n).2 := by
  unfold be_emit_assign_
  dsimp only
  refine el_ite_pair _ _ _ (emit_labels_fail _ _ _) ?_
  refine el_ite_pair _ _ _ (emit_labels_fail _ _ _) ?_
  have he := el_expr ops be n.left
  exact el_ite_pair _ _ _ he (el_store (el_plain he _ (plain_coerce _ _)) _)

theorem el_call_stmt (ops : f64_ops F) (be : backend_t) (n : ast_node F) :
    emit_labels be (be_emit_call_stmt_ ops be n).2 := by
  unfold be_emit_call_stmt_
  dsimp only
  refine el_ite_pair _ _ _ (emit_labels_fail _ _ _) ?_
  have he := el_expr ops be n.left
  refine el_ite_pair _ _ _ he ?_
  exact el_ite_pair _ _ _ (el_plain he _ (by rfl)) he

theorem el_expr_stmt (ops : f64_ops F) (be : backend_t) (n : ast_node F) :
    emit_labels be (be_emit_expr_stmt_ ops be n).2 := by
  unfold be_emit_expr_stmt_
  dsimp only
  refine el_ite_pair _ _ _ (emit_labels_fail _ _ _) ?_
  have he := el_expr ops be n.left
  refine el_ite_pair _ _ _ he ?_
  exact el_ite_pair _ _ _ (el_plain he _ (by rfl)) he

theorem el_print (ops : f64_ops F) (be : backend_t) (n : ast_node F) :
    emit_labels be (be_emit_print_ ops be n).2 := by
  unfold be_emit_print_
  dsimp only
  refine el_ite_pair _ _ _ (emit_labels_fail _ _ _) ?_
  have he := el_expr ops be n.left
  refine el_ite_pair _ _ _ he ?_
  refine el_ite_pair _ _ _ ?_ ?_
  · exact el_plain he _ (by rw [label_lines_append, plain_itof]; rfl)
  · exact el_plain he _ (by rw [label_lines_append, plain_ftoi]; rfl)

theorem el_break (be : backend_t) (n : ast_node F) :
    emit_labels be (be_emit_break_ be n).2 := by
  unfold be_emit_break_
  cases be.loops.getLast? with
  | none => exact emit_labels_fail _ _ _
  | some L => exact el_plain (emit_labels_refl be) _ (by rfl)

/-- A label made when the counter was `n` is emitted behind lines whose
labels were made later. -/
theorem lab_step_then_label (p : String) (n c' : Nat) (new pre : List String)
    (h : lab_step (n + 1) c' new) (hc : n + 1 ≤ c') (hp : label_lines pre = []) :
    lab_step n c' (new ++ (pre ++ [gen_label p n])) := by
  have h1 : lab_step n (n + 1) (pre ++ [gen_label p n]) :=
    lab_step_append (lab_step_plain n n pre hp) (lab_step_single p n)
      (Or.inl (Nat.le_refl _)) (Nat.le_refl _) (Nat.le_refl _) (Nat.le_succ _) (Nat.le_refl _)
  exact lab_step_append h h1 (Or.inr (Nat.le_refl _)) (Nat.le_succ _) (Nat.le_refl _)
    (Nat.le_refl _) hc

/-- The pieces of the statement emitters emit lines and make labels. -/
theorem emit_labels_ok (ops : f64_ops F) : stmt_rel_ok ops emit_labels := by
  refine ⟨emit_labels_refl, emit_labels_trans, emit_labels_fail, el_cond ops, el_vdecl ops,
    el_assign ops, el_return ops, el_break, el_expr_stmt ops, el_call_stmt ops, el_print ops,
    ?_, ?_, ?_, ?_, ?_⟩
  · intro be
    exact emit_labels_congr (emit_labels_refl be) rfl (Nat.le_refl _)
  · intro be d
    exact emit_labels_congr (emit_labels_refl be) rfl (Nat.le_refl _)
  · intro be x hx
    obtain ⟨hc, new, ho, hs⟩ := hx
    have hc2 : be.label_counter + 1 + 1 ≤ x.label_counter := hc
    have ho2 : x.out = be.out ++ ([gen_label "while_begin" be.label_counter] ++ new) := by
      rw [ho]
      exact List.append_assoc _ _ _
    have hs2 : lab_step (be.label_counter + 1 + 1) x.label_counter new := hs
    have hb := lab_step_single "while_begin" be.label_counter
    constructor
    · refine ⟨?_, _, ho2, ?_⟩
      · show be.label_counter ≤ x.label_counter
        omega
      · show lab_step be.label_counter x.label_counter _
        exact lab_step_append hb hs2 (Or.inl (Nat.le_succ _)) (Nat.le_refl _) (by omega)
          (by omega) (Nat.le_refl _)
    · refine ⟨by show be.label_counter ≤ x.label_counter; omega,
        [gen_label "while_begin" be.label_counter] ++
          (new ++ (["JMP " ++ while_begin_label be] ++
            [gen_label "while_end" (be.label_counter + 1)])), ?_, ?_⟩
      · show x.out ++ _ = _
        rw [ho2]
        simp only [List.append_assoc]
        rfl
      · have h3 := lab_step_then_label "while_end" (be.label_counter + 1) x.label_counter new
          ["JMP " ++ while_begin_label be] hs2 hc2 (by rfl)
        show lab_step be.label_counter x.label_counter _
        exact lab_step_append hb h3 (Or.inl (Nat.le_refl _)) (Nat.le_refl _) (Nat.le_succ _)
          (by omega) (Nat.le_refl _)
  · intro be x hx
    obtain ⟨hc, new, ho, hs⟩ := hx
    have hc2 : be.label_counter + 1 ≤ x.label_counter := hc
    have ho2 : x.out = be.out ++ new := ho
    have hs2 : lab_step (be.label_counter + 1) x.label_counter new := hs
    constructor
    · exact ⟨by omega, new, ho2, lab_step_mono hs2 (Nat.le_succ _) (Nat.le_refl _)⟩
    · refine ⟨by show be.label_counter ≤ x.label_counter; omega,
        new ++ ([] ++ [gen_label "if_end" be.label_counter]), ?_, ?_⟩
      · show x.out ++ _ = _
        rw [ho2, List.append_assoc]
        rfl
      · exact lab_step_then_label "if_end" be.label_counter x.label_counter new [] hs2 hc2 rfl
  · intro be x L hx
    obtain ⟨hc, new, ho, hs⟩ := hx
    have hc2 : be.label_counter + 1 ≤ x.label_counter := hc
    have ho2 : x.out = be.out ++ new := ho
    have hs2 : lab_step (be.label_counter + 1) x.label_counter new := hs
    constructor
    · exact ⟨by omega, new, ho2, lab_step_mono hs2 (Nat.le_succ _) (Nat.le_refl _)⟩
    · refine ⟨by show be.label_counter ≤ x.label_counter; omega,
        new ++ (["JMP " ++ L] ++ [gen_label "if_next" be.label_counter]), ?_, ?_⟩
      · show x.out ++ _ = _
        rw [ho2, List.append_assoc]
        rfl
      · exact lab_step_then_label "if_next" be.label_counter x.label_counter new
          ["JMP " ++ L] hs2 hc2 (by rfl)

/-- The statement emitters emit lines and make labels: the label definitions
among the lines emitted for a statement are pairwise distinct labels made
while the statement is emitted. -/
theorem el_stmt (ops : f64_ops F) (be : backend_t) (n : ast_node F) :
    emit_labels be (be_emit_stmt_ ops be n).2 :=
  be_emit_stmt_rel ops emit_labels (emit_labels_ok ops) be n

theorem fn_end_of_frame {a b : backend_t} (h : be_frame a = be_frame b) :
    a.fn_end_label = b.fn_end_label :=
  congrArg (fun x => x.2.2.2.2.2.2.2) h

/-- The pieces of the statement emitters keep the label of the function exit. -/
theorem same_fn_end_ok (ops : f64_ops F) : stmt_rel_ok ops same_fn_end := by
  refine ⟨?_, ?_, ?_, ?_, ?_, ?_, ?_, ?_, ?_, ?_, ?_, ?_, ?_, ?_, ?_, ?_⟩
  · intro be; rfl
  · intro a b c h1 h2; exact h2.trans h1
  · intro be n msg; rfl
  · intro be c L; exact fn_end_of_frame (be_emit_cond_frame ops be c L)
  · intro be n; exact (fn_end_of_frame (be_emit_vdecl_frame ops be n)).trans rfl
  · intro be n; exact fn_end_of_frame (be_emit_assign_frame ops be n)
  · intro be n; exact fn_end_of_frame (be_emit_return_frame ops be n)
  · intro be n; exact fn_end_of_frame (be_emit_break_frame be n)
  · intro be n; exact fn_end_of_frame (be_emit_expr_stmt_frame ops be n)
  · intro be n; exact fn_end_of_frame (be_emit_call_stmt_frame ops be n)
  · intro be n; exact fn_end_of_frame (be_emit_print_frame ops be n)
  · intro be; rfl
  · intro be d; rfl
  · intro be x hx; exact ⟨hx, hx⟩
  · intro be x hx; exact ⟨hx, hx⟩
  · intro be x L hx; exact ⟨hx, hx⟩

theorem be_emit_stmt_fn_end (ops : f64_ops F) (be : backend_t) (n : ast_node F) :
    (be_emit_stmt_ ops be n).2.fn_end_label = be.fn_end_label :=
  be_emit_stmt_rel ops same_fn_end (same_fn_end_ok ops) be n

theorem be_bind_params_keeps (c : ast_node F) : ∀ (be : backend_t) (i : Nat),
    (be_bind_params_ be c i).label_counter = be.label_counter ∧
    (be_bind_params_ be c i).fn_end_label = be.fn_end_label := by
  induction c with
  | nil => intro be i; exact ⟨rfl, rfl⟩
  | node k p t u l r _ ihr =>
    intro be i
    exact ihr (be_bind_push_ be u.name_id u.decl_type (1 + i) be.scope_depth) (i + 1)

theorem be_func_entry_counter (be : backend_t) (fn : ast_node F) (meta : func_meta_t) :
    (be_func_entry_ be fn meta).label_counter = be.label_counter + 1 ∧
    (be_func_entry_ be fn meta).fn_end_label = gen_label "fn_end" be.label_counter := by
  unfold be_func_entry_ be_func_params_
  exact be_bind_params_keeps _ _ _

theorem be_func_entry_out (be : backend_t) (fn : ast_node F) (meta : func_meta_t) :
    (be_func_entry_ be fn meta).out = be.out ++
      ["; --- function " ++ name_str be.nametable meta.name_id ++ " ---", meta.label,
       "PUSHR x15", "PUSHR x14", "POPR  x13", "POPM  x13", "PUSHR x14", "POPR x15",
       "PUSHR x14", "PUSH " ++ toString (1 + meta.param_count + meta.local_count), "ADD",
       "POPR x14"] := by
  show (be_func_params_ be fn meta).out ++ _ = _
  rw [be_func_params_out]

theorem fn_label_not_gen (nt : nametable_t) (id : Nat) (p : String) (n : Nat) :
    fn_label nt id ≠ gen_label p n := by
  intro h
  have h1 : (fn_label nt id).data.get? 1 = (gen_label p n).data.get? 1 := by rw [h]
  have h2 : (fn_label nt id).data.get? 1 = some 'f' := rfl
  have h3 : (gen_label p n).data.get? 1 = some 'L' := rfl
  rw [h2, h3] at h1
  exact absurd h1 (by decide)

theorem fn_label_inj (nt : nametable_t) (i j : Nat) (h : fn_label nt i = fn_label nt j) :
    name_str nt i = name_str nt j := by
  have hd := congrArg String.data h
  have h2 : [':', 'f', 'n', '_'] ++ (name_str nt i).data
      = [':', 'f', 'n', '_'] ++ (name_str nt j).data := hd
  have h3 := List.append_cancel_left h2
  exact String.ext h3

theorem lab_step_fn_cons (c c' : Nat) (lbl : String) (pre rest : List String)
    (hr : lab_step c c' rest) (hp : label_lines pre = [lbl])
    (hn : ∀ p n, lbl ≠ gen_label p n) : lab_step_fn c c' [lbl] (pre ++ rest) := by
  unfold lab_step_fn
  rw [label_lines_append, hp]
  refine ⟨?_, ?_⟩
  · refine List.nodup_cons.mpr ⟨?_, hr.1⟩
    intro hm
    obtain ⟨p, n, e, _, _⟩ := hr.2 lbl hm
    exact hn p n e
  · intro s hs
    rcases List.mem_cons.mp hs with e | e
    · exact Or.inl (by rw [e]; exact List.mem_singleton.mpr rfl)
    · exact Or.inr (hr.2 s e)

/-- The lines emitted for a function: the label of the function, and labels
made while the function is emitted. -/
theorem el_func (ops : f64_ops F) (be : backend_t) (fn : ast_node F) (meta : func_meta_t)
    (id : Nat) (hf : (fn.is_some && fn.kind = .ASTK_FUNC) = true)
    (hmeta : be_find_func_ be fn.u.name_id = some meta)
    (hl : meta.label = fn_label be.nametable id)
    (hok : (be_emit_func_ ops be fn).1 = .OK) :
    be.label_counter ≤ (be_emit_func_ ops be fn).2.label_counter ∧
    ∃ new, (be_emit_func_ ops be fn).2.out = be.out ++ new ∧
      lab_step_fn be.label_counter (be_emit_func_ ops be fn).2.label_counter [meta.label]
        new := by
  rw [be_emit_func_eq ops be fn meta hf hmeta] at hok ⊢
  have hst := el_stmt ops (be_func_entry_ be fn meta) (second_of fn.left)
  have hfe := be_emit_stmt_fn_end ops (be_func_entry_ be fn meta) (second_of fn.left)
  obtain ⟨hec, hef⟩ := be_func_entry_counter be fn meta
  have heo := be_func_entry_out be fn meta
  rw [hef] at hfe
  generalize be_emit_stmt_ ops (be_func_entry_ be fn meta) (second_of fn.left) = rb
    at hok hst hfe ⊢
  by_cases hb : (!(second_of fn.left).is_some) = true
  · rw [if_pos hb] at hok
    cases hok
  · rw [if_neg hb] at hok ⊢
    by_cases hr : rb.1 ≠ .OK
    · rw [if_pos hr] at hok
      exact absurd hok hr
    · rw [if_neg hr]
      obtain ⟨hc, nb, ho, hs⟩ := hst
      rw [hec] at hc hs
      rw [heo] at ho
      have hlbl : label_lines
          ["; --- function " ++ name_str be.nametable meta.name_id ++ " ---", meta.label,
           "PUSHR x15", "PUSHR x14", "POPR  x13", "POPM  x13", "PUSHR x14", "POPR x15",
           "PUSHR x14", "PUSH " ++ toString (1 + meta.param_count + meta.local_count), "ADD",
           "POPR x14"] = [meta.label] := by
        rw [label_lines_cons_plain _ _ (by rfl), hl]
        rfl
      have hng : ∀ p n, meta.label ≠ gen_label p n := by
        intro p n
        rw [hl]
        exact fn_label_not_gen _ _ _ _
      have post : label_lines ["PUSHR x15", "POPR x14", "PUSHR x15", "POPR x13", "PUSHM x13",
          "POPR  x15", "RET"] = [] := rfl
      generalize ["; --- function " ++ name_str be.nametable meta.name_id ++ " ---", meta.label,
           "PUSHR x15", "PUSHR x14", "POPR  x13", "POPM  x13", "PUSHR x14", "POPR x15",
           "PUSHR x14", "PUSH " ++ toString (1 + meta.param_count + meta.local_count), "ADD",
           "POPR x14"] = P at ho hlbl
      by_cases hv : meta.ret_type ≠ .AST_TYPE_VOID
      · rw [if_pos hv]
        refine ⟨?_, P ++ (nb ++ (["; implicit return 0 (defensive)", "PUSH 0", "POPR x0"] ++
          [gen_label "fn_end" be.label_counter]) ++ ["PUSHR x15", "POPR x14", "PUSHR x15",
            "POPR x13", "PUSHM x13", "POPR  x15", "RET"]), ?_, ?_⟩
        · show be.label_counter ≤ rb.2.label_counter
          omega
        · show rb.2.out ++ _ ++ (rb.2.fn_end_label :: _) = _
          rw [ho, hfe]
          simp only [List.append_assoc, List.cons_append, List.nil_append]
        · show lab_step_fn be.label_counter rb.2.label_counter _ _
          refine lab_step_fn_cons _ _ _ _ _ ?_ hlbl hng
          have h3 := lab_step_then_label "fn_end" be.label_counter rb.2.label_counter nb
            ["; implicit return 0 (defensive)", "PUSH 0", "POPR x0"] hs hc (by rfl)
          exact lab_step_append h3 (lab_step_plain rb.2.label_counter rb.2.label_counter _ post)
            (Or.inl (Nat.le_refl _)) (Nat.le_refl _) (by omega) (Nat.le_refl _)
            (Nat.le_refl _)
      · rw [if_neg hv]
        refine ⟨?_, P ++ (nb ++ ([] ++ [gen_label "fn_end" be.label_counter]) ++
          ["PUSHR x15", "POPR x14", "PUSHR x15", "POPR x13", "PUSHM x13", "POPR  x15",
            "RET"]), ?_, ?_⟩
        · show be.label_counter ≤ rb.2.label_counter
          omega
        · show rb.2.out ++ (rb.2.fn_end_label :: _) = _
          rw [ho, hfe]
          simp only [List.append_assoc, List.cons_append, List.nil_append]
        · show lab_step_fn be.label_counter rb.2.label_counter _ _
          refine lab_step_fn_cons _ _ _ _ _ ?_ hlbl hng
          have h3 := lab_step_then_label "fn_end" be.label_counter rb.2.label_counter nb
            [] hs hc rfl
          exact lab_step_append h3 (lab_step_plain rb.2.label_counter rb.2.label_counter _ post)
            (Or.inl (Nat.le_refl _)) (Nat.le_refl _) (by omega) (Nat.le_refl _)
            (Nat.le_refl _)

theorem find_func_append_none (be : backend_t) (m : func_meta_t) (id : Nat)
    (h : (be.funcs ++ [m]).find? (fun f => decide (f.name_id = id)) = none) :
    be.funcs.find? (fun f => decide (f.name_id = id)) = none ∧ m.name_id ≠ id := by
  rw [List.find?_append] at h
  cases hx : be.funcs.find? (fun f => decide (f.name_id = id)) with
  | some v => rw [hx] at h; cases h
  | none =>
    rw [hx, Option.none_or] at h
    refine ⟨rfl, ?_⟩
    intro e
    simp [List.find?_cons, e] at h

/-- What `be_collect_funcs_` records when it succeeds: no line is written and
no label is made; the metadata added has the label `:fn_` followed by the name;
the nodes of the chain have pairwise distinct name ids, none of which had
metadata before. -/
theorem be_collect_funcs_labels (c : ast_node F) : ∀ (be : backend_t),
    (be_collect_funcs_loop be c).1 = .OK →
    (be_collect_funcs_loop be c).2.out = be.out ∧
    (be_collect_funcs_loop be c).2.label_counter = be.label_counter ∧
    (be_collect_funcs_loop be c).2.nametable = be.nametable ∧
    (∀ m ∈ (be_collect_funcs_loop be c).2.funcs,
      m ∈ be.funcs ∨ m.label = fn_label be.nametable m.name_id) ∧
    ((chain_list c).map (fun fn => fn.u.name_id)).Nodup ∧
    (∀ fn ∈ chain_list c, be_find_func_ be fn.u.name_id = none) := by
  induction c with
  | nil =>
    intro be _
    exact ⟨rfl, rfl, rfl, fun m hm => Or.inl hm, List.nodup_nil, fun fn hfn => by cases hfn⟩
  | node k p t u l r _ ihr =>
    intro be hok
    unfold be_collect_funcs_loop at hok ⊢
    by_cases hk : k ≠ .ASTK_FUNC
    · rw [if_pos hk] at hok
      cases hok
    · rw [if_neg hk] at hok ⊢
      by_cases hd : (be_find_func_ be u.name_id).isSome = true
      · simp only [hd, if_true] at hok
        cases hok
      · simp only [hd, Bool.false_eq_true, if_false] at hok ⊢
        by_cases hp : (!(l.is_some && decide (l.kind = .ASTK_PARAM_LIST))) = true
        · simp only [hp, if_true] at hok
          cases hok
        · simp only [hp, Bool.false_eq_true, if_false] at hok ⊢
          cases hc : collect_ptypes l.left with
          | error bad =>
            simp only [hc] at hok
            cases hok
          | ok ptypes =>
            simp only [hc] at hok ⊢
            obtain ⟨h1, h2, h3, h4, h5, h6⟩ := ihr _ hok
            have hnone : be_find_func_ be u.name_id = none := by
              cases hx : be_find_func_ be u.name_id with
              | none => rfl
              | some m => rw [hx] at hd; exact absurd rfl hd
            refine ⟨h1, h2, h3, ?_, ?_, ?_⟩
            · intro m hm
              rcases h4 m hm with h | h
              · rcases List.mem_append.mp h with h | h
                · exact Or.inl h
                · rw [List.mem_singleton.mp h]
                  exact Or.inr rfl
              · exact Or.inr h
            · show (u.name_id :: (chain_list r).map (fun fn => fn.u.name_id)).Nodup
              refine List.nodup_cons.mpr ⟨?_, h5⟩
              intro hm
              obtain ⟨fn, hfn, he⟩ := List.mem_map.mp hm
              have := (find_func_append_none be _ _ (h6 fn hfn)).2
              exact this he.symm
            · intro fn hfn
              rcases List.mem_cons.mp hfn with hh | hh
              · rw [hh]
                exact hnone
              · exact (find_func_append_none be _ _ (h6 fn hh)).1

/-- Lines with the labels of two groups of functions and labels of two
consecutive ranges of counter values. -/
theorem lab_step_fn_append {a b b' c : Nat} {fl1 fl2 n1 n2 : List String}
    (h1 : lab_step_fn a b fl1 n1) (h2 : lab_step_fn b' c fl2 n2) (hab : a ≤ b) (hb : b ≤ b')
    (hbc : b' ≤ c) (hdis : ∀ s ∈ fl1, s ∉ fl2)
    (hf1 : ∀ s ∈ fl1, ∀ p n, s ≠ gen_label p n)
    (hf2 : ∀ s ∈ fl2, ∀ p n, s ≠ gen_label p n) :
    lab_step_fn a c (fl1 ++ fl2) (n1 ++ n2) := by
  unfold lab_step_fn
  rw [label_lines_append]
  refine ⟨List.nodup_append.mpr ⟨h1.1, h2.1, ?_⟩, ?_⟩
  · intro s hs1 hs2
    rcases h1.2 s hs1 with x | ⟨p, n, e, x1, x2⟩
    · rcases h2.2 s hs2 with y | ⟨q, m, e2, y1, y2⟩
      · exact hdis s x y
      · exact hf1 s x q m e2
    · rcases h2.2 s hs2 with y | ⟨q, m, e2, y1, y2⟩
      · exact hf2 s y p n e
      · have := gen_label_inj p q n m (e.symm.trans e2)
        omega
  · intro s hs
    rcases List.mem_append.mp hs with h | h
    · rcases h1.2 s h with x | x
      · exact Or.inl (List.mem_append_left _ x)
      · exact Or.inr (gen_in_mono x (Nat.le_refl _) (hb.trans hbc))
    · rcases h2.2 s h with x | x
      · exact Or.inl (List.mem_append_right _ x)
      · exact Or.inr (gen_in_mono x (hab.trans hb) (Nat.le_refl _))

theorem lab_step_fn_plain_left {a c : Nat} {fl pre new : List String}
    (h : lab_step_fn a c fl new) (hp : label_lines pre = []) :
    lab_step_fn a c fl (pre ++ new) := by
  unfold lab_step_fn
  rw [label_lines_append, hp]
  exact h

/-- The loop of `be_emit_program_` over the functions, when it succeeds: the
label definitions among the lines emitted are pairwise distinct; each is the
label of a function of the chain or a label made in the loop. -/
theorem el_funcs_loop (ops : f64_ops F) (c : ast_node F) : ∀ (be : backend_t),
    (∀ m ∈ be.funcs, m.label = fn_label be.nametable m.name_id) →
    (∀ f ∈ chain_list c, ∀ g ∈ chain_list c,
      name_str be.nametable f.u.name_id = name_str be.nametable g.u.name_id →
      f.u.name_id = g.u.name_id) →
    ((chain_list c).map (fun fn => fn.u.name_id)).Nodup →
    (be_emit_funcs_loop ops be c).1 = .OK →
    be.label_counter ≤ (be_emit_funcs_loop ops be c).2.label_counter ∧
    ∃ new, (be_emit_funcs_loop ops be c).2.out = be.out ++ new ∧
      lab_step_fn be.label_counter (be_emit_funcs_loop ops be c).2.label_counter
        ((chain_list c).map (fun fn => fn_label be.nametable fn.u.name_id)) new := by
  induction c with
  | nil =>
    intro be _ _ _ _
    exact ⟨Nat.le_refl _, [], (List.append_nil _).symm, List.nodup_nil, fun _ h => nomatch h⟩
  | node k p t u l r _ ihr =>
    intro be hlab hinj hnd hok
    have hloop : be_emit_funcs_loop ops be (.node k p t u l r) =
        (if (be_emit_func_ ops be (.node k p t u l r)).1 ≠ .OK then
          be_emit_func_ ops be (.node k p t u l r)
        else be_emit_funcs_loop ops
          (be_emitf_ (be_emit_func_ ops be (.node k p t u l r)).2 [""]) r) := rfl
    rw [hloop] at hok ⊢
    by_cases hrf : (be_emit_func_ ops be (.node k p t u l r)).1 ≠ .OK
    · rw [if_pos hrf] at hok
      exact absurd hok hrf
    · rw [if_neg hrf] at hok ⊢
      have hfok : (be_emit_func_ ops be (.node k p t u l r)).1 = .OK := not_not.mp hrf
      have hf : ((ast_node.node k p t u l r).is_some &&
          decide ((ast_node.node k p t u l r).kind = .ASTK_FUNC)) = true := by
        cases hfb : ((ast_node.node k p t u l r).is_some &&
            decide ((ast_node.node k p t u l r).kind = .ASTK_FUNC)) with
        | true => rfl
        | false =>
          unfold be_emit_func_ at hfok
          rw [if_pos (by rw [hfb]; rfl)] at hfok
          cases hfok
      cases hm : be_find_func_ be u.name_id with
      | none =>
        unfold be_emit_func_ at hfok
        rw [if_neg (by simp [hf])] at hfok
        have hm2 : be_find_func_ be (ast_node.node k p t u l r).u.name_id = none := hm
        simp only [hm2] at hfok
        cases hfok
      | some meta =>
        have hmem : meta ∈ be.funcs := List.mem_of_find?_eq_some hm
        have hid : meta.name_id = u.name_id := by
          have := List.find?_some hm
          simpa using this
        have hl : meta.label = fn_label be.nametable u.name_id := by
          rw [hlab meta hmem, hid]
        have hstep := el_func ops be (.node k p t u l r) meta u.name_id hf hm hl hfok
        obtain ⟨hnt, hfs⟩ := be_emit_func_keeps_funcs ops be (.node k p t u l r)
        generalize be_emit_func_ ops be (.node k p t u l r) = rf at hstep hnt hfs hok ⊢
        obtain ⟨hc1, n1, ho1, hs1⟩ := hstep
        have hnd2 : ((chain_list r).map (fun fn => fn.u.name_id)).Nodup :=
          (List.nodup_cons.mp hnd).2
        have hnotin : u.name_id ∉ (chain_list r).map (fun fn => fn.u.name_id) :=
          (List.nodup_cons.mp hnd).1
        have ih := ihr (be_emitf_ rf.2 [""])
          (by
            intro m hm
            have hm' : m ∈ be.funcs := by rw [← hfs]; exact hm
            show m.label = fn_label rf.2.nametable m.name_id
            rw [hnt]
            exact hlab m hm')
          (by
            intro f hf g hg he
            have he' : name_str be.nametable f.u.name_id = name_str be.nametable g.u.name_id := by
              rw [← hnt]; exact he
            exact hinj f (List.mem_cons_of_mem _ hf) g (List.mem_cons_of_mem _ hg) he')
          hnd2 hok
        obtain ⟨hc2, n2, ho2, hs2⟩ := ih
        have hnt2 : (be_emitf_ rf.2 [""]).nametable = be.nametable := hnt
        rw [hnt2] at hs2
        have hc2' : rf.2.label_counter
            ≤ (be_emit_funcs_loop ops (be_emitf_ rf.2 [""]) r).2.label_counter := hc2
        have hs2' : lab_step_fn rf.2.label_counter
            (be_emit_funcs_loop ops (be_emitf_ rf.2 [""]) r).2.label_counter
            ((chain_list r).map (fun fn => fn_label be.nametable fn.u.name_id)) n2 := hs2
        refine ⟨hc1.trans hc2', n1 ++ ([""] ++ n2), ?_, ?_⟩
        · rw [ho2]
          show rf.2.out ++ [""] ++ n2 = _
          rw [ho1]
          simp only [List.append_assoc]
        · rw [hl] at hs1
          have h3 := lab_step_fn_plain_left hs2' (show label_lines [""] = [] from rfl)
          refine lab_step_fn_append hs1 h3 hc1 (Nat.le_refl _) hc2' ?_ ?_ ?_
          · intro s hs hs'
            rw [List.mem_singleton.mp hs] at hs'
            obtain ⟨g, hg, he⟩ := List.mem_map.mp hs'
            have hname := fn_label_inj _ _ _ he
            have hidg := hinj g (List.mem_cons_of_mem _ hg) (.node k p t u l r)
              (List.mem_cons_self _ _) hname
            exact hnotin (List.mem_map.mpr ⟨g, hg, hidg⟩)
          · intro s hs q n
            rw [List.mem_singleton.mp hs]
            exact fn_label_not_gen _ _ _ _
          · intro s hs q n
            obtain ⟨g, _, he⟩ := List.mem_map.mp hs
            rw [← he]
            exact fn_label_not_gen _ _ _ _

theorem nodup_map_of_key {α : Type} (l : List α) (f : α → Nat) (g : α → String)
    (h : (l.map f).Nodup) (hg : ∀ a ∈ l, ∀ b ∈ l, g a = g b → f a = f b) :
    (l.map g).Nodup := by
  induction l with
  | nil => exact List.nodup_nil
  | cons x xs ih =>
    have h2 := List.nodup_cons.mp h
    refine List.nodup_cons.mpr ⟨?_, ih h2.2 (fun a ha b hb =>
      hg a (List.mem_cons_of_mem _ ha) b (List.mem_cons_of_mem _ hb))⟩
    intro hm
    obtain ⟨y, hy, he⟩ := List.mem_map.mp hm
    have := hg y (List.mem_cons_of_mem _ hy) x (List.mem_cons_self _ _) he
    exact h2.1 (List.mem_map.mpr ⟨y, hy, this⟩)

/-- A successful run of `backend_emit_asm` is a successful run of
`be_collect_funcs_` from a state without lines, labels and metadata, followed
by `be_emit_program_`. -/
theorem backend_emit_asm_ok (ops : f64_ops F) (nt : nametable_t) (root : ast_node F)
    (hok : (backend_emit_asm ops nt root).1 = .OK) :
    ∃ be1 : backend_t, be1.out = [] ∧ be1.label_counter = 0 ∧ be1.nametable = nt ∧
      be1.funcs = [] ∧ (be_collect_funcs_loop be1 root.left).1 = .OK ∧
      backend_emit_asm ops nt root
        = be_emit_program_ ops (be_collect_funcs_loop be1 root.left).2 root := by
  unfold backend_emit_asm at hok ⊢
  by_cases hr : (!root.is_some) = true
  · rw [if_pos hr] at hok
    cases hok
  · rw [if_neg hr] at hok ⊢
    dsimp only at hok ⊢
    have hb : ∃ be1 : backend_t, be1.out = [] ∧ be1.label_counter = 0 ∧ be1.nametable = nt ∧
        be1.funcs = [] ∧ be1 = (if root.kind ≠ .ASTK_PROGRAM then
          be_set_error_ (backend_init nt) (node_pos root) (node_pos root).offset
            "Root is not PROGRAM"
        else backend_init nt) := by
      by_cases hk : root.kind ≠ .ASTK_PROGRAM
      · exact ⟨_, rfl, rfl, rfl, rfl, (if_pos hk).symm⟩
      · exact ⟨_, rfl, rfl, rfl, rfl, (if_neg hk).symm⟩
    obtain ⟨be1, h1, h2, h3, h4, h5⟩ := hb
    rw [← h5] at hok ⊢
    have hcol : be_collect_funcs_ be1 root = be_collect_funcs_loop be1 root.left := by
      unfold be_collect_funcs_
      rw [if_neg hr]
    rw [hcol] at hok ⊢
    refine ⟨be1, h1, h2, h3, h4, ?_⟩
    by_cases hc : (be_collect_funcs_loop be1 root.left).1 ≠ .OK
    · rw [if_pos hc] at hok
      exact absurd hok hc
    · rw [if_neg hc] at hok ⊢
      refine ⟨not_not.mp hc, ?_⟩
      by_cases hm : find_main_id nt.data 0 = SIZE_MAX ∨
          (be_find_func_ (be_collect_funcs_loop be1 root.left).2
            (find_main_id nt.data 0)).isNone = true
      · rw [if_pos hm] at hok
        cases hok
      · rw [if_neg hm]

/-- The lines emitted by a successful `be_emit_program_`. -/
theorem el_program (ops : f64_ops F) (be : backend_t) (program : ast_node F)
    (hlab : ∀ m ∈ be.funcs, m.label = fn_label be.nametable m.name_id)
    (hinj : ∀ f ∈ chain_list program.left, ∀ g ∈ chain_list program.left,
      name_str be.nametable f.u.name_id = name_str be.nametable g.u.name_id →
      f.u.name_id = g.u.name_id)
    (hnd : ((chain_list program.left).map (fun fn => fn.u.name_id)).Nodup)
    (hok : (be_emit_program_ ops be program).1 = .OK) :
    ∃ new, (be_emit_program_ ops be program).2.out = be.out ++ new ∧
      lab_step_fn be.label_counter (be_emit_program_ ops be program).2.label_counter
        ((chain_list program.left).map (fun fn => fn_label be.nametable fn.u.name_id))
        new := by
  unfold be_emit_program_ at hok ⊢
  dsimp only at hok ⊢
  cases hm : be_find_func_
      (be_emitf_ be ["; --- program entry ---", "PUSH 0", "POPR x14", "PUSH 0", "POPR x15"])
      (find_main_id be.nametable.data 0) with
  | none =>
    simp only [hm] at hok
    cases hok
  | some fm =>
    simp only [hm] at hok ⊢
    obtain ⟨_, n, ho, hs⟩ := el_funcs_loop ops program.left
      (be_emitf_ (be_emitf_ be ["; --- program entry ---", "PUSH 0", "POPR x14", "PUSH 0",
        "POPR x15"]) ["CALL " ++ fm.label, "HLT", ""]) hlab hinj hnd hok
    refine ⟨["; --- program entry ---", "PUSH 0", "POPR x14", "PUSH 0", "POPR x15"] ++
      (["CALL " ++ fm.label, "HLT", ""] ++ n), ?_, ?_⟩
    · rw [ho]
      show be.out ++ _ ++ _ ++ n = _
      simp only [List.append_assoc]
    · exact lab_step_fn_plain_left (lab_step_fn_plain_left hs (by rfl)) (by rfl)

end label_thms

/-- The labels of a successful `backend_emit_asm` when functions with equal
name texts have equal name ids: the label definitions are pairwise distinct;
each of them is the label `:fn_<name>` of a function of the program or a label
made by `be_new_label_` for a value of the counter below its final value; the
functions of the program have pairwise distinct labels. -/
theorem labels_of_names {F : Type} (ops : f64_ops F) (nt : nametable_t) (root : ast_node F)
    (hnames : ∀ f ∈ chain_list root.left, ∀ g ∈ chain_list root.left,
      name_str nt f.u.name_id = name_str nt g.u.name_id → f.u.name_id = g.u.name_id)
    (hok : (backend_emit_asm ops nt root).1 = .OK) :
    (label_lines (backend_emit_asm ops nt root).2.out).Nodup ∧
    (∀ s ∈ label_lines (backend_emit_asm ops nt root).2.out,
      (∃ fn ∈ chain_list root.left, s = fn_label nt fn.u.name_id) ∨
      gen_in 0 (backend_emit_asm ops nt root).2.label_counter s) ∧
    (∀ (be : backend_t) (pfx : String),
      (be_new_label_ be pfx).1 = gen_label pfx be.label_counter ∧
      (be_new_label_ be pfx).2.label_counter = be.label_counter + 1) ∧
    (∀ (p q : String) (m n : Nat), gen_label p m = gen_label q n → m = n) ∧
    (∀ (id : Nat) (p : String) (n : Nat), fn_label nt id ≠ gen_label p n) ∧
    ((chain_list root.left).map (fun fn => fn_label nt fn.u.name_id)).Nodup := by
  obtain ⟨be1, h1, h2, h3, h4, hcok, heq⟩ := backend_emit_asm_ok ops nt root hok
  obtain ⟨c1, c2, c3, c4, c5, _⟩ := be_collect_funcs_labels root.left be1 hcok
  rw [heq] at hok ⊢
  rw [h3] at c3 c4
  have hlab : ∀ m ∈ (be_collect_funcs_loop be1 root.left).2.funcs,
      m.label = fn_label (be_collect_funcs_loop be1 root.left).2.nametable m.name_id := by
    intro m hm
    rw [c3]
    rcases c4 m hm with h | h
    · rw [h4] at h
      cases h
    · exact h
  obtain ⟨new, ho, hs⟩ := el_program ops (be_collect_funcs_loop be1 root.left).2 root hlab
    (by rw [c3]; exact hnames) c5 hok
  rw [c1, h1, List.nil_append] at ho
  rw [c2, h2, c3] at hs
  rw [ho]
  refine ⟨hs.1, ?_, fun be pfx => ⟨rfl, rfl⟩, gen_label_inj, fn_label_not_gen nt, ?_⟩
  · intro s hm
    rcases hs.2 s hm with h | h
    · obtain ⟨fn, hfn, he⟩ := List.mem_map.mp h
      exact Or.inl ⟨fn, hfn, he.symm⟩
    · exact Or.inr h
  · refine nodup_map_of_key _ _ _ c5 ?_
    intro a ha b hb he
    exact hnames a ha b hb (fn_label_inj nt _ _ he)

/-! ## Theorems: every use is declared -/

section uses_thms
variable {F : Type}

@[simp] theorem set_err_st (s : syntax_analyzer_t F) (t : Option (token_t F)) (msg : String) :
    (set_err_ s t msg).symtable = s.symtable := by
  unfold set_err_
  split_ifs <;> rfl

@[simp] theorem set_err_pos_st (s : syntax_analyzer_t F) (p : token_pos_t) (msg : String) :
    (set_err_pos_ s p msg).symtable = s.symtable := by
  unfold set_err_pos_
  split_ifs <;> rfl

@[simp] theorem expect_st (s : syntax_analyzer_t F) (k : token_kind_t) (w : String) :
    (expect_ s k w).2.symtable = s.symtable := by
  unfold expect_
  split
  · split_ifs
    · rfl
    · exact set_err_st _ _ _
  · exact set_err_st _ _ _

@[simp] theorem match_st (s : syntax_analyzer_t F) (k : token_kind_t) :
    (match_ s k).2.symtable = s.symtable := by
  unfold match_
  split
  · split_ifs <;> rfl
  · rfl

@[simp] theorem require_name_id_st (s : syntax_analyzer_t F) (t : Option (token_t F)) (c : String) :
    (require_name_id_ s t c).2.symtable = s.symtable := by
  unfold require_name_id_
  split
  · rfl
  · split_ifs
    · rfl
    · exact set_err_st _ _ _
    · rfl

theorem uses_in_set_right_nil (p : Nat → Bool) (n : ast_node F)
    (h : uses_in p n = true) : uses_in p (n.set_right .nil) = true := by
  cases n with
  | nil => rfl
  | node k q t u l r =>
    simp only [uses_in, Bool.and_eq_true] at h
    simp only [ast_node.set_right, uses_in, Bool.and_eq_true]
    exact ⟨⟨h.1.1, h.1.2⟩, trivial⟩

theorem uses_in_append_sibling (p : Nat → Bool) :
    ∀ (l c : ast_node F), uses_in p l = true → uses_in p c = true →
      uses_in p (append_sibling l c) = true
  | .nil, c, _, hc => uses_in_set_right_nil p c hc
  | .node k q t u l r, c, hl, hc => by
    simp only [uses_in, Bool.and_eq_true] at hl
    simp only [append_sibling, uses_in, Bool.and_eq_true]
    exact ⟨⟨hl.1.1, hl.1.2⟩, uses_in_append_sibling p r c hl.2 hc⟩

theorem uses_in_add_child (p : Nat → Bool) (a b : ast_node F)
    (ha : uses_in p a = true) (hb : uses_in p b = true) :
    uses_in p (ast_add_child a b) = true := by
  cases a with
  | nil => simp [ast_add_child, uses_in]
  | node k q t u l r =>
    cases b with
    | nil => exact ha
    | node k2 q2 t2 u2 l2 r2 =>
      simp only [uses_in, Bool.and_eq_true] at ha
      simp only [ast_add_child, uses_in, Bool.and_eq_true]
      exact ⟨⟨ha.1.1, uses_in_append_sibling p l _ ha.1.2 hb⟩, ha.2⟩

theorem use_inv_fail (s0 s : syntax_analyzer_t F) (h : s.symtable = s0.symtable) :
    use_res s0 ((ast_node.nil : ast_node F), s) :=
  ⟨rfl, h⟩

theorem use_res_trans {s0 a : syntax_analyzer_t F} {r : pres F}
    (h01 : a.symtable = s0.symtable) (h : use_res a r) : use_res s0 r := by
  unfold use_res at h ⊢
  rw [h01] at h
  exact h

theorem sa_make_bin_use (s0 s : syntax_analyzer_t F) (o : token_t F) (a b : ast_node F)
    (hs : s.symtable = s0.symtable)
    (ha : uses_in (declared s0.symtable) a = true)
    (hb : uses_in (declared s0.symtable) b = true) :
    use_res s0 (sa_make_bin s o a b) := by
  refine ⟨?_, hs⟩
  unfold sa_make_bin sa_new
  apply uses_in_add_child _ _ _ _ hb
  apply uses_in_add_child _ _ _ _ ha
  rfl

theorem binop_loop_use (next : syntax_analyzer_t F → pres F) (cond : token_kind_t → Bool)
    (hnext : use_inv next) (s0 : syntax_analyzer_t F) :
    ∀ (fuel : Nat) (n : ast_node F) (s : syntax_analyzer_t F),
      uses_in (declared s0.symtable) n = true → s.symtable = s0.symtable →
      use_res s0 (binop_loop next cond fuel n s)
  | 0, n, s, _, hs => use_inv_fail s0 s hs
  | fuel + 1, n, s, hn, hs => by
    unfold binop_loop
    split
    · exact ⟨hn, hs⟩
    · rename_i op _
      dsimp only
      have h : use_res s0 (next (sa_advance s)) :=
        use_res_trans (a := sa_advance s) hs (hnext (sa_advance s))
      split_ifs
      · exact ⟨hn, hs⟩
      · exact use_inv_fail s0 _ h.2
      · have hb := sa_make_bin_use s0 (next (sa_advance s)).2 op n (next (sa_advance s)).1
          h.2 hn h.1
        exact binop_loop_use next cond hnext s0 fuel _ _ hb.1 hb.2

theorem binop_layer_use (next : syntax_analyzer_t F → pres F) (cond : token_kind_t → Bool)
    (hnext : use_inv next) : use_inv (binop_layer next cond) := by
  intro s
  unfold binop_layer
  have h := hnext s
  dsimp only
  split_ifs
  · exact use_inv_fail s _ h.2
  · exact binop_loop_use next cond hnext s _ _ _ h.1 h.2

theorem parse_pow_use (f : Nat) (hu : use_inv (parse_unary_ (F := F) f))
    (hp : use_inv (parse_pow_ (F := F) f)) : use_inv (parse_pow_ (F := F) (f + 1)) := by
  intro s
  rw [parse_pow_]
  have h := hu s
  have h2 : use_res s (parse_pow_ f (sa_advance (parse_unary_ f s).2)) :=
    use_res_trans (a := sa_advance (parse_unary_ f s).2) h.2 (hp _)
  dsimp only
  split_ifs <;> (try split) <;> (try split_ifs) <;>
    first
    | exact use_inv_fail s _ h.2
    | exact use_inv_fail s _ h2.2
    | exact h
    | exact sa_make_bin_use s _ _ _ _ h2.2 h.1 h2.1

theorem parse_unary_use (f : Nat) (hu : use_inv (parse_unary_ (F := F) f))
    (hp : use_inv (parse_primary_ (F := F) f)) : use_inv (parse_unary_ (F := F) (f + 1)) := by
  intro s
  rw [parse_unary_]
  split
  · exact ⟨rfl, rfl⟩
  · rename_i t _
    dsimp only
    have h : use_res s (parse_unary_ f (sa_advance s)) :=
      use_res_trans (a := sa_advance s) rfl (hu _)
    split_ifs
    · exact use_inv_fail s _ h.2
    · exact ⟨uses_in_add_child _ _ _ rfl h.1, h.2⟩
    · exact hp s

@[simp] theorem sa_make_call_st (s : syntax_analyzer_t F) (tid : token_t F) (n : Nat)
    (args : ast_node F) : (sa_make_call s tid n args).2.symtable = s.symtable := by
  unfold sa_make_call
  dsimp only
  split_ifs <;> rfl

theorem sa_make_call_use (s0 s : syntax_analyzer_t F) (tid : token_t F) (name_id : Nat)
    (args : ast_node F) (hs : s.symtable = s0.symtable)
    (ha : uses_in (declared s0.symtable) args = true) :
    use_res s0 (sa_make_call s tid name_id args) := by
  refine ⟨?_, (sa_make_call_st s tid name_id args).trans hs⟩
  unfold sa_make_call
  dsimp only
  split_ifs
  · exact uses_in_add_child _ _ _ rfl ha
  · exact uses_in_add_child _ _ _ rfl ha

theorem parse_call_expr_use (f : Nat) (ha : use_inv (parse_arg_list_ (F := F) f)) :
    use_inv (parse_call_expr_ (F := F) (f + 1)) := by
  intro s
  rw [parse_call_expr_]
  split
  · exact ⟨rfl, rfl⟩
  · rename_i tid _
    dsimp only
    have c1 := require_name_id_st s (some tid) "call expr"
    have c2 := (expect_st (sa_advance (require_name_id_ s (some tid) "call expr").2)
      .TOK_LPAREN "(").trans c1
    have h3 : use_res s (parse_arg_list_ f (expect_ (sa_advance
        (require_name_id_ s (some tid) "call expr").2) .TOK_LPAREN "(").2) :=
      use_res_trans c2 (ha _)
    have c4 := (expect_st (parse_arg_list_ f (expect_ (sa_advance
      (require_name_id_ s (some tid) "call expr").2) .TOK_LPAREN "(").2).2 .TOK_RPAREN ")").trans
      h3.2
    split_ifs
    · exact ⟨rfl, rfl⟩
    · exact use_inv_fail s _ c1
    · exact use_inv_fail s _ c2
    · exact use_inv_fail s _ h3.2
    · exact use_inv_fail s _ c4
    · exact sa_make_call_use s _ tid _ _ c4 h3.1

theorem arg_list_loop_use (next : syntax_analyzer_t F → pres F) (hnext : use_inv next)
    (s0 : syntax_analyzer_t F) :
    ∀ (fuel : Nat) (al : ast_node F) (s : syntax_analyzer_t F),
      uses_in (declared s0.symtable) al = true → s.symtable = s0.symtable →
      use_res s0 (arg_list_loop next fuel al s)
  | 0, al, s, _, hs => use_inv_fail s0 s hs
  | fuel + 1, al, s, hal, hs => by
    unfold arg_list_loop
    dsimp only
    have c1 := (match_st s .TOK_COMMA).trans hs
    have h2 : use_res s0 (next (match_ s .TOK_COMMA).2) := use_res_trans c1 (hnext _)
    split_ifs
    · exact ⟨hal, c1⟩
    · exact use_inv_fail s0 _ h2.2
    · exact arg_list_loop_use next hnext s0 fuel _ _ (uses_in_add_child _ _ _ hal h2.1) h2.2

theorem parse_arg_list_use (f : Nat) (he : use_inv (parse_expr_ (F := F) f)) :
    use_inv (parse_arg_list_ (F := F) (f + 1)) := by
  intro s
  rw [parse_arg_list_]
  dsimp only
  have h : use_res s (parse_expr_ f (sa_new s .ASTK_ARG_LIST (SA_POS (cur_ s))).2) :=
    use_res_trans (a := (sa_new s .ASTK_ARG_LIST (SA_POS (cur_ s))).2) rfl (he _)
  split_ifs
  · exact ⟨rfl, rfl⟩
  · exact use_inv_fail s _ h.2
  · exact arg_list_loop_use _ he s _ _ _ (uses_in_add_child _ _ _ rfl h.1) h.2

theorem sa_fail_use (s0 s : syntax_analyzer_t F) (t : Option (token_t F)) (msg : String)
    (hs : s.symtable = s0.symtable) : use_res s0 (sa_fail s t msg) :=
  use_inv_fail s0 _ ((set_err_st s t msg).trans hs)

theorem ident_use (s0 s : syntax_analyzer_t F) (n : Nat) (pos : token_pos_t)
    (hs : s.symtable = s0.symtable) (h : ¬ symtable_lookup s.symtable n < 0) :
    use_res s0 ((sa_new s .ASTK_IDENT pos).1.with_u (.ident n),
      sa_advance (sa_new s .ASTK_IDENT pos).2) := by
  refine ⟨?_, hs⟩
  rw [hs] at h
  have hd : declared s0.symtable n = true := by
    unfold declared
    exact decide_eq_true (not_lt.mp h)
  simp only [sa_new, ast_new, ast_node.with_u, uses_in, ast_payload.name_id, hd,
    Bool.or_true, Bool.and_self]

theorem parse_primary_use (f : Nat) (he : use_inv (parse_expr_ (F := F) f))
    (hc : use_inv (parse_call_expr_ (F := F) f)) :
    use_inv (parse_primary_ (F := F) (f + 1)) := by
  intro s
  rw [parse_primary_]
  split
  · exact ⟨rfl, rfl⟩
  · rename_i t _
    have h1 : use_res s (parse_expr_ f (sa_advance s)) :=
      use_res_trans (a := sa_advance s) rfl (he _)
    have c2 := (expect_st (parse_expr_ f (sa_advance s)).2 .TOK_RPAREN ")").trans h1.2
    have b1 : (expect_ (sa_advance s) .TOK_LPAREN "(").2.symtable = s.symtable :=
      expect_st (sa_advance s) .TOK_LPAREN "("
    have h2 : use_res s (parse_expr_ f (expect_ (sa_advance s) .TOK_LPAREN "(").2) :=
      use_res_trans b1 (he _)
    have b3 := (expect_st (parse_expr_ f (expect_ (sa_advance s)
      .TOK_LPAREN "(").2).2 .TOK_RPAREN ")").trans h2.2
    have r1 := require_name_id_st s (some t) "identifier"
    dsimp only
    split_ifs <;>
      first
      | exact use_inv_fail s _ h1.2
      | exact use_inv_fail s _ c2
      | exact ⟨h1.1, c2⟩
      | exact use_inv_fail s _ b1
      | exact use_inv_fail s _ h2.2
      | exact use_inv_fail s _ b3
      | exact ⟨uses_in_add_child _ _ _ rfl h2.1, b3⟩
      | exact hc s
      | exact use_inv_fail s _ r1
      | exact sa_fail_use s _ _ _ r1
      | exact ⟨rfl, rfl⟩
      | exact sa_fail_use s _ _ _ rfl
      | exact ident_use s _ _ _ r1 (by assumption)

theorem expr_parser_use : ∀ fuel : Nat,
    use_inv (parse_expr_ (F := F) fuel) ∧ use_inv (parse_or_ (F := F) fuel) ∧
    use_inv (parse_and_ (F := F) fuel) ∧ use_inv (parse_eq_ (F := F) fuel) ∧
    use_inv (parse_rel_ (F := F) fuel) ∧ use_inv (parse_add_ (F := F) fuel) ∧
    use_inv (parse_mul_ (F := F) fuel) ∧ use_inv (parse_pow_ (F := F) fuel) ∧
    use_inv (parse_unary_ (F := F) fuel) ∧ use_inv (parse_primary_ (F := F) fuel) ∧
    use_inv (parse_call_expr_ (F := F) fuel) ∧ use_inv (parse_arg_list_ (F := F) fuel)
  | 0 => by
    refine ⟨?_, ?_, ?_, ?_, ?_, ?_, ?_, ?_, ?_, ?_, ?_, ?_⟩ <;> intro s
    · rw [parse_expr_]; exact ⟨rfl, rfl⟩
    · rw [parse_or_]; exact ⟨rfl, rfl⟩
    · rw [parse_and_]; exact ⟨rfl, rfl⟩
    · rw [parse_eq_]; exact ⟨rfl, rfl⟩
    · rw [parse_rel_]; exact ⟨rfl, rfl⟩
    · rw [parse_add_]; exact ⟨rfl, rfl⟩
    · rw [parse_mul_]; exact ⟨rfl, rfl⟩
    · rw [parse_pow_]; exact ⟨rfl, rfl⟩
    · rw [parse_unary_]; exact ⟨rfl, rfl⟩
    · rw [parse_primary_]; exact ⟨rfl, rfl⟩
    · rw [parse_call_expr_]; exact ⟨rfl, rfl⟩
    · rw [parse_arg_list_]; exact ⟨rfl, rfl⟩
  | f + 1 => by
    obtain ⟨h1, h2, h3, h4, h5, h6, h7, h8, h9, h10, h11, h12⟩ := expr_parser_use f
    refine ⟨?_, ?_, ?_, ?_, ?_, ?_, ?_, ?_, ?_, ?_, ?_, ?_⟩
    · intro s; rw [parse_expr_]; exact h2 s
    · intro s; rw [parse_or_]; exact binop_layer_use _ _ h3 s
    · intro s; rw [parse_and_]; exact binop_layer_use _ _ h4 s
    · intro s; rw [parse_eq_]; exact binop_layer_use _ _ h5 s
    · intro s; rw [parse_rel_]; exact binop_layer_use _ _ h6 s
    · intro s; rw [parse_add_]; exact binop_layer_use _ _ h7 s
    · intro s; rw [parse_mul_]; exact binop_layer_use _ _ h8 s
    · exact parse_pow_use f h9 h8
    · exact parse_unary_use f h9 h10
    · exact parse_primary_use f h1 h11
    · exact parse_call_expr_use f h12
    · exact parse_arg_list_use f h1

theorem parse_expr_use (fuel : Nat) (s : syntax_analyzer_t F) :
    uses_in (declared s.symtable) (parse_expr_ fuel s).1 = true ∧
      (parse_expr_ fuel s).2.symtable = s.symtable :=
  (expr_parser_use fuel).1 s

theorem parse_arg_list_use_all (fuel : Nat) (s : syntax_analyzer_t F) :
    uses_in (declared s.symtable) (parse_arg_list_ fuel s).1 = true ∧
      (parse_arg_list_ fuel s).2.symtable = s.symtable :=
  (expr_parser_use fuel).2.2.2.2.2.2.2.2.2.2.2 s

end uses_thms

section visible_thms

theorem lookup_range_sub (st st2 : symtable_t) (n f : Nat)
    (h : ∀ i, (st2.symbols i).name_id = n → (st.symbols i).name_id = n) :
    ∀ t : Nat, 0 ≤ lookup_range_ st2 n f t → 0 ≤ lookup_range_ st n f t
  | 0, h0 => by simp [lookup_range_] at h0
  | t + 1, h0 => by
    unfold lookup_range_ at h0 ⊢
    by_cases c : t + 1 > f
    · rw [if_pos c] at h0 ⊢
      by_cases e : (st.symbols t).name_id = n
      · rw [if_pos e]; exact Int.natCast_nonneg t
      · rw [if_neg e]
        have e2 : ¬ (st2.symbols t).name_id = n := fun x => e (h t x)
        rw [if_neg e2] at h0
        exact lookup_range_sub st st2 n f h t h0
    · rw [if_neg c] at h0
      exact absurd h0 (by decide)

theorem lookup_loop_sub (st st2 : symtable_t) (n : Nat)
    (hr : ∀ f t, 0 ≤ lookup_range_ st2 n f t → 0 ≤ lookup_range_ st n f t)
    (hs : ∀ i, st2.scopes i = st.scopes i) :
    ∀ s t : Nat, 0 ≤ symtable_lookup_loop st2 n s t → 0 ≤ symtable_lookup_loop st n s t
  | 0, t, h0 => by simp [symtable_lookup_loop] at h0
  | s + 1, t, h0 => by
    unfold symtable_lookup_loop at h0 ⊢
    dsimp only at h0 ⊢
    rw [hs s] at h0
    by_cases c : lookup_range_ st n (st.scopes s) t ≥ 0
    · rw [if_pos c]; exact c
    · rw [if_neg c]
      have c2 : ¬ lookup_range_ st2 n (st.scopes s) t ≥ 0 := fun x => c (hr _ _ x)
      rw [if_neg c2] at h0
      exact lookup_loop_sub st st2 n hr hs s _ h0

theorem lookup_loop_scopes_congr (st st2 : symtable_t) (n : Nat)
    (hsym : st2.symbols = st.symbols) :
    ∀ s t : Nat, (∀ i, i < s → st2.scopes i = st.scopes i) →
      symtable_lookup_loop st2 n s t = symtable_lookup_loop st n s t
  | 0, t, _ => rfl
  | s + 1, t, hs => by
    unfold symtable_lookup_loop
    dsimp only
    rw [hs s (Nat.lt_succ_self s)]
    have e : ∀ f t, lookup_range_ st2 n f t = lookup_range_ st n f t := by
      intro f t
      induction t with
      | zero => rfl
      | succ t ih => unfold lookup_range_; rw [hsym, ih]
    rw [e, lookup_loop_scopes_congr st st2 n hsym s _ (fun i hi => hs i (Nat.lt_succ_of_lt hi))]

theorem lookup_range_self (st : symtable_t) (n t : Nat) : lookup_range_ st n t t = -1 := by
  cases t with
  | zero => rfl
  | succ t => unfold lookup_range_; rw [if_neg (lt_irrefl _)]

/-- A name found after `symtable_push_scope` was found before. -/
theorem declared_push (st : symtable_t) (n : Nat)
    (h : declared (symtable_push_scope st) n = true) : declared st n = true := by
  unfold declared at h ⊢
  have h0 := of_decide_eq_true h
  apply decide_eq_true
  unfold symtable_lookup at h0 ⊢
  have e1 : (symtable_push_scope st).scopes_amount = st.scopes_amount + 1 := rfl
  rw [if_neg (by rw [e1]; omega), e1] at h0
  unfold symtable_lookup_loop at h0
  dsimp only at h0
  have e2 : (symtable_push_scope st).scopes st.scopes_amount = st.amount := by
    simp [symtable_push_scope]
  have e3 : (symtable_push_scope st).amount = st.amount := rfl
  rw [e2, e3, lookup_range_self, if_neg (by decide)] at h0
  rw [lookup_loop_scopes_congr st (symtable_push_scope st) n rfl _ _ (fun i hi => by
    simp [symtable_push_scope, Function.update, Nat.ne_of_lt hi])] at h0
  by_cases c : st.scopes_amount = 0
  · rw [c] at h0
    simp [symtable_lookup_loop] at h0
  · rw [if_neg c]; exact h0

/-- A name found after `symtable_pop_scope` was found before. -/
theorem declared_pop (st : symtable_t) (n : Nat)
    (h : declared (symtable_pop_scope st) n = true) : declared st n = true := by
  unfold symtable_pop_scope at h
  by_cases c : st.scopes_amount = 0
  · rw [if_pos c] at h; exact h
  · rw [if_neg c] at h
    unfold declared at h ⊢
    have h0 := of_decide_eq_true h
    apply decide_eq_true
    unfold symtable_lookup at h0 ⊢
    dsimp only at h0
    rw [if_neg c]
    by_cases c2 : st.scopes_amount - 1 = 0
    · rw [if_pos c2] at h0; exact absurd h0 (by decide)
    · rw [if_neg c2] at h0
      obtain ⟨s, hs⟩ : ∃ s, st.scopes_amount = s + 1 := ⟨st.scopes_amount - 1, by omega⟩
      rw [hs] at h0 ⊢
      rw [Nat.add_sub_cancel] at h0
      rw [symtable_lookup_loop]
      split_ifs with c3
      · exact c3
      · have e := lookup_loop_scopes_congr st
          { st with amount := st.scopes s, scopes_amount := s } n rfl s (st.scopes s)
          (fun i _ => rfl)
        rw [e] at h0
        exact h0

/-- A name found after `symtable_declare` is the declared name or was found
before. -/
theorem declared_declare (st : symtable_t) (k : sym_kind_t) (x : Nat) (ty : ast_type_t)
    (d n : Nat) (h : declared (symtable_declare st k x ty d).2 n = true) :
    n = x ∨ declared st n = true := by
  by_cases hx : n = x
  · exact Or.inl hx
  · right
    unfold symtable_declare at h
    split_ifs at h with c
    · exact h
    · unfold declared at h ⊢
      have h0 := of_decide_eq_true h
      apply decide_eq_true
      unfold symtable_lookup at h0 ⊢
      dsimp only at h0
      by_cases c0 : st.scopes_amount = 0
      · rw [if_pos c0] at h0; exact absurd h0 (by decide)
      · rw [if_neg c0] at h0 ⊢
        generalize hst2 : ({ st with
            cap := ensure_cap_ st.cap (st.amount + 1)
            symbols := Function.update st.symbols st.amount
              { kind := k, name_id := x, type := ty, decl := d }
            amount := st.amount + 1 } : symtable_t) = st2 at h0
        have hsym : ∀ i, (st2.symbols i).name_id = n → (st.symbols i).name_id = n := by
          intro i hi
          rw [← hst2] at hi
          by_cases e : i = st.amount
          · subst e
            simp at hi
            exact absurd hi.symm hx
          · simpa [Function.update, e] using hi
        have hsc : ∀ i, st2.scopes i = st.scopes i := by intro i; rw [← hst2]
        have hr := lookup_range_sub st st2 n
        obtain ⟨s, hs⟩ : ∃ s, st.scopes_amount = s + 1 := ⟨st.scopes_amount - 1, by omega⟩
        rw [hs] at h0 ⊢
        unfold symtable_lookup_loop at h0 ⊢
        dsimp only at h0 ⊢
        rw [hsc s] at h0
        have hlast : ¬ (st2.symbols st.amount).name_id = n := by
          rw [← hst2]; simp; exact fun e => hx e.symm
        have hstep : 0 ≤ lookup_range_ st2 n (st.scopes s) (st.amount + 1) →
            0 ≤ lookup_range_ st n (st.scopes s) st.amount := by
          intro g
          unfold lookup_range_ at g
          split_ifs at g with g1
          · exact hr _ hsym _ g
          · exact absurd g (by decide)
        split_ifs at h0 with c1
        · rw [if_pos (hstep c1)]; exact hstep c1
        · split_ifs with c2
          · exact c2
          · exact lookup_loop_sub st st2 n (fun f t => hr f hsym t) hsc s _ h0

end visible_thms

section events_thms
variable {F : Type}

theorem decl_names_append (a b : List (ast_kind_t × Nat)) :
    decl_names (a ++ b) = decl_names a ++ decl_names b := by
  simp [decl_names, List.filter_append]

theorem declared_before_mono : ∀ (evs : List (ast_kind_t × Nat)) (e1 e2 : List Nat),
    (∀ n, n ∈ e1 → n ∈ e2) → declared_before e1 evs = true → declared_before e2 evs = true
  | [], _, _, _, _ => rfl
  | (k, n) :: rest, e1, e2, h, h1 => by
    simp only [declared_before, Bool.and_eq_true, Bool.or_eq_true, decide_eq_true_eq] at h1 ⊢
    refine ⟨h1.1.imp id (h n), ?_⟩
    refine declared_before_mono rest _ _ ?_ h1.2
    intro m hm
    split_ifs at hm ⊢
    · rcases List.mem_cons.mp hm with e | e
      · exact List.mem_cons.mpr (Or.inl e)
      · exact List.mem_cons.mpr (Or.inr (h m e))
    · exact h m hm

theorem declared_before_append : ∀ (a b : List (ast_kind_t × Nat)) (env : List Nat),
    declared_before env a = true →
    (∀ env2 : List Nat, (∀ n, n ∈ decl_names a ∨ n ∈ env → n ∈ env2) →
      declared_before env2 b = true) →
    declared_before env (a ++ b) = true
  | [], b, env, _, hb => hb env (fun n hn => hn.elim (fun x => by simp [decl_names] at x) id)
  | (k, n) :: rest, b, env, ha, hb => by
    simp only [declared_before, Bool.and_eq_true, List.cons_append] at ha ⊢
    refine ⟨ha.1, declared_before_append rest b _ ha.2 ?_⟩
    intro env2 h2
    apply hb
    intro m hm
    apply h2
    rcases hm with hm | hm
    · simp only [decl_names, List.filter_cons, List.mem_map] at hm
      obtain ⟨e, he, rfl⟩ := hm
      split_ifs at he with c
      · rcases List.mem_cons.mp he with x | x
        · subst x
          right
          rw [if_pos c]
          exact List.mem_cons_self _ _
        · left
          exact List.mem_map.mpr ⟨e, x, rfl⟩
      · left
        exact List.mem_map.mpr ⟨e, he, rfl⟩
    · right
      split_ifs
      · exact List.mem_cons_of_mem _ hm
      · exact hm

theorem uses_ok_append (st st1 : symtable_t) (a b : List (ast_kind_t × Nat))
    (ha : uses_ok st a) (hv : visible_from st a st1) (hb : uses_ok st1 b) :
    uses_ok st (a ++ b) := by
  intro env henv
  refine declared_before_append a b env (ha env henv) ?_
  intro env2 h2
  apply hb
  intro n hn
  rcases hv n hn with x | x
  · exact h2 n (Or.inl x)
  · exact h2 n (Or.inr (henv n x))

theorem visible_append (st st1 st2 : symtable_t) (a b : List (ast_kind_t × Nat))
    (ha : visible_from st a st1) (hb : visible_from st1 b st2) :
    visible_from st (a ++ b) st2 := by
  intro n hn
  rw [decl_names_append, List.mem_append]
  rcases hb n hn with x | x
  · exact Or.inl (Or.inr x)
  · rcases ha n x with y | y
    · exact Or.inl (Or.inl y)
    · exact Or.inr y

theorem visible_left (st st1 : symtable_t) (a b : List (ast_kind_t × Nat))
    (ha : visible_from st a st1) : visible_from st (a ++ b) st1 := by
  intro n hn
  rw [decl_names_append, List.mem_append]
  exact (ha n hn).imp Or.inl id

theorem visible_right (st st1 : symtable_t) (a b : List (ast_kind_t × Nat))
    (hb : visible_from st b st1) : visible_from st (a ++ b) st1 := by
  intro n hn
  rw [decl_names_append, List.mem_append]
  exact (hb n hn).imp Or.inr id

theorem visible_of_eq (st st1 : symtable_t) (a : List (ast_kind_t × Nat)) (h : st1 = st) :
    visible_from st a st1 := by
  intro n hn
  rw [h] at hn
  exact Or.inr hn

theorem seg_append {st st1 st2 : symtable_t} {a b : List (ast_kind_t × Nat)}
    (ha : seg_ok st a st1) (hb : seg_ok st1 b st2) : seg_ok st (a ++ b) st2 :=
  ⟨uses_ok_append st st1 a b ha.1 ha.2 hb.1, visible_append st st1 st2 a b ha.2 hb.2⟩

theorem seg_nil (st st1 : symtable_t) (h : ∀ n, declared st1 n = true → declared st n = true) :
    seg_ok st [] st1 :=
  ⟨fun _ _ => rfl, fun n hn => Or.inr (h n hn)⟩

/-- A node that neither uses nor declares a name. -/
theorem seg_plain (st : symtable_t) (k : ast_kind_t) (n : Nat)
    (hu : is_use_kind k = false) : seg_ok st [(k, n)] st :=
  ⟨fun _ _ => by simp [declared_before, hu], fun n hn => Or.inr hn⟩

theorem seg_congr {st st1 st2 : symtable_t} {a : List (ast_kind_t × Nat)}
    (h : st2 = st1) (ha : seg_ok st a st1) : seg_ok st a st2 := by
  rw [h]; exact ha

theorem name_events_set_right_nil_append (n c : ast_node F) :
    name_events (append_sibling n c) = name_events n ++ own_events c := by
  induction n using ast_node.rec with
  | nil => simp [append_sibling, name_events, own_events]
  | node k p t u l r _ ihr =>
    simp only [append_sibling, name_events, ihr, List.cons_append, List.append_assoc]

theorem own_events_add_child (p x : ast_node F) (hp : p.is_some = true) :
    own_events (ast_add_child p x) = own_events p ++ own_events x := by
  cases p with
  | nil => simp [ast_node.is_some] at hp
  | node k q t u l r =>
    cases x with
    | nil => simp [ast_add_child, own_events, ast_node.set_right, name_events]
    | node k2 q2 t2 u2 l2 r2 =>
      simp only [ast_add_child, own_events, ast_node.set_right, name_events, List.append_nil,
        List.cons_append, name_events_set_right_nil_append]

/-- The nodes of an expression whose identifiers are accepted by `p`. -/
theorem expr_events : ∀ (e : ast_node F) (p : Nat → Bool) (env : List Nat),
    all_kinds is_expr_kind e = true → uses_in p e = true → (∀ n, p n = true → n ∈ env) →
      declared_before env (name_events e) = true ∧ decl_names (name_events e) = []
  | .nil, _, _, _, _, _ => ⟨rfl, rfl⟩
  | .node k q t u l r, p, env, hk, hu, henv => by
    simp only [all_kinds, Bool.and_eq_true] at hk
    simp only [uses_in, Bool.and_eq_true, Bool.or_eq_true, Bool.not_eq_true'] at hu
    obtain ⟨il1, il2⟩ := expr_events l p env hk.1.2 hu.1.2 henv
    obtain ⟨ir1, ir2⟩ := expr_events r p env hk.2 hu.2 henv
    have hd : is_decl_kind k = false := by
      have := hk.1.1
      revert this
      cases k <;> decide
    have h2 : decl_names (name_events l ++ name_events r) = [] := by
      rw [decl_names_append, il2, ir2]; rfl
    constructor
    · simp only [name_events, declared_before, hd, Bool.and_eq_true, Bool.or_eq_true,
        Bool.not_eq_true', decide_eq_true_eq, if_false, Bool.false_eq_true]
      refine ⟨hu.1.1.imp id (henv _), declared_before_append _ _ env il1 ?_⟩
      intro env2 h3
      exact declared_before_mono _ env env2 (fun n hn => h3 n (Or.inr hn)) ir1
    · simp only [name_events, decl_names, List.filter_cons, hd, Bool.false_eq_true, if_false]
      exact h2

theorem seg_expr (st : symtable_t) (e : ast_node F)
    (hk : all_kinds is_expr_kind e = true) (hu : uses_in (declared st) e = true) :
    seg_ok st (own_events e) st := by
  have hk2 := all_kinds_set_right_nil _ e hk
  have hu2 := uses_in_set_right_nil _ e hu
  constructor
  · intro env henv
    exact (expr_events _ _ env hk2 hu2 henv).1
  · intro n hn
    exact Or.inr hn

end events_thms

section stmt_uses_thms
variable {F : Type}

@[simp] theorem sa_new_st (s : syntax_analyzer_t F) (k : ast_kind_t) (p : token_pos_t) :
    (sa_new s k p).2.symtable = s.symtable := rfl

@[simp] theorem sa_advance_st (s : syntax_analyzer_t F) :
    (sa_advance s).symtable = s.symtable := rfl

@[simp] theorem sa_fail_st (s : syntax_analyzer_t F) (t : Option (token_t F)) (msg : String) :
    (sa_fail s t msg).2.symtable = s.symtable := set_err_st s t msg

@[simp] theorem parse_expr_st (fuel : Nat) (s : syntax_analyzer_t F) :
    (parse_expr_ fuel s).2.symtable = s.symtable := (parse_expr_use fuel s).2

@[simp] theorem parse_arg_list_st (fuel : Nat) (s : syntax_analyzer_t F) :
    (parse_arg_list_ fuel s).2.symtable = s.symtable := (parse_arg_list_use_all fuel s).2

@[simp] theorem own_events_new (k : ast_kind_t) (p : token_pos_t) :
    own_events (ast_new k p : ast_node F) = [(k, 0)] := rfl

@[simp] theorem own_events_new_u (k : ast_kind_t) (p : token_pos_t) (u : ast_payload F) :
    own_events ((ast_new k p : ast_node F).with_u u) = [(k, u.name_id)] := rfl

@[simp] theorem own_events_new_ut (k : ast_kind_t) (p : token_pos_t) (u : ast_payload F)
    (t : ast_type_t) :
    own_events (((ast_new k p : ast_node F).with_u u).with_type t) = [(k, u.name_id)] := rfl

theorem decl_res_fail (s s2 : syntax_analyzer_t F) :
    decl_res s ((ast_node.nil : ast_node F), s2) :=
  fun h => absurd h (by simp [ast_node.is_some])

theorem decl_res_sa_fail (s s2 : syntax_analyzer_t F) (t : Option (token_t F)) (msg : String) :
    decl_res s (sa_fail s2 t msg) :=
  fun h => absurd h (by simp [sa_fail, ast_node.is_some])

theorem decl_res_mk (s s2 : syntax_analyzer_t F) (t : ast_node F)
    (h : seg_ok s.symtable (own_events t) s2.symtable) : decl_res s (t, s2) :=
  fun _ => h

theorem seg_add_child {st st1 st2 : symtable_t} {p x : ast_node F} (hp : p.is_some = true)
    (h1 : seg_ok st (own_events p) st1) (h2 : seg_ok st1 (own_events x) st2) :
    seg_ok st (own_events (ast_add_child p x)) st2 := by
  rw [own_events_add_child p x hp]
  exact seg_append h1 h2

/-- An expression parsed by `parse_expr_` in a state with the table `st`. -/
theorem seg_parse_expr (fuel : Nat) (s : syntax_analyzer_t F) (st : symtable_t)
    (h : s.symtable = st) :
    seg_ok st (own_events (parse_expr_ fuel s).1) (parse_expr_ fuel s).2.symtable := by
  subst h
  rw [parse_expr_st]
  exact seg_expr _ _ (parse_expr_kinds fuel s) (parse_expr_use fuel s).1

theorem seg_parse_arg_list (fuel : Nat) (s : syntax_analyzer_t F) (st : symtable_t)
    (h : s.symtable = st) :
    seg_ok st (own_events (parse_arg_list_ fuel s).1) (parse_arg_list_ fuel s).2.symtable := by
  subst h
  rw [parse_arg_list_st]
  exact seg_expr _ _ (parse_arg_list_kinds fuel s) (parse_arg_list_use_all fuel s).1

/-- A node that declares the name `x`. -/
theorem seg_decl (st st1 : symtable_t) (k : ast_kind_t) (x : Nat)
    (hk : is_decl_kind k = true) (hu : is_use_kind k = false)
    (h : ∀ n, declared st1 n = true → n = x ∨ declared st n = true) :
    seg_ok st [(k, x)] st1 := by
  refine ⟨fun _ _ => by simp [declared_before, hu], fun n hn => ?_⟩
  rcases h n hn with e | e
  · left
    simp [decl_names, hk, e]
  · exact Or.inr e

/-- A node that uses the name `x`, found in the table. -/
theorem seg_use (st : symtable_t) (k : ast_kind_t) (x : Nat)
    (hx : declared st x = true) : seg_ok st [(k, x)] st := by
  refine ⟨fun env henv => ?_, fun n hn => Or.inr hn⟩
  simp [declared_before, henv x hx]

theorem sa_declare_visible (s : syntax_analyzer_t F) (k : sym_kind_t) (x : Nat)
    (ty : ast_type_t) (t : Option (token_t F)) (n : Nat)
    (h : declared (sa_declare s k x ty t).2.symtable n = true) :
    n = x ∨ declared s.symtable n = true := by
  unfold sa_declare at h
  dsimp only at h
  split_ifs at h
  · rw [set_err_st] at h; exact Or.inr h
  · exact declared_declare _ _ _ _ _ _ h

theorem parse_var_decl_decl (fuel : Nat) : decl_inv (parse_var_decl_ (F := F) fuel) := by
  intro s
  unfold parse_var_decl_
  split
  · exact decl_res_fail _ _
  · rename_i ttype _
    dsimp only
    split_ifs
    · exact decl_res_fail _ _
    · split
      · exact decl_res_sa_fail _ _ _ _
      · rename_i tid _
        have hd : seg_ok s.symtable [(ast_kind_t.ASTK_VAR_DECL,
              (require_name_id_ (sa_advance s) (some tid) "var decl").1)]
            (sa_declare (sa_new (require_name_id_ (sa_advance s) (some tid) "var decl").2
              .ASTK_VAR_DECL tid.pos).2 .SYM_VAR
              (require_name_id_ (sa_advance s) (some tid) "var decl").1
              (type_from_tok_ ttype.kind) (some tid)).2.symtable := by
          refine seg_decl _ _ _ _ rfl rfl (fun n hn => ?_)
          simpa using sa_declare_visible _ _ _ _ _ n hn
        split_ifs
        all_goals try exact decl_res_fail _ _
        · exact decl_res_mk _ _ _
            (seg_add_child rfl hd (seg_parse_expr fuel _ _ (by simp)))
        · exact decl_res_mk _ _ _ (seg_congr (by simp) hd)

theorem declared_of_not_lt (st : symtable_t) (n : Nat) (h : ¬ symtable_lookup st n < 0) :
    declared st n = true := by
  unfold declared
  exact decide_eq_true (not_lt.mp h)

theorem seg_cons_plain {st st1 : symtable_t} {evs : List (ast_kind_t × Nat)}
    (k : ast_kind_t) (n : Nat) (hu : is_use_kind k = false) (h : seg_ok st evs st1) :
    seg_ok st ((k, n) :: evs) st1 :=
  seg_append (seg_plain st k n hu) h

theorem seg_then_uses {st st1 : symtable_t} {a b : List (ast_kind_t × Nat)}
    (ha : seg_ok st a st1) (hb : uses_ok st b) : seg_ok st (a ++ b) st1 :=
  ⟨uses_ok_append st st a b ha.1 (fun _ hn => Or.inr hn) hb, visible_left st st1 a b ha.2⟩

@[simp] theorem parse_assignment_st (fuel : Nat) (s : syntax_analyzer_t F) :
    (parse_assignment_ fuel s).2.symtable = s.symtable := by
  unfold parse_assignment_
  split
  · rfl
  · dsimp only
    split_ifs <;> simp

theorem parse_assignment_decl (fuel : Nat) : decl_inv (parse_assignment_ (F := F) fuel) := by
  intro s
  unfold parse_assignment_
  split
  · exact decl_res_fail _ _
  · rename_i tid _
    dsimp only
    split_ifs with h1 h2 h3
    all_goals try exact decl_res_fail _ _
    have hx : declared s.symtable (require_name_id_ s (some tid) "assignment").1 = true := by
      have := declared_of_not_lt _ _ h3
      simpa using this
    exact decl_res_mk _ _ _ (seg_congr (by simp)
      (seg_add_child rfl (seg_use _ .ASTK_ASSIGN _ hx) (seg_parse_expr fuel _ _ (by simp))))

theorem parse_break_decl : decl_inv (parse_break_ (F := F)) := by
  intro s
  unfold parse_break_
  split
  · exact decl_res_fail _ _
  · split_ifs
    · exact decl_res_fail _ _
    · exact decl_res_sa_fail _ _ _ _
    · exact decl_res_mk _ _ _ (seg_plain _ _ _ rfl)

@[simp] theorem parse_break_st (s : syntax_analyzer_t F) :
    (parse_break_ s).2.symtable = s.symtable := by
  unfold parse_break_
  split
  · rfl
  · split_ifs <;> simp

theorem parse_return_decl (fuel : Nat) : decl_inv (parse_return_ (F := F) fuel) := by
  intro s
  unfold parse_return_
  split
  · exact decl_res_fail _ _
  · rename_i t _
    dsimp only
    split_ifs
    all_goals try exact decl_res_fail _ _
    · exact decl_res_mk _ _ _ (seg_plain _ _ _ rfl)
    · exact decl_res_mk _ _ _ (seg_congr (by simp)
        (seg_add_child rfl (seg_plain _ _ _ rfl) (seg_parse_expr fuel _ _ (by simp))))

theorem sa_make_call_fst (s : syntax_analyzer_t F) (tid : token_t F) (n : Nat)
    (args : ast_node F) :
    (sa_make_call s tid n args).1 =
      ast_add_child ((ast_new .ASTK_CALL tid.pos).with_u (.call n)) args := by
  unfold sa_make_call
  dsimp only
  split_ifs <;> rfl

theorem parse_call_stmt_decl (fuel : Nat) : decl_inv (parse_call_stmt_ (F := F) fuel) := by
  intro s
  unfold parse_call_stmt_
  split
  · exact decl_res_fail _ _
  · rename_i t _
    dsimp only
    split_ifs
    · exact decl_res_fail _ _
    · split
      · exact decl_res_sa_fail _ _ _ _
      · rename_i tid _
        split_ifs
        all_goals try exact decl_res_fail _ _
        refine decl_res_mk _ _ _ (seg_add_child rfl (seg_plain _ _ _ rfl) ?_)
        rw [sa_make_call_fst]
        exact seg_congr (by simp)
          (seg_add_child rfl (seg_plain _ _ _ rfl) (seg_parse_arg_list fuel _ _ (by simp)))

theorem parse_cout_stmt_decl (fuel : Nat) (kind : ast_kind_t) (hk : is_use_kind kind = false) :
    decl_inv (fun s => parse_cout_stmt_ (F := F) fuel s kind) := by
  intro s
  show decl_res s (parse_cout_stmt_ fuel s kind)
  unfold parse_cout_stmt_
  split
  · exact decl_res_fail _ _
  · rename_i t _
    dsimp only
    split_ifs
    all_goals try exact decl_res_fail _ _
    exact decl_res_mk _ _ _ (seg_congr (by simp)
      (seg_add_child rfl (seg_plain _ _ _ hk) (seg_parse_expr fuel _ _ (by simp))))

theorem then_semicolon_decl (s : syntax_analyzer_t F) (n : pres F) (h : decl_res s n) :
    decl_res s (then_semicolon n) := by
  unfold then_semicolon
  dsimp only
  split_ifs with h1 h2
  · exact decl_res_fail _ _
  · exact decl_res_fail _ _
  · exact decl_res_mk _ _ _ (seg_congr (by simp) (h (by simpa using h1)))

end stmt_uses_thms

section for_uses_thms
variable {F : Type}

theorem own_events_not_some (n : ast_node F) (h : ¬ n.is_some = true) : own_events n = [] := by
  cases n with
  | nil => rfl
  | node k p t u l r => exact absurd rfl h

theorem seg_refl_nil (st : symtable_t) : seg_ok st [] st :=
  seg_nil st st (fun _ h => h)

theorem for_init_seg (fuel : Nat) (s : syntax_analyzer_t F)
    (hn : ¬ ((for_init_ fuel s).1 && !(for_init_ fuel s).2.1.is_some) = true) :
    seg_ok s.symtable (own_events (for_init_ fuel s).2.1) (for_init_ fuel s).2.2.symtable := by
  revert hn
  unfold for_init_
  dsimp only
  split_ifs with h1 h2 h3
  · intro _; exact seg_refl_nil _
  · intro hn
    have h1' : cur_is_not s .TOK_SEMICOLON = true := by simpa using h1
    exact parse_var_decl_decl fuel s (by simpa [h1'] using hn)
  · intro hn
    have h1' : cur_is_not s .TOK_SEMICOLON = true := by simpa using h1
    exact parse_assignment_decl fuel s (by simpa [h1'] using hn)
  · intro hn
    have h1' : cur_is_not s .TOK_SEMICOLON = true := by simpa using h1
    simp [h1', sa_fail, ast_node.is_some] at hn

@[simp] theorem for_cond_st (fuel : Nat) (s : syntax_analyzer_t F) :
    (for_cond_ fuel s).2.symtable = s.symtable := by
  unfold for_cond_
  split_ifs
  · simp
  · rfl

theorem for_cond_seg (fuel : Nat) (s : syntax_analyzer_t F) :
    seg_ok s.symtable (own_events (for_cond_ fuel s).1) s.symtable := by
  unfold for_cond_
  split_ifs
  · exact seg_congr (parse_expr_st fuel s).symm (seg_parse_expr fuel s _ rfl)
  · exact seg_plain _ _ _ rfl

@[simp] theorem wrap_expr_stmt_st (s : syntax_analyzer_t F) (e : ast_node F) :
    (wrap_expr_stmt_ s e).2.symtable = s.symtable := by
  unfold wrap_expr_stmt_
  dsimp only
  split_ifs <;> rfl

theorem wrap_expr_stmt_seg (st : symtable_t) (s : syntax_analyzer_t F) (e : ast_node F)
    (h : seg_ok st (own_events e) st) : seg_ok st (own_events (wrap_expr_stmt_ s e).1) st := by
  unfold wrap_expr_stmt_
  dsimp only
  split_ifs
  · exact seg_refl_nil _
  · exact seg_add_child rfl (seg_plain _ _ _ rfl) h

@[simp] theorem for_step_stmt_st (fuel : Nat) (s : syntax_analyzer_t F) :
    (for_step_stmt_ (for_step_ fuel s).2).2.symtable = s.symtable := by
  unfold for_step_stmt_ for_step_
  dsimp only
  split_ifs <;> simp

theorem seg_of_some_or_nil (st st1 : symtable_t) (n : ast_node F) (h1 : st1 = st)
    (h : n.is_some = true → seg_ok st (own_events n) st1) : seg_ok st (own_events n) st := by
  by_cases c : n.is_some = true
  · exact seg_congr h1.symm (h c)
  · rw [own_events_not_some n c]; exact seg_refl_nil _

theorem for_step_stmt_seg (fuel : Nat) (s : syntax_analyzer_t F) :
    seg_ok s.symtable (own_events (for_step_stmt_ (for_step_ fuel s).2).1) s.symtable := by
  have ha : seg_ok s.symtable (own_events (parse_assignment_ fuel s).1) s.symtable :=
    seg_of_some_or_nil _ _ _ (parse_assignment_st fuel s) (parse_assignment_decl fuel s)
  have he : seg_ok s.symtable (own_events (parse_expr_ fuel s).1) s.symtable :=
    seg_congr (parse_expr_st fuel s).symm (seg_parse_expr fuel s _ rfl)
  unfold for_step_stmt_ for_step_
  dsimp only
  split_ifs <;>
    first
    | exact seg_refl_nil _
    | exact ha
    | exact he
    | exact wrap_expr_stmt_seg _ _ _ ha
    | exact wrap_expr_stmt_seg _ _ _ he

theorem parse_for_head_seg (fuel : Nat) (s : syntax_analyzer_t F) :
    for_head_seg s (parse_for_head_ fuel s) := by
  unfold parse_for_head_
  dsimp only
  have i1 := for_init_seg fuel (expect_ s .TOK_LPAREN "(").2
  generalize for_init_ fuel (expect_ s .TOK_LPAREN "(").2 = init at i1 ⊢
  have c1 := for_cond_seg fuel (expect_ init.2.2 .TOK_SEMICOLON ";").2
  have c2 := for_cond_st fuel (expect_ init.2.2 .TOK_SEMICOLON ";").2
  generalize for_cond_ fuel (expect_ init.2.2 .TOK_SEMICOLON ";").2 = cond at c1 c2 ⊢
  have s1 := for_step_stmt_seg fuel (expect_ cond.2 .TOK_SEMICOLON ";").2
  have s2 := for_step_stmt_st fuel (expect_ cond.2 .TOK_SEMICOLON ";").2
  generalize for_step_stmt_ (for_step_ fuel (expect_ cond.2 .TOK_SEMICOLON ";").2).2 = stp
    at s1 s2 ⊢
  split_ifs with g1 g2 g3 g4 g5 g6 g7
  all_goals try (intro h; simp [for_head_fail] at h; done)
  intro _
  have e1 : (expect_ stp.2 token_kind_t.TOK_RPAREN ")").2.symtable = init.2.2.symtable := by
    simp [s2, c2]
  have e2 : (expect_ cond.2 .TOK_SEMICOLON ";").2.symtable = init.2.2.symtable := by
    simp [c2]
  have e3 : (expect_ init.2.2 .TOK_SEMICOLON ";").2.symtable = init.2.2.symtable := by simp
  dsimp only
  rw [e1]
  rw [e3] at c1
  rw [e2] at s1
  refine ⟨?_, c1, s1⟩
  have := i1 g2
  simpa using this

theorem seg_add_child_uses {st st1 : symtable_t} {p x : ast_node F} (hp : p.is_some = true)
    (h1 : seg_ok st (own_events p) st1) (h2 : uses_ok st (own_events x)) :
    seg_ok st (own_events (ast_add_child p x)) st1 := by
  rw [own_events_add_child p x hp]
  exact seg_then_uses h1 h2

theorem for_assemble_seg (st0 : symtable_t) (s : syntax_analyzer_t F) (t : token_t F)
    (h : for_head F) (body : ast_node F) (hb : body.is_some = true)
    (hI : seg_ok st0 (own_events h.init) h.sa.symtable)
    (hC : seg_ok h.sa.symtable (own_events h.cond) h.sa.symtable)
    (hS : seg_ok h.sa.symtable (own_events h.step_stmt) h.sa.symtable)
    (hB : seg_ok h.sa.symtable (own_events body) s.symtable) :
    seg_ok st0 (own_events (for_assemble_ t h body s).1) (for_assemble_ t h body s).2.symtable := by
  have hwb : ∀ (wb : ast_node F) (s1 : syntax_analyzer_t F),
      seg_ok h.sa.symtable (own_events wb) s.symtable →
      (¬ h.init.is_some = true → seg_ok st0 (own_events
        (ast_add_child (ast_add_child (sa_new s1 .ASTK_WHILE t.pos).1 h.cond) wb))
        s.symtable) ∧
      seg_ok st0 (own_events
        (ast_add_child (ast_add_child
            (sa_new (sa_new s1 .ASTK_WHILE t.pos).2 .ASTK_BLOCK t.pos).1 h.init)
            (ast_add_child (ast_add_child (sa_new s1 .ASTK_WHILE t.pos).1 h.cond) wb)))
        s.symtable := by
    intro wb s1 w2
    have hw : seg_ok h.sa.symtable (own_events
        (ast_add_child (ast_add_child (sa_new s1 .ASTK_WHILE t.pos).1 h.cond) wb))
        s.symtable :=
      seg_add_child (by simp) (seg_add_child rfl (seg_plain _ _ _ rfl) hC) w2
    refine ⟨fun c => ?_, seg_add_child (by simp) (seg_add_child rfl (seg_plain _ _ _ rfl) hI) hw⟩
    rw [own_events_not_some _ c] at hI
    exact seg_append hI hw
  have hA := hwb (ast_add_child (ast_add_child (sa_new s .ASTK_BLOCK (node_pos body)).1 body)
      h.step_stmt) (sa_new s .ASTK_BLOCK (node_pos body)).2
    (seg_add_child_uses (by simp) (seg_add_child rfl (seg_plain _ _ _ rfl) hB) hS.1)
  have hB2 := hwb (ast_add_child body h.step_stmt) s (seg_add_child_uses hb hB hS.1)
  have hC2 := hwb body s hB
  unfold for_assemble_
  dsimp only
  split_ifs <;>
    first
    | exact hA.1 (by simpa using ‹(!h.init.is_some) = true›)
    | exact hA.2
    | exact hB2.1 (by simpa using ‹(!h.init.is_some) = true›)
    | exact hB2.2
    | exact hC2.1 (by simpa using ‹(!h.init.is_some) = true›)
    | exact hC2.2

end for_uses_thms

section if_uses_thms
variable {F : Type}

theorem seg_weaken {st st1 st2 : symtable_t} {a : List (ast_kind_t × Nat)}
    (h : seg_ok st a st1) (h2 : ∀ n, declared st2 n = true → declared st1 n = true) :
    seg_ok st a st2 :=
  ⟨h.1, fun n hn => h.2 n (h2 n hn)⟩

theorem branch_events_append (a b : List (ast_node F × ast_node F × token_pos_t)) :
    branch_events (a ++ b) = branch_events a ++ branch_events b := by
  induction a with
  | nil => rfl
  | cons x rest ih =>
    obtain ⟨c, s, p⟩ := x
    show branch_events ((c, s, p) :: (rest ++ b)) = _
    simp only [branch_events, ih, List.append_assoc, List.cons_append]

@[simp] theorem build_branches_st :
    ∀ (l : List (ast_node F × ast_node F × token_pos_t)) (tail : ast_node F)
      (sa : syntax_analyzer_t F), (build_branches l tail sa).2.symtable = sa.symtable
  | [], _, _ => rfl
  | (c, s, pos) :: rest, tail, sa => by
    unfold build_branches
    dsimp only
    rw [build_branches_st rest]
    rfl

theorem build_branches_events :
    ∀ (l : List (ast_node F × ast_node F × token_pos_t)) (tail : ast_node F)
      (sa : syntax_analyzer_t F),
      own_events (build_branches l tail sa).1 = branch_events l.reverse ++ own_events tail
  | [], _, _ => rfl
  | (c, s, pos) :: rest, tail, sa => by
    unfold build_branches
    dsimp only
    rw [build_branches_events rest, List.reverse_cons, branch_events_append]
    have e : own_events (if tail.is_some = true
          then ast_add_child (ast_add_child (ast_add_child (sa_new sa .ASTK_BRANCH pos).1 c) s)
            tail
          else ast_add_child (ast_add_child (sa_new sa .ASTK_BRANCH pos).1 c) s) =
        branch_events [(c, s, pos)] ++ own_events tail := by
      split_ifs with ht
      · rw [own_events_add_child _ _ (by simp), own_events_add_child _ _ (by simp),
          own_events_add_child _ _ (by simp)]
        simp [branch_events]
      · rw [own_events_add_child _ _ (by simp), own_events_add_child _ _ (by simp),
          own_events_not_some tail ht]
        simp [branch_events]
    rw [e, List.append_assoc]

theorem if_tail_seg (stmt : syntax_analyzer_t F → pres F) (hA : decl_inv stmt)
    (s : syntax_analyzer_t F) (h : (if_tail_ stmt s).1 = true) :
    seg_ok s.symtable (own_events (if_tail_ stmt s).2.1) (if_tail_ stmt s).2.2.symtable := by
  revert h
  unfold if_tail_
  split
  · intro _; exact seg_refl_nil _
  · rename_i ts _
    dsimp only
    split_ifs with h1 h2
    · intro _; exact seg_refl_nil _
    · intro h; simp at h
    · intro _
      exact seg_add_child rfl (seg_plain _ _ _ rfl) (hA (sa_advance s) (by simpa using h2))

theorem if_assemble_seg (st0 st1 st2 st3 : symtable_t) (t : token_t F)
    (cond then_st : ast_node F)
    (branches : List (ast_node F × ast_node F × token_pos_t)) (tail : pres F)
    (hc : seg_ok st0 (own_events cond) st1) (ht : seg_ok st1 (own_events then_st) st2)
    (hb : seg_ok st2 (branch_events branches) st3)
    (htl : seg_ok st3 (own_events tail.1) tail.2.symtable) :
    seg_ok st0 (own_events (if_assemble_ t cond then_st branches tail).1)
      (if_assemble_ t cond then_st branches tail).2.symtable := by
  unfold if_assemble_
  dsimp only
  have hi1 : seg_ok st0 (own_events (ast_add_child (ast_add_child
        (sa_new (build_branches branches.reverse tail.1 tail.2).2 .ASTK_IF t.pos).1 cond)
        then_st)) st2 :=
    seg_add_child (by simp) (seg_add_child rfl (seg_plain _ _ _ rfl) hc) ht
  have hch : seg_ok st2 (own_events (build_branches branches.reverse tail.1 tail.2).1)
      tail.2.symtable := by
    rw [build_branches_events, List.reverse_reverse]
    exact seg_append hb htl
  have hs : (sa_new (build_branches branches.reverse tail.1 tail.2).2 .ASTK_IF t.pos).2.symtable
      = tail.2.symtable := by simp
  rw [hs]
  split_ifs with hch2
  · exact seg_add_child (by simp) hi1 hch
  · rw [own_events_not_some _ hch2] at hch
    have := seg_append hi1 hch
    rwa [List.append_nil] at this

end if_uses_thms

section mutual_uses_thms
variable {F : Type}

theorem parse_statement_decl_step (f : Nat) (hB : decl_inv (parse_block_ (F := F) f))
    (hD : decl_inv (parse_while_ (F := F) f)) (hE : decl_inv (parse_for_desugared_ (F := F) f))
    (hF : decl_inv (parse_if_ (F := F) f)) : decl_inv (parse_statement_ (F := F) (f + 1)) := by
  intro s
  rw [parse_statement_]
  split
  · exact decl_res_fail _ _
  · rename_i t _
    by_cases h0 : t.kind = .TOK_KW_YAP
    · rw [if_pos h0]
      exact hB s
    rw [if_neg h0]
    by_cases h1 : t.kind = .TOK_KW_LOWKEY
    · rw [if_pos h1]
      exact hD s
    rw [if_neg h1]
    by_cases h2 : t.kind = .TOK_KW_HIGHKEY
    · rw [if_pos h2]
      exact hE s
    rw [if_neg h2]
    by_cases h3 : t.kind = .TOK_KW_ALPHA
    · rw [if_pos h3]
      exact hF s
    rw [if_neg h3]
    by_cases h4 : is_type_tok_ t.kind = true
    · rw [if_pos h4]
      exact then_semicolon_decl s _ (parse_var_decl_decl f s)
    rw [if_neg h4]
    by_cases h5 : (decide (t.kind = .TOK_IDENTIFIER) && peek1_is s .TOK_KW_GASLIGHT) = true
    · rw [if_pos h5]
      exact then_semicolon_decl s _ (parse_assignment_decl f s)
    rw [if_neg h5]
    by_cases h6 : t.kind = .TOK_KW_GG
    · rw [if_pos h6]
      exact then_semicolon_decl s _ (parse_break_decl s)
    rw [if_neg h6]
    by_cases h7 : t.kind = .TOK_KW_MICDROP
    · rw [if_pos h7]
      exact then_semicolon_decl s _ (parse_return_decl f s)
    rw [if_neg h7]
    by_cases h8 : t.kind = .TOK_KW_BRUH
    · rw [if_pos h8]
      exact then_semicolon_decl s _ (parse_call_stmt_decl f s)
    rw [if_neg h8]
    by_cases h9 : t.kind = .TOK_KW_BASED
    · rw [if_pos h9]
      exact then_semicolon_decl s _ (parse_cout_stmt_decl f .ASTK_COUT rfl s)
    rw [if_neg h9]
    by_cases h10 : t.kind = .TOK_KW_MID
    · rw [if_pos h10]
      exact then_semicolon_decl s _ (parse_cout_stmt_decl f .ASTK_ICOUT rfl s)
    rw [if_neg h10]
    by_cases h11 : t.kind = .TOK_KW_PEAK
    · rw [if_pos h11]
      exact then_semicolon_decl s _ (parse_cout_stmt_decl f .ASTK_FCOUT rfl s)
    rw [if_neg h11]
    dsimp only
    split_ifs
    · exact decl_res_fail _ _
    · exact decl_res_fail _ _
    · exact decl_res_mk _ _ _ (seg_congr (by simp)
        (seg_add_child rfl (seg_plain _ _ _ rfl) (seg_parse_expr f _ _ rfl)))

theorem parse_block_decl_step (f : Nat) (hC : block_decl_inv (parse_block_loop_ (F := F) f)) :
    decl_inv (parse_block_ (F := F) (f + 1)) := by
  intro s
  rw [parse_block_]
  split
  · exact decl_res_fail _ _
  · rename_i t _
    have h := hC s.symtable (sa_new (sa_advance s) .ASTK_BLOCK t.pos).1
      (sa_push_scope (sa_new (sa_advance s) .ASTK_BLOCK t.pos).2) rfl
      (seg_weaken (seg_plain _ _ _ rfl) (fun n hn => declared_push _ n hn))
    dsimp only
    split_ifs with h1 h2 h3
    · exact decl_res_fail _ _
    · exact decl_res_fail _ _
    · exact decl_res_fail _ _
    · refine decl_res_mk _ _ _ (seg_weaken (h (by simpa using h2)) (fun n hn => ?_))
      have := declared_pop _ n hn
      simpa using this

theorem parse_block_loop_decl_step (f : Nat) (hA : decl_inv (parse_statement_ (F := F) f))
    (hC : block_decl_inv (parse_block_loop_ (F := F) f)) :
    block_decl_inv (parse_block_loop_ (F := F) (f + 1)) := by
  intro st0 block s hb hseg
  rw [parse_block_loop_]
  split
  · intro h; simp [sa_fail, ast_node.is_some] at h
  · rename_i c _
    dsimp only
    split_ifs with h1 h2
    · intro _; exact hseg
    · intro h; simp [ast_node.is_some] at h
    · exact hC st0 _ _ (by simpa using hb)
        (seg_add_child hb hseg (hA s (by simpa using h2)))

theorem parse_while_decl_step (f : Nat) (hA : decl_inv (parse_statement_ (F := F) f)) :
    decl_inv (parse_while_ (F := F) (f + 1)) := by
  intro s
  rw [parse_while_]
  split
  · exact decl_res_fail _ _
  · rename_i t _
    dsimp only
    split_ifs with h1 h2 h3 h4 h5
    all_goals try exact decl_res_fail _ _
    refine decl_res_mk _ _ _ (seg_add_child (by simp)
      (seg_add_child rfl (seg_plain _ _ _ rfl) (seg_parse_expr f _ _ (by simp))) ?_)
    have := hA _ (by simpa using h5)
    exact seg_congr rfl (by simpa using this)

theorem parse_for_decl_step (f : Nat) (hA : decl_inv (parse_statement_ (F := F) f)) :
    decl_inv (parse_for_desugared_ (F := F) (f + 1)) := by
  intro s
  rw [parse_for_desugared_]
  split
  · exact decl_res_fail _ _
  · rename_i t _
    dsimp only
    have hh : for_head_seg (sa_advance s) (parse_for_head_ f (sa_advance s)) :=
      parse_for_head_seg f (sa_advance s)
    generalize parse_for_head_ f (sa_advance s) = h at hh ⊢
    split_ifs with h1 h2 h3
    all_goals try exact decl_res_fail _ _
    obtain ⟨hI, hC, hS⟩ := hh (by simpa using h2)
    have hB := hA { h.sa with loop_depth := h.sa.loop_depth + 1 } (by simpa using h3)
    intro _
    exact for_assemble_seg s.symtable _ t h _ (by simpa using h3) hI hC hS hB

theorem parse_omega_decl_step (f : Nat) (hA : decl_inv (parse_statement_ (F := F) f))
    (hG : omega_decl_inv (parse_omega_loop_ (F := F) f)) :
    omega_decl_inv (parse_omega_loop_ (F := F) (f + 1)) := by
  intro st0 brs s hb
  rw [parse_omega_loop_]
  split
  · intro l hl; cases hl; exact hb
  · rename_i tok_o _
    dsimp only
    split_ifs with h1 h2 h3 h4 h5
    · intro l hl; cases hl; exact hb
    · intro l hl; simp at hl
    · intro l hl; simp at hl
    · intro l hl; simp at hl
    · intro l hl; simp at hl
    · refine hG st0 _ _ ?_
      rw [branch_events_append]
      refine seg_append hb ?_
      have hs := hA _ (by simpa using h5)
      have : branch_events [((parse_expr_ f (expect_ (sa_advance s) .TOK_LPAREN "(").2).1,
          (parse_statement_ f (expect_ (parse_expr_ f (expect_ (sa_advance s)
            .TOK_LPAREN "(").2).2 .TOK_RPAREN ")").2).1, tok_o.pos)] =
          (ast_kind_t.ASTK_BRANCH, 0) ::
            (own_events (parse_expr_ f (expect_ (sa_advance s) .TOK_LPAREN "(").2).1 ++
             own_events (parse_statement_ f (expect_ (parse_expr_ f (expect_ (sa_advance s)
            .TOK_LPAREN "(").2).2 .TOK_RPAREN ")").2).1) := by
        simp [branch_events]
      rw [this]
      exact seg_cons_plain _ _ rfl
        (seg_append (seg_parse_expr f _ _ (by simp)) (by simpa using hs))

theorem if_tail_failed (stmt : syntax_analyzer_t F → pres F) (s : syntax_analyzer_t F)
    (h : (if_tail_ stmt s).1 = false) : (if_tail_ stmt s).2.1 = .nil := by
  revert h
  unfold if_tail_
  split
  · intro h; simp at h
  · dsimp only
    split_ifs <;> intro h <;> simp at h ⊢

theorem parse_if_decl_step (f : Nat) (hA : decl_inv (parse_statement_ (F := F) f))
    (hG : omega_decl_inv (parse_omega_loop_ (F := F) f)) :
    decl_inv (parse_if_ (F := F) (f + 1)) := by
  intro s
  rw [parse_if_]
  split
  · exact decl_res_fail _ _
  · rename_i t _
    dsimp only
    split_ifs with h1 h2 h3 h4 h5 h6
    all_goals try exact decl_res_fail _ _
    · split
      · exact decl_res_fail _ _
      · intro h
        rw [if_tail_failed _ _ (by simpa using h6)] at h
        simp [ast_node.is_some] at h
    · split
      · exact decl_res_fail _ _
      · rename_i branches hbr
        have hc := seg_parse_expr f (expect_ (sa_advance s) .TOK_LPAREN "(").2 s.symtable
          (by simp)
        have ht := hA _ (by simpa using h5)
        have hb := hG _ [] _ (seg_refl_nil _) branches hbr
        intro _
        exact if_assemble_seg _ _ _ _ t _ _ branches _ hc (by simpa using ht) hb
          (if_tail_seg _ hA _ (by simpa using h6))

theorem stmt_parser_decl : ∀ fuel : Nat,
    decl_inv (parse_statement_ (F := F) fuel) ∧ decl_inv (parse_block_ (F := F) fuel) ∧
    block_decl_inv (parse_block_loop_ (F := F) fuel) ∧ decl_inv (parse_while_ (F := F) fuel) ∧
    decl_inv (parse_for_desugared_ (F := F) fuel) ∧ decl_inv (parse_if_ (F := F) fuel) ∧
    omega_decl_inv (parse_omega_loop_ (F := F) fuel)
  | 0 => by
    refine ⟨?_, ?_, ?_, ?_, ?_, ?_, ?_⟩
    · intro s; rw [parse_statement_]; exact decl_res_fail _ _
    · intro s; rw [parse_block_]; exact decl_res_fail _ _
    · intro st0 b s _ _; rw [parse_block_loop_]; intro h; simp [ast_node.is_some] at h
    · intro s; rw [parse_while_]; exact decl_res_fail _ _
    · intro s; rw [parse_for_desugared_]; exact decl_res_fail _ _
    · intro s; rw [parse_if_]; exact decl_res_fail _ _
    · intro st0 brs s _; rw [parse_omega_loop_]; exact fun l hl => Option.noConfusion hl
  | f + 1 => by
    obtain ⟨hA, hB, hC, hD, hE, hF, hG⟩ := stmt_parser_decl f
    exact ⟨parse_statement_decl_step f hB hD hE hF, parse_block_decl_step f hC,
      parse_block_loop_decl_step f hA hC, parse_while_decl_step f hA, parse_for_decl_step f hA,
      parse_if_decl_step f hA hG, parse_omega_decl_step f hA hG⟩

theorem parse_block_decl (fuel : Nat) : decl_inv (parse_block_ (F := F) fuel) :=
  (stmt_parser_decl fuel).2.1

end mutual_uses_thms

section top_uses_thms
variable {F : Type}

theorem parse_param_loop_seg (st0 : symtable_t) :
    ∀ (rounds : Nat) (pl : ast_node F) (s : syntax_analyzer_t F), pl.is_some = true →
      seg_ok st0 (own_events pl) s.symtable →
      (parse_param_loop_ rounds pl s).1.is_some = true →
      seg_ok st0 (own_events (parse_param_loop_ rounds pl s).1)
        (parse_param_loop_ rounds pl s).2.symtable
  | 0, pl, s, _, _ => by
    rw [parse_param_loop_]; intro h; simp [ast_node.is_some] at h
  | rounds + 1, pl, s, hp, hseg => by
    rw [parse_param_loop_]
    split
    · intro h; simp [sa_fail, ast_node.is_some] at h
    · rename_i ttype _
      dsimp only
      split_ifs with h1
      · intro h; simp [sa_fail, ast_node.is_some] at h
      · split
        · intro h; simp [sa_fail, ast_node.is_some] at h
        · rename_i tid _
          have hd : seg_ok s.symtable [(ast_kind_t.ASTK_PARAM,
                (require_name_id_ (sa_advance s) (some tid) "param name").1)]
              (sa_declare (sa_new (require_name_id_ (sa_advance s) (some tid) "param name").2
                .ASTK_PARAM tid.pos).2 .SYM_PARAM
                (require_name_id_ (sa_advance s) (some tid) "param name").1
                (type_from_tok_ ttype.kind) (some tid)).2.symtable := by
            refine seg_decl _ _ _ _ rfl rfl (fun n hn => ?_)
            simpa using sa_declare_visible _ _ _ _ _ n hn
          have hnew := seg_add_child (x := ((sa_new
              (require_name_id_ (sa_advance s) (some tid) "param name").2
                .ASTK_PARAM tid.pos).1.with_u (.param
                (require_name_id_ (sa_advance s) (some tid) "param name").1
                (type_from_tok_ ttype.kind))).with_type (type_from_tok_ ttype.kind)) hp hseg hd
          split_ifs with h2 h3 h4 h5
          · intro h; simp [sa_fail, ast_node.is_some] at h
          · intro h; simp [ast_node.is_some] at h
          · intro h; simp [ast_node.is_some] at h
          · intro _; exact seg_congr (by simp) hnew
          · exact parse_param_loop_seg st0 rounds _ _ (by simpa using hp)
              (seg_congr (by simp) hnew)

theorem parse_param_list_decl : decl_inv (parse_param_list_ (F := F)) := by
  intro s
  unfold parse_param_list_
  dsimp only
  split
  · exact decl_res_fail _ _
  · split_ifs
    · exact decl_res_mk _ _ _ (seg_plain _ _ _ rfl)
    · intro h
      exact parse_param_loop_seg s.symtable _ _ _ rfl (seg_plain _ _ _ rfl) h

theorem func_finish_seg (st0 st1 : symtable_t) (fn plist body : ast_node F)
    (ret_type : ast_type_t) (fname : Nat) (sa3 : syntax_analyzer_t F)
    (hfn : fn.is_some = true) (h1 : seg_ok st0 (own_events fn ++ own_events plist) st1)
    (h2 : body.is_some = true → seg_ok st1 (own_events body) sa3.symtable)
    (h : (func_finish_ fn plist body ret_type fname sa3).1.is_some = true) :
    seg_ok st0 (own_events (func_finish_ fn plist body ret_type fname sa3).1)
      (func_finish_ fn plist body ret_type fname sa3).2.symtable := by
  revert h
  unfold func_finish_
  dsimp only
  split_ifs with g1
  all_goals try (intro h; simp [sa_fail, ast_node.is_some] at h; done)
  intro _
  dsimp only
  rw [own_events_add_child _ _ (by simpa using hfn), own_events_add_child _ _ hfn]
  refine seg_weaken (seg_append h1 (h2 (by simpa using g1))) (fun n hn => ?_)
  exact declared_pop _ n hn

theorem func_body_seg (fuel : Nat) (st0 : symtable_t) (fn : ast_node F) (ret_type : ast_type_t)
    (fname : Nat) (s : syntax_analyzer_t F) (hfn : fn.is_some = true)
    (h0 : seg_ok st0 (own_events fn) s.symtable)
    (h : (func_body_ fuel fn ret_type fname s).1.is_some = true) :
    seg_ok st0 (own_events (func_body_ fuel fn ret_type fname s).1)
      (func_body_ fuel fn ret_type fname s).2.symtable := by
  revert h
  unfold func_body_
  dsimp only
  split_ifs with g1 g2 g3
  · intro h; simp [ast_node.is_some] at h
  · intro h; simp [ast_node.is_some] at h
  · intro h; simp [ast_node.is_some] at h
  · intro h
    have hp := parse_param_list_decl (sa_push_scope (expect_ s .TOK_LPAREN "(").2)
      (by simpa using g2)
    have hpush : seg_ok s.symtable []
        (sa_push_scope (expect_ s .TOK_LPAREN "(").2).symtable :=
      seg_nil _ _ (fun n hn => by
        have := declared_push _ n hn
        simpa using this)
    have h1 : seg_ok st0 (own_events fn ++ own_events
        (parse_param_list_ (sa_push_scope (expect_ s .TOK_LPAREN "(").2)).1)
        (parse_param_list_ (sa_push_scope (expect_ s .TOK_LPAREN "(").2)).2.symtable := by
      have := seg_append h0 (seg_append hpush hp)
      simpa using this
    refine func_finish_seg st0 _ fn _ _ ret_type fname _ hfn h1 (fun hb => ?_) h
    have := parse_block_decl fuel _ hb
    simpa using this

theorem parse_function_decl_decl (fuel : Nat) : decl_inv (parse_function_decl_ (F := F) fuel) := by
  intro s
  unfold parse_function_decl_
  split
  · exact decl_res_fail _ _
  · rename_i tret _
    dsimp only
    split_ifs
    all_goals try exact decl_res_fail _ _
    all_goals
      split
      · exact decl_res_fail _ _
      · rename_i tid _
        have hd : ∀ ty : ast_type_t, seg_ok s.symtable [(ast_kind_t.ASTK_FUNC,
              (require_name_id_ (sa_advance s) (some tid) "function name").1)]
            (sa_declare (sa_new (sa_advance
                (require_name_id_ (sa_advance s) (some tid) "function name").2)
              .ASTK_FUNC tid.pos).2 .SYM_FUNC
              (require_name_id_ (sa_advance s) (some tid) "function name").1
              ty (some tid)).2.symtable := by
          intro ty
          refine seg_decl _ _ _ _ rfl rfl (fun n hn => ?_)
          simpa using sa_declare_visible _ _ _ _ _ n hn
        split_ifs
        all_goals try exact decl_res_fail _ _
        all_goals
          intro h
          exact func_body_seg fuel s.symtable _ _ _ _ rfl (hd _) h

theorem parse_program_loop_seg (fuel : Nat) (st0 : symtable_t) :
    ∀ (rounds : Nat) (program : ast_node F) (any : Bool) (s : syntax_analyzer_t F),
      program.is_some = true → seg_ok st0 (own_events program) s.symtable →
      (parse_program_loop_ fuel rounds program any s).1.is_some = true →
      seg_ok st0 (own_events (parse_program_loop_ fuel rounds program any s).1)
        (parse_program_loop_ fuel rounds program any s).2.2.symtable
  | 0, program, any, s, _, _ => by
    rw [parse_program_loop_]; intro h; simp [ast_node.is_some] at h
  | rounds + 1, program, any, s, hp, hseg => by
    rw [parse_program_loop_]
    split
    · intro h; simp [ast_node.is_some] at h
    · rename_i t _
      dsimp only
      split_ifs with h1 h2
      · intro _; exact hseg
      · intro h; simp [ast_node.is_some] at h
      · exact parse_program_loop_seg fuel st0 rounds _ _ _ (by simpa using hp)
          (seg_add_child hp hseg (parse_function_decl_decl fuel s (by simpa using h2)))

theorem parse_program_decl (fuel : Nat) : decl_inv (parse_program_ (F := F) fuel) := by
  intro s
  unfold parse_program_
  dsimp only
  have h := parse_program_loop_seg fuel s.symtable (s.tokens.length + 1)
    (sa_new s .ASTK_PROGRAM (SA_POS (cur_ s))).1 false
    (sa_new s .ASTK_PROGRAM (SA_POS (cur_ s))).2 rfl (seg_plain _ _ _ rfl)
  split_ifs with h1 h2 h3
  · exact decl_res_fail _ _
  · exact decl_res_fail _ _
  · exact decl_res_fail _ _
  · exact decl_res_mk _ _ _ (seg_congr (by simp) (h (by simpa using h1)))

@[simp] theorem add_child_right_nil (a b : ast_node F) (h : a.right = .nil) :
    (ast_add_child a b).right = .nil := by
  rw [add_child_right]; exact h

theorem parse_program_loop_right (fuel : Nat) :
    ∀ (rounds : Nat) (program : ast_node F) (any : Bool) (s : syntax_analyzer_t F),
      program.right = .nil → (parse_program_loop_ fuel rounds program any s).1.right = .nil
  | 0, program, any, s, _ => by rw [parse_program_loop_]; rfl
  | rounds + 1, program, any, s, hp => by
    rw [parse_program_loop_]
    split
    · rfl
    · dsimp only
      split_ifs
      · exact hp
      · rfl
      · exact parse_program_loop_right fuel rounds _ _ _ (by simp [hp])

theorem parse_program_right (fuel : Nat) (s : syntax_analyzer_t F) :
    (parse_program_ fuel s).1.right = .nil := by
  unfold parse_program_
  dsimp only
  split_ifs
  · rfl
  · rfl
  · rfl
  · exact parse_program_loop_right fuel _ _ _ _ rfl

theorem own_events_of_right_nil (n : ast_node F) (h : n.right = .nil) :
    own_events n = name_events n := by
  cases n with
  | nil => rfl
  | node k p t u l r =>
    simp only [ast_node.right] at h
    subst h
    rfl

theorem syntax_analyze_root (fuel : Nat) (sa0 : syntax_analyzer_t F)
    (h : (syntax_analyze fuel sa0).1 = .OK) :
    (syntax_analyze fuel sa0).2.1 =
      (parse_program_ fuel { sa0 with error_pos := 0, error_msg := "" }).1 ∧
    (parse_program_ fuel { sa0 with error_pos := 0, error_msg := "" }).1.is_some = true := by
  revert h
  unfold syntax_analyze
  dsimp only
  split_ifs with h1
  · intro h; cases h
  · intro _; exact ⟨rfl, by simpa using h1⟩

theorem syntax_analyze_uses (fuel : Nat) (sa0 : syntax_analyzer_t F)
    (h : (syntax_analyze fuel sa0).1 = .OK) :
    uses_ok sa0.symtable (name_events (syntax_analyze fuel sa0).2.1) := by
  obtain ⟨e, hs⟩ := syntax_analyze_root fuel sa0 h
  rw [e, ← own_events_of_right_nil _ (parse_program_right fuel _)]
  exact (parse_program_decl fuel _ hs).1

end top_uses_thms

section uses_final
variable {F : Type}

theorem name_events_eq_map : ∀ n : ast_node F,
    name_events n = (nodes n).map (fun m => (m.kind, m.u.name_id))
  | .nil => rfl
  | .node k p t u l r => by
    simp only [name_events, nodes, List.map_cons, List.map_append, name_events_eq_map l,
      name_events_eq_map r]
    rfl

/-- What `declared_before` says, use by use. -/
theorem declared_before_spec : ∀ (evs : List (ast_kind_t × Nat)) (env : List Nat),
    declared_before env evs = true →
    ∀ (i : Nat) (k : ast_kind_t) (n : Nat), evs[i]? = some (k, n) → is_use_kind k = true →
      n ∈ env ∨ ∃ j kd, j < i ∧ evs[j]? = some (kd, n) ∧ is_decl_kind kd = true
  | [], _, _, i, k, n, hi, _ => by simp at hi
  | (k0, n0) :: rest, env, h, i, k, n, hi, hk => by
    simp only [declared_before, Bool.and_eq_true, Bool.or_eq_true, Bool.not_eq_true',
      decide_eq_true_eq] at h
    cases i with
    | zero =>
      simp only [List.getElem?_cons_zero, Option.some.injEq, Prod.mk.injEq] at hi
      obtain ⟨e1, e2⟩ := hi
      subst e1 e2
      rcases h.1 with c | c
      · rw [c] at hk; exact absurd hk (by decide)
      · exact Or.inl c
    | succ i =>
      simp only [List.getElem?_cons_succ] at hi
      rcases declared_before_spec rest _ h.2 i k n hi hk with c | ⟨j, kd, hj, e, hd⟩
      · split_ifs at c with hd0
        · rcases List.mem_cons.mp c with c1 | c1
          · right
            exact ⟨0, k0, Nat.succ_pos i, by rw [c1]; simp, hd0⟩
          · exact Or.inl c1
        · exact Or.inl c
      · right
        exact ⟨j + 1, kd, Nat.succ_lt_succ hj, by simpa using e, hd⟩

theorem declared_ctor (n : Nat) : declared (symtable_push_scope symtable_ctor) n = false := by
  unfold declared
  apply decide_eq_false
  have : symtable_lookup (symtable_push_scope symtable_ctor) n = -1 := by
    unfold symtable_lookup symtable_push_scope symtable_ctor
    simp [symtable_lookup_loop, lookup_range_]
  rw [this]
  decide

theorem parse_assignment_use (fuel : Nat) (s : syntax_analyzer_t F) :
    uses_in (declared s.symtable) (parse_assignment_ fuel s).1 = true := by
  unfold parse_assignment_
  split
  · rfl
  · rename_i tid _
    dsimp only
    split_ifs with h1 h2 h3 h4 h5
    all_goals try rfl
    have hx : declared s.symtable (require_name_id_ s (some tid) "assignment").1 = true := by
      have := declared_of_not_lt _ _ h3
      simpa using this
    have he := (parse_expr_use fuel (expect_ (sa_advance
      (require_name_id_ s (some tid) "assignment").2) .TOK_KW_GASLIGHT "gaslight").2).1
    simp only [expect_st, sa_advance_st, require_name_id_st] at he
    refine uses_in_add_child _ _ _ ?_ he
    simp [sa_new, ast_new, ast_node.with_u, uses_in, ast_payload.name_id, hx]

/-- In a table built while a scope is open, `symtable_lookup` finds exactly
the names of the live symbols. -/
theorem declared_iff_live (st : symtable_t) (n : Nat) (hreach : ReachableScoped st)
    (hopen : 0 < st.scopes_amount) :
    declared st n = true ↔ ∃ i, i < st.amount ∧ (st.symbols i).name_id = n := by
  obtain ⟨hc, h0, _⟩ := scoped_inv_of_reachable st hreach
  have hl : symtable_lookup st n = symtable_lookup_loop st n st.scopes_amount st.amount := by
    unfold symtable_lookup
    rw [if_neg (Nat.pos_iff_ne_zero.mp hopen)]
  unfold declared
  rw [hl, decide_eq_true_iff]
  rcases symtable_lookup_loop_cases st n st.scopes_amount st.amount hopen hc with
    ⟨e, hnone⟩ | ⟨i, e, _, hit, hn, _⟩
  · rw [e, h0 hopen] at *
    constructor
    · intro h; exact absurd h (by decide)
    · rintro ⟨i, hi, hin⟩
      exact absurd hin (hnone i (Nat.zero_le i) hi)
  · rw [e]
    exact ⟨fun _ => ⟨i, hit, hn⟩, fun _ => Int.natCast_nonneg i⟩

theorem not_declared_lt (st : symtable_t) (n : Nat) (h : declared st n = false) :
    symtable_lookup st n < 0 := by
  unfold declared at h
  exact not_le.mp (of_decide_eq_false h)

theorem require_name_id_ident (s : syntax_analyzer_t F) (t : token_t F) (c : String)
    (hk : t.kind = .TOK_IDENTIFIER) (hn : t.name_id ≠ SIZE_MAX) :
    require_name_id_ s (some t) c = (t.name_id, s) := by
  simp [require_name_id_, hk, hn]

/-- The identifier branch of `parse_primary_` on a name without a symbol. -/
theorem parse_primary_undeclared (fuel : Nat) (s : syntax_analyzer_t F) (t : token_t F)
    (hc : cur_ s = some t) (hk : t.kind = .TOK_IDENTIFIER) (hn : t.name_id ≠ SIZE_MAX)
    (hp : ∀ t1, peek_ s 1 = some t1 → t1.kind ≠ .TOK_LPAREN)
    (hd : declared s.symtable t.name_id = false) :
    parse_primary_ (fuel + 1) s = sa_fail s (some t)
      ("Use of undeclared identifier '" ++ name_str s.nametable t.name_id ++ "'") := by
  have hpk : ((peek_ s 1).map (fun t1 => decide (t1.kind = .TOK_LPAREN))).getD false = false := by
    cases hq : peek_ s 1 with
    | none => rfl
    | some t1 => simp [hp t1 hq]
  rw [parse_primary_]
  simp only [hc, hk, hpk, require_name_id_ident s t _ hk hn, not_declared_lt _ _ hd]
  simp [is_builtin_kw, hn]

/-- The function `parse_assignment_` on a name without a symbol. -/
theorem parse_assignment_undeclared (fuel : Nat) (s : syntax_analyzer_t F) (t : token_t F)
    (hc : cur_ s = some t) (hk : t.kind = .TOK_IDENTIFIER) (hn : t.name_id ≠ SIZE_MAX)
    (hd : declared s.symtable t.name_id = false) :
    parse_assignment_ fuel s = sa_fail s (some t)
      ("Assignment to undeclared identifier '" ++ name_str s.nametable t.name_id ++ "'") := by
  unfold parse_assignment_
  simp only [hc, hk, require_name_id_ident s t _ hk hn, not_declared_lt _ _ hd]
  simp [hn]

theorem sa_fail_error (s : syntax_analyzer_t F) (t : token_t F) (msg : String)
    (he : s.error_msg = "") :
    (sa_fail s (some t) msg).1 = .nil ∧
    (sa_fail s (some t) msg).2.error_msg = msg ++ at_suffix t.pos ∧
    (sa_fail s (some t) msg).2.error_pos = t.pos.offset := by
  simp [sa_fail, set_err_, he]

end uses_final

section uses_claim
variable {F : Type}

/-- C34. Every use is declared.  In the tree of a program accepted by
`syntax_analyze` from the state of `syntax_analyzer_ctor`, every `IDENT` node
and every `ASSIGN` node comes, in the preorder of the tree, after a `FUNC`,
`PARAM` or `VAR_DECL` node that declares the name it uses.  At the time of
the parse the name is resolved in the scope stack: every `IDENT` node of an
expression parsed by `parse_expr_`, and the `ASSIGN` node made by
`parse_assignment_` with the identifiers of its right-hand side, names a name
that `symtable_lookup` finds in the symbol table of the state the parse
started from (a table that neither parser changes), and in a table built
while a scope is open `symtable_lookup` finds exactly the names of the live
symbols, those declared in a scope that is still open.  On an identifier
whose name has no symbol, `parse_primary_` (identifier not followed by `(`)
and `parse_assignment_` return no node and, when no error was recorded
before, record the error `Use of undeclared identifier` or `Assignment to
undeclared identifier` at the position of that identifier. -/
theorem every_use_is_declared (fuel : Nat) (source : List Char) (tokens : List (token_t F))
    (nt : nametable_t) :
    ((syntax_analyze fuel (syntax_analyzer_ctor source tokens nt)).1 = err_t.OK →
      ∀ (i : Nat) (m : ast_node F),
        (nodes (syntax_analyze fuel (syntax_analyzer_ctor source tokens nt)).2.1)[i]? = some m →
        is_use_kind m.kind = true →
        ∃ (j : Nat) (d : ast_node F), j < i ∧
          (nodes (syntax_analyze fuel (syntax_analyzer_ctor source tokens nt)).2.1)[j]? = some d ∧
          is_decl_kind d.kind = true ∧ d.u.name_id = m.u.name_id) ∧
    (∀ s : syntax_analyzer_t F,
      uses_in (declared s.symtable) (parse_expr_ fuel s).1 = true ∧
      (parse_expr_ fuel s).2.symtable = s.symtable ∧
      uses_in (declared s.symtable) (parse_assignment_ fuel s).1 = true ∧
      (parse_assignment_ fuel s).2.symtable = s.symtable) ∧
    (∀ (st : symtable_t) (n : Nat), ReachableScoped st → 0 < st.scopes_amount →
      (declared st n = true ↔ ∃ i, i < st.amount ∧ (st.symbols i).name_id = n)) ∧
    (∀ (s : syntax_analyzer_t F) (t : token_t F), cur_ s = some t →
      t.kind = .TOK_IDENTIFIER → t.name_id ≠ SIZE_MAX →
      declared s.symtable t.name_id = false → s.error_msg = "" →
      ((∀ t1, peek_ s 1 = some t1 → t1.kind ≠ .TOK_LPAREN) →
        (parse_primary_ (fuel + 1) s).1 = .nil ∧
        (parse_primary_ (fuel + 1) s).2.error_msg =
          "Use of undeclared identifier '" ++ name_str s.nametable t.name_id ++ "'" ++
            at_suffix t.pos ∧
        (parse_primary_ (fuel + 1) s).2.error_pos = t.pos.offset) ∧
      (parse_assignment_ fuel s).1 = .nil ∧
      (parse_assignment_ fuel s).2.error_msg =
        "Assignment to undeclared identifier '" ++ name_str s.nametable t.name_id ++ "'" ++
          at_suffix t.pos ∧
      (parse_assignment_ fuel s).2.error_pos = t.pos.offset) := by
  refine ⟨fun h i m hi hk => ?_, fun s => ?_, fun st n hr ho => declared_iff_live st n hr ho,
    fun s t hc hk hn hd he => ⟨fun hp => ?_, ?_⟩⟩
  · have hu := syntax_analyze_uses fuel _ h [] (fun n hn => by
      have e : (syntax_analyzer_ctor source tokens nt).symtable
          = symtable_push_scope symtable_ctor := rfl
      rw [e, declared_ctor] at hn
      exact absurd hn (by decide))
    have hev : (name_events (syntax_analyze fuel (syntax_analyzer_ctor source tokens nt)).2.1)[i]?
        = some (m.kind, m.u.name_id) := by
      rw [name_events_eq_map, List.getElem?_map, hi]
      rfl
    rcases declared_before_spec _ _ hu i _ _ hev hk with c | ⟨j, kd, hj, e, hd⟩
    · exact absurd c (List.not_mem_nil _)
    · rw [name_events_eq_map, List.getElem?_map] at e
      cases hq : (nodes (syntax_analyze fuel (syntax_analyzer_ctor source tokens nt)).2.1)[j]? with
      | none => rw [hq] at e; simp at e
      | some d =>
        rw [hq] at e
        simp only [Option.map_some', Option.some.injEq, Prod.mk.injEq] at e
        exact ⟨j, d, hj, hq, by rw [e.1]; exact hd, e.2⟩
  · exact ⟨(parse_expr_use fuel s).1, (parse_expr_use fuel s).2, parse_assignment_use fuel s,
      parse_assignment_st fuel s⟩
  · rw [parse_primary_undeclared fuel s t hc hk hn hp hd]
    have := sa_fail_error s t
      ("Use of undeclared identifier '" ++ name_str s.nametable t.name_id ++ "'") he
    exact this
  · rw [parse_assignment_undeclared fuel s t hc hk hn hd]
    have := sa_fail_error s t
      ("Assignment to undeclared identifier '" ++ name_str s.nametable t.name_id ++ "'") he
    exact this

/-- C34 (witness). The program `src_uses_ok` is accepted, and each of its
uses of `x` and `a` comes after the node that declares the name. -/
theorem every_use_is_declared_witness :
    (syntax_analyze 64 (syntax_analyzer_ctor src_uses_ok
      (lexer_stream exact_ops src_uses_ok).2.1
      (lexer_stream exact_ops src_uses_ok).2.2.nametable)).1 = err_t.OK ∧
    ∀ (i : Nat) (m : ast_node ℚ),
      (nodes (syntax_analyze 64 (syntax_analyzer_ctor src_uses_ok
        (lexer_stream exact_ops src_uses_ok).2.1
        (lexer_stream exact_ops src_uses_ok).2.2.nametable)).2.1)[i]? = some m →
      is_use_kind m.kind = true →
      ∃ (j : Nat) (d : ast_node ℚ), j < i ∧
        (nodes (syntax_analyze 64 (syntax_analyzer_ctor src_uses_ok
          (lexer_stream exact_ops src_uses_ok).2.1
          (lexer_stream exact_ops src_uses_ok).2.2.nametable)).2.1)[j]? = some d ∧
        is_decl_kind d.kind = true ∧ d.u.name_id = m.u.name_id :=
  ⟨by decide!,
   (every_use_is_declared 64 src_uses_ok (lexer_stream exact_ops src_uses_ok).2.1
      (lexer_stream exact_ops src_uses_ok).2.2.nametable).1 (by decide!)⟩

/-- The front end rejects a use and an assignment of a name that was never
declared, and a use of a name after the block that declared it was closed,
each with the error at the identifier; it accepts a use of the variable of a
`highkey` header after the loop, since `parse_for_desugared_` opens no scope. -/
theorem undeclared_use_examples :
    ((syntax_analyze 64 (sa_of_source src_use_undeclared)).1 = err_t.ERR_SYNTAX ∧
      (syntax_analyze 64 (sa_of_source src_use_undeclared)).2.2.error_msg =
        "Use of undeclared identifier 'y' at 1:24 (offset: 23)" ∧
      (syntax_analyze 64 (sa_of_source src_use_undeclared)).2.2.error_pos = 23) ∧
    ((syntax_analyze 64 (sa_of_source src_assign_undeclared)).1 = err_t.ERR_SYNTAX ∧
      (syntax_analyze 64 (sa_of_source src_assign_undeclared)).2.2.error_msg =
        "Assignment to undeclared identifier 'z' at 1:16 (offset: 15)" ∧
      (syntax_analyze 64 (sa_of_source src_assign_undeclared)).2.2.error_pos = 15) ∧
    ((syntax_analyze 64 (sa_of_source src_block_scope)).1 = err_t.ERR_SYNTAX ∧
      (syntax_analyze 64 (sa_of_source src_block_scope)).2.2.error_msg =
        "Use of undeclared identifier 'b' at 1:53 (offset: 52)" ∧
      (syntax_analyze 64 (sa_of_source src_block_scope)).2.2.error_pos = 52) ∧
    (syntax_analyze 64 (sa_of_source src_for_leak)).1 = err_t.OK := by
  refine ⟨⟨?_, ?_, ?_⟩, ⟨?_, ?_, ?_⟩, ⟨?_, ?_, ?_⟩, ?_⟩ <;> decide!

end uses_claim

/-! ## Theorems: the names of functions -/

section nt_thms

theorem nametable_scan_none (h len : Nat) : ∀ (es : List nametable_entry_t) (i : Nat),
    nametable_scan h len es i = none → ∀ e ∈ es, ¬ (e.hash = h ∧ e.length = len)
  | [], _, _, e, he => by simp at he
  | x :: xs, i, hs, e, he => by
    unfold nametable_scan at hs
    split_ifs at hs with c
    rcases List.mem_cons.mp he with rfl | h2
    · exact c
    · exact nametable_scan_none h len xs (i + 1) hs e h2

theorem nametable_scan_lt (h len : Nat) : ∀ (es : List nametable_entry_t) (i k : Nat),
    nametable_scan h len es i = some k → k < i + es.length
  | [], _, _, hs => by simp [nametable_scan] at hs
  | x :: xs, i, k, hs => by
    unfold nametable_scan at hs
    split_ifs at hs with c
    · cases hs
      simp
    · have := nametable_scan_lt h len xs (i + 1) k hs
      simp only [List.length_cons]
      omega

theorem nt_inv_ctor : nt_inv nametable_ctor :=
  ⟨fun e he => by simp [nametable_ctor] at he, by simp [nametable_ctor]⟩

theorem nametable_insert_some (nt : nametable_t) (text : List Char) (i : Nat)
    (h : nametable_scan (sdbm_n text) text.length nt.data 0 = some i) :
    nametable_insert nt text = (i, nt) := by
  unfold nametable_insert
  simp only [h]

theorem nametable_insert_none (nt : nametable_t) (text : List Char)
    (h : nametable_scan (sdbm_n text) text.length nt.data 0 = none) :
    (nametable_insert nt text).1 = nt.amount ∧
    (nametable_insert nt text).2.data =
      nt.data ++ [{ name := text, length := text.length, hash := sdbm_n text }] := by
  unfold nametable_insert
  simp only [h, nametable_ensure_capacity_data, and_self]

theorem nt_inv_insert (nt : nametable_t) (text : List Char) (h : nt_inv nt) :
    nt_inv (nametable_insert nt text).2 := by
  cases hs : nametable_scan (sdbm_n text) text.length nt.data 0 with
  | some i => rw [nametable_insert_some nt text i hs]; exact h
  | none =>
    have hn := nametable_scan_none _ _ _ _ hs
    have hd := (nametable_insert_none nt text hs).2
    unfold nt_inv
    rw [hd]
    refine ⟨?_, ?_⟩
    · intro e he
      simp only [List.mem_append, List.mem_singleton] at he
      rcases he with he | he
      · exact h.1 e he
      · rw [he]; exact ⟨rfl, rfl⟩
    · simp only [List.map_append, List.map_cons, List.map_nil]
      refine List.Nodup.append h.2 (List.nodup_singleton _) ?_
      intro k hk1 hk2
      rw [List.mem_singleton] at hk2
      obtain ⟨e, he, hke⟩ := List.mem_map.mp hk1
      apply hn e he
      rw [hk2] at hke
      simp only [nt_key, Prod.mk.injEq] at hke
      exact hke

theorem nt_inv_of_built (nt : nametable_t) (h : NtBuilt nt) : nt_inv nt := by
  induction h with
  | ctor => exact nt_inv_ctor
  | insert nt text _ ih => exact nt_inv_insert nt text ih

/-- The table after `nametable_insert` keeps the entries it had, and the id
returned designates an entry. -/
theorem nametable_insert_grows (nt : nametable_t) (text : List Char) :
    nt.amount ≤ (nametable_insert nt text).2.amount ∧
      (nametable_insert nt text).1 < (nametable_insert nt text).2.amount := by
  cases hs : nametable_scan (sdbm_n text) text.length nt.data 0 with
  | some i =>
    have := nametable_scan_lt _ _ _ _ _ hs
    rw [nametable_insert_some nt text i hs]
    exact ⟨le_refl _, by simpa [nametable_t.amount] using this⟩
  | none =>
    obtain ⟨h1, h2⟩ := nametable_insert_none nt text hs
    unfold nametable_t.amount at h1 ⊢
    rw [h1, h2]
    simp

theorem named_spec (nt : nametable_t) (i : Nat) (h : named nt i = true) :
    ∃ hi : i < nt.data.length, name_str nt i = String.mk (nt.data.get ⟨i, hi⟩).name := by
  unfold named nametable_get at h
  unfold name_str nametable_get
  by_cases a1 : i = SIZE_MAX
  · rw [if_pos a1] at h; simp at h
  · rw [if_neg a1] at h ⊢
    by_cases a2 : i ≥ nt.amount
    · rw [if_pos a2] at h; simp at h
    · rw [if_neg a2]
      have hi : i < nt.data.length := Nat.lt_of_not_le a2
      refine ⟨hi, ?_⟩
      rw [List.get?_eq_get hi]
      rfl

theorem named_of_lt (nt : nametable_t) (i : Nat) (h1 : i ≠ SIZE_MAX) (h2 : i < nt.amount) :
    named nt i = true := by
  unfold named nametable_get
  rw [if_neg h1, if_neg (Nat.not_le_of_lt h2)]
  have hi : i < nt.data.length := h2
  rw [List.get?_eq_get hi]
  rfl

/-- In a table built by `nametable_insert`, two ids that designate entries
with the same text are the same id. -/
theorem name_str_inj (nt : nametable_t) (h : nt_inv nt) (i j : Nat)
    (hi : named nt i = true) (hj : named nt j = true)
    (he : name_str nt i = name_str nt j) : i = j := by
  obtain ⟨hi2, ei⟩ := named_spec nt i hi
  obtain ⟨hj2, ej⟩ := named_spec nt j hj
  rw [ei, ej] at he
  have he2 : (nt.data.get ⟨i, hi2⟩).name = (nt.data.get ⟨j, hj2⟩).name :=
    congrArg String.data he
  have k : nt_key (nt.data.get ⟨i, hi2⟩) = nt_key (nt.data.get ⟨j, hj2⟩) := by
    have e1 := h.1 _ (List.get_mem nt.data i hi2)
    have e2 := h.1 _ (List.get_mem nt.data j hj2)
    simp only [nt_key, Prod.mk.injEq]
    rw [e1.1, e1.2, e2.1, e2.2, he2]
    exact ⟨rfl, rfl⟩
  have hl : (nt.data.map nt_key).length = nt.data.length := List.length_map _ _
  have := (List.Nodup.get_inj_iff h.2 (i := ⟨i, by rw [hl]; exact hi2⟩)
    (j := ⟨j, by rw [hl]; exact hj2⟩)).mp (by simpa using k)
  simpa using this

end nt_thms
section lexer_names
variable {F : Type}

@[simp] theorem lexer_advance_nt (lx : lexer_t) : (lexer_advance lx).nametable = lx.nametable := by
  unfold lexer_advance
  split
  · rfl
  · split_ifs <;> rfl

@[simp] theorem skip_comment_loop_nt : ∀ (fuel : Nat) (lx : lexer_t),
    (skip_comment_loop fuel lx).nametable = lx.nametable
  | 0, _ => rfl
  | fuel + 1, lx => by
    unfold skip_comment_loop
    dsimp only
    split_ifs
    · rfl
    · rw [skip_comment_loop_nt fuel]; simp

@[simp] theorem lexer_skip_loop_nt : ∀ (fuel : Nat) (lx : lexer_t),
    (lexer_skip_loop fuel lx).nametable = lx.nametable
  | 0, _ => rfl
  | fuel + 1, lx => by
    unfold lexer_skip_loop
    dsimp only
    split_ifs
    all_goals try rfl
    all_goals (rw [lexer_skip_loop_nt fuel]; simp)

@[simp] theorem lexer_skip_nt (lx : lexer_t) : (lexer_skip lx).nametable = lx.nametable :=
  lexer_skip_loop_nt _ lx

@[simp] theorem advance_while_nt (p : Char → Bool) : ∀ (fuel : Nat) (lx : lexer_t),
    (advance_while p fuel lx).nametable = lx.nametable
  | 0, _ => rfl
  | fuel + 1, lx => by
    unfold advance_while
    split_ifs
    · rw [advance_while_nt p fuel]; simp
    · rfl

@[simp] theorem lexer_set_error_nt (lx : lexer_t) (pos : Nat) (msg : String) :
    (lexer_set_error lx pos msg).nametable = lx.nametable := rfl

@[simp] theorem scan_number_nt (ops : f64_ops F) (lx : lexer_t) (a b c : Nat) :
    (scan_number ops lx a b c).2.nametable = lx.nametable := by
  unfold scan_number
  dsimp only
  split_ifs <;> simp

theorem scan_number_id (ops : f64_ops F) (lx : lexer_t) (a b c : Nat) :
    (scan_number ops lx a b c).1.name_id = SIZE_MAX := by
  unfold scan_number
  dsimp only
  split_ifs <;> rfl

@[simp] theorem scan_string_loop_nt (a b c : Nat) : ∀ (fuel : Nat) (lx : lexer_t),
    (scan_string_loop a b c fuel lx).1.nametable = lx.nametable
  | 0, _ => rfl
  | fuel + 1, lx => by
    unfold scan_string_loop
    dsimp only
    split_ifs
    all_goals try rfl
    all_goals try simp
    all_goals (rw [scan_string_loop_nt a b c fuel]; simp)

@[simp] theorem scan_string_nt (lx : lexer_t) (a b c : Nat) :
    (scan_string (F := F) lx a b c).2.nametable = lx.nametable := by
  unfold scan_string
  dsimp only
  split <;> simp

theorem scan_string_id (lx : lexer_t) (a b c : Nat) :
    (scan_string (F := F) lx a b c).1.name_id = SIZE_MAX := by
  unfold scan_string
  dsimp only
  split <;> rfl

theorem nt_step_same (nt nt2 : nametable_t) (t : token_t F) (h : nt2 = nt)
    (ht : t.name_id = SIZE_MAX) : nt_step nt nt2 t := by
  subst h
  exact ⟨id, le_refl _, Or.inl ht⟩

theorem scan_identifier_step (lx : lexer_t) (a b c : Nat) :
    nt_step lx.nametable (scan_identifier (F := F) lx a b c).2.nametable
      (scan_identifier (F := F) lx a b c).1 := by
  unfold scan_identifier
  dsimp only
  split_ifs
  · refine ⟨fun h => ?_, ?_, Or.inr ?_⟩
    · have := NtBuilt.insert _ (token_ctor (F := F) .TOK_IDENTIFIER
        (advance_while is_ident_char (lx.buffer.length + 1) lx) a b c).buffer
        (show NtBuilt (advance_while is_ident_char (lx.buffer.length + 1) lx).nametable by
          simpa using h)
      exact this
    · have := (nametable_insert_grows
        (advance_while is_ident_char (lx.buffer.length + 1) lx).nametable
        (token_ctor (F := F) .TOK_IDENTIFIER
          (advance_while is_ident_char (lx.buffer.length + 1) lx) a b c).buffer).1
      simpa using this
    · exact (nametable_insert_grows _ _).2
  · exact nt_step_same _ _ _ (by simp) rfl

theorem lexer_next_step (ops : f64_ops F) (lx : lexer_t) :
    nt_step lx.nametable (lexer_next ops lx).2.nametable (lexer_next ops lx).1 := by
  unfold lexer_next
  dsimp only
  by_cases h1 : lexer_peek_char (lexer_skip lx) = NUL
  · rw [if_pos h1]
    exact nt_step_same _ _ _ (by simp) rfl
  rw [if_neg h1]
  by_cases h2 : is_ident_start (lexer_peek_char (lexer_skip lx)) = true
  · rw [if_pos h2]
    have := scan_identifier_step (F := F) (lexer_advance (lexer_skip lx))
      (lexer_skip lx).pos (lexer_skip lx).line (lexer_skip lx).column
    simpa using this
  rw [if_neg h2]
  by_cases h3 : c_isdigit (lexer_peek_char (lexer_skip lx)) = true
  · rw [if_pos h3]
    exact nt_step_same _ _ _ (by simp) (scan_number_id _ _ _ _ _)
  rw [if_neg h3]
  by_cases h4 : lexer_peek_char (lexer_skip lx) = '"'
  · rw [if_pos h4]
    exact nt_step_same _ _ _ (by simp) (scan_string_id _ _ _ _)
  rw [if_neg h4]
  split
  · exact nt_step_same _ _ _ (by simp) rfl
  · split_ifs
    all_goals exact nt_step_same _ _ _ (by simp) rfl

theorem lexer_stream_loop_names (ops : f64_ops F) :
    ∀ (fuel : Nat) (lx : lexer_t) (toks : List (token_t F)),
      NtBuilt lx.nametable → (∀ t ∈ toks, tok_named lx.nametable t) →
      (lexer_stream_loop ops fuel lx toks).1 = .OK →
      NtBuilt (lexer_stream_loop ops fuel lx toks).2.2.nametable ∧
      ∀ t ∈ (lexer_stream_loop ops fuel lx toks).2.1,
        tok_named (lexer_stream_loop ops fuel lx toks).2.2.nametable t
  | 0, lx, toks, _, _, h => by simp [lexer_stream_loop] at h
  | fuel + 1, lx, toks, hb, ht, h => by
    obtain ⟨s1, s2, s3⟩ := lexer_next_step ops lx
    have ht2 : ∀ t ∈ toks ++ [(lexer_next ops lx).1],
        tok_named (lexer_next ops lx).2.nametable t := by
      intro t hm
      rcases List.mem_append.mp hm with h1 | h1
      · exact (ht t h1).imp id (fun x => Nat.lt_of_lt_of_le x s2)
      · rw [List.mem_singleton] at h1
        rw [h1]; exact s3
    unfold lexer_stream_loop at h ⊢
    dsimp only at h ⊢
    split_ifs at h ⊢ with c1 c2
    · exact ⟨s1 hb, ht2⟩
    · exact lexer_stream_loop_names ops fuel _ _ (s1 hb) ht2 h

theorem lexer_stream_names (ops : f64_ops F) (source : List Char)
    (h : (lexer_stream ops source).1 = .OK) :
    NtBuilt (lexer_stream ops source).2.2.nametable ∧
    ∀ t ∈ (lexer_stream ops source).2.1,
      tok_named (lexer_stream ops source).2.2.nametable t :=
  lexer_stream_loop_names ops _ _ _ NtBuilt.ctor (fun t ht => by simp at ht) h

end lexer_names
section input_thms
variable {F : Type}

@[simp] theorem set_err_in (s : syntax_analyzer_t F) (t : Option (token_t F)) (msg : String) :
    parser_input (set_err_ s t msg) = parser_input s := by
  unfold set_err_
  split_ifs <;> rfl

@[simp] theorem set_err_pos_in (s : syntax_analyzer_t F) (p : token_pos_t) (msg : String) :
    parser_input (set_err_pos_ s p msg) = parser_input s := by
  unfold set_err_pos_
  split_ifs <;> rfl

@[simp] theorem sa_advance_in (s : syntax_analyzer_t F) :
    parser_input (sa_advance s) = parser_input s := rfl

@[simp] theorem sa_new_in (s : syntax_analyzer_t F) (k : ast_kind_t) (p : token_pos_t) :
    parser_input (sa_new s k p).2 = parser_input s := rfl

@[simp] theorem sa_fail_in (s : syntax_analyzer_t F) (t : Option (token_t F)) (msg : String) :
    parser_input (sa_fail s t msg).2 = parser_input s := set_err_in s t msg

@[simp] theorem expect_in (s : syntax_analyzer_t F) (k : token_kind_t) (w : String) :
    parser_input (expect_ s k w).2 = parser_input s := by
  unfold expect_
  split
  · split_ifs
    · rfl
    · exact set_err_in _ _ _
  · exact set_err_in _ _ _

@[simp] theorem match_in (s : syntax_analyzer_t F) (k : token_kind_t) :
    parser_input (match_ s k).2 = parser_input s := by
  unfold match_
  split
  · split_ifs <;> rfl
  · rfl

@[simp] theorem require_name_id_in (s : syntax_analyzer_t F) (t : Option (token_t F))
    (c : String) : parser_input (require_name_id_ s t c).2 = parser_input s := by
  unfold require_name_id_
  split
  · rfl
  · split_ifs
    · rfl
    · exact set_err_in _ _ _
    · rfl

@[simp] theorem sa_declare_in (s : syntax_analyzer_t F) (k : sym_kind_t) (n : Nat)
    (ty : ast_type_t) (t : Option (token_t F)) :
    parser_input (sa_declare s k n ty t).2 = parser_input s := by
  unfold sa_declare
  dsimp only
  split_ifs
  · exact set_err_in _ _ _
  · rfl

@[simp] theorem sa_push_scope_in (s : syntax_analyzer_t F) :
    parser_input (sa_push_scope s) = parser_input s := rfl

@[simp] theorem sa_pop_scope_in (s : syntax_analyzer_t F) :
    parser_input (sa_pop_scope s) = parser_input s := rfl

@[simp] theorem sa_make_bin_in (s : syntax_analyzer_t F) (o : token_t F) (a b : ast_node F) :
    parser_input (sa_make_bin s o a b).2 = parser_input s := rfl

@[simp] theorem sa_make_call_in (s : syntax_analyzer_t F) (tid : token_t F) (n : Nat)
    (args : ast_node F) : parser_input (sa_make_call s tid n args).2 = parser_input s := by
  unfold sa_make_call
  dsimp only
  split_ifs <;> rfl

@[simp] theorem make_true_lit_in (s : syntax_analyzer_t F) (p : token_pos_t) :
    parser_input (make_true_lit_ s p).2 = parser_input s := rfl

@[simp] theorem wrap_expr_stmt_in (s : syntax_analyzer_t F) (e : ast_node F) :
    parser_input (wrap_expr_stmt_ s e).2 = parser_input s := by
  unfold wrap_expr_stmt_
  dsimp only
  split_ifs <;> rfl

@[simp] theorem loop_depth_in (s : syntax_analyzer_t F) (d : Int) :
    parser_input { s with loop_depth := d } = parser_input s := rfl

@[simp] theorem ret_type_in (s : syntax_analyzer_t F) (t : ast_type_t) :
    parser_input { s with cur_func_ret_type := t } = parser_input s := rfl

theorem binop_loop_in (next : syntax_analyzer_t F → pres F) (cond : token_kind_t → Bool)
    (hnext : input_inv next) :
    ∀ (fuel : Nat) (n : ast_node F) (s : syntax_analyzer_t F),
      parser_input (binop_loop next cond fuel n s).2 = parser_input s
  | 0, n, s => rfl
  | fuel + 1, n, s => by
    unfold binop_loop
    split
    · rfl
    · dsimp only
      split_ifs
      · rfl
      · simp [hnext (sa_advance s)]
      · rw [binop_loop_in next cond hnext fuel]
        simp [hnext (sa_advance s)]

theorem binop_layer_in (next : syntax_analyzer_t F → pres F) (cond : token_kind_t → Bool)
    (hnext : input_inv next) : input_inv (binop_layer next cond) := by
  intro s
  unfold binop_layer
  dsimp only
  split_ifs
  · exact hnext s
  · rw [binop_loop_in next cond hnext]; exact hnext s

theorem parse_pow_in (f : Nat) (hu : input_inv (parse_unary_ (F := F) f))
    (hp : input_inv (parse_pow_ (F := F) f)) : input_inv (parse_pow_ (F := F) (f + 1)) := by
  intro s
  rw [parse_pow_]
  dsimp only
  split_ifs <;> (try split) <;> (try split_ifs) <;>
    simp [hu s, hp (sa_advance (parse_unary_ f s).2)]

theorem parse_unary_in (f : Nat) (hu : input_inv (parse_unary_ (F := F) f))
    (hp : input_inv (parse_primary_ (F := F) f)) : input_inv (parse_unary_ (F := F) (f + 1)) := by
  intro s
  rw [parse_unary_]
  split
  · rfl
  · dsimp only
    split_ifs
    · simp [hu (sa_advance s)]
    · simp [hu (sa_advance s)]
    · exact hp s

theorem parse_call_expr_in (f : Nat) (ha : input_inv (parse_arg_list_ (F := F) f)) :
    input_inv (parse_call_expr_ (F := F) (f + 1)) := by
  intro s
  rw [parse_call_expr_]
  split
  · rfl
  · dsimp only
    split_ifs <;> simp [ha _]

theorem arg_list_loop_in (next : syntax_analyzer_t F → pres F) (hnext : input_inv next) :
    ∀ (fuel : Nat) (al : ast_node F) (s : syntax_analyzer_t F),
      parser_input (arg_list_loop next fuel al s).2 = parser_input s
  | 0, al, s => rfl
  | fuel + 1, al, s => by
    unfold arg_list_loop
    dsimp only
    split_ifs
    · simp
    · simp [hnext _]
    · rw [arg_list_loop_in next hnext fuel]
      simp [hnext _]

theorem parse_arg_list_in (f : Nat) (he : input_inv (parse_expr_ (F := F) f)) :
    input_inv (parse_arg_list_ (F := F) (f + 1)) := by
  intro s
  rw [parse_arg_list_]
  dsimp only
  split_ifs
  · rfl
  · simp [he _]
  · rw [arg_list_loop_in _ he]
    simp [he _]

theorem parse_primary_in (f : Nat) (he : input_inv (parse_expr_ (F := F) f))
    (hc : input_inv (parse_call_expr_ (F := F) f)) :
    input_inv (parse_primary_ (F := F) (f + 1)) := by
  intro s
  rw [parse_primary_]
  split
  · rfl
  · dsimp only
    split_ifs <;> simp [he _, hc _]

theorem expr_parser_in : ∀ fuel : Nat,
    input_inv (parse_expr_ (F := F) fuel) ∧ input_inv (parse_or_ (F := F) fuel) ∧
    input_inv (parse_and_ (F := F) fuel) ∧ input_inv (parse_eq_ (F := F) fuel) ∧
    input_inv (parse_rel_ (F := F) fuel) ∧ input_inv (parse_add_ (F := F) fuel) ∧
    input_inv (parse_mul_ (F := F) fuel) ∧ input_inv (parse_pow_ (F := F) fuel) ∧
    input_inv (parse_unary_ (F := F) fuel) ∧ input_inv (parse_primary_ (F := F) fuel) ∧
    input_inv (parse_call_expr_ (F := F) fuel) ∧ input_inv (parse_arg_list_ (F := F) fuel)
  | 0 => by
    refine ⟨?_, ?_, ?_, ?_, ?_, ?_, ?_, ?_, ?_, ?_, ?_, ?_⟩ <;> intro s
    · rw [parse_expr_]
    · rw [parse_or_]
    · rw [parse_and_]
    · rw [parse_eq_]
    · rw [parse_rel_]
    · rw [parse_add_]
    · rw [parse_mul_]
    · rw [parse_pow_]
    · rw [parse_unary_]
    · rw [parse_primary_]
    · rw [parse_call_expr_]
    · rw [parse_arg_list_]
  | f + 1 => by
    obtain ⟨h1, h2, h3, h4, h5, h6, h7, h8, h9, h10, h11, h12⟩ := expr_parser_in f
    refine ⟨?_, ?_, ?_, ?_, ?_, ?_, ?_, ?_, ?_, ?_, ?_, ?_⟩
    · intro s; rw [parse_expr_]; exact h2 s
    · intro s; rw [parse_or_]; exact binop_layer_in _ _ h3 s
    · intro s; rw [parse_and_]; exact binop_layer_in _ _ h4 s
    · intro s; rw [parse_eq_]; exact binop_layer_in _ _ h5 s
    · intro s; rw [parse_rel_]; exact binop_layer_in _ _ h6 s
    · intro s; rw [parse_add_]; exact binop_layer_in _ _ h7 s
    · intro s; rw [parse_mul_]; exact binop_layer_in _ _ h8 s
    · exact parse_pow_in f h9 h8
    · exact parse_unary_in f h9 h10
    · exact parse_primary_in f h1 h11
    · exact parse_call_expr_in f h12
    · exact parse_arg_list_in f h1

@[simp] theorem parse_expr_in (fuel : Nat) (s : syntax_analyzer_t F) :
    parser_input (parse_expr_ fuel s).2 = parser_input s :=
  (expr_parser_in fuel).1 s

@[simp] theorem parse_arg_list_in_all (fuel : Nat) (s : syntax_analyzer_t F) :
    parser_input (parse_arg_list_ fuel s).2 = parser_input s :=
  (expr_parser_in fuel).2.2.2.2.2.2.2.2.2.2.2 s

end input_thms
section input_stmt_thms
variable {F : Type}

@[simp] theorem parse_var_decl_in (fuel : Nat) (s : syntax_analyzer_t F) :
    parser_input (parse_var_decl_ fuel s).2 = parser_input s := by
  unfold parse_var_decl_
  split
  · rfl
  · dsimp only
    split_ifs
    · rfl
    · split
      · simp
      · split_ifs <;> simp

@[simp] theorem parse_assignment_in (fuel : Nat) (s : syntax_analyzer_t F) :
    parser_input (parse_assignment_ fuel s).2 = parser_input s := by
  unfold parse_assignment_
  split
  · rfl
  · dsimp only
    split_ifs <;> simp

@[simp] theorem parse_break_in (s : syntax_analyzer_t F) :
    parser_input (parse_break_ s).2 = parser_input s := by
  unfold parse_break_
  split
  · rfl
  · split_ifs <;> simp

@[simp] theorem parse_return_in (fuel : Nat) (s : syntax_analyzer_t F) :
    parser_input (parse_return_ fuel s).2 = parser_input s := by
  unfold parse_return_
  split
  · rfl
  · dsimp only
    split_ifs <;> simp

@[simp] theorem parse_call_stmt_in (fuel : Nat) (s : syntax_analyzer_t F) :
    parser_input (parse_call_stmt_ fuel s).2 = parser_input s := by
  unfold parse_call_stmt_
  split
  · rfl
  · dsimp only
    split_ifs
    · rfl
    · split
      · simp
      · split_ifs <;> simp

@[simp] theorem parse_cout_stmt_in (fuel : Nat) (s : syntax_analyzer_t F) (kind : ast_kind_t) :
    parser_input (parse_cout_stmt_ fuel s kind).2 = parser_input s := by
  unfold parse_cout_stmt_
  split
  · rfl
  · dsimp only
    split_ifs <;> simp

@[simp] theorem then_semicolon_in (n : pres F) :
    parser_input (then_semicolon n).2 = parser_input n.2 := by
  unfold then_semicolon
  dsimp only
  split_ifs <;> simp

@[simp] theorem build_branches_in :
    ∀ (l : List (ast_node F × ast_node F × token_pos_t)) (tail : ast_node F)
      (sa : syntax_analyzer_t F), parser_input (build_branches l tail sa).2 = parser_input sa
  | [], _, _ => rfl
  | (c, s, pos) :: rest, tail, sa => by
    unfold build_branches
    dsimp only
    rw [build_branches_in rest]
    rfl

@[simp] theorem for_init_in (fuel : Nat) (s : syntax_analyzer_t F) :
    parser_input (for_init_ fuel s).2.2 = parser_input s := by
  unfold for_init_
  dsimp only
  split_ifs <;> simp

@[simp] theorem for_cond_in (fuel : Nat) (s : syntax_analyzer_t F) :
    parser_input (for_cond_ fuel s).2 = parser_input s := by
  unfold for_cond_
  split_ifs <;> simp

@[simp] theorem for_step_stmt_in (fuel : Nat) (s : syntax_analyzer_t F) :
    parser_input (for_step_stmt_ (for_step_ fuel s).2).2 = parser_input s := by
  unfold for_step_stmt_ for_step_
  dsimp only
  split_ifs <;> simp

@[simp] theorem parse_for_head_in (fuel : Nat) (s : syntax_analyzer_t F) :
    parser_input (parse_for_head_ fuel s).sa = parser_input s := by
  unfold parse_for_head_
  dsimp only
  split_ifs <;> simp [for_head_fail]

@[simp] theorem for_assemble_in (t : token_t F) (h : for_head F) (body : ast_node F)
    (s : syntax_analyzer_t F) : parser_input (for_assemble_ t h body s).2 = parser_input s := by
  unfold for_assemble_
  dsimp only
  split_ifs <;> rfl

theorem if_tail_in (stmt : syntax_analyzer_t F → pres F) (hA : input_inv stmt)
    (s : syntax_analyzer_t F) : parser_input (if_tail_ stmt s).2.2 = parser_input s := by
  unfold if_tail_
  split
  · rfl
  · dsimp only
    split_ifs
    · rfl
    · simp [hA _]
    · simp [hA _]

@[simp] theorem if_assemble_in (t : token_t F) (cond then_st : ast_node F)
    (branches : List (ast_node F × ast_node F × token_pos_t)) (tail : pres F) :
    parser_input (if_assemble_ t cond then_st branches tail).2 = parser_input tail.2 := by
  unfold if_assemble_
  dsimp only
  simp

theorem parse_statement_in_step (f : Nat) (hB : input_inv (parse_block_ (F := F) f))
    (hD : input_inv (parse_while_ (F := F) f)) (hE : input_inv (parse_for_desugared_ (F := F) f))
    (hF : input_inv (parse_if_ (F := F) f)) : input_inv (parse_statement_ (F := F) (f + 1)) := by
  intro s
  rw [parse_statement_]
  split
  · rfl
  · rename_i t _
    by_cases h0 : t.kind = .TOK_KW_YAP
    · rw [if_pos h0]; exact hB s
    rw [if_neg h0]
    by_cases h1 : t.kind = .TOK_KW_LOWKEY
    · rw [if_pos h1]; exact hD s
    rw [if_neg h1]
    by_cases h2 : t.kind = .TOK_KW_HIGHKEY
    · rw [if_pos h2]; exact hE s
    rw [if_neg h2]
    by_cases h3 : t.kind = .TOK_KW_ALPHA
    · rw [if_pos h3]; exact hF s
    rw [if_neg h3]
    by_cases h4 : is_type_tok_ t.kind = true
    · rw [if_pos h4]; simp
    rw [if_neg h4]
    by_cases h5 : (decide (t.kind = .TOK_IDENTIFIER) && peek1_is s .TOK_KW_GASLIGHT) = true
    · rw [if_pos h5]; simp
    rw [if_neg h5]
    by_cases h6 : t.kind = .TOK_KW_GG
    · rw [if_pos h6]; simp
    rw [if_neg h6]
    by_cases h7 : t.kind = .TOK_KW_MICDROP
    · rw [if_pos h7]; simp
    rw [if_neg h7]
    by_cases h8 : t.kind = .TOK_KW_BRUH
    · rw [if_pos h8]; simp
    rw [if_neg h8]
    by_cases h9 : t.kind = .TOK_KW_BASED
    · rw [if_pos h9]; simp
    rw [if_neg h9]
    by_cases h10 : t.kind = .TOK_KW_MID
    · rw [if_pos h10]; simp
    rw [if_neg h10]
    by_cases h11 : t.kind = .TOK_KW_PEAK
    · rw [if_pos h11]; simp
    rw [if_neg h11]
    dsimp only
    split_ifs <;> simp

theorem parse_block_in_step (f : Nat) (hC : block_input_inv (parse_block_loop_ (F := F) f)) :
    input_inv (parse_block_ (F := F) (f + 1)) := by
  intro s
  rw [parse_block_]
  split
  · rfl
  · dsimp only
    split_ifs <;> simp [hC _ _]

theorem parse_block_loop_in_step (f : Nat) (hA : input_inv (parse_statement_ (F := F) f))
    (hC : block_input_inv (parse_block_loop_ (F := F) f)) :
    block_input_inv (parse_block_loop_ (F := F) (f + 1)) := by
  intro b s
  rw [parse_block_loop_]
  split
  · simp
  · dsimp only
    split_ifs
    · rfl
    · exact hA s
    · rw [hC]; exact hA s

theorem parse_while_in_step (f : Nat) (hA : input_inv (parse_statement_ (F := F) f)) :
    input_inv (parse_while_ (F := F) (f + 1)) := by
  intro s
  rw [parse_while_]
  split
  · rfl
  · dsimp only
    have hb : parser_input (parse_statement_ f
        { (expect_ (parse_expr_ f (expect_ (sa_advance s) .TOK_LPAREN "(").2).2
            .TOK_RPAREN ")").2 with
          loop_depth := (expect_ (parse_expr_ f (expect_ (sa_advance s)
            .TOK_LPAREN "(").2).2 .TOK_RPAREN ")").2.loop_depth + 1 }).2 = parser_input s := by
      refine (hA _).trans ?_
      show parser_input (expect_ (parse_expr_ f (expect_ (sa_advance s) .TOK_LPAREN "(").2).2
        .TOK_RPAREN ")").2 = _
      simp
    split_ifs
    all_goals first | exact hb | simp

theorem parse_for_in_step (f : Nat) (hA : input_inv (parse_statement_ (F := F) f)) :
    input_inv (parse_for_desugared_ (F := F) (f + 1)) := by
  intro s
  rw [parse_for_desugared_]
  split
  · rfl
  · dsimp only
    have hb : parser_input (parse_statement_ f
        { (parse_for_head_ f (sa_advance s)).sa with
          loop_depth := (parse_for_head_ f (sa_advance s)).sa.loop_depth + 1 }).2
        = parser_input s := by
      refine (hA _).trans ?_
      show parser_input (parse_for_head_ f (sa_advance s)).sa = _
      simp
    split_ifs
    all_goals first | exact hb | (rw [for_assemble_in]; exact hb) | simp

theorem parse_omega_in_step (f : Nat) (hA : input_inv (parse_statement_ (F := F) f))
    (hG : omega_input_inv (parse_omega_loop_ (F := F) f)) :
    omega_input_inv (parse_omega_loop_ (F := F) (f + 1)) := by
  intro brs s
  rw [parse_omega_loop_]
  split
  · rfl
  · dsimp only
    split_ifs
    all_goals first | rfl | (rw [hG]; simp [hA _]) | simp [hA _]

theorem parse_if_in_step (f : Nat) (hA : input_inv (parse_statement_ (F := F) f))
    (hG : omega_input_inv (parse_omega_loop_ (F := F) f)) :
    input_inv (parse_if_ (F := F) (f + 1)) := by
  intro s
  rw [parse_if_]
  split
  · rfl
  · dsimp only
    split_ifs
    all_goals
      first
      | (split
         · simp [hA _, hG _ _]
         · simp [hA _, hG _ _, if_tail_in _ hA])
      | simp [hA _]

theorem stmt_parser_in : ∀ fuel : Nat,
    input_inv (parse_statement_ (F := F) fuel) ∧ input_inv (parse_block_ (F := F) fuel) ∧
    block_input_inv (parse_block_loop_ (F := F) fuel) ∧
    input_inv (parse_while_ (F := F) fuel) ∧
    input_inv (parse_for_desugared_ (F := F) fuel) ∧ input_inv (parse_if_ (F := F) fuel) ∧
    omega_input_inv (parse_omega_loop_ (F := F) fuel)
  | 0 => by
    refine ⟨?_, ?_, ?_, ?_, ?_, ?_, ?_⟩
    · intro s; rw [parse_statement_]
    · intro s; rw [parse_block_]
    · intro b s; rw [parse_block_loop_]
    · intro s; rw [parse_while_]
    · intro s; rw [parse_for_desugared_]
    · intro s; rw [parse_if_]
    · intro brs s; rw [parse_omega_loop_]
  | f + 1 => by
    obtain ⟨hA, hB, hC, hD, hE, hF, hG⟩ := stmt_parser_in f
    exact ⟨parse_statement_in_step f hB hD hE hF, parse_block_in_step f hC,
      parse_block_loop_in_step f hA hC, parse_while_in_step f hA, parse_for_in_step f hA,
      parse_if_in_step f hA hG, parse_omega_in_step f hA hG⟩

@[simp] theorem parse_block_in (fuel : Nat) (s : syntax_analyzer_t F) :
    parser_input (parse_block_ fuel s).2 = parser_input s :=
  (stmt_parser_in fuel).2.1 s

@[simp] theorem parse_param_loop_in : ∀ (rounds : Nat) (pl : ast_node F)
    (s : syntax_analyzer_t F), parser_input (parse_param_loop_ rounds pl s).2 = parser_input s
  | 0, _, _ => by rw [parse_param_loop_]
  | rounds + 1, pl, s => by
    rw [parse_param_loop_]
    split
    · simp
    · dsimp only
      split_ifs
      · simp
      · split
        · simp
        · split_ifs
          all_goals try (simp; done)
          rw [parse_param_loop_in rounds]
          simp

@[simp] theorem parse_param_list_in (s : syntax_analyzer_t F) :
    parser_input (parse_param_list_ s).2 = parser_input s := by
  unfold parse_param_list_
  dsimp only
  split
  · rfl
  · split_ifs <;> simp

@[simp] theorem func_finish_in (fn plist body : ast_node F) (rt : ast_type_t) (fname : Nat)
    (s : syntax_analyzer_t F) :
    parser_input (func_finish_ fn plist body rt fname s).2 = parser_input s := by
  unfold func_finish_
  dsimp only
  split_ifs <;> simp

@[simp] theorem func_body_in (fuel : Nat) (fn : ast_node F) (rt : ast_type_t) (fname : Nat)
    (s : syntax_analyzer_t F) :
    parser_input (func_body_ fuel fn rt fname s).2 = parser_input s := by
  unfold func_body_
  dsimp only
  have hb : parser_input (parse_block_ fuel
      { (expect_ (parse_param_list_ (sa_push_scope (expect_ s .TOK_LPAREN "(").2)).2
          .TOK_RPAREN ")").2 with cur_func_ret_type := rt }).2 = parser_input s := by
    refine (parse_block_in fuel _).trans ?_
    show parser_input (expect_ (parse_param_list_ (sa_push_scope
      (expect_ s .TOK_LPAREN "(").2)).2 .TOK_RPAREN ")").2 = _
    simp
  split_ifs
  all_goals first | (rw [func_finish_in]; exact hb) | simp

@[simp] theorem parse_function_decl_in (fuel : Nat) (s : syntax_analyzer_t F) :
    parser_input (parse_function_decl_ fuel s).2 = parser_input s := by
  unfold parse_function_decl_
  split
  · rfl
  · dsimp only
    split_ifs
    all_goals try (simp; done)
    all_goals
      split
      · simp
      · split_ifs <;> simp

@[simp] theorem parse_program_loop_in (fuel : Nat) : ∀ (rounds : Nat) (program : ast_node F)
    (any : Bool) (s : syntax_analyzer_t F),
    parser_input (parse_program_loop_ fuel rounds program any s).2.2 = parser_input s
  | 0, _, _, _ => by rw [parse_program_loop_]
  | rounds + 1, program, any, s => by
    rw [parse_program_loop_]
    split
    · simp
    · dsimp only
      split_ifs
      · rfl
      · simp
      · rw [parse_program_loop_in fuel rounds]
        simp

@[simp] theorem parse_program_in (fuel : Nat) (s : syntax_analyzer_t F) :
    parser_input (parse_program_ fuel s).2 = parser_input s := by
  unfold parse_program_
  dsimp only
  split_ifs <;> simp

@[simp] theorem resolve_forward_calls_in (s : syntax_analyzer_t F) :
    ∀ l : List (Nat × token_pos_t), parser_input (resolve_forward_calls s l).2 = parser_input s
  | [] => rfl
  | (n, p) :: rest => by
    unfold resolve_forward_calls
    split_ifs
    · simp
    · exact resolve_forward_calls_in s rest

theorem syntax_analyze_in (fuel : Nat) (sa0 : syntax_analyzer_t F) :
    parser_input (syntax_analyze fuel sa0).2.2 = parser_input sa0 := by
  unfold syntax_analyze
  dsimp only
  split_ifs
  · simp; rfl
  · simp; rfl

end input_stmt_thms
section func_ids
variable {F : Type}

@[simp] theorem add_child_u (a b : ast_node F) : (ast_add_child a b).u = a.u := by
  cases a <;> cases b <;> rfl

theorem chain_list_append_sibling (Q : ast_payload F → Prop) (x : ast_node F) (hx : Q x.u) :
    ∀ l : ast_node F, (∀ c ∈ chain_list l, Q c.u) →
      ∀ c ∈ chain_list (append_sibling l x), Q c.u
  | .nil, _, c, hc => by
    cases x with
    | nil => simp [append_sibling, ast_node.set_right, chain_list] at hc
    | node k p t u l r =>
      simp only [append_sibling, ast_node.set_right, chain_list, List.mem_singleton] at hc
      rw [hc]; exact hx
  | .node k p t u l r, h, c, hc => by
    simp only [append_sibling, chain_list, List.mem_cons] at hc
    rcases hc with e | e
    · rw [e]
      exact h (.node k p t u l r) (by simp [chain_list])
    · exact chain_list_append_sibling Q x hx r
        (fun d hd => h d (by simp [chain_list, hd])) c e

theorem chain_list_add_child (Q : ast_payload F → Prop) (p x : ast_node F) (hx : Q x.u)
    (h : ∀ c ∈ chain_list p.left, Q c.u) :
    ∀ c ∈ chain_list (ast_add_child p x).left, Q c.u := by
  cases p with
  | nil => intro c hc; simp [ast_add_child, ast_node.left, chain_list] at hc
  | node k q t u l r =>
    cases x with
    | nil => exact h
    | node k2 q2 t2 u2 l2 r2 =>
      exact chain_list_append_sibling Q _ hx l h

theorem cur_mem (s : syntax_analyzer_t F) (t : token_t F) (h : cur_ s = some t) :
    t ∈ s.tokens := by
  unfold cur_ at h
  obtain ⟨hi, he⟩ := List.get?_eq_some.mp h
  rw [← he]
  exact List.get_mem _ _ _

theorem require_name_id_val (s : syntax_analyzer_t F) (t : token_t F) (c : String)
    (h : (require_name_id_ s (some t) c).1 ≠ SIZE_MAX) :
    (require_name_id_ s (some t) c).1 = t.name_id := by
  unfold require_name_id_ at h ⊢
  dsimp only at h ⊢
  split_ifs at h ⊢ with h1 h2
  · exact absurd rfl h
  · exact absurd rfl h
  · rfl

theorem func_finish_u (fn plist body : ast_node F) (rt : ast_type_t) (fname : Nat)
    (s : syntax_analyzer_t F) (h : (func_finish_ fn plist body rt fname s).1.is_some = true) :
    (func_finish_ fn plist body rt fname s).1.u = fn.u := by
  revert h
  unfold func_finish_
  dsimp only
  split_ifs
  all_goals try (intro h; simp [sa_fail, ast_node.is_some] at h; done)
  intro _
  simp

theorem func_body_u (fuel : Nat) (fn : ast_node F) (rt : ast_type_t) (fname : Nat)
    (s : syntax_analyzer_t F) (h : (func_body_ fuel fn rt fname s).1.is_some = true) :
    (func_body_ fuel fn rt fname s).1.u = fn.u := by
  revert h
  unfold func_body_
  dsimp only
  split_ifs
  all_goals try (intro h; simp [ast_node.is_some] at h; done)
  intro h
  exact func_finish_u _ _ _ _ _ _ h

/-- The name of a function made by `parse_function_decl_` is the name id of a
token, and it is not `SIZE_MAX`. -/
theorem parse_function_decl_id (fuel : Nat) (s : syntax_analyzer_t F)
    (h : (parse_function_decl_ fuel s).1.is_some = true) :
    id_of_token s.tokens (parse_function_decl_ fuel s).1.u.name_id := by
  revert h
  unfold parse_function_decl_
  split
  · intro h; simp [ast_node.is_some] at h
  · rename_i tret _
    dsimp only
    split_ifs
    all_goals try (intro h; simp [sa_fail, ast_node.is_some] at h; done)
    all_goals
      split
      · intro h; simp [sa_fail, ast_node.is_some] at h
      · rename_i tid htid
        split_ifs with g1 g2 g3
        all_goals try (intro h; simp [sa_fail, ast_node.is_some] at h; done)
        intro h
        rw [func_body_u _ _ _ _ _ h]
        have hm : tid ∈ s.tokens := cur_mem (sa_advance s) tid htid
        refine ⟨g2, tid, hm, ?_⟩
        exact (require_name_id_val _ _ _ g2).symm

theorem parse_program_loop_ids (fuel : Nat) (toks : List (token_t F)) :
    ∀ (rounds : Nat) (program : ast_node F) (any : Bool) (s : syntax_analyzer_t F),
      s.tokens = toks → (∀ c ∈ chain_list program.left, id_of_token toks c.u.name_id) →
      ∀ c ∈ chain_list (parse_program_loop_ fuel rounds program any s).1.left,
        id_of_token toks c.u.name_id
  | 0, program, any, s, _, _ => by
    rw [parse_program_loop_]
    intro c hc
    simp [ast_node.left, chain_list] at hc
  | rounds + 1, program, any, s, hs, hp => by
    rw [parse_program_loop_]
    split
    · intro c hc; simp [ast_node.left, chain_list] at hc
    · dsimp only
      split_ifs with h1 h2
      · exact hp
      · intro c hc; simp [ast_node.left, chain_list] at hc
      · refine parse_program_loop_ids fuel toks rounds _ _ _ ?_ ?_
        · have := congrArg Prod.fst (parse_function_decl_in fuel s)
          exact this.trans hs
        · have hid := parse_function_decl_id fuel s (by simpa using h2)
          rw [hs] at hid
          exact chain_list_add_child (fun u => id_of_token toks u.name_id) _ _ hid hp

theorem parse_program_ids (fuel : Nat) (s : syntax_analyzer_t F) :
    ∀ c ∈ chain_list (parse_program_ fuel s).1.left, id_of_token s.tokens c.u.name_id := by
  unfold parse_program_
  dsimp only
  split_ifs
  all_goals try (intro c hc; simp [sa_fail, ast_node.left, chain_list] at hc; done)
  exact parse_program_loop_ids fuel s.tokens _ _ _ _ rfl
    (fun c hc => by simp [sa_new, ast_new, ast_node.left, chain_list] at hc)

/-- The front end gives a name table built by `nametable_insert` and a tree
whose functions have names stored in it. -/
theorem frontend_names (ops : f64_ops F) (fuel : Nat) (source : List Char)
    (h : (frontend ops fuel source).1 = .OK) :
    NtBuilt (frontend ops fuel source).2.2 ∧
    ∀ f ∈ chain_list (frontend ops fuel source).2.1.left,
      named (frontend ops fuel source).2.2 f.u.name_id = true := by
  unfold frontend at h ⊢
  dsimp only at h ⊢
  split_ifs at h ⊢ with hl
  · exact absurd h hl
  · have hl2 : (lexer_stream ops source).1 = .OK := not_not.mp hl
    obtain ⟨hb, ht⟩ := lexer_stream_names ops source hl2
    have hin := syntax_analyze_in fuel (syntax_analyzer_ctor source (lexer_stream ops source).2.1
      (lexer_stream ops source).2.2.nametable)
    have hnt : (syntax_analyze fuel (syntax_analyzer_ctor source (lexer_stream ops source).2.1
        (lexer_stream ops source).2.2.nametable)).2.2.nametable
        = (lexer_stream ops source).2.2.nametable := congrArg Prod.snd hin
    dsimp only
    rw [hnt]
    refine ⟨hb, fun f hf => ?_⟩
    obtain ⟨e, _⟩ := syntax_analyze_root fuel _ h
    rw [e] at hf
    obtain ⟨h1, t, htm, hte⟩ := parse_program_ids fuel _ f hf
    have htm2 : t ∈ (lexer_stream ops source).2.1 := htm
    rcases ht t htm2 with c | c
    · rw [hte] at c; exact absurd c h1
    · rw [hte] at c; exact named_of_lt _ _ h1 c

end func_ids
section labels_claim
variable {F : Type}

theorem names_inj_of_built (nt : nametable_t) (root : ast_node F) (hnt : NtBuilt nt)
    (hid : ∀ f ∈ chain_list root.left, named nt f.u.name_id = true) :
    ∀ f ∈ chain_list root.left, ∀ g ∈ chain_list root.left,
      name_str nt f.u.name_id = name_str nt g.u.name_id → f.u.name_id = g.u.name_id :=
  fun f hf g hg he =>
    name_str_inj nt (nt_inv_of_built nt hnt) _ _ (hid f hf) (hid g hg) he

/-- C40. Labels are unique.  For every source text that the front end accepts
and for which `backend_emit_asm` succeeds on the tree and the name table of
the front end, the label definitions among the emitted lines are pairwise
distinct; each of them is the label `:fn_<name>` of a function of the program
or a label made by `be_new_label_` for a value of the counter below its final
value.  A label made by `be_new_label_` shows the value of the counter, which
the call advances, so that two of them made for different values differ; none
of them is the label of a function; the functions of the program have
pairwise distinct labels.  The label definitions and the function labels are
pairwise distinct as well for every tree and every name table built by
`nametable_insert` in which the names of the functions are stored, whenever
`backend_emit_asm` succeeds. -/
theorem labels_unique (ops : f64_ops F) (fuel : Nat) (source : List Char)
    (hfe : (frontend ops fuel source).1 = .OK)
    (hok : (backend_emit_asm ops (frontend ops fuel source).2.2
      (frontend ops fuel source).2.1).1 = .OK) :
    (label_lines (backend_emit_asm ops (frontend ops fuel source).2.2
      (frontend ops fuel source).2.1).2.out).Nodup ∧
    (∀ s ∈ label_lines (backend_emit_asm ops (frontend ops fuel source).2.2
        (frontend ops fuel source).2.1).2.out,
      (∃ fn ∈ chain_list (frontend ops fuel source).2.1.left,
        s = fn_label (frontend ops fuel source).2.2 fn.u.name_id) ∨
      gen_in 0 (backend_emit_asm ops (frontend ops fuel source).2.2
        (frontend ops fuel source).2.1).2.label_counter s) ∧
    (∀ (be : backend_t) (pfx : String),
      (be_new_label_ be pfx).1 = gen_label pfx be.label_counter ∧
      (be_new_label_ be pfx).2.label_counter = be.label_counter + 1) ∧
    (∀ (p q : String) (m n : Nat), gen_label p m = gen_label q n → m = n) ∧
    (∀ (nt : nametable_t) (id : Nat) (p : String) (n : Nat), fn_label nt id ≠ gen_label p n) ∧
    ((chain_list (frontend ops fuel source).2.1.left).map
      (fun fn => fn_label (frontend ops fuel source).2.2 fn.u.name_id)).Nodup ∧
    (∀ (nt : nametable_t) (root : ast_node F), NtBuilt nt →
      (∀ f ∈ chain_list root.left, named nt f.u.name_id = true) →
      (backend_emit_asm ops nt root).1 = .OK →
      (label_lines (backend_emit_asm ops nt root).2.out).Nodup ∧
      ((chain_list root.left).map (fun fn => fn_label nt fn.u.name_id)).Nodup) := by
  obtain ⟨hb, hid⟩ := frontend_names ops fuel source hfe
  obtain ⟨c1, c2, c3, c4, _, c6⟩ := labels_of_names ops _ _
    (names_inj_of_built _ _ hb hid) hok
  refine ⟨c1, c2, c3, c4, fun nt => fn_label_not_gen nt, c6, fun nt root hnt hn ho => ?_⟩
  obtain ⟨d1, _, _, _, _, d6⟩ := labels_of_names ops nt root
    (names_inj_of_built nt root hnt hn) ho
  exact ⟨d1, d6⟩

/-- C40 (witness). The program `src_two_funcs` is accepted by the front end
and by `backend_emit_asm`, and its label definitions, listed here, are
pairwise distinct. -/
theorem labels_unique_witness :
    (frontend exact_ops 64 src_two_funcs).1 = err_t.OK ∧
    (backend_emit_asm exact_ops (frontend exact_ops 64 src_two_funcs).2.2
      (frontend exact_ops 64 src_two_funcs).2.1).1 = err_t.OK ∧
    label_lines (asm_of src_two_funcs).2.out
      = [":fn_f", ":L_if_next_2", ":L_if_end_1", ":L_fn_end_0", ":fn_main",
         ":L_while_begin_4", ":L_cmp_true_6", ":L_cmp_end_7", ":L_not_true_8",
         ":L_not_end_9", ":L_while_end_5", ":L_fn_end_3"] ∧
    (label_lines (backend_emit_asm exact_ops (frontend exact_ops 64 src_two_funcs).2.2
      (frontend exact_ops 64 src_two_funcs).2.1).2.out).Nodup :=
  ⟨by decide!, by decide!, by decide!,
    (labels_unique exact_ops 64 src_two_funcs (by decide!) (by decide!)).1⟩

end labels_claim

end Brainrot
